import Mathlib

/-!
BP5 step engine: serializer aggregation codec, read planning, statistics, Get.

A shallow embedding of parts of `BP5Serializer.cpp` and `BP5Deserializer.cpp`.
Buffers of `char` are lists of natural numbers (one entry per byte); `size_t`
and `uint64_t` quantities are natural numbers, reduced modulo `2 ^ 64` where a
value is stored in eight bytes.
-/

namespace BP5

/-! ## Part 1: definitions -/

/-! ## Aggregation codec (`CopyMetadataToContiguous` / `BreakoutContiguousMetadata`) -/

/-- The record `BP5Base::MetaMetaInfoBlock`: the two pointers are the byte
sequences they address, the two length fields are the lengths of these. -/
structure MetaMetaInfoBlock where
  MetaMetaInfo : List Nat
  MetaMetaID : List Nat
  deriving DecidableEq, Repr

/-- Field `MetaMetaInfoLen` of a block. -/
def MetaMetaInfoBlock.MetaMetaInfoLen (b : MetaMetaInfoBlock) : Nat := b.MetaMetaInfo.length

/-- Field `MetaMetaIDLen` of a block. -/
def MetaMetaInfoBlock.MetaMetaIDLen (b : MetaMetaInfoBlock) : Nat := b.MetaMetaID.length

/-- The record `core::iovec`: `iov_base` is `none` for a null pointer and
otherwise the bytes it addresses; `iov_len` is the length field. -/
structure iovec where
  iov_base : Option (List Nat)
  iov_len : Nat
  deriving DecidableEq, Repr

/-- The eight bytes of a `uint64_t` in memory (least significant first). -/
def u64Bytes (v : Nat) : List Nat :=
  (List.range 8).map (fun i => v / 256 ^ i % 256)

/-- The `uint64_t` held by a run of bytes (least significant first). -/
def u64OfBytes (bs : List Nat) : Nat :=
  bs.foldr (fun b acc => b + 256 * acc) 0

/-- The expression `((len + 7) & ~0x7)` on `size_t`. -/
def AlignedSize (len : Nat) : Nat :=
  (len + 7) &&& 0xFFFFFFFFFFFFFFF8

/-- The helper `CopyToBuffer(buffer, position, source, elements)`: overwrite the
buffer from `position` with the source bytes and advance `position`. -/
def CopyToBuffer (Ret : List Nat) (Position : Nat) (src : List Nat) : List Nat × Nat :=
  (Ret.take Position ++ src ++ Ret.drop (Position + src.length), Position + src.length)

/-- The size-counting pass of `CopyMetadataToContiguous`. -/
def RetSize (NewMetaMetaBlocks : List MetaMetaInfoBlock)
    (MetaEncodeBuffers AttributeEncodeBuffers : List iovec)
    (DataSizes WriterDataPositions : List Nat) : Nat :=
  let r := 8
  let r := NewMetaMetaBlocks.foldl
    (fun r n => r + 2 * 8 + (n.MetaMetaInfoLen + n.MetaMetaIDLen)) r
  let r := r + 8
  let r := MetaEncodeBuffers.foldl (fun r m => r + 8 + AlignedSize m.iov_len) r
  let r := r + 8
  let r := AttributeEncodeBuffers.foldl (fun r a => r + 8 + AlignedSize a.iov_len) r
  let r := r + 8
  let r := r + DataSizes.length * 8
  let r := r + 8
  r + WriterDataPositions.length * 8

/-- Loop body of the copy pass over `NewMetaMetaBlocks`. -/
def copyMetaMeta (s : List Nat × Nat) (n : MetaMetaInfoBlock) : List Nat × Nat :=
  let IDLen := n.MetaMetaIDLen
  let InfoLen := n.MetaMetaInfoLen
  let s := CopyToBuffer s.1 s.2 (u64Bytes IDLen)
  let s := CopyToBuffer s.1 s.2 (u64Bytes InfoLen)
  let s := CopyToBuffer s.1 s.2 (n.MetaMetaID.take IDLen)
  CopyToBuffer s.1 s.2 (n.MetaMetaInfo.take InfoLen)

/-- Loop body of the copy pass over `MetaEncodeBuffers`. -/
def copyMeta (s : List Nat × Nat) (m : iovec) : List Nat × Nat :=
  let AlignedSize := AlignedSize m.iov_len
  let s := CopyToBuffer s.1 s.2 (u64Bytes AlignedSize)
  let s := CopyToBuffer s.1 s.2 ((m.iov_base.getD []).take m.iov_len)
  if m.iov_len ≠ AlignedSize then
    CopyToBuffer s.1 s.2 ((u64Bytes 0).take (AlignedSize - m.iov_len))
  else s

/-- Loop body of the copy pass over `AttributeEncodeBuffers`. -/
def copyAttr (s : List Nat × Nat) (a : iovec) : List Nat × Nat :=
  match a.iov_base with
  | some base =>
    let AlignedSize := AlignedSize a.iov_len
    let s := CopyToBuffer s.1 s.2 (u64Bytes AlignedSize)
    let s := CopyToBuffer s.1 s.2 (base.take a.iov_len)
    if a.iov_len ≠ AlignedSize then
      CopyToBuffer s.1 s.2 ((u64Bytes 0).take (AlignedSize - a.iov_len))
    else s
  | none => CopyToBuffer s.1 s.2 (u64Bytes 0)

/-- The function `BP5Serializer::CopyMetadataToContiguous`. -/
def CopyMetadataToContiguous (NewMetaMetaBlocks : List MetaMetaInfoBlock)
    (MetaEncodeBuffers AttributeEncodeBuffers : List iovec)
    (DataSizes WriterDataPositions : List Nat) : List Nat :=
  let NMMBCount := NewMetaMetaBlocks.length
  let MBCount := MetaEncodeBuffers.length
  let ABCount := AttributeEncodeBuffers.length
  let DSCount := DataSizes.length
  let WDPCount := WriterDataPositions.length
  let Ret := List.replicate
    (RetSize NewMetaMetaBlocks MetaEncodeBuffers AttributeEncodeBuffers DataSizes
      WriterDataPositions) 0
  let s := CopyToBuffer Ret 0 (u64Bytes NMMBCount)
  let s := NewMetaMetaBlocks.foldl copyMetaMeta s
  let s := CopyToBuffer s.1 s.2 (u64Bytes MBCount)
  let s := MetaEncodeBuffers.foldl copyMeta s
  let s := CopyToBuffer s.1 s.2 (u64Bytes ABCount)
  let s := AttributeEncodeBuffers.foldl copyAttr s
  let s := CopyToBuffer s.1 s.2 (u64Bytes DSCount)
  let s := CopyToBuffer s.1 s.2 ((DataSizes.take DSCount).flatMap u64Bytes)
  let s := CopyToBuffer s.1 s.2 (u64Bytes WDPCount)
  let s := CopyToBuffer s.1 s.2 ((WriterDataPositions.take WDPCount).flatMap u64Bytes)
  s.1

/-- The helper `CopyFromBuffer(buffer, position, &value)` for a `uint64_t`:
the value at `position` and the advanced position; `none` when the eight bytes
are not all inside the buffer. -/
def CopyFromBuffer (Aggregate : List Nat) (Position : Nat) : Option (Nat × Nat) :=
  if Position + 8 ≤ Aggregate.length then
    some (u64OfBytes ((Aggregate.drop Position).take 8), Position + 8)
  else none

/-- The view `{Aggregate.data() + Position, Len}`: `none` when it is not
inside the buffer. -/
def viewAt (Aggregate : List Nat) (Position Len : Nat) : Option (List Nat) :=
  if Position + Len ≤ Aggregate.length then some ((Aggregate.drop Position).take Len)
  else none

/-- The search loop of `BreakoutContiguousMetadata` that sets `Found`. -/
def Found (UniqueMetaMetaBlocks : List MetaMetaInfoBlock) (IDLen : Nat) (ID : List Nat) : Bool :=
  UniqueMetaMetaBlocks.foldl
    (fun found o =>
      if o.MetaMetaIDLen ≠ IDLen then found
      else if o.MetaMetaID.take IDLen = ID then true else found)
    false

/-- The loop `for (i = 0; i < NMMBCount; i++)` of `BreakoutContiguousMetadata`. -/
def breakoutMetaMeta (Aggregate : List Nat) :
    Nat → Nat → List MetaMetaInfoBlock → Option (Nat × List MetaMetaInfoBlock)
  | 0, Position, Unique => some (Position, Unique)
  | n + 1, Position, Unique =>
    match CopyFromBuffer Aggregate Position with
    | none => none
    | some (IDLen, Position) =>
      match CopyFromBuffer Aggregate Position with
      | none => none
      | some (InfoLen, Position) =>
        let IDPosition := Position
        let InfoPosition := Position + IDLen
        let Position := InfoPosition + InfoLen
        match viewAt Aggregate IDPosition IDLen, viewAt Aggregate InfoPosition InfoLen with
        | some ID, some Info =>
          if Found Unique IDLen ID then breakoutMetaMeta Aggregate n Position Unique
          else breakoutMetaMeta Aggregate n Position (Unique ++ [⟨Info, ID⟩])
        | _, _ => none

/-- The loops over `MBCount` and `ABCount` of `BreakoutContiguousMetadata`
(the two have the same body). -/
def breakoutBlocks (Aggregate : List Nat) :
    Nat → Nat → List iovec → Option (Nat × List iovec)
  | 0, Position, Blocks => some (Position, Blocks)
  | n + 1, Position, Blocks =>
    match CopyFromBuffer Aggregate Position with
    | none => none
    | some (MEBSize, Position) =>
      match viewAt Aggregate Position MEBSize with
      | none => none
      | some v => breakoutBlocks Aggregate n (Position + MEBSize) (Blocks ++ [⟨some v, MEBSize⟩])

/-- The loops over `DSCount` and `WDPCount` of `BreakoutContiguousMetadata`. -/
def breakoutU64s (Aggregate : List Nat) :
    Nat → Nat → List Nat → Option (Nat × List Nat)
  | 0, Position, Out => some (Position, Out)
  | n + 1, Position, Out =>
    match CopyFromBuffer Aggregate Position with
    | none => none
    | some (element, Position) => breakoutU64s Aggregate n Position (Out ++ [element])

/-- The in/out arguments and the result of `BreakoutContiguousMetadata`. -/
structure BreakoutState where
  Position : Nat
  MetadataBlocks : List iovec
  UniqueMetaMetaBlocks : List MetaMetaInfoBlock
  AttributeBlocks : List iovec
  DataSizes : List Nat
  WriterDataPositions : List Nat
  deriving DecidableEq, Repr

/-- One iteration of the loop over `Rank` of `BreakoutContiguousMetadata`. -/
def breakoutRank (Aggregate : List Nat) (s : BreakoutState) : Option BreakoutState :=
  match CopyFromBuffer Aggregate s.Position with
  | none => none
  | some (NMMBCount, Position) =>
  match breakoutMetaMeta Aggregate NMMBCount Position s.UniqueMetaMetaBlocks with
  | none => none
  | some (Position, Unique) =>
  match CopyFromBuffer Aggregate Position with
  | none => none
  | some (MBCount, Position) =>
  match breakoutBlocks Aggregate MBCount Position s.MetadataBlocks with
  | none => none
  | some (Position, MetadataBlocks) =>
  match CopyFromBuffer Aggregate Position with
  | none => none
  | some (ABCount, Position) =>
  match breakoutBlocks Aggregate ABCount Position s.AttributeBlocks with
  | none => none
  | some (Position, AttributeBlocks) =>
  match CopyFromBuffer Aggregate Position with
  | none => none
  | some (DSCount, Position) =>
  match breakoutU64s Aggregate DSCount Position s.DataSizes with
  | none => none
  | some (Position, DataSizes) =>
  match CopyFromBuffer Aggregate Position with
  | none => none
  | some (WDPCount, Position) =>
  match breakoutU64s Aggregate WDPCount Position s.WriterDataPositions with
  | none => none
  | some (Position, WriterDataPositions) =>
    some ⟨Position, MetadataBlocks, Unique, AttributeBlocks, DataSizes, WriterDataPositions⟩

/-- The function `BP5Serializer::BreakoutContiguousMetadata`: `Counts` has one
entry per rank; the output lists are passed in and appended to. -/
def BreakoutContiguousMetadata (Aggregate : List Nat) (Counts : List Nat)
    (UniqueMetaMetaBlocks : List MetaMetaInfoBlock) (AttributeBlocks : List iovec)
    (DataSizes WriterDataPositions : List Nat) : Option BreakoutState :=
  Counts.foldl (fun s _ => s.bind (breakoutRank Aggregate))
    (some ⟨0, [], UniqueMetaMetaBlocks, AttributeBlocks, DataSizes, WriterDataPositions⟩)

/-! ### Facts about the byte-level helpers -/

/-- The bytes of a blob followed by the zero bytes that bring its length to
`AlignedSize`. -/
def padded (b : List Nat) : List Nat :=
  b ++ List.replicate (AlignedSize b.length - b.length) 0

/-- The view that `BreakoutContiguousMetadata` hands back for a blob written by
`CopyMetadataToContiguous`: a null pointer counts as the empty blob. -/
def returned (v : iovec) : iovec :=
  ⟨some (padded (v.iov_base.getD [])), AlignedSize (v.iov_base.getD []).length⟩

/-- The blocks of a list of meta-meta blocks that are the first with their ID. -/
def removeRepeatedID : List MetaMetaInfoBlock → List MetaMetaInfoBlock
  | [] => []
  | b :: bs => b :: (removeRepeatedID bs).filter (fun c => decide (c.MetaMetaID ≠ b.MetaMetaID))

/-- Bytes written for one meta-meta block. -/
def encMetaMeta (n : MetaMetaInfoBlock) : List Nat :=
  u64Bytes n.MetaMetaIDLen ++ (u64Bytes n.MetaMetaInfoLen ++ (n.MetaMetaID ++ n.MetaMetaInfo))

/-- Bytes written for one metadata or attribute blob. -/
def encBlock (v : iovec) : List Nat :=
  u64Bytes (AlignedSize (v.iov_base.getD []).length) ++ padded (v.iov_base.getD [])

/-- The buffer holds `W` in front of the write position. -/
def Written (s : List Nat × Nat) (W : List Nat) : Prop :=
  s.2 = W.length ∧ W <+: s.1

/-- The byte stream that `CopyMetadataToContiguous` lays down. -/
def encoded (X : List MetaMetaInfoBlock) (M A : List iovec) (DS WDP : List Nat) : List Nat :=
  u64Bytes X.length ++ (X.flatMap encMetaMeta ++ (u64Bytes M.length ++ (M.flatMap encBlock ++
    (u64Bytes A.length ++ (A.flatMap encBlock ++ (u64Bytes DS.length ++ (DS.flatMap u64Bytes ++
      (u64Bytes WDP.length ++ WDP.flatMap u64Bytes))))))))

/-! ### Reading the stream back -/

/-- The bytes of the buffer from `pos` on are `rest`. -/
def ReadAt (A : List Nat) (pos : Nat) (rest : List Nat) : Prop :=
  pos ≤ A.length ∧ A.drop pos = rest

/-- The list of unique blocks after the loop of `BreakoutContiguousMetadata`
has seen one more block. -/
def addUnique (U : List MetaMetaInfoBlock) (b : MetaMetaInfoBlock) : List MetaMetaInfoBlock :=
  if Found U b.MetaMetaIDLen b.MetaMetaID then U else U ++ [b]

/-- No block of `U` has the ID of `c`. -/
def freshFor (U : List MetaMetaInfoBlock) (c : MetaMetaInfoBlock) : Bool :=
  !(U.any (fun o => decide (o.MetaMetaID = c.MetaMetaID)))

/-- A blob whose pointer, when not null, addresses exactly `iov_len` bytes. -/
def iovec.WellFormed (v : iovec) : Prop :=
  (v.iov_base.getD []).length = (if v.iov_base.isSome then v.iov_len else 0)

instance (v : iovec) : Decidable v.WellFormed := by
  unfold iovec.WellFormed; infer_instance

/-- The outputs of `BreakoutContiguousMetadata`: the returned metadata blocks
and the four lists it appends to. -/
def BreakoutState.outputs (s : BreakoutState) :
    List iovec × List MetaMetaInfoBlock × List iovec × List Nat × List Nat :=
  (s.MetadataBlocks, s.UniqueMetaMetaBlocks, s.AttributeBlocks, s.DataSizes,
    s.WriterDataPositions)

/-- Every count and length of the input of `CopyMetadataToContiguous` is a
`uint64_t`/`size_t` value, and `iov_len + 7` does not wrap. -/
def FitsSizeT (X : List MetaMetaInfoBlock) (M A : List iovec) (DS WDP : List Nat) : Prop :=
  X.length < 2 ^ 64 ∧ (∀ b ∈ X, b.MetaMetaIDLen < 2 ^ 64 ∧ b.MetaMetaInfoLen < 2 ^ 64) ∧
  M.length < 2 ^ 64 ∧ (∀ m ∈ M, m.iov_len + 7 < 2 ^ 64) ∧
  A.length < 2 ^ 64 ∧ (∀ a ∈ A, a.iov_len + 7 < 2 ^ 64) ∧
  DS.length < 2 ^ 64 ∧ (∀ x ∈ DS, x < 2 ^ 64) ∧
  WDP.length < 2 ^ 64 ∧ (∀ x ∈ WDP, x < 2 ^ 64)

instance (X : List MetaMetaInfoBlock) (M A : List iovec) (DS WDP : List Nat) :
    Decidable (FitsSizeT X M A DS WDP) := by
  unfold FitsSizeT; infer_instance

/-! ## Read planning (`GenerateReadRequests`) -/

/-- The enumeration `DataType`. -/
inductive DataType where
  | None | Char | Int8 | Int16 | Int32 | Int64 | UInt8 | UInt16 | UInt32 | UInt64
  | Float | Double | LongDouble | FloatComplex | DoubleComplex | String | Struct
  deriving DecidableEq, Repr

/-- The enumeration `ShapeID`. -/
inductive ShapeID where
  | Unknown | GlobalValue | GlobalArray | JoinedArray | LocalValue | LocalArray
  deriving DecidableEq, Repr

/-- The records `MetaArrayRec` / `MetaArrayRecOperator` / `MetaArrayRecMM`: a
pointer field is the array it addresses, `none` for a null pointer;
`DataBlockSize` is the extra field of the operator variant and `MinMax` the
array behind the pointer at `MinMaxOffset`, one entry per element-sized slot
(the values of an integer element type). -/
structure MetaArrayRecOperator where
  Dims : Nat
  BlockCount : Nat
  DBCount : Nat
  Shape : Option (List Nat)
  Count : Option (List Nat)
  Offsets : Option (List Nat)
  DataBlockLocation : List Nat
  DataBlockSize : List Nat
  MinMax : Option (List Int)
  deriving DecidableEq, Repr

/-- The fields of `BP5VarRec` used by read planning and block queries:
`Type_` is the field `Type`, `TypeSize` is `helper::GetDataTypeSize(Type)`,
`Operator` is `none` for a null operator string and `MinMaxOffset` is `none`
for `SIZE_MAX`. -/
structure BP5VarRec where
  VarNum : Nat
  Type_ : DataType
  OrigShapeID : ShapeID
  DimCount : Nat
  TypeSize : Nat
  ElementSize : Nat
  Operator : Option String
  MinMaxOffset : Option Nat
  deriving DecidableEq, Repr

/-- The enumeration `RequestTypeEnum`. -/
inductive RequestTypeEnum where
  | Global
  | Local
  deriving DecidableEq, Repr

/-- The record `BP5ArrayRequest` (without the destination pointer and the
memory space). -/
structure BP5ArrayRequest where
  VarRec : BP5VarRec
  RequestType : RequestTypeEnum
  Step : Nat
  BlockID : Nat
  Start : List Nat
  Count : List Nat
  deriving DecidableEq, Repr

/-- The record `ReadRequest` (without `DestinationAddr` and `Internal`). -/
structure ReadRequest where
  Timestep : Nat
  WriterRank : Nat
  StartOffset : Nat
  ReadLength : Nat
  OffsetInBlock : Nat
  ReqIndex : Nat
  BlockID : Nat
  deriving DecidableEq, Repr

/-- The reader state that read planning and the block queries consult: the
mode flags, `m_ControlArray.size()`, `WriterCohortSize(Step)` and
`GetMetadataBase(VarRec, Step, WriterRank)`, whose result is `none` for a null
pointer (variable not written by that writer on that step). The pointer is read
as a `MetaArrayRec` for an array variable (`GetMetadataBase`) and as the value
itself for a scalar variable (`GetMetadataValue`). -/
structure Deserializer where
  m_WriterIsRowMajor : Bool
  m_ReaderIsRowMajor : Bool
  m_RandomAccessMode : Bool
  ControlArraySize : Nat
  WriterCohortSize : Nat → Nat
  GetMetadataBase : BP5VarRec → Nat → Nat → Option MetaArrayRecOperator
  GetMetadataValue : BP5VarRec → Nat → Nat → Option Int

/-- The function `IntersectionStartCount`: `none` when it returns false, else
the arrays `outstart`, `outcount`. The ends `start + count - 1` are only used
after `count` was seen to be non-zero. -/
def IntersectionStartCount (dimensionsSize : Nat) (start1 count1 start2 count2 : List Nat) :
    Option (List Nat × List Nat) :=
  if (List.range dimensionsSize).any (fun d =>
      let end1 := start1.getD d 0 + count1.getD d 0 - 1
      let end2 := start2.getD d 0 + count2.getD d 0 - 1
      (count1.getD d 0 == 0 || count2.getD d 0 == 0) ||
        (decide (start2.getD d 0 > end1) || decide (end2 < start1.getD d 0)))
  then none
  else
    let out := (List.range dimensionsSize).map (fun d =>
      let intersectionStart :=
        if start1.getD d 0 < start2.getD d 0 then start2.getD d 0 else start1.getD d 0
      let end1 := start1.getD d 0 + count1.getD d 0 - 1
      let end2 := start2.getD d 0 + count2.getD d 0 - 1
      let intersectionEnd := if end1 > end2 then end2 else end1
      (intersectionStart, intersectionEnd - intersectionStart + 1))
    if out.any (fun sc => sc.2 == 0) then none
    else some (out.map Prod.fst, out.map Prod.snd)

/-- The function `LinearIndex`. -/
def LinearIndex (dimensionsSize : Nat) (count pos : List Nat) (IsRowMajor : Bool) : Nat :=
  if IsRowMajor then
    (List.range dimensionsSize).foldl (fun offset d => offset * count.getD d 0 + pos.getD d 0) 0
  else
    (List.range dimensionsSize).reverse.foldl
      (fun offset d => offset * count.getD d 0 + pos.getD d 0) 0

/-- The function `CalcBlockLength` of the deserializer. -/
def CalcBlockLength (dimensionsSize : Nat) (count : List Nat) : Nat :=
  ((List.range dimensionsSize).drop 1).foldl (fun len d => len * count.getD d 0)
    (count.getD 0 0)

/-- The function `BP5Serializer::CalcSize`. -/
def CalcSize (Count : Nat) (Vals : List Nat) : Nat :=
  (List.range Count).foldl (fun Elems i => Elems * Vals.getD i 0) 1

/-- The body of the loop over writers for a `Local` request, from a given
writer rank on (the loop ends at the first emitted request). -/
def localRequests (d : Deserializer) (Req : BP5ArrayRequest) (ReqIndex : Nat) :
    List Nat → Nat → List ReadRequest
  | [], _ => []
  | WriterRank :: ranks, NodeFirstBlock =>
    match d.GetMetadataBase Req.VarRec Req.Step WriterRank with
    | none => localRequests d Req ReqIndex ranks NodeFirstBlock
    | some writer_meta_base =>
      let NodeLastBlock := (NodeFirstBlock + writer_meta_base.BlockCount + (2 ^ 64 - 1)) % 2 ^ 64
      if NodeFirstBlock ≤ Req.BlockID ∧ NodeLastBlock ≥ Req.BlockID then
        let NeededBlock := Req.BlockID - NodeFirstBlock
        let StartDim := NeededBlock * Req.VarRec.DimCount
        [{ Timestep := Req.Step
           WriterRank := WriterRank
           StartOffset := writer_meta_base.DataBlockLocation.getD NeededBlock 0
           ReadLength := Req.VarRec.TypeSize *
             CalcBlockLength Req.VarRec.DimCount
               ((writer_meta_base.Count.getD []).drop StartDim)
           OffsetInBlock := 0
           ReqIndex := ReqIndex
           BlockID := NeededBlock }]
      else localRequests d Req ReqIndex ranks (NodeFirstBlock + writer_meta_base.BlockCount)

/-- The body of the loop over `Block` for a `Global` request. -/
def globalBlockRequests (d : Deserializer) (Req : BP5ArrayRequest) (ReqIndex WriterRank : Nat)
    (writer_meta_base : MetaArrayRecOperator) (Block : Nat) : List ReadRequest :=
  let StartDim := Block * Req.VarRec.DimCount
  match IntersectionStartCount Req.VarRec.DimCount Req.Start Req.Count
      ((writer_meta_base.Offsets.getD []).drop StartDim)
      ((writer_meta_base.Count.getD []).drop StartDim) with
  | none => []
  | some (intersectionstart, intersectioncount) =>
    if Req.VarRec.Operator ≠ none then
      [{ Timestep := Req.Step
         WriterRank := WriterRank
         StartOffset := writer_meta_base.DataBlockLocation.getD Block 0
         ReadLength := writer_meta_base.DataBlockSize.getD Block 0
         OffsetInBlock := 0
         ReqIndex := ReqIndex
         BlockID := Block }]
    else
      let intersectionstart := (List.range Req.VarRec.DimCount).map (fun Dim =>
        intersectionstart.getD Dim 0 - (writer_meta_base.Offsets.getD []).getD (StartDim + Dim) 0)
      let StartOffsetInBlock := Req.VarRec.TypeSize *
        LinearIndex Req.VarRec.DimCount ((writer_meta_base.Count.getD []).drop StartDim)
          intersectionstart d.m_ReaderIsRowMajor
      let intersectionstart := (List.range Req.VarRec.DimCount).map (fun Dim =>
        intersectionstart.getD Dim 0 + (intersectioncount.getD Dim 0 - 1))
      let EndOffsetInBlock := Req.VarRec.TypeSize *
        (LinearIndex Req.VarRec.DimCount ((writer_meta_base.Count.getD []).drop StartDim)
          intersectionstart d.m_ReaderIsRowMajor + 1)
      [{ Timestep := Req.Step
         WriterRank := WriterRank
         StartOffset := writer_meta_base.DataBlockLocation.getD Block 0 + StartOffsetInBlock
         ReadLength := EndOffsetInBlock - StartOffsetInBlock
         OffsetInBlock := StartOffsetInBlock
         ReqIndex := ReqIndex
         BlockID := Block }]

/-- The loop over writers and their blocks for a `Global` request. -/
def globalRequests (d : Deserializer) (Req : BP5ArrayRequest) (ReqIndex : Nat) :
    List ReadRequest :=
  (List.range (d.WriterCohortSize Req.Step)).flatMap (fun WriterRank =>
    match d.GetMetadataBase Req.VarRec Req.Step WriterRank with
    | none => []
    | some writer_meta_base =>
      (List.range writer_meta_base.BlockCount).flatMap
        (globalBlockRequests d Req ReqIndex WriterRank writer_meta_base))

/-- The read requests that `GenerateReadRequests` emits for one pending request. -/
def requestsFor (d : Deserializer) (ReqIndex : Nat) (Req : BP5ArrayRequest) :
    List ReadRequest :=
  match Req.RequestType with
  | .Local => localRequests d Req ReqIndex (List.range (d.WriterCohortSize Req.Step)) 0
  | .Global => globalRequests d Req ReqIndex

/-- The function `BP5Deserializer::GenerateReadRequests` (returned vector). -/
def GenerateReadRequests (d : Deserializer) (PendingRequests : List BP5ArrayRequest) :
    List ReadRequest :=
  (List.range PendingRequests.length).flatMap (fun ReqIndex =>
    match PendingRequests.get? ReqIndex with
    | none => []
    | some Req => requestsFor d ReqIndex Req)

/-! ### Geometry of boxes -/

/-- The point `p` lies in the box with the given start and count tuples. -/
def InBox (dims : Nat) (start count p : List Nat) : Prop :=
  ∀ d, d < dims → start.getD d 0 ≤ p.getD d 0 ∧ p.getD d 0 < start.getD d 0 + count.getD d 0

/-- The two boxes have a point in common (a non-empty intersection). -/
def BoxesIntersect (dims : Nat) (start1 count1 start2 count2 : List Nat) : Prop :=
  ∃ p : List Nat, InBox dims start1 count1 p ∧ InBox dims start2 count2 p

/-- Lowest corner of the intersection of two boxes. -/
def lowCorner (dims : Nat) (start1 start2 : List Nat) : List Nat :=
  (List.range dims).map (fun d => max (start1.getD d 0) (start2.getD d 0))

/-- Highest corner of the intersection of two boxes (last point in each dimension). -/
def highCorner (dims : Nat) (start1 count1 start2 count2 : List Nat) : List Nat :=
  (List.range dims).map (fun d =>
    min (start1.getD d 0 + count1.getD d 0) (start2.getD d 0 + count2.getD d 0) - 1)

/-! ### Facts about `LinearIndex` -/

/-- The `Offsets` tuple of block `b` of a writer record. -/
def blockStart (m : MetaArrayRecOperator) (dims b : Nat) : List Nat :=
  (m.Offsets.getD []).drop (b * dims)

/-- The `Count` tuple of block `b` of a writer record. -/
def blockCount (m : MetaArrayRecOperator) (dims b : Nat) : List Nat :=
  (m.Count.getD []).drop (b * dims)

/-- Position of a global point relative to the start of a block. -/
def relPos (dims : Nat) (start p : List Nat) : List Nat :=
  (List.range dims).map (fun d => p.getD d 0 - start.getD d 0)

/-- Index of the element at global point `p` inside block `b` of a writer
record, the elements laid out by the block's `Count` in the given majorness. -/
def elemIndex (m : MetaArrayRecOperator) (dims b : Nat) (IsRowMajor : Bool) (p : List Nat) : Nat :=
  LinearIndex dims (blockCount m dims b) (relPos dims (blockStart m dims b) p) IsRowMajor

/-! ### The requests of one block -/

/-- Order of read requests by writer rank and then block index. -/
def rankBlockLt (x y : ReadRequest) : Prop :=
  x.WriterRank < y.WriterRank ∨ (x.WriterRank = y.WriterRank ∧ x.BlockID < y.BlockID)

instance (dims : Nat) (start count p : List Nat) : Decidable (InBox dims start count p) := by
  unfold InBox; infer_instance

/-! ### Scenario S3: a `{2, 8}` array written by two writers, one row each -/

/-- Metadata of writer 0: one block, start `{0,0}`, count `{1,8}`. -/
def S3.meta0 : MetaArrayRecOperator :=
  { Dims := 2, BlockCount := 1, DBCount := 2, Shape := some [2, 8], Count := some [1, 8],
    Offsets := some [0, 0], DataBlockLocation := [0], DataBlockSize := [], MinMax := some [0, 7] }

/-- Metadata of writer 1: one block, start `{1,0}`, count `{1,8}`. -/
def S3.meta1 : MetaArrayRecOperator :=
  { Dims := 2, BlockCount := 1, DBCount := 2, Shape := some [2, 8], Count := some [1, 8],
    Offsets := some [1, 0], DataBlockLocation := [0], DataBlockSize := [], MinMax := some [100, 107] }

/-- A row-major reader that has installed the metadata of the two writers. -/
def S3.reader : Deserializer :=
  { m_WriterIsRowMajor := true
    m_ReaderIsRowMajor := true
    m_RandomAccessMode := false
    ControlArraySize := 0
    WriterCohortSize := fun _ => 2
    GetMetadataBase := fun _ _ WriterRank =>
      if WriterRank = 0 then some S3.meta0 else if WriterRank = 1 then some S3.meta1 else none
    GetMetadataValue := fun _ _ _ => none }

/-- The variable of the scenario: two dimensions, four-byte elements. -/
def S3.var : BP5VarRec :=
  { VarNum := 0, Type_ := DataType.Int32, OrigShapeID := ShapeID.GlobalArray, DimCount := 2,
    TypeSize := 4, ElementSize := 4, Operator := none, MinMaxOffset := some 56 }

/-- The request of the scenario: start `{0,3}`, count `{2,3}`. -/
def S3.request : BP5ArrayRequest :=
  { VarRec := S3.var, RequestType := RequestTypeEnum.Global, Step := 0, BlockID := 0,
    Start := [0, 3], Count := [2, 3] }

/-- Number of blocks of the variable that writer `w` holds on the step (zero
when it did not write the variable). -/
def writerBlockCount (d : Deserializer) (VarRec : BP5VarRec) (Step w : Nat) : Nat :=
  match d.GetMetadataBase VarRec Step w with
  | none => 0
  | some m => m.BlockCount

/-- Number of blocks of the variable held by the writers of rank below `w`. -/
def blocksBefore (d : Deserializer) (VarRec : BP5VarRec) (Step w : Nat) : Nat :=
  ((List.range w).map (writerBlockCount d VarRec Step)).sum

/-- The read request of a whole block for a `Local` request. -/
def wholeBlockRequest (Req : BP5ArrayRequest) (ReqIndex w : Nat) (m : MetaArrayRecOperator)
    (localBlock : Nat) : ReadRequest :=
  { Timestep := Req.Step, WriterRank := w,
    StartOffset := m.DataBlockLocation.getD localBlock 0,
    ReadLength := Req.VarRec.TypeSize *
      CalcSize Req.VarRec.DimCount (blockCount m Req.VarRec.DimCount localBlock),
    OffsetInBlock := 0, ReqIndex := ReqIndex, BlockID := localBlock }

/-! ### Scenario S2: a local array of ten elements written by two writers -/

/-- Metadata of either writer: one block of ten elements at data offset 0. -/
def S2.meta : MetaArrayRecOperator :=
  { Dims := 1, BlockCount := 1, DBCount := 1, Shape := none, Count := some [10],
    Offsets := none, DataBlockLocation := [0], DataBlockSize := [], MinMax := none }

/-- A reader that has installed the metadata of the two writers. -/
def S2.reader : Deserializer :=
  { m_WriterIsRowMajor := true
    m_ReaderIsRowMajor := true
    m_RandomAccessMode := true
    ControlArraySize := 3
    WriterCohortSize := fun _ => 2
    GetMetadataBase := fun _ _ WriterRank => if WriterRank < 2 then some S2.meta else none
    GetMetadataValue := fun _ _ _ => none }

/-- The request for block 1 of the variable (`SetBlockSelection(1)`). -/
def S2.request : BP5ArrayRequest :=
  { VarRec := { VarNum := 0, Type_ := DataType.Int32, OrigShapeID := ShapeID.LocalArray,
                DimCount := 1, TypeSize := 4, ElementSize := 4, Operator := none,
                MinMaxOffset := none },
    RequestType := RequestTypeEnum.Local, Step := 0, BlockID := 1, Start := [], Count := [] }

/-! ## Statistics and block queries (`VariableMinMax`, `MinBlocksInfo`) -/

/-- The record `MinMaxStruct`, its two unions read at the slot of an integer
element type. -/
structure MinMaxStruct where
  MinUnion : Int
  MaxUnion : Int
  deriving DecidableEq, Repr

/-- The function `ApplyElementMinMax`; on the floating types the source makes
the same two comparisons on floating-point values. -/
def ApplyElementMinMax (MinMax : MinMaxStruct) (Type_ : DataType) (Element : Int) :
    MinMaxStruct :=
  match Type_ with
  | .None => MinMax
  | .FloatComplex | .DoubleComplex | .String | .Struct => MinMax
  | .Char | .Int8 | .Int16 | .Int32 | .Int64 | .UInt8 | .UInt16 | .UInt32 | .UInt64
  | .Float | .Double | .LongDouble =>
    let MinMax : MinMaxStruct :=
      if Element < MinMax.MinUnion then { MinMax with MinUnion := Element } else MinMax
    if Element > MinMax.MaxUnion then { MinMax with MaxUnion := Element } else MinMax

/-- The constant `DefaultSizeT` (`SIZE_MAX`). -/
def DefaultSizeT : Nat := 2 ^ 64 - 1

/-- The loop over `B` of `VariableMinMax` for one writer record. -/
def foldBlocksMinMax (VarRec : BP5VarRec) (writer_meta_base : MetaArrayRecOperator)
    (MinMax : MinMaxStruct) : MinMaxStruct :=
  let WriterBlockCount :=
    if VarRec.DimCount ≠ 0 then writer_meta_base.DBCount / VarRec.DimCount else 1
  (List.range WriterBlockCount).foldl (fun MinMax B =>
    let MMs := writer_meta_base.MinMax.getD []
    let MinMax := ApplyElementMinMax MinMax VarRec.Type_ (MMs.getD (2 * B) 0)
    ApplyElementMinMax MinMax VarRec.Type_ (MMs.getD (2 * B + 1) 0)) MinMax

/-- The first non-null `GetMetadataBase` result of the `while` loop of the
`GlobalValue` branch of `VariableMinMax`. -/
def firstValue (d : Deserializer) (VarRec : BP5VarRec) (RelStep : Nat) :
    List Nat → Option Int
  | [] => none
  | WriterRank :: ranks =>
    match d.GetMetadataValue VarRec RelStep WriterRank with
    | some v => some v
    | none => firstValue d VarRec RelStep ranks

/-- The body of the loop over `RelStep` of `VariableMinMax`. -/
def stepMinMax (d : Deserializer) (VarRec : BP5VarRec) (writerCohortSize : Nat)
    (MinMax : MinMaxStruct) (RelStep : Nat) : MinMaxStruct :=
  if VarRec.OrigShapeID = ShapeID.LocalArray ∨ VarRec.OrigShapeID = ShapeID.GlobalArray then
    (List.range writerCohortSize).foldl (fun MinMax WriterRank =>
      match d.GetMetadataBase VarRec RelStep WriterRank with
      | none => MinMax
      | some writer_meta_base => foldBlocksMinMax VarRec writer_meta_base MinMax) MinMax
  else if VarRec.OrigShapeID = ShapeID.GlobalValue then
    match firstValue d VarRec RelStep (List.range writerCohortSize) with
    | some v => ApplyElementMinMax MinMax VarRec.Type_ v
    | none => MinMax
  else if VarRec.OrigShapeID = ShapeID.LocalValue then
    (List.range writerCohortSize).foldl (fun MinMax WriterRank =>
      match d.GetMetadataValue VarRec RelStep WriterRank with
      | some v => ApplyElementMinMax MinMax VarRec.Type_ v
      | none => MinMax) MinMax
  else MinMax

/-- The function `BP5Deserializer::VariableMinMax` (the value left in `MinMax`;
the function always returns true). `Init` is `MinMaxStruct::Init`, which is
declared outside the listed sources. -/
def VariableMinMax (d : Deserializer) (Init : DataType → MinMaxStruct) (VarRec : BP5VarRec)
    (Step : Nat) : MinMaxStruct :=
  if (VarRec.OrigShapeID = ShapeID.LocalArray ∨ VarRec.OrigShapeID = ShapeID.GlobalArray) ∧
      VarRec.MinMaxOffset = none then
    ⟨0, 0⟩
  else
    let MinMax := Init VarRec.Type_
    let writerCohortSize := d.WriterCohortSize Step
    let StartStep := if Step = DefaultSizeT then 0 else Step
    let StopStep :=
      if Step = DefaultSizeT then (if ¬ d.m_RandomAccessMode then 1 else d.ControlArraySize)
      else Step + 1
    (List.range' StartStep (StopStep - StartStep)).foldl
      (stepMinMax d VarRec writerCohortSize) MinMax

/-- A `size_t *` field of `MinVarInfo` / `MinBlockInfo`: null, a pointer to a
tuple of `Dims` entries, or an integer stored in the pointer (`(size_t *)n`). -/
inductive SizePtr where
  | null
  | tuple (t : List Nat)
  | value (n : Nat)
  deriving DecidableEq, Repr

/-- The record `MinBlockInfo` (without `BufferP`). -/
structure MinBlockInfo where
  WriterID : Nat
  BlockID : Nat
  Start : SizePtr
  Count : SizePtr
  MinMax : MinMaxStruct
  deriving DecidableEq, Repr

/-- The record `MinVarInfo`; `IsValue` is `none` where `MinBlocksInfo` leaves
what the constructor put. -/
structure MinVarInfo where
  Step : Nat
  Dims : Nat
  Shape : SizePtr
  IsReverseDims : Bool
  WasLocalValue : Bool
  IsValue : Option Bool
  BlocksInfo : List MinBlockInfo
  deriving DecidableEq, Repr

/-- The pointer `array + i * Dims` as the tuple it addresses (null stays null). -/
def tupleAt (array : Option (List Nat)) (Dims i : Nat) : SizePtr :=
  match array with
  | none => SizePtr.null
  | some a => SizePtr.tuple ((a.drop (i * Dims)).take Dims)

/-- The loop over writers of the value branch of `MinBlocksInfo`. -/
def valueBlocks (d : Deserializer) (Init : DataType → MinMaxStruct) (VarRec : BP5VarRec)
    (Step : Nat) : List Nat → Nat → List MinBlockInfo
  | [], _ => []
  | WriterRank :: ranks, Id =>
    match d.GetMetadataValue VarRec Step WriterRank with
    | none => valueBlocks d Init VarRec Step ranks Id
    | some v =>
      { WriterID := WriterRank
        BlockID := Id
        Start := if VarRec.OrigShapeID = ShapeID.LocalValue then SizePtr.value WriterRank
                 else SizePtr.null
        Count := if VarRec.OrigShapeID = ShapeID.LocalValue then SizePtr.value 1
                 else SizePtr.null
        MinMax := ApplyElementMinMax (Init VarRec.Type_) VarRec.Type_ v } ::
      valueBlocks d Init VarRec Step ranks (Id + 1)

/-- The first loop over writers of the array branch of `MinBlocksInfo`: the
value of `MV->Shape`. -/
def firstShape (d : Deserializer) (VarRec : BP5VarRec) (Step : Nat) :
    List Nat → Option (List Nat)
  | [] => none
  | WriterRank :: ranks =>
    match d.GetMetadataBase VarRec Step WriterRank with
    | none => firstShape d VarRec Step ranks
    | some writer_meta_base =>
      match writer_meta_base.Shape with
      | some shape => some shape
      | none => firstShape d VarRec Step ranks

/-- The block that the second loop of the array branch of `MinBlocksInfo`
pushes for local block `i` of a writer. -/
def arrayBlock (Init : DataType → MinMaxStruct) (VarRec : BP5VarRec) (Dims WriterRank Id : Nat)
    (writer_meta_base : MetaArrayRecOperator) (i : Nat) : MinBlockInfo :=
  let MMs := if VarRec.MinMaxOffset ≠ none then writer_meta_base.MinMax else none
  { WriterID := WriterRank
    BlockID := Id
    Start := tupleAt writer_meta_base.Offsets Dims i
    Count := tupleAt writer_meta_base.Count Dims i
    MinMax :=
      match MMs with
      | none => Init VarRec.Type_
      | some MMs =>
        ApplyElementMinMax
          (ApplyElementMinMax (Init VarRec.Type_) VarRec.Type_ (MMs.getD (2 * i) 0))
          VarRec.Type_ (MMs.getD (2 * i + 1) 0) }

/-- The second loop over writers of the array branch of `MinBlocksInfo`. -/
def arrayBlocks (d : Deserializer) (Init : DataType → MinMaxStruct) (VarRec : BP5VarRec)
    (Step Dims : Nat) : List Nat → Nat → List MinBlockInfo
  | [], _ => []
  | WriterRank :: ranks, Id =>
    match d.GetMetadataBase VarRec Step WriterRank with
    | none => arrayBlocks d Init VarRec Step Dims ranks Id
    | some writer_meta_base =>
      let WriterBlockCount := if Dims ≠ 0 then writer_meta_base.DBCount / Dims else 1
      (List.range WriterBlockCount).map (fun i =>
        arrayBlock Init VarRec Dims WriterRank (Id + i) writer_meta_base i) ++
      arrayBlocks d Init VarRec Step Dims ranks (Id + WriterBlockCount)

/-- The function `BP5Deserializer::MinBlocksInfo`. -/
def MinBlocksInfo (d : Deserializer) (Init : DataType → MinMaxStruct) (VarRec : BP5VarRec)
    (Step : Nat) : MinVarInfo :=
  let writerCohortSize := d.WriterCohortSize Step
  let IsReverseDims :=
    decide (VarRec.DimCount > 1) && (d.m_WriterIsRowMajor != d.m_ReaderIsRowMajor)
  let WasLocalValue := decide (VarRec.OrigShapeID = ShapeID.LocalValue)
  if VarRec.OrigShapeID = ShapeID.LocalValue ∨ VarRec.OrigShapeID = ShapeID.GlobalValue then
    { Step := Step
      Dims := if VarRec.OrigShapeID = ShapeID.LocalValue then 1 else VarRec.DimCount
      Shape := if VarRec.OrigShapeID = ShapeID.LocalValue then SizePtr.value writerCohortSize
               else SizePtr.null
      IsReverseDims := IsReverseDims
      WasLocalValue := WasLocalValue
      IsValue := some (decide (VarRec.OrigShapeID ≠ ShapeID.LocalValue))
      BlocksInfo := valueBlocks d Init VarRec Step (List.range writerCohortSize) 0 }
  else
    { Step := Step
      Dims := VarRec.DimCount
      Shape := match firstShape d VarRec Step (List.range writerCohortSize) with
               | none => SizePtr.null
               | some shape => SizePtr.tuple shape
      IsReverseDims := IsReverseDims
      WasLocalValue := WasLocalValue
      IsValue := none
      BlocksInfo := arrayBlocks d Init VarRec Step VarRec.DimCount
        (List.range writerCohortSize) 0 }

/-! ## Writer side (`Marshal`, `DumpDeferredBlocks`) -/

/-- Modelled from the spec: the data stager `BufferV`, which is declared outside
the listed sources. It is an append-only sequence of reservations; `allocs` holds
the `globalPos` and the size of each in order, `curSize` is `Size()`. -/
structure BufferV where
  allocs : List (Nat × Nat)
  curSize : Nat
  deriving DecidableEq, Repr

/-- The record `BufferV::BufferPos`. -/
structure BufferPos where
  bufferIdx : Nat
  posInBuffer : Nat
  globalPos : Nat
  deriving DecidableEq, Repr

/-- Modelled from the spec: the padding of `BufferV` ("padding for alignment",
"alignment of each stored block is at least the element size"): the next
position that is a multiple of `align`. -/
def BufferV.alignedPos (b : BufferV) (align : Nat) : Nat :=
  if align = 0 then b.curSize else (b.curSize + align - 1) / align * align

/-- Modelled from the spec: `BufferV::AddToVec(size, src, align, forceCopy,
memSpace) → globalPos` appends `size` bytes after the padding; whether the bytes
are copied now or referenced does not change the position. -/
def BufferV.AddToVec (b : BufferV) (size align : Nat) : BufferV × Nat :=
  let pos := b.alignedPos align
  ({ allocs := b.allocs ++ [(pos, size)], curSize := pos + size }, pos)

/-- Modelled from the spec: `BufferV::Allocate(size, align) → BufferPos`
reserves a contiguous writable region. -/
def BufferV.Allocate (b : BufferV) (size align : Nat) : BufferV × BufferPos :=
  let pos := b.alignedPos align
  ({ allocs := b.allocs ++ [(pos, size)], curSize := pos + size },
    { bufferIdx := b.allocs.length, posInBuffer := 0, globalPos := pos })

/-- Modelled from the spec: `BufferV::DownsizeLastAlloc(old, new)` reduces the
last reservation from `old` to `new` bytes. -/
def BufferV.DownsizeLastAlloc (b : BufferV) (oldSize newSize : Nat) : BufferV :=
  match b.allocs.getLast? with
  | none => b
  | some last =>
    { allocs := b.allocs.dropLast ++ [(last.1, newSize)]
      curSize := b.curSize - (oldSize - newSize) }

/-- An entry of `m_Operations`: the type string and the compressed size that
`Operate(data, offsets, count, type, out)` returns. -/
structure Operator where
  m_TypeString : String
  Operate : List Int → List Nat → List Nat → DataType → Nat

/-- The fields of `core::VariableBase` that `Marshal` reads; `Key` stands for
the address of the variable. -/
structure VariableBase where
  Key : Nat
  m_ShapeID : ShapeID
  m_SingleValue : Bool
  m_Operations : List Operator

/-- The record `FMField`. -/
structure FMField where
  field_name : String
  field_type : String
  field_size : Nat
  field_offset : Nat
  deriving DecidableEq, Repr

/-- The record `BP5WriterRec`; `MinMaxOffset` is `none` while it has not been
assigned. -/
structure BP5WriterRec where
  Key : Nat
  FieldID : Nat
  DimCount : Nat
  Type_ : DataType
  OperatorType : Option String
  MetaOffset : Nat
  MinMaxOffset : Option Nat
  deriving DecidableEq, Repr

/-- The record `DeferredExtern`; `Data` is the array behind the source pointer. -/
structure DeferredExtern where
  MetaOffset : Nat
  BlockID : Nat
  Data : List Int
  DataSize : Nat
  AlignReq : Nat
  deriving DecidableEq, Repr

/-- The state of a `BP5Serializer`. The metadata buffer is read through the
offsets of its fields: `MetaEntry` gives the `MetaArrayRec` at an offset and
`ScalarSlot` the scalar value at an offset (`none` for zeroed memory);
`BitField` is the bitfield of the step, read and written through
`BP5BitfieldTest` and `BP5BitfieldSet`. -/
structure BP5Serializer where
  m_StatsLevel : Nat
  RecList : List BP5WriterRec
  MetaFields : List FMField
  BitField : Nat → Bool
  MetaEntry : Nat → MetaArrayRecOperator
  ScalarSlot : Nat → Option (List Int)
  CurDataBuffer : Option BufferV
  m_PriorDataBufferSizeTotal : Nat
  DeferredExterns : List DeferredExtern

/-- Modelled from the spec: the helper `BP5BitfieldTest` of the base class, which
is declared outside the listed sources ("bit `i` = variable with field ID `i`
was written"): whether bit `Bit` of the bitfield is set. -/
abbrev BP5BitfieldTest (BitField : Nat → Bool) (Bit : Nat) : Bool := BitField Bit

/-- Modelled from the spec: the helper `BP5BitfieldSet` of the base class, which
is declared outside the listed sources: the bitfield with bit `Bit` set and
every other bit as before. -/
abbrev BP5BitfieldSet (BitField : Nat → Bool) (Bit : Nat) : Nat → Bool :=
  fun i => if i = Bit then true else BitField i

/-- A zeroed `MetaArrayRec`. -/
def zeroMetaArrayRec : MetaArrayRecOperator :=
  { Dims := 0, BlockCount := 0, DBCount := 0, Shape := none, Count := none, Offsets := none,
    DataBlockLocation := [], DataBlockSize := [], MinMax := none }

/-- The function `NamePrefix`. -/
def NamePrefix (Shape : ShapeID) : String :=
  match Shape with
  | .Unknown => "BPU"
  | .GlobalValue => "BPg"
  | .GlobalArray => "BPG"
  | .JoinedArray => "BPJ"
  | .LocalValue => "BPl"
  | .LocalArray => "BPL"

/-- The code of a `DataType` (`(int)Type`); the enumeration is declared outside
the listed sources and the codes follow the order of its members. -/
def DataType.toNat : DataType → Nat
  | .None => 0 | .Char => 1 | .Int8 => 2 | .Int16 => 3 | .Int32 => 4 | .Int64 => 5
  | .UInt8 => 6 | .UInt16 => 7 | .UInt32 => 8 | .UInt64 => 9 | .Float => 10 | .Double => 11
  | .LongDouble => 12 | .FloatComplex => 13 | .DoubleComplex => 14 | .String => 15
  | .Struct => 16

/-- The function `BP5Serializer::BuildVarName`. -/
def BuildVarName (base_name : String) (Shape : ShapeID) (type element_size : Nat) : String :=
  if element_size = 0 then NamePrefix Shape ++ "_" ++ base_name
  else NamePrefix Shape ++ "_" ++ toString element_size ++ "_" ++ toString type ++ "_" ++
    base_name

/-- The function `BuildLongName`. -/
def BuildLongName (base_name : String) (Shape : ShapeID) (type element_size : Nat) : String :=
  NamePrefix Shape ++ "_" ++ toString element_size ++ "_" ++ toString type ++ "_" ++ base_name

/-- The function `BP5Serializer::TranslateADIOS2Type2FFS` (`none` for NULL). -/
def TranslateADIOS2Type2FFS (Type_ : DataType) : Option String :=
  match Type_ with
  | .None | .Struct => none
  | .Int8 | .Int16 | .Int32 | .Int64 | .Char => some "integer"
  | .UInt8 | .UInt16 | .UInt32 | .UInt64 => some "unsigned integer"
  | .Float | .Double | .LongDouble => some "float"
  | .FloatComplex => some "complex4"
  | .DoubleComplex => some "complex8"
  | .String => some "string"

/-- The function `BP5Serializer::AddSimpleField`. -/
def AddSimpleField (Fields : List FMField) (Name Type_ : String) (ElementSize : Nat) :
    List FMField :=
  let Offset :=
    match Fields.getLast? with
    | none => 0
    | some PriorField =>
      let PriorFieldSize :=
        if PriorField.field_type.toList.contains '[' then 8 else PriorField.field_size
      ((PriorField.field_offset + PriorFieldSize + ElementSize - 1) / ElementSize) * ElementSize
  Fields ++ [{ field_name := Name, field_type := Type_, field_size := ElementSize,
               field_offset := Offset }]

/-- The function `BP5Serializer::LookupWriterRec`. -/
def LookupWriterRec (s : BP5Serializer) (Key : Nat) : Option BP5WriterRec :=
  s.RecList.find? (fun r => r.Key == Key)

/-- The sizes `sizeof(MetaArrayRec)` and `sizeof(MetaArrayRecOperator)`: seven
respectively eight eight-byte fields. -/
def sizeofMetaArrayRec : Nat := 56

/-- See `sizeofMetaArrayRec`. -/
def sizeofMetaArrayRecOperator : Nat := 64

/-- The function `BP5Serializer::CreateWriterRec`: the new record and the state
with the record and its metadata field added. -/
def CreateWriterRec (s : BP5Serializer) (VB : VariableBase) (Name : String) (Type_ : DataType)
    (ElemSize DimCount : Nat) : BP5WriterRec × BP5Serializer :=
  let ElemSize := if Type_ = DataType.String then 8 else ElemSize
  if DimCount = 0 then
    let SstName := BuildVarName Name VB.m_ShapeID 0 0
    let Fields := AddSimpleField s.MetaFields SstName ((TranslateADIOS2Type2FFS Type_).getD "")
      ElemSize
    let Rec : BP5WriterRec :=
      { Key := VB.Key, FieldID := s.RecList.length, DimCount := DimCount, Type_ := Type_,
        OperatorType := none,
        MetaOffset := (Fields.getLast?.map (fun f => f.field_offset)).getD 0,
        MinMaxOffset := none }
    (Rec, { s with RecList := s.RecList ++ [Rec], MetaFields := Fields })
  else
    let OperatorType := VB.m_Operations.head?.map (fun o => o.m_TypeString)
    let LongName := BuildLongName Name VB.m_ShapeID Type_.toNat ElemSize
    let ArrayTypeName := if VB.m_Operations.length ≠ 0 then "MetaArrayOp" else "MetaArray"
    let FieldSize :=
      if VB.m_Operations.length ≠ 0 then sizeofMetaArrayRecOperator else sizeofMetaArrayRec
    let MMArrayName := ArrayTypeName ++
      (if ElemSize = 1 then "MM1" else if ElemSize = 2 then "MM2"
       else if ElemSize = 4 then "MM4" else if ElemSize = 8 then "MM8"
       else if ElemSize = 16 then "MM16" else "")
    let Fields :=
      if s.m_StatsLevel > 0 then AddSimpleField s.MetaFields LongName MMArrayName (FieldSize + 8)
      else AddSimpleField s.MetaFields LongName ArrayTypeName FieldSize
    let Rec : BP5WriterRec :=
      { Key := VB.Key, FieldID := s.RecList.length, DimCount := DimCount, Type_ := Type_,
        OperatorType := OperatorType,
        MetaOffset := (Fields.getLast?.map (fun f => f.field_offset)).getD 0,
        MinMaxOffset := if s.m_StatsLevel > 0 then some FieldSize else none }
    (Rec, { s with RecList := s.RecList ++ [Rec], MetaFields := Fields })

/-- The function `BP5Serializer::CopyDims`. -/
def CopyDims (Count : Nat) (Vals : List Nat) : List Nat := Vals.take Count

/-- The function `BP5Serializer::AppendDims`. -/
def AppendDims (OldDims : Option (List Nat)) (OldCount Count : Nat) (Vals : List Nat) :
    List Nat :=
  (OldDims.getD []).take OldCount ++ Vals.take Count

/-- The set of types that the macro `ADIOS2_FOREACH_MINMAX_STDTYPE_2ARGS`
enumerates; the macro is declared outside the listed sources and is a parameter
of `GetMinMax`. -/
abbrev MinMaxTypes := DataType → Bool

/-- The function `GetMinMax` on host memory: `std::minmax_element` over the
first `ElemCount` values. -/
def GetMinMax (Init : DataType → MinMaxStruct) (stdTypes : MinMaxTypes) (Data : List Int)
    (ElemCount : Nat) (Type_ : DataType) : MinMaxStruct :=
  let MinMax := Init Type_
  if ElemCount = 0 then MinMax
  else if Type_ = DataType.Struct then MinMax
  else if stdTypes Type_ then
    match Data.take ElemCount with
    | [] => MinMax
    | v :: values =>
      { MinUnion := values.foldl (fun m x => if x < m then x else m) v
        MaxUnion := values.foldl (fun m x => if x < m then m else x) v }
  else MinMax

/-- The arguments of one `Marshal` call: `Shape` and `Offsets` are `none` for
null pointers, `Data` is the array behind the source pointer (for a span put,
where the pointer is null, the elements that the writer stores in the span
afterwards), `Span` tells whether a span is requested. -/
structure MarshalArgs where
  Name : String
  Type_ : DataType
  ElemSize : Nat
  DimCount : Nat
  Shape : Option (List Nat)
  Count : List Nat
  Offsets : Option (List Nat)
  Data : List Int
  Sync : Bool
  Span : Bool

/-- The metadata part of the array path of `Marshal` for the first block of a
step (`!AlreadyWritten`). -/
def firstBlockEntry (m_StatsLevel : Nat) (Rec : BP5WriterRec) (a : MarshalArgs)
    (MetaEntry : MetaArrayRecOperator) (DataOffset CompressedSize : Nat)
    (MinMax : MinMaxStruct) : MetaArrayRecOperator :=
  { MetaEntry with
    Shape := a.Shape.map (CopyDims a.DimCount)
    DBCount := a.DimCount
    Count := some (CopyDims a.DimCount a.Count)
    BlockCount := 1
    DataBlockLocation := [DataOffset]
    DataBlockSize :=
      if Rec.OperatorType ≠ none then [CompressedSize] else MetaEntry.DataBlockSize
    Offsets := a.Offsets.map (CopyDims a.DimCount)
    MinMax :=
      if m_StatsLevel > 0 then some [MinMax.MinUnion, MinMax.MaxUnion] else MetaEntry.MinMax }

/-- The metadata part of the array path of `Marshal` for a further block of a
step (`AlreadyWritten`). -/
def nextBlockEntry (m_StatsLevel : Nat) (Rec : BP5WriterRec) (a : MarshalArgs)
    (MetaEntry : MetaArrayRecOperator) (DataOffset CompressedSize : Nat)
    (MinMax : MinMaxStruct) : MetaArrayRecOperator :=
  let PreviousDBCount := MetaEntry.DBCount
  let BlockCount := MetaEntry.BlockCount + 1
  { MetaEntry with
    Shape :=
      match a.Shape, MetaEntry.Shape with
      | some Shape, some old => some (Shape.take a.DimCount ++ old.drop a.DimCount)
      | _, old => old
    DBCount := MetaEntry.DBCount + a.DimCount
    BlockCount := BlockCount
    Count := some (AppendDims MetaEntry.Count PreviousDBCount a.DimCount a.Count)
    DataBlockLocation := MetaEntry.DataBlockLocation.take (BlockCount - 1) ++ [DataOffset]
    DataBlockSize :=
      if Rec.OperatorType ≠ none then
        MetaEntry.DataBlockSize.take (BlockCount - 1) ++ [CompressedSize]
      else MetaEntry.DataBlockSize
    MinMax :=
      if m_StatsLevel > 0 then
        some ((MetaEntry.MinMax.getD []).take (2 * (BlockCount - 1)) ++
          [MinMax.MinUnion, MinMax.MaxUnion])
      else MetaEntry.MinMax
    Offsets :=
      match a.Offsets with
      | some Offsets =>
        some (AppendDims MetaEntry.Offsets PreviousDBCount a.DimCount Offsets)
      | none => MetaEntry.Offsets }

/-- The staging part of the array path of `Marshal` (operator, plain or span
put): the data buffer it leaves, `DataOffset`, `CompressedSize` and the
`BufferPos` stored in `*Span`. For a record with an operator the source calls
`VB->m_Operations[0]->Operate`; on an empty `m_Operations` that call is
undefined, and the size 0 given there stands for no behaviour of the code:
what is stated of the operator branch assumes a non-empty `m_Operations`. -/
def stageBlock (m_PriorDataBufferSizeTotal : Nat) (VB : VariableBase) (Rec : BP5WriterRec)
    (a : MarshalArgs) (CurDataBuffer : BufferV) (DeferAddToVec : Bool) (ElemCount : Nat) :
    BufferV × Nat × Nat × Option BufferPos :=
  if Rec.OperatorType ≠ none then
    let AllocSize := ElemCount * a.ElemSize + 100
    let pos := CurDataBuffer.Allocate AllocSize a.ElemSize
    let DataOffset := m_PriorDataBufferSizeTotal + pos.2.globalPos
    let CompressedSize :=
      match VB.m_Operations.head? with
      | some op => op.Operate a.Data ((a.Offsets.getD []).take a.DimCount)
          (a.Count.take a.DimCount) Rec.Type_
      | none => 0
    (pos.1.DownsizeLastAlloc AllocSize CompressedSize, DataOffset, CompressedSize, none)
  else if ¬ a.Span then
    if ¬ DeferAddToVec then
      let pos := CurDataBuffer.AddToVec (ElemCount * a.ElemSize) a.ElemSize
      (pos.1, m_PriorDataBufferSizeTotal + pos.2, 0, none)
    else (CurDataBuffer, 0, 0, none)
  else
    let pos := CurDataBuffer.Allocate (ElemCount * a.ElemSize) a.ElemSize
    (pos.1, m_PriorDataBufferSizeTotal + pos.2.globalPos, 0, some pos.2)

/-- The metadata part of the array path of `Marshal`: the new value of the
variable's `MetaArrayRec` and the deferred block that is registered, if any. -/
def recordBlock (s : BP5Serializer) (Rec : BP5WriterRec) (a : MarshalArgs)
    (MetaEntry : MetaArrayRecOperator) (AlreadyWritten DeferAddToVec : Bool)
    (ElemCount DataOffset CompressedSize : Nat) (MinMax : MinMaxStruct) : BP5Serializer :=
  let MetaEntry :=
    if ¬ AlreadyWritten then
      firstBlockEntry s.m_StatsLevel Rec a MetaEntry DataOffset CompressedSize MinMax
    else nextBlockEntry s.m_StatsLevel Rec a MetaEntry DataOffset CompressedSize MinMax
  { s with
    MetaEntry := fun o => if o = Rec.MetaOffset then MetaEntry else s.MetaEntry o
    DeferredExterns :=
      if DeferAddToVec then
        s.DeferredExterns ++
          [{ MetaOffset := Rec.MetaOffset
             BlockID := if ¬ AlreadyWritten then 0 else MetaEntry.BlockCount - 1
             Data := a.Data, DataSize := ElemCount * a.ElemSize, AlignReq := a.ElemSize }]
      else s.DeferredExterns }

/-- The array path of `Marshal` (the `else` of `if (VB->m_SingleValue)`), run on
the state in which the variable's bit has been set. -/
def marshalArray (Init : DataType → MinMaxStruct) (stdTypes : MinMaxTypes) (s : BP5Serializer)
    (VB : VariableBase) (Rec : BP5WriterRec) (a : MarshalArgs)
    (AlreadyWritten DeferAddToVec : Bool) : BP5Serializer × Except String (Option BufferPos) :=
  let MetaEntry := { s.MetaEntry Rec.MetaOffset with Dims := a.DimCount }
  let ElemCount := CalcSize a.DimCount a.Count
  let s := { s with MetaEntry := fun o => if o = Rec.MetaOffset then MetaEntry else s.MetaEntry o }
  match s.CurDataBuffer with
  | none => (s, Except.error "without prior Init")
  | some CurDataBuffer =>
    let MinMax :=
      if s.m_StatsLevel > 0 ∧ ¬ a.Span then GetMinMax Init stdTypes a.Data ElemCount Rec.Type_
      else Init a.Type_
    let staged :=
      stageBlock s.m_PriorDataBufferSizeTotal VB Rec a CurDataBuffer DeferAddToVec ElemCount
    let s := { s with CurDataBuffer := some staged.1 }
    (recordBlock s Rec a MetaEntry AlreadyWritten DeferAddToVec ElemCount staged.2.1
      staged.2.2.1 MinMax, Except.ok staged.2.2.2)

/-- The state of `Marshal` after the writer record has been looked up or
created. -/
def afterLookup (s : BP5Serializer) (VB : VariableBase) (a : MarshalArgs) :
    BP5WriterRec × BP5Serializer :=
  let DimCount := if VB.m_SingleValue then 0 else a.DimCount
  match LookupWriterRec s VB.Key with
  | some Rec => (Rec, s)
  | none => CreateWriterRec s VB a.Name a.Type_ a.ElemSize DimCount

/-- The function `BP5Serializer::Marshal`: the state it leaves and either the
error it throws or the `BufferPos` it stores in `*Span` (`none` without span).
`Init` is `MinMaxStruct::Init` and `stdTypes` the type list of the min/max
macro, both declared outside the listed sources. -/
def Marshal (Init : DataType → MinMaxStruct) (stdTypes : MinMaxTypes) (s : BP5Serializer)
    (VB : VariableBase) (a : MarshalArgs) : BP5Serializer × Except String (Option BufferPos) :=
  let DimCount := if VB.m_SingleValue then 0 else a.DimCount
  let a := { a with DimCount := DimCount }
  let Rec := (afterLookup s VB a).1
  let s := (afterLookup s VB a).2
  let DeferAddToVec : Bool :=
    !a.Sync && decide (Rec.DimCount ≠ 0) && !a.Span && Rec.OperatorType.isNone
  let AlreadyWritten := BP5BitfieldTest s.BitField Rec.FieldID
  let s := { s with BitField := BP5BitfieldSet s.BitField Rec.FieldID }
  if VB.m_SingleValue then
    ({ s with ScalarSlot := fun o => if o = Rec.MetaOffset then some a.Data else s.ScalarSlot o },
      Except.ok none)
  else marshalArray Init stdTypes s VB Rec a AlreadyWritten DeferAddToVec

/-- The function `BP5Serializer::DumpDeferredBlocks`. -/
def DumpDeferredBlocks (s : BP5Serializer) : BP5Serializer :=
  match s.CurDataBuffer with
  | none => { s with DeferredExterns := [] }
  | some CurDataBuffer =>
    let (buf, MetaEntry) := s.DeferredExterns.foldl
      (fun (st : BufferV × (Nat → MetaArrayRecOperator)) Def =>
        let (buf, pos) := st.1.AddToVec Def.DataSize Def.AlignReq
        let DataOffset := s.m_PriorDataBufferSizeTotal + pos
        (buf, fun o =>
          if o = Def.MetaOffset then
            { st.2 o with
              DataBlockLocation := (st.2 o).DataBlockLocation.set Def.BlockID DataOffset }
          else st.2 o))
      (CurDataBuffer, s.MetaEntry)
    { s with CurDataBuffer := some buf, MetaEntry := MetaEntry, DeferredExterns := [] }

/-- The function `BP5Serializer::InitStep` (the error it throws when a buffer is
already attached). -/
def InitStep (s : BP5Serializer) (DataBuffer : BufferV) : Except String BP5Serializer :=
  match s.CurDataBuffer with
  | some _ => Except.error "without prior Close"
  | none => Except.ok { s with CurDataBuffer := some DataBuffer, m_PriorDataBufferSizeTotal := 0 }

/-- The state that the constructor (`Init`) leaves, for a given statistics level. -/
def BP5Serializer.init (StatsLevel : Nat) : BP5Serializer :=
  { m_StatsLevel := StatsLevel
    RecList := []
    MetaFields :=
      AddSimpleField
        (AddSimpleField (AddSimpleField [] "BitFieldCount" "integer" 8) "BitField"
          "integer[BitFieldCount]" 8)
        "DataBlockSize" "integer" 8
    BitField := fun _ => false
    MetaEntry := fun _ => zeroMetaArrayRec
    ScalarSlot := fun _ => none
    CurDataBuffer := none
    m_PriorDataBufferSizeTotal := 0
    DeferredExterns := [] }

/-- The writer record that `Marshal` works on: the one found by
`LookupWriterRec` or else the one made by `CreateWriterRec`. -/
def writerRecOf (s : BP5Serializer) (VB : VariableBase) (a : MarshalArgs) : BP5WriterRec :=
  (afterLookup s VB a).1

/-- The flag `DeferAddToVec` of a `Marshal` call. -/
def deferFlag (Rec : BP5WriterRec) (a : MarshalArgs) : Bool :=
  !a.Sync && decide (Rec.DimCount ≠ 0) && !a.Span && Rec.OperatorType.isNone

/-! ### Scenario S3 on the writer side -/

/-- `MinMaxStruct::Init` for a 32-bit signed type: the minimum starts at the
largest and the maximum at the smallest value. -/
def S3.Init : DataType → MinMaxStruct := fun _ => ⟨2147483647, -2147483648⟩

/-- A writer with statistics enabled after `InitStep` with an empty buffer. -/
def S3.writer : BP5Serializer :=
  { BP5Serializer.init 1 with CurDataBuffer := some ⟨[], 0⟩ }

/-- The global array variable of the scenario, without operator. -/
def S3.variable : VariableBase :=
  { Key := 1, m_ShapeID := ShapeID.GlobalArray, m_SingleValue := false, m_Operations := [] }

/-- The put of writer 0: row 0 with the values `0..7`, copied at once. -/
def S3.put0 : MarshalArgs :=
  { Name := "x", Type_ := DataType.Int32, ElemSize := 4, DimCount := 2, Shape := some [2, 8],
    Count := [1, 8], Offsets := some [0, 0], Data := [0, 1, 2, 3, 4, 5, 6, 7], Sync := true,
    Span := false }

/-! ### Folding statistics -/

/-- The integer element types. -/
def DataType.isInteger : DataType → Bool
  | .Char | .Int8 | .Int16 | .Int32 | .Int64 | .UInt8 | .UInt16 | .UInt32 | .UInt64 => true
  | _ => false

/-- The values that the loops of `VariableMinMax` pass to `ApplyElementMinMax`
for one writer record, in order. -/
def writerSlots (VarRec : BP5VarRec) (m : MetaArrayRecOperator) : List Int :=
  (List.range (if VarRec.DimCount ≠ 0 then m.DBCount / VarRec.DimCount else 1)).flatMap
    (fun B => [(m.MinMax.getD []).getD (2 * B) 0, (m.MinMax.getD []).getD (2 * B + 1) 0])

/-- The values that the loops of `VariableMinMax` pass to `ApplyElementMinMax`
for an array variable on one step, in order. -/
def stepSlots (d : Deserializer) (VarRec : BP5VarRec) (Step : Nat) : List Int :=
  (List.range (d.WriterCohortSize Step)).flatMap (fun w =>
    match d.GetMetadataBase VarRec Step w with
    | none => []
    | some m => writerSlots VarRec m)

/-! ### The statistics that a sequence of puts leaves in the metadata -/

/-- The state after a sequence of `Marshal` calls on one variable. -/
def marshalAll (Init : DataType → MinMaxStruct) (stdTypes : MinMaxTypes) (s : BP5Serializer)
    (VB : VariableBase) (puts : List MarshalArgs) : BP5Serializer :=
  puts.foldl (fun s a => (Marshal Init stdTypes s VB a).1) s

/-- The pair of statistics slots that `Marshal` stores for a block. -/
def blockStats (Init : DataType → MinMaxStruct) (stdTypes : MinMaxTypes) (Rec : BP5WriterRec)
    (a : MarshalArgs) : List Int :=
  if ¬ a.Span then
    [(GetMinMax Init stdTypes a.Data (CalcSize a.DimCount a.Count) Rec.Type_).MinUnion,
     (GetMinMax Init stdTypes a.Data (CalcSize a.DimCount a.Count) Rec.Type_).MaxUnion]
  else [(Init a.Type_).MinUnion, (Init a.Type_).MaxUnion]

/-- What a writer's state holds for a variable after `k` puts of a step: the
record is registered, its bit is set, a buffer is attached, and the variable's
`MetaArrayRec` has `k` blocks with the statistics slots `mms`. -/
def StatsInv (s : BP5Serializer) (VB : VariableBase) (Rec : BP5WriterRec) (D k : Nat)
    (mms : List Int) : Prop :=
  LookupWriterRec s VB.Key = some Rec ∧ s.BitField Rec.FieldID = true ∧
  s.CurDataBuffer ≠ none ∧
  (s.MetaEntry Rec.MetaOffset).DBCount = D * k ∧
  (s.MetaEntry Rec.MetaOffset).BlockCount = k ∧
  (s.MetaEntry Rec.MetaOffset).MinMax = some mms ∧ mms.length = 2 * k

/-! ### Writers and reader together -/

/-- One writer of a step: its state when the step's first put on the variable
is made, its handle of the variable and its puts on the variable in call order.
The `Data` of a put holds the elements of the block; for a span put these are
the elements that the writer stores in the span afterwards. -/
structure WriterRun where
  s : BP5Serializer
  VB : VariableBase
  puts : List MarshalArgs

/-- The elements of the block of a put. -/
def blockElements (a : MarshalArgs) : List Int :=
  a.Data.take (CalcSize a.DimCount a.Count)

/-- The `MetaArrayRec` that the writer holds for the variable after its puts
(`none` when it made none). -/
def WriterRun.entry (Init : DataType → MinMaxStruct) (stdTypes : MinMaxTypes) (r : WriterRun) :
    Option MetaArrayRecOperator :=
  match r.puts with
  | [] => none
  | a :: _ =>
    some ((marshalAll Init stdTypes r.s r.VB r.puts).MetaEntry (writerRecOf r.s r.VB a).MetaOffset)

/-- The writer has statistics enabled and a data buffer attached, the variable
is an array of `D` dimensions and element type `T`, and it has not been put on
this step before. -/
def WriterRun.Valid (T : DataType) (D : Nat) (r : WriterRun) : Prop :=
  r.s.m_StatsLevel > 0 ∧ r.s.CurDataBuffer ≠ none ∧ r.VB.m_SingleValue = false ∧
  ∀ a ∈ r.puts, a.DimCount = D ∧ a.Type_ = T ∧ (writerRecOf r.s r.VB a).Type_ = T ∧
    r.s.BitField (writerRecOf r.s r.VB a).FieldID = false

/-- The block count and the statistics of a writer record. -/
def statsView (m : MetaArrayRecOperator) : Nat × Option (List Int) := (m.DBCount, m.MinMax)

/-- The reader has the metadata of the writers for the step: one writer per
run, no record for a writer that made no put, and else a record with the
`DBCount` and the statistics that the writer holds. -/
def Installed (Init : DataType → MinMaxStruct) (stdTypes : MinMaxTypes) (runs : List WriterRun)
    (d : Deserializer) (VarRec : BP5VarRec) (Step : Nat) : Prop :=
  d.WriterCohortSize Step = runs.length ∧
  ∀ w, w < runs.length →
    (d.GetMetadataBase VarRec Step w).map statsView =
      ((runs.get? w).bind (WriterRun.entry Init stdTypes)).map statsView

/-- The pair of statistics slots that a put of a block of element type `T`
leaves in the metadata. -/
def statsOf (Init : DataType → MinMaxStruct) (stdTypes : MinMaxTypes) (T : DataType)
    (a : MarshalArgs) : List Int :=
  if a.Span then [(Init T).MinUnion, (Init T).MaxUnion]
  else
    [(GetMinMax Init stdTypes a.Data (CalcSize a.DimCount a.Count) T).MinUnion,
     (GetMinMax Init stdTypes a.Data (CalcSize a.DimCount a.Count) T).MaxUnion]

/-- The put of writer 1 in scenario S3: row 1 with the values `100..107`. -/
def S3.put1 : MarshalArgs :=
  { Name := "x", Type_ := DataType.Int32, ElemSize := 4, DimCount := 2, Shape := some [2, 8],
    Count := [1, 8], Offsets := some [1, 0], Data := [100, 101, 102, 103, 104, 105, 106, 107],
    Sync := true, Span := false }

/-- The two writers of scenario S3, one put each. -/
def S3.runs : List WriterRun :=
  [⟨S3.writer, S3.variable, [S3.put0]⟩, ⟨S3.writer, S3.variable, [S3.put1]⟩]

/-- A reader that has installed, for every step, the records that the writers
`runs` hold after their puts. -/
def readerOf (Init : DataType → MinMaxStruct) (stdTypes : MinMaxTypes) (runs : List WriterRun) :
    Deserializer :=
  { m_WriterIsRowMajor := true
    m_ReaderIsRowMajor := true
    m_RandomAccessMode := false
    ControlArraySize := 0
    WriterCohortSize := fun _ => runs.length
    GetMetadataBase := fun _ _ WriterRank =>
      (runs.get? WriterRank).bind (WriterRun.entry Init stdTypes)
    GetMetadataValue := fun _ _ _ => none }

/-- A span put of writer 0 in scenario S3 on the block of count `{1,1}` at
`{0,0}`; the writer stores the value `v` in the span afterwards. -/
def S3.spanPut (v : Int) : MarshalArgs :=
  { Name := "x", Type_ := DataType.Int32, ElemSize := 4, DimCount := 2, Shape := some [2, 8],
    Count := [1, 1], Offsets := some [0, 0], Data := [v], Sync := false, Span := true }

/-- One writer that makes the span put. -/
def S3.spanRuns (v : Int) : List WriterRun := [⟨S3.writer, S3.variable, [S3.spanPut v]⟩]

/-- A put of writer 1 in scenario S3 of a block without elements. -/
def S3.emptyPut : MarshalArgs :=
  { Name := "x", Type_ := DataType.Int32, ElemSize := 4, DimCount := 2, Shape := some [2, 8],
    Count := [0, 8], Offsets := some [1, 0], Data := [], Sync := true, Span := false }

/-- Writer 0 puts a row of data, writer 1 puts a block without elements. -/
def S3.emptyRuns (a : MarshalArgs) : List WriterRun :=
  [⟨S3.writer, S3.variable, [a]⟩, ⟨S3.writer, S3.variable, [S3.emptyPut]⟩]

/-! ### Completing a Get: `QueueGetSingle`, the transport, `FinalizeGets` -/

/-- The enumeration `adios2::SelectionType`, declared outside the listed
sources: the two values that `QueueGetSingle` tests, and `Auto` for any other. -/
inductive SelectionType where
  | BoundingBox | WriteBlock | Auto
  deriving DecidableEq, Repr

/-- The fields of the reader's `core::VariableBase` that `QueueGetSingle` reads. -/
structure GetVariable where
  m_ShapeID : ShapeID
  m_SelectionType : SelectionType
  m_BlockID : Nat
  m_Start : List Nat
  m_Count : List Nat
  deriving DecidableEq, Repr

/-- The array part of `BP5Deserializer::QueueGetSingle`: the pending requests
it leaves (`VarRec` is `VarByKey[&variable]`). The two value branches copy from
the metadata into `DestData` and push nothing. -/
def QueueGetSingle (PendingRequests : List BP5ArrayRequest) (variable_ : GetVariable)
    (VarRec : BP5VarRec) (Step : Nat) : List BP5ArrayRequest :=
  if VarRec.OrigShapeID = ShapeID.GlobalValue then PendingRequests
  else if VarRec.OrigShapeID = ShapeID.LocalValue then PendingRequests
  else if variable_.m_SelectionType = SelectionType.BoundingBox ∧
      variable_.m_ShapeID = ShapeID.GlobalArray then
    PendingRequests ++
      [{ VarRec := VarRec, RequestType := RequestTypeEnum.Global, BlockID := variable_.m_BlockID,
         Count := variable_.m_Count, Start := variable_.m_Start, Step := Step }]
  else if variable_.m_SelectionType = SelectionType.WriteBlock ∨
      variable_.m_ShapeID = ShapeID.LocalArray then
    PendingRequests ++
      [{ VarRec := VarRec, RequestType := RequestTypeEnum.Local, BlockID := variable_.m_BlockID,
         Start := if variable_.m_SelectionType = SelectionType.BoundingBox then variable_.m_Start
           else [],
         Count := if variable_.m_SelectionType = SelectionType.BoundingBox then variable_.m_Count
           else [],
         Step := Step }]
  else PendingRequests

/-- Modelled from the spec: the transport of the engine, which is outside the
listed sources. It fills the buffer of every read request with the `ReadLength`
bytes at `StartOffset` of the data of writer `WriterRank`; `fetch w o` is the
byte at offset `o` of the data that writer `w` wrote for the step. -/
def fillRequests (fetch : Nat → Nat → Nat) (Reads : List ReadRequest) :
    List (ReadRequest × List Nat) :=
  Reads.map (fun RR =>
    (RR, (List.range RR.ReadLength).map (fun i => fetch RR.WriterRank (RR.StartOffset + i))))

/-- The points of the box with the given start and count tuples, dimensions
`d, ..., d + n - 1`, in row-major order. -/
def boxPointsFrom (start count : List Nat) : Nat → Nat → List (List Nat)
  | _, 0 => [[]]
  | d, n + 1 =>
    (List.range (count.getD d 0)).flatMap (fun i =>
      (boxPointsFrom start count (d + 1) n).map (fun p => (start.getD d 0 + i) :: p))

/-- Copies bytes one by one: for every pair `(i, j)` of the plan, byte `i` of
the source to place `j` of the destination. The result is `none` when a byte
is read outside the source or written outside the destination. -/
def copyBytes (src : Nat → Option Nat) : List (Nat × Nat) → List Nat → Option (List Nat)
  | [], dst => some dst
  | (i, j) :: plan, dst =>
    match src i with
    | none => none
    | some v => if j < dst.length then copyBytes src plan (dst.set j v) else none

/-- The pairs (source byte, destination byte) that `NdCopy` transfers. -/
def NdCopyPlan (dims : Nat) (srcStart srcCount dstStart dstCount : List Nat) (elemSize : Nat) :
    List (Nat × Nat) :=
  let ovStart := lowCorner dims srcStart dstStart
  let ovCount := (List.range dims).map (fun d =>
    min (srcStart.getD d 0 + srcCount.getD d 0) (dstStart.getD d 0 + dstCount.getD d 0) -
      max (srcStart.getD d 0) (dstStart.getD d 0))
  (boxPointsFrom ovStart ovCount 0 dims).flatMap (fun p =>
    (List.range elemSize).map (fun k =>
      (elemSize * LinearIndex dims srcCount (relPos dims srcStart p) true + k,
       elemSize * LinearIndex dims dstCount (relPos dims dstStart p) true + k)))

/-- Modelled from the spec: `helper::NdCopy`, which is outside the listed
sources, for the arguments that `FinalizeGet` passes (both buffers row-major and
contiguous, host memory). It copies the overlap of the box
`[srcStart, srcStart + srcCount)` and the box `[dstStart, dstStart + dstCount)`:
for every point of the overlap, `elemSize` bytes from the place of the point in
the source buffer to its place in the destination buffer, each buffer holding
its box in row-major order. `src` reads a byte relative to the source pointer
(`none` outside the memory behind it). -/
def NdCopy (dims : Nat) (src : Nat → Option Nat) (srcStart srcCount : List Nat)
    (dst : List Nat) (dstStart dstCount : List Nat) (elemSize : Nat) : Option (List Nat) :=
  copyBytes src (NdCopyPlan dims srcStart srcCount dstStart dstCount elemSize) dst

/-- The constructor `DimsArray(n, ptr)`: the `n` entries behind `ptr`. -/
def DimsArray (n : Nat) (ptr : List Nat) : List Nat :=
  (List.range n).map (fun i => ptr.getD i 0)

/-- The tuple that `FinalizeGet` hands to `NdCopy`: the `DimsArray`, reversed
by `std::reverse` for a column-major reader. -/
def viewDims (IsRowMajor : Bool) (dims : Nat) (t : List Nat) : List Nat :=
  if ¬ IsRowMajor then (DimsArray dims t).reverse else DimsArray dims t

/-- The pointer `VirtualIncomingData` of `FinalizeGet` as a read function: the
byte at index `i` behind it, `none` outside the buffer it points into. Without
operator it is `DestinationAddr - OffsetInBlock`, with an operator the buffer
that `core::Decompress` fills; `Decompress input size n` is the content of that
`n` byte buffer, the operators being outside the listed sources. -/
def VirtualIncomingData (Decompress : List Nat → Nat → Nat → List Nat) (Req : BP5ArrayRequest)
    (writer_meta_base : MetaArrayRecOperator) (Read : ReadRequest)
    (DestinationAddr : List Nat) : Nat → Option Nat :=
  if Req.VarRec.Operator ≠ none then
    let DestSize := (List.range Req.VarRec.DimCount).foldl (fun DestSize dim =>
      DestSize * (writer_meta_base.Count.getD []).getD
        (dim + Read.BlockID * writer_meta_base.Dims) 0) Req.VarRec.ElementSize
    let decompressBuffer :=
      Decompress DestinationAddr (writer_meta_base.DataBlockSize.getD Read.BlockID 0) DestSize
    fun i => decompressBuffer.get? i
  else
    fun i =>
      if i < Read.OffsetInBlock then none else DestinationAddr.get? (i - Read.OffsetInBlock)

/-- The function `BP5Deserializer::FinalizeGet` (without the `free`). `Data`
holds the memory behind `Req.Data` of every pending request, `DestinationAddr`
the buffer of the read request. The result is `none` where the source
dereferences a null pointer (no writer record, or `DimCount` entries read behind
a null `SelOffset` or `SelSize`) or `NdCopy` leaves the buffers. -/
def FinalizeGet (d : Deserializer) (Decompress : List Nat → Nat → Nat → List Nat)
    (PendingRequests : List BP5ArrayRequest) (Data : List (List Nat)) (Read : ReadRequest)
    (DestinationAddr : List Nat) : Option (List (List Nat)) :=
  match PendingRequests.get? Read.ReqIndex, Data.get? Read.ReqIndex with
  | some Req, some ReqData =>
    match d.GetMetadataBase Req.VarRec Req.Step Read.WriterRank with
    | none => none
    | some writer_meta_base =>
      let ElementSize := Req.VarRec.ElementSize
      let DimCount := writer_meta_base.Dims
      let ZeroSel := List.replicate DimCount 0
      let RankOffset := (writer_meta_base.Offsets.getD []).drop (DimCount * Read.BlockID)
      let RankSize := (writer_meta_base.Count.getD []).drop (DimCount * Read.BlockID)
      let SelOffset : Option (List Nat) :=
        if Req.Start.length ≠ 0 then some Req.Start else none
      let SelSize : Option (List Nat) :=
        if Req.Count.length ≠ 0 then some Req.Count else none
      let RankOffset :=
        if Req.RequestType = RequestTypeEnum.Local then ZeroSel else RankOffset
      let SelSize :=
        if Req.RequestType = RequestTypeEnum.Local then some (SelSize.getD RankSize)
        else SelSize
      let SelOffset :=
        if Req.RequestType = RequestTypeEnum.Local then some (SelOffset.getD ZeroSel)
        else SelOffset
      if DimCount ≠ 0 ∧ (SelOffset = none ∨ SelSize = none) then none
      else
        (NdCopy DimCount (VirtualIncomingData Decompress Req writer_meta_base Read DestinationAddr)
          (viewDims d.m_ReaderIsRowMajor DimCount RankOffset)
          (viewDims d.m_ReaderIsRowMajor DimCount RankSize) ReqData
          (viewDims d.m_ReaderIsRowMajor DimCount (SelOffset.getD []))
          (viewDims d.m_ReaderIsRowMajor DimCount (SelSize.getD [])) ElementSize).map (fun out =>
            Data.set Read.ReqIndex out)
  | _, _ => none

/-- The loop of `BP5Deserializer::FinalizeGets` over the read requests, each
with its filled buffer (the function then clears `PendingRequests`). -/
def FinalizeGets (d : Deserializer) (Decompress : List Nat → Nat → Nat → List Nat)
    (PendingRequests : List BP5ArrayRequest) :
    List (ReadRequest × List Nat) → List (List Nat) → Option (List (List Nat))
  | [], Data => some Data
  | Read :: Reads, Data =>
    match FinalizeGet d Decompress PendingRequests Data Read.1 Read.2 with
    | none => none
    | some Data => FinalizeGets d Decompress PendingRequests Reads Data

/-- A Get of one variable on one step from an empty queue: `QueueGetSingle`,
`GenerateReadRequests`, the transport, `FinalizeGets`. `DestData` is the memory
behind the destination pointer; the result is that memory afterwards. -/
def performGet (d : Deserializer) (Decompress : List Nat → Nat → Nat → List Nat)
    (fetch : Nat → Nat → Nat) (variable_ : GetVariable) (VarRec : BP5VarRec) (Step : Nat)
    (DestData : List Nat) : Option (List Nat) :=
  let PendingRequests := QueueGetSingle [] variable_ VarRec Step
  let Reads := fillRequests fetch (GenerateReadRequests d PendingRequests)
  (FinalizeGets d Decompress PendingRequests Reads [DestData]).bind (fun Data => Data.get? 0)

/-- The dimension of the reader's tuples that stands at place `d` of the tuples
that `FinalizeGet` hands to `NdCopy`. -/
def viewIndex (IsRowMajor : Bool) (dims d : Nat) : Nat :=
  if IsRowMajor then d else dims - 1 - d

/-- The buffer that the transport hands back for a read request. -/
def filledBuffer (fetch : Nat → Nat → Nat) (RR : ReadRequest) : List Nat :=
  (List.range RR.ReadLength).map (fun i => fetch RR.WriterRank (RR.StartOffset + i))

/-- Writer `w` holds block `b` of the variable on the step, with record `m`. -/
def HasBlock (d : Deserializer) (VarRec : BP5VarRec) (Step w : Nat) (m : MetaArrayRecOperator)
    (b : Nat) : Prop :=
  w < d.WriterCohortSize Step ∧ d.GetMetadataBase VarRec Step w = some m ∧ b < m.BlockCount

/-- No two blocks of the variable on the step have a point in common (the
blocks tile the shape). -/
def BlocksDisjoint (d : Deserializer) (VarRec : BP5VarRec) (Step : Nat) : Prop :=
  ∀ w m b w' m' b', HasBlock d VarRec Step w m b → HasBlock d VarRec Step w' m' b' →
    (w ≠ w' ∨ b ≠ b') →
    ¬ BoxesIntersect VarRec.DimCount (blockStart m VarRec.DimCount b)
      (blockCount m VarRec.DimCount b) (blockStart m' VarRec.DimCount b')
      (blockCount m' VarRec.DimCount b')

/-- The data of the writers holds what they put: `put w b` are the bytes of
block `b` of writer `w`, element after element in the order of the block;
every writer record has the dimension count of the variable; without operator
the bytes stand in the data of writer `w` from `DataBlockLocation[b]` on, with
an operator the `DataBlockSize[b]` bytes from there on decompress to them. -/
def HoldsPut (d : Deserializer) (Decompress : List Nat → Nat → Nat → List Nat)
    (fetch : Nat → Nat → Nat) (put : Nat → Nat → List Nat) (VarRec : BP5VarRec) (Step : Nat) :
    Prop :=
  ∀ w m b, HasBlock d VarRec Step w m b →
    m.Dims = VarRec.DimCount ∧
    (put w b).length =
      VarRec.ElementSize * CalcSize VarRec.DimCount (blockCount m VarRec.DimCount b) ∧
    (VarRec.Operator = none → ∀ j, j < (put w b).length →
      (put w b)[j]? = some (fetch w (m.DataBlockLocation.getD b 0 + j))) ∧
    (VarRec.Operator ≠ none →
      Decompress ((List.range (m.DataBlockSize.getD b 0)).map (fun i =>
          fetch w (m.DataBlockLocation.getD b 0 + i))) (m.DataBlockSize.getD b 0)
        (put w b).length = put w b)

/-- The Get of scenario S3: start `{0,3}`, count `{2,3}` of the global array. -/
def S3.getVariable : GetVariable :=
  { m_ShapeID := ShapeID.GlobalArray, m_SelectionType := SelectionType.BoundingBox,
    m_BlockID := 0, m_Start := [0, 3], m_Count := [2, 3] }

/-- The data of the writers in scenario S3: writer `w` holds the eight
elements `100 w + i`, four bytes each, lowest byte first. -/
def S3.fetch (w o : Nat) : Nat := if o % 4 = 0 then 100 * w + o / 4 else 0

/-- The bytes that writer `w` put in its block in scenario S3. -/
def S3.put (w _b : Nat) : List Nat := (List.range 32).map (fun j => S3.fetch w j)

/-! ### Steps of a writer: any number of `Marshal` calls, `CloseTimestep` -/

/-- The state after a sequence of `Marshal` calls, each on its variable with
its arguments, in call order. -/
def marshalCalls (Init : DataType → MinMaxStruct) (stdTypes : MinMaxTypes) (s : BP5Serializer)
    (calls : List (VariableBase × MarshalArgs)) : BP5Serializer :=
  calls.foldl (fun s c => (Marshal Init stdTypes s c.1 c.2).1) s

/-- The first offset at which `AddSimpleField` can place a further field: the
end of the last field, a field of an array type counting as a pointer. -/
def endOffset (Fields : List FMField) : Nat :=
  match Fields.getLast? with
  | none => 0
  | some PriorField =>
    PriorField.field_offset +
      (if PriorField.field_type.toList.contains '[' then 8 else PriorField.field_size)

/-- What `CreateWriterRec` keeps true of the records of a writer: the field id
of a record is its index in `RecList`, no two records have the same key, the
metadata offsets grow along `RecList` and lie before the end of the last field,
and only bits of existing records are set. -/
def RecordsInv (s : BP5Serializer) : Prop :=
  (∀ (i : Nat) (r : BP5WriterRec), s.RecList[i]? = some r → r.FieldID = i) ∧
  (∀ (i j : Nat) (r1 r2 : BP5WriterRec), i < j → s.RecList[i]? = some r1 →
    s.RecList[j]? = some r2 → r1.Key ≠ r2.Key ∧ r1.MetaOffset < r2.MetaOffset) ∧
  (∀ r ∈ s.RecList, r.MetaOffset < endOffset s.MetaFields) ∧
  (∀ f, s.BitField f = true → f < s.RecList.length)

/-- The `MetaArrayRec` of the variable with key `K`, when the variable has been
put on the current step (`none` else). -/
def entryOf (s : BP5Serializer) (K : Nat) : Option MetaArrayRecOperator :=
  match LookupWriterRec s K with
  | none => none
  | some Rec => if s.BitField Rec.FieldID then some (s.MetaEntry Rec.MetaOffset) else none

/-- The values `DataOffset`, `CompressedSize` and `*Span` of a `Marshal` call on
an array variable, with the data buffer that the call leaves (see `stageBlock`). -/
def stagedOf (s : BP5Serializer) (VB : VariableBase) (a : MarshalArgs) (buf : BufferV) :
    BufferV × Nat × Nat × Option BufferPos :=
  stageBlock s.m_PriorDataBufferSizeTotal VB (writerRecOf s VB a) a buf
    (deferFlag (writerRecOf s VB a) a) (CalcSize a.DimCount a.Count)

/-- The value `MinMax` of a `Marshal` call on an array variable. -/
def minMaxOf (Init : DataType → MinMaxStruct) (stdTypes : MinMaxTypes) (s : BP5Serializer)
    (VB : VariableBase) (a : MarshalArgs) : MinMaxStruct :=
  if s.m_StatsLevel > 0 ∧ ¬ a.Span then
    GetMinMax Init stdTypes a.Data (CalcSize a.DimCount a.Count) (writerRecOf s VB a).Type_
  else Init a.Type_

/-- The `MetaArrayRec` that a `Marshal` call on an array variable leaves: `prev`
is the record when the variable has been put on the step before (`none` else,
`base` being then what the metadata buffer holds at the place). -/
def putEntry (m_StatsLevel : Nat) (Rec : BP5WriterRec) (a : MarshalArgs)
    (base : MetaArrayRecOperator) (prev : Option MetaArrayRecOperator)
    (DataOffset CompressedSize : Nat) (MinMax : MinMaxStruct) : MetaArrayRecOperator :=
  match prev with
  | none =>
    firstBlockEntry m_StatsLevel Rec a { base with Dims := a.DimCount } DataOffset
      CompressedSize MinMax
  | some e =>
    nextBlockEntry m_StatsLevel Rec a { e with Dims := a.DimCount } DataOffset CompressedSize
      MinMax

/-- The calls of a sequence that are made on the variable with key `K`, each
with the state in which it is made. -/
def callsOn (Init : DataType → MinMaxStruct) (stdTypes : MinMaxTypes) (K : Nat) :
    BP5Serializer → List (VariableBase × MarshalArgs) →
      List (BP5Serializer × VariableBase × MarshalArgs)
  | _, [] => []
  | s, c :: calls =>
    (if c.1.Key = K then [(s, c.1, c.2)] else []) ++
      callsOn Init stdTypes K (Marshal Init stdTypes s c.1 c.2).1 calls

/-- The `MetaArrayRec` of a variable after a call on it that is made in state
`h.1` with the arguments `h.2`, `prev` being the record before the call. -/
def entryStep (Init : DataType → MinMaxStruct) (stdTypes : MinMaxTypes)
    (prev : Option MetaArrayRecOperator) (h : BP5Serializer × VariableBase × MarshalArgs) :
    Option MetaArrayRecOperator :=
  some (putEntry h.1.m_StatsLevel (writerRecOf h.1 h.2.1 h.2.2) h.2.2
    (h.1.MetaEntry (writerRecOf h.1 h.2.1 h.2.2).MetaOffset) prev
    (stagedOf h.1 h.2.1 h.2.2 (h.1.CurDataBuffer.getD ⟨[], 0⟩)).2.1
    (stagedOf h.1 h.2.1 h.2.2 (h.1.CurDataBuffer.getD ⟨[], 0⟩)).2.2.1
    (minMaxOf Init stdTypes h.1 h.2.1 h.2.2))

/-- Two puts of one writer on the variable of scenario S3, rows 0 and 1. -/
def S3.twoPuts : List (VariableBase × MarshalArgs) :=
  [(S3.variable, S3.put0), (S3.variable, S3.put1)]

/-- The value `DataOffset` of a `Marshal` call on an array variable that is made
in state `h.1` with the arguments `h.2`. -/
def DataOffsetOf (h : BP5Serializer × VariableBase × MarshalArgs) : Nat :=
  (stagedOf h.1 h.2.1 h.2.2 (h.1.CurDataBuffer.getD ⟨[], 0⟩)).2.1

/-- The location, in the data of the step, of the block that a `Marshal` call
stores in the data buffer: the call appends one reservation to the buffer and
the location is `m_PriorDataBufferSizeTotal` plus its position. `none` when the
call appends no reservation. -/
def placedAt (Init : DataType → MinMaxStruct) (stdTypes : MinMaxTypes)
    (h : BP5Serializer × VariableBase × MarshalArgs) : Option Nat :=
  match h.1.CurDataBuffer, (Marshal Init stdTypes h.1 h.2.1 h.2.2).1.CurDataBuffer with
  | some before, some after =>
    if after.allocs.length = before.allocs.length + 1 then
      after.allocs.getLast?.map (fun r => h.1.m_PriorDataBufferSizeTotal + r.1)
    else none
  | _, _ => none

/-- The put of row 1 in scenario S3 as a deferred put (`Sync` false, no span). -/
def S3.put1Deferred : MarshalArgs := { S3.put1 with Sync := false }

/-- A put of row 0 that is copied at once, then a deferred put of row 1, both of
one writer on the variable of scenario S3. -/
def S3.deferredPuts : List (VariableBase × MarshalArgs) :=
  [(S3.variable, S3.put0), (S3.variable, S3.put1Deferred)]

/-! ### Scenario S9: an operator added to a variable after its first put -/

/-- An operator that compresses every block to ten bytes. -/
def S9.operator : Operator := { m_TypeString := "blosc", Operate := fun _ _ _ _ => 10 }

/-- The variable of scenario S3 after `AddOperation`. -/
def S9.variable : VariableBase := { S3.variable with m_Operations := [S9.operator] }

/-- The writer of scenario S3 after the put of row 0, which created the record
of the variable while the variable had no operator. -/
def S9.writer : BP5Serializer :=
  (Marshal S3.Init (fun _ => true) S3.writer S3.variable S3.put0).1

/-- The function `BP5Serializer::CloseTimestep` without the encoding of the
metadata and attribute records: the state it leaves, the data buffer of the
`TimestepInfo` and the `DataBlockSize` of the step, or the error it throws.
`m_BufferBlockSize` is a member that the engine sets. The call
`memset(MetadataBuf, 0, MetadataSize)` zeroes the whole metadata record,
`BitFieldCount` included (`MetadataBuf` is allocated and `MetadataSize` is
positive from the constructor on), so the bitfield has no words left and every
bit reads clear; the pointer that is saved and restored around it is read
through `Metadata`, the encoded block, and not through `MetadataBuf`. -/
def CloseTimestep (m_BufferBlockSize : Nat) (s : BP5Serializer) :
    Except String (BP5Serializer × BufferV × Nat) :=
  match s.CurDataBuffer with
  | none => Except.error "without prior Init"
  | some _ =>
    let s := DumpDeferredBlocks s
    match s.CurDataBuffer with
    | none => Except.error "without prior Init"
    | some CurDataBuffer =>
      let pos := CurDataBuffer.AddToVec 0 m_BufferBlockSize
      let DataBlockSize := pos.2 + s.m_PriorDataBufferSizeTotal
      Except.ok
        ({ s with
            BitField := fun _ => false
            MetaEntry := fun _ => zeroMetaArrayRec
            ScalarSlot := fun _ => none
            CurDataBuffer := none },
          pos.1, DataBlockSize)

/-- A scalar variable and its put, for a step that writes the array of scenario
S3 and a scalar. -/
def S3.scalar : VariableBase :=
  { Key := 2, m_ShapeID := ShapeID.GlobalValue, m_SingleValue := true, m_Operations := [] }

/-- The put of the value 42 on `S3.scalar`. -/
def S3.scalarPut : MarshalArgs :=
  { Name := "n", Type_ := DataType.Int32, ElemSize := 4, DimCount := 0, Shape := none,
    Count := [], Offsets := none, Data := [42], Sync := true, Span := false }

/-- The calls of a step: a put on the array, a put on the scalar, a second put
on the array. -/
def S3.mixedPuts : List (VariableBase × MarshalArgs) :=
  [(S3.variable, S3.put0), (S3.scalar, S3.scalarPut), (S3.variable, S3.put1)]

/-! ### Reader side: `ReverseDimensions`, `InstallMetaData` -/

/-- The largest value of the 32-bit `int` that `ReverseDimensions` counts in. -/
def INT_MAX : Nat := 2 ^ 31 - 1

/-- The body of the inner loop of `ReverseDimensions`: `Dimensions[a]` and
`Dimensions[b]` are exchanged through `tmp`. The array is `none` for a null
pointer; the result is `none` when the pointer is null or an index lies outside
the array. -/
def swapDims (Dimensions : Option (List Nat)) (a b : Nat) : Option (Option (List Nat)) :=
  match Dimensions with
  | none => none
  | some D =>
    match D[a]?, D[b]? with
    | some tmp, some y => some (some ((D.set a y).set b tmp))
    | _, _ => none

/-- The inner loop of `ReverseDimensions` (`for (i = 0; i < count / 2; i++)`)
from index `i` on with `n` iterations left. -/
def reverseTuple (Offset count : Nat) :
    Nat → Nat → Option (List Nat) → Option (Option (List Nat))
  | 0, _, Dimensions => some Dimensions
  | n + 1, i, Dimensions =>
    (swapDims Dimensions (Offset + i) (Offset + count - i - 1)).bind
      (reverseTuple Offset count n (i + 1))

/-- The outer loop of `ReverseDimensions` (`for (j = 0; j < times; j++)`) with
`n` iterations left; the `int` sum `Offset + count` has no value beyond
`INT_MAX`. -/
def reverseTuples (count : Nat) :
    Nat → Nat → Option (List Nat) → Option (Option (List Nat))
  | 0, _, Dimensions => some Dimensions
  | n + 1, Offset, Dimensions =>
    if Offset + count ≤ INT_MAX then
      (reverseTuple Offset count (count / 2) 0 Dimensions).bind
        (reverseTuples count n (Offset + count))
    else none

/-- The function `BP5Deserializer::ReverseDimensions` for `count >= 0` and
`times >= 0`: the array it leaves (`some none` is an untouched null pointer),
or `none` when it reads through a null pointer or outside the array. -/
def ReverseDimensions (Dimensions : Option (List Nat)) (count times : Nat) :
    Option (Option (List Nat)) :=
  reverseTuples count times 0 Dimensions

/-- The index that the first `i` exchanges of the tuple at `Offset` move to
index `p`. -/
def partRev (Offset count i p : Nat) : Nat :=
  if Offset ≤ p ∧ p < Offset + count ∧ (p < Offset + i ∨ Offset + count ≤ p + i) then
    2 * Offset + count - 1 - p
  else p

/-- The index that the reversal of the first `j` tuples of length `count` moves
to index `p`. -/
def tupRev (count j p : Nat) : Nat :=
  if p < j * count then p / count * count + (count - 1 - p % count) else p

/-- The array branch of the field loop of `BP5Deserializer::InstallMetaData`
for one field whose bit is set, up to the end of the `if` that reverses the
dimensions: the `MetaArrayRec` of the field as the branch leaves it, or `none`
when a `ReverseDimensions` call reads through a null pointer or outside an
array. The statements that follow in the branch (global shape, variable setup,
block starts) read `Shape`, `Count` and `Offsets` and do not write them. -/
def installArrayField (m_WriterIsRowMajor m_ReaderIsRowMajor : Bool)
    (meta_base : MetaArrayRecOperator) : Option MetaArrayRecOperator :=
  let BlockCount := if meta_base.Dims ≠ 0 then meta_base.DBCount / meta_base.Dims else 1
  if meta_base.Dims > 1 ∧ m_WriterIsRowMajor ≠ m_ReaderIsRowMajor then
    match ReverseDimensions meta_base.Shape meta_base.Dims 1 with
    | none => none
    | some Shape =>
      match ReverseDimensions meta_base.Count meta_base.Dims BlockCount with
      | none => none
      | some Count =>
        match ReverseDimensions meta_base.Offsets meta_base.Dims BlockCount with
        | none => none
        | some Offsets =>
          some { meta_base with Shape := Shape, Count := Count, Offsets := Offsets }
  else some meta_base

/-- Metadata of a local array as `Marshal` stores it: one block of count
`{1, 8}`, with null `Shape` and `Offsets`. -/
def S3.localMeta : MetaArrayRecOperator :=
  { Dims := 2, BlockCount := 1, DBCount := 2, Shape := none, Count := some [1, 8],
    Offsets := none, DataBlockLocation := [0], DataBlockSize := [], MinMax := none }

/-- The put of row 0 of scenario S3 on a local array: null `Shape` and
`Offsets`. -/
def S3.localPut : MarshalArgs := { S3.put0 with Shape := none, Offsets := none }

/-- The metadata of writer 1 of scenario S3 with each tuple in reverse order. -/
def S3.meta1Reversed : MetaArrayRecOperator :=
  { Dims := 2, BlockCount := 1, DBCount := 2, Shape := some [8, 2], Count := some [8, 1],
    Offsets := some [0, 1], DataBlockLocation := [0], DataBlockSize := [],
    MinMax := some [100, 107] }

/-- A null `Shape` with a null `Offsets`. -/
def S3.nullPair : Option (List Nat) × Option (List Nat) := (none, none)

/-! ### Queueing a Get: `QueueGet`, `QueueGetSingle` with the value branches -/

/-- The members of the reader's `core::VariableBase` that `QueueGet` reads
besides those of `GetVariable`; `TotalSize` is the value of
`variable.TotalSize()`, which is declared outside the listed sources. -/
structure VariableGet extends GetVariable where
  m_StepsStart : Nat
  m_StepsCount : Nat
  m_ElementSize : Nat
  TotalSize : Nat

/-- What `QueueGet` changes: the pending requests, the destination pointer
`Data` of each pending request in the order of the queue, and the destination
memory, which gives for an address the value that was copied there. -/
structure GetState where
  PendingRequests : List BP5ArrayRequest
  RequestData : List Nat
  Memory : Nat → Option Int

/-- Whether `GetMetadataBase(VarRec, Step, WriterRank)` is a non-null pointer;
the reader state gives the pointer as the record of an array variable and as
the value of a scalar variable. -/
def hasMetadata (d : Deserializer) (VarRec : BP5VarRec) (Step WriterRank : Nat) : Bool :=
  if VarRec.OrigShapeID = ShapeID.GlobalValue ∨ VarRec.OrigShapeID = ShapeID.LocalValue then
    (d.GetMetadataValue VarRec Step WriterRank).isSome
  else (d.GetMetadataBase VarRec Step WriterRank).isSome

/-- The function `BP5Deserializer::GetSingleValueFromMetadata` for a type other
than `String`: the destination memory it leaves and the value it returns. The
`memcpy` of `m_ElementSize` bytes is the copy of one value. `src` is read with
the `WriterRank` that was passed in; the assignment
`WriterRank = variable.m_BlockID` for a block selection comes after that read
and its value is not read again, so the selection has no part in the result. -/
def GetSingleValueFromMetadata (d : Deserializer) (Memory : Nat → Option Int)
    (VarRec : BP5VarRec) (DestData Step WriterRank : Nat) : (Nat → Option Int) × Bool :=
  match d.GetMetadataValue VarRec Step WriterRank with
  | none => (Memory, false)
  | some src => (fun a => if a = DestData then some src else Memory a, true)

/-- The loop over the writer ranks of the `GlobalValue` branch of
`QueueGetSingle`, which returns at the first rank for which
`GetSingleValueFromMetadata` returns true. -/
def globalValueLoop (d : Deserializer) (VarRec : BP5VarRec) (DestData Step : Nat) :
    List Nat → (Nat → Option Int) → (Nat → Option Int)
  | [], Memory => Memory
  | WriterRank :: ranks, Memory =>
    if (GetSingleValueFromMetadata d Memory VarRec DestData Step WriterRank).2 then
      (GetSingleValueFromMetadata d Memory VarRec DestData Step WriterRank).1
    else
      globalValueLoop d VarRec DestData Step ranks
        (GetSingleValueFromMetadata d Memory VarRec DestData Step WriterRank).1

/-- The loop over the writer ranks of the `LocalValue` branch of
`QueueGetSingle`: `DestData` advances by `m_ElementSize` after every rank. -/
def localValueLoop (d : Deserializer) (VarRec : BP5VarRec) (m_ElementSize Step : Nat) :
    List Nat → Nat → (Nat → Option Int) → (Nat → Option Int)
  | [], _, Memory => Memory
  | WriterRank :: ranks, DestData, Memory =>
    localValueLoop d VarRec m_ElementSize Step ranks (DestData + m_ElementSize)
      (GetSingleValueFromMetadata d Memory VarRec DestData Step WriterRank).1

/-- Whether `QueueGetSingle` reaches one of its two `push_back` calls for an
array variable. -/
def pushes (variable_ : GetVariable) : Bool :=
  decide ((variable_.m_SelectionType = SelectionType.BoundingBox ∧
      variable_.m_ShapeID = ShapeID.GlobalArray) ∨
    variable_.m_SelectionType = SelectionType.WriteBlock ∨
    variable_.m_ShapeID = ShapeID.LocalArray)

/-- The function `BP5Deserializer::QueueGetSingle` with its value branches and
the destination pointer: the state it leaves and the value it returns. The
pending requests of the array part are those of `QueueGetSingle`; `m_Start[0]`
and `m_Count[0]` are read as 0 from an empty vector, and the `size_t` sum of the
loop bound is taken modulo `2 ^ 64`. -/
def QueueGetSingleData (d : Deserializer) (st : GetState) (variable_ : VariableGet)
    (VarRec : BP5VarRec) (DestData Step : Nat) : GetState × Bool :=
  if VarRec.OrigShapeID = ShapeID.GlobalValue then
    ({ st with
        Memory := globalValueLoop d VarRec DestData Step
          (List.range (d.WriterCohortSize Step)) st.Memory }, false)
  else if VarRec.OrigShapeID = ShapeID.LocalValue then
    ({ st with
        Memory := localValueLoop d VarRec variable_.m_ElementSize Step
          (List.range' (variable_.m_Start.getD 0 0)
            ((variable_.m_Count.getD 0 0 + variable_.m_Start.getD 0 0) % 2 ^ 64 -
              variable_.m_Start.getD 0 0))
          DestData st.Memory }, false)
  else
    ({ st with
        PendingRequests :=
          QueueGetSingle st.PendingRequests variable_.toGetVariable VarRec Step
        RequestData :=
          if pushes variable_.toGetVariable then st.RequestData ++ [DestData]
          else st.RequestData }, true)

/-- The inner loop of `QueueGet` over the writer ranks of a step: whether it
reaches its body, that is, whether some rank has metadata of the variable on
the step (the body ends with `break`). -/
def wroteOn (d : Deserializer) (VarRec : BP5VarRec) (AbsStep : Nat) : Bool :=
  (List.range (d.WriterCohortSize AbsStep)).any
    (fun WriterRank => hasMetadata d VarRec AbsStep WriterRank)

/-- The body of the loop over `RelStep` of `QueueGet` on the pending state, the
current `DestData` and `ret`: the inner loop looks for the first writer rank
with metadata of the variable on the step and breaks after the call of
`QueueGetSingle`; the `size_t` product `increment` is taken modulo `2 ^ 64`. -/
def queueStep (d : Deserializer) (AbsStepFromRel : List Nat) (variable_ : VariableGet)
    (VarRec : BP5VarRec) (acc : GetState × Nat × Bool) (RelStep : Nat) :
    GetState × Nat × Bool :=
  let AbsStep := AbsStepFromRel.getD RelStep 0
  if wroteOn d VarRec AbsStep then
    let r := QueueGetSingleData d acc.1 variable_ VarRec acc.2.1 AbsStep
    let increment := (variable_.TotalSize * variable_.m_ElementSize) % 2 ^ 64
    (r.1, acc.2.1 + increment, r.2)
  else acc

/-- The function `BP5Deserializer::QueueGet`: the state it leaves and the
value it returns or the `std::invalid_argument` it throws. `AbsStepFromRel` is
the vector of `VarByKey[&variable]`; the `size_t` sum
`m_StepsStart + m_StepsCount` is taken modulo `2 ^ 64`. -/
def QueueGet (d : Deserializer) (CurTimestep : Nat) (AbsStepFromRel : List Nat) (st : GetState)
    (variable_ : VariableGet) (VarRec : BP5VarRec) (DestData : Nat) :
    GetState × Except String Bool :=
  if ¬ d.m_RandomAccessMode then
    ((QueueGetSingleData d st variable_ VarRec DestData CurTimestep).1,
      Except.ok (QueueGetSingleData d st variable_ VarRec DestData CurTimestep).2)
  else
    let ret := false
    if (variable_.m_StepsStart + variable_.m_StepsCount) % 2 ^ 64 > AbsStepFromRel.length then
      (st, Except.error "invalid_argument: beyond the largest available relative step")
    else
      let r :=
        (List.range' variable_.m_StepsStart
          ((variable_.m_StepsStart + variable_.m_StepsCount) % 2 ^ 64 -
            variable_.m_StepsStart)).foldl
          (queueStep d AbsStepFromRel variable_ VarRec) (st, DestData, ret)
      (r.1, Except.ok r.2.2)

/-- Whether a result of `QueueGet` is a returned value. -/
def returnedValue (r : Except String Bool) : Option Bool :=
  match r with
  | Except.ok b => some b
  | Except.error _ => none

/-! ### Scenario S1: an `Int32` scalar put by two writers -/

/-- A reader that has installed the metadata of step 0 in streaming mode:
writer 0 put 42 and writer 1 put 7. -/
def S1.reader : Deserializer :=
  { m_WriterIsRowMajor := true
    m_ReaderIsRowMajor := true
    m_RandomAccessMode := false
    ControlArraySize := 0
    WriterCohortSize := fun _ => 2
    GetMetadataBase := fun _ _ _ => none
    GetMetadataValue := fun _ _ WriterRank =>
      if WriterRank = 0 then some 42 else if WriterRank = 1 then some 7 else none }

/-- The scalar of scenario S1 as a global value. -/
def S1.var : BP5VarRec :=
  { VarNum := 0, Type_ := DataType.Int32, OrigShapeID := ShapeID.GlobalValue, DimCount := 0,
    TypeSize := 4, ElementSize := 4, Operator := none, MinMaxOffset := none }

/-- The scalar of scenario S1 as a local value, which the reader shows as a
global array of one element per writer. -/
def S1.localVar : BP5VarRec := { S1.var with OrigShapeID := ShapeID.LocalValue }

/-- The reader's variable of scenario S1 with the block selection `b`. -/
def S1.blockGet (b : Nat) : VariableGet :=
  { m_ShapeID := ShapeID.GlobalValue, m_SelectionType := SelectionType.WriteBlock,
    m_BlockID := b, m_Start := [], m_Count := [], m_StepsStart := 0, m_StepsCount := 1,
    m_ElementSize := 4, TotalSize := 1 }

/-- The reader's variable of the local value of scenario S1 with the block
selection `b`: a global array of the two writers' values. -/
def S1.localBlockGet (b : Nat) : VariableGet :=
  { m_ShapeID := ShapeID.GlobalArray, m_SelectionType := SelectionType.WriteBlock,
    m_BlockID := b, m_Start := [0], m_Count := [2], m_StepsStart := 0, m_StepsCount := 1,
    m_ElementSize := 4, TotalSize := 2 }

/-- A Get state with nothing pending and nothing copied. -/
def GetState.empty : GetState :=
  { PendingRequests := [], RequestData := [], Memory := fun _ => none }

/-- The values of a scalar variable that the writers put on a step, in the
order of the writer ranks. -/
def valueSlots (d : Deserializer) (VarRec : BP5VarRec) (Step : Nat) : List Int :=
  (List.range (d.WriterCohortSize Step)).flatMap (fun WriterRank =>
    match d.GetMetadataValue VarRec Step WriterRank with
    | none => []
    | some v => [v])

/-! ### Scenario S6: a variable written on steps 0, 2 and 4 -/

/-- A random-access reader in which one writer wrote the array of scenario S3
on the steps 0, 2 and 4 of five. -/
def S6.reader : Deserializer :=
  { m_WriterIsRowMajor := true
    m_ReaderIsRowMajor := true
    m_RandomAccessMode := true
    ControlArraySize := 5
    WriterCohortSize := fun _ => 1
    GetMetadataBase := fun _ Step WriterRank =>
      if Step % 2 = 0 ∧ Step < 5 ∧ WriterRank = 0 then some S3.meta0 else none
    GetMetadataValue := fun _ _ _ => none }

/-- The vector `AbsStepFromRel` of the variable of scenario S6. -/
def S6.AbsStepFromRel : List Nat := [0, 2, 4]

/-- The Get of scenario S6: the whole `{1, 8}` block of four-byte elements on
the relative steps 1 and 2. -/
def S6.getVariable : VariableGet :=
  { m_ShapeID := ShapeID.GlobalArray, m_SelectionType := SelectionType.BoundingBox,
    m_BlockID := 0, m_Start := [0, 0], m_Count := [1, 8], m_StepsStart := 1, m_StepsCount := 2,
    m_ElementSize := 4, TotalSize := 8 }

/-- A Get on a joined array with a bounding box, which `QueueGetSingle` does
not serve. -/
def S3.joinedGet : VariableGet :=
  { m_ShapeID := ShapeID.JoinedArray, m_SelectionType := SelectionType.BoundingBox,
    m_BlockID := 0, m_Start := [0, 3], m_Count := [2, 3], m_StepsStart := 0, m_StepsCount := 1,
    m_ElementSize := 4, TotalSize := 6 }

/-! ### Protocol of a step: `Marshal` without a buffer, `InitStep`, `CloseTimestep` -/

/-- Whether a call ended by throwing. -/
def threw {α : Type} (r : Except String α) : Bool :=
  match r with
  | Except.ok _ => false
  | Except.error _ => true

/-- A call of the step protocol: `InitStep(DataBuffer)` or `CloseTimestep`. -/
inductive StepCall where
  | InitStep (DataBuffer : BufferV)
  | CloseTimestep

/-- The state that a call of the step protocol leaves and what it returns:
the data buffer of the `TimestepInfo` for `CloseTimestep`, nothing for
`InitStep`, or the logic error it throws. Both functions throw before they
change the state. -/
def stepCall (m_BufferBlockSize : Nat) (s : BP5Serializer) :
    StepCall → BP5Serializer × Except String (Option BufferV)
  | StepCall.InitStep DataBuffer =>
    match InitStep s DataBuffer with
    | Except.ok s1 => (s1, Except.ok none)
    | Except.error e => (s, Except.error e)
  | StepCall.CloseTimestep =>
    match CloseTimestep m_BufferBlockSize s with
    | Except.ok r => (r.1, Except.ok (some r.2.1))
    | Except.error e => (s, Except.error e)

/-- The state after a sequence of calls of the step protocol, a call that
throws leaving the state as it was. -/
def stepCalls (m_BufferBlockSize : Nat) (s : BP5Serializer) (calls : List StepCall) :
    BP5Serializer :=
  calls.foldl (fun s c => (stepCall m_BufferBlockSize s c).1) s

/-- The function `BP5Serializer::PerformPuts`. -/
def PerformPuts (s : BP5Serializer) : BP5Serializer := DumpDeferredBlocks s

/-- The function `BP5Serializer::ReinitStepData`: the state it leaves and the
buffer it returns, or the logic error it throws. -/
def ReinitStepData (m_BufferBlockSize : Nat) (s : BP5Serializer) (DataBuffer : BufferV) :
    Except String (BP5Serializer × BufferV) :=
  match s.CurDataBuffer with
  | none => Except.error "without prior Init"
  | some _ =>
    let s := DumpDeferredBlocks s
    match s.CurDataBuffer with
    | none => Except.error "without prior Init"
    | some CurDataBuffer =>
      let pos := CurDataBuffer.AddToVec 0 m_BufferBlockSize
      Except.ok
        ({ s with
            m_PriorDataBufferSizeTotal := s.m_PriorDataBufferSizeTotal + pos.2
            CurDataBuffer := some DataBuffer },
          pos.1)

/-- The body of the loop of `DumpDeferredBlocks` on the data buffer and the
metadata entries; `prior` is `m_PriorDataBufferSizeTotal`. -/
def dumpStep (prior : Nat) (st : BufferV × (Nat → MetaArrayRecOperator)) (Def : DeferredExtern) :
    BufferV × (Nat → MetaArrayRecOperator) :=
  let (buf, pos) := st.1.AddToVec Def.DataSize Def.AlignReq
  let DataOffset := prior + pos
  (buf, fun o =>
    if o = Def.MetaOffset then
      { st.2 o with
        DataBlockLocation := (st.2 o).DataBlockLocation.set Def.BlockID DataOffset }
    else st.2 o)

/-- The data buffer after the blocks `defs` have been added to it in order. -/
def bufferAfter (buf : BufferV) (defs : List DeferredExtern) : BufferV :=
  defs.foldl (fun b Def => (b.AddToVec Def.DataSize Def.AlignReq).1) buf

/-- The position that `AddToVec` returns for the block `Def` when the blocks
`before` have been added to the buffer. -/
def positionAfter (buf : BufferV) (before : List DeferredExtern) (Def : DeferredExtern) : Nat :=
  ((bufferAfter buf before).AddToVec Def.DataSize Def.AlignReq).2

/-- The state after the two puts `S3.deferredPuts` of a step, which holds one
deferred block. -/
def S3.deferredState : BP5Serializer :=
  marshalCalls S3.Init (fun _ => true) S3.writer S3.deferredPuts

/-- The `Shape` arguments that the calls `args` passed, in call order. -/
def shapesOf (args : List MarshalArgs) : List (List Nat) :=
  args.filterMap (fun a => a.Shape)

/-- A put without `Shape` on the variable of scenario S3, then a put that passes
the `Shape` `[2, 8]`. -/
def S3.shapeLatePuts : List (VariableBase × MarshalArgs) :=
  [(S3.variable, S3.localPut), (S3.variable, S3.put1)]

/-- Two puts on the variable of scenario S3 of which the second passes another
`Shape`, `[4, 8]`. -/
def S3.shapePuts : List (VariableBase × MarshalArgs) :=
  [(S3.variable, S3.put0), (S3.variable, { S3.put1 with Shape := some [4, 8] })]

/-- The arguments of one call of `CopyMetadataToContiguous`: the metadata that
one rank contributes to an aggregate. -/
structure RankInput where
  NewMetaMetaBlocks : List MetaMetaInfoBlock
  MetaEncodeBuffers : List iovec
  AttributeEncodeBuffers : List iovec
  DataSizes : List Nat
  WriterDataPositions : List Nat
  deriving DecidableEq, Repr

/-- The byte stream of a rank (see `encoded`). -/
def RankInput.stream (r : RankInput) : List Nat :=
  encoded r.NewMetaMetaBlocks r.MetaEncodeBuffers r.AttributeEncodeBuffers r.DataSizes
    r.WriterDataPositions

/-- Every count, length and value of the stream of a rank is a `uint64_t`. -/
def RankInput.Fits (r : RankInput) : Prop :=
  r.NewMetaMetaBlocks.length < 2 ^ 64 ∧
  (∀ b ∈ r.NewMetaMetaBlocks, b.MetaMetaIDLen < 2 ^ 64 ∧ b.MetaMetaInfoLen < 2 ^ 64) ∧
  r.MetaEncodeBuffers.length < 2 ^ 64 ∧
  (∀ m ∈ r.MetaEncodeBuffers, (m.iov_base.getD []).length + 7 < 2 ^ 64) ∧
  r.AttributeEncodeBuffers.length < 2 ^ 64 ∧
  (∀ a ∈ r.AttributeEncodeBuffers, (a.iov_base.getD []).length + 7 < 2 ^ 64) ∧
  r.DataSizes.length < 2 ^ 64 ∧ (∀ x ∈ r.DataSizes, x < 2 ^ 64) ∧
  r.WriterDataPositions.length < 2 ^ 64 ∧ (∀ x ∈ r.WriterDataPositions, x < 2 ^ 64)

instance (r : RankInput) : Decidable r.Fits := by
  unfold RankInput.Fits; infer_instance

/-- The IDs of a list of meta-meta blocks, in order. -/
def idsOf (U : List MetaMetaInfoBlock) : List (List Nat) :=
  U.map (fun b => b.MetaMetaID)

/-- The list `U1` is the list `U` followed by blocks whose IDs differ from each
other and from the ID of every block of `U`. -/
def ExtendsUnique (U U1 : List MetaMetaInfoBlock) : Prop :=
  ∃ added, U1 = U ++ added ∧ (idsOf added).Nodup ∧
    ∀ b ∈ added, ∀ o ∈ U, o.MetaMetaID ≠ b.MetaMetaID

/-- The metadata of rank 0 of a two-rank aggregate: two new meta-meta blocks
with the IDs `[3]` and `[4]` and an eight-byte metadata blob. -/
def Agg.rank0 : RankInput :=
  { NewMetaMetaBlocks := [⟨[1, 2], [3]⟩, ⟨[9], [4]⟩]
    MetaEncodeBuffers := [⟨some [1, 2, 3, 4, 5, 6, 7, 8], 8⟩]
    AttributeEncodeBuffers := []
    DataSizes := [5]
    WriterDataPositions := [0] }

/-- The metadata of rank 1: the block with the ID `[3]` again and a block with
the ID `[6]`. -/
def Agg.rank1 : RankInput :=
  { NewMetaMetaBlocks := [⟨[1, 2], [3]⟩, ⟨[5], [6]⟩]
    MetaEncodeBuffers := []
    AttributeEncodeBuffers := []
    DataSizes := [7]
    WriterDataPositions := [5] }

/-- The call of `CopyMetadataToContiguous` on the metadata of a rank. -/
def RankInput.contiguous (r : RankInput) : List Nat :=
  CopyMetadataToContiguous r.NewMetaMetaBlocks r.MetaEncodeBuffers r.AttributeEncodeBuffers
    r.DataSizes r.WriterDataPositions

/-- The aggregate of the two ranks: the buffers that `CopyMetadataToContiguous`
returns for them, one after the other. -/
def Agg.aggregate : List Nat := Agg.rank0.contiguous ++ Agg.rank1.contiguous

/-- A list of unique meta-meta blocks that holds a block with the ID `[4]`
before the aggregate is broken out. -/
def Agg.known : List MetaMetaInfoBlock := [⟨[7], [4]⟩]

/-! ## Installing metadata on the reader (`SetupForStep`, `InstallMetaData`) -/

/-- The members of the reader's variable (`core::Variable<T>`) that
`ArrayVarSetup`, `VarSetup` and `InstallMetaData` assign. -/
structure VariableHandle where
  m_Shape : List Nat
  m_Start : List Nat
  m_Count : List Nat
  m_AvailableStepsCount : Nat
  m_ShapeID : ShapeID
  m_SingleValue : Bool
  deriving DecidableEq, Repr

/-- The fields of `BP5VarRec` that the installation of metadata reads and
writes: `Variable` and `GlobalDims` are `none` for a null pointer, `GlobalDims`
is the array it points to (the `Shape` of a metadata block). -/
structure InstalledVarRec where
  Type_ : DataType
  Variable : Option VariableHandle
  GlobalDims : Option (List Nat)
  DimCount : Nat
  LastTSAdded : Nat
  FirstTSSeen : Nat
  AbsStepFromRel : List Nat
  PerWriterMetaFieldOffset : List Nat
  PerWriterBlockStart : List Nat
  deriving DecidableEq, Repr

/-- The record `ControlStruct`: the pointer `VarRec` is the `VarNum` of the
record it points to. -/
structure ControlStruct where
  FieldOffset : Nat
  OrigShapeID : ShapeID
  VarRec : Nat
  deriving DecidableEq, Repr

/-- The record `ControlInfo` without the format it belongs to. -/
structure ControlInfo where
  Controls : List ControlStruct
  MetaFieldOffset : List Nat
  CIVarIndex : List Nat
  deriving DecidableEq, Repr

/-- A decoded metadata block (`BaseData`): the bitfield at its start and the
`MetaArrayRec` that lies at a field offset. -/
structure MetadataBlock where
  BitField : Nat → Bool
  MetaArray : Nat → MetaArrayRecOperator

/-- The members of `BP5Deserializer` that the installation of metadata reads
and writes. A vector made by `new std::vector<void *>()` lives in `Vectors`, and
a pointer to it is its index there (`none` for a null pointer); an entry of such
a vector shows the block it points to. `VarRecs` gives the record with a
`VarNum`. -/
structure BP5Deserializer where
  m_WriterIsRowMajor : Bool
  m_ReaderIsRowMajor : Bool
  m_RandomAccessMode : Bool
  CurTimestep : Nat
  m_WriterCohortSize : List Nat
  m_CurrentWriterCohortSize : Nat
  m_ControlArray : List (List (Option ControlInfo))
  Vectors : List (List (Option MetadataBlock))
  MetadataBaseArray : List (Option Nat)
  m_MetadataBaseAddrs : Option Nat
  VarRecs : Nat → InstalledVarRec

/-- The call `v.resize(n)` of a `std::vector`, new entries being `d`. -/
def resize {α : Type} (v : List α) (n : Nat) (d : α) : List α :=
  v.take n ++ List.replicate (n - v.length) d

/-- The assignment `v[i] = x` of a `std::vector`: `none` outside the vector. -/
def assign {α : Type} (v : List α) (i : Nat) (x : α) : Option (List α) :=
  if i < v.length then some (v.set i x) else none

/-- The conversion of a `size_t` to `int`. -/
def toInt32 (n : Nat) : Int :=
  if n % 2 ^ 32 < 2 ^ 31 then (n % 2 ^ 32 : Nat) else ((n % 2 ^ 32 : Nat) : Int) - 2 ^ 32

/-- The loop at the end of `BP5Deserializer::BuildControl` that fills the tables
`MetaFieldOffset` and `CIVarIndex`, on the fields of a format that have been
resolved to their records (`LookupVarByName`, `CreateVarRec`); `VarIndex` is the
index of the field among the controls. -/
def buildTables : List ControlStruct → Nat → List Nat × List Nat → List Nat × List Nat
  | [], _, t => t
  | C :: Cs, VarIndex, (MetaFieldOffset, CIVarIndex) =>
    let t :=
      if MetaFieldOffset.length ≤ C.VarRec then
        (resize MetaFieldOffset (C.VarRec + 1) 0, resize CIVarIndex (C.VarRec + 1) 0)
      else (MetaFieldOffset, CIVarIndex)
    buildTables Cs (VarIndex + 1) (t.1.set C.VarRec C.FieldOffset, t.2.set C.VarRec VarIndex)

/-- The function `BP5Deserializer::BuildControl` on the fields of a format that
have been resolved to their records: the name of a field gives `OrigShapeID` and
the record, the field list gives `FieldOffset`. -/
def BuildControl (Controls : List ControlStruct) : ControlInfo :=
  { Controls := Controls
    MetaFieldOffset := (buildTables Controls 0 ([], [])).1
    CIVarIndex := (buildTables Controls 0 ([], [])).2 }

/-- The function `BP5Deserializer::SetupForStep`; the pending requests that it
clears in streaming mode are not part of this state. Every record whose
`Variable` is set is in `VarByKey`. -/
def SetupForStep (r : BP5Deserializer) (Step WriterCount : Nat) : BP5Deserializer :=
  if r.m_RandomAccessMode then
    let v :=
      if r.m_WriterCohortSize.length < Step + 1 then resize r.m_WriterCohortSize (Step + 1) 0
      else r.m_WriterCohortSize
    { r with CurTimestep := Step, m_WriterCohortSize := v.set Step WriterCount }
  else
    { r with
      CurTimestep := Step
      VarRecs := fun v => { r.VarRecs v with Variable := none }
      m_CurrentWriterCohortSize := WriterCount }

/-- The function `BP5Deserializer::WriterCohortSize`: `none` for `back()` of an
empty vector. -/
def BP5Deserializer.WriterCohortSize (r : BP5Deserializer) (Step : Nat) : Option Nat :=
  if r.m_RandomAccessMode then
    if Step < r.m_WriterCohortSize.length then r.m_WriterCohortSize[Step]?
    else r.m_WriterCohortSize.getLast?
  else some r.m_CurrentWriterCohortSize

/-- The function `BP5Deserializer::VarSetup`: `none` for a null pointer.
`stdType` tells the types of `ADIOS2_FOREACH_STDTYPE_1ARG` and `DefineVariable`
is the variable that `IO::DefineVariable<T>` makes; both are declared outside
the listed sources. -/
def VarSetup (stdType : DataType → Bool) (DefineVariable : DataType → VariableHandle)
    (Type_ : DataType) : Option VariableHandle :=
  if Type_ = DataType.Struct then none
  else if stdType Type_ then some { DefineVariable Type_ with m_AvailableStepsCount := 1 }
  else none

/-- The function `BP5Deserializer::ArrayVarSetup`: `some none` for a null
pointer, `none` when it reads `Shape` or `Count` outside the array or through a
null pointer. -/
def ArrayVarSetup (stdType : DataType → Bool) (DefineVariable : DataType → VariableHandle)
    (type : DataType) (DimCount : Int) (Shape Count : Option (List Nat)) :
    Option (Option VariableHandle) :=
  let vecs : Option (List Nat × List Nat × List Nat) :=
    match Shape with
    | some Shape =>
      if DimCount.toNat ≤ Shape.length then
        some (Shape.take DimCount.toNat, List.replicate DimCount.toNat 0,
          Shape.take DimCount.toNat)
      else none
    | none =>
      if DimCount.toNat = 0 then some ([], [], [])
      else
        match Count with
        | none => none
        | some Count =>
          if DimCount.toNat ≤ Count.length then some ([], [], Count.take DimCount.toNat)
          else none
  match vecs with
  | none => none
  | some (VecShape, VecStart, VecCount) =>
    if type = DataType.Struct then some none
    else if stdType type then
      some (some
        { DefineVariable type with
          m_Shape := VecShape
          m_Start := VecStart
          m_Count := VecCount
          m_AvailableStepsCount := 1
          m_ShapeID := ShapeID.GlobalArray
          m_SingleValue := false })
    else some none

/-- The statements of `InstallMetaData` that set `PerWriterBlockStart` of an
array variable in streaming mode. -/
def blockStarts (writerCohortSize WriterRank BlockCount : Nat) (P : List Nat) :
    Option (List Nat) :=
  let P1 : Option (List Nat) :=
    if WriterRank = 0 then
      match assign P WriterRank 0 with
      | none => none
      | some P => if writerCohortSize > 1 then assign P (WriterRank + 1) BlockCount else some P
    else some P
  match P1 with
  | none => none
  | some P =>
    if WriterRank < (writerCohortSize + 2 ^ 64 - 1) % 2 ^ 64 then
      match P[WriterRank]? with
      | none => none
      | some start => assign P (WriterRank + 1) ((start + BlockCount) % 2 ^ 64)
    else some P

/-- The first statement of the field loop of `InstallMetaData` for a field whose
bit is set: the per-writer field offset in streaming mode, the absolute step in
random-access mode. -/
def noteWriter (m_RandomAccessMode : Bool) (writerCohortSize WriterRank Step FieldOffset : Nat)
    (VarRec : InstalledVarRec) : Option InstalledVarRec :=
  if ¬ m_RandomAccessMode then
    let VarRec :=
      if writerCohortSize > VarRec.PerWriterBlockStart.length then
        { VarRec with
          PerWriterBlockStart := resize VarRec.PerWriterBlockStart writerCohortSize 0
          PerWriterMetaFieldOffset := resize VarRec.PerWriterMetaFieldOffset writerCohortSize 0 }
      else VarRec
    match assign VarRec.PerWriterMetaFieldOffset WriterRank FieldOffset with
    | none => none
    | some P => some { VarRec with PerWriterMetaFieldOffset := P }
  else if VarRec.AbsStepFromRel.length = 0 ∨ VarRec.AbsStepFromRel.getLast? ≠ some Step then
    some { VarRec with AbsStepFromRel := VarRec.AbsStepFromRel ++ [Step] }
  else some VarRec

/-- The branch of the field loop of `InstallMetaData` for a field of an array
(`OrigShapeID` is `GlobalArray` or `LocalArray`): the record and the
`MetaArrayRec` of the field as the branch leaves them. -/
def installArray (stdType : DataType → Bool) (DefineVariable : DataType → VariableHandle)
    (m_WriterIsRowMajor m_ReaderIsRowMajor m_RandomAccessMode : Bool)
    (writerCohortSize WriterRank Step : Nat) (VarRec : InstalledVarRec)
    (meta_base : MetaArrayRecOperator) : Option (InstalledVarRec × MetaArrayRecOperator) :=
  let BlockCount := if meta_base.Dims ≠ 0 then meta_base.DBCount / meta_base.Dims else 1
  match installArrayField m_WriterIsRowMajor m_ReaderIsRowMajor meta_base with
  | none => none
  | some meta_base =>
    let VarRec :=
      if WriterRank = 0 ∨ VarRec.GlobalDims = none then
        { VarRec with GlobalDims := meta_base.Shape }
      else VarRec
    let created : Option InstalledVarRec :=
      if VarRec.Variable = none then
        match ArrayVarSetup stdType DefineVariable VarRec.Type_ (toInt32 meta_base.Dims)
            meta_base.Shape meta_base.Count with
        | some (some Variable) =>
          some { VarRec with
            Variable :=
              some (if meta_base.Shape = none then
                { Variable with m_ShapeID := ShapeID.LocalArray }
              else Variable)
            LastTSAdded := Step }
        | _ => none
      else some VarRec
    match created with
    | none => none
    | some VarRec =>
      let VarRec := { VarRec with DimCount := meta_base.Dims }
      if ¬ m_RandomAccessMode then
        match blockStarts writerCohortSize WriterRank BlockCount VarRec.PerWriterBlockStart with
        | none => none
        | some P => some ({ VarRec with PerWriterBlockStart := P }, meta_base)
      else some (VarRec, meta_base)

/-- The branch of the field loop of `InstallMetaData` for a field that is not
an array. -/
def installValue (stdType : DataType → Bool) (DefineVariable : DataType → VariableHandle)
    (writerCohortSize Step : Nat) (OrigShapeID : ShapeID) (VarRec : InstalledVarRec) :
    Option InstalledVarRec :=
  if VarRec.Variable = none then
    if OrigShapeID = ShapeID.LocalValue then
      match ArrayVarSetup stdType DefineVariable VarRec.Type_ 1 (some [writerCohortSize])
          (some [writerCohortSize]) with
      | some (some Variable) =>
        some { VarRec with
          Variable := some { Variable with m_ShapeID := ShapeID.GlobalArray }
          LastTSAdded := Step }
      | _ => none
    else
      match VarSetup stdType DefineVariable VarRec.Type_ with
      | some Variable => some { VarRec with Variable := some Variable, LastTSAdded := Step }
      | none => none
  else some VarRec

/-- The last two statements of the field loop of `InstallMetaData`:
`FirstTSSeen`, and the count of available steps in random-access mode. -/
def countStep (m_RandomAccessMode : Bool) (Step : Nat) (VarRec : InstalledVarRec) :
    Option InstalledVarRec :=
  let VarRec :=
    if VarRec.FirstTSSeen = DefaultSizeT then { VarRec with FirstTSSeen := Step } else VarRec
  if m_RandomAccessMode ∧ VarRec.LastTSAdded ≠ Step then
    match VarRec.Variable with
    | none => none
    | some Variable =>
      some { VarRec with
        Variable :=
          some { Variable with
            m_AvailableStepsCount := (Variable.m_AvailableStepsCount + 1) % 2 ^ 64 }
        LastTSAdded := Step }
  else some VarRec

/-- The body of the field loop of `InstallMetaData` for a field whose bit is
set, on the record of the field and the `MetaArrayRec` at its offset. -/
def installVarRec (stdType : DataType → Bool) (DefineVariable : DataType → VariableHandle)
    (m_WriterIsRowMajor m_ReaderIsRowMajor m_RandomAccessMode : Bool)
    (writerCohortSize WriterRank Step : Nat) (C : ControlStruct) (VarRec : InstalledVarRec)
    (meta_base : MetaArrayRecOperator) : Option (InstalledVarRec × MetaArrayRecOperator) :=
  match noteWriter m_RandomAccessMode writerCohortSize WriterRank Step C.FieldOffset VarRec with
  | none => none
  | some VarRec =>
    let branch : Option (InstalledVarRec × MetaArrayRecOperator) :=
      if C.OrigShapeID = ShapeID.GlobalArray ∨ C.OrigShapeID = ShapeID.LocalArray then
        installArray stdType DefineVariable m_WriterIsRowMajor m_ReaderIsRowMajor
          m_RandomAccessMode writerCohortSize WriterRank Step VarRec meta_base
      else
        (installValue stdType DefineVariable writerCohortSize Step C.OrigShapeID VarRec).map
          (fun VarRec => (VarRec, meta_base))
    match branch with
    | none => none
    | some (VarRec, meta_base) =>
      (countStep m_RandomAccessMode Step VarRec).map (fun VarRec => (VarRec, meta_base))

/-- The field loop of `InstallMetaData` from the field with index `i` on, on
the records and the decoded block. -/
def installFields (stdType : DataType → Bool) (DefineVariable : DataType → VariableHandle)
    (m_WriterIsRowMajor m_ReaderIsRowMajor m_RandomAccessMode : Bool)
    (writerCohortSize WriterRank Step : Nat) :
    List ControlStruct → Nat → (Nat → InstalledVarRec) × MetadataBlock →
      Option ((Nat → InstalledVarRec) × MetadataBlock)
  | [], _, st => some st
  | C :: Cs, i, st =>
    if ¬ BP5BitfieldTest st.2.BitField i then
      installFields stdType DefineVariable m_WriterIsRowMajor m_ReaderIsRowMajor
        m_RandomAccessMode writerCohortSize WriterRank Step Cs (i + 1) st
    else
      match installVarRec stdType DefineVariable m_WriterIsRowMajor m_ReaderIsRowMajor
          m_RandomAccessMode writerCohortSize WriterRank Step C (st.1 C.VarRec)
          (st.2.MetaArray C.FieldOffset) with
      | none => none
      | some (VarRec, meta_base) =>
        installFields stdType DefineVariable m_WriterIsRowMajor m_ReaderIsRowMajor
          m_RandomAccessMode writerCohortSize WriterRank Step Cs (i + 1)
          (fun v => if v = C.VarRec then VarRec else st.1 v,
            { st.2 with
              MetaArray := fun o => if o = C.FieldOffset then meta_base else st.2.MetaArray o })

/-- The statements of `InstallMetaData` that enter the control block of the
writer in `m_ControlArray` and make `m_MetadataBaseAddrs` point to the vector of
the step (random-access mode) or of the stream. -/
def attachControl (r : BP5Deserializer) (Control : ControlInfo)
    (writerCohortSize WriterRank Step : Nat) : Option BP5Deserializer :=
  if r.m_RandomAccessMode then
    let CA :=
      if r.m_ControlArray.length < Step + 1 then resize r.m_ControlArray (Step + 1) []
      else r.m_ControlArray
    let row := CA.getD Step []
    let row := if row.length = 0 then resize row writerCohortSize none else row
    match assign row WriterRank (some Control) with
    | none => none
    | some row =>
      let MBA := resize r.MetadataBaseArray (Step + 1) none
      if MBA.getD Step none = none then
        some { r with
          m_ControlArray := CA.set Step row
          Vectors := r.Vectors ++ [resize [] writerCohortSize none]
          MetadataBaseArray := MBA.set Step (some r.Vectors.length)
          m_MetadataBaseAddrs := some r.Vectors.length }
      else some { r with m_ControlArray := CA.set Step row, MetadataBaseArray := MBA }
  else
    let made : List (List (Option MetadataBlock)) × Nat :=
      match r.m_MetadataBaseAddrs with
      | none => (r.Vectors ++ [[]], r.Vectors.length)
      | some k => (r.Vectors, k)
    let vec := made.1.getD made.2 []
    let vec := if writerCohortSize > vec.length then resize vec writerCohortSize none else vec
    some { r with Vectors := made.1.set made.2 vec, m_MetadataBaseAddrs := some made.2 }

/-- The function `BP5Deserializer::InstallMetaData` from the point at which the
block has been decoded to `BaseData` and `Control` is the control block of its
format (`GetPriorControl`, `BuildControl`): `none` when it reads or writes
outside a vector or through a null pointer. The entry of `m_MetadataBaseAddrs`
is a pointer to the block, so it shows the block as the field loop leaves it. -/
def InstallMetaData (stdType : DataType → Bool) (DefineVariable : DataType → VariableHandle)
    (r : BP5Deserializer) (Control : ControlInfo) (BaseData : MetadataBlock)
    (WriterRank Step : Nat) : Option BP5Deserializer :=
  match r.WriterCohortSize Step with
  | none => none
  | some writerCohortSize =>
    match attachControl r Control writerCohortSize WriterRank Step with
    | none => none
    | some r1 =>
      match r1.m_MetadataBaseAddrs with
      | none => none
      | some k =>
        match installFields stdType DefineVariable r.m_WriterIsRowMajor r.m_ReaderIsRowMajor
            r.m_RandomAccessMode writerCohortSize WriterRank Step Control.Controls 0
            (r.VarRecs, BaseData) with
        | none => none
        | some (VarRecs, BaseData) =>
          match assign (r1.Vectors.getD k []) WriterRank (some BaseData) with
          | none => none
          | some vec => some { r1 with Vectors := r1.Vectors.set k vec, VarRecs := VarRecs }

/-- The function `BP5Deserializer::GetMetadataBase` on the installed state:
`some none` for a null result, `none` when it reads outside a vector or through
a null pointer; a result that is not null is the `MetaArrayRec` it points to. -/
def BP5Deserializer.GetMetadataBase (r : BP5Deserializer) (VarNum Step WriterRank : Nat) :
    Option (Option MetaArrayRecOperator) :=
  if r.m_RandomAccessMode then
    match (r.m_ControlArray[Step]?).bind (fun row => row[WriterRank]?) with
    | some (some CI) =>
      if CI.MetaFieldOffset.length ≤ VarNum ∨ CI.MetaFieldOffset.getD VarNum 0 = 0 then some none
      else
        match CI.CIVarIndex[VarNum]? with
        | none => none
        | some CI_VarIndex =>
          match (r.MetadataBaseArray[Step]?).bind (fun p => p.bind (fun k => r.Vectors[k]?)) with
          | none => none
          | some vec =>
            match vec[WriterRank]? with
            | some (some BaseData) =>
              if ¬ BP5BitfieldTest BaseData.BitField CI_VarIndex then some none
              else some (some (BaseData.MetaArray (CI.MetaFieldOffset.getD VarNum 0)))
            | _ => none
    | _ => none
  else
    match (r.VarRecs VarNum).PerWriterMetaFieldOffset[WriterRank]? with
    | none => none
    | some offset =>
      if offset = 0 then some none
      else
        match r.m_MetadataBaseAddrs.bind (fun k => r.Vectors[k]?) with
        | none => none
        | some vec =>
          match vec[WriterRank]? with
          | some (some BaseData) => some (some (BaseData.MetaArray offset))
          | _ => none

/-- The loop over `WriterRank` of `GetAbsoluteSteps`: whether a writer of
`ranks` has the variable on the step. -/
def anyWriterHas (r : BP5Deserializer) (VarNum Step : Nat) : List Nat → Option Bool
  | [] => some false
  | WriterRank :: ranks =>
    match r.GetMetadataBase VarNum Step WriterRank with
    | none => none
    | some (some _) => some true
    | some none => anyWriterHas r VarNum Step ranks

/-- The loop over `Step` of `GetAbsoluteSteps`. -/
def absoluteStepsFrom (r : BP5Deserializer) (VarNum : Nat) : List Nat → List Nat →
    Option (List Nat)
  | [], keys => some keys
  | Step :: steps, keys =>
    match r.WriterCohortSize Step with
    | none => none
    | some writerCohortSize =>
      match anyWriterHas r VarNum Step (List.range writerCohortSize) with
      | none => none
      | some true => absoluteStepsFrom r VarNum steps (keys ++ [Step])
      | some false => absoluteStepsFrom r VarNum steps keys

/-- The function `BP5Deserializer::GetAbsoluteSteps` for the variable whose
record has the number `VarNum`; `keys` is passed in and appended to. -/
def BP5Deserializer.GetAbsoluteSteps (r : BP5Deserializer) (VarNum : Nat) (keys : List Nat) :
    Option (List Nat) :=
  if ¬ r.m_RandomAccessMode then some keys
  else absoluteStepsFrom r VarNum (List.range r.m_ControlArray.length) keys

/-- The calls `InstallMetaData(block, WriterRank, Step)` of one step for the
blocks of the writers from rank `WriterRank` on, in rank order: each block comes
with the control block of its format. -/
def installWriters (stdType : DataType → Bool) (DefineVariable : DataType → VariableHandle)
    (Step : Nat) : List (ControlInfo × MetadataBlock) → Nat → BP5Deserializer →
      Option BP5Deserializer
  | [], _, r => some r
  | b :: blocks, WriterRank, r =>
    match InstallMetaData stdType DefineVariable r b.1 b.2 WriterRank Step with
    | none => none
    | some r => installWriters stdType DefineVariable Step blocks (WriterRank + 1) r

/-- The installation of one step: `SetupForStep` with the number of writers,
then `InstallMetaData` for the block of every writer. -/
def installStep (stdType : DataType → Bool) (DefineVariable : DataType → VariableHandle)
    (Step : Nat) (blocks : List (ControlInfo × MetadataBlock)) (r : BP5Deserializer) :
    Option BP5Deserializer :=
  installWriters stdType DefineVariable Step blocks 0 (SetupForStep r Step blocks.length)

/-- The installation of the steps `Step`, `Step + 1`, ... in this order. -/
def installSteps (stdType : DataType → Bool) (DefineVariable : DataType → VariableHandle) :
    List (List (ControlInfo × MetadataBlock)) → Nat → BP5Deserializer → Option BP5Deserializer
  | [], _, r => some r
  | blocks :: steps, Step, r =>
    match installStep stdType DefineVariable Step blocks r with
    | none => none
    | some r => installSteps stdType DefineVariable steps (Step + 1) r

/-- Whether a field from index `i` on has its bit set and belongs to the record
`VarNum`. -/
def hasField (BitField : Nat → Bool) (VarNum : Nat) : List ControlStruct → Nat → Bool
  | [], _ => false
  | C :: Cs, i =>
    (BP5BitfieldTest BitField i && decide (C.VarRec = VarNum)) || hasField BitField VarNum Cs (i + 1)

/-- The writer of the block wrote the variable `VarNum`: the bit of a field of
the variable is set in the block. -/
def carries (b : ControlInfo × MetadataBlock) (VarNum : Nat) : Bool :=
  hasField b.2.BitField VarNum b.1.Controls 0

/-- The steps, counted from `Step`, on which at least one writer wrote the
variable `VarNum`. -/
def writtenSteps (VarNum : Nat) : List (List (ControlInfo × MetadataBlock)) → Nat → List Nat
  | [], _ => []
  | blocks :: steps, Step =>
    (if blocks.any (fun b => carries b VarNum) then [Step] else []) ++
      writtenSteps VarNum steps (Step + 1)

/-- The vector `AbsStepFromRel` after the statement of `InstallMetaData` that
appends the step when it is not the last entry. -/
def pushStep (AbsStepFromRel : List Nat) (Step : Nat) : List Nat :=
  if AbsStepFromRel.length = 0 ∨ AbsStepFromRel.getLast? ≠ some Step then AbsStepFromRel ++ [Step]
  else AbsStepFromRel

/-- The control block of a format whose fields lie at different offsets that
are not zero (the record starts with the bitfield) and belong to different
variables. -/
def ControlInfo.WellFormed (Control : ControlInfo) : Prop :=
  Control = BuildControl Control.Controls ∧
  (Control.Controls.map (fun C => C.VarRec)).Nodup ∧
  (Control.Controls.map (fun C => C.FieldOffset)).Nodup ∧
  ∀ C ∈ Control.Controls, C.FieldOffset ≠ 0

instance (Control : ControlInfo) : Decidable Control.WellFormed := by
  unfold ControlInfo.WellFormed; infer_instance

/-- The entry `m_ControlArray[Step][WriterRank]`: `none` outside the vectors,
`some none` for a null pointer. -/
def BP5Deserializer.control (r : BP5Deserializer) (Step WriterRank : Nat) :
    Option (Option ControlInfo) :=
  (r.m_ControlArray[Step]?).bind (fun row => row[WriterRank]?)

/-- The entry `(*MetadataBaseArray[Step])[WriterRank]`: `none` outside the
vectors or behind a null pointer, `some none` for a null pointer. -/
def BP5Deserializer.block (r : BP5Deserializer) (Step WriterRank : Nat) :
    Option (Option MetadataBlock) :=
  ((r.MetadataBaseArray[Step]?).bind (fun p => p.bind (fun k => r.Vectors[k]?))).bind
    (fun vec => vec[WriterRank]?)

/-- The state of a reader in random-access mode on which the steps `done` have
been installed, step 0 first: the cohort sizes, and for the block of every
writer of every step its control block and the decoded block with its bits. -/
def StepsInstalled (r : BP5Deserializer) (done : List (List (ControlInfo × MetadataBlock))) :
    Prop :=
  r.m_RandomAccessMode = true ∧
  r.m_WriterCohortSize = done.map List.length ∧
  r.m_ControlArray.length ≤ done.length ∧
  r.MetadataBaseArray.length ≤ done.length ∧
  (∀ (s k : Nat), r.MetadataBaseArray[s]? = some (some k) → k < r.Vectors.length) ∧
  (∀ (s : Nat) (blocks : List (ControlInfo × MetadataBlock)) (w : Nat)
      (b : ControlInfo × MetadataBlock), done[s]? = some blocks → blocks[w]? = some b →
    r.control s w = some (some b.1) ∧
    ∃ B1, r.block s w = some (some B1) ∧ B1.BitField = b.2.BitField)

/-- The state of the reader while the step after `done` is installed: the
blocks `pre` of the first writers of the step are in, of `W` writers. -/
def StepInstalling (r : BP5Deserializer) (done : List (List (ControlInfo × MetadataBlock)))
    (W : Nat) (pre : List (ControlInfo × MetadataBlock)) : Prop :=
  r.m_RandomAccessMode = true ∧
  r.m_WriterCohortSize = done.map List.length ++ [W] ∧
  (∀ (s k : Nat), r.MetadataBaseArray[s]? = some (some k) → k < r.Vectors.length) ∧
  (∀ (s : Nat) (blocks : List (ControlInfo × MetadataBlock)) (w : Nat)
      (b : ControlInfo × MetadataBlock), done[s]? = some blocks → blocks[w]? = some b →
    r.control s w = some (some b.1) ∧
    ∃ B1, r.block s w = some (some B1) ∧ B1.BitField = b.2.BitField) ∧
  (pre = [] → r.m_ControlArray.length ≤ done.length ∧
    r.MetadataBaseArray.length ≤ done.length) ∧
  (pre ≠ [] → r.m_ControlArray.length = done.length + 1 ∧
    r.MetadataBaseArray.length = done.length + 1 ∧
    ∃ row k vec, r.m_ControlArray[done.length]? = some row ∧ row.length = W ∧
      r.MetadataBaseArray[done.length]? = some (some k) ∧ r.m_MetadataBaseAddrs = some k ∧
      r.Vectors[k]? = some vec ∧ vec.length = W ∧
      (∀ (s : Nat), s < done.length → r.MetadataBaseArray[s]? ≠ some (some k)) ∧
      ∀ (w : Nat) (b : ControlInfo × MetadataBlock), pre[w]? = some b →
        row[w]? = some (some b.1) ∧
        ∃ B1, vec[w]? = some (some B1) ∧ B1.BitField = b.2.BitField)

/-- The record of a variable follows the list `L` of the steps on which the
variable was written: `AbsStepFromRel` is `L`, the variable exists when `L` is
not empty, has as many available steps as `L` has entries, and `LastTSAdded` is
the last entry. -/
def Tracks (R : InstalledVarRec) (L : List Nat) : Prop :=
  R.AbsStepFromRel = L ∧ (L = [] → R.Variable = none) ∧
  (L ≠ [] → ∃ hd, R.Variable = some hd ∧ hd.m_AvailableStepsCount = L.length ∧
    L.getLast? = some R.LastTSAdded)

/-- A record as `CreateVarRec` leaves it, for a variable of type `int32_t`. -/
def S6.freshRec : InstalledVarRec :=
  { Type_ := DataType.Int32, Variable := none, GlobalDims := none, DimCount := 0,
    LastTSAdded := DefaultSizeT, FirstTSSeen := DefaultSizeT, AbsStepFromRel := [],
    PerWriterMetaFieldOffset := [], PerWriterBlockStart := [] }

/-- A reader in random-access mode on which nothing has been installed. -/
def S6.fresh : BP5Deserializer :=
  { m_WriterIsRowMajor := true, m_ReaderIsRowMajor := true, m_RandomAccessMode := true,
    CurTimestep := 0, m_WriterCohortSize := [], m_CurrentWriterCohortSize := 0,
    m_ControlArray := [], Vectors := [], MetadataBaseArray := [], m_MetadataBaseAddrs := none,
    VarRecs := fun _ => S6.freshRec }

/-- The variable that `DefineVariable` makes in the scenarios. -/
def S6.DefineVariable : DataType → VariableHandle := fun _ =>
  { m_Shape := [], m_Start := [], m_Count := [], m_AvailableStepsCount := 0,
    m_ShapeID := ShapeID.GlobalValue, m_SingleValue := true }

/-- The control block of a format with one field, a global array at offset 16
that belongs to the record 0. -/
def S6.control : ControlInfo := BuildControl [⟨16, ShapeID.GlobalArray, 0⟩]

/-- The block of a writer that wrote the array of scenario S3. -/
def S6.written : MetadataBlock :=
  { BitField := fun i => decide (i = 0), MetaArray := fun _ => S3.meta0 }

/-- The block of a writer that did not write the array. -/
def S6.skipped : MetadataBlock :=
  { BitField := fun _ => false, MetaArray := fun _ => S3.meta0 }

/-- The five steps of scenario S6: one writer, which wrote the variable on the
steps 0, 2 and 4. -/
def S6.steps : List (List (ControlInfo × MetadataBlock)) :=
  [[(S6.control, S6.written)], [(S6.control, S6.skipped)], [(S6.control, S6.written)],
    [(S6.control, S6.skipped)], [(S6.control, S6.written)]]

/-- The reader after the steps of scenario S6 have been installed. -/
def S6.installed : BP5Deserializer :=
  (installSteps (fun _ => true) S6.DefineVariable S6.steps 0 S6.fresh).getD S6.fresh

/-- Three steps of two writers: both wrote the variable on step 0, none on step
1, the writer of rank 1 on step 2. -/
def S6.pairSteps : List (List (ControlInfo × MetadataBlock)) :=
  [[(S6.control, S6.written), (S6.control, S6.written)],
    [(S6.control, S6.skipped), (S6.control, S6.skipped)],
    [(S6.control, S6.skipped), (S6.control, S6.written)]]

/-- The reader after the steps `S6.pairSteps` have been installed. -/
def S6.pairInstalled : BP5Deserializer :=
  (installSteps (fun _ => true) S6.DefineVariable S6.pairSteps 0 S6.fresh).getD S6.fresh

/-- A reader as `S6.fresh` that is column-major, for a row-major writer. -/
def S5.fresh : BP5Deserializer :=
  { m_WriterIsRowMajor := true, m_ReaderIsRowMajor := false, m_RandomAccessMode := true,
    CurTimestep := 0, m_WriterCohortSize := [], m_CurrentWriterCohortSize := 0,
    m_ControlArray := [], Vectors := [], MetadataBaseArray := [], m_MetadataBaseAddrs := none,
    VarRecs := fun _ => S6.freshRec }

/-- The control block of a format with one field, a local value at offset 16
that belongs to the record 0. -/
def S1.control : ControlInfo := BuildControl [⟨16, ShapeID.LocalValue, 0⟩]

/-- The column-major reader after `SetupForStep(0, 1)`. -/
def S5.start : BP5Deserializer := SetupForStep S5.fresh 0 1

/-- The column-major reader after the block of a row-major writer that wrote
the array of scenario S3, of shape `{2, 8}`, has been installed on step 0. -/
def S5.installed : BP5Deserializer :=
  (InstallMetaData (fun _ => true) S6.DefineVariable S5.start S6.control S6.written 0 0).getD
    S5.fresh

/-- A call on the reader: `SetupForStep(Step, WriterCount)` or
`InstallMetaData` of a decoded block with the control block of its format. -/
inductive ReaderCall where
  | Setup (Step WriterCount : Nat)
  | Install (Control : ControlInfo) (BaseData : MetadataBlock) (WriterRank Step : Nat)

/-- The state after a sequence of calls on the reader, in call order. -/
def readerCalls (stdType : DataType → Bool) (DefineVariable : DataType → VariableHandle) :
    List ReaderCall → BP5Deserializer → Option BP5Deserializer
  | [], r => some r
  | ReaderCall.Setup Step WriterCount :: calls, r =>
    readerCalls stdType DefineVariable calls (SetupForStep r Step WriterCount)
  | ReaderCall.Install Control BaseData WriterRank Step :: calls, r =>
    match InstallMetaData stdType DefineVariable r Control BaseData WriterRank Step with
    | none => none
    | some r => readerCalls stdType DefineVariable calls r

/-- The writer rank and the `Shape` that a call brings for the array variable
`VarNum`: the `Shape` of the `MetaArrayRec` of its field as `InstallMetaData`
leaves it. Other calls bring nothing. -/
def shapeEvent (m_WriterIsRowMajor m_ReaderIsRowMajor : Bool) (VarNum : Nat) :
    ReaderCall → List (Nat × Option (List Nat))
  | ReaderCall.Setup _ _ => []
  | ReaderCall.Install Control BaseData WriterRank _ =>
    if carries (Control, BaseData) VarNum then
      match Control.Controls.find? (fun C => decide (C.VarRec = VarNum)) with
      | some C =>
        if C.OrigShapeID = ShapeID.GlobalArray ∨ C.OrigShapeID = ShapeID.LocalArray then
          [(WriterRank,
            (installArrayField m_WriterIsRowMajor m_ReaderIsRowMajor
              (BaseData.MetaArray C.FieldOffset)).bind (fun m => m.Shape))]
        else []
      | none => []
    else []

/-- The pointer `GlobalDims` after the statement of `InstallMetaData` that sets
it, for the blocks `events` in order. -/
def globalDims (GlobalDims : Option (List Nat)) (events : List (Nat × Option (List Nat))) :
    Option (List Nat) :=
  events.foldl (fun G e => if e.1 = 0 ∨ G = none then e.2 else G) GlobalDims

/-- The block of a writer that wrote the array of scenario S3 with the `Shape`
`{4, 8}`. -/
def S6.reshaped : MetadataBlock :=
  { BitField := fun i => decide (i = 0)
    MetaArray := fun _ =>
      { Dims := 2, BlockCount := 1, DBCount := 2, Shape := some [4, 8], Count := some [1, 8],
        Offsets := some [0, 0], DataBlockLocation := [0], DataBlockSize := [],
        MinMax := some [0, 7] } }

/-- Two steps of one writer of rank 0, which wrote the array with the `Shape`
`{2, 8}` on step 0 and with the `Shape` `{4, 8}` on step 1. -/
def S6.shapeCalls : List ReaderCall :=
  [ReaderCall.Setup 0 1, ReaderCall.Install S6.control S6.written 0 0,
    ReaderCall.Setup 1 1, ReaderCall.Install S6.control S6.reshaped 0 1]

/-- The reader after the calls `S6.shapeCalls`. -/
def S6.shapeInstalled : BP5Deserializer :=
  (readerCalls (fun _ => true) S6.DefineVariable S6.shapeCalls S6.fresh).getD S6.fresh

/-- Whether a call installs a block whose control block is well formed. -/
def ReaderCall.WellFormed : ReaderCall → Prop
  | ReaderCall.Setup _ _ => True
  | ReaderCall.Install Control _ _ _ => Control.WellFormed

instance (c : ReaderCall) : Decidable c.WellFormed := by
  cases c <;> unfold ReaderCall.WellFormed <;> infer_instance

/-! ## Aggregates of several ranks -/

/-- The blob addresses `iov_len` bytes: the bytes behind a non-null `iov_base`
are `iov_len` many, and a null `iov_base` comes with the length 0. -/
def iovec.Addresses (v : iovec) : Prop :=
  (v.iov_base.getD []).length = v.iov_len

instance (v : iovec) : Decidable v.Addresses := by
  unfold iovec.Addresses; infer_instance

/-- Every metadata and attribute blob of the rank addresses `iov_len` bytes. -/
def RankInput.Valid (r : RankInput) : Prop :=
  ∀ v ∈ r.MetaEncodeBuffers ++ r.AttributeEncodeBuffers, v.Addresses

instance (r : RankInput) : Decidable r.Valid := by
  unfold RankInput.Valid; infer_instance

/-- The call of `BreakoutContiguousMetadata` on the aggregate of one rank alone,
with empty output lists. -/
def RankInput.brokenOut (r : RankInput) : Option BreakoutState :=
  BreakoutContiguousMetadata r.contiguous [0] [] [] [] []

/-- The view `out` is the blob `v` padded: a non-null view whose length is
`iov_len` rounded up to a multiple of eight, whose first `iov_len` bytes are
the bytes of the blob and whose other bytes are zero. -/
def PaddedViewOf (v out : iovec) : Prop :=
  ∃ view, out = ⟨some view, (v.iov_len + 7) / 8 * 8⟩ ∧
    view.length = (v.iov_len + 7) / 8 * 8 ∧
    view.take v.iov_len = v.iov_base.getD [] ∧
    view.drop v.iov_len = List.replicate ((v.iov_len + 7) / 8 * 8 - v.iov_len) 0

/-- The metadata of a rank with a three-byte metadata blob, a null attribute
blob and a nine-byte attribute blob. -/
def Agg.rank2 : RankInput :=
  { NewMetaMetaBlocks := [⟨[9], [4]⟩]
    MetaEncodeBuffers := [⟨some [1, 2, 3], 3⟩]
    AttributeEncodeBuffers := [⟨none, 0⟩, ⟨some [7, 7, 7, 7, 7, 7, 7, 7, 7], 9⟩]
    DataSizes := [300]
    WriterDataPositions := [12] }

/-! ## Box intersection in `size_t` arithmetic -/

/-- The function `IntersectionStartCount` with the arithmetic of `size_t`: the
ends `start + count - 1` and the count `intersectionEnd - intersectionStart + 1`
are taken modulo `2 ^ 64`. The result is `none` when the function returns
false, else the arrays `outstart`, `outcount`. -/
def IntersectionStartCount64 (dimensionsSize : Nat) (start1 count1 start2 count2 : List Nat) :
    Option (List Nat × List Nat) :=
  if (List.range dimensionsSize).any (fun d =>
      let end1 := (start1.getD d 0 + count1.getD d 0 + (2 ^ 64 - 1)) % 2 ^ 64
      let end2 := (start2.getD d 0 + count2.getD d 0 + (2 ^ 64 - 1)) % 2 ^ 64
      (count1.getD d 0 == 0 || count2.getD d 0 == 0) ||
        (decide (start2.getD d 0 > end1) || decide (end2 < start1.getD d 0)))
  then none
  else
    let out := (List.range dimensionsSize).map (fun d =>
      let intersectionStart :=
        if start1.getD d 0 < start2.getD d 0 then start2.getD d 0 else start1.getD d 0
      let end1 := (start1.getD d 0 + count1.getD d 0 + (2 ^ 64 - 1)) % 2 ^ 64
      let end2 := (start2.getD d 0 + count2.getD d 0 + (2 ^ 64 - 1)) % 2 ^ 64
      let intersectionEnd := if end1 > end2 then end2 else end1
      (intersectionStart, (intersectionEnd + (2 ^ 64 - intersectionStart) + 1) % 2 ^ 64))
    if out.any (fun sc => sc.2 == 0) then none
    else some (out.map Prod.fst, out.map Prod.snd)

/-! ## The loops of `LinearIndex` in `size_t` arithmetic -/

/-- The loop `for (size_t d = 0; d < dimensionsSize; ++d)` of `LinearIndex` from
the state `d`, `offset` on, with `size_t` arithmetic: each test of the loop
condition takes one unit of `fuel`, and the result is `none` when the fuel runs
out before the loop ends. -/
def LinearIndex64.rowLoop (dimensionsSize : Nat) (count pos : List Nat) :
    Nat → Nat → Nat → Option Nat
  | 0, _, _ => none
  | fuel + 1, d, offset =>
    if d < dimensionsSize then
      LinearIndex64.rowLoop dimensionsSize count pos fuel ((d + 1) % 2 ^ 64)
        ((offset * count.getD d 0 + pos.getD d 0) % 2 ^ 64)
    else some offset

/-- The loop `for (size_t d = dimensionsSize - 1; d < dimensionsSize; d--)` of
`LinearIndex` from the state `d`, `offset` on: `d--` at 0 wraps to
`2 ^ 64 - 1`, which ends the loop. -/
def LinearIndex64.columnLoop (dimensionsSize : Nat) (count pos : List Nat) :
    Nat → Nat → Nat → Option Nat
  | 0, _, _ => none
  | fuel + 1, d, offset =>
    if d < dimensionsSize then
      LinearIndex64.columnLoop dimensionsSize count pos fuel ((d + (2 ^ 64 - 1)) % 2 ^ 64)
        ((offset * count.getD d 0 + pos.getD d 0) % 2 ^ 64)
    else some offset

/-- The function `LinearIndex` with `size_t` arithmetic and its loops run for
at most `fuel` tests of their condition. -/
def LinearIndex64 (fuel dimensionsSize : Nat) (count pos : List Nat) (IsRowMajor : Bool) :
    Option Nat :=
  if IsRowMajor then LinearIndex64.rowLoop dimensionsSize count pos fuel 0 0
  else
    LinearIndex64.columnLoop dimensionsSize count pos fuel
      ((dimensionsSize + (2 ^ 64 - 1)) % 2 ^ 64) 0

/-! ## Type tags read back (`TranslateFFSType2ADIOS`) -/

/-- The function `BP5Deserializer::TranslateFFSType2ADIOS`. The values of
`sizeof(float)`, `sizeof(double)` and `sizeof(long double)` belong to the
platform and are parameters. -/
def TranslateFFSType2ADIOS (sizeofFloat sizeofDouble sizeofLongDouble : Nat) (Type_ : String)
    (size : Int) : DataType :=
  if Type_ = "integer" then
    if size = 1 then DataType.Int8
    else if size = 2 then DataType.Int16
    else if size = 4 then DataType.Int32
    else if size = 8 then DataType.Int64
    else DataType.None
  else if Type_ = "unsigned integer" then
    if size = 1 then DataType.UInt8
    else if size = 2 then DataType.UInt16
    else if size = 4 then DataType.UInt32
    else if size = 8 then DataType.UInt64
    else DataType.None
  else if Type_ = "double" ∨ Type_ = "float" then
    if size = (sizeofFloat : Int) then DataType.Float
    else if sizeofLongDouble ≠ sizeofDouble ∧ size = (sizeofLongDouble : Int) then
      DataType.LongDouble
    else DataType.Double
  else if Type_ = "complex4" then DataType.FloatComplex
  else if Type_ = "complex8" then DataType.DoubleComplex
  else if Type_ = "string" then DataType.String
  else DataType.None

/-- The type that the reader gives a simple field in `BuildControl`: the
writer's `AddField` stores the tag of `TranslateADIOS2Type2FFS` as `field_type`
and the element size as `field_size`, and `BuildControl` passes the two to
`TranslateFFSType2ADIOS`; `none` where the writer has no tag for the type. -/
def typeSeenByReader (sizeofFloat sizeofDouble sizeofLongDouble : Nat) (Type_ : DataType)
    (ElementSize : Int) : Option DataType :=
  (TranslateADIOS2Type2FFS Type_).map
    (fun tag => TranslateFFSType2ADIOS sizeofFloat sizeofDouble sizeofLongDouble tag ElementSize)

/-- The element types that the claim on type tags lists, `Char` apart. -/
def taggedTypes : List DataType :=
  [DataType.Int8, DataType.Int16, DataType.Int32, DataType.Int64, DataType.UInt8,
    DataType.UInt16, DataType.UInt32, DataType.UInt64, DataType.Float, DataType.Double,
    DataType.FloatComplex, DataType.DoubleComplex, DataType.String]

/-- The byte sizes of the element types on a platform: the fixed-width integer
types have their width, `char` has the size 1, and `float` and `double` have
the sizes that `sizeof` gives, which differ. -/
def PlatformSizes (sizeofFloat sizeofDouble : Nat) (size : DataType → Int) : Prop :=
  size DataType.Char = 1 ∧ size DataType.Int8 = 1 ∧ size DataType.Int16 = 2 ∧
  size DataType.Int32 = 4 ∧ size DataType.Int64 = 8 ∧ size DataType.UInt8 = 1 ∧
  size DataType.UInt16 = 2 ∧ size DataType.UInt32 = 4 ∧ size DataType.UInt64 = 8 ∧
  size DataType.Float = (sizeofFloat : Int) ∧ size DataType.Double = (sizeofDouble : Int) ∧
  sizeofFloat ≠ sizeofDouble

/-- The byte sizes of the element types where `float` has 4 bytes, `double` 8,
the complex types twice as many and a pointer 8. -/
def LP64.size : DataType → Int
  | DataType.None => 0
  | DataType.Char => 1
  | DataType.Int8 => 1
  | DataType.Int16 => 2
  | DataType.Int32 => 4
  | DataType.Int64 => 8
  | DataType.UInt8 => 1
  | DataType.UInt16 => 2
  | DataType.UInt32 => 4
  | DataType.UInt64 => 8
  | DataType.Float => 4
  | DataType.Double => 8
  | DataType.LongDouble => 16
  | DataType.FloatComplex => 8
  | DataType.DoubleComplex => 16
  | DataType.String => 8
  | DataType.Struct => 0

/-! ## Scenario S7: a streaming reader and a variable that a writer stops writing -/

/-- A reader in streaming mode on which nothing has been installed. -/
def S7.fresh : BP5Deserializer := { S6.fresh with m_RandomAccessMode := false }

/-- The block of a writer that did not write the array: no bit is set and the
field of the array is zero. -/
def S7.skipped : MetadataBlock :=
  { BitField := fun _ => false, MetaArray := fun _ => zeroMetaArrayRec }

/-- Two steps of one writer, which wrote the array on step 0 and not on step 1. -/
def S7.steps : List (List (ControlInfo × MetadataBlock)) :=
  [[(S6.control, S6.written)], [(S6.control, S7.skipped)]]

/-- The streaming reader after step 0 of `S7.steps`. -/
def S7.first : BP5Deserializer :=
  (installSteps (fun _ => true) S6.DefineVariable (S7.steps.take 1) 0 S7.fresh).getD S7.fresh

/-- The streaming reader after both steps of `S7.steps`. -/
def S7.installed : BP5Deserializer :=
  (installSteps (fun _ => true) S6.DefineVariable S7.steps 0 S7.fresh).getD S7.fresh

/-- The random-access reader after both steps of `S7.steps`. -/
def S7.installedRA : BP5Deserializer :=
  (installSteps (fun _ => true) S6.DefineVariable S7.steps 0 S6.fresh).getD S6.fresh

/-- The entry `(*m_MetadataBaseAddrs)[WriterRank]`, the block of a writer on
the current step of a streaming reader: `none` outside the vector or behind a
null pointer, `some none` for a null pointer. -/
def BP5Deserializer.current (r : BP5Deserializer) (WriterRank : Nat) :
    Option (Option MetadataBlock) :=
  (r.m_MetadataBaseAddrs.bind (fun k => r.Vectors[k]?)).bind (fun vec => vec[WriterRank]?)

/-! ## From relative to absolute steps (`RelativeToAbsoluteStep`) -/

/-- The loop `while (WriterRank < writerCohortSize)` of
`RelativeToAbsoluteStep` from `WriterRank` on, with `n` writers left: whether it
ends at a writer whose block has the bit `VarNum` set (`RelStep--; break`);
`none` when it reads outside a vector or through a null pointer. -/
def RelativeToAbsoluteStep.writers (r : BP5Deserializer) (VarNum AbsStep : Nat) :
    Nat → Nat → Option Bool
  | 0, _ => some false
  | n + 1, WriterRank =>
    match r.block AbsStep WriterRank with
    | some (some BaseData) =>
      if BP5BitfieldTest BaseData.BitField VarNum then some true
      else RelativeToAbsoluteStep.writers r VarNum AbsStep n (WriterRank + 1)
    | _ => none

/-- The loop `while (RelStep != 0)` of `RelativeToAbsoluteStep` from the state
`AbsStep`, `RelStep` on: each test of the loop condition takes one unit of
`fuel`, and the result is `none` when the fuel runs out or a read fails. -/
def RelativeToAbsoluteStep.loop (r : BP5Deserializer) (VarNum : Nat) :
    Nat → Nat → Nat → Option Nat
  | 0, _, _ => none
  | fuel + 1, AbsStep, RelStep =>
    if RelStep ≠ 0 then
      match r.WriterCohortSize AbsStep with
      | none => none
      | some writerCohortSize =>
        match RelativeToAbsoluteStep.writers r VarNum AbsStep writerCohortSize 0 with
        | none => none
        | some found =>
          RelativeToAbsoluteStep.loop r VarNum fuel ((AbsStep + 1) % 2 ^ 64)
            (if found then RelStep - 1 else RelStep)
    else some AbsStep

/-- The function `BP5Deserializer::RelativeToAbsoluteStep` for the record
`VarNum`, its loop run for at most `fuel` tests of its condition. -/
def BP5Deserializer.RelativeToAbsoluteStep (r : BP5Deserializer) (VarNum RelStep fuel : Nat) :
    Option Nat :=
  RelativeToAbsoluteStep.loop r VarNum fuel (r.VarRecs VarNum).FirstTSSeen RelStep

/-- Three steps of one writer, which wrote the variable on each of them. -/
def S8.steps : List (List (ControlInfo × MetadataBlock)) :=
  [[(S6.control, S6.written)], [(S6.control, S6.written)], [(S6.control, S6.written)]]

/-- The random-access reader after the steps `S8.steps`. -/
def S8.installed : BP5Deserializer :=
  (installSteps (fun _ => true) S6.DefineVariable S8.steps 0 S6.fresh).getD S6.fresh

/-- The control block of a format whose only field, at index 0, belongs to the
record 1. -/
def S8.control1 : ControlInfo := BuildControl [⟨16, ShapeID.GlobalArray, 1⟩]

/-- The random-access reader after two steps of one writer whose format is
`S8.control1` and who wrote the variable, bit 0, on both. -/
def S8.installed1 : BP5Deserializer :=
  (installSteps (fun _ => true) S6.DefineVariable
    [[(S8.control1, S6.written)], [(S8.control1, S6.written)]] 0 S6.fresh).getD S6.fresh

/-! ## Field names read back (`BreakdownArrayName`, `BreakdownVarName`) -/

/-- The functions `strchr(s, c)` and `index(s, c)` on a C string, the list of
its characters in front of the terminating NUL: the string from the first `c`
on, `none` for a null pointer. -/
def strchr : List Char → Char → Option (List Char)
  | [], _ => none
  | x :: xs, c => if x = c then some (x :: xs) else strchr xs c

/-- The pointer `s + n`: `none` when it points behind the terminating NUL. -/
def plusOffset (s : List Char) (n : Nat) : Option (List Char) :=
  if n ≤ s.length then some (s.drop n) else none

/-- The function `isspace` in the C locale. -/
def isspace (c : Char) : Bool :=
  c.toNat = 32 || (9 ≤ c.toNat && c.toNat ≤ 13)

/-- The function `isdigit`. -/
def isdigit (c : Char) : Bool :=
  48 ≤ c.toNat && c.toNat ≤ 57

/-- The decimal digits that a conversion `%d` takes from the input: the value
with the digits read so far in `acc`, and the input behind the digits. -/
def scanDigits : List Char → Nat → Nat × List Char
  | [], acc => (acc, [])
  | c :: cs, acc =>
    if isdigit c then scanDigits cs (acc * 10 + (c.toNat - 48)) else (acc, c :: cs)

/-- The digits of a conversion `%d` behind the sign: `none` when the input does
not begin with a digit. -/
def scanUnsigned : List Char → Option (Nat × List Char)
  | [] => none
  | c :: cs => if isdigit c then some (scanDigits (c :: cs) 0) else none

/-- The conversion `%d` of `sscanf`: it skips white space, takes a sign and the
decimal digits and gives the number and the input behind it, `none` when no
number stands there. The number is not bounded here; the callers take a number
outside `int` as undefined. -/
def scanInt (s : List Char) : Option (Int × List Char) :=
  match s.dropWhile isspace with
  | [] => none
  | c :: t =>
    if c = '-' then (scanUnsigned t).map (fun vr => (-(vr.1 : Int), vr.2))
    else if c = '+' then (scanUnsigned t).map (fun vr => ((vr.1 : Int), vr.2))
    else (scanUnsigned (c :: t)).map (fun vr => ((vr.1 : Int), vr.2))

/-- The call `sscanf(s, "%d_%d", &a, &b)` (the same for the format `"%d_%d_"`):
the values assigned to `a` and `b`, `none` for a variable that is not assigned. -/
def sscanf_d_d (s : List Char) : Option Int × Option Int :=
  match scanInt s with
  | none => (none, none)
  | some (a, rest) =>
    match rest with
    | [] => (some a, none)
    | c :: rest =>
      if c = '_' then
        match scanInt rest with
        | none => (some a, none)
        | some (b, _) => (some a, some b)
      else (some a, none)

/-- The value is an `int`. -/
def isInt (v : Int) : Bool := decide (-(2 ^ 31 : Int) ≤ v) && decide (v < 2 ^ 31)

/-- The function `BP5Deserializer::BreakdownArrayName`: the base name, the type
code and the element size; `none` when a pointer leaves the string, `strchr`
returns a null pointer that is used, or a number is not assigned or no `int`. -/
def BreakdownArrayName (Name : List Char) : Option (List Char × Int × Int) :=
  match plusOffset Name 4 with
  | none => none
  | some p =>
    match strchr p '_' with
    | none => none
    | some u1 =>
      match strchr (u1.drop 1) '_' with
      | none => none
      | some u2 =>
        let NameStart := u2.drop 1
        match sscanf_d_d p with
        | (some ElementSize, some Type_) =>
          if isInt ElementSize && isInt Type_ then some (NameStart, Type_, ElementSize)
          else none
        | _ => none

/-- The function `BP5Deserializer::NameIndicatesArray`: for a name of two
characters `Name[2]` is the terminating NUL, and for a shorter name it lies
behind the string (`none`). -/
def NameIndicatesArray : List Char → Option Bool
  | _ :: _ :: c :: _ => some (c = 'G' || c = 'L' || c = 'J')
  | [_, _] => some false
  | _ => none

/-- The `switch (FieldList[i].field_name[2])` of `BuildControl` that sets
`OrigShapeID`, which is `Unknown` before it: for a name of two characters the
character is the terminating NUL, and for a shorter name it lies behind the
string (`none`). -/
def OrigShapeID : List Char → Option ShapeID
  | _ :: _ :: c :: _ =>
    some (if c = 'g' then ShapeID.GlobalValue
      else if c = 'G' then ShapeID.GlobalArray
      else if c = 'J' then ShapeID.JoinedArray
      else if c = 'l' then ShapeID.LocalValue
      else if c = 'L' then ShapeID.LocalArray
      else ShapeID.Unknown)
  | [_, _] => some ShapeID.Unknown
  | _ => none

/-- The size `Len` of the buffer that `BuildLongName` allocates. -/
def BuildLongName.Len (base_name : String) (Shape : ShapeID) : Nat :=
  base_name.length + 3 + (NamePrefix Shape).length + 16

/-- The name that `BuildLongName` returns where the name and its terminating
NUL fit in the `Len` bytes of the buffer, `none` where `sprintf` or `strcat`
writes behind the buffer. -/
def BuildLongName.result (base_name : String) (Shape : ShapeID) (type element_size : Nat) :
    Option String :=
  if (BuildLongName base_name Shape type element_size).length + 1 ≤
      BuildLongName.Len base_name Shape then
    some (BuildLongName base_name Shape type element_size)
  else none

/-! ## Attribute fields (`MarshalAttribute`, `InstallAttributeData`) -/

/-- The function `ConcatName`; `tail` is its second parameter. -/
def ConcatName (base_name tail : String) : String :=
  base_name ++ "_" ++ tail

/-- The function `BP5Serializer::AddField`. -/
def AddField (Fields : List FMField) (Name : String) (Type_ : DataType) (ElementSize : Nat) :
    List FMField :=
  AddSimpleField Fields Name ((TranslateADIOS2Type2FFS Type_).getD "") ElementSize

/-- The function `BP5Serializer::AddVarArrayField`: the field is added with the
size of a pointer and its `field_size` is then set to `ElementSize`. -/
def AddVarArrayField (Fields : List FMField) (Name : String) (Type_ : DataType)
    (ElementSize : Nat) (SizeField : String) : List FMField :=
  let TypeWithArray := (TranslateADIOS2Type2FFS Type_).getD "" ++ "[" ++ SizeField ++ "]"
  let Fields := AddSimpleField Fields Name TypeWithArray 8
  match Fields.getLast? with
  | none => Fields
  | some f => Fields.dropLast ++ [{ f with field_size := ElementSize }]

/-- The fields that `BP5Serializer::MarshalAttribute` adds to
`Info.AttributeFields`: one field for a simple attribute
(`ElemCount == (size_t)(-1)`), the count field and the array field for an array
attribute. The copies of the value into `Info.AttributeData` are left out. -/
def MarshalAttribute (AttributeFields : List FMField) (Name : String) (Type_ : DataType)
    (ElemSize ElemCount : Nat) : List FMField :=
  let ElemSize := if Type_ = DataType.String then 8 else ElemSize
  if ElemCount = 2 ^ 64 - 1 then
    let SstName := BuildVarName Name ShapeID.GlobalValue Type_.toNat ElemSize
    AddField AttributeFields SstName Type_ ElemSize
  else
    let ArrayName := BuildVarName Name ShapeID.GlobalArray 0 0
    let ElemCountName := ConcatName ArrayName "ElemCount"
    let Fields := AddField AttributeFields ElemCountName DataType.Int64 8
    AddVarArrayField Fields ArrayName Type_ ElemSize ElemCountName

/-- The function `BP5Deserializer::NameIndicatesAttrArray`: whether the nine
characters at `Name + Len - 9` are `ElemCount`; `none` for a name of fewer than
nine characters, where that pointer stands in front of the name. -/
def NameIndicatesAttrArray (Name : List Char) : Option Bool :=
  if 9 ≤ Name.length then some (decide (Name.drop (Name.length - 9) = "ElemCount".toList))
  else none

/-- The function `BP5Deserializer::BreakdownVarName`: the base name, the type
code and the element size; `none` when a pointer leaves the string, `strchr`
returns a null pointer that is used, or a number is not assigned or no `int`. -/
def BreakdownVarName (Name : List Char) : Option (List Char × Int × Int) :=
  match plusOffset Name 4 with
  | none => none
  | some p =>
    match strchr p '_' with
    | none => none
    | some u1 =>
      match strchr (u1.drop 1) '_' with
      | none => none
      | some u2 =>
        let NameStart := u2.drop 1
        match sscanf_d_d p with
        | (some ElementSize, some Type_) =>
          if isInt ElementSize && isInt Type_ then some (NameStart, Type_, ElementSize)
          else none
        | _ => none

/-- The cast `(DataType)Type` of a type code: the member with the code (see
`DataType.toNat`), `none` for a number that is the code of no member. -/
def DataType.ofCode (code : Int) : Option DataType :=
  [DataType.None, DataType.Char, DataType.Int8, DataType.Int16, DataType.Int32, DataType.Int64,
    DataType.UInt8, DataType.UInt16, DataType.UInt32, DataType.UInt64, DataType.Float,
    DataType.Double, DataType.LongDouble, DataType.FloatComplex, DataType.DoubleComplex,
    DataType.String, DataType.Struct].find? (fun T => decide ((T.toNat : Int) = code))

/-- A call of `IO::DefineAttribute` by `InstallAttributeData`: the name and the
type of the attribute, and whether it is defined with an array of values. -/
structure InstalledAttribute where
  Name : List Char
  Type_ : DataType
  IsArray : Bool
  deriving DecidableEq, Repr

/-- The loop over the fields of `BP5Deserializer::InstallAttributeData`: the
attributes that it defines, in order; `none` when it reads a field behind the
last one, a pointer leaves a string or a null pointer is used. `attrType` tells
the types for which a branch defines the attribute (`std::string` and the types
of `ADIOS2_FOREACH_PRIMITIVE_STDTYPE_1ARG`, a macro outside the listed
sources); for other types only a message is printed. The sizes of `float`,
`double` and `long double` are parameters of `TranslateFFSType2ADIOS`. -/
def InstallAttributeData (attrType : DataType → Bool)
    (sizeofFloat sizeofDouble sizeofLongDouble : Nat) :
    List FMField → Option (List InstalledAttribute)
  | [] => some []
  | f :: rest =>
    match NameIndicatesAttrArray f.field_name.toList with
    | none => none
    | some false =>
      match BreakdownVarName f.field_name.toList with
      | none => none
      | some (FieldName, Type_, _) =>
        match DataType.ofCode Type_ with
        | none => none
        | some Type_ =>
          if Type_ = DataType.Struct then some []
          else
            (InstallAttributeData attrType sizeofFloat sizeofDouble sizeofLongDouble rest).map
              (fun l => if attrType Type_ then ⟨FieldName, Type_, false⟩ :: l else l)
    | some true =>
      match rest with
      | [] => none
      | g :: rest =>
        match plusOffset g.field_name.toList 4, strchr g.field_type.toList '[' with
        | some FieldName, some bracket =>
          let FieldType :=
            g.field_type.toList.take (g.field_type.toList.length - bracket.length)
          let Type_ := TranslateFFSType2ADIOS sizeofFloat sizeofDouble sizeofLongDouble
            (String.mk FieldType) g.field_size
          if Type_ = DataType.Struct then some []
          else
            (InstallAttributeData attrType sizeofFloat sizeofDouble sizeofLongDouble rest).map
              (fun l => if attrType Type_ then ⟨FieldName, Type_, true⟩ :: l else l)
        | _, _ => none

/-! ## Field names of the first metadata version (`BreakdownV1ArrayName`) -/

/-- What a call whose loop is run with fuel comes to: it returns, it does
something undefined (a pointer leaves the string, a null pointer is used, a
variable is read that was not assigned), or the fuel runs out before the loop
ends. -/
inductive Run (α : Type) where
  | done (a : α)
  | undefined
  | outOfFuel
  deriving DecidableEq, Repr

/-- The function `rindex(s, c)`: the index of the last `c` of the string,
`none` for a null pointer. -/
def rindex : List Char → Char → Option Nat
  | [], _ => none
  | x :: xs, c =>
    match rindex xs c with
    | some k => some (k + 1)
    | none => if x = c then some 0 else none

/-- The variables of the loop of `BreakdownV1ArrayName`: the pointer `Plus` as
an index into `Name` (`none` for a null pointer) and the two flags. -/
structure PlusState where
  Plus : Option Nat
  Operator : Bool
  MinMax : Bool
  deriving DecidableEq, Repr

/-- The loop condition `Plus && (*Plus == '+')`. -/
def BreakdownV1ArrayName.condition (Name : List Char) (s : PlusState) : Bool :=
  match s.Plus with
  | none => false
  | some p => decide (Name[p]? = some '+')

/-- The body of the loop of `BreakdownV1ArrayName`, entered with `*Plus == '+'`:
the variables after it, `none` for something undefined. Where
`sscanf(Plus, "+%dO", &Len)` assigns `Len` it returns 1 and `Plus` becomes
`index(Plus, 'O') + 1 + Len`; else where the string at `Plus` begins with `+MM`
`Plus` moves on by 3; else the variables stay as they are. -/
def BreakdownV1ArrayName.body (Name : List Char) (s : PlusState) : Option PlusState :=
  match s.Plus with
  | none => none
  | some p =>
    match scanInt ((Name.drop p).drop 1) with
    | some (Len, _) =>
      if isInt Len then
        match strchr (Name.drop p) 'O' with
        | none => none
        | some o =>
          let OpStart : Int := ((Name.length - o.length + 1 : Nat) : Int)
          if 0 ≤ OpStart + Len ∧ OpStart + Len ≤ (Name.length : Int) then
            some { Plus := some (OpStart + Len).toNat, Operator := true, MinMax := s.MinMax }
          else none
      else none
    | none =>
      if (Name.drop p).take 3 = "+MM".toList then
        some { Plus := some (p + 3), Operator := s.Operator, MinMax := true }
      else some s

/-- The loop `while (Plus && (*Plus == '+'))` of `BreakdownV1ArrayName`: each
test of the condition takes one unit of fuel. -/
def BreakdownV1ArrayName.loop (Name : List Char) : Nat → PlusState → Run PlusState
  | 0, _ => Run.outOfFuel
  | fuel + 1, s =>
    if BreakdownV1ArrayName.condition Name s then
      match BreakdownV1ArrayName.body Name s with
      | none => Run.undefined
      | some s => BreakdownV1ArrayName.loop Name fuel s
    else Run.done s

/-- The function `BP5Deserializer::BreakdownV1ArrayName`, its loop run with
`fuel`: the base name, the type code, the element size and the flags `Operator`
and `MinMax`; `Operator` is a reference that the caller has set. -/
def BreakdownV1ArrayName (fuel : Nat) (Name : List Char) (Operator : Bool) :
    Run (List Char × Int × Int × Bool × Bool) :=
  match plusOffset Name 4 with
  | none => Run.undefined
  | some p =>
    match strchr p '_' with
    | none => Run.undefined
    | some u1 =>
      match strchr (u1.drop 1) '_' with
      | none => Run.undefined
      | some u2 =>
        let NameStart := u2.drop 1
        let Plus := (strchr Name '+').map (fun rest => Name.length - rest.length)
        match BreakdownV1ArrayName.loop Name fuel ⟨Plus, Operator, false⟩ with
        | Run.outOfFuel => Run.outOfFuel
        | Run.undefined => Run.undefined
        | Run.done s =>
          match sscanf_d_d p with
          | (some ElementSize, some Type_) =>
            if isInt ElementSize && isInt Type_ then
              match rindex NameStart '_' with
              | none => Run.undefined
              | some k => Run.done (NameStart.take k, Type_, ElementSize, s.Operator, s.MinMax)
            else Run.undefined
          | _ => Run.undefined

/-- The buffer and the value of `Position` at the end of the copy pass of
`CopyMetadataToContiguous`; the buffer is the vector that the function returns,
and `Position` is the number of bytes that the copy pass has written. -/
def CopyMetadataToContiguous.state (NewMetaMetaBlocks : List MetaMetaInfoBlock)
    (MetaEncodeBuffers AttributeEncodeBuffers : List iovec)
    (DataSizes WriterDataPositions : List Nat) : List Nat × Nat :=
  let NMMBCount := NewMetaMetaBlocks.length
  let MBCount := MetaEncodeBuffers.length
  let ABCount := AttributeEncodeBuffers.length
  let DSCount := DataSizes.length
  let WDPCount := WriterDataPositions.length
  let Ret := List.replicate
    (RetSize NewMetaMetaBlocks MetaEncodeBuffers AttributeEncodeBuffers DataSizes
      WriterDataPositions) 0
  let s := CopyToBuffer Ret 0 (u64Bytes NMMBCount)
  let s := NewMetaMetaBlocks.foldl copyMetaMeta s
  let s := CopyToBuffer s.1 s.2 (u64Bytes MBCount)
  let s := MetaEncodeBuffers.foldl copyMeta s
  let s := CopyToBuffer s.1 s.2 (u64Bytes ABCount)
  let s := AttributeEncodeBuffers.foldl copyAttr s
  let s := CopyToBuffer s.1 s.2 (u64Bytes DSCount)
  let s := CopyToBuffer s.1 s.2 ((DataSizes.take DSCount).flatMap u64Bytes)
  let s := CopyToBuffer s.1 s.2 (u64Bytes WDPCount)
  CopyToBuffer s.1 s.2 ((WriterDataPositions.take WDPCount).flatMap u64Bytes)

/-- The value of `Position` at the end of `CopyMetadataToContiguous` for the
metadata of a rank. -/
def RankInput.written (r : RankInput) : Nat :=
  (CopyMetadataToContiguous.state r.NewMetaMetaBlocks r.MetaEncodeBuffers
    r.AttributeEncodeBuffers r.DataSizes r.WriterDataPositions).2

/-- The metadata of a rank whose attribute blob has a null base and the length
8. -/
def Agg.rank3 : RankInput :=
  { NewMetaMetaBlocks := []
    MetaEncodeBuffers := []
    AttributeEncodeBuffers := [⟨none, 8⟩]
    DataSizes := [5]
    WriterDataPositions := [0] }

/-- The call of `CopyMetadataToContiguous` on the metadata of the rank reads
no byte that a blob does not address: every metadata blob and every attribute
blob with a non-null base addresses `iov_len` bytes, and `iov_len + 7` of an
attribute blob is a `size_t` value. An attribute blob with a null base, which
the copy pass does not read, may carry any length. -/
def RankInput.Defined (r : RankInput) : Prop :=
  (∀ m ∈ r.MetaEncodeBuffers, m.Addresses) ∧
  (∀ a ∈ r.AttributeEncodeBuffers, (a.iov_base ≠ none → a.Addresses) ∧ a.iov_len + 7 < 2 ^ 64)

instance (r : RankInput) : Decidable r.Defined := by
  unfold RankInput.Defined; infer_instance

/-- The bytes that the size pass of `CopyMetadataToContiguous` counts for the
attribute blobs with a null base beyond their length prefix. -/
def RankInput.slack (r : RankInput) : Nat :=
  ((r.AttributeEncodeBuffers.filter (fun a => a.iov_base.isNone)).map
    (fun a => AlignedSize a.iov_len)).sum

/-! ## Part 2: theorems -/

/-! ### Facts about the byte-level helpers -/

theorem u64OfBytes_u64Bytes (v : Nat) : u64OfBytes (u64Bytes v) = v % 2 ^ 64 := by
  simp [u64Bytes, u64OfBytes, List.range, List.range.loop]
  omega

theorem u64Bytes_length (v : Nat) : (u64Bytes v).length = 8 := by
  simp [u64Bytes]

theorem take_u64Bytes_zero (k : Nat) (hk : k ≤ 8) :
    (u64Bytes 0).take k = List.replicate k 0 := by
  interval_cases k <;> decide

theorem land_mask_eq (x : Nat) (h : x < 2 ^ 64) : x &&& 0xFFFFFFFFFFFFFFF8 = x / 8 * 8 := by
  apply Nat.eq_of_testBit_eq
  intro i
  rw [Nat.testBit_land]
  have h8 : x / 8 * 8 = 2 ^ 3 * (x / 2 ^ 3) := by norm_num [Nat.mul_comm]
  have hc : (0xFFFFFFFFFFFFFFF8 : Nat) = 2 ^ 3 * (2 ^ 61 - 1) := by norm_num
  rw [h8, hc, Nat.testBit_mul_pow_two, Nat.testBit_mul_pow_two, ← Nat.shiftRight_eq_div_pow,
    Nat.testBit_shiftRight, Nat.testBit_two_pow_sub_one]
  by_cases h3 : 3 ≤ i
  · by_cases h64 : i < 64
    · have : i - 3 < 61 := by omega
      have e : 3 + (i - 3) = i := by omega
      simp [h3, this, e]
    · have hx : x.testBit i = false := by
        apply Nat.testBit_lt_two_pow
        calc x < 2 ^ 64 := h
          _ ≤ 2 ^ i := Nat.pow_le_pow_right (by norm_num) (by omega)
      have e : 3 + (i - 3) = i := by omega
      simp [hx, e]
  · simp [h3]

theorem AlignedSize_eq (len : Nat) (h : len + 7 < 2 ^ 64) :
    AlignedSize len = (len + 7) / 8 * 8 :=
  land_mask_eq (len + 7) h

theorem AlignedSize_bounds (len : Nat) (h : len + 7 < 2 ^ 64) :
    len ≤ AlignedSize len ∧ AlignedSize len < len + 8 ∧ AlignedSize len < 2 ^ 64 := by
  rw [AlignedSize_eq len h]
  omega

theorem AlignedSize_of_dvd (len : Nat) (h : len + 7 < 2 ^ 64) (h8 : len % 8 = 0) :
    AlignedSize len = len := by
  rw [AlignedSize_eq len h]
  omega

theorem Written_CopyToBuffer {s : List Nat × Nat} {W : List Nat} (h : Written s W)
    (src : List Nat) : Written (CopyToBuffer s.1 s.2 src) (W ++ src) := by
  obtain ⟨hp, Z, hZ⟩ := h
  refine ⟨by simp [CopyToBuffer, hp], Z.drop src.length, ?_⟩
  simp only [CopyToBuffer, hp, ← hZ]
  rw [List.take_left, List.drop_append]

theorem Written_copyMetaMeta {s : List Nat × Nat} {W : List Nat} (h : Written s W)
    (n : MetaMetaInfoBlock) : Written (copyMetaMeta s n) (W ++ encMetaMeta n) := by
  have h1 := Written_CopyToBuffer h (u64Bytes n.MetaMetaIDLen)
  have h2 := Written_CopyToBuffer h1 (u64Bytes n.MetaMetaInfoLen)
  have h3 := Written_CopyToBuffer h2 (n.MetaMetaID.take n.MetaMetaIDLen)
  have h4 := Written_CopyToBuffer h3 (n.MetaMetaInfo.take n.MetaMetaInfoLen)
  simpa [copyMetaMeta, encMetaMeta, MetaMetaInfoBlock.MetaMetaIDLen,
    MetaMetaInfoBlock.MetaMetaInfoLen, List.append_assoc] using h4

theorem Written_congr {s : List Nat × Nat} {W W' : List Nat} (h : Written s W) (e : W = W') :
    Written s W' := e ▸ h

theorem Written_pad {s : List Nat × Nat} {W b : List Nat} {len : Nat} (hb : b.length = len)
    (hlen : len + 7 < 2 ^ 64)
    (h : Written s (W ++ u64Bytes (AlignedSize len) ++ b)) :
    Written
      (if len ≠ AlignedSize len then
        CopyToBuffer s.1 s.2 ((u64Bytes 0).take (AlignedSize len - len)) else s)
      (W ++ (u64Bytes (AlignedSize b.length) ++ padded b)) := by
  have hA := AlignedSize_bounds len hlen
  subst hb
  by_cases hne : b.length ≠ AlignedSize b.length
  · rw [if_pos hne]
    have h1 := Written_CopyToBuffer h ((u64Bytes 0).take (AlignedSize b.length - b.length))
    refine Written_congr h1 ?_
    rw [take_u64Bytes_zero _ (by omega)]
    simp [padded, List.append_assoc]
  · rw [if_neg hne]
    have e : AlignedSize b.length - b.length = 0 := by omega
    refine Written_congr h ?_
    simp [padded, e, List.append_assoc]

theorem Written_copyMeta {s : List Nat × Nat} {W : List Nat} (h : Written s W)
    (m : iovec) (hwf : (m.iov_base.getD []).length = m.iov_len)
    (hlen : m.iov_len + 7 < 2 ^ 64) :
    Written (copyMeta s m) (W ++ encBlock m) := by
  have h1 := Written_CopyToBuffer h (u64Bytes (AlignedSize m.iov_len))
  have h2 := Written_CopyToBuffer h1 ((m.iov_base.getD []).take m.iov_len)
  have ht : (m.iov_base.getD []).take m.iov_len = m.iov_base.getD [] := by
    rw [← hwf, List.take_length]
  have h2' := Written_congr h2 (congrArg (fun x => W ++ u64Bytes (AlignedSize m.iov_len) ++ x) ht)
  exact Written_pad hwf hlen h2'

theorem Written_copyAttr {s : List Nat × Nat} {W : List Nat} (h : Written s W)
    (a : iovec) (hwf : ∀ b, a.iov_base = some b → b.length = a.iov_len)
    (hlen : a.iov_len + 7 < 2 ^ 64) :
    Written (copyAttr s a) (W ++ encBlock a) := by
  cases hb : a.iov_base with
  | none =>
    have h1 := Written_CopyToBuffer h (u64Bytes 0)
    have e : AlignedSize 0 = 0 := by decide
    simpa [copyAttr, hb, encBlock, padded, e] using h1
  | some base =>
    have hl := hwf base hb
    have h1 := Written_CopyToBuffer h (u64Bytes (AlignedSize a.iov_len))
    have h2 := Written_CopyToBuffer h1 (base.take a.iov_len)
    have ht : base.take a.iov_len = base := by rw [← hl, List.take_length]
    have h2' := Written_congr h2
      (congrArg (fun x => W ++ u64Bytes (AlignedSize a.iov_len) ++ x) ht)
    have h3 := Written_pad hl hlen h2'
    simp only [copyAttr, hb, encBlock, Option.getD_some]
    exact h3

theorem Written_foldl {α : Type} (f : List Nat × Nat → α → List Nat × Nat) (enc : α → List Nat)
    (P : α → Prop)
    (hf : ∀ s W a, P a → Written s W → Written (f s a) (W ++ enc a)) :
    ∀ (l : List α) (s : List Nat × Nat) (W : List Nat), (∀ a ∈ l, P a) → Written s W →
      Written (l.foldl f s) (W ++ l.flatMap enc)
  | [], s, W, _, h => by simpa using h
  | a :: l, s, W, hP, h => by
    have h1 := hf s W a (hP a (List.mem_cons_self a l)) h
    have h2 := Written_foldl f enc P hf l (f s a) (W ++ enc a)
      (fun x hx => hP x (List.mem_cons_of_mem a hx)) h1
    simpa [List.flatMap_cons, List.append_assoc] using h2

theorem CopyMetadataToContiguous_prefix (X : List MetaMetaInfoBlock) (M A : List iovec)
    (DS WDP : List Nat)
    (hM : ∀ m ∈ M, (m.iov_base.getD []).length = m.iov_len ∧ m.iov_len + 7 < 2 ^ 64)
    (hA : ∀ a ∈ A, (∀ b, a.iov_base = some b → b.length = a.iov_len) ∧
      a.iov_len + 7 < 2 ^ 64) :
    encoded X M A DS WDP <+: CopyMetadataToContiguous X M A DS WDP := by
  have h0 : Written (List.replicate (RetSize X M A DS WDP) 0, 0) [] := ⟨rfl, List.nil_prefix⟩
  have h1 := Written_CopyToBuffer h0 (u64Bytes X.length)
  have h2 := Written_foldl copyMetaMeta encMetaMeta (fun _ => True)
    (fun s W a _ h => Written_copyMetaMeta h a) X _ _ (fun _ _ => trivial) h1
  have h3 := Written_CopyToBuffer h2 (u64Bytes M.length)
  have h4 := Written_foldl copyMeta encBlock
    (fun m => (m.iov_base.getD []).length = m.iov_len ∧ m.iov_len + 7 < 2 ^ 64)
    (fun s W a hP h => Written_copyMeta h a hP.1 hP.2) M _ _ hM h3
  have h5 := Written_CopyToBuffer h4 (u64Bytes A.length)
  have h6 := Written_foldl copyAttr encBlock
    (fun a => (∀ b, a.iov_base = some b → b.length = a.iov_len) ∧ a.iov_len + 7 < 2 ^ 64)
    (fun s W a hP h => Written_copyAttr h a hP.1 hP.2) A _ _ hA h5
  have h7 := Written_CopyToBuffer h6 (u64Bytes DS.length)
  have h8 := Written_CopyToBuffer h7 ((DS.take DS.length).flatMap u64Bytes)
  have h9 := Written_CopyToBuffer h8 (u64Bytes WDP.length)
  have h10 := Written_CopyToBuffer h9 ((WDP.take WDP.length).flatMap u64Bytes)
  have := h10.2
  simpa [CopyMetadataToContiguous, encoded, List.append_assoc] using this

/-! ### Reading the stream back -/

theorem ReadAt_view {A : List Nat} {pos : Nat} {bs rest : List Nat}
    (h : ReadAt A pos (bs ++ rest)) :
    pos + bs.length ≤ A.length ∧ (A.drop pos).take bs.length = bs ∧
      ReadAt A (pos + bs.length) rest := by
  obtain ⟨hp, hd⟩ := h
  have hl : A.length - pos = bs.length + rest.length := by
    rw [← List.length_drop, hd, List.length_append]
  refine ⟨by omega, by rw [hd, List.take_left], by omega, ?_⟩
  rw [← List.drop_drop, hd, List.drop_left]

theorem CopyFromBuffer_of {A : List Nat} {pos v : Nat} {rest : List Nat}
    (h : ReadAt A pos (u64Bytes v ++ rest)) (hv : v < 2 ^ 64) :
    CopyFromBuffer A pos = some (v, pos + 8) ∧ ReadAt A (pos + 8) rest := by
  have h1 := ReadAt_view h
  rw [u64Bytes_length] at h1
  refine ⟨?_, h1.2.2⟩
  rw [CopyFromBuffer, if_pos h1.1, h1.2.1, u64OfBytes_u64Bytes, Nat.mod_eq_of_lt hv]

theorem viewAt_of {A : List Nat} {pos : Nat} {bs rest : List Nat}
    (h : ReadAt A pos (bs ++ rest)) :
    viewAt A pos bs.length = some bs ∧ ReadAt A (pos + bs.length) rest := by
  have h1 := ReadAt_view h
  refine ⟨?_, h1.2.2⟩
  rw [viewAt, if_pos h1.1, h1.2.1]

theorem Found_iff (U : List MetaMetaInfoBlock) (ID : List Nat) :
    Found U ID.length ID = true ↔ ∃ o ∈ U, o.MetaMetaID = ID := by
  have key : ∀ (U : List MetaMetaInfoBlock) (acc : Bool),
      U.foldl (fun found o =>
        if o.MetaMetaIDLen ≠ ID.length then found
        else if o.MetaMetaID.take ID.length = ID then true else found) acc = true ↔
      (acc = true ∨ ∃ o ∈ U, o.MetaMetaID = ID) := by
    intro U
    induction U with
    | nil => intro acc; simp
    | cons o U ih =>
      intro acc
      rw [List.foldl_cons, ih]
      by_cases hl : o.MetaMetaIDLen ≠ ID.length
      · have hne : o.MetaMetaID ≠ ID := fun e => hl (by rw [MetaMetaInfoBlock.MetaMetaIDLen, e])
        simp [hl, hne]
      · have hl' : o.MetaMetaID.length = ID.length := by
          simpa [MetaMetaInfoBlock.MetaMetaIDLen] using hl
        have ht : o.MetaMetaID.take ID.length = o.MetaMetaID := by
          rw [← hl', List.take_length]
        rw [if_neg hl, ht]
        by_cases he : o.MetaMetaID = ID
        · simp [he]
        · simp [he]
  simpa [Found] using key U false

theorem breakoutMetaMeta_of (A : List Nat) :
    ∀ (X : List MetaMetaInfoBlock) (pos : Nat) (U : List MetaMetaInfoBlock) (rest : List Nat),
      (∀ b ∈ X, b.MetaMetaIDLen < 2 ^ 64 ∧ b.MetaMetaInfoLen < 2 ^ 64) →
      ReadAt A pos (X.flatMap encMetaMeta ++ rest) →
      ∃ pos', breakoutMetaMeta A X.length pos U = some (pos', X.foldl addUnique U) ∧
        ReadAt A pos' rest
  | [], pos, U, rest, _, h => ⟨pos, rfl, by simpa using h⟩
  | b :: X, pos, U, rest, hX, h => by
    have hb := hX b (List.mem_cons_self b X)
    have h0 : ReadAt A pos (u64Bytes b.MetaMetaIDLen ++ (u64Bytes b.MetaMetaInfoLen ++
        (b.MetaMetaID ++ (b.MetaMetaInfo ++ (X.flatMap encMetaMeta ++ rest))))) := by
      simpa [List.flatMap_cons, encMetaMeta, List.append_assoc] using h
    obtain ⟨r1, h1⟩ := CopyFromBuffer_of h0 hb.1
    obtain ⟨r2, h2⟩ := CopyFromBuffer_of h1 hb.2
    obtain ⟨r3, h3⟩ := viewAt_of h2
    obtain ⟨r4, h4⟩ := viewAt_of h3
    obtain ⟨pos', hrec, hpos'⟩ := breakoutMetaMeta_of A X _
      (addUnique U b) rest (fun x hx => hX x (List.mem_cons_of_mem b hx)) h4
    refine ⟨pos', ?_, hpos'⟩
    rw [List.length_cons, breakoutMetaMeta, r1]
    simp only [r2]
    rw [show b.MetaMetaIDLen = b.MetaMetaID.length from rfl,
      show b.MetaMetaInfoLen = b.MetaMetaInfo.length from rfl] at *
    simp only [r3, r4]
    rw [List.foldl_cons, ← hrec, addUnique]
    by_cases hf : Found U b.MetaMetaID.length b.MetaMetaID = true
    · simp [hf, MetaMetaInfoBlock.MetaMetaIDLen]
    · simp [hf, MetaMetaInfoBlock.MetaMetaIDLen]

theorem padded_length (b : List Nat) (h : b.length + 7 < 2 ^ 64) :
    (padded b).length = AlignedSize b.length := by
  have hA := AlignedSize_bounds b.length h
  simp only [padded, List.length_append, List.length_replicate]
  omega

theorem breakoutBlocks_of (A : List Nat) :
    ∀ (L : List iovec) (pos : Nat) (Blocks : List iovec) (rest : List Nat),
      (∀ v ∈ L, (v.iov_base.getD []).length + 7 < 2 ^ 64) →
      ReadAt A pos (L.flatMap encBlock ++ rest) →
      ∃ pos', breakoutBlocks A L.length pos Blocks = some (pos', Blocks ++ L.map returned) ∧
        ReadAt A pos' rest
  | [], pos, Blocks, rest, _, h => ⟨pos, by simp [breakoutBlocks], by simpa using h⟩
  | v :: L, pos, Blocks, rest, hL, h => by
    have hv := hL v (List.mem_cons_self v L)
    have hA := AlignedSize_bounds _ hv
    have h0 : ReadAt A pos (u64Bytes (AlignedSize (v.iov_base.getD []).length) ++
        (padded (v.iov_base.getD []) ++ (L.flatMap encBlock ++ rest))) := by
      simpa [List.flatMap_cons, encBlock, List.append_assoc] using h
    obtain ⟨r1, h1⟩ := CopyFromBuffer_of h0 hA.2.2
    obtain ⟨r2, h2⟩ := viewAt_of h1
    rw [padded_length _ hv] at r2 h2
    obtain ⟨pos', hrec, hpos'⟩ := breakoutBlocks_of A L _ (Blocks ++ [returned v]) rest
      (fun x hx => hL x (List.mem_cons_of_mem v hx)) h2
    refine ⟨pos', ?_, hpos'⟩
    rw [List.length_cons, breakoutBlocks, r1]
    simp only [r2]
    exact hrec.trans (by simp)

theorem breakoutU64s_of (A : List Nat) :
    ∀ (L : List Nat) (pos : Nat) (Out : List Nat) (rest : List Nat),
      (∀ x ∈ L, x < 2 ^ 64) →
      ReadAt A pos (L.flatMap u64Bytes ++ rest) →
      ∃ pos', breakoutU64s A L.length pos Out = some (pos', Out ++ L) ∧ ReadAt A pos' rest
  | [], pos, Out, rest, _, h => ⟨pos, by simp [breakoutU64s], by simpa using h⟩
  | x :: L, pos, Out, rest, hL, h => by
    have h0 : ReadAt A pos (u64Bytes x ++ (L.flatMap u64Bytes ++ rest)) := by
      simpa [List.flatMap_cons, List.append_assoc] using h
    obtain ⟨r1, h1⟩ := CopyFromBuffer_of h0 (hL x (List.mem_cons_self x L))
    obtain ⟨pos', hrec, hpos'⟩ := breakoutU64s_of A L _ (Out ++ [x]) rest
      (fun y hy => hL y (List.mem_cons_of_mem x hy)) h1
    refine ⟨pos', ?_, hpos'⟩
    rw [List.length_cons, breakoutU64s, r1]
    simp only []
    rw [hrec]
    simp

theorem Found_eq_not_freshFor (U : List MetaMetaInfoBlock) (b : MetaMetaInfoBlock) :
    Found U b.MetaMetaIDLen b.MetaMetaID = !(freshFor U b) := by
  rw [Bool.eq_iff_iff, MetaMetaInfoBlock.MetaMetaIDLen, Found_iff]
  simp [freshFor]

theorem freshFor_iff (U : List MetaMetaInfoBlock) (c : MetaMetaInfoBlock) :
    freshFor U c = true ↔ ∀ o ∈ U, o.MetaMetaID ≠ c.MetaMetaID := by
  simp [freshFor]

theorem filter_freshFor_append (U : List MetaMetaInfoBlock) (b : MetaMetaInfoBlock)
    (l : List MetaMetaInfoBlock) :
    l.filter (freshFor (U ++ [b])) =
      (l.filter (fun c => decide (c.MetaMetaID ≠ b.MetaMetaID))).filter (freshFor U) := by
  rw [List.filter_filter]
  apply List.filter_congr
  intro c _
  rw [Bool.eq_iff_iff, Bool.and_eq_true, freshFor_iff, freshFor_iff, decide_eq_true_iff]
  constructor
  · intro h
    exact ⟨fun o ho => h o (List.mem_append_left _ ho),
      fun e => h b (List.mem_append_right _ (List.mem_singleton_self b)) e.symm⟩
  · rintro ⟨h1, h2⟩ o ho
    rcases List.mem_append.mp ho with ho | ho
    · exact h1 o ho
    · rw [List.mem_singleton.mp ho]
      exact fun e => h2 e.symm

theorem filter_freshFor_of_mem (U : List MetaMetaInfoBlock) (b : MetaMetaInfoBlock)
    (hb : freshFor U b = false) (l : List MetaMetaInfoBlock) :
    (l.filter (fun c => decide (c.MetaMetaID ≠ b.MetaMetaID))).filter (freshFor U) =
      l.filter (freshFor U) := by
  rw [List.filter_filter]
  apply List.filter_congr
  intro c _
  rw [Bool.eq_iff_iff, Bool.and_eq_true, freshFor_iff, decide_eq_true_iff]
  constructor
  · exact fun h => h.1
  · intro h
    refine ⟨h, fun e => ?_⟩
    have : freshFor U b = true := by
      rw [freshFor_iff]
      intro o ho
      rw [← e]
      exact h o ho
    rw [hb] at this
    exact Bool.false_ne_true this

theorem foldl_addUnique (X : List MetaMetaInfoBlock) :
    ∀ U : List MetaMetaInfoBlock,
      X.foldl addUnique U = U ++ (removeRepeatedID X).filter (freshFor U) := by
  induction X with
  | nil => intro U; simp [removeRepeatedID]
  | cons b X ih =>
    intro U
    rw [List.foldl_cons, ih, addUnique, Found_eq_not_freshFor, removeRepeatedID]
    by_cases hf : freshFor U b = true
    · rw [List.filter_cons_of_pos hf]
      simp only [hf, Bool.not_true, Bool.false_eq_true, if_false]
      rw [filter_freshFor_append]
      simp
    · have hf' : freshFor U b = false := by simpa using hf
      rw [List.filter_cons_of_neg hf, filter_freshFor_of_mem U b hf']
      simp [hf']

theorem foldl_addUnique_nil (X : List MetaMetaInfoBlock) :
    X.foldl addUnique [] = removeRepeatedID X := by
  rw [foldl_addUnique]
  simp [freshFor]

theorem returned_of_aligned (v : iovec) (b : List Nat) (hb : v.iov_base = some b)
    (hwf : b.length = v.iov_len) (hlen : v.iov_len + 7 < 2 ^ 64) (h8 : v.iov_len % 8 = 0) :
    returned v = v := by
  have e := AlignedSize_of_dvd v.iov_len hlen h8
  cases v with
  | mk base len =>
    simp only at hb hwf e h8
    subst hb
    simp [returned, padded, hwf, e]

theorem breakout_copy (X : List MetaMetaInfoBlock) (M A : List iovec) (DS WDP : List Nat)
    (c : Nat)
    (hXlen : X.length < 2 ^ 64)
    (hX : ∀ b ∈ X, b.MetaMetaIDLen < 2 ^ 64 ∧ b.MetaMetaInfoLen < 2 ^ 64)
    (hMlen : M.length < 2 ^ 64)
    (hM : ∀ m ∈ M, (m.iov_base.getD []).length = m.iov_len ∧ m.iov_len + 7 < 2 ^ 64)
    (hAlen : A.length < 2 ^ 64)
    (hA : ∀ a ∈ A, (∀ b, a.iov_base = some b → b.length = a.iov_len) ∧
      a.iov_len + 7 < 2 ^ 64 ∧ (a.iov_base.getD []).length + 7 < 2 ^ 64)
    (hDSlen : DS.length < 2 ^ 64) (hDS : ∀ x ∈ DS, x < 2 ^ 64)
    (hWlen : WDP.length < 2 ^ 64) (hW : ∀ x ∈ WDP, x < 2 ^ 64) :
    (BreakoutContiguousMetadata (CopyMetadataToContiguous X M A DS WDP) [c] [] [] [] []).map
        BreakoutState.outputs =
      some (M.map returned, removeRepeatedID X, A.map returned, DS, WDP) := by
  obtain ⟨Z, hZ⟩ := CopyMetadataToContiguous_prefix X M A DS WDP hM
    (fun a ha => ⟨(hA a ha).1, (hA a ha).2.1⟩)
  generalize CopyMetadataToContiguous X M A DS WDP = Agg at hZ
  have h0 : ReadAt Agg 0 (u64Bytes X.length ++ (X.flatMap encMetaMeta ++ (u64Bytes M.length ++
      (M.flatMap encBlock ++ (u64Bytes A.length ++ (A.flatMap encBlock ++ (u64Bytes DS.length ++
      (DS.flatMap u64Bytes ++ (u64Bytes WDP.length ++ (WDP.flatMap u64Bytes ++ Z)))))))))) := by
    refine ⟨Nat.zero_le _, ?_⟩
    rw [← hZ]
    simp [encoded, List.append_assoc]
  obtain ⟨r1, h1⟩ := CopyFromBuffer_of h0 hXlen
  obtain ⟨p2, r2, h2⟩ := breakoutMetaMeta_of Agg X _ [] _ hX h1
  obtain ⟨r3, h3⟩ := CopyFromBuffer_of h2 hMlen
  obtain ⟨p4, r4, h4⟩ := breakoutBlocks_of Agg M _ [] _
    (fun m hm => by rw [(hM m hm).1]; exact (hM m hm).2) h3
  obtain ⟨r5, h5⟩ := CopyFromBuffer_of h4 hAlen
  obtain ⟨p6, r6, h6⟩ := breakoutBlocks_of Agg A _ [] _ (fun a ha => (hA a ha).2.2) h5
  obtain ⟨r7, h7⟩ := CopyFromBuffer_of h6 hDSlen
  obtain ⟨p8, r8, h8⟩ := breakoutU64s_of Agg DS _ [] _ hDS h7
  obtain ⟨r9, h9⟩ := CopyFromBuffer_of h8 hWlen
  obtain ⟨p10, r10, _⟩ := breakoutU64s_of Agg WDP _ [] Z hW
    (by simpa using h9)
  rw [foldl_addUnique_nil] at r2
  simp only [BreakoutContiguousMetadata, List.foldl_cons, List.foldl_nil, Option.bind,
    breakoutRank, r1, r2, r3, r4, r5, r6, r7, r8, r9, r10, Option.map, BreakoutState.outputs,
    List.nil_append]

/-- C1 (as amended): for every input of `CopyMetadataToContiguous` whose sizes
are `size_t` values and whose blobs address `iov_len` bytes,
`BreakoutContiguousMetadata` applied to the result as a single-rank aggregate
with empty output lists returns the data sizes and writer data positions
unchanged, the meta-meta blocks with blocks of repeated ID removed, and every
metadata and attribute blob in order, zero-padded to the next multiple of eight
bytes (a null attribute blob comes back empty); a non-null blob whose length is
a multiple of eight comes back with the same length and bytes. -/
theorem breakout_copy_roundtrip (X : List MetaMetaInfoBlock) (M A : List iovec)
    (DS WDP : List Nat) (c : Nat) (hfit : FitsSizeT X M A DS WDP)
    (hM : ∀ m ∈ M, (m.iov_base.getD []).length = m.iov_len)
    (hA : ∀ a ∈ A, a.WellFormed) :
    (BreakoutContiguousMetadata (CopyMetadataToContiguous X M A DS WDP) [c] [] [] [] []).map
        BreakoutState.outputs =
      some (M.map returned, removeRepeatedID X, A.map returned, DS, WDP) ∧
    ∀ v ∈ M ++ A, v.iov_base.isSome = true → v.iov_len % 8 = 0 → returned v = v := by
  obtain ⟨hXlen, hX, hMlen, hMl, hAlen, hAl, hDSlen, hDS, hWlen, hW⟩ := hfit
  have hA' : ∀ a ∈ A, (∀ b, a.iov_base = some b → b.length = a.iov_len) ∧
      a.iov_len + 7 < 2 ^ 64 ∧ (a.iov_base.getD []).length + 7 < 2 ^ 64 := by
    intro a ha
    have hw := hA a ha
    have hl := hAl a ha
    unfold iovec.WellFormed at hw
    cases hb : a.iov_base with
    | none => exact ⟨fun b' hb' => by simp at hb', hl, by norm_num⟩
    | some b =>
      rw [hb] at hw
      simp only [Option.getD_some, Option.isSome_some, if_true] at hw
      refine ⟨fun b' hb' => ?_, hl, ?_⟩
      · cases hb'; exact hw
      · simpa [hw] using hl
  refine ⟨breakout_copy X M A DS WDP c hXlen hX hMlen (fun m hm => ⟨hM m hm, hMl m hm⟩) hAlen
    hA' hDSlen hDS hWlen hW, ?_⟩
  intro v hv hs h8
  obtain ⟨b, hb⟩ := Option.isSome_iff_exists.mp hs
  rcases List.mem_append.mp hv with hm | ha
  · have := hM v hm
    rw [hb] at this
    exact returned_of_aligned v b hb this (hMl v hm) h8
  · exact returned_of_aligned v b hb ((hA' v ha).1 b hb) (hAl v ha) h8

/-- Witness of `breakout_copy_roundtrip`: two meta-meta blocks with one ID, a
three-byte metadata blob, a null and a nine-byte attribute blob. -/
theorem breakout_copy_roundtrip_witness :
    FitsSizeT [⟨[1, 2], [3]⟩, ⟨[9], [3]⟩] [⟨some [1, 2, 3], 3⟩]
        [⟨none, 0⟩, ⟨some [7, 7, 7, 7, 7, 7, 7, 7, 7], 9⟩] [5, 300] [7] ∧
      (BreakoutContiguousMetadata
          (CopyMetadataToContiguous [⟨[1, 2], [3]⟩, ⟨[9], [3]⟩] [⟨some [1, 2, 3], 3⟩]
            [⟨none, 0⟩, ⟨some [7, 7, 7, 7, 7, 7, 7, 7, 7], 9⟩] [5, 300] [7])
          [1] [] [] [] []).map BreakoutState.outputs =
        some ([⟨some [1, 2, 3], 3⟩].map returned, removeRepeatedID [⟨[1, 2], [3]⟩, ⟨[9], [3]⟩],
          [⟨none, 0⟩, ⟨some [7, 7, 7, 7, 7, 7, 7, 7, 7], 9⟩].map returned, [5, 300], [7]) :=
  ⟨by decide,
    (breakout_copy_roundtrip [⟨[1, 2], [3]⟩, ⟨[9], [3]⟩] [⟨some [1, 2, 3], 3⟩]
      [⟨none, 0⟩, ⟨some [7, 7, 7, 7, 7, 7, 7, 7, 7], 9⟩] [5, 300] [7] 1 (by decide) (by decide)
      (by decide)).1⟩

set_option maxRecDepth 100000 in
/-- C1 (as stated) fails: a three-byte metadata blob comes back from the round
trip as an eight-byte blob, so its length is not preserved. -/
theorem breakout_copy_changes_unaligned_blob :
    (BreakoutContiguousMetadata
        (CopyMetadataToContiguous [] [⟨some [1, 2, 3], 3⟩] [] [] []) [1] [] [] [] []).map
      BreakoutState.outputs =
      some ([⟨some [1, 2, 3, 0, 0, 0, 0, 0], 8⟩], [], [], [], []) ∧
    (BreakoutContiguousMetadata
        (CopyMetadataToContiguous [] [⟨some [1, 2, 3], 3⟩] [] [] []) [1] [] [] [] []).map
      BreakoutState.outputs ≠
      some ([⟨some [1, 2, 3], 3⟩], [], [], [], []) := by
  have h : (BreakoutContiguousMetadata
        (CopyMetadataToContiguous [] [⟨some [1, 2, 3], 3⟩] [] [] []) [1] [] [] [] []).map
      BreakoutState.outputs =
      some ([⟨some [1, 2, 3, 0, 0, 0, 0, 0], 8⟩], [], [], [], []) := by decide
  exact ⟨h, by rw [h]; decide⟩

/-! ### Geometry of boxes -/

theorem getD_map_range (n : Nat) (f : Nat → Nat) (d : Nat) (h : d < n) :
    ((List.range n).map f).getD d 0 = f d := by
  simp [List.getD_eq_getElem?_getD, List.getElem?_map, List.getElem?_range h]

theorem getD_drop (l : List Nat) (k d : Nat) : (l.drop k).getD d 0 = l.getD (k + d) 0 := by
  simp [List.getD_eq_getElem?_getD, List.getElem?_drop]

theorem boxesIntersect_iff (n : Nat) (s1 c1 s2 c2 : List Nat) :
    BoxesIntersect n s1 c1 s2 c2 ↔
      ∀ d, d < n → (0 < c1.getD d 0 ∧ 0 < c2.getD d 0) ∧
        s2.getD d 0 < s1.getD d 0 + c1.getD d 0 ∧
        s1.getD d 0 < s2.getD d 0 + c2.getD d 0 := by
  constructor
  · rintro ⟨p, h1, h2⟩ d hd
    have a := h1 d hd
    have b := h2 d hd
    omega
  · intro h
    refine ⟨lowCorner n s1 s2, fun d hd => ?_, fun d hd => ?_⟩
    · rw [lowCorner, getD_map_range _ _ _ hd]
      have := h d hd
      simp only [Nat.max_def]
      split <;> omega
    · rw [lowCorner, getD_map_range _ _ _ hd]
      have := h d hd
      simp only [Nat.max_def]
      split <;> omega

theorem IntersectionStartCount_of_intersect (n : Nat) (s1 c1 s2 c2 : List Nat)
    (hI : BoxesIntersect n s1 c1 s2 c2) :
    IntersectionStartCount n s1 c1 s2 c2 =
      some (lowCorner n s1 s2,
        (List.range n).map (fun d =>
          (highCorner n s1 c1 s2 c2).getD d 0 + 1 - (lowCorner n s1 s2).getD d 0)) := by
  have h := (boxesIntersect_iff n s1 c1 s2 c2).mp hI
  have h1 : (List.range n).any (fun d =>
      let end1 := s1.getD d 0 + c1.getD d 0 - 1
      let end2 := s2.getD d 0 + c2.getD d 0 - 1
      (c1.getD d 0 == 0 || c2.getD d 0 == 0) ||
        (decide (s2.getD d 0 > end1) || decide (end2 < s1.getD d 0))) = false := by
    rw [List.any_eq_false]
    intro d hd
    have := h d (List.mem_range.mp hd)
    simp only [Bool.or_eq_true, beq_iff_eq, decide_eq_true_eq, not_or]
    omega
  unfold IntersectionStartCount
  rw [h1]
  simp only [Bool.false_eq_true, if_false, List.any_map, List.map_map]
  rw [if_neg]
  · congr 2
    · apply List.map_congr_left
      intro d _
      simp only [Function.comp, lowCorner, Nat.max_def]
      split <;> split <;> omega
    · apply List.map_congr_left
      intro d hd
      have hd' := List.mem_range.mp hd
      have := h d hd'
      simp only [Function.comp, highCorner, lowCorner, getD_map_range _ _ _ hd', Nat.max_def,
        Nat.min_def]
      split <;> split <;> split <;> split <;> omega
  · simp

theorem IntersectionStartCount_of_not_intersect (n : Nat) (s1 c1 s2 c2 : List Nat)
    (hI : ¬ BoxesIntersect n s1 c1 s2 c2) :
    IntersectionStartCount n s1 c1 s2 c2 = none := by
  have h : ¬ ∀ d, d < n → (0 < c1.getD d 0 ∧ 0 < c2.getD d 0) ∧
      s2.getD d 0 < s1.getD d 0 + c1.getD d 0 ∧
      s1.getD d 0 < s2.getD d 0 + c2.getD d 0 := fun h =>
    hI ((boxesIntersect_iff n s1 c1 s2 c2).mpr h)
  push_neg at h
  obtain ⟨d, hd, hbad⟩ := h
  unfold IntersectionStartCount
  rw [if_pos]
  rw [List.any_eq_true]
  refine ⟨d, List.mem_range.mpr hd, ?_⟩
  simp only [Bool.or_eq_true, beq_iff_eq, decide_eq_true_eq]
  by_cases h0 : 0 < c1.getD d 0 ∧ 0 < c2.getD d 0
  · by_cases h1 : s2.getD d 0 < s1.getD d 0 + c1.getD d 0
    · have := hbad h0 h1
      omega
    · omega
  · omega

/-! ### Facts about `LinearIndex` -/

theorem foldl_index_mono (c p q : List Nat) :
    ∀ (l : List Nat) (a b : Nat), a ≤ b → (∀ d ∈ l, p.getD d 0 ≤ q.getD d 0) →
      l.foldl (fun offset d => offset * c.getD d 0 + p.getD d 0) a ≤
        l.foldl (fun offset d => offset * c.getD d 0 + q.getD d 0) b
  | [], a, b, hab, _ => by simpa using hab
  | d :: l, a, b, hab, h => by
    rw [List.foldl_cons, List.foldl_cons]
    apply foldl_index_mono c p q l
    · exact Nat.add_le_add (Nat.mul_le_mul_right _ hab) (h d (List.mem_cons_self d l))
    · exact fun x hx => h x (List.mem_cons_of_mem d hx)

theorem foldl_index_lt (c p : List Nat) :
    ∀ (l : List Nat) (a P : Nat), a < P → (∀ d ∈ l, p.getD d 0 < c.getD d 0) →
      l.foldl (fun offset d => offset * c.getD d 0 + p.getD d 0) a <
        l.foldl (fun Elems d => Elems * c.getD d 0) P
  | [], a, P, haP, _ => by simpa using haP
  | d :: l, a, P, haP, h => by
    rw [List.foldl_cons, List.foldl_cons]
    apply foldl_index_lt c p l
    · have hd := h d (List.mem_cons_self d l)
      calc a * c.getD d 0 + p.getD d 0 < a * c.getD d 0 + c.getD d 0 := by omega
        _ = (a + 1) * c.getD d 0 := by ring
        _ ≤ P * c.getD d 0 := Nat.mul_le_mul_right _ haP
    · exact fun x hx => h x (List.mem_cons_of_mem d hx)

theorem foldl_mul_eq_prod (c : List Nat) :
    ∀ (l : List Nat) (P : Nat),
      l.foldl (fun Elems d => Elems * c.getD d 0) P = P * (l.map (fun d => c.getD d 0)).prod
  | [], P => by simp
  | d :: l, P => by
    rw [List.foldl_cons, foldl_mul_eq_prod c l, List.map_cons, List.prod_cons, Nat.mul_assoc]

theorem CalcSize_eq_prod (n : Nat) (c : List Nat) :
    CalcSize n c = ((List.range n).map (fun d => c.getD d 0)).prod := by
  rw [CalcSize, foldl_mul_eq_prod, Nat.one_mul]

theorem LinearIndex_mono (n : Nat) (c p q : List Nat) (r : Bool)
    (h : ∀ d, d < n → p.getD d 0 ≤ q.getD d 0) :
    LinearIndex n c p r ≤ LinearIndex n c q r := by
  unfold LinearIndex
  cases r
  · simp only [Bool.false_eq_true, if_false]
    exact foldl_index_mono c p q _ 0 0 (Nat.le_refl 0)
      (fun d hd => h d (List.mem_range.mp (List.mem_reverse.mp hd)))
  · simp only [if_true]
    exact foldl_index_mono c p q _ 0 0 (Nat.le_refl 0) (fun d hd => h d (List.mem_range.mp hd))

theorem LinearIndex_congr (n : Nat) (c p q : List Nat) (r : Bool)
    (h : ∀ d, d < n → p.getD d 0 = q.getD d 0) :
    LinearIndex n c p r = LinearIndex n c q r :=
  Nat.le_antisymm (LinearIndex_mono n c p q r (fun d hd => Nat.le_of_eq (h d hd)))
    (LinearIndex_mono n c q p r (fun d hd => Nat.le_of_eq (h d hd).symm))

theorem LinearIndex_lt (n : Nat) (c p : List Nat) (r : Bool)
    (h : ∀ d, d < n → p.getD d 0 < c.getD d 0) :
    LinearIndex n c p r < CalcSize n c := by
  rw [CalcSize_eq_prod]
  unfold LinearIndex
  cases r
  · simp only [Bool.false_eq_true, if_false]
    have := foldl_index_lt c p (List.range n).reverse 0 1 Nat.zero_lt_one
      (fun d hd => h d (List.mem_range.mp (List.mem_reverse.mp hd)))
    rwa [foldl_mul_eq_prod, Nat.one_mul, List.map_reverse, List.prod_reverse] at this
  · simp only [if_true]
    have := foldl_index_lt c p (List.range n) 0 1 Nat.zero_lt_one
      (fun d hd => h d (List.mem_range.mp hd))
    rwa [foldl_mul_eq_prod, Nat.one_mul] at this

theorem lowCorner_inBox (n : Nat) (s1 c1 s2 c2 : List Nat) (h : BoxesIntersect n s1 c1 s2 c2) :
    InBox n s1 c1 (lowCorner n s1 s2) ∧ InBox n s2 c2 (lowCorner n s1 s2) := by
  have h' := (boxesIntersect_iff n s1 c1 s2 c2).mp h
  constructor <;> intro d hd <;> rw [lowCorner, getD_map_range _ _ _ hd] <;>
    have := h' d hd <;> simp only [Nat.max_def] <;> split <;> omega

theorem highCorner_inBox (n : Nat) (s1 c1 s2 c2 : List Nat) (h : BoxesIntersect n s1 c1 s2 c2) :
    InBox n s1 c1 (highCorner n s1 c1 s2 c2) ∧ InBox n s2 c2 (highCorner n s1 c1 s2 c2) := by
  have h' := (boxesIntersect_iff n s1 c1 s2 c2).mp h
  constructor <;> intro d hd <;> rw [highCorner, getD_map_range _ _ _ hd] <;>
    have := h' d hd <;> simp only [Nat.min_def] <;> split <;> omega

theorem corners_bound (n : Nat) (s1 c1 s2 c2 p : List Nat) (h1 : InBox n s1 c1 p)
    (h2 : InBox n s2 c2 p) (d : Nat) (hd : d < n) :
    (lowCorner n s1 s2).getD d 0 ≤ p.getD d 0 ∧
      p.getD d 0 ≤ (highCorner n s1 c1 s2 c2).getD d 0 := by
  have a := h1 d hd
  have b := h2 d hd
  rw [lowCorner, highCorner, getD_map_range _ _ _ hd, getD_map_range _ _ _ hd]
  simp only [Nat.max_def, Nat.min_def]
  split <;> split <;> omega

/-! ### The requests of one block -/

theorem globalBlockRequests_of_not_intersect (d : Deserializer) (Req : BP5ArrayRequest)
    (i w : Nat) (m : MetaArrayRecOperator) (b : Nat)
    (hI : ¬ BoxesIntersect Req.VarRec.DimCount Req.Start Req.Count
      (blockStart m Req.VarRec.DimCount b) (blockCount m Req.VarRec.DimCount b)) :
    globalBlockRequests d Req i w m b = [] := by
  unfold globalBlockRequests
  simp only []
  rw [show (m.Offsets.getD []).drop (b * Req.VarRec.DimCount) =
      blockStart m Req.VarRec.DimCount b from rfl,
    show (m.Count.getD []).drop (b * Req.VarRec.DimCount) =
      blockCount m Req.VarRec.DimCount b from rfl,
    IntersectionStartCount_of_not_intersect _ _ _ _ _ hI]

theorem globalBlockRequests_operator (d : Deserializer) (Req : BP5ArrayRequest)
    (i w : Nat) (m : MetaArrayRecOperator) (b : Nat) (hop : Req.VarRec.Operator ≠ none)
    (hI : BoxesIntersect Req.VarRec.DimCount Req.Start Req.Count
      (blockStart m Req.VarRec.DimCount b) (blockCount m Req.VarRec.DimCount b)) :
    globalBlockRequests d Req i w m b =
      [{ Timestep := Req.Step, WriterRank := w,
         StartOffset := m.DataBlockLocation.getD b 0,
         ReadLength := m.DataBlockSize.getD b 0,
         OffsetInBlock := 0, ReqIndex := i, BlockID := b }] := by
  unfold globalBlockRequests
  simp only []
  rw [show (m.Offsets.getD []).drop (b * Req.VarRec.DimCount) =
      blockStart m Req.VarRec.DimCount b from rfl,
    show (m.Count.getD []).drop (b * Req.VarRec.DimCount) =
      blockCount m Req.VarRec.DimCount b from rfl,
    IntersectionStartCount_of_intersect _ _ _ _ _ hI]
  simp only [hop, ne_eq, not_false_eq_true, if_true]

theorem globalBlockRequests_plain (d : Deserializer) (Req : BP5ArrayRequest)
    (i w : Nat) (m : MetaArrayRecOperator) (b : Nat) (hop : Req.VarRec.Operator = none)
    (hI : BoxesIntersect Req.VarRec.DimCount Req.Start Req.Count
      (blockStart m Req.VarRec.DimCount b) (blockCount m Req.VarRec.DimCount b)) :
    globalBlockRequests d Req i w m b =
      [{ Timestep := Req.Step, WriterRank := w,
         StartOffset := m.DataBlockLocation.getD b 0 + Req.VarRec.TypeSize *
           elemIndex m Req.VarRec.DimCount b d.m_ReaderIsRowMajor
             (lowCorner Req.VarRec.DimCount Req.Start (blockStart m Req.VarRec.DimCount b)),
         ReadLength := Req.VarRec.TypeSize *
             (elemIndex m Req.VarRec.DimCount b d.m_ReaderIsRowMajor
               (highCorner Req.VarRec.DimCount Req.Start Req.Count
                 (blockStart m Req.VarRec.DimCount b) (blockCount m Req.VarRec.DimCount b)) + 1) -
           Req.VarRec.TypeSize *
             elemIndex m Req.VarRec.DimCount b d.m_ReaderIsRowMajor
               (lowCorner Req.VarRec.DimCount Req.Start (blockStart m Req.VarRec.DimCount b)),
         OffsetInBlock := Req.VarRec.TypeSize *
           elemIndex m Req.VarRec.DimCount b d.m_ReaderIsRowMajor
             (lowCorner Req.VarRec.DimCount Req.Start (blockStart m Req.VarRec.DimCount b)),
         ReqIndex := i, BlockID := b }] := by
  have hlow := lowCorner_inBox _ _ _ _ _ hI
  have hhigh := highCorner_inBox _ _ _ _ _ hI
  have hlh := corners_bound _ _ _ _ _ _ hhigh.1 hhigh.2
  have e1 : LinearIndex Req.VarRec.DimCount (blockCount m Req.VarRec.DimCount b)
      ((List.range Req.VarRec.DimCount).map (fun Dim =>
        (lowCorner Req.VarRec.DimCount Req.Start (blockStart m Req.VarRec.DimCount b)).getD Dim 0 -
          (m.Offsets.getD []).getD (b * Req.VarRec.DimCount + Dim) 0)) d.m_ReaderIsRowMajor =
      elemIndex m Req.VarRec.DimCount b d.m_ReaderIsRowMajor
        (lowCorner Req.VarRec.DimCount Req.Start (blockStart m Req.VarRec.DimCount b)) := by
    apply LinearIndex_congr
    intro k hk
    rw [getD_map_range _ _ _ hk, relPos, getD_map_range _ _ _ hk, blockStart, getD_drop]
  have e2 : LinearIndex Req.VarRec.DimCount (blockCount m Req.VarRec.DimCount b)
      ((List.range Req.VarRec.DimCount).map (fun Dim =>
        ((List.range Req.VarRec.DimCount).map (fun Dim =>
          (lowCorner Req.VarRec.DimCount Req.Start
              (blockStart m Req.VarRec.DimCount b)).getD Dim 0 -
            (m.Offsets.getD []).getD (b * Req.VarRec.DimCount + Dim) 0)).getD Dim 0 +
        (((List.range Req.VarRec.DimCount).map (fun d =>
          (highCorner Req.VarRec.DimCount Req.Start Req.Count
              (blockStart m Req.VarRec.DimCount b)
              (blockCount m Req.VarRec.DimCount b)).getD d 0 + 1 -
            (lowCorner Req.VarRec.DimCount Req.Start
              (blockStart m Req.VarRec.DimCount b)).getD d 0)).getD Dim 0 - 1)))
        d.m_ReaderIsRowMajor =
      elemIndex m Req.VarRec.DimCount b d.m_ReaderIsRowMajor
        (highCorner Req.VarRec.DimCount Req.Start Req.Count
          (blockStart m Req.VarRec.DimCount b) (blockCount m Req.VarRec.DimCount b)) := by
    apply LinearIndex_congr
    intro k hk
    rw [getD_map_range _ _ _ hk, getD_map_range _ _ _ hk, getD_map_range _ _ _ hk, relPos,
      getD_map_range _ _ _ hk, ← getD_drop, ← blockStart]
    have a := hlow.2 k hk
    have c := hlh k hk
    omega
  unfold globalBlockRequests
  simp only []
  rw [show (m.Offsets.getD []).drop (b * Req.VarRec.DimCount) =
      blockStart m Req.VarRec.DimCount b from rfl,
    show (m.Count.getD []).drop (b * Req.VarRec.DimCount) =
      blockCount m Req.VarRec.DimCount b from rfl,
    IntersectionStartCount_of_intersect _ _ _ _ _ hI]
  simp only [hop, ne_eq, not_true_eq_false, if_false]
  rw [e1, e2]

theorem mem_globalBlockRequests {d : Deserializer} {Req : BP5ArrayRequest}
    {i w : Nat} {m : MetaArrayRecOperator} {b : Nat} {rr : ReadRequest}
    (h : rr ∈ globalBlockRequests d Req i w m b) :
    rr.ReqIndex = i ∧ rr.WriterRank = w ∧ rr.BlockID = b ∧ rr.Timestep = Req.Step ∧
      BoxesIntersect Req.VarRec.DimCount Req.Start Req.Count
        (blockStart m Req.VarRec.DimCount b) (blockCount m Req.VarRec.DimCount b) := by
  classical
  by_cases hI : BoxesIntersect Req.VarRec.DimCount Req.Start Req.Count
      (blockStart m Req.VarRec.DimCount b) (blockCount m Req.VarRec.DimCount b)
  · by_cases hop : Req.VarRec.Operator = none
    · rw [globalBlockRequests_plain d Req i w m b hop hI, List.mem_singleton] at h
      subst h
      exact ⟨rfl, rfl, rfl, rfl, hI⟩
    · rw [globalBlockRequests_operator d Req i w m b hop hI, List.mem_singleton] at h
      subst h
      exact ⟨rfl, rfl, rfl, rfl, hI⟩
  · rw [globalBlockRequests_of_not_intersect d Req i w m b hI] at h
    exact absurd h (List.not_mem_nil rr)

theorem globalBlockRequests_singleton (d : Deserializer) (Req : BP5ArrayRequest)
    (i w : Nat) (m : MetaArrayRecOperator) (b : Nat)
    (hI : BoxesIntersect Req.VarRec.DimCount Req.Start Req.Count
      (blockStart m Req.VarRec.DimCount b) (blockCount m Req.VarRec.DimCount b)) :
    ∃ rr, globalBlockRequests d Req i w m b = [rr] := by
  by_cases hop : Req.VarRec.Operator = none
  · exact ⟨_, globalBlockRequests_plain d Req i w m b hop hI⟩
  · exact ⟨_, globalBlockRequests_operator d Req i w m b hop hI⟩

theorem mem_globalRequests {d : Deserializer} {Req : BP5ArrayRequest} {i : Nat}
    {rr : ReadRequest} :
    rr ∈ globalRequests d Req i ↔
      ∃ m, rr.WriterRank < d.WriterCohortSize Req.Step ∧
        d.GetMetadataBase Req.VarRec Req.Step rr.WriterRank = some m ∧
        rr.BlockID < m.BlockCount ∧
        rr ∈ globalBlockRequests d Req i rr.WriterRank m rr.BlockID := by
  unfold globalRequests
  rw [List.mem_flatMap]
  constructor
  · rintro ⟨w, hw, h⟩
    cases hm : d.GetMetadataBase Req.VarRec Req.Step w with
    | none => rw [hm] at h; exact absurd h (List.not_mem_nil rr)
    | some m =>
      rw [hm] at h
      simp only [List.mem_flatMap, List.mem_range] at h
      obtain ⟨b, hb, hrr⟩ := h
      obtain ⟨_, e1, e2, _⟩ := mem_globalBlockRequests hrr
      subst e1 e2
      exact ⟨m, List.mem_range.mp hw, hm, hb, hrr⟩
  · rintro ⟨m, hw, hm, hb, hrr⟩
    refine ⟨rr.WriterRank, List.mem_range.mpr hw, ?_⟩
    rw [hm]
    exact List.mem_flatMap.mpr ⟨rr.BlockID, List.mem_range.mpr hb, hrr⟩

theorem mem_localRequests {d : Deserializer} {Req : BP5ArrayRequest} {i : Nat}
    {rr : ReadRequest} :
    ∀ (ranks : List Nat) (first : Nat), rr ∈ localRequests d Req i ranks first →
      rr.ReqIndex = i
  | [], _, h => absurd h (List.not_mem_nil rr)
  | w :: ranks, first, h => by
    unfold localRequests at h
    cases hm : d.GetMetadataBase Req.VarRec Req.Step w with
    | none =>
      rw [hm] at h
      exact mem_localRequests ranks first h
    | some m =>
      rw [hm] at h
      simp only [] at h
      split at h
      · rw [List.mem_singleton] at h
        rw [h]
      · exact mem_localRequests ranks _ h

theorem requestsFor_ReqIndex {d : Deserializer} {Req : BP5ArrayRequest} {i : Nat}
    {rr : ReadRequest} (h : rr ∈ requestsFor d i Req) : rr.ReqIndex = i := by
  unfold requestsFor at h
  cases hT : Req.RequestType with
  | Local =>
    rw [hT] at h
    exact mem_localRequests _ _ h
  | Global =>
    rw [hT] at h
    obtain ⟨m, _, _, _, hrr⟩ := mem_globalRequests.mp h
    exact (mem_globalBlockRequests hrr).1

theorem flatMap_range_single {α : Type} (f : Nat → List α) (i : Nat)
    (h : ∀ j, j ≠ i → f j = []) : ∀ n, i < n → (List.range n).flatMap f = f i := by
  intro n
  induction n with
  | zero => intro hi; exact absurd hi (Nat.not_lt_zero i)
  | succ n ih =>
    intro hi
    rw [List.range_succ, List.flatMap_append, List.flatMap_singleton]
    by_cases hin : i < n
    · rw [ih hin, h n (by omega), List.append_nil]
    · have e : i = n := by omega
      subst e
      have : (List.range i).flatMap f = [] := by
        rw [List.flatMap_eq_nil_iff]
        intro j hj
        exact h j (by have := List.mem_range.mp hj; omega)
      rw [this, List.nil_append]

theorem GenerateReadRequests_filter (d : Deserializer) (P : List BP5ArrayRequest) (i : Nat)
    (Req : BP5ArrayRequest) (hP : P.get? i = some Req) :
    (GenerateReadRequests d P).filter (fun rr => decide (rr.ReqIndex = i)) =
      requestsFor d i Req := by
  have hi : i < P.length := by
    rcases Nat.lt_or_ge i P.length with h | h
    · exact h
    · rw [List.get?_eq_none.mpr h] at hP
      exact absurd hP (by simp)
  unfold GenerateReadRequests
  rw [List.filter_flatMap]
  rw [flatMap_range_single _ i _ _ hi]
  · simp only [hP]
    rw [List.filter_eq_self]
    intro rr hrr
    simpa using requestsFor_ReqIndex hrr
  · intro j hj
    cases hPj : P.get? j with
    | none => simp
    | some Rj =>
      simp only []
      rw [List.filter_eq_nil_iff]
      intro rr hrr
      have := requestsFor_ReqIndex hrr
      simp only [decide_eq_true_eq]
      omega

theorem globalRequests_pairwise (d : Deserializer) (Req : BP5ArrayRequest) (i : Nat) :
    (globalRequests d Req i).Pairwise rankBlockLt := by
  unfold globalRequests
  rw [List.pairwise_flatMap]
  constructor
  · intro w _
    cases hm : d.GetMetadataBase Req.VarRec Req.Step w with
    | none => exact List.Pairwise.nil
    | some m =>
      simp only []
      rw [List.pairwise_flatMap]
      constructor
      · intro b _
        classical
        by_cases hI : BoxesIntersect Req.VarRec.DimCount Req.Start Req.Count
            (blockStart m Req.VarRec.DimCount b) (blockCount m Req.VarRec.DimCount b)
        · obtain ⟨rr, hrr⟩ := globalBlockRequests_singleton d Req i w m b hI
          rw [hrr]
          exact List.pairwise_singleton _ _
        · rw [globalBlockRequests_of_not_intersect d Req i w m b hI]
          exact List.Pairwise.nil
      · refine (List.pairwise_lt_range m.BlockCount).imp ?_
        intro b1 b2 hlt x hx y hy
        obtain ⟨_, xw, xb, _⟩ := mem_globalBlockRequests hx
        obtain ⟨_, yw, yb, _⟩ := mem_globalBlockRequests hy
        exact Or.inr ⟨by rw [xw, yw], by rw [xb, yb]; exact hlt⟩
  · refine (List.pairwise_lt_range _).imp ?_
    intro w1 w2 hlt x hx y hy
    have key : ∀ (w : Nat) (z : ReadRequest),
        (z ∈ match d.GetMetadataBase Req.VarRec Req.Step w with
          | none => []
          | some m => (List.range m.BlockCount).flatMap (globalBlockRequests d Req i w m)) →
        z.WriterRank = w := by
      intro w z hz
      cases hm : d.GetMetadataBase Req.VarRec Req.Step w with
      | none => rw [hm] at hz; exact absurd hz (List.not_mem_nil z)
      | some m =>
        rw [hm] at hz
        obtain ⟨b, _, hzb⟩ := List.mem_flatMap.mp hz
        exact (mem_globalBlockRequests hzb).2.1
    exact Or.inl (by rw [key w1 x hx, key w2 y hy]; exact hlt)

theorem elemIndex_mono (m : MetaArrayRecOperator) (dims b : Nat) (r : Bool) (p q : List Nat)
    (h : ∀ k, k < dims → p.getD k 0 ≤ q.getD k 0) :
    elemIndex m dims b r p ≤ elemIndex m dims b r q := by
  apply LinearIndex_mono
  intro k hk
  simp only [relPos, getD_map_range _ _ _ hk]
  have := h k hk
  omega

theorem elemIndex_lt (m : MetaArrayRecOperator) (dims b : Nat) (r : Bool) (p : List Nat)
    (h : InBox dims (blockStart m dims b) (blockCount m dims b) p) :
    elemIndex m dims b r p < CalcSize dims (blockCount m dims b) := by
  apply LinearIndex_lt
  intro k hk
  rw [relPos, getD_map_range _ _ _ hk]
  have := h k hk
  omega

theorem blocksBefore_succ (d : Deserializer) (VarRec : BP5VarRec) (Step w : Nat) :
    blocksBefore d VarRec Step (w + 1) =
      blocksBefore d VarRec Step w + writerBlockCount d VarRec Step w := by
  simp [blocksBefore, List.range_succ]

theorem blocksBefore_mono (d : Deserializer) (VarRec : BP5VarRec) (Step : Nat) :
    ∀ (n w : Nat), blocksBefore d VarRec Step w ≤ blocksBefore d VarRec Step (w + n)
  | 0, w => Nat.le_refl _
  | n + 1, w => by
    have := blocksBefore_mono d VarRec Step n w
    rw [← Nat.add_assoc, blocksBefore_succ]
    omega

theorem blocksBefore_le (d : Deserializer) (VarRec : BP5VarRec) (Step : Nat) {w w' : Nat}
    (h : w ≤ w') : blocksBefore d VarRec Step w ≤ blocksBefore d VarRec Step w' := by
  have := blocksBefore_mono d VarRec Step (w' - w) w
  rwa [Nat.add_sub_cancel' h] at this

theorem CalcBlockLength_eq_CalcSize (n : Nat) (c : List Nat) (hn : 0 < n) :
    CalcBlockLength n c = CalcSize n c := by
  obtain ⟨k, rfl⟩ : ∃ k, n = k + 1 := ⟨n - 1, by omega⟩
  unfold CalcBlockLength CalcSize
  rw [show List.range (k + 1) = 0 :: (List.range (k + 1)).drop 1 by
    rw [List.range_succ_eq_map]; rfl]
  simp

theorem localRequests_spec (d : Deserializer) (Req : BP5ArrayRequest) (i : Nat)
    (C : Nat) (hdims : 0 < Req.VarRec.DimCount)
    (hpos : ∀ w m, w < C → d.GetMetadataBase Req.VarRec Req.Step w = some m → 1 ≤ m.BlockCount)
    (hfit : blocksBefore d Req.VarRec Req.Step C < 2 ^ 64) :
    ∀ (n w0 : Nat), w0 + n = C → blocksBefore d Req.VarRec Req.Step w0 ≤ Req.BlockID →
      (Req.BlockID < blocksBefore d Req.VarRec Req.Step C →
        ∃ w m, w0 ≤ w ∧ w < C ∧ d.GetMetadataBase Req.VarRec Req.Step w = some m ∧
          blocksBefore d Req.VarRec Req.Step w ≤ Req.BlockID ∧
          Req.BlockID < blocksBefore d Req.VarRec Req.Step (w + 1) ∧
          localRequests d Req i (List.range' w0 n) (blocksBefore d Req.VarRec Req.Step w0) =
            [wholeBlockRequest Req i w m (Req.BlockID - blocksBefore d Req.VarRec Req.Step w)]) ∧
      (blocksBefore d Req.VarRec Req.Step C ≤ Req.BlockID →
        localRequests d Req i (List.range' w0 n) (blocksBefore d Req.VarRec Req.Step w0) = [])
  | 0, w0, hC, hle => by
    have e : w0 = C := by omega
    subst e
    exact ⟨fun h => absurd h (by omega), fun _ => by simp [localRequests]⟩
  | n + 1, w0, hC, hle => by
    have hw0 : w0 < C := by omega
    have ih := localRequests_spec d Req i C hdims hpos hfit n (w0 + 1) (by omega)
    have hs := blocksBefore_succ d Req.VarRec Req.Step w0
    have hmono := blocksBefore_le d Req.VarRec Req.Step (show w0 + 1 ≤ C by omega)
    rw [List.range'_succ, localRequests]
    cases hm : d.GetMetadataBase Req.VarRec Req.Step w0 with
    | none =>
      have e : blocksBefore d Req.VarRec Req.Step (w0 + 1) =
          blocksBefore d Req.VarRec Req.Step w0 := by
        rw [hs, writerBlockCount, hm, Nat.add_zero]
      rw [e] at ih
      obtain ⟨ih1, ih2⟩ := ih hle
      refine ⟨fun h => ?_, ih2⟩
      obtain ⟨w, m, h1, h2⟩ := ih1 h
      exact ⟨w, m, by omega, h2⟩
    | some m =>
      have hbc := hpos w0 m hw0 hm
      have e : blocksBefore d Req.VarRec Req.Step (w0 + 1) =
          blocksBefore d Req.VarRec Req.Step w0 + m.BlockCount := by
        rw [hs, writerBlockCount, hm]
      have hlast : (blocksBefore d Req.VarRec Req.Step w0 + m.BlockCount + (2 ^ 64 - 1)) % 2 ^ 64
          = blocksBefore d Req.VarRec Req.Step w0 + m.BlockCount - 1 := by
        have : blocksBefore d Req.VarRec Req.Step w0 + m.BlockCount + (2 ^ 64 - 1) =
            (blocksBefore d Req.VarRec Req.Step w0 + m.BlockCount - 1) + 2 ^ 64 := by omega
        rw [this, Nat.add_mod_right, Nat.mod_eq_of_lt (by omega)]
      simp only [hlast]
      by_cases hin : Req.BlockID < blocksBefore d Req.VarRec Req.Step w0 + m.BlockCount
      · rw [if_pos ⟨hle, by omega⟩]
        refine ⟨fun _ => ⟨w0, m, Nat.le_refl _, hw0, hm, hle, by omega, ?_⟩,
          fun h => absurd h (by omega)⟩
        rw [CalcBlockLength_eq_CalcSize _ _ hdims]
        rfl
      · rw [if_neg (by omega)]
        rw [← e]
        obtain ⟨ih1, ih2⟩ := ih (by omega)
        refine ⟨fun h => ?_, ih2⟩
        obtain ⟨w, m', h1, h2⟩ := ih1 h
        exact ⟨w, m', by omega, h2⟩

/-- C4: for a `Local` request with global block id `B` on a step where every
writer that wrote the variable holds at least one block: when `B` is below the
total number of blocks, `GenerateReadRequests` emits exactly one request for it,
for the one writer `w` with `blocksBefore w ≤ B < blocksBefore (w + 1)` (writers
that did not write the variable hold no block), with
`BlockID = localBlock = B − blocksBefore w`,
`StartOffset = DataBlockLocation[localBlock]`,
`ReadLength = ElementSize × Π Count[localBlock*Dims ..]` and `OffsetInBlock = 0`;
when `B` is not below the total it emits none. -/
theorem GenerateReadRequests_local (d : Deserializer) (P : List BP5ArrayRequest)
    (i : Nat) (Req : BP5ArrayRequest) (hP : P.get? i = some Req)
    (hL : Req.RequestType = RequestTypeEnum.Local) (hdims : 0 < Req.VarRec.DimCount)
    (hpos : ∀ w m, w < d.WriterCohortSize Req.Step →
      d.GetMetadataBase Req.VarRec Req.Step w = some m → 1 ≤ m.BlockCount)
    (hfit : blocksBefore d Req.VarRec Req.Step (d.WriterCohortSize Req.Step) < 2 ^ 64) :
    (Req.BlockID < blocksBefore d Req.VarRec Req.Step (d.WriterCohortSize Req.Step) →
      ∃ w m, w < d.WriterCohortSize Req.Step ∧
        d.GetMetadataBase Req.VarRec Req.Step w = some m ∧
        blocksBefore d Req.VarRec Req.Step w ≤ Req.BlockID ∧
        Req.BlockID < blocksBefore d Req.VarRec Req.Step (w + 1) ∧
        (∀ w', blocksBefore d Req.VarRec Req.Step w' ≤ Req.BlockID →
          Req.BlockID < blocksBefore d Req.VarRec Req.Step (w' + 1) → w' = w) ∧
        (GenerateReadRequests d P).filter (fun rr => decide (rr.ReqIndex = i)) =
          [wholeBlockRequest Req i w m (Req.BlockID - blocksBefore d Req.VarRec Req.Step w)]) ∧
    (blocksBefore d Req.VarRec Req.Step (d.WriterCohortSize Req.Step) ≤ Req.BlockID →
      (GenerateReadRequests d P).filter (fun rr => decide (rr.ReqIndex = i)) = []) := by
  rw [GenerateReadRequests_filter d P i Req hP]
  have hreq : requestsFor d i Req =
      localRequests d Req i (List.range' 0 (d.WriterCohortSize Req.Step))
        (blocksBefore d Req.VarRec Req.Step 0) := by
    unfold requestsFor
    rw [hL, List.range_eq_range']
    rfl
  rw [hreq]
  obtain ⟨h1, h2⟩ := localRequests_spec d Req i (d.WriterCohortSize Req.Step) hdims hpos hfit
    (d.WriterCohortSize Req.Step) 0 (Nat.zero_add _) (Nat.zero_le _)
  refine ⟨fun h => ?_, h2⟩
  obtain ⟨w, m, _, hw, hm, hlo, hhi, hrr⟩ := h1 h
  refine ⟨w, m, hw, hm, hlo, hhi, ?_, hrr⟩
  intro w' hlo' hhi'
  rcases Nat.lt_trichotomy w' w with hlt | heq | hgt
  · have := blocksBefore_le d Req.VarRec Req.Step (show w' + 1 ≤ w by omega)
    omega
  · exact heq
  · have := blocksBefore_le d Req.VarRec Req.Step (show w + 1 ≤ w' by omega)
    omega

/-! ### Scenario S2: a local array of ten elements written by two writers -/

theorem S2.blockCount_pos (w : Nat) (m : MetaArrayRecOperator)
    (h : S2.reader.GetMetadataBase S2.request.VarRec S2.request.Step w = some m) :
    1 ≤ m.BlockCount := by
  simp only [S2.reader] at h
  split at h
  · cases h; decide
  · cases h

/-- Witness of `GenerateReadRequests_local`: scenario S2, block 1. -/
theorem GenerateReadRequests_local_witness :
    ([S2.request].get? 0 = some S2.request ∧
      S2.request.RequestType = RequestTypeEnum.Local ∧ 0 < S2.request.VarRec.DimCount ∧
      (∀ w m, w < S2.reader.WriterCohortSize S2.request.Step →
        S2.reader.GetMetadataBase S2.request.VarRec S2.request.Step w = some m →
        1 ≤ m.BlockCount) ∧
      blocksBefore S2.reader S2.request.VarRec S2.request.Step
        (S2.reader.WriterCohortSize S2.request.Step) < 2 ^ 64) ∧
    (GenerateReadRequests S2.reader [S2.request]).filter
        (fun rr => decide (rr.ReqIndex = 0)) =
      [wholeBlockRequest S2.request 0 1 S2.meta 0] := by
  have h := GenerateReadRequests_local S2.reader [S2.request] 0 S2.request rfl rfl (by decide)
    (fun w m _ h => S2.blockCount_pos w m h) (by decide)
  refine ⟨⟨rfl, rfl, by decide, fun w m _ h => S2.blockCount_pos w m h, by decide⟩, ?_⟩
  obtain ⟨w, m, _, hm, _, _, huniq, hrr⟩ := h.1 (by decide)
  have hw : 1 = w := huniq 1 (by decide) (by decide)
  subst hw
  have hm' : some S2.meta = some m := hm
  cases hm'
  rw [hrr]
  rfl

/-! ## Statistics and block queries (`VariableMinMax`, `MinBlocksInfo`) -/

theorem arrayBlocks_spec (d : Deserializer) (Init : DataType → MinMaxStruct)
    (VarRec : BP5VarRec) (Step C : Nat) (hdims : 0 < VarRec.DimCount)
    (hwf : ∀ w m, w < C → d.GetMetadataBase VarRec Step w = some m →
      m.DBCount = VarRec.DimCount * m.BlockCount) :
    ∀ (n w0 : Nat), w0 + n = C →
      (arrayBlocks d Init VarRec Step VarRec.DimCount (List.range' w0 n)
          (blocksBefore d VarRec Step w0)).length =
        blocksBefore d VarRec Step C - blocksBefore d VarRec Step w0 ∧
      (∀ (k : Nat) (blk : MinBlockInfo),
        (arrayBlocks d Init VarRec Step VarRec.DimCount (List.range' w0 n)
          (blocksBefore d VarRec Step w0))[k]? = some blk →
        blk.BlockID = blocksBefore d VarRec Step w0 + k) ∧
      (∀ w m b, w0 ≤ w → w < C → d.GetMetadataBase VarRec Step w = some m → b < m.BlockCount →
        (arrayBlocks d Init VarRec Step VarRec.DimCount (List.range' w0 n)
          (blocksBefore d VarRec Step w0))[blocksBefore d VarRec Step w + b -
            blocksBefore d VarRec Step w0]? =
          some (arrayBlock Init VarRec VarRec.DimCount w (blocksBefore d VarRec Step w + b) m b))
  | 0, w0, hC => by
    have e : w0 = C := by omega
    subst e
    refine ⟨by simp [arrayBlocks], fun k blk h => ?_, fun w m b h1 h2 => absurd h2 (by omega)⟩
    simp [arrayBlocks] at h
  | n + 1, w0, hC => by
    have hw0 : w0 < C := by omega
    obtain ⟨ih1, ih2, ih3⟩ := arrayBlocks_spec d Init VarRec Step C hdims hwf n (w0 + 1)
      (by omega)
    have hs := blocksBefore_succ d VarRec Step w0
    have hmono := blocksBefore_le d VarRec Step (show w0 + 1 ≤ C by omega)
    rw [List.range'_succ, arrayBlocks]
    cases hm : d.GetMetadataBase VarRec Step w0 with
    | none =>
      have e : blocksBefore d VarRec Step (w0 + 1) = blocksBefore d VarRec Step w0 := by
        rw [hs, writerBlockCount, hm, Nat.add_zero]
      rw [e] at ih1 ih2 ih3
      refine ⟨ih1, ih2, fun w m b h1 h2 h3 h4 => ?_⟩
      have hne : w ≠ w0 := by
        intro e'
        rw [e', hm] at h3
        cases h3
      exact ih3 w m b (by omega) h2 h3 h4
    | some m0 =>
      have hbc : m0.DBCount / VarRec.DimCount = m0.BlockCount := by
        rw [hwf w0 m0 hw0 hm, Nat.mul_div_cancel_left _ hdims]
      have e : blocksBefore d VarRec Step (w0 + 1) =
          blocksBefore d VarRec Step w0 + m0.BlockCount := by
        rw [hs, writerBlockCount, hm]
      simp only [Nat.pos_iff_ne_zero.mp hdims, ne_eq, not_false_eq_true, if_true, hbc]
      rw [← e]
      refine ⟨?_, ?_, ?_⟩
      · rw [List.length_append, List.length_map, List.length_range, ih1]
        omega
      · intro k blk hk
        rw [List.getElem?_append] at hk
        simp only [List.length_map, List.length_range] at hk
        split at hk
        · rename_i hlt
          rw [List.getElem?_map, List.getElem?_range hlt] at hk
          simp only [Option.map_some', Option.some.injEq] at hk
          rw [← hk]
          rfl
        · have := ih2 _ _ hk
          omega
      · intro w m b h1 h2 h3 h4
        rw [List.getElem?_append]
        simp only [List.length_map, List.length_range]
        by_cases hw : w = w0
        · subst hw
          rw [hm] at h3
          cases h3
          rw [if_pos (by omega), List.getElem?_map,
            List.getElem?_range (by omega : blocksBefore d VarRec Step w + b -
              blocksBefore d VarRec Step w < m0.BlockCount)]
          simp only [Option.map_some', Nat.add_sub_cancel_left]
        · have hle := blocksBefore_le d VarRec Step (show w0 + 1 ≤ w by omega)
          rw [if_neg (by omega)]
          have := ih3 w m b (by omega) h2 h3 h4
          rw [← this]
          congr 1
          omega

/-- C10: for an array variable (at least one dimension, each writer record with
`DBCount = Dims × BlockCount`) `MinBlocksInfo(var, s)` returns as many blocks as
the writers that wrote the variable on `s` hold together; the block at index `k`
has `BlockID = k`, and the blocks of writer `w` stand at the indices
`blocksBefore w + b` for its local blocks `b` in order, each with
`WriterID = w` and `Start`/`Count` the `Offsets`/`Count` tuple of that block:
the `DimCount` entries of the writer's array from position `b × DimCount` on
(null where the writer's array is null). -/
theorem MinBlocksInfo_blocks (d : Deserializer) (Init : DataType → MinMaxStruct)
    (VarRec : BP5VarRec) (Step : Nat)
    (hshape : ¬ (VarRec.OrigShapeID = ShapeID.LocalValue ∨
      VarRec.OrigShapeID = ShapeID.GlobalValue))
    (hdims : 0 < VarRec.DimCount)
    (hwf : ∀ w m, w < d.WriterCohortSize Step → d.GetMetadataBase VarRec Step w = some m →
      m.DBCount = VarRec.DimCount * m.BlockCount) :
    (MinBlocksInfo d Init VarRec Step).BlocksInfo.length =
      blocksBefore d VarRec Step (d.WriterCohortSize Step) ∧
    (∀ (k : Nat) (blk : MinBlockInfo),
      (MinBlocksInfo d Init VarRec Step).BlocksInfo[k]? = some blk → blk.BlockID = k) ∧
    (∀ w m b, w < d.WriterCohortSize Step → d.GetMetadataBase VarRec Step w = some m →
      b < m.BlockCount →
      ∃ blk, (MinBlocksInfo d Init VarRec Step).BlocksInfo[blocksBefore d VarRec Step w + b]? =
          some blk ∧
        blk.WriterID = w ∧ blk.BlockID = blocksBefore d VarRec Step w + b ∧
        (∀ offs, m.Offsets = some offs → blk.Start =
          SizePtr.tuple ((offs.drop (b * VarRec.DimCount)).take VarRec.DimCount)) ∧
        (m.Offsets = none → blk.Start = SizePtr.null) ∧
        (∀ cnt, m.Count = some cnt → blk.Count =
          SizePtr.tuple ((cnt.drop (b * VarRec.DimCount)).take VarRec.DimCount)) ∧
        (m.Count = none → blk.Count = SizePtr.null)) := by
  have hB : (MinBlocksInfo d Init VarRec Step).BlocksInfo =
      arrayBlocks d Init VarRec Step VarRec.DimCount
        (List.range' 0 (d.WriterCohortSize Step)) (blocksBefore d VarRec Step 0) := by
    unfold MinBlocksInfo
    simp only [hshape, if_false, List.range_eq_range']
    rfl
  rw [hB]
  obtain ⟨h1, h2, h3⟩ := arrayBlocks_spec d Init VarRec Step (d.WriterCohortSize Step) hdims hwf
    (d.WriterCohortSize Step) 0 (Nat.zero_add _)
  have h0 : blocksBefore d VarRec Step 0 = 0 := rfl
  rw [h0] at h1 h2 h3
  rw [h0]
  refine ⟨by simpa using h1, fun k blk hk => by simpa using h2 k blk hk, ?_⟩
  intro w m b hw hm hb
  refine ⟨_, by simpa using h3 w m b (Nat.zero_le _) hw hm hb, rfl, rfl, ?_, ?_, ?_, ?_⟩
  · intro offs h
    show tupleAt m.Offsets VarRec.DimCount b = _
    rw [h]; rfl
  · intro h
    show tupleAt m.Offsets VarRec.DimCount b = _
    rw [h]; rfl
  · intro cnt h
    show tupleAt m.Count VarRec.DimCount b = _
    rw [h]; rfl
  · intro h
    show tupleAt m.Count VarRec.DimCount b = _
    rw [h]; rfl

theorem S3.wellFormed (w : Nat) (m : MetaArrayRecOperator)
    (h : S3.reader.GetMetadataBase S3.var 0 w = some m) :
    m.DBCount = S3.var.DimCount * m.BlockCount := by
  simp only [S3.reader] at h
  split at h
  · cases h; decide
  · split at h
    · cases h; decide
    · cases h

/-- Witness of `MinBlocksInfo_blocks`: scenario S3, two writers with one block
each; the block of writer 1 has the start `{1,0}` and the count `{1,8}`. -/
theorem MinBlocksInfo_blocks_witness :
    (¬ (S3.var.OrigShapeID = ShapeID.LocalValue ∨ S3.var.OrigShapeID = ShapeID.GlobalValue) ∧
      0 < S3.var.DimCount ∧
      ∀ w m, w < S3.reader.WriterCohortSize 0 → S3.reader.GetMetadataBase S3.var 0 w = some m →
        m.DBCount = S3.var.DimCount * m.BlockCount) ∧
    (MinBlocksInfo S3.reader (fun _ => ⟨2147483647, -2147483648⟩) S3.var 0).BlocksInfo.length =
      blocksBefore S3.reader S3.var 0 (S3.reader.WriterCohortSize 0) ∧
    ∃ blk, (MinBlocksInfo S3.reader (fun _ => ⟨2147483647, -2147483648⟩) S3.var
        0).BlocksInfo[blocksBefore S3.reader S3.var 0 1 + 0]? = some blk ∧
      blk.WriterID = 1 ∧ blk.BlockID = 1 ∧
      blk.Start = SizePtr.tuple [1, 0] ∧ blk.Count = SizePtr.tuple [1, 8] := by
  have h := MinBlocksInfo_blocks S3.reader (fun _ => ⟨2147483647, -2147483648⟩) S3.var 0
    (by decide) (by decide) (fun w m _ h => S3.wellFormed w m h)
  obtain ⟨blk, h1, h2, h3, h4, _, h5, _⟩ := h.2.2 1 S3.meta1 0 (by decide) rfl (by decide)
  exact ⟨⟨by decide, by decide, fun w m _ h => S3.wellFormed w m h⟩, h.1,
    blk, h1, h2, h3, h4 [1, 0] rfl, h5 [1, 8] rfl⟩

/-! ## Writer side (`Marshal`, `DumpDeferredBlocks`) -/

theorem CreateWriterRec_state (s : BP5Serializer) (VB : VariableBase) (Name : String)
    (Type_ : DataType) (ElemSize DimCount : Nat) :
    (CreateWriterRec s VB Name Type_ ElemSize DimCount).2.CurDataBuffer = s.CurDataBuffer ∧
    (CreateWriterRec s VB Name Type_ ElemSize DimCount).2.DeferredExterns = s.DeferredExterns ∧
    (CreateWriterRec s VB Name Type_ ElemSize DimCount).2.m_PriorDataBufferSizeTotal =
      s.m_PriorDataBufferSizeTotal ∧
    (CreateWriterRec s VB Name Type_ ElemSize DimCount).2.m_StatsLevel = s.m_StatsLevel ∧
    (CreateWriterRec s VB Name Type_ ElemSize DimCount).2.MetaEntry = s.MetaEntry ∧
    (CreateWriterRec s VB Name Type_ ElemSize DimCount).2.BitField = s.BitField := by
  by_cases h : DimCount = 0 <;> simp [CreateWriterRec, h]

theorem DumpDeferredBlocks_fold_sizes (prior : Nat) :
    ∀ (defs : List DeferredExtern) (buf : BufferV) (M : Nat → MetaArrayRecOperator),
      ((defs.foldl
        (fun (st : BufferV × (Nat → MetaArrayRecOperator)) Def =>
          let (buf, pos) := st.1.AddToVec Def.DataSize Def.AlignReq
          let DataOffset := prior + pos
          (buf, fun o =>
            if o = Def.MetaOffset then
              { st.2 o with
                DataBlockLocation := (st.2 o).DataBlockLocation.set Def.BlockID DataOffset }
            else st.2 o))
        (buf, M)).1.allocs.map Prod.snd) =
      buf.allocs.map Prod.snd ++ defs.map (fun Def => Def.DataSize)
  | [], buf, M => by simp
  | Def :: defs, buf, M => by
    rw [List.foldl_cons, DumpDeferredBlocks_fold_sizes prior defs]
    simp [BufferV.AddToVec]

theorem DumpDeferredBlocks_sizes (s : BP5Serializer) (buf : BufferV)
    (h : s.CurDataBuffer = some buf) :
    ∃ bufF, (DumpDeferredBlocks s).CurDataBuffer = some bufF ∧
      bufF.allocs.map Prod.snd =
        buf.allocs.map Prod.snd ++ s.DeferredExterns.map (fun Def => Def.DataSize) := by
  unfold DumpDeferredBlocks
  rw [h]
  exact ⟨_, rfl, DumpDeferredBlocks_fold_sizes _ _ _ _⟩

theorem afterLookup_state (s : BP5Serializer) (VB : VariableBase) (a : MarshalArgs) :
    (afterLookup s VB a).2.CurDataBuffer = s.CurDataBuffer ∧
    (afterLookup s VB a).2.DeferredExterns = s.DeferredExterns ∧
    (afterLookup s VB a).2.m_PriorDataBufferSizeTotal = s.m_PriorDataBufferSizeTotal ∧
    (afterLookup s VB a).2.m_StatsLevel = s.m_StatsLevel ∧
    (afterLookup s VB a).2.MetaEntry = s.MetaEntry ∧
    (afterLookup s VB a).2.BitField = s.BitField := by
  unfold afterLookup
  cases LookupWriterRec s VB.Key with
  | some Rec => exact ⟨rfl, rfl, rfl, rfl, rfl, rfl⟩
  | none => exact CreateWriterRec_state _ _ _ _ _ _

theorem Marshal_array (Init : DataType → MinMaxStruct) (stdTypes : MinMaxTypes)
    (s : BP5Serializer) (VB : VariableBase) (a : MarshalArgs) (buf : BufferV)
    (hV : VB.m_SingleValue = false) (hbuf : s.CurDataBuffer = some buf) :
    (Marshal Init stdTypes s VB a).1.CurDataBuffer =
      some (stageBlock s.m_PriorDataBufferSizeTotal VB (writerRecOf s VB a) a buf
        (deferFlag (writerRecOf s VB a) a) (CalcSize a.DimCount a.Count)).1 ∧
    (Marshal Init stdTypes s VB a).1.DeferredExterns =
      (if deferFlag (writerRecOf s VB a) a then
        s.DeferredExterns ++
          [{ MetaOffset := (writerRecOf s VB a).MetaOffset
             BlockID := if ¬ s.BitField (writerRecOf s VB a).FieldID then 0
               else ((Marshal Init stdTypes s VB a).1.MetaEntry
                 (writerRecOf s VB a).MetaOffset).BlockCount - 1
             Data := a.Data, DataSize := CalcSize a.DimCount a.Count * a.ElemSize,
             AlignReq := a.ElemSize }]
      else s.DeferredExterns) ∧
    (Marshal Init stdTypes s VB a).1.MetaEntry (writerRecOf s VB a).MetaOffset =
      (if ¬ s.BitField (writerRecOf s VB a).FieldID then
        firstBlockEntry s.m_StatsLevel (writerRecOf s VB a) a
          { s.MetaEntry (writerRecOf s VB a).MetaOffset with Dims := a.DimCount }
          (stageBlock s.m_PriorDataBufferSizeTotal VB (writerRecOf s VB a) a buf
            (deferFlag (writerRecOf s VB a) a) (CalcSize a.DimCount a.Count)).2.1
          (stageBlock s.m_PriorDataBufferSizeTotal VB (writerRecOf s VB a) a buf
            (deferFlag (writerRecOf s VB a) a) (CalcSize a.DimCount a.Count)).2.2.1
          (if s.m_StatsLevel > 0 ∧ ¬ a.Span then
            GetMinMax Init stdTypes a.Data (CalcSize a.DimCount a.Count)
              (writerRecOf s VB a).Type_
           else Init a.Type_)
       else
        nextBlockEntry s.m_StatsLevel (writerRecOf s VB a) a
          { s.MetaEntry (writerRecOf s VB a).MetaOffset with Dims := a.DimCount }
          (stageBlock s.m_PriorDataBufferSizeTotal VB (writerRecOf s VB a) a buf
            (deferFlag (writerRecOf s VB a) a) (CalcSize a.DimCount a.Count)).2.1
          (stageBlock s.m_PriorDataBufferSizeTotal VB (writerRecOf s VB a) a buf
            (deferFlag (writerRecOf s VB a) a) (CalcSize a.DimCount a.Count)).2.2.1
          (if s.m_StatsLevel > 0 ∧ ¬ a.Span then
            GetMinMax Init stdTypes a.Data (CalcSize a.DimCount a.Count)
              (writerRecOf s VB a).Type_
           else Init a.Type_)) := by
  obtain ⟨h1, h2, h3, h4, h5, h6⟩ := afterLookup_state s VB a
  have ha : ({ a with DimCount := if VB.m_SingleValue = true then 0 else a.DimCount } :
      MarshalArgs) = a := by
    cases a
    simp [hV]
  simp only [Marshal, ha, hV, Bool.false_eq_true, if_false, marshalArray, h1, hbuf, h3, h4, h5,
    h6, recordBlock, writerRecOf, deferFlag, if_true]
  refine ⟨trivial, ?_, ?_⟩
  · rw [h2]
  · trivial

theorem getLast?_firstBlockEntry (n : Nat) (Rec : BP5WriterRec) (a : MarshalArgs)
    (m : MetaArrayRecOperator) (DataOffset cs : Nat) (mm : MinMaxStruct) :
    (firstBlockEntry n Rec a m DataOffset cs mm).DataBlockLocation.getLast? = some DataOffset ∧
    (Rec.OperatorType ≠ none →
      (firstBlockEntry n Rec a m DataOffset cs mm).DataBlockSize.getLast? = some cs) := by
  refine ⟨by simp [firstBlockEntry], fun h => ?_⟩
  simp [firstBlockEntry, h]

theorem getLast?_nextBlockEntry (n : Nat) (Rec : BP5WriterRec) (a : MarshalArgs)
    (m : MetaArrayRecOperator) (DataOffset cs : Nat) (mm : MinMaxStruct) :
    (nextBlockEntry n Rec a m DataOffset cs mm).DataBlockLocation.getLast? = some DataOffset ∧
    (Rec.OperatorType ≠ none →
      (nextBlockEntry n Rec a m DataOffset cs mm).DataBlockSize.getLast? = some cs) := by
  refine ⟨by simp [nextBlockEntry], fun h => ?_⟩
  simp [nextBlockEntry, h]

/-- C7: a `Marshal` call on an array variable with a data buffer attached.
Without operator, when the block is copied at once or handed out as a span, the
call appends to the data buffer one reservation of `ElemSize × Π Count` bytes,
and the block's `DataBlockLocation` is its position; when the block is deferred,
the call leaves the buffer as it is and registers a deferred block of
`ElemSize × Π Count` bytes, and the flush (`DumpDeferredBlocks`) reserves for
every deferred block the number of bytes registered for it, this one last. With
an operator the block's `DataBlockSize` is the size the compressor returned and
the reservation made for the block is left with that size. -/
theorem Marshal_block_bytes (Init : DataType → MinMaxStruct) (stdTypes : MinMaxTypes)
    (s : BP5Serializer) (VB : VariableBase) (a : MarshalArgs) (buf : BufferV)
    (hV : VB.m_SingleValue = false) (hbuf : s.CurDataBuffer = some buf) :
    ((writerRecOf s VB a).OperatorType = none →
      (a.Sync = true ∨ a.Span = true ∨ (writerRecOf s VB a).DimCount = 0) →
      (Marshal Init stdTypes s VB a).1.CurDataBuffer =
          some ⟨buf.allocs ++
              [(buf.alignedPos a.ElemSize, a.ElemSize * CalcSize a.DimCount a.Count)],
            buf.alignedPos a.ElemSize + a.ElemSize * CalcSize a.DimCount a.Count⟩ ∧
        ((Marshal Init stdTypes s VB a).1.MetaEntry
            (writerRecOf s VB a).MetaOffset).DataBlockLocation.getLast? =
          some (s.m_PriorDataBufferSizeTotal + buf.alignedPos a.ElemSize) ∧
        (Marshal Init stdTypes s VB a).1.DeferredExterns = s.DeferredExterns) ∧
    ((writerRecOf s VB a).OperatorType = none → a.Sync = false → a.Span = false →
      (writerRecOf s VB a).DimCount ≠ 0 →
      (Marshal Init stdTypes s VB a).1.CurDataBuffer = some buf ∧
        (∃ Def, (Marshal Init stdTypes s VB a).1.DeferredExterns = s.DeferredExterns ++ [Def] ∧
          Def.DataSize = a.ElemSize * CalcSize a.DimCount a.Count ∧
          Def.AlignReq = a.ElemSize ∧ Def.MetaOffset = (writerRecOf s VB a).MetaOffset) ∧
        ∃ bufF, (DumpDeferredBlocks (Marshal Init stdTypes s VB a).1).CurDataBuffer = some bufF ∧
          bufF.allocs.map Prod.snd =
            buf.allocs.map Prod.snd ++ s.DeferredExterns.map (fun Def => Def.DataSize) ++
              [a.ElemSize * CalcSize a.DimCount a.Count]) ∧
    (∀ op, (writerRecOf s VB a).OperatorType ≠ none → VB.m_Operations.head? = some op →
      (Marshal Init stdTypes s VB a).1.CurDataBuffer =
          some ⟨buf.allocs ++
              [(buf.alignedPos a.ElemSize,
                op.Operate a.Data ((a.Offsets.getD []).take a.DimCount) (a.Count.take a.DimCount)
                  (writerRecOf s VB a).Type_)],
            buf.alignedPos a.ElemSize + (CalcSize a.DimCount a.Count * a.ElemSize + 100) -
              (CalcSize a.DimCount a.Count * a.ElemSize + 100 -
                op.Operate a.Data ((a.Offsets.getD []).take a.DimCount)
                  (a.Count.take a.DimCount) (writerRecOf s VB a).Type_)⟩ ∧
        ((Marshal Init stdTypes s VB a).1.MetaEntry
            (writerRecOf s VB a).MetaOffset).DataBlockSize.getLast? =
          some (op.Operate a.Data ((a.Offsets.getD []).take a.DimCount)
            (a.Count.take a.DimCount) (writerRecOf s VB a).Type_) ∧
        ((Marshal Init stdTypes s VB a).1.MetaEntry
            (writerRecOf s VB a).MetaOffset).DataBlockLocation.getLast? =
          some (s.m_PriorDataBufferSizeTotal + buf.alignedPos a.ElemSize)) := by
  obtain ⟨hB, hD, hM⟩ := Marshal_array Init stdTypes s VB a buf hV hbuf
  have hlast : ∀ off cs mm,
      (if ¬ s.BitField (writerRecOf s VB a).FieldID then
        firstBlockEntry s.m_StatsLevel (writerRecOf s VB a) a
          { s.MetaEntry (writerRecOf s VB a).MetaOffset with Dims := a.DimCount } off cs mm
       else
        nextBlockEntry s.m_StatsLevel (writerRecOf s VB a) a
          { s.MetaEntry (writerRecOf s VB a).MetaOffset with Dims := a.DimCount } off cs
          mm).DataBlockLocation.getLast? = some off ∧
      ((writerRecOf s VB a).OperatorType ≠ none →
        (if ¬ s.BitField (writerRecOf s VB a).FieldID then
          firstBlockEntry s.m_StatsLevel (writerRecOf s VB a) a
            { s.MetaEntry (writerRecOf s VB a).MetaOffset with Dims := a.DimCount } off cs mm
         else
          nextBlockEntry s.m_StatsLevel (writerRecOf s VB a) a
            { s.MetaEntry (writerRecOf s VB a).MetaOffset with Dims := a.DimCount } off cs
            mm).DataBlockSize.getLast? = some cs) := by
    intro off cs mm
    split
    · exact getLast?_firstBlockEntry _ _ _ _ _ _ _
    · exact getLast?_nextBlockEntry _ _ _ _ _ _ _
  rw [hM]
  refine ⟨fun hop hnow => ?_, fun hop hs hsp hd => ?_, fun op hop hhead => ?_⟩
  · have hdf : deferFlag (writerRecOf s VB a) a = false := by
      rcases hnow with h | h | h <;> simp [deferFlag, h]
    rw [hB, hD, hdf]
    by_cases hsp : a.Span = true
    · simp only [stageBlock, hop, ne_eq, not_true_eq_false, if_false, hsp, BufferV.Allocate,
        Bool.false_eq_true, Nat.mul_comm a.ElemSize]
      exact ⟨trivial, (hlast _ _ _).1, trivial⟩
    · simp only [stageBlock, hop, ne_eq, not_true_eq_false, if_false, hsp, BufferV.AddToVec,
        Bool.false_eq_true, not_false_eq_true, if_true, Nat.mul_comm a.ElemSize]
      exact ⟨trivial, (hlast _ _ _).1, trivial⟩
  · have hdf : deferFlag (writerRecOf s VB a) a = true := by
      simp [deferFlag, hs, hsp, hd, hop]
    have hbuf' : (Marshal Init stdTypes s VB a).1.CurDataBuffer = some buf := by
      rw [hB, hdf]
      simp [stageBlock, hop, hsp]
    obtain ⟨bufF, hF1, hF2⟩ := DumpDeferredBlocks_sizes _ buf hbuf'
    refine ⟨hbuf', ?_, bufF, hF1, ?_⟩
    · rw [hD, hdf]
      exact ⟨_, rfl, Nat.mul_comm _ _, rfl, rfl⟩
    · rw [hF2, hD, hdf]
      simp [Nat.mul_comm]
  · rw [hB]
    have e : ∀ (x : Nat × Nat) (o : Option (Nat × Nat)), (some x).or o = some x :=
      fun _ _ => rfl
    simp only [stageBlock, hop, ne_eq, not_false_eq_true, if_true, hhead, BufferV.Allocate,
      BufferV.DownsizeLastAlloc, List.getLast?_append, List.getLast?_singleton, e,
      List.dropLast_concat]
    exact ⟨trivial, (hlast _ _ _).2 hop, (hlast _ _ _).1⟩

/-! ### Scenario S3 on the writer side -/

/-- Witness of `Marshal_block_bytes`: the put of writer 0 in scenario S3
reserves 32 bytes. -/
theorem Marshal_block_bytes_witness :
    (S3.variable.m_SingleValue = false ∧ S3.writer.CurDataBuffer = some ⟨[], 0⟩) ∧
    (Marshal S3.Init (fun _ => true) S3.writer S3.variable S3.put0).1.CurDataBuffer =
      some ⟨[(0, 32)], 32⟩ :=
  ⟨⟨rfl, rfl⟩,
    ((Marshal_block_bytes S3.Init (fun _ => true) S3.writer S3.variable S3.put0 ⟨[], 0⟩ rfl
      rfl).1 rfl (Or.inl rfl)).1.trans (by decide)⟩

/-! ### Folding statistics -/

theorem ApplyElementMinMax_integer (mm : MinMaxStruct) (T : DataType) (e : Int)
    (hT : T.isInteger = true) :
    ApplyElementMinMax mm T e = ⟨min mm.MinUnion e, max mm.MaxUnion e⟩ := by
  have h : ApplyElementMinMax mm T e =
      (if e > (if e < mm.MinUnion then { mm with MinUnion := e } else mm).MaxUnion then
        { (if e < mm.MinUnion then { mm with MinUnion := e } else mm) with MaxUnion := e }
       else (if e < mm.MinUnion then { mm with MinUnion := e } else mm)) := by
    cases T <;> first | rfl | exact absurd hT (by decide)
  rw [h]
  cases mm with
  | mk mn mx =>
    simp only []
    by_cases h1 : e < mn <;> by_cases h2 : e > mx <;>
      simp [h1, h2, min_def, max_def] <;> omega

theorem foldl_flatMap_eq {α β γ : Type} (f : α → List β) (g : γ → β → γ) :
    ∀ (l : List α) (c : γ),
      (l.flatMap f).foldl g c = l.foldl (fun c x => (f x).foldl g c) c
  | [], c => rfl
  | x :: l, c => by
    rw [List.flatMap_cons, List.foldl_append, List.foldl_cons, foldl_flatMap_eq f g l]

theorem foldBlocksMinMax_eq (VarRec : BP5VarRec) (m : MetaArrayRecOperator)
    (mm : MinMaxStruct) :
    foldBlocksMinMax VarRec m mm =
      (writerSlots VarRec m).foldl (fun mm e => ApplyElementMinMax mm VarRec.Type_ e) mm := by
  rw [writerSlots, foldl_flatMap_eq]
  rfl

theorem VariableMinMax_eq (d : Deserializer) (Init : DataType → MinMaxStruct)
    (VarRec : BP5VarRec) (Step : Nat)
    (hshape : VarRec.OrigShapeID = ShapeID.LocalArray ∨ VarRec.OrigShapeID = ShapeID.GlobalArray)
    (hmm : VarRec.MinMaxOffset ≠ none) (hstep : Step ≠ DefaultSizeT) :
    VariableMinMax d Init VarRec Step =
      (stepSlots d VarRec Step).foldl (fun mm e => ApplyElementMinMax mm VarRec.Type_ e)
        (Init VarRec.Type_) := by
  have h1 : List.range' Step (Step + 1 - Step) = [Step] := by
    rw [Nat.add_sub_cancel_left]
    rfl
  simp only [VariableMinMax, hmm, and_false, if_false, hstep, h1, List.foldl_cons,
    List.foldl_nil, stepMinMax, hshape, if_true]
  rw [stepSlots, foldl_flatMap_eq]
  congr 1
  funext mm w
  cases d.GetMetadataBase VarRec Step w with
  | none => rfl
  | some m => exact foldBlocksMinMax_eq VarRec m mm

theorem foldl_apply_bounds (T : DataType) (hT : T.isInteger = true) :
    ∀ (L : List Int) (mm : MinMaxStruct),
      ((L.foldl (fun mm e => ApplyElementMinMax mm T e) mm).MinUnion ≤ mm.MinUnion ∧
        mm.MaxUnion ≤ (L.foldl (fun mm e => ApplyElementMinMax mm T e) mm).MaxUnion) ∧
      (∀ v ∈ L, (L.foldl (fun mm e => ApplyElementMinMax mm T e) mm).MinUnion ≤ v ∧
        v ≤ (L.foldl (fun mm e => ApplyElementMinMax mm T e) mm).MaxUnion) ∧
      (((L.foldl (fun mm e => ApplyElementMinMax mm T e) mm).MinUnion = mm.MinUnion ∨
          (L.foldl (fun mm e => ApplyElementMinMax mm T e) mm).MinUnion ∈ L) ∧
        ((L.foldl (fun mm e => ApplyElementMinMax mm T e) mm).MaxUnion = mm.MaxUnion ∨
          (L.foldl (fun mm e => ApplyElementMinMax mm T e) mm).MaxUnion ∈ L))
  | [], mm => by simp
  | e :: L, mm => by
    rw [List.foldl_cons, ApplyElementMinMax_integer mm T e hT]
    obtain ⟨⟨a1, a2⟩, b, c1, c2⟩ :=
      foldl_apply_bounds T hT L ⟨min mm.MinUnion e, max mm.MaxUnion e⟩
    simp only at a1 a2 c1 c2
    have m1 : min mm.MinUnion e ≤ mm.MinUnion := min_le_left _ _
    have m2 : min mm.MinUnion e ≤ e := min_le_right _ _
    have m3 : mm.MaxUnion ≤ max mm.MaxUnion e := le_max_left _ _
    have m4 : e ≤ max mm.MaxUnion e := le_max_right _ _
    refine ⟨⟨le_trans a1 m1, le_trans m3 a2⟩, ?_, ?_, ?_⟩
    · intro v hv
      rcases List.mem_cons.mp hv with rfl | hv
      · exact ⟨le_trans a1 m2, le_trans m4 a2⟩
      · exact b v hv
    · rcases c1 with h | h
      · rcases min_choice mm.MinUnion e with h' | h'
        · exact Or.inl (h.trans h')
        · exact Or.inr (List.mem_cons.mpr (Or.inl (h.trans h')))
      · exact Or.inr (List.mem_cons_of_mem e h)
    · rcases c2 with h | h
      · rcases max_choice mm.MaxUnion e with h' | h'
        · exact Or.inl (h.trans h')
        · exact Or.inr (List.mem_cons.mpr (Or.inl (h.trans h')))
      · exact Or.inr (List.mem_cons_of_mem e h)

/-! ### The statistics that a sequence of puts leaves in the metadata -/

theorem CreateWriterRec_lookup (s : BP5Serializer) (VB : VariableBase) (Name : String)
    (Type_ : DataType) (ElemSize DimCount : Nat) (h : LookupWriterRec s VB.Key = none) :
    (CreateWriterRec s VB Name Type_ ElemSize DimCount).2.RecList.find?
        (fun r => r.Key == VB.Key) =
      some (CreateWriterRec s VB Name Type_ ElemSize DimCount).1 := by
  unfold LookupWriterRec at h
  by_cases hd : DimCount = 0 <;> simp [CreateWriterRec, hd, List.find?_append, h]

theorem afterLookup_lookup (s : BP5Serializer) (VB : VariableBase) (a : MarshalArgs) :
    (afterLookup s VB a).2.RecList.find? (fun r => r.Key == VB.Key) =
      some (afterLookup s VB a).1 := by
  unfold afterLookup
  cases h : LookupWriterRec s VB.Key with
  | some Rec => exact h
  | none => exact CreateWriterRec_lookup _ _ _ _ _ _ h

theorem afterLookup_of_lookup (s : BP5Serializer) (VB : VariableBase) (a : MarshalArgs)
    (Rec : BP5WriterRec) (h : LookupWriterRec s VB.Key = some Rec) :
    afterLookup s VB a = (Rec, s) := by
  unfold afterLookup
  rw [h]

theorem Marshal_frame (Init : DataType → MinMaxStruct) (stdTypes : MinMaxTypes)
    (s : BP5Serializer) (VB : VariableBase) (a : MarshalArgs) (buf : BufferV)
    (hV : VB.m_SingleValue = false) (hbuf : s.CurDataBuffer = some buf) :
    LookupWriterRec (Marshal Init stdTypes s VB a).1 VB.Key = some (writerRecOf s VB a) ∧
    (Marshal Init stdTypes s VB a).1.m_StatsLevel = s.m_StatsLevel ∧
    (Marshal Init stdTypes s VB a).1.BitField (writerRecOf s VB a).FieldID = true ∧
    (Marshal Init stdTypes s VB a).1.CurDataBuffer ≠ none := by
  obtain ⟨h1, h2, h3, h4, h5, h6⟩ := afterLookup_state s VB a
  have hl := afterLookup_lookup s VB a
  have ha : ({ a with DimCount := if VB.m_SingleValue = true then 0 else a.DimCount } :
      MarshalArgs) = a := by
    cases a
    simp [hV]
  obtain ⟨hB, _, _⟩ := Marshal_array Init stdTypes s VB a buf hV hbuf
  refine ⟨?_, ?_, ?_, by rw [hB]; simp⟩
  · simp only [Marshal, ha, hV, Bool.false_eq_true, if_false, marshalArray, h1, hbuf,
      recordBlock, LookupWriterRec, writerRecOf]
    exact hl
  · simp only [Marshal, ha, hV, Bool.false_eq_true, if_false, marshalArray, h1, hbuf,
      recordBlock, h4]
  · simp only [Marshal, ha, hV, Bool.false_eq_true, if_false, marshalArray, h1, hbuf,
      recordBlock, writerRecOf, BP5BitfieldSet, if_true]

theorem blockStats_length (Init : DataType → MinMaxStruct) (stdTypes : MinMaxTypes)
    (Rec : BP5WriterRec) (a : MarshalArgs) : (blockStats Init stdTypes Rec a).length = 2 := by
  unfold blockStats
  split <;> rfl

theorem Marshal_first_stats (Init : DataType → MinMaxStruct) (stdTypes : MinMaxTypes)
    (s : BP5Serializer) (VB : VariableBase) (a : MarshalArgs)
    (hV : VB.m_SingleValue = false) (hbuf : s.CurDataBuffer ≠ none)
    (hstats : s.m_StatsLevel > 0)
    (hbit : s.BitField (writerRecOf s VB a).FieldID = false) :
    StatsInv (Marshal Init stdTypes s VB a).1 VB (writerRecOf s VB a) a.DimCount 1
      (blockStats Init stdTypes (writerRecOf s VB a) a) := by
  obtain ⟨buf, hbuf⟩ := Option.ne_none_iff_exists'.mp hbuf
  obtain ⟨f1, f2, f3, f4⟩ := Marshal_frame Init stdTypes s VB a buf hV hbuf
  obtain ⟨_, _, hM⟩ := Marshal_array Init stdTypes s VB a buf hV hbuf
  refine ⟨f1, f3, f4, ?_, ?_, ?_, by rw [blockStats_length]⟩
  · rw [hM]
    simp [hbit, firstBlockEntry]
  · rw [hM]
    simp [hbit, firstBlockEntry]
  · rw [hM]
    simp only [hbit, Bool.false_eq_true, not_false_eq_true, if_true, firstBlockEntry, hstats,
      true_and, blockStats]
    split <;> rfl

theorem Marshal_next_stats (Init : DataType → MinMaxStruct) (stdTypes : MinMaxTypes)
    (s : BP5Serializer) (VB : VariableBase) (a : MarshalArgs) (Rec : BP5WriterRec)
    (D k : Nat) (mms : List Int)
    (hV : VB.m_SingleValue = false) (hstats : s.m_StatsLevel > 0) (hD : a.DimCount = D)
    (hinv : StatsInv s VB Rec D k mms) :
    StatsInv (Marshal Init stdTypes s VB a).1 VB Rec D (k + 1)
      (mms ++ blockStats Init stdTypes Rec a) := by
  obtain ⟨hl, hbit, hbuf, hdb, hbc, hmm, hlen⟩ := hinv
  obtain ⟨buf, hbuf⟩ := Option.ne_none_iff_exists'.mp hbuf
  have hR : writerRecOf s VB a = Rec := by
    rw [writerRecOf, afterLookup_of_lookup s VB a Rec hl]
  obtain ⟨f1, f2, f3, f4⟩ := Marshal_frame Init stdTypes s VB a buf hV hbuf
  obtain ⟨_, _, hM⟩ := Marshal_array Init stdTypes s VB a buf hV hbuf
  rw [hR] at f1 f3 hM
  refine ⟨f1, f3, f4, ?_, ?_, ?_, ?_⟩
  · rw [hM]
    simp only [hbit, not_true_eq_false, if_false, nextBlockEntry, hdb, hD]
    ring
  · rw [hM]
    simp [hbit, nextBlockEntry, hbc]
  · rw [hM]
    simp only [hbit, not_true_eq_false, if_false, nextBlockEntry, hstats, if_true, hmm,
      Option.getD_some, hbc, Nat.add_sub_cancel, true_and, blockStats]
    rw [← hlen, List.take_length]
    split <;> rfl
  · rw [List.length_append, blockStats_length, hlen]
    ring

theorem marshalAll_next_stats (Init : DataType → MinMaxStruct) (stdTypes : MinMaxTypes)
    (VB : VariableBase) (Rec : BP5WriterRec) (D : Nat) (hV : VB.m_SingleValue = false) :
    ∀ (puts : List MarshalArgs) (s : BP5Serializer) (k : Nat) (mms : List Int),
      s.m_StatsLevel > 0 → (∀ a ∈ puts, a.DimCount = D) → StatsInv s VB Rec D k mms →
      StatsInv (marshalAll Init stdTypes s VB puts) VB Rec D (k + puts.length)
        (mms ++ puts.flatMap (blockStats Init stdTypes Rec))
  | [], s, k, mms, _, _, h => by simpa [marshalAll] using h
  | a :: puts, s, k, mms, hstats, hD, h => by
    have h1 := Marshal_next_stats Init stdTypes s VB a Rec D k mms hV hstats
      (hD a (List.mem_cons_self a puts)) h
    obtain ⟨buf, hbuf⟩ := Option.ne_none_iff_exists'.mp h.2.2.1
    have hs : (Marshal Init stdTypes s VB a).1.m_StatsLevel > 0 := by
      rw [(Marshal_frame Init stdTypes s VB a buf hV hbuf).2.1]
      exact hstats
    have h2 := marshalAll_next_stats Init stdTypes VB Rec D hV puts _ (k + 1)
      (mms ++ blockStats Init stdTypes Rec a) hs
      (fun x hx => hD x (List.mem_cons_of_mem a hx)) h1
    have e : k + (a :: puts).length = k + 1 + puts.length := by
      simp only [List.length_cons]
      omega
    rw [e]
    simpa [marshalAll, List.flatMap_cons, List.append_assoc] using h2

theorem marshalAll_stats (Init : DataType → MinMaxStruct) (stdTypes : MinMaxTypes)
    (s : BP5Serializer) (VB : VariableBase) (a : MarshalArgs) (puts : List MarshalArgs)
    (D : Nat) (hV : VB.m_SingleValue = false) (hbuf : s.CurDataBuffer ≠ none)
    (hstats : s.m_StatsLevel > 0)
    (hbit : s.BitField (writerRecOf s VB a).FieldID = false)
    (hD : ∀ x ∈ a :: puts, x.DimCount = D) :
    StatsInv (marshalAll Init stdTypes s VB (a :: puts)) VB (writerRecOf s VB a) D
      (a :: puts).length ((a :: puts).flatMap (blockStats Init stdTypes (writerRecOf s VB a))) := by
  have h1 := Marshal_first_stats Init stdTypes s VB a hV hbuf hstats hbit
  rw [hD a (List.mem_cons_self a puts)] at h1
  obtain ⟨buf, hbuf'⟩ := Option.ne_none_iff_exists'.mp hbuf
  have hs : (Marshal Init stdTypes s VB a).1.m_StatsLevel > 0 := by
    rw [(Marshal_frame Init stdTypes s VB a buf hV hbuf').2.1]
    exact hstats
  have h2 := marshalAll_next_stats Init stdTypes VB (writerRecOf s VB a) D hV puts _ 1 _ hs
    (fun x hx => hD x (List.mem_cons_of_mem a hx)) h1
  have e : (a :: puts).length = 1 + puts.length := by
    simp only [List.length_cons]
    omega
  rw [e]
  simpa [marshalAll, List.flatMap_cons] using h2

theorem slots_of_pairs :
    ∀ (k : Nat) (mms : List Int), mms.length = 2 * k →
      (List.range k).flatMap (fun B => [mms.getD (2 * B) 0, mms.getD (2 * B + 1) 0]) = mms
  | 0, mms, h => by
    have : mms = [] := List.length_eq_zero.mp (by simpa using h)
    simp [this]
  | k + 1, mms, h => by
    match mms, h with
    | x :: y :: rest, h =>
      have hr : rest.length = 2 * k := by
        simp only [List.length_cons] at h
        omega
      have ih := slots_of_pairs k rest hr
      rw [List.range_succ_eq_map, List.flatMap_cons, List.flatMap_map]
      have e : ∀ B, ([(x :: y :: rest).getD (2 * (B + 1)) 0,
          (x :: y :: rest).getD (2 * (B + 1) + 1) 0] : List Int) =
          [rest.getD (2 * B) 0, rest.getD (2 * B + 1) 0] := by
        intro B
        have e1 : 2 * (B + 1) = 2 * B + 1 + 1 := by ring
        rw [e1]
        rfl
      simp only [Function.comp, Nat.succ_eq_add_one, e]
      rw [ih]
      rfl

theorem writerSlots_eq (VarRec : BP5VarRec) (m : MetaArrayRecOperator) (k : Nat)
    (mms : List Int) (hD : 0 < VarRec.DimCount) (hdb : m.DBCount = VarRec.DimCount * k)
    (hmm : m.MinMax = some mms) (hlen : mms.length = 2 * k) :
    writerSlots VarRec m = mms := by
  unfold writerSlots
  rw [if_pos (Nat.pos_iff_ne_zero.mp hD), hdb, Nat.mul_div_cancel_left _ hD, hmm]
  exact slots_of_pairs k mms hlen

theorem foldl_min_spec :
    ∀ (values : List Int) (m : Int),
      (values.foldl (fun m x => if x < m then x else m) m ≤ m ∧
        (∀ x ∈ values, values.foldl (fun m x => if x < m then x else m) m ≤ x)) ∧
      (values.foldl (fun m x => if x < m then x else m) m = m ∨
        values.foldl (fun m x => if x < m then x else m) m ∈ values)
  | [], m => by simp
  | x :: values, m => by
    rw [List.foldl_cons]
    by_cases hx : x < m
    · rw [if_pos hx]
      obtain ⟨⟨a, b⟩, c⟩ := foldl_min_spec values x
      refine ⟨⟨by omega, ?_⟩, ?_⟩
      · intro y hy
        rcases List.mem_cons.mp hy with rfl | hy
        · exact a
        · exact b y hy
      · rcases c with c | c
        · exact Or.inr (by rw [c]; exact List.mem_cons_self _ _)
        · exact Or.inr (List.mem_cons_of_mem _ c)
    · rw [if_neg hx]
      obtain ⟨⟨a, b⟩, c⟩ := foldl_min_spec values m
      refine ⟨⟨a, ?_⟩, ?_⟩
      · intro y hy
        rcases List.mem_cons.mp hy with rfl | hy
        · omega
        · exact b y hy
      · rcases c with c | c
        · exact Or.inl c
        · exact Or.inr (List.mem_cons_of_mem _ c)

theorem foldl_max_spec :
    ∀ (values : List Int) (m : Int),
      (m ≤ values.foldl (fun m x => if x < m then m else x) m ∧
        (∀ x ∈ values, x ≤ values.foldl (fun m x => if x < m then m else x) m)) ∧
      (values.foldl (fun m x => if x < m then m else x) m = m ∨
        values.foldl (fun m x => if x < m then m else x) m ∈ values)
  | [], m => by simp
  | x :: values, m => by
    rw [List.foldl_cons]
    by_cases hx : x < m
    · rw [if_pos hx]
      obtain ⟨⟨a, b⟩, c⟩ := foldl_max_spec values m
      refine ⟨⟨a, ?_⟩, ?_⟩
      · intro y hy
        rcases List.mem_cons.mp hy with rfl | hy
        · omega
        · exact b y hy
      · rcases c with c | c
        · exact Or.inl c
        · exact Or.inr (List.mem_cons_of_mem _ c)
    · rw [if_neg hx]
      obtain ⟨⟨a, b⟩, c⟩ := foldl_max_spec values x
      refine ⟨⟨by omega, ?_⟩, ?_⟩
      · intro y hy
        rcases List.mem_cons.mp hy with rfl | hy
        · exact a
        · exact b y hy
      · rcases c with c | c
        · exact Or.inr (by rw [c]; exact List.mem_cons_self _ _)
        · exact Or.inr (List.mem_cons_of_mem _ c)

theorem GetMinMax_spec (Init : DataType → MinMaxStruct) (stdTypes : MinMaxTypes)
    (Data : List Int) (ElemCount : Nat) (T : DataType) (hT : T.isInteger = true)
    (hstd : stdTypes T = true) (hne : Data.take ElemCount ≠ []) :
    (∀ e ∈ Data.take ElemCount,
      (GetMinMax Init stdTypes Data ElemCount T).MinUnion ≤ e ∧
        e ≤ (GetMinMax Init stdTypes Data ElemCount T).MaxUnion) ∧
    (GetMinMax Init stdTypes Data ElemCount T).MinUnion ∈ Data.take ElemCount ∧
    (GetMinMax Init stdTypes Data ElemCount T).MaxUnion ∈ Data.take ElemCount := by
  have h0 : ElemCount ≠ 0 := by
    intro h
    rw [h] at hne
    exact hne rfl
  have hs : T ≠ DataType.Struct := by
    intro h
    rw [h] at hT
    exact absurd hT (by decide)
  unfold GetMinMax
  simp only [h0, if_false, hs, hstd, if_true]
  cases hl : Data.take ElemCount with
  | nil => exact absurd hl hne
  | cons v values =>
    simp only []
    obtain ⟨⟨a1, a2⟩, a3⟩ := foldl_min_spec values v
    obtain ⟨⟨b1, b2⟩, b3⟩ := foldl_max_spec values v
    refine ⟨?_, ?_, ?_⟩
    · intro e he
      rcases List.mem_cons.mp he with rfl | he
      · exact ⟨a1, b1⟩
      · exact ⟨a2 e he, b2 e he⟩
    · rcases a3 with h | h
      · rw [h]; exact List.mem_cons_self _ _
      · exact List.mem_cons_of_mem _ h
    · rcases b3 with h | h
      · rw [h]; exact List.mem_cons_self _ _
      · exact List.mem_cons_of_mem _ h

/-! ### Writers and reader together -/

theorem WriterRun.entry_stats (Init : DataType → MinMaxStruct) (stdTypes : MinMaxTypes)
    (T : DataType) (D : Nat) (r : WriterRun) (hv : r.Valid T D) (a : MarshalArgs)
    (rest : List MarshalArgs) (hp : r.puts = a :: rest) :
    ∃ m, r.entry Init stdTypes = some m ∧ m.DBCount = D * r.puts.length ∧
      m.MinMax = some (r.puts.flatMap (blockStats Init stdTypes (writerRecOf r.s r.VB a))) ∧
      (r.puts.flatMap (blockStats Init stdTypes (writerRecOf r.s r.VB a))).length =
        2 * r.puts.length := by
  obtain ⟨h1, h2, h3, h4⟩ := hv
  have ha := h4 a (by rw [hp]; exact List.mem_cons_self _ _)
  have hinv := marshalAll_stats Init stdTypes r.s r.VB a rest D h3 h2 h1 ha.2.2.2
    (fun x hx => (h4 x (by rw [hp]; exact hx)).1)
  obtain ⟨_, _, _, hdb, _, hmm, hlen⟩ := hinv
  refine ⟨(marshalAll Init stdTypes r.s r.VB r.puts).MetaEntry
    (writerRecOf r.s r.VB a).MetaOffset, ?_, ?_, ?_, ?_⟩
  · rw [WriterRun.entry, hp]
  · rw [hp]; exact hdb
  · rw [hp]; exact hmm
  · rw [hp]; exact hlen

theorem stepSlots_of_run (Init : DataType → MinMaxStruct) (stdTypes : MinMaxTypes)
    (T : DataType) (D : Nat) (runs : List WriterRun) (d : Deserializer) (VarRec : BP5VarRec)
    (Step : Nat) (hD : 0 < D) (hdim : VarRec.DimCount = D)
    (hvalid : ∀ r ∈ runs, r.Valid T D) (hinst : Installed Init stdTypes runs d VarRec Step)
    (w : Nat) (r : WriterRun) (hw : runs.get? w = some r) (a : MarshalArgs)
    (rest : List MarshalArgs) (hp : r.puts = a :: rest) :
    ∃ m', d.GetMetadataBase VarRec Step w = some m' ∧ w < d.WriterCohortSize Step ∧
      writerSlots VarRec m' =
        r.puts.flatMap (blockStats Init stdTypes (writerRecOf r.s r.VB a)) := by
  have hwl : w < runs.length := by
    rcases Nat.lt_or_ge w runs.length with h | h
    · exact h
    · rw [List.get?_eq_none.mpr h] at hw
      cases hw
  have hr : r ∈ runs := List.get?_mem hw
  obtain ⟨m, hm, hdb, hmm, hlen⟩ :=
    WriterRun.entry_stats Init stdTypes T D r (hvalid r hr) a rest hp
  have h := hinst.2 w hwl
  rw [hw, Option.some_bind, hm, Option.map_some'] at h
  cases hm' : d.GetMetadataBase VarRec Step w with
  | none => rw [hm'] at h; cases h
  | some m' =>
    rw [hm', Option.map_some', Option.some.injEq, statsView, statsView, Prod.mk.injEq] at h
    refine ⟨m', rfl, by rw [hinst.1]; exact hwl, ?_⟩
    exact writerSlots_eq VarRec m' r.puts.length _ (by rw [hdim]; exact hD)
      (by rw [h.1, hdb, hdim]) (by rw [h.2, hmm]) hlen

theorem blockStats_eq_statsOf (Init : DataType → MinMaxStruct) (stdTypes : MinMaxTypes)
    (T : DataType) (Rec : BP5WriterRec) (a : MarshalArgs) (hR : Rec.Type_ = T)
    (ha : a.Type_ = T) : blockStats Init stdTypes Rec a = statsOf Init stdTypes T a := by
  unfold blockStats statsOf
  rw [hR, ha]
  by_cases h : a.Span = true <;> simp [h]

theorem flatMap_congr_mem {α β : Type} (f g : α → List β) :
    ∀ (l : List α), (∀ x ∈ l, f x = g x) → l.flatMap f = l.flatMap g
  | [], _ => rfl
  | x :: l, h => by
    rw [List.flatMap_cons, List.flatMap_cons, h x (List.mem_cons_self x l),
      flatMap_congr_mem f g l (fun y hy => h y (List.mem_cons_of_mem x hy))]

theorem flatMap_range_get {α β : Type} (F : α → List β) :
    ∀ (l : List α) (g : Nat → List β), (∀ w r, l.get? w = some r → g w = F r) →
      (List.range l.length).flatMap g = l.flatMap F
  | [], _, _ => rfl
  | x :: l, g, h => by
    rw [List.length_cons, List.range_succ_eq_map, List.flatMap_cons, List.flatMap_map,
      List.flatMap_cons, h 0 x rfl]
    congr 1
    exact flatMap_range_get F l (g ∘ Nat.succ) (fun w r hw => h (w + 1) r hw)

theorem stepSlots_of_runs (Init : DataType → MinMaxStruct) (stdTypes : MinMaxTypes)
    (T : DataType) (D : Nat) (runs : List WriterRun) (d : Deserializer) (VarRec : BP5VarRec)
    (Step : Nat) (hD : 0 < D) (hdim : VarRec.DimCount = D)
    (hvalid : ∀ r ∈ runs, r.Valid T D) (hinst : Installed Init stdTypes runs d VarRec Step) :
    stepSlots d VarRec Step =
      runs.flatMap (fun r => r.puts.flatMap (statsOf Init stdTypes T)) := by
  rw [stepSlots, hinst.1]
  apply flatMap_range_get
  intro w r hw
  have hr : r ∈ runs := List.get?_mem hw
  cases hq : r.puts with
  | nil =>
    have hwl : w < runs.length := by
      rcases Nat.lt_or_ge w runs.length with h | h
      · exact h
      · rw [List.get?_eq_none.mpr h] at hw
        cases hw
    have h := hinst.2 w hwl
    rw [hw, Option.some_bind, WriterRun.entry, hq] at h
    cases hm : d.GetMetadataBase VarRec Step w with
    | none => rfl
    | some m => rw [hm] at h; cases h
  | cons a0 rest =>
    obtain ⟨m', hm', _, hslots⟩ := stepSlots_of_run Init stdTypes T D runs d VarRec Step hD
      hdim hvalid hinst w r hw a0 rest hq
    rw [hm']
    simp only []
    rw [hslots, hq]
    apply flatMap_congr_mem
    intro a ha
    have h0 := (hvalid r hr).2.2.2 a0 (by rw [hq]; exact List.mem_cons_self _ _)
    have h1 := (hvalid r hr).2.2.2 a (by rw [hq]; exact ha)
    exact blockStats_eq_statsOf Init stdTypes T _ a h0.2.2.1 h1.2.1

theorem VariableMinMax_of_runs (Init : DataType → MinMaxStruct) (stdTypes : MinMaxTypes)
    (T : DataType) (D : Nat) (runs : List WriterRun) (d : Deserializer) (VarRec : BP5VarRec)
    (Step : Nat) (hD : 0 < D)
    (hshape : VarRec.OrigShapeID = ShapeID.LocalArray ∨ VarRec.OrigShapeID = ShapeID.GlobalArray)
    (hdim : VarRec.DimCount = D) (hty : VarRec.Type_ = T) (hmm : VarRec.MinMaxOffset ≠ none)
    (hstep : Step ≠ DefaultSizeT) (hvalid : ∀ r ∈ runs, r.Valid T D)
    (hinst : Installed Init stdTypes runs d VarRec Step) :
    VariableMinMax d Init VarRec Step =
      (runs.flatMap (fun r => r.puts.flatMap (statsOf Init stdTypes T))).foldl
        (fun mm e => ApplyElementMinMax mm T e) (Init T) := by
  rw [VariableMinMax_eq d Init VarRec Step hshape hmm hstep, hty,
    stepSlots_of_runs Init stdTypes T D runs d VarRec Step hD hdim hvalid hinst]

/-- Claim C8: with statistics enabled, for an array variable of an integer
element type and a step, the result of `VariableMinMax` is a lower and an upper
bound of every element that any writer put into any block of the variable on
that step. A block put as a span has the values of `MinMaxStruct::Init` as its
statistics, so its elements are taken to lie between them, which is the range
of the element type. -/
theorem VariableMinMax_bounds (Init : DataType → MinMaxStruct) (stdTypes : MinMaxTypes)
    (T : DataType) (D : Nat) (runs : List WriterRun) (d : Deserializer) (VarRec : BP5VarRec)
    (Step : Nat) (hT : T.isInteger = true) (hstd : stdTypes T = true) (hD : 0 < D)
    (hshape : VarRec.OrigShapeID = ShapeID.LocalArray ∨ VarRec.OrigShapeID = ShapeID.GlobalArray)
    (hdim : VarRec.DimCount = D) (hty : VarRec.Type_ = T) (hmm : VarRec.MinMaxOffset ≠ none)
    (hstep : Step ≠ DefaultSizeT) (hvalid : ∀ r ∈ runs, r.Valid T D)
    (hinst : Installed Init stdTypes runs d VarRec Step)
    (hspan : ∀ r ∈ runs, ∀ a ∈ r.puts, a.Span = true → ∀ e ∈ blockElements a,
      (Init T).MaxUnion ≤ e ∧ e ≤ (Init T).MinUnion) :
    ∀ r ∈ runs, ∀ a ∈ r.puts, ∀ e ∈ blockElements a,
      (VariableMinMax d Init VarRec Step).MinUnion ≤ e ∧
        e ≤ (VariableMinMax d Init VarRec Step).MaxUnion := by
  intro r hr a ha e he
  rw [VariableMinMax_eq d Init VarRec Step hshape hmm hstep, hty]
  obtain ⟨_, hcov, _⟩ := foldl_apply_bounds T hT (stepSlots d VarRec Step) (Init T)
  obtain ⟨w, hw⟩ := List.get?_of_mem hr
  obtain ⟨a0, rest, hp⟩ : ∃ a0 rest, r.puts = a0 :: rest := by
    cases hq : r.puts with
    | nil => rw [hq] at ha; cases ha
    | cons a0 rest => exact ⟨a0, rest, rfl⟩
  obtain ⟨m', hm', hwc, hslots⟩ := stepSlots_of_run Init stdTypes T D runs d VarRec Step hD hdim
    hvalid hinst w r hw a0 rest hp
  have hsub : ∀ v ∈ blockStats Init stdTypes (writerRecOf r.s r.VB a0) a,
      v ∈ stepSlots d VarRec Step := by
    intro v hv
    refine List.mem_flatMap.mpr ⟨w, List.mem_range.mpr hwc, ?_⟩
    rw [hm']
    simp only []
    rw [hslots]
    exact List.mem_flatMap.mpr ⟨a, ha, hv⟩
  have hRT : (writerRecOf r.s r.VB a0).Type_ = T :=
    ((hvalid r hr).2.2.2 a0 (by rw [hp]; exact List.mem_cons_self _ _)).2.2.1
  have haT : a.Type_ = T := ((hvalid r hr).2.2.2 a ha).2.1
  by_cases hsp : a.Span = true
  · have hb : blockStats Init stdTypes (writerRecOf r.s r.VB a0) a =
        [(Init T).MinUnion, (Init T).MaxUnion] := by
      simp [blockStats, hsp, haT]
    have h1 := hcov (Init T).MinUnion (hsub _ (by rw [hb]; simp))
    have h2 := hcov (Init T).MaxUnion (hsub _ (by rw [hb]; simp))
    have h3 := hspan r hr a ha hsp e he
    omega
  · have hb : blockStats Init stdTypes (writerRecOf r.s r.VB a0) a =
        [(GetMinMax Init stdTypes a.Data (CalcSize a.DimCount a.Count) T).MinUnion,
         (GetMinMax Init stdTypes a.Data (CalcSize a.DimCount a.Count) T).MaxUnion] := by
      simp [blockStats, hsp, hRT]
    have hne : a.Data.take (CalcSize a.DimCount a.Count) ≠ [] := by
      intro h
      rw [blockElements, h] at he
      cases he
    obtain ⟨g1, _, _⟩ := GetMinMax_spec Init stdTypes a.Data (CalcSize a.DimCount a.Count) T hT
      hstd hne
    have h1 := hcov (GetMinMax Init stdTypes a.Data (CalcSize a.DimCount a.Count) T).MinUnion
      (hsub _ (by rw [hb]; simp))
    have h2 := hcov (GetMinMax Init stdTypes a.Data (CalcSize a.DimCount a.Count) T).MaxUnion
      (hsub _ (by rw [hb]; simp))
    have h3 := g1 e he
    omega

theorem readerOf_installed (Init : DataType → MinMaxStruct) (stdTypes : MinMaxTypes)
    (runs : List WriterRun) (VarRec : BP5VarRec) (Step : Nat) :
    Installed Init stdTypes runs (readerOf Init stdTypes runs) VarRec Step :=
  ⟨rfl, fun _ _ => rfl⟩

theorem S3.run_valid (a : MarshalArgs) (hD : a.DimCount = 2) (hT : a.Type_ = DataType.Int32) :
    (⟨S3.writer, S3.variable, [a]⟩ : WriterRun).Valid DataType.Int32 2 := by
  refine ⟨Nat.succ_pos 0, by simp [S3.writer], rfl, ?_⟩
  intro b hb
  rw [List.mem_singleton] at hb
  subst hb
  refine ⟨hD, hT, ?_, rfl⟩
  simp [writerRecOf, afterLookup, LookupWriterRec, S3.writer, BP5Serializer.init,
    CreateWriterRec, S3.variable, hT, hD]

theorem S3.runs_valid : ∀ r ∈ S3.runs, r.Valid DataType.Int32 2 := by
  intro r hr
  simp only [S3.runs, List.mem_cons, List.mem_singleton, List.not_mem_nil, or_false] at hr
  rcases hr with rfl | rfl
  · exact S3.run_valid S3.put0 rfl rfl
  · exact S3.run_valid S3.put1 rfl rfl

/-- Witness of `VariableMinMax_bounds`: scenario S3, both rows put with data. -/
theorem VariableMinMax_bounds_witness :
    ((∀ r ∈ S3.runs, r.Valid DataType.Int32 2) ∧
      Installed S3.Init (fun _ => true) S3.runs (readerOf S3.Init (fun _ => true) S3.runs)
        S3.var 0) ∧
    ∀ r ∈ S3.runs, ∀ a ∈ r.puts, ∀ e ∈ blockElements a,
      (VariableMinMax (readerOf S3.Init (fun _ => true) S3.runs) S3.Init S3.var 0).MinUnion ≤ e ∧
        e ≤ (VariableMinMax (readerOf S3.Init (fun _ => true) S3.runs) S3.Init
          S3.var 0).MaxUnion :=
  ⟨⟨S3.runs_valid, readerOf_installed _ _ _ _ _⟩,
    VariableMinMax_bounds S3.Init (fun _ => true) DataType.Int32 2 S3.runs
      (readerOf S3.Init (fun _ => true) S3.runs) S3.var 0 rfl rfl (by decide) (Or.inr rfl) rfl
      rfl (by decide) (by decide) S3.runs_valid (readerOf_installed _ _ _ _ _)
      (by
        intro r hr a ha hsp
        simp only [S3.runs, List.mem_cons, List.mem_singleton, List.not_mem_nil, or_false] at hr
        rcases hr with rfl | rfl
        · rw [List.mem_singleton] at ha
          subst ha
          cases hsp
        · rw [List.mem_singleton] at ha
          subst ha
          cases hsp)⟩

theorem mem_statsOf_data (Init : DataType → MinMaxStruct) (stdTypes : MinMaxTypes)
    (T : DataType) (hT : T.isInteger = true) (hstd : stdTypes T = true) (a : MarshalArgs)
    (hsp : a.Span = false) (hne : blockElements a ≠ []) (v : Int)
    (hv : v ∈ statsOf Init stdTypes T a) : v ∈ blockElements a := by
  obtain ⟨_, g2, g3⟩ := GetMinMax_spec Init stdTypes a.Data (CalcSize a.DimCount a.Count) T hT
    hstd hne
  simp only [statsOf, hsp, Bool.false_eq_true, if_false, List.mem_cons, List.mem_singleton,
    List.not_mem_nil, or_false] at hv
  rcases hv with rfl | rfl
  · exact g2
  · exact g3

/-- Claim C9, amended: with statistics enabled, for an array variable of an
integer element type on a step on which every block was put with its data (not
as a span) and holds at least one element, and at least one block was put, the
minimum of `VariableMinMax` is an element that was put and is below or equal to
every element put, and the maximum is an element that was put and is above or
equal to every element put: they are the smallest and the largest of all
elements of all writers and blocks. `MinMaxStruct::Init` is taken to start the
minimum at or above and the maximum at or below every element. -/
theorem VariableMinMax_exact (Init : DataType → MinMaxStruct) (stdTypes : MinMaxTypes)
    (T : DataType) (D : Nat) (runs : List WriterRun) (d : Deserializer) (VarRec : BP5VarRec)
    (Step : Nat) (hT : T.isInteger = true) (hstd : stdTypes T = true) (hD : 0 < D)
    (hshape : VarRec.OrigShapeID = ShapeID.LocalArray ∨ VarRec.OrigShapeID = ShapeID.GlobalArray)
    (hdim : VarRec.DimCount = D) (hty : VarRec.Type_ = T) (hmm : VarRec.MinMaxOffset ≠ none)
    (hstep : Step ≠ DefaultSizeT) (hvalid : ∀ r ∈ runs, r.Valid T D)
    (hinst : Installed Init stdTypes runs d VarRec Step)
    (hdata : ∀ r ∈ runs, ∀ a ∈ r.puts, a.Span = false ∧ blockElements a ≠ [])
    (hrange : ∀ r ∈ runs, ∀ a ∈ r.puts, ∀ e ∈ blockElements a,
      (Init T).MaxUnion ≤ e ∧ e ≤ (Init T).MinUnion)
    (hsome : ∃ r ∈ runs, r.puts ≠ []) :
    (∀ r ∈ runs, ∀ a ∈ r.puts, ∀ e ∈ blockElements a,
      (VariableMinMax d Init VarRec Step).MinUnion ≤ e ∧
        e ≤ (VariableMinMax d Init VarRec Step).MaxUnion) ∧
    (∃ r ∈ runs, ∃ a ∈ r.puts, (VariableMinMax d Init VarRec Step).MinUnion ∈ blockElements a) ∧
    (∃ r ∈ runs, ∃ a ∈ r.puts,
      (VariableMinMax d Init VarRec Step).MaxUnion ∈ blockElements a) := by
  have hres := VariableMinMax_of_runs Init stdTypes T D runs d VarRec Step hD hshape hdim hty
    hmm hstep hvalid hinst
  obtain ⟨_, hcov, hmin, hmax⟩ := foldl_apply_bounds T hT
    (runs.flatMap (fun r => r.puts.flatMap (statsOf Init stdTypes T))) (Init T)
  rw [← hres] at hcov hmin hmax
  have hb : ∀ r ∈ runs, ∀ a ∈ r.puts, ∀ e ∈ blockElements a,
      (VariableMinMax d Init VarRec Step).MinUnion ≤ e ∧
        e ≤ (VariableMinMax d Init VarRec Step).MaxUnion := by
    intro r hr a ha e he
    obtain ⟨g1, _, _⟩ := GetMinMax_spec Init stdTypes a.Data (CalcSize a.DimCount a.Count) T hT
      hstd (hdata r hr a ha).2
    have hin : ∀ v ∈ statsOf Init stdTypes T a,
        v ∈ runs.flatMap (fun r => r.puts.flatMap (statsOf Init stdTypes T)) :=
      fun v hv => List.mem_flatMap.mpr ⟨r, hr, List.mem_flatMap.mpr ⟨a, ha, hv⟩⟩
    have h1 := hcov (GetMinMax Init stdTypes a.Data (CalcSize a.DimCount a.Count) T).MinUnion
      (hin _ (by simp [statsOf, (hdata r hr a ha).1]))
    have h2 := hcov (GetMinMax Init stdTypes a.Data (CalcSize a.DimCount a.Count) T).MaxUnion
      (hin _ (by simp [statsOf, (hdata r hr a ha).1]))
    have h3 := g1 e he
    omega
  have hslot : ∀ v ∈ runs.flatMap (fun r => r.puts.flatMap (statsOf Init stdTypes T)),
      ∃ r ∈ runs, ∃ a ∈ r.puts, v ∈ blockElements a := by
    intro v hv
    obtain ⟨r, hr, hv⟩ := List.mem_flatMap.mp hv
    obtain ⟨a, ha, hv⟩ := List.mem_flatMap.mp hv
    exact ⟨r, hr, a, ha, mem_statsOf_data Init stdTypes T hT hstd a (hdata r hr a ha).1
      (hdata r hr a ha).2 v hv⟩
  obtain ⟨r, hr, hp⟩ := hsome
  obtain ⟨a, ha⟩ := List.exists_mem_of_ne_nil _ hp
  obtain ⟨e, he⟩ := List.exists_mem_of_ne_nil _ (hdata r hr a ha).2
  have h1 := hb r hr a ha e he
  have h2 := hrange r hr a ha e he
  refine ⟨hb, ?_, ?_⟩
  · rcases hmin with h | h
    · have : e = (VariableMinMax d Init VarRec Step).MinUnion := by omega
      exact ⟨r, hr, a, ha, this ▸ he⟩
    · exact hslot _ h
  · rcases hmax with h | h
    · have : e = (VariableMinMax d Init VarRec Step).MaxUnion := by omega
      exact ⟨r, hr, a, ha, this ▸ he⟩
    · exact hslot _ h

theorem S3.spanRuns_valid (v : Int) : ∀ r ∈ S3.spanRuns v, r.Valid DataType.Int32 2 := by
  intro r hr
  rw [S3.spanRuns, List.mem_singleton] at hr
  subst hr
  exact S3.run_valid (S3.spanPut v) rfl rfl

theorem S3.emptyRuns_valid (a : MarshalArgs) (hD : a.DimCount = 2)
    (hT : a.Type_ = DataType.Int32) : ∀ r ∈ S3.emptyRuns a, r.Valid DataType.Int32 2 := by
  intro r hr
  simp only [S3.emptyRuns, List.mem_cons, List.mem_singleton, List.not_mem_nil, or_false] at hr
  rcases hr with rfl | rfl
  · exact S3.run_valid a hD hT
  · exact S3.run_valid S3.emptyPut rfl rfl

theorem S3.VariableMinMax_spanRuns (Init : DataType → MinMaxStruct) (v : Int) :
    VariableMinMax (readerOf Init (fun _ => true) (S3.spanRuns v)) Init S3.var 0 =
      [(Init DataType.Int32).MinUnion, (Init DataType.Int32).MaxUnion].foldl
        (fun mm e => ApplyElementMinMax mm DataType.Int32 e) (Init DataType.Int32) :=
  VariableMinMax_of_runs Init (fun _ => true) DataType.Int32 2 (S3.spanRuns v)
    (readerOf Init (fun _ => true) (S3.spanRuns v)) S3.var 0 (by decide) (Or.inr rfl) rfl rfl
    (by decide) (by decide) (S3.spanRuns_valid v) (readerOf_installed _ _ _ _ _)

theorem S3.VariableMinMax_emptyRuns (Init : DataType → MinMaxStruct) (a : MarshalArgs)
    (hD : a.DimCount = 2) (hT : a.Type_ = DataType.Int32) :
    VariableMinMax (readerOf Init (fun _ => true) (S3.emptyRuns a)) Init S3.var 0 =
      (statsOf Init (fun _ => true) DataType.Int32 a ++
        [(Init DataType.Int32).MinUnion, (Init DataType.Int32).MaxUnion]).foldl
        (fun mm e => ApplyElementMinMax mm DataType.Int32 e) (Init DataType.Int32) :=
  (VariableMinMax_of_runs Init (fun _ => true) DataType.Int32 2 (S3.emptyRuns a)
    (readerOf Init (fun _ => true) (S3.emptyRuns a)) S3.var 0 (by decide) (Or.inr rfl) rfl rfl
    (by decide) (by decide) (S3.emptyRuns_valid a hD hT) (readerOf_installed _ _ _ _ _)).trans
    (by simp [S3.emptyRuns, statsOf, S3.emptyPut, GetMinMax, CalcSize])

theorem S3.runs_data : ∀ r ∈ S3.runs, ∀ a ∈ r.puts,
    (a.Span = false ∧ blockElements a ≠ []) ∧
      ∀ e ∈ blockElements a, (S3.Init DataType.Int32).MaxUnion ≤ e ∧
        e ≤ (S3.Init DataType.Int32).MinUnion := by
  intro r hr a ha
  simp only [S3.runs, List.mem_cons, List.mem_singleton, List.not_mem_nil, or_false] at hr
  rcases hr with rfl | rfl
  · rw [List.mem_singleton] at ha
    subst ha
    exact ⟨⟨rfl, by decide⟩, by decide⟩
  · rw [List.mem_singleton] at ha
    subst ha
    exact ⟨⟨rfl, by decide⟩, by decide⟩

/-- Witness of `VariableMinMax_exact`: scenario S3, both rows put with data. -/
theorem VariableMinMax_exact_witness :
    ((∀ r ∈ S3.runs, r.Valid DataType.Int32 2) ∧
      Installed S3.Init (fun _ => true) S3.runs (readerOf S3.Init (fun _ => true) S3.runs)
        S3.var 0 ∧
      (∀ r ∈ S3.runs, ∀ a ∈ r.puts, a.Span = false ∧ blockElements a ≠ []) ∧
      ∃ r ∈ S3.runs, r.puts ≠ []) ∧
    (∀ r ∈ S3.runs, ∀ a ∈ r.puts, ∀ e ∈ blockElements a,
      (VariableMinMax (readerOf S3.Init (fun _ => true) S3.runs) S3.Init S3.var 0).MinUnion ≤ e ∧
        e ≤ (VariableMinMax (readerOf S3.Init (fun _ => true) S3.runs) S3.Init
          S3.var 0).MaxUnion) ∧
    (∃ r ∈ S3.runs, ∃ a ∈ r.puts,
      (VariableMinMax (readerOf S3.Init (fun _ => true) S3.runs) S3.Init S3.var 0).MinUnion ∈
        blockElements a) ∧
    (∃ r ∈ S3.runs, ∃ a ∈ r.puts,
      (VariableMinMax (readerOf S3.Init (fun _ => true) S3.runs) S3.Init S3.var 0).MaxUnion ∈
        blockElements a) :=
  ⟨⟨S3.runs_valid, readerOf_installed _ _ _ _ _, fun r hr a ha => (S3.runs_data r hr a ha).1,
      ⟨_, List.mem_cons_self _ _, List.cons_ne_nil _ _⟩⟩,
    VariableMinMax_exact S3.Init (fun _ => true) DataType.Int32 2 S3.runs
      (readerOf S3.Init (fun _ => true) S3.runs) S3.var 0 rfl rfl (by decide) (Or.inr rfl) rfl
      rfl (by decide) (by decide) S3.runs_valid (readerOf_installed _ _ _ _ _)
      (fun r hr a ha => (S3.runs_data r hr a ha).1)
      (fun r hr a ha => (S3.runs_data r hr a ha).2)
      ⟨_, List.mem_cons_self _ _, List.cons_ne_nil _ _⟩⟩

/-- Claim C9 fails as stated. In scenario S3 with statistics enabled, a writer
that puts one block as a span and stores 5 in it leaves the reader with the
result (-2147483648, 2147483647) and not (5, 5); a writer that puts the row
`0..7` next to a writer that puts a block without elements leaves the same
result and not (0, 7). Whatever `MinMaxStruct::Init` yields, the result for the
span does not depend on the value stored, and the result next to the block
without elements cannot be right both for the row `0..7` and for the row
`100..107`. -/
theorem VariableMinMax_not_exact :
    ((∀ r ∈ S3.spanRuns 5, r.Valid DataType.Int32 2) ∧ blockElements (S3.spanPut 5) = [5] ∧
      VariableMinMax (readerOf S3.Init (fun _ => true) (S3.spanRuns 5)) S3.Init S3.var 0 =
        ⟨-2147483648, 2147483647⟩) ∧
    ((∀ r ∈ S3.emptyRuns S3.put0, r.Valid DataType.Int32 2) ∧
      blockElements S3.put0 = [0, 1, 2, 3, 4, 5, 6, 7] ∧ blockElements S3.emptyPut = [] ∧
      VariableMinMax (readerOf S3.Init (fun _ => true) (S3.emptyRuns S3.put0)) S3.Init
        S3.var 0 = ⟨-2147483648, 2147483647⟩) ∧
    (∀ Init : DataType → MinMaxStruct,
      ¬ (VariableMinMax (readerOf Init (fun _ => true) (S3.spanRuns 5)) Init S3.var 0 = ⟨5, 5⟩ ∧
        VariableMinMax (readerOf Init (fun _ => true) (S3.spanRuns 6)) Init S3.var 0 =
          ⟨6, 6⟩)) ∧
    (∀ Init : DataType → MinMaxStruct,
      ¬ (VariableMinMax (readerOf Init (fun _ => true) (S3.emptyRuns S3.put0)) Init S3.var 0 =
          ⟨0, 7⟩ ∧
        VariableMinMax (readerOf Init (fun _ => true) (S3.emptyRuns S3.put1)) Init S3.var 0 =
          ⟨100, 107⟩)) := by
  refine ⟨⟨S3.spanRuns_valid 5, rfl, ?_⟩, ⟨S3.emptyRuns_valid S3.put0 rfl rfl, rfl, rfl, ?_⟩,
    ?_, ?_⟩
  · rw [S3.VariableMinMax_spanRuns]
    rfl
  · rw [S3.VariableMinMax_emptyRuns S3.Init S3.put0 rfl rfl]
    rfl
  · rintro Init ⟨h1, h2⟩
    rw [S3.VariableMinMax_spanRuns] at h1 h2
    rw [h1] at h2
    exact absurd (congrArg MinMaxStruct.MinUnion h2) (by decide)
  · rintro Init ⟨h1, h2⟩
    rw [S3.VariableMinMax_emptyRuns Init S3.put0 rfl rfl] at h1
    rw [S3.VariableMinMax_emptyRuns Init S3.put1 rfl rfl] at h2
    obtain ⟨_, c1, _⟩ := foldl_apply_bounds DataType.Int32 rfl
      (statsOf Init (fun _ => true) DataType.Int32 S3.put0 ++
        [(Init DataType.Int32).MinUnion, (Init DataType.Int32).MaxUnion]) (Init DataType.Int32)
    obtain ⟨_, c2, _⟩ := foldl_apply_bounds DataType.Int32 rfl
      (statsOf Init (fun _ => true) DataType.Int32 S3.put1 ++
        [(Init DataType.Int32).MinUnion, (Init DataType.Int32).MaxUnion]) (Init DataType.Int32)
    rw [h1] at c1
    rw [h2] at c2
    have a1 := c1 (Init DataType.Int32).MinUnion (by simp)
    have a2 := c2 (Init DataType.Int32).MinUnion (by simp)
    simp only at a1 a2
    omega

/-! ### Completing a Get: `QueueGetSingle`, the transport, `FinalizeGets` -/

theorem copyBytes_spec (src : Nat → Option Nat) :
    ∀ (plan : List (Nat × Nat)) (dst : List Nat),
      (∀ ij ∈ plan, (∃ v, src ij.1 = some v) ∧ ij.2 < dst.length) →
      (∀ ij ∈ plan, ∀ ij' ∈ plan, ij.2 = ij'.2 → src ij.1 = src ij'.1) →
      ∃ out, copyBytes src plan dst = some out ∧ out.length = dst.length ∧
        (∀ ij ∈ plan, out[ij.2]? = src ij.1) ∧
        (∀ j, (∀ ij ∈ plan, ij.2 ≠ j) → out[j]? = dst[j]?)
  | [], dst, _, _ => ⟨dst, rfl, rfl, fun _ h => absurd h (List.not_mem_nil _), fun _ _ => rfl⟩
  | (i, j) :: plan, dst, hok, hfun => by
    obtain ⟨⟨v, hv⟩, hj⟩ := hok (i, j) (List.mem_cons_self _ _)
    simp only at hv hj
    have hok' : ∀ ij ∈ plan, (∃ v, src ij.1 = some v) ∧ ij.2 < (dst.set j v).length := by
      intro ij hij
      rw [List.length_set]
      exact hok ij (List.mem_cons_of_mem _ hij)
    obtain ⟨out, h1, h2, h3, h4⟩ := copyBytes_spec src plan (dst.set j v) hok'
      (fun a ha b hb => hfun a (List.mem_cons_of_mem _ ha) b (List.mem_cons_of_mem _ hb))
    refine ⟨out, ?_, ?_, ?_, ?_⟩
    · simp only [copyBytes, hv, hj, if_true]
      exact h1
    · rw [h2, List.length_set]
    · intro ij hij
      rcases List.mem_cons.mp hij with rfl | hij
      · by_cases hex : ∃ ij' ∈ plan, ij'.2 = j
        · obtain ⟨ij', hij', e⟩ := hex
          have := h3 ij' hij'
          rw [e] at this
          rw [this]
          exact hfun ij' (List.mem_cons_of_mem _ hij') (i, j) (List.mem_cons_self _ _) e
        · have := h4 j (fun ij' hij' e => hex ⟨ij', hij', e⟩)
          simp only [this, hv]
          rw [List.getElem?_set_self hj]
      · exact h3 ij hij
    · intro j' hj'
      have hne : j ≠ j' := hj' (i, j) (List.mem_cons_self _ _)
      rw [h4 j' (fun ij hij => hj' ij (List.mem_cons_of_mem _ hij)), List.getElem?_set_ne hne]

theorem mem_boxPointsFrom (start count : List Nat) :
    ∀ (n d : Nat) (p : List Nat),
      p ∈ boxPointsFrom start count d n ↔
        p.length = n ∧ ∀ k, k < n → start.getD (d + k) 0 ≤ p.getD k 0 ∧
          p.getD k 0 < start.getD (d + k) 0 + count.getD (d + k) 0
  | 0, d, p => by
    simp only [boxPointsFrom, List.mem_singleton, List.length_eq_zero]
    constructor
    · intro h
      exact ⟨h, fun k hk => absurd hk (Nat.not_lt_zero k)⟩
    · exact fun h => h.1
  | n + 1, d, p => by
    simp only [boxPointsFrom, List.mem_flatMap, List.mem_range, List.mem_map]
    constructor
    · rintro ⟨i, hi, q, hq, rfl⟩
      obtain ⟨hl, hb⟩ := (mem_boxPointsFrom start count n (d + 1) q).mp hq
      refine ⟨by simp [hl], ?_⟩
      intro k hk
      cases k with
      | zero =>
        simp only [Nat.add_zero, List.getD_cons_zero]
        omega
      | succ k =>
        have := hb k (by omega)
        have e : d + (k + 1) = d + 1 + k := by omega
        rw [e]
        simpa using this
    · rintro ⟨hl, hb⟩
      cases p with
      | nil => simp at hl
      | cons x q =>
        have h0 := hb 0 (by omega)
        simp only [Nat.add_zero, List.getD_cons_zero] at h0
        refine ⟨x - start.getD d 0, by omega, q, ?_, ?_⟩
        · refine (mem_boxPointsFrom start count n (d + 1) q).mpr ⟨by simpa using hl, ?_⟩
          intro k hk
          have := hb (k + 1) (by omega)
          have e : d + (k + 1) = d + 1 + k := by omega
          rw [e] at this
          simpa using this
        · congr 1
          omega

theorem LinearIndex_succ (n : Nat) (c p : List Nat) :
    LinearIndex (n + 1) c p true = LinearIndex n c p true * c.getD n 0 + p.getD n 0 := by
  simp [LinearIndex, List.range_succ, List.foldl_append]

theorem LinearIndex_inj (c p q : List Nat) :
    ∀ (n : Nat), (∀ d, d < n → p.getD d 0 < c.getD d 0) →
      (∀ d, d < n → q.getD d 0 < c.getD d 0) →
      LinearIndex n c p true = LinearIndex n c q true →
      ∀ d, d < n → p.getD d 0 = q.getD d 0
  | 0, _, _, _ => fun d hd => absurd hd (Nat.not_lt_zero d)
  | n + 1, hp, hq, h => by
    rw [LinearIndex_succ, LinearIndex_succ] at h
    have hpn := hp n (Nat.lt_succ_self n)
    have hqn := hq n (Nat.lt_succ_self n)
    have hc : 0 < c.getD n 0 := by omega
    have e1 : LinearIndex n c p true = LinearIndex n c q true := by
      have := congrArg (fun x => x / c.getD n 0) h
      simp only at this
      rwa [Nat.mul_comm, Nat.mul_add_div hc, Nat.div_eq_of_lt hpn, Nat.mul_comm _ (c.getD n 0),
        Nat.mul_add_div hc, Nat.div_eq_of_lt hqn, Nat.add_zero, Nat.add_zero] at this
    have e2 : p.getD n 0 = q.getD n 0 := by
      rw [e1] at h
      omega
    have ih := LinearIndex_inj c p q n (fun d hd => hp d (by omega)) (fun d hd => hq d (by omega))
      e1
    intro d hd
    rcases Nat.lt_succ_iff_lt_or_eq.mp hd with h' | h'
    · exact ih d h'
    · rw [h']
      exact e2

theorem viewIndex_lt (r : Bool) (n d : Nat) (h : d < n) : viewIndex r n d < n := by
  unfold viewIndex
  split <;> omega

theorem viewIndex_viewIndex (r : Bool) (n d : Nat) (h : d < n) :
    viewIndex r n (viewIndex r n d) = d := by
  unfold viewIndex
  split
  · rfl
  · omega

theorem viewDims_length (r : Bool) (n : Nat) (t : List Nat) : (viewDims r n t).length = n := by
  unfold viewDims DimsArray
  split <;> simp

theorem getD_viewDims (r : Bool) (n : Nat) (t : List Nat) (d : Nat) (h : d < n) :
    (viewDims r n t).getD d 0 = t.getD (viewIndex r n d) 0 := by
  unfold viewDims viewIndex DimsArray
  cases r with
  | true =>
    simp only [Bool.not_eq_true, if_true, if_false]
    exact getD_map_range _ _ _ h
  | false =>
    have h1 : n - 1 - d < n := by omega
    simp only [Bool.false_eq_true, not_false_eq_true, if_true, if_false]
    rw [List.getD_eq_getElem?_getD, List.getElem?_reverse (by simpa using h)]
    simp only [List.length_map, List.length_range]
    rw [← List.getD_eq_getElem?_getD, getD_map_range _ _ _ h1]

theorem foldl_index_congr (c p c' p' : List Nat) (l : List Nat) (a : Nat)
    (h : ∀ d ∈ l, c.getD d 0 = c'.getD d 0 ∧ p.getD d 0 = p'.getD d 0) :
    l.foldl (fun offset d => offset * c.getD d 0 + p.getD d 0) a =
      l.foldl (fun offset d => offset * c'.getD d 0 + p'.getD d 0) a := by
  apply List.foldl_ext
  intro x d hd
  rw [(h d hd).1, (h d hd).2]

theorem reverse_range_eq (n : Nat) :
    (List.range n).reverse = (List.range n).map (fun d => n - 1 - d) := by
  rw [List.range_eq_range', List.reverse_range', ← List.range_eq_range']
  simp

theorem LinearIndex_view (n : Nat) (c p : List Nat) (r : Bool) :
    LinearIndex n (viewDims r n c) (viewDims r n p) true = LinearIndex n c p r := by
  cases r with
  | true =>
    simp only [LinearIndex, if_true]
    apply foldl_index_congr
    intro d hd
    have hd' := List.mem_range.mp hd
    rw [getD_viewDims _ _ _ _ hd', getD_viewDims _ _ _ _ hd']
    exact ⟨rfl, rfl⟩
  | false =>
    simp only [LinearIndex, if_true, Bool.false_eq_true, if_false]
    rw [reverse_range_eq, List.foldl_map]
    apply List.foldl_ext
    intro x d hd
    have hd' := List.mem_range.mp hd
    rw [getD_viewDims _ _ _ _ hd', getD_viewDims _ _ _ _ hd']
    rfl

theorem relPos_view (n : Nat) (s g : List Nat) (r : Bool) (d : Nat) (h : d < n) :
    (relPos n (viewDims r n s) (viewDims r n g)).getD d 0 =
      (viewDims r n (relPos n s g)).getD d 0 := by
  have h' := viewIndex_lt r n d h
  rw [getD_viewDims _ _ _ _ h]
  simp only [relPos]
  rw [getD_map_range _ _ _ h, getD_map_range _ _ _ h', getD_viewDims _ _ _ _ h,
    getD_viewDims _ _ _ _ h]

theorem InBox_view (n : Nat) (s c g : List Nat) (r : Bool) :
    InBox n (viewDims r n s) (viewDims r n c) (viewDims r n g) ↔ InBox n s c g := by
  constructor
  · intro h d hd
    have := h (viewIndex r n d) (viewIndex_lt r n d hd)
    rw [getD_viewDims _ _ _ _ (viewIndex_lt r n d hd),
      getD_viewDims _ _ _ _ (viewIndex_lt r n d hd),
      getD_viewDims _ _ _ _ (viewIndex_lt r n d hd), viewIndex_viewIndex r n d hd] at this
    exact this
  · intro h d hd
    rw [getD_viewDims _ _ _ _ hd, getD_viewDims _ _ _ _ hd, getD_viewDims _ _ _ _ hd]
    exact h _ (viewIndex_lt r n d hd)

theorem InBox_congr (n : Nat) (s c g g' : List Nat)
    (h : ∀ d, d < n → g.getD d 0 = g'.getD d 0) : InBox n s c g ↔ InBox n s c g' := by
  constructor
  · intro hg d hd
    rw [← h d hd]
    exact hg d hd
  · intro hg d hd
    rw [h d hd]
    exact hg d hd

theorem getD_view_view (r : Bool) (n : Nat) (p : List Nat) (d : Nat) (h : d < n) :
    (viewDims r n (viewDims r n p)).getD d 0 = p.getD d 0 := by
  rw [getD_viewDims _ _ _ _ h, getD_viewDims _ _ _ _ (viewIndex_lt r n d h),
    viewIndex_viewIndex r n d h]

theorem LinearIndex_relPos_view (n : Nat) (s c g : List Nat) (r : Bool) :
    LinearIndex n (viewDims r n c) (relPos n (viewDims r n s) (viewDims r n g)) true =
      LinearIndex n c (relPos n s g) r := by
  rw [← LinearIndex_view n c (relPos n s g) r]
  exact LinearIndex_congr n _ _ _ true (fun d hd => relPos_view n s g r d hd)

theorem relPos_congr (n : Nat) (s g g' : List Nat)
    (h : ∀ d, d < n → g.getD d 0 = g'.getD d 0) : relPos n s g = relPos n s g' := by
  unfold relPos
  apply List.map_congr_left
  intro d hd
  rw [h d (List.mem_range.mp hd)]

theorem LinearIndex_inj_of (n : Nat) (c p q : List Nat) (r : Bool)
    (hp : ∀ d, d < n → p.getD d 0 < c.getD d 0) (hq : ∀ d, d < n → q.getD d 0 < c.getD d 0)
    (h : LinearIndex n c p r = LinearIndex n c q r) : ∀ d, d < n → p.getD d 0 = q.getD d 0 := by
  rw [← LinearIndex_view n c p r, ← LinearIndex_view n c q r] at h
  have hv := LinearIndex_inj (viewDims r n c) (viewDims r n p) (viewDims r n q) n
    (fun d hd => by
      rw [getD_viewDims _ _ _ _ hd, getD_viewDims _ _ _ _ hd]
      exact hp _ (viewIndex_lt r n d hd))
    (fun d hd => by
      rw [getD_viewDims _ _ _ _ hd, getD_viewDims _ _ _ _ hd]
      exact hq _ (viewIndex_lt r n d hd)) h
  intro d hd
  have := hv (viewIndex r n d) (viewIndex_lt r n d hd)
  rwa [getD_viewDims _ _ _ _ (viewIndex_lt r n d hd),
    getD_viewDims _ _ _ _ (viewIndex_lt r n d hd), viewIndex_viewIndex r n d hd] at this

theorem mem_overlapPoints (n : Nat) (s1 c1 s2 c2 p : List Nat) :
    p ∈ boxPointsFrom (lowCorner n s1 s2)
        ((List.range n).map (fun d =>
          min (s1.getD d 0 + c1.getD d 0) (s2.getD d 0 + c2.getD d 0) -
            max (s1.getD d 0) (s2.getD d 0))) 0 n ↔
      p.length = n ∧ InBox n s1 c1 p ∧ InBox n s2 c2 p := by
  rw [mem_boxPointsFrom]
  constructor
  · rintro ⟨hl, hb⟩
    refine ⟨hl, ?_, ?_⟩ <;> intro d hd <;> have := hb d hd <;>
      rw [Nat.zero_add, lowCorner, getD_map_range _ _ _ hd, getD_map_range _ _ _ hd] at this <;>
      simp only [Nat.max_def, Nat.min_def] at this <;> split at this <;> split at this <;> omega
  · rintro ⟨hl, h1, h2⟩
    refine ⟨hl, ?_⟩
    intro d hd
    have a1 := h1 d hd
    have a2 := h2 d hd
    rw [Nat.zero_add, lowCorner, getD_map_range _ _ _ hd, getD_map_range _ _ _ hd]
    simp only [Nat.max_def, Nat.min_def]
    split <;> split <;> omega

theorem mem_NdCopyPlan_view (n : Nat) (s1 c1 s2 c2 : List Nat) (r : Bool) (ES : Nat)
    (ij : Nat × Nat) :
    ij ∈ NdCopyPlan n (viewDims r n s1) (viewDims r n c1) (viewDims r n s2) (viewDims r n c2)
        ES ↔
      ∃ g k, InBox n s1 c1 g ∧ InBox n s2 c2 g ∧ k < ES ∧
        ij = (ES * LinearIndex n c1 (relPos n s1 g) r + k,
              ES * LinearIndex n c2 (relPos n s2 g) r + k) := by
  simp only [NdCopyPlan, List.mem_flatMap, List.mem_map, List.mem_range, mem_overlapPoints]
  constructor
  · rintro ⟨p, ⟨hl, h1, h2⟩, k, hk, rfl⟩
    have hpp : ∀ d, d < n → (viewDims r n (viewDims r n p)).getD d 0 = p.getD d 0 :=
      fun d hd => getD_view_view r n p d hd
    refine ⟨viewDims r n p, k, ?_, ?_, hk, ?_⟩
    · exact (InBox_view n s1 c1 _ r).mp ((InBox_congr n _ _ _ _ hpp).mpr h1)
    · exact (InBox_view n s2 c2 _ r).mp ((InBox_congr n _ _ _ _ hpp).mpr h2)
    · rw [← LinearIndex_relPos_view n s1 c1 (viewDims r n p) r,
        ← LinearIndex_relPos_view n s2 c2 (viewDims r n p) r,
        relPos_congr n (viewDims r n s1) _ _ hpp, relPos_congr n (viewDims r n s2) _ _ hpp]
  · rintro ⟨g, k, h1, h2, hk, rfl⟩
    refine ⟨viewDims r n g, ⟨viewDims_length r n g, (InBox_view n s1 c1 g r).mpr h1,
      (InBox_view n s2 c2 g r).mpr h2⟩, k, hk, ?_⟩
    rw [LinearIndex_relPos_view, LinearIndex_relPos_view]

theorem relPos_lt (n : Nat) (s c g : List Nat) (h : InBox n s c g) (d : Nat) (hd : d < n) :
    (relPos n s g).getD d 0 < c.getD d 0 := by
  rw [relPos, getD_map_range _ _ _ hd]
  have := h d hd
  omega

theorem index_pair_inj (ES a b k k' : Nat) (hk : k < ES) (hk' : k' < ES)
    (h : ES * a + k = ES * b + k') : a = b ∧ k = k' := by
  have hES : 0 < ES := by omega
  have h1 := congrArg (fun x => x / ES) h
  simp only [Nat.mul_add_div hES, Nat.div_eq_of_lt hk, Nat.div_eq_of_lt hk', Nat.add_zero] at h1
  subst h1
  exact ⟨rfl, by omega⟩

theorem NdCopy_view (n : Nat) (src : Nat → Option Nat) (s1 c1 s2 c2 : List Nat) (r : Bool)
    (ES : Nat) (cur : List Nat) (hlen : cur.length = ES * CalcSize n c2)
    (hsrc : ∀ g, InBox n s1 c1 g → InBox n s2 c2 g → ∀ k, k < ES →
      ∃ v, src (ES * LinearIndex n c1 (relPos n s1 g) r + k) = some v) :
    ∃ out, NdCopy n src (viewDims r n s1) (viewDims r n c1) cur (viewDims r n s2)
        (viewDims r n c2) ES = some out ∧ out.length = cur.length ∧
      (∀ g, InBox n s1 c1 g → InBox n s2 c2 g → ∀ k, k < ES →
        out[ES * LinearIndex n c2 (relPos n s2 g) r + k]? =
          src (ES * LinearIndex n c1 (relPos n s1 g) r + k)) ∧
      (∀ j, (∀ g, InBox n s1 c1 g → InBox n s2 c2 g → ∀ k, k < ES →
        ES * LinearIndex n c2 (relPos n s2 g) r + k ≠ j) → out[j]? = cur[j]?) := by
  have hok : ∀ ij ∈ NdCopyPlan n (viewDims r n s1) (viewDims r n c1) (viewDims r n s2)
      (viewDims r n c2) ES, (∃ v, src ij.1 = some v) ∧ ij.2 < cur.length := by
    intro ij hij
    obtain ⟨g, k, h1, h2, hk, rfl⟩ := (mem_NdCopyPlan_view n s1 c1 s2 c2 r ES ij).mp hij
    refine ⟨hsrc g h1 h2 k hk, ?_⟩
    have hlt := LinearIndex_lt n c2 (relPos n s2 g) r (relPos_lt n s2 c2 g h2)
    rw [hlen]
    calc ES * LinearIndex n c2 (relPos n s2 g) r + k
        < ES * LinearIndex n c2 (relPos n s2 g) r + ES := by omega
      _ = ES * (LinearIndex n c2 (relPos n s2 g) r + 1) := by ring
      _ ≤ ES * CalcSize n c2 := Nat.mul_le_mul_left _ hlt
  have hfun : ∀ ij ∈ NdCopyPlan n (viewDims r n s1) (viewDims r n c1) (viewDims r n s2)
      (viewDims r n c2) ES, ∀ ij' ∈ NdCopyPlan n (viewDims r n s1) (viewDims r n c1)
      (viewDims r n s2) (viewDims r n c2) ES, ij.2 = ij'.2 → src ij.1 = src ij'.1 := by
    intro ij hij ij' hij' e
    obtain ⟨g, k, h1, h2, hk, rfl⟩ := (mem_NdCopyPlan_view n s1 c1 s2 c2 r ES ij).mp hij
    obtain ⟨g', k', h1', h2', hk', rfl⟩ := (mem_NdCopyPlan_view n s1 c1 s2 c2 r ES ij').mp hij'
    simp only at e
    obtain ⟨e1, e2⟩ := index_pair_inj ES _ _ k k' hk hk' e
    have e3 := LinearIndex_inj_of n c2 _ _ r (relPos_lt n s2 c2 g h2) (relPos_lt n s2 c2 g' h2')
      e1
    have e4 : ∀ d, d < n → g.getD d 0 = g'.getD d 0 := by
      intro d hd
      have := e3 d hd
      simp only [relPos, getD_map_range _ _ _ hd] at this
      have a := h2 d hd
      have b := h2' d hd
      omega
    simp only [relPos_congr n s1 g g' e4, e2]
  obtain ⟨out, h1, h2, h3, h4⟩ := copyBytes_spec src _ cur hok hfun
  refine ⟨out, h1, h2, ?_, ?_⟩
  · intro g hg1 hg2 k hk
    exact h3 _ ((mem_NdCopyPlan_view n s1 c1 s2 c2 r ES _).mpr ⟨g, k, hg1, hg2, hk, rfl⟩)
  · intro j hj
    apply h4
    intro ij hij
    obtain ⟨g, k, hg1, hg2, hk, rfl⟩ := (mem_NdCopyPlan_view n s1 c1 s2 c2 r ES ij).mp hij
    exact hj g hg1 hg2 k hk

theorem FinalizeGet_global (d : Deserializer) (Decompress : List Nat → Nat → Nat → List Nat)
    (Req : BP5ArrayRequest) (cur : List Nat) (Read : ReadRequest) (buf : List Nat)
    (m : MetaArrayRecOperator) (hG : Req.RequestType = RequestTypeEnum.Global)
    (hm : d.GetMetadataBase Req.VarRec Req.Step Read.WriterRank = some m)
    (hDims : m.Dims = Req.VarRec.DimCount) (hS : Req.Start.length ≠ 0)
    (hC : Req.Count.length ≠ 0) (hidx : Read.ReqIndex = 0)
    (hlen : cur.length = Req.VarRec.ElementSize * CalcSize Req.VarRec.DimCount Req.Count)
    (hsrc : ∀ g, InBox Req.VarRec.DimCount (blockStart m Req.VarRec.DimCount Read.BlockID)
        (blockCount m Req.VarRec.DimCount Read.BlockID) g →
      InBox Req.VarRec.DimCount Req.Start Req.Count g → ∀ k, k < Req.VarRec.ElementSize →
      ∃ v, VirtualIncomingData Decompress Req m Read buf
        (Req.VarRec.ElementSize *
          elemIndex m Req.VarRec.DimCount Read.BlockID d.m_ReaderIsRowMajor g + k) = some v) :
    ∃ out, FinalizeGet d Decompress [Req] [cur] Read buf = some [out] ∧
      out.length = cur.length ∧
      (∀ g, InBox Req.VarRec.DimCount (blockStart m Req.VarRec.DimCount Read.BlockID)
          (blockCount m Req.VarRec.DimCount Read.BlockID) g →
        InBox Req.VarRec.DimCount Req.Start Req.Count g → ∀ k, k < Req.VarRec.ElementSize →
        out[Req.VarRec.ElementSize * LinearIndex Req.VarRec.DimCount Req.Count
            (relPos Req.VarRec.DimCount Req.Start g) d.m_ReaderIsRowMajor + k]? =
          VirtualIncomingData Decompress Req m Read buf
            (Req.VarRec.ElementSize *
              elemIndex m Req.VarRec.DimCount Read.BlockID d.m_ReaderIsRowMajor g + k)) ∧
      (∀ j, (∀ g, InBox Req.VarRec.DimCount (blockStart m Req.VarRec.DimCount Read.BlockID)
          (blockCount m Req.VarRec.DimCount Read.BlockID) g →
        InBox Req.VarRec.DimCount Req.Start Req.Count g → ∀ k, k < Req.VarRec.ElementSize →
        Req.VarRec.ElementSize * LinearIndex Req.VarRec.DimCount Req.Count
          (relPos Req.VarRec.DimCount Req.Start g) d.m_ReaderIsRowMajor + k ≠ j) →
        out[j]? = cur[j]?) := by
  obtain ⟨out, h1, h2, h3, h4⟩ := NdCopy_view Req.VarRec.DimCount
    (VirtualIncomingData Decompress Req m Read buf)
    (blockStart m Req.VarRec.DimCount Read.BlockID)
    (blockCount m Req.VarRec.DimCount Read.BlockID) Req.Start Req.Count d.m_ReaderIsRowMajor
    Req.VarRec.ElementSize cur hlen hsrc
  refine ⟨out, ?_, h2, h3, h4⟩
  simp only [FinalizeGet, hidx, List.get?_cons_zero, hm, hG, hDims, hS, hC, ne_eq,
    not_false_eq_true, if_true, if_false, reduceCtorEq, or_self, and_false, Option.getD_some]
  rw [Nat.mul_comm Req.VarRec.DimCount Read.BlockID]
  simp only [blockStart, blockCount] at h1
  rw [h1]
  rfl

theorem fillRequests_eq (fetch : Nat → Nat → Nat) (Reads : List ReadRequest) :
    fillRequests fetch Reads = Reads.map (fun RR => (RR, filledBuffer fetch RR)) := rfl

theorem DestSize_eq (n b D ES : Nat) (C : List Nat) :
    (List.range n).foldl (fun DestSize dim => DestSize * C.getD (dim + b * D) 0) ES =
      ES * CalcSize n (C.drop (b * D)) := by
  rw [CalcSize_eq_prod]
  have h : ∀ (l : List Nat) (P : Nat),
      l.foldl (fun DestSize dim => DestSize * C.getD (dim + b * D) 0) P =
        P * (l.map (fun d => (C.drop (b * D)).getD d 0)).prod := by
    intro l
    induction l with
    | nil => intro P; simp
    | cons x l ih =>
      intro P
      rw [List.foldl_cons, ih, List.map_cons, List.prod_cons, getD_drop, Nat.mul_assoc,
        Nat.add_comm x]
  exact h _ _

theorem VirtualIncomingData_block (d : Deserializer)
    (Decompress : List Nat → Nat → Nat → List Nat) (fetch : Nat → Nat → Nat)
    (put : Nat → Nat → List Nat) (Req : BP5ArrayRequest) (w b : Nat)
    (m : MetaArrayRecOperator) (rr : ReadRequest)
    (hrr : rr ∈ globalBlockRequests d Req 0 w m b)
    (hES : Req.VarRec.ElementSize = Req.VarRec.TypeSize)
    (hDims : m.Dims = Req.VarRec.DimCount)
    (hlen : (put w b).length =
      Req.VarRec.ElementSize * CalcSize Req.VarRec.DimCount (blockCount m Req.VarRec.DimCount b))
    (hplain : Req.VarRec.Operator = none → ∀ j, j < (put w b).length →
      (put w b)[j]? = some (fetch w (m.DataBlockLocation.getD b 0 + j)))
    (hop : Req.VarRec.Operator ≠ none →
      Decompress ((List.range (m.DataBlockSize.getD b 0)).map (fun i =>
          fetch w (m.DataBlockLocation.getD b 0 + i))) (m.DataBlockSize.getD b 0)
        (put w b).length = put w b)
    (g : List Nat)
    (hg1 : InBox Req.VarRec.DimCount (blockStart m Req.VarRec.DimCount b)
      (blockCount m Req.VarRec.DimCount b) g)
    (hg2 : InBox Req.VarRec.DimCount Req.Start Req.Count g) (k : Nat)
    (hk : k < Req.VarRec.ElementSize) :
    Req.VarRec.ElementSize * elemIndex m Req.VarRec.DimCount b d.m_ReaderIsRowMajor g + k <
        (put w b).length ∧
      VirtualIncomingData Decompress Req m rr (filledBuffer fetch rr)
          (Req.VarRec.ElementSize * elemIndex m Req.VarRec.DimCount b d.m_ReaderIsRowMajor g + k) =
        (put w b)[Req.VarRec.ElementSize *
          elemIndex m Req.VarRec.DimCount b d.m_ReaderIsRowMajor g + k]? := by
  have hI : BoxesIntersect Req.VarRec.DimCount Req.Start Req.Count
      (blockStart m Req.VarRec.DimCount b) (blockCount m Req.VarRec.DimCount b) := ⟨g, hg2, hg1⟩
  have hlt := elemIndex_lt m Req.VarRec.DimCount b d.m_ReaderIsRowMajor g hg1
  have hin : Req.VarRec.ElementSize *
      elemIndex m Req.VarRec.DimCount b d.m_ReaderIsRowMajor g + k < (put w b).length := by
    rw [hlen]
    calc Req.VarRec.ElementSize * elemIndex m Req.VarRec.DimCount b d.m_ReaderIsRowMajor g + k
        < Req.VarRec.ElementSize *
            elemIndex m Req.VarRec.DimCount b d.m_ReaderIsRowMajor g +
            Req.VarRec.ElementSize := by omega
      _ = Req.VarRec.ElementSize *
            (elemIndex m Req.VarRec.DimCount b d.m_ReaderIsRowMajor g + 1) := by ring
      _ ≤ _ := Nat.mul_le_mul_left _ hlt
  refine ⟨hin, ?_⟩
  by_cases hO : Req.VarRec.Operator = none
  · rw [globalBlockRequests_plain d Req 0 w m b hO hI, List.mem_singleton] at hrr
    have hb := corners_bound _ _ _ _ _ g hg2 hg1
    have h1 := elemIndex_mono m Req.VarRec.DimCount b d.m_ReaderIsRowMajor _ g
      (fun k hk => (hb k hk).1)
    have h2 := elemIndex_mono m Req.VarRec.DimCount b d.m_ReaderIsRowMajor g _
      (fun k hk => (hb k hk).2)
    have h1' := Nat.mul_le_mul_left Req.VarRec.TypeSize h1
    have h2' := Nat.mul_le_mul_left Req.VarRec.TypeSize h2
    rw [hplain hO _ hin]
    subst hrr
    simp only [VirtualIncomingData, hO, ne_eq, not_true_eq_false, if_false, filledBuffer,
      List.get?_eq_getElem?, List.getElem?_map, hES]
    rw [hES] at hk
    rw [if_neg (by omega), List.getElem?_range (by rw [Nat.mul_add, Nat.mul_one]; omega)]
    simp only [Option.map_some', Option.some.injEq]
    congr 1
    omega
  · rw [globalBlockRequests_operator d Req 0 w m b hO hI, List.mem_singleton] at hrr
    subst hrr
    have hD := DestSize_eq Req.VarRec.DimCount b Req.VarRec.DimCount Req.VarRec.ElementSize
      (m.Count.getD [])
    simp only [VirtualIncomingData, hO, ne_eq, not_false_eq_true, if_true, filledBuffer,
      List.get?_eq_getElem?, hDims, hD]
    have := hop hO
    rw [hlen, blockCount] at this
    rw [this]

theorem positions_disjoint (d : Deserializer) (Req : BP5ArrayRequest)
    (hdisj : BlocksDisjoint d Req.VarRec Req.Step) (w b w' b' : Nat)
    (m m' : MetaArrayRecOperator) (hb : HasBlock d Req.VarRec Req.Step w m b)
    (hb' : HasBlock d Req.VarRec Req.Step w' m' b') (hne : w ≠ w' ∨ b ≠ b') (g g' : List Nat)
    (hg1 : InBox Req.VarRec.DimCount (blockStart m Req.VarRec.DimCount b)
      (blockCount m Req.VarRec.DimCount b) g)
    (hg2 : InBox Req.VarRec.DimCount Req.Start Req.Count g)
    (hg1' : InBox Req.VarRec.DimCount (blockStart m' Req.VarRec.DimCount b')
      (blockCount m' Req.VarRec.DimCount b') g')
    (hg2' : InBox Req.VarRec.DimCount Req.Start Req.Count g') (r : Bool) (ES k k' : Nat)
    (hk : k < ES) (hk' : k' < ES) :
    ES * LinearIndex Req.VarRec.DimCount Req.Count (relPos Req.VarRec.DimCount Req.Start g) r + k ≠
      ES * LinearIndex Req.VarRec.DimCount Req.Count
        (relPos Req.VarRec.DimCount Req.Start g') r + k' := by
  intro e
  obtain ⟨e1, _⟩ := index_pair_inj ES _ _ k k' hk hk' e
  have e3 := LinearIndex_inj_of Req.VarRec.DimCount Req.Count _ _ r
    (relPos_lt _ _ _ g hg2) (relPos_lt _ _ _ g' hg2') e1
  have e4 : ∀ x, x < Req.VarRec.DimCount → g.getD x 0 = g'.getD x 0 := by
    intro x hx
    have := e3 x hx
    simp only [relPos, getD_map_range _ _ _ hx] at this
    have a := hg2 x hx
    have b := hg2' x hx
    omega
  exact hdisj w m b w' m' b' hb hb' hne
    ⟨g, hg1, (InBox_congr _ _ _ g g' e4).mpr hg1'⟩

theorem FinalizeGets_global (d : Deserializer) (Decompress : List Nat → Nat → Nat → List Nat)
    (fetch : Nat → Nat → Nat) (put : Nat → Nat → List Nat) (Req : BP5ArrayRequest)
    (hG : Req.RequestType = RequestTypeEnum.Global) (hS : Req.Start.length ≠ 0)
    (hC : Req.Count.length ≠ 0) (hES : Req.VarRec.ElementSize = Req.VarRec.TypeSize)
    (hput : HoldsPut d Decompress fetch put Req.VarRec Req.Step)
    (hdisj : BlocksDisjoint d Req.VarRec Req.Step) :
    ∀ (L : List ReadRequest) (cur : List Nat),
      cur.length = Req.VarRec.ElementSize * CalcSize Req.VarRec.DimCount Req.Count →
      L.Pairwise rankBlockLt → (∀ rr ∈ L, rr ∈ globalRequests d Req 0) →
      ∃ out, FinalizeGets d Decompress [Req] (fillRequests fetch L) [cur] = some [out] ∧
        out.length = cur.length ∧
        (∀ rr ∈ L, ∀ m, d.GetMetadataBase Req.VarRec Req.Step rr.WriterRank = some m →
          ∀ g, InBox Req.VarRec.DimCount (blockStart m Req.VarRec.DimCount rr.BlockID)
            (blockCount m Req.VarRec.DimCount rr.BlockID) g →
          InBox Req.VarRec.DimCount Req.Start Req.Count g →
          ∀ k, k < Req.VarRec.ElementSize →
          out[Req.VarRec.ElementSize * LinearIndex Req.VarRec.DimCount Req.Count
              (relPos Req.VarRec.DimCount Req.Start g) d.m_ReaderIsRowMajor + k]? =
            (put rr.WriterRank rr.BlockID)[Req.VarRec.ElementSize *
              elemIndex m Req.VarRec.DimCount rr.BlockID d.m_ReaderIsRowMajor g + k]?) ∧
        (∀ j, (∀ rr ∈ L, ∀ m, d.GetMetadataBase Req.VarRec Req.Step rr.WriterRank = some m →
          ∀ g, InBox Req.VarRec.DimCount (blockStart m Req.VarRec.DimCount rr.BlockID)
            (blockCount m Req.VarRec.DimCount rr.BlockID) g →
          InBox Req.VarRec.DimCount Req.Start Req.Count g →
          ∀ k, k < Req.VarRec.ElementSize →
          Req.VarRec.ElementSize * LinearIndex Req.VarRec.DimCount Req.Count
            (relPos Req.VarRec.DimCount Req.Start g) d.m_ReaderIsRowMajor + k ≠ j) →
          out[j]? = cur[j]?)
  | [], cur, _, _, _ =>
    ⟨cur, rfl, rfl, fun _ h => absurd h (List.not_mem_nil _), fun _ _ => rfl⟩
  | rr :: L, cur, hlen, hpw, hmem => by
    obtain ⟨m, hw, hm, hb, hrr⟩ := mem_globalRequests.mp (hmem rr (List.mem_cons_self _ _))
    obtain ⟨hidx, _, _, _, _⟩ := mem_globalBlockRequests hrr
    have hblk : HasBlock d Req.VarRec Req.Step rr.WriterRank m rr.BlockID := ⟨hw, hm, hb⟩
    obtain ⟨hD, hl, hplain, hop⟩ := hput rr.WriterRank m rr.BlockID hblk
    have hv := VirtualIncomingData_block d Decompress fetch put Req rr.WriterRank rr.BlockID m rr
      hrr hES hD hl hplain hop
    obtain ⟨out1, f1, f2, f3, f4⟩ := FinalizeGet_global d Decompress Req cur rr
      (filledBuffer fetch rr) m hG hm hD hS hC hidx hlen
      (fun g hg1 hg2 k hk => by
        obtain ⟨a, b⟩ := hv g hg1 hg2 k hk
        rw [b]
        exact ⟨_, List.getElem?_eq_getElem a⟩)
    obtain ⟨out, i1, i2, i3, i4⟩ := FinalizeGets_global d Decompress fetch put Req hG hS hC hES
      hput hdisj L out1 (f2.trans hlen) (List.Pairwise.of_cons hpw)
      (fun x hx => hmem x (List.mem_cons_of_mem _ hx))
    refine ⟨out, ?_, i2.trans f2, ?_, ?_⟩
    · rw [fillRequests_eq, List.map_cons]
      simp only [FinalizeGets, f1]
      rw [← fillRequests_eq]
      exact i1
    · intro x hx m' hm' g hg1 hg2 k hk
      rcases List.mem_cons.mp hx with rfl | hx
      · have e : m' = m := Option.some.inj (hm'.symm.trans hm)
        subst e
        rw [i4, f3 g hg1 hg2 k hk, (hv g hg1 hg2 k hk).2]
        intro y hy my hmy g' hg1' hg2' k' hk'
        obtain ⟨my', hwy, hmy', hby, _⟩ := mem_globalRequests.mp
          (hmem y (List.mem_cons_of_mem _ hy))
        have e : my' = my := Option.some.inj (hmy'.symm.trans hmy)
        subst e
        have hlt := List.rel_of_pairwise_cons hpw hy
        have hne : y.WriterRank ≠ x.WriterRank ∨ y.BlockID ≠ x.BlockID := by
          rcases hlt with h | ⟨h, h'⟩
          · exact Or.inl (by omega)
          · exact Or.inr (by omega)
        exact positions_disjoint d Req hdisj _ _ _ _ _ _ ⟨hwy, hmy, hby⟩ hblk hne g' g hg1' hg2'
          hg1 hg2 _ _ k' k hk' hk
      · exact i3 x hx m' hm' g hg1 hg2 k hk
    · intro j hj
      rw [i4 j (fun x hx => hj x (List.mem_cons_of_mem _ hx)),
        f4 j (hj rr (List.mem_cons_self _ _) m hm)]

theorem GenerateReadRequests_single (d : Deserializer) (Req : BP5ArrayRequest)
    (hG : Req.RequestType = RequestTypeEnum.Global) :
    GenerateReadRequests d [Req] = globalRequests d Req 0 := by
  simp [GenerateReadRequests, requestsFor, hG, List.range_succ]

/-- Claim C5: a Get of a bounding box of a global array on a step
(`QueueGetSingle` from an empty queue, `GenerateReadRequests`, the transport
filling every request with the requested bytes of the writer's data,
`FinalizeGets`), the blocks of the step having no point in common and the data
of the writers holding what they put. The Get succeeds and leaves the
destination with its length; for every block and every point `g` of the block
inside the requested box, the element of the destination at the place of `g`
in the box (`LinearIndex` of `g - Start` by `Count`, in the reader's order) is,
byte for byte, the element that the writer put at the place of `g` in its
block; a byte of the destination at no such place is unchanged. With blocks
that tile the shape and the entire shape requested, every element of the
destination is thus the element put at its global coordinates. -/
theorem performGet_global (d : Deserializer) (Decompress : List Nat → Nat → Nat → List Nat)
    (fetch : Nat → Nat → Nat) (put : Nat → Nat → List Nat) (variable_ : GetVariable)
    (VarRec : BP5VarRec) (Step : Nat) (DestData : List Nat)
    (hshape : variable_.m_ShapeID = ShapeID.GlobalArray)
    (hsel : variable_.m_SelectionType = SelectionType.BoundingBox)
    (hS : variable_.m_Start.length ≠ 0) (hC : variable_.m_Count.length ≠ 0)
    (hO : VarRec.OrigShapeID = ShapeID.GlobalArray)
    (hES : VarRec.ElementSize = VarRec.TypeSize)
    (hput : HoldsPut d Decompress fetch put VarRec Step)
    (hdisj : BlocksDisjoint d VarRec Step)
    (hlen : DestData.length =
      VarRec.ElementSize * CalcSize VarRec.DimCount variable_.m_Count) :
    ∃ out, performGet d Decompress fetch variable_ VarRec Step DestData = some out ∧
      out.length = DestData.length ∧
      (∀ w m b, HasBlock d VarRec Step w m b →
        ∀ g, InBox VarRec.DimCount (blockStart m VarRec.DimCount b)
          (blockCount m VarRec.DimCount b) g →
        InBox VarRec.DimCount variable_.m_Start variable_.m_Count g →
        ∀ k, k < VarRec.ElementSize →
        VarRec.ElementSize * elemIndex m VarRec.DimCount b d.m_ReaderIsRowMajor g + k <
            (put w b).length ∧
          out[VarRec.ElementSize * LinearIndex VarRec.DimCount variable_.m_Count
              (relPos VarRec.DimCount variable_.m_Start g) d.m_ReaderIsRowMajor + k]? =
            (put w b)[VarRec.ElementSize *
              elemIndex m VarRec.DimCount b d.m_ReaderIsRowMajor g + k]?) ∧
      (∀ j, (∀ w m b, HasBlock d VarRec Step w m b →
          ∀ g, InBox VarRec.DimCount (blockStart m VarRec.DimCount b)
            (blockCount m VarRec.DimCount b) g →
          InBox VarRec.DimCount variable_.m_Start variable_.m_Count g →
          ∀ k, k < VarRec.ElementSize →
          VarRec.ElementSize * LinearIndex VarRec.DimCount variable_.m_Count
            (relPos VarRec.DimCount variable_.m_Start g) d.m_ReaderIsRowMajor + k ≠ j) →
        out[j]? = DestData[j]?) := by
  have hQ : QueueGetSingle [] variable_ VarRec Step =
      [{ VarRec := VarRec, RequestType := RequestTypeEnum.Global,
         BlockID := variable_.m_BlockID, Count := variable_.m_Count,
         Start := variable_.m_Start, Step := Step }] := by
    simp [QueueGetSingle, hO, hsel, hshape]
  obtain ⟨out, i1, i2, i3, i4⟩ := FinalizeGets_global d Decompress fetch put
    { VarRec := VarRec, RequestType := RequestTypeEnum.Global, BlockID := variable_.m_BlockID,
      Count := variable_.m_Count, Start := variable_.m_Start, Step := Step }
    rfl hS hC hES hput hdisj _ DestData hlen (globalRequests_pairwise d _ 0) (fun _ h => h)
  simp only at i3 i4
  refine ⟨out, ?_, i2, ?_, ?_⟩
  · simp only [performGet, hQ]
    rw [GenerateReadRequests_single d _ rfl, i1]
    rfl
  · intro w m b hblk g hg1 hg2 k hk
    obtain ⟨hw, hm, hb⟩ := hblk
    obtain ⟨_, hl, _, _⟩ := hput w m b ⟨hw, hm, hb⟩
    have hin : VarRec.ElementSize * elemIndex m VarRec.DimCount b d.m_ReaderIsRowMajor g + k <
        (put w b).length := by
      have hlt := elemIndex_lt m VarRec.DimCount b d.m_ReaderIsRowMajor g hg1
      rw [hl]
      calc VarRec.ElementSize * elemIndex m VarRec.DimCount b d.m_ReaderIsRowMajor g + k
          < VarRec.ElementSize * elemIndex m VarRec.DimCount b d.m_ReaderIsRowMajor g +
              VarRec.ElementSize := by omega
        _ = VarRec.ElementSize *
              (elemIndex m VarRec.DimCount b d.m_ReaderIsRowMajor g + 1) := by ring
        _ ≤ _ := Nat.mul_le_mul_left _ hlt
    refine ⟨hin, ?_⟩
    obtain ⟨rr, hrr⟩ := globalBlockRequests_singleton d
      { VarRec := VarRec, RequestType := RequestTypeEnum.Global, BlockID := variable_.m_BlockID,
        Count := variable_.m_Count, Start := variable_.m_Start, Step := Step } 0 w m b
      ⟨g, hg2, hg1⟩
    have hmem : rr ∈ globalBlockRequests d
        { VarRec := VarRec, RequestType := RequestTypeEnum.Global,
          BlockID := variable_.m_BlockID, Count := variable_.m_Count,
          Start := variable_.m_Start, Step := Step } 0 w m b := by
      rw [hrr]
      exact List.mem_singleton_self rr
    obtain ⟨_, e1, e2, _⟩ := mem_globalBlockRequests hmem
    have hin' : rr ∈ globalRequests d
        { VarRec := VarRec, RequestType := RequestTypeEnum.Global,
          BlockID := variable_.m_BlockID, Count := variable_.m_Count,
          Start := variable_.m_Start, Step := Step } 0 := by
      refine mem_globalRequests.mpr ⟨m, ?_, ?_, ?_, ?_⟩
      · rw [e1]; exact hw
      · rw [e1]; exact hm
      · rw [e2]; exact hb
      · rw [e1, e2]; exact hmem
    have := i3 rr hin' m (by rw [e1]; exact hm) g (by rw [e2]; exact hg1) hg2 k hk
    rw [e1, e2] at this
    exact this
  · intro j hj
    apply i4
    intro rr hrr m hm g hg1 hg2 k hk
    obtain ⟨m', hw, hm', hb, _⟩ := mem_globalRequests.mp hrr
    have e : m' = m := Option.some.inj (hm'.symm.trans hm)
    subst e
    exact hj rr.WriterRank m' rr.BlockID ⟨hw, hm', hb⟩ g hg1 hg2 k hk

theorem S3.hasBlock (w b : Nat) (m : MetaArrayRecOperator)
    (h : HasBlock S3.reader S3.var 0 w m b) :
    b = 0 ∧ ((w = 0 ∧ m = S3.meta0) ∨ (w = 1 ∧ m = S3.meta1)) := by
  obtain ⟨hw, hm, hb⟩ := h
  have hw' : w < 2 := hw
  have hcases : w = 0 ∨ w = 1 := by omega
  rcases hcases with rfl | rfl
  · have e : S3.meta0 = m := Option.some.inj hm
    subst e
    exact ⟨Nat.lt_one_iff.mp hb, Or.inl ⟨rfl, rfl⟩⟩
  · have e : S3.meta1 = m := Option.some.inj hm
    subst e
    exact ⟨Nat.lt_one_iff.mp hb, Or.inr ⟨rfl, rfl⟩⟩

theorem S3.holdsPut :
    HoldsPut S3.reader (fun _ _ _ => []) S3.fetch S3.put S3.var 0 := by
  intro w m b h
  obtain ⟨hb, hc⟩ := S3.hasBlock w b m h
  have hget : ∀ w j, j < (S3.put w 0).length → (S3.put w 0)[j]? = some (S3.fetch w (0 + j)) := by
    intro w j hj
    have hj' : j < 32 := by simpa [S3.put] using hj
    simp [S3.put, List.getElem?_range hj']
  rcases hc with ⟨hw, hm⟩ | ⟨hw, hm⟩
  · rw [hb, hw, hm]
    exact ⟨rfl, rfl, fun _ => hget 0, fun hne => absurd rfl hne⟩
  · rw [hb, hw, hm]
    exact ⟨rfl, rfl, fun _ => hget 1, fun hne => absurd rfl hne⟩

theorem S3.blocksDisjoint : BlocksDisjoint S3.reader S3.var 0 := by
  intro w m b w' m' b' h h' hne hI
  obtain ⟨hb, hc⟩ := S3.hasBlock w b m h
  obtain ⟨hb', hc'⟩ := S3.hasBlock w' b' m' h'
  have h0 := (boxesIntersect_iff _ _ _ _ _).mp hI 0 (by decide)
  rcases hc with ⟨hw, hm⟩ | ⟨hw, hm⟩ <;> rcases hc' with ⟨hw', hm'⟩ | ⟨hw', hm'⟩
  · rw [hb, hb', hw, hw'] at hne
    simp at hne
  · rw [hb, hb', hm, hm'] at h0
    simp [blockStart, blockCount, S3.meta0, S3.meta1, S3.var] at h0
  · rw [hb, hb', hm, hm'] at h0
    simp [blockStart, blockCount, S3.meta0, S3.meta1, S3.var] at h0
  · rw [hb, hb', hw, hw'] at hne
    simp at hne

/-- Witness of `performGet_global`: scenario S3. The writers own the rows
`0..7` and `100..107` of a `{2,8}` array; the Get of start `{0,3}`, count
`{2,3}` yields the elements 3, 4, 5, 103, 104, 105. -/
theorem performGet_global_witness :
    (HoldsPut S3.reader (fun _ _ _ => []) S3.fetch S3.put S3.var 0 ∧
      BlocksDisjoint S3.reader S3.var 0) ∧
    performGet S3.reader (fun _ _ _ => []) S3.fetch S3.getVariable S3.var 0
        (List.replicate 24 0) =
      some [3, 0, 0, 0, 4, 0, 0, 0, 5, 0, 0, 0, 103, 0, 0, 0, 104, 0, 0, 0, 105, 0, 0, 0] ∧
    ∃ out, performGet S3.reader (fun _ _ _ => []) S3.fetch S3.getVariable S3.var 0
        (List.replicate 24 0) = some out ∧
      out.length = (List.replicate 24 0).length ∧
      (∀ w m b, HasBlock S3.reader S3.var 0 w m b →
        ∀ g, InBox S3.var.DimCount (blockStart m S3.var.DimCount b)
          (blockCount m S3.var.DimCount b) g →
        InBox S3.var.DimCount S3.getVariable.m_Start S3.getVariable.m_Count g →
        ∀ k, k < S3.var.ElementSize →
        S3.var.ElementSize * elemIndex m S3.var.DimCount b S3.reader.m_ReaderIsRowMajor g + k <
            (S3.put w b).length ∧
          out[S3.var.ElementSize * LinearIndex S3.var.DimCount S3.getVariable.m_Count
              (relPos S3.var.DimCount S3.getVariable.m_Start g)
              S3.reader.m_ReaderIsRowMajor + k]? =
            (S3.put w b)[S3.var.ElementSize *
              elemIndex m S3.var.DimCount b S3.reader.m_ReaderIsRowMajor g + k]?) ∧
      (∀ j, (∀ w m b, HasBlock S3.reader S3.var 0 w m b →
          ∀ g, InBox S3.var.DimCount (blockStart m S3.var.DimCount b)
            (blockCount m S3.var.DimCount b) g →
          InBox S3.var.DimCount S3.getVariable.m_Start S3.getVariable.m_Count g →
          ∀ k, k < S3.var.ElementSize →
          S3.var.ElementSize * LinearIndex S3.var.DimCount S3.getVariable.m_Count
            (relPos S3.var.DimCount S3.getVariable.m_Start g)
            S3.reader.m_ReaderIsRowMajor + k ≠ j) →
        out[j]? = (List.replicate 24 0)[j]?) :=
  ⟨⟨S3.holdsPut, S3.blocksDisjoint⟩, by decide,
    performGet_global S3.reader (fun _ _ _ => []) S3.fetch S3.put S3.getVariable S3.var 0
      (List.replicate 24 0) rfl rfl (by decide) (by decide) rfl rfl S3.holdsPut
      S3.blocksDisjoint (by decide)⟩

/-! ### Steps of a writer: any number of `Marshal` calls, `CloseTimestep` -/

theorem afterLookup_norm (s : BP5Serializer) (VB : VariableBase) (a : MarshalArgs) :
    afterLookup s VB { a with DimCount := if VB.m_SingleValue then 0 else a.DimCount } =
      afterLookup s VB a := by
  unfold afterLookup
  cases VB.m_SingleValue <;> rfl

theorem Marshal_general (Init : DataType → MinMaxStruct) (stdTypes : MinMaxTypes)
    (s : BP5Serializer) (VB : VariableBase) (a : MarshalArgs) :
    (Marshal Init stdTypes s VB a).1.RecList = (afterLookup s VB a).2.RecList ∧
    (Marshal Init stdTypes s VB a).1.MetaFields = (afterLookup s VB a).2.MetaFields ∧
    (Marshal Init stdTypes s VB a).1.BitField =
      (fun i => if i = (writerRecOf s VB a).FieldID then true else s.BitField i) ∧
    (∀ o, o ≠ (writerRecOf s VB a).MetaOffset →
      (Marshal Init stdTypes s VB a).1.MetaEntry o = s.MetaEntry o) ∧
    (Marshal Init stdTypes s VB a).1.m_StatsLevel = s.m_StatsLevel ∧
    (Marshal Init stdTypes s VB a).1.m_PriorDataBufferSizeTotal =
      s.m_PriorDataBufferSizeTotal ∧
    (s.CurDataBuffer ≠ none → (Marshal Init stdTypes s VB a).1.CurDataBuffer ≠ none) ∧
    (VB.m_SingleValue = true →
      (Marshal Init stdTypes s VB a).1.MetaEntry = s.MetaEntry ∧
      (Marshal Init stdTypes s VB a).1.CurDataBuffer = s.CurDataBuffer ∧
      (Marshal Init stdTypes s VB a).1.DeferredExterns = s.DeferredExterns) := by
  obtain ⟨h1, h2, h3, h4, h5, h6⟩ := afterLookup_state s VB a
  have hn := afterLookup_norm s VB a
  simp only [Marshal, hn, writerRecOf]
  cases hV : VB.m_SingleValue with
  | true =>
    simp only [if_true, h1, h2, h3, h4, h5, h6]
    simp
  | false =>
    simp only [Bool.false_eq_true, if_false, marshalArray, h1]
    cases hb : s.CurDataBuffer with
    | none =>
      simp only [h4, h5, h6, h3]
      simp +contextual
    | some buf =>
      simp only [recordBlock, h4, h5, h6, h3]
      simp +contextual

theorem roundup_ge (x E : Nat) (hE : 0 < E) : x ≤ (x + E - 1) / E * E := by
  have h := Nat.lt_mul_div_succ (x + E - 1) hE
  rw [Nat.mul_add, Nat.mul_one, Nat.mul_comm] at h
  omega

theorem endOffset_concat (Fields : List FMField) (f : FMField) :
    endOffset (Fields ++ [f]) =
      f.field_offset + (if f.field_type.toList.contains '[' then 8 else f.field_size) := by
  simp [endOffset, List.getLast?_concat]

theorem AddSimpleField_end (Fields : List FMField) (Name Type_ : String) (E : Nat)
    (hE : 0 < E) :
    endOffset Fields ≤
        ((AddSimpleField Fields Name Type_ E).getLast?.map (fun f => f.field_offset)).getD 0 ∧
      ((AddSimpleField Fields Name Type_ E).getLast?.map (fun f => f.field_offset)).getD 0 <
        endOffset (AddSimpleField Fields Name Type_ E) := by
  unfold AddSimpleField
  rw [endOffset_concat, List.getLast?_concat]
  simp only [Option.map_some', Option.getD_some]
  constructor
  · simp only [endOffset]
    cases Fields.getLast? with
    | none => exact Nat.le_refl _
    | some P => exact roundup_ge _ E hE
  · have h8 : 0 < (if Type_.toList.contains '[' then 8 else E) := by
      split <;> omega
    simp only at h8 ⊢
    omega

theorem CreateWriterRec_rec (s : BP5Serializer) (VB : VariableBase) (Name : String)
    (Type_ : DataType) (ElemSize DimCount : Nat) (hE : 0 < ElemSize) :
    (CreateWriterRec s VB Name Type_ ElemSize DimCount).2.RecList =
        s.RecList ++ [(CreateWriterRec s VB Name Type_ ElemSize DimCount).1] ∧
      (CreateWriterRec s VB Name Type_ ElemSize DimCount).1.Key = VB.Key ∧
      (CreateWriterRec s VB Name Type_ ElemSize DimCount).1.FieldID = s.RecList.length ∧
      (CreateWriterRec s VB Name Type_ ElemSize DimCount).1.DimCount = DimCount ∧
      endOffset s.MetaFields ≤ (CreateWriterRec s VB Name Type_ ElemSize DimCount).1.MetaOffset ∧
      (CreateWriterRec s VB Name Type_ ElemSize DimCount).1.MetaOffset <
        endOffset (CreateWriterRec s VB Name Type_ ElemSize DimCount).2.MetaFields := by
  have hE' : 0 < (if Type_ = DataType.String then 8 else ElemSize) := by
    split <;> omega
  have hF : 0 < (if VB.m_Operations.length ≠ 0 then sizeofMetaArrayRecOperator
      else sizeofMetaArrayRec) := by
    unfold sizeofMetaArrayRecOperator sizeofMetaArrayRec
    split <;> omega
  by_cases hD : DimCount = 0
  · have h := AddSimpleField_end s.MetaFields (BuildVarName Name VB.m_ShapeID 0 0)
      ((TranslateADIOS2Type2FFS Type_).getD "") _ hE'
    refine ⟨?_, ?_, ?_, ?_, ?_, ?_⟩ <;> simp only [CreateWriterRec, hD, if_true]
    · exact h.1
    · exact h.2
  · by_cases hS : s.m_StatsLevel > 0
    · have h := AddSimpleField_end s.MetaFields
        (BuildLongName Name VB.m_ShapeID Type_.toNat
          (if Type_ = DataType.String then 8 else ElemSize))
        ((if VB.m_Operations.length ≠ 0 then "MetaArrayOp" else "MetaArray") ++
          (if (if Type_ = DataType.String then 8 else ElemSize) = 1 then "MM1"
           else if (if Type_ = DataType.String then 8 else ElemSize) = 2 then "MM2"
           else if (if Type_ = DataType.String then 8 else ElemSize) = 4 then "MM4"
           else if (if Type_ = DataType.String then 8 else ElemSize) = 8 then "MM8"
           else if (if Type_ = DataType.String then 8 else ElemSize) = 16 then "MM16" else ""))
        ((if VB.m_Operations.length ≠ 0 then sizeofMetaArrayRecOperator
          else sizeofMetaArrayRec) + 8) (by omega)
      refine ⟨?_, ?_, ?_, ?_, ?_, ?_⟩ <;> simp only [CreateWriterRec, hD, if_false, hS, if_true]
      · exact h.1
      · exact h.2
    · have h := AddSimpleField_end s.MetaFields
        (BuildLongName Name VB.m_ShapeID Type_.toNat
          (if Type_ = DataType.String then 8 else ElemSize))
        (if VB.m_Operations.length ≠ 0 then "MetaArrayOp" else "MetaArray")
        (if VB.m_Operations.length ≠ 0 then sizeofMetaArrayRecOperator
          else sizeofMetaArrayRec) hF
      refine ⟨?_, ?_, ?_, ?_, ?_, ?_⟩ <;> simp only [CreateWriterRec, hD, if_false, hS]
      · exact h.1
      · exact h.2

theorem afterLookup_cases (s : BP5Serializer) (VB : VariableBase) (a : MarshalArgs) :
    (∃ R, LookupWriterRec s VB.Key = some R ∧ afterLookup s VB a = (R, s) ∧
      R ∈ s.RecList ∧ R.Key = VB.Key) ∨
    (LookupWriterRec s VB.Key = none ∧
      afterLookup s VB a = CreateWriterRec s VB a.Name a.Type_ a.ElemSize
        (if VB.m_SingleValue then 0 else a.DimCount) ∧
      ∀ r ∈ s.RecList, r.Key ≠ VB.Key) := by
  cases h : LookupWriterRec s VB.Key with
  | some R =>
    left
    refine ⟨R, rfl, afterLookup_of_lookup s VB a R h, List.mem_of_find?_eq_some h, ?_⟩
    have := List.find?_some h
    simpa using this
  | none =>
    right
    refine ⟨rfl, ?_, ?_⟩
    · unfold afterLookup
      rw [h]
    · intro r hr
      have := List.find?_eq_none.mp h r hr
      simpa using this

theorem mem_index {α : Type} (l : List α) (x : α) (h : x ∈ l) :
    ∃ i, i < l.length ∧ l[i]? = some x := by
  obtain ⟨i, hi, e⟩ := List.getElem_of_mem h
  exact ⟨i, hi, by rw [List.getElem?_eq_getElem hi, e]⟩

theorem RecordsInv_distinct (s : BP5Serializer) (h : RecordsInv s) (r1 r2 : BP5WriterRec)
    (h1 : r1 ∈ s.RecList) (h2 : r2 ∈ s.RecList) (hne : r1 ≠ r2) :
    r1.Key ≠ r2.Key ∧ r1.FieldID ≠ r2.FieldID ∧ r1.MetaOffset ≠ r2.MetaOffset := by
  obtain ⟨hf, hp, _, _⟩ := h
  obtain ⟨i, _, hi⟩ := mem_index _ _ h1
  obtain ⟨j, _, hj⟩ := mem_index _ _ h2
  have hij : i ≠ j := by
    intro e
    rw [e, hj] at hi
    exact hne (Option.some.inj hi).symm
  have f1 := hf i r1 hi
  have f2 := hf j r2 hj
  rcases Nat.lt_or_gt_of_ne hij with hlt | hlt
  · have := hp i j r1 r2 hlt hi hj
    exact ⟨this.1, by omega, by omega⟩
  · have := hp j i r2 r1 hlt hj hi
    exact ⟨fun e => this.1 e.symm, by omega, by omega⟩

theorem Marshal_inv (Init : DataType → MinMaxStruct) (stdTypes : MinMaxTypes)
    (s : BP5Serializer) (VB : VariableBase) (a : MarshalArgs) (h : RecordsInv s)
    (hE : 0 < a.ElemSize) : RecordsInv (Marshal Init stdTypes s VB a).1 := by
  obtain ⟨g1, g2, g3, _, _, _, _, _⟩ := Marshal_general Init stdTypes s VB a
  obtain ⟨hf, hp, he, hb⟩ := h
  unfold RecordsInv
  rw [g1, g2, g3]
  rcases afterLookup_cases s VB a with ⟨R, _, e, hR, _⟩ | ⟨_, e, hk⟩
  · rw [writerRecOf, e]
    refine ⟨hf, hp, he, ?_⟩
    intro f hfb
    simp only at hfb
    by_cases hfe : f = R.FieldID
    · obtain ⟨i, hi, hiR⟩ := mem_index _ _ hR
      rw [hfe, hf i R hiR]
      exact hi
    · rw [if_neg hfe] at hfb
      exact hb f hfb
  · obtain ⟨c1, c2, c3, _, c5, c6⟩ := CreateWriterRec_rec s VB a.Name a.Type_ a.ElemSize
      (if VB.m_SingleValue then 0 else a.DimCount) hE
    rw [writerRecOf, e, c1]
    refine ⟨?_, ?_, ?_, ?_⟩
    · intro i r hi
      rw [List.getElem?_append] at hi
      split at hi
      · exact hf i r hi
      · rename_i hlt
        cases hx : i - s.RecList.length with
        | zero =>
          rw [hx] at hi
          simp only [List.getElem?_cons_zero, Option.some.injEq] at hi
          rw [← hi, c3]
          omega
        | succ n =>
          rw [hx] at hi
          simp at hi
    · intro i j r1 r2 hij hi hj
      rw [List.getElem?_append] at hi hj
      split at hj
      · rename_i hjl
        rw [if_pos (by omega)] at hi
        exact hp i j r1 r2 hij hi hj
      · rename_i hjl
        cases hx : j - s.RecList.length with
        | zero =>
          rw [hx] at hj
          simp only [List.getElem?_cons_zero, Option.some.injEq] at hj
          have hil : i < s.RecList.length := by omega
          rw [if_pos hil] at hi
          have hmem : r1 ∈ s.RecList := List.getElem?_mem hi
          have := he r1 hmem
          rw [← hj]
          exact ⟨by rw [c2]; exact hk r1 hmem, by omega⟩
        | succ n =>
          rw [hx] at hj
          simp at hj
    · intro r hr
      rcases List.mem_append.mp hr with hr | hr
      · have := he r hr
        omega
      · rw [List.mem_singleton] at hr
        rw [hr]
        exact c6
    · intro f hfb
      simp only at hfb
      rw [List.length_append, List.length_singleton]
      by_cases hfe : f = (CreateWriterRec s VB a.Name a.Type_ a.ElemSize
          (if VB.m_SingleValue then 0 else a.DimCount)).1.FieldID
      · rw [hfe, c3]
        omega
      · rw [if_neg hfe] at hfb
        have := hb f hfb
        omega

theorem writerRecOf_ne (s : BP5Serializer) (VB : VariableBase) (a : MarshalArgs)
    (h : RecordsInv s) (hE : 0 < a.ElemSize) (R : BP5WriterRec) (hR : R ∈ s.RecList)
    (hK : R.Key ≠ VB.Key) :
    (writerRecOf s VB a).FieldID ≠ R.FieldID ∧ (writerRecOf s VB a).MetaOffset ≠ R.MetaOffset := by
  rcases afterLookup_cases s VB a with ⟨W, _, e, hW, hWK⟩ | ⟨_, e, _⟩
  · rw [writerRecOf, e]
    have hne : W ≠ R := by
      intro e'
      rw [e'] at hWK
      exact hK hWK
    have := RecordsInv_distinct s h W R hW hR hne
    exact ⟨this.2.1, this.2.2⟩
  · obtain ⟨_, _, c3, _, c5, _⟩ := CreateWriterRec_rec s VB a.Name a.Type_ a.ElemSize
      (if VB.m_SingleValue then 0 else a.DimCount) hE
    rw [writerRecOf, e]
    obtain ⟨hf, _, he, _⟩ := h
    obtain ⟨i, hi, hiR⟩ := mem_index _ _ hR
    have := hf i R hiR
    have := he R hR
    exact ⟨by omega, by omega⟩

theorem Lookup_after_other (Init : DataType → MinMaxStruct) (stdTypes : MinMaxTypes)
    (s : BP5Serializer) (VB : VariableBase) (a : MarshalArgs) (K : Nat) (hE : 0 < a.ElemSize)
    (hK : VB.Key ≠ K) :
    LookupWriterRec (Marshal Init stdTypes s VB a).1 K = LookupWriterRec s K := by
  obtain ⟨g1, _⟩ := Marshal_general Init stdTypes s VB a
  unfold LookupWriterRec
  rw [g1]
  rcases afterLookup_cases s VB a with ⟨W, _, e, _, _⟩ | ⟨_, e, _⟩
  · rw [e]
  · obtain ⟨c1, c2, _⟩ := CreateWriterRec_rec s VB a.Name a.Type_ a.ElemSize
      (if VB.m_SingleValue then 0 else a.DimCount) hE
    rw [e, c1, List.find?_append]
    have : [(CreateWriterRec s VB a.Name a.Type_ a.ElemSize
        (if VB.m_SingleValue then 0 else a.DimCount)).1].find? (fun r => r.Key == K) = none := by
      simp [c2, hK]
    rw [this]
    cases List.find? (fun r => r.Key == K) s.RecList <;> rfl

theorem entryOf_other (Init : DataType → MinMaxStruct) (stdTypes : MinMaxTypes)
    (s : BP5Serializer) (VB : VariableBase) (a : MarshalArgs) (K : Nat) (h : RecordsInv s)
    (hE : 0 < a.ElemSize) (hK : VB.Key ≠ K) :
    entryOf (Marshal Init stdTypes s VB a).1 K = entryOf s K := by
  unfold entryOf
  rw [Lookup_after_other Init stdTypes s VB a K hE hK]
  cases hl : LookupWriterRec s K with
  | none => rfl
  | some R =>
    have hR : R ∈ s.RecList := List.mem_of_find?_eq_some hl
    have hRK : R.Key = K := by
      have := List.find?_some hl
      simpa using this
    obtain ⟨n1, n2⟩ := writerRecOf_ne s VB a h hE R hR (by rw [hRK]; exact fun e => hK e.symm)
    obtain ⟨_, _, g3, g4, _⟩ := Marshal_general Init stdTypes s VB a
    have n1' : ¬ (R.FieldID = (writerRecOf s VB a).FieldID) := fun e => n1 e.symm
    simp only [g3, g4 R.MetaOffset (fun e => n2 e.symm), n1', if_false]

theorem entryOf_self (Init : DataType → MinMaxStruct) (stdTypes : MinMaxTypes)
    (s : BP5Serializer) (VB : VariableBase) (a : MarshalArgs) (buf : BufferV)
    (h : RecordsInv s) (hE : 0 < a.ElemSize) (hV : VB.m_SingleValue = false)
    (hbuf : s.CurDataBuffer = some buf) :
    entryOf (Marshal Init stdTypes s VB a).1 VB.Key =
      some (putEntry s.m_StatsLevel (writerRecOf s VB a) a
        (s.MetaEntry (writerRecOf s VB a).MetaOffset) (entryOf s VB.Key)
        (stagedOf s VB a buf).2.1 (stagedOf s VB a buf).2.2.1 (minMaxOf Init stdTypes s VB a)) := by
  obtain ⟨f1, _, f3, _⟩ := Marshal_frame Init stdTypes s VB a buf hV hbuf
  obtain ⟨_, _, hM⟩ := Marshal_array Init stdTypes s VB a buf hV hbuf
  have e1 : entryOf (Marshal Init stdTypes s VB a).1 VB.Key =
      some ((Marshal Init stdTypes s VB a).1.MetaEntry (writerRecOf s VB a).MetaOffset) := by
    unfold entryOf
    rw [f1]
    simp only [f3, if_true]
  rw [e1, hM]
  congr 1
  rcases afterLookup_cases s VB a with ⟨W, hl, e, _, _⟩ | ⟨hl, e, _⟩
  · have hW : writerRecOf s VB a = W := by rw [writerRecOf, e]
    simp only [entryOf, hl, stagedOf, minMaxOf, hW]
    cases hb : s.BitField W.FieldID with
    | true => simp [putEntry]
    | false => simp [putEntry]
  · obtain ⟨_, _, c3, _⟩ := CreateWriterRec_rec s VB a.Name a.Type_ a.ElemSize
      (if VB.m_SingleValue then 0 else a.DimCount) hE
    have hb : s.BitField (writerRecOf s VB a).FieldID = false := by
      rw [writerRecOf, e, c3]
      cases hx : s.BitField s.RecList.length with
      | false => rfl
      | true => exact absurd (h.2.2.2 _ hx) (Nat.lt_irrefl _)
    simp [entryOf, hl, stagedOf, minMaxOf, hb, putEntry]

theorem callsOn_args (Init : DataType → MinMaxStruct) (stdTypes : MinMaxTypes) (K : Nat) :
    ∀ (calls : List (VariableBase × MarshalArgs)) (s : BP5Serializer),
      (callsOn Init stdTypes K s calls).map (fun h => h.2) =
        calls.filter (fun c => decide (c.1.Key = K))
  | [], _ => rfl
  | c :: calls, s => by
    rw [callsOn, List.map_append, callsOn_args Init stdTypes K calls, List.filter_cons]
    by_cases h : c.1.Key = K <;> simp [h]

theorem callsOn_length (Init : DataType → MinMaxStruct) (stdTypes : MinMaxTypes) (K : Nat)
    (calls : List (VariableBase × MarshalArgs)) (s : BP5Serializer) :
    (callsOn Init stdTypes K s calls).length =
      (calls.filter (fun c => decide (c.1.Key = K))).length := by
  rw [← callsOn_args Init stdTypes K calls s, List.length_map]

theorem entryOf_marshalCalls (Init : DataType → MinMaxStruct) (stdTypes : MinMaxTypes)
    (K : Nat) :
    ∀ (calls : List (VariableBase × MarshalArgs)) (s : BP5Serializer),
      RecordsInv s → s.CurDataBuffer ≠ none → (∀ c ∈ calls, 0 < c.2.ElemSize) →
      (∀ c ∈ calls, c.1.Key = K → c.1.m_SingleValue = false) →
      RecordsInv (marshalCalls Init stdTypes s calls) ∧
      (marshalCalls Init stdTypes s calls).CurDataBuffer ≠ none ∧
      entryOf (marshalCalls Init stdTypes s calls) K =
        (callsOn Init stdTypes K s calls).foldl (entryStep Init stdTypes) (entryOf s K)
  | [], s, hi, hb, _, _ => ⟨hi, hb, rfl⟩
  | c :: calls, s, hi, hb, hE, hV => by
    have hE1 := hE c (List.mem_cons_self _ _)
    have hi1 := Marshal_inv Init stdTypes s c.1 c.2 hi hE1
    have hb1 := (Marshal_general Init stdTypes s c.1 c.2).2.2.2.2.2.2.1 hb
    obtain ⟨r1, r2, r4⟩ := entryOf_marshalCalls Init stdTypes K calls
      (Marshal Init stdTypes s c.1 c.2).1 hi1 hb1
      (fun x hx => hE x (List.mem_cons_of_mem _ hx))
      (fun x hx => hV x (List.mem_cons_of_mem _ hx))
    have hm : marshalCalls Init stdTypes s (c :: calls) =
        marshalCalls Init stdTypes (Marshal Init stdTypes s c.1 c.2).1 calls := rfl
    rw [hm]
    refine ⟨r1, r2, ?_⟩
    rw [r4, callsOn]
    by_cases hk : c.1.Key = K
    · obtain ⟨buf, hbuf⟩ := Option.ne_none_iff_exists'.mp hb
      have := entryOf_self Init stdTypes s c.1 c.2 buf hi hE1
        (hV c (List.mem_cons_self _ _) hk) hbuf
      rw [hk] at this
      rw [if_pos hk, List.singleton_append, List.foldl_cons, this]
      simp only [entryStep, hbuf, Option.getD_some]
    · rw [if_neg hk, List.nil_append, entryOf_other Init stdTypes s c.1 c.2 K hi hE1 hk]

theorem putEntry_counts (n : Nat) (Rec : BP5WriterRec) (a : MarshalArgs)
    (base : MetaArrayRecOperator) (prev : Option MetaArrayRecOperator) (DO CS : Nat)
    (MM : MinMaxStruct) :
    (putEntry n Rec a base prev DO CS MM).Dims = a.DimCount ∧
    (putEntry n Rec a base prev DO CS MM).BlockCount =
      (prev.map (fun e => e.BlockCount + 1)).getD 1 ∧
    (putEntry n Rec a base prev DO CS MM).DBCount =
      (prev.map (fun e => e.DBCount + a.DimCount)).getD a.DimCount := by
  cases prev with
  | none => exact ⟨rfl, rfl, rfl⟩
  | some e => exact ⟨rfl, rfl, rfl⟩

theorem foldl_entryStep_counts (Init : DataType → MinMaxStruct) (stdTypes : MinMaxTypes)
    (D : Nat) :
    ∀ (hist : List (BP5Serializer × VariableBase × MarshalArgs))
      (o : Option MetaArrayRecOperator) (n : Nat),
      (∀ h ∈ hist, h.2.2.DimCount = D) →
      ((n = 0 ∧ o = none) ∨
        (0 < n ∧ ∃ e, o = some e ∧ e.Dims = D ∧ e.BlockCount = n ∧ e.DBCount = D * n)) →
      0 < n + hist.length →
      ∃ e, hist.foldl (entryStep Init stdTypes) o = some e ∧ e.Dims = D ∧
        e.BlockCount = n + hist.length ∧ e.DBCount = D * (n + hist.length)
  | [], o, n, _, ho, hn => by
    rcases ho with ⟨h0, _⟩ | ⟨_, e, he⟩
    · simp [h0] at hn
    · exact ⟨e, by simpa using he⟩
  | h :: hist, o, n, hD, ho, _ => by
    have hd := hD h (List.mem_cons_self _ _)
    obtain ⟨p1, p2, p3⟩ := putEntry_counts h.1.m_StatsLevel (writerRecOf h.1 h.2.1 h.2.2) h.2.2
      (h.1.MetaEntry (writerRecOf h.1 h.2.1 h.2.2).MetaOffset) o
      (stagedOf h.1 h.2.1 h.2.2 (h.1.CurDataBuffer.getD ⟨[], 0⟩)).2.1
      (stagedOf h.1 h.2.1 h.2.2 (h.1.CurDataBuffer.getD ⟨[], 0⟩)).2.2.1
      (minMaxOf Init stdTypes h.1 h.2.1 h.2.2)
    have hstep : (0 < n + 1 ∧ ∃ e, entryStep Init stdTypes o h = some e ∧ e.Dims = D ∧
        e.BlockCount = n + 1 ∧ e.DBCount = D * (n + 1)) := by
      refine ⟨Nat.succ_pos n, _, rfl, by rw [p1, hd], ?_, ?_⟩
      · rw [p2]
        rcases ho with ⟨h0, ho⟩ | ⟨_, e, ho, _, hb, _⟩
        · simp [ho, h0]
        · simp [ho, hb]
      · rw [p3, hd]
        rcases ho with ⟨h0, ho⟩ | ⟨_, e, ho, _, _, hdb⟩
        · simp [ho, h0]
        · simp only [ho, Option.map_some', Option.getD_some, hdb]
          ring
    obtain ⟨e, r1, r2, r3, r4⟩ := foldl_entryStep_counts Init stdTypes D hist
      (entryStep Init stdTypes o h) (n + 1)
      (fun x hx => hD x (List.mem_cons_of_mem _ hx)) (Or.inr hstep) (by omega)
    refine ⟨e, by rw [List.foldl_cons]; exact r1, r2, ?_, ?_⟩
    · rw [r3, List.length_cons]
      omega
    · rw [r4, List.length_cons]
      congr 1
      omega

theorem callsOn_forall (Init : DataType → MinMaxStruct) (stdTypes : MinMaxTypes) (K : Nat)
    (P : VariableBase × MarshalArgs → Prop) (calls : List (VariableBase × MarshalArgs))
    (s : BP5Serializer) (h : ∀ c ∈ calls, c.1.Key = K → P c) :
    ∀ x ∈ callsOn Init stdTypes K s calls, P x.2 := by
  intro x hx
  have hm : x.2 ∈ (callsOn Init stdTypes K s calls).map (fun h => h.2) :=
    List.mem_map_of_mem _ hx
  rw [callsOn_args] at hm
  obtain ⟨h1, h2⟩ := List.mem_filter.mp hm
  exact h x.2 h1 (by simpa using h2)

/-- Claim C11: after the `Marshal` calls of a step so far, of which `k >= 1`
are on the array variable with key `K` (calls on other variables may stand
between them), all of these with the same dimension count `D > 0`, the
`MetaArrayRec` of the variable has `Dims = D`, `BlockCount = k` and
`DBCount = D * k`, so that `DBCount / Dims` is the block count. The writer has
a data buffer attached and the variable has not been put on the step before
the calls. -/
theorem Marshal_block_counts (Init : DataType → MinMaxStruct) (stdTypes : MinMaxTypes)
    (s : BP5Serializer) (calls : List (VariableBase × MarshalArgs)) (K D : Nat)
    (hinv : RecordsInv s) (hbuf : s.CurDataBuffer ≠ none) (hnew : entryOf s K = none)
    (hE : ∀ c ∈ calls, 0 < c.2.ElemSize)
    (hK : ∀ c ∈ calls, c.1.Key = K → c.1.m_SingleValue = false ∧ c.2.DimCount = D)
    (hD : 0 < D) (hk : 1 ≤ (calls.filter (fun c => decide (c.1.Key = K))).length) :
    ∃ e, entryOf (marshalCalls Init stdTypes s calls) K = some e ∧ e.Dims = D ∧
      e.BlockCount = (calls.filter (fun c => decide (c.1.Key = K))).length ∧
      e.DBCount = D * (calls.filter (fun c => decide (c.1.Key = K))).length ∧
      e.DBCount / e.Dims = e.BlockCount := by
  obtain ⟨_, _, r⟩ := entryOf_marshalCalls Init stdTypes K calls s hinv hbuf hE
    (fun c hc hk => (hK c hc hk).1)
  have hl := callsOn_length Init stdTypes K calls s
  obtain ⟨e, e1, e2, e3, e4⟩ := foldl_entryStep_counts Init stdTypes D
    (callsOn Init stdTypes K s calls) (entryOf s K) 0
    (callsOn_forall Init stdTypes K (fun c => c.2.DimCount = D) calls s
      (fun c hc hk => (hK c hc hk).2))
    (Or.inl ⟨rfl, hnew⟩) (by omega)
  rw [Nat.zero_add, hl] at e3 e4
  exact ⟨e, r.trans e1, e2, e3, e4, by rw [e4, e2, e3, Nat.mul_div_cancel_left _ hD]⟩

theorem RecordsInv_of_empty (s : BP5Serializer) (h1 : s.RecList = [])
    (h2 : ∀ f, s.BitField f = false) : RecordsInv s := by
  refine ⟨?_, ?_, ?_, ?_⟩
  · intro i r hi
    rw [h1] at hi
    simp at hi
  · intro i j r1 r2 _ hi
    rw [h1] at hi
    simp at hi
  · intro r hr
    rw [h1] at hr
    simp at hr
  · intro f hf
    rw [h2 f] at hf
    cases hf

/-- Witness of `Marshal_block_counts`: two puts on the variable of scenario S3. -/
theorem Marshal_block_counts_witness :
    (RecordsInv S3.writer ∧ entryOf S3.writer 1 = none) ∧
    ∃ e, entryOf (marshalCalls S3.Init (fun _ => true) S3.writer S3.twoPuts) 1 = some e ∧
      e.Dims = 2 ∧
      e.BlockCount = (S3.twoPuts.filter (fun c => decide (c.1.Key = 1))).length ∧
      e.DBCount = 2 * (S3.twoPuts.filter (fun c => decide (c.1.Key = 1))).length ∧
      e.DBCount / e.Dims = e.BlockCount :=
  ⟨⟨RecordsInv_of_empty S3.writer rfl (fun _ => rfl), rfl⟩,
    Marshal_block_counts S3.Init (fun _ => true) S3.writer S3.twoPuts 1 2
      (RecordsInv_of_empty S3.writer rfl (fun _ => rfl)) (by simp [S3.writer]) rfl
      (by decide) (by decide) (by decide) (by decide)⟩

theorem putEntry_first (n : Nat) (Rec : BP5WriterRec) (a : MarshalArgs)
    (base : MetaArrayRecOperator) (DO CS : Nat) (MM : MinMaxStruct) :
    (putEntry n Rec a base none DO CS MM).Count = some (a.Count.take a.DimCount) ∧
    (putEntry n Rec a base none DO CS MM).Offsets =
      a.Offsets.map (fun O => O.take a.DimCount) ∧
    (putEntry n Rec a base none DO CS MM).DataBlockLocation = [DO] :=
  ⟨rfl, rfl, rfl⟩

theorem putEntry_next (n : Nat) (Rec : BP5WriterRec) (a : MarshalArgs)
    (base e : MetaArrayRecOperator) (DO CS : Nat) (MM : MinMaxStruct) :
    (putEntry n Rec a base (some e) DO CS MM).Count =
      some ((e.Count.getD []).take e.DBCount ++ a.Count.take a.DimCount) ∧
    (putEntry n Rec a base (some e) DO CS MM).Offsets =
      (match a.Offsets with
       | some O => some ((e.Offsets.getD []).take e.DBCount ++ O.take a.DimCount)
       | none => e.Offsets) ∧
    (putEntry n Rec a base (some e) DO CS MM).DataBlockLocation =
      e.DataBlockLocation.take e.BlockCount ++ [DO] := by
  refine ⟨rfl, ?_, ?_⟩
  · simp only [putEntry, nextBlockEntry, AppendDims]
  · simp [putEntry, nextBlockEntry]

theorem length_flatMap_const {α β : Type} (f : α → List β) (D : Nat) :
    ∀ (l : List α), (∀ x ∈ l, (f x).length = D) → (l.flatMap f).length = D * l.length
  | [], _ => by simp
  | x :: l, h => by
    rw [List.flatMap_cons, List.length_append, h x (List.mem_cons_self _ _),
      length_flatMap_const f D l (fun y hy => h y (List.mem_cons_of_mem _ hy)),
      List.length_cons]
    ring

theorem foldl_entryStep_blocks (Init : DataType → MinMaxStruct) (stdTypes : MinMaxTypes)
    (D : Nat) :
    ∀ (hist done : List (BP5Serializer × VariableBase × MarshalArgs))
      (o : Option MetaArrayRecOperator),
      (∀ h ∈ done ++ hist, h.2.2.DimCount = D ∧ h.2.2.Count.length = D ∧
        ∀ O, h.2.2.Offsets = some O → O.length = D) →
      ((done = [] ∧ o = none) ∨
        (done ≠ [] ∧ ∃ e, o = some e ∧ e.BlockCount = done.length ∧
          e.DBCount = D * done.length ∧
          e.Count = some (done.flatMap (fun h => h.2.2.Count)) ∧
          e.DataBlockLocation = done.map DataOffsetOf ∧
          ((∀ h ∈ done, h.2.2.Offsets ≠ none) →
            e.Offsets = some (done.flatMap (fun h => h.2.2.Offsets.getD []))) ∧
          ((∀ h ∈ done, h.2.2.Offsets = none) → e.Offsets = none))) →
      done ++ hist ≠ [] →
      ∃ e, hist.foldl (entryStep Init stdTypes) o = some e ∧
        e.Count = some ((done ++ hist).flatMap (fun h => h.2.2.Count)) ∧
        e.DataBlockLocation = (done ++ hist).map DataOffsetOf ∧
        ((∀ h ∈ done ++ hist, h.2.2.Offsets ≠ none) →
          e.Offsets = some ((done ++ hist).flatMap (fun h => h.2.2.Offsets.getD []))) ∧
        ((∀ h ∈ done ++ hist, h.2.2.Offsets = none) → e.Offsets = none)
  | [], done, o, _, ho, hne => by
    rw [List.append_nil] at hne ⊢
    rcases ho with ⟨h0, _⟩ | ⟨_, e, he, _, _, h3, h4, h5, h6⟩
    · exact absurd h0 hne
    · exact ⟨e, he, h3, h4, h5, h6⟩
  | h :: hist, done, o, hA, ho, _ => by
    have hh := hA h (List.mem_append_right _ (List.mem_cons_self _ _))
    have hdone : ∀ x ∈ done, x.2.2.Count.length = D :=
      fun x hx => (hA x (List.mem_append_left _ hx)).2.1
    have hstep : done ++ [h] ≠ [] ∧ ∃ e, entryStep Init stdTypes o h = some e ∧
        e.BlockCount = (done ++ [h]).length ∧ e.DBCount = D * (done ++ [h]).length ∧
        e.Count = some ((done ++ [h]).flatMap (fun h => h.2.2.Count)) ∧
        e.DataBlockLocation = (done ++ [h]).map DataOffsetOf ∧
        ((∀ x ∈ done ++ [h], x.2.2.Offsets ≠ none) →
          e.Offsets = some ((done ++ [h]).flatMap (fun h => h.2.2.Offsets.getD []))) ∧
        ((∀ x ∈ done ++ [h], x.2.2.Offsets = none) → e.Offsets = none) := by
      refine ⟨by simp, _, rfl, ?_⟩
      obtain ⟨_, p2, p3⟩ := putEntry_counts h.1.m_StatsLevel (writerRecOf h.1 h.2.1 h.2.2) h.2.2
        (h.1.MetaEntry (writerRecOf h.1 h.2.1 h.2.2).MetaOffset) o
        (stagedOf h.1 h.2.1 h.2.2 (h.1.CurDataBuffer.getD ⟨[], 0⟩)).2.1
        (stagedOf h.1 h.2.1 h.2.2 (h.1.CurDataBuffer.getD ⟨[], 0⟩)).2.2.1
        (minMaxOf Init stdTypes h.1 h.2.1 h.2.2)
      rw [p2, p3]
      rcases ho with ⟨h0, ho⟩ | ⟨_, e, ho, b1, b2, b3, b4, b5, b6⟩
      · subst h0 ho
        obtain ⟨q1, q2, q3⟩ := putEntry_first h.1.m_StatsLevel (writerRecOf h.1 h.2.1 h.2.2)
          h.2.2 (h.1.MetaEntry (writerRecOf h.1 h.2.1 h.2.2).MetaOffset)
          (stagedOf h.1 h.2.1 h.2.2 (h.1.CurDataBuffer.getD ⟨[], 0⟩)).2.1
          (stagedOf h.1 h.2.1 h.2.2 (h.1.CurDataBuffer.getD ⟨[], 0⟩)).2.2.1
          (minMaxOf Init stdTypes h.1 h.2.1 h.2.2)
        rw [q1, q2, q3]
        refine ⟨by simp, by simp [hh.1], ?_, by simp [DataOffsetOf], ?_, ?_⟩
        · simp only [List.nil_append, List.flatMap_cons, List.flatMap_nil, List.append_nil]
          rw [hh.1, ← hh.2.1, List.take_length]
        · intro hall
          have hs := hall h (by simp)
          obtain ⟨O, hO⟩ := Option.ne_none_iff_exists'.mp hs
          have hl := hh.2.2 O hO
          simp only [List.nil_append, List.flatMap_cons, List.flatMap_nil, List.append_nil, hO,
            Option.map_some', Option.getD_some]
          rw [hh.1, ← hl, List.take_length]
        · intro hall
          rw [hall h (by simp)]
          rfl
      · subst ho
        obtain ⟨q1, q2, q3⟩ := putEntry_next h.1.m_StatsLevel (writerRecOf h.1 h.2.1 h.2.2)
          h.2.2 (h.1.MetaEntry (writerRecOf h.1 h.2.1 h.2.2).MetaOffset) e
          (stagedOf h.1 h.2.1 h.2.2 (h.1.CurDataBuffer.getD ⟨[], 0⟩)).2.1
          (stagedOf h.1 h.2.1 h.2.2 (h.1.CurDataBuffer.getD ⟨[], 0⟩)).2.2.1
          (minMaxOf Init stdTypes h.1 h.2.1 h.2.2)
        rw [q1, q2, q3]
        have hcl := length_flatMap_const (fun h : BP5Serializer × VariableBase × MarshalArgs =>
          h.2.2.Count) D done hdone
        refine ⟨?_, ?_, ?_, ?_, ?_, ?_⟩
        · simp [b1]
        · simp only [Option.map_some', Option.getD_some, b2, hh.1, List.length_append,
            List.length_singleton]
          ring
        · rw [b3, Option.getD_some, b2, ← hcl, List.take_length, hh.1, ← hh.2.1,
            List.take_length, List.flatMap_append]
          simp
        · rw [b4, b1, List.take_of_length_le (by simp), List.map_append]
          rfl
        · intro hall
          have hs := hall h (by simp)
          obtain ⟨O, hO⟩ := Option.ne_none_iff_exists'.mp hs
          have hl := hh.2.2 O hO
          have hprev := b5 (fun x hx => hall x (List.mem_append_left _ hx))
          have hol : (done.flatMap (fun h : BP5Serializer × VariableBase × MarshalArgs =>
              h.2.2.Offsets.getD [])).length = D * done.length := by
            apply length_flatMap_const
            intro x hx
            obtain ⟨Ox, hOx⟩ := Option.ne_none_iff_exists'.mp
              (hall x (List.mem_append_left _ hx))
            rw [hOx]
            exact (hA x (List.mem_append_left _ hx)).2.2 Ox hOx
          rw [hO]
          simp only [hprev, Option.getD_some, b2]
          rw [← hol, List.take_length, hh.1, ← hl, List.take_length, List.flatMap_append]
          simp [hO]
        · intro hall
          rw [hall h (by simp)]
          exact b6 (fun x hx => hall x (List.mem_append_left _ hx))
    have hA' : ∀ x ∈ (done ++ [h]) ++ hist, x.2.2.DimCount = D ∧ x.2.2.Count.length = D ∧
        ∀ O, x.2.2.Offsets = some O → O.length = D := by
      intro x hx
      rw [List.append_assoc] at hx
      exact hA x hx
    obtain ⟨e, r1, r2⟩ := foldl_entryStep_blocks Init stdTypes D hist (done ++ [h])
      (entryStep Init stdTypes o h) hA' (Or.inr hstep) (by simp)
    rw [List.append_assoc] at r2
    exact ⟨e, by rw [List.foldl_cons]; exact r1, r2⟩

theorem placedAt_spec (Init : DataType → MinMaxStruct) (stdTypes : MinMaxTypes)
    (h : BP5Serializer × VariableBase × MarshalArgs) (buf : BufferV)
    (hV : h.2.1.m_SingleValue = false) (hbuf : h.1.CurDataBuffer = some buf) :
    (deferFlag (writerRecOf h.1 h.2.1 h.2.2) h.2.2 = false →
      placedAt Init stdTypes h = some (DataOffsetOf h)) ∧
    (deferFlag (writerRecOf h.1 h.2.1 h.2.2) h.2.2 = true →
      placedAt Init stdTypes h = none ∧ DataOffsetOf h = 0) := by
  obtain ⟨hB, _, _⟩ := Marshal_array Init stdTypes h.1 h.2.1 h.2.2 buf hV hbuf
  simp only [placedAt, DataOffsetOf, stagedOf, hbuf, hB, Option.getD_some]
  constructor
  · intro hd
    rw [hd]
    unfold deferFlag at hd
    by_cases hop : (writerRecOf h.1 h.2.1 h.2.2).OperatorType = none
    · by_cases hsp : h.2.2.Span = true
      · simp [stageBlock, hop, hsp, BufferV.Allocate]
      · simp [stageBlock, hop, hsp, BufferV.AddToVec]
    · simp [stageBlock, hop, BufferV.Allocate, BufferV.DownsizeLastAlloc,
        List.getLast?_concat]
  · intro hd
    rw [hd]
    unfold deferFlag at hd
    simp only [Bool.and_eq_true, Bool.not_eq_true', decide_eq_true_eq,
      Option.isNone_iff_eq_none] at hd
    obtain ⟨⟨⟨_, _⟩, hsp⟩, hop⟩ := hd
    simp [stageBlock, hop, hsp]

theorem callsOn_states (Init : DataType → MinMaxStruct) (stdTypes : MinMaxTypes) (K : Nat) :
    ∀ (calls : List (VariableBase × MarshalArgs)) (s : BP5Serializer),
      RecordsInv s → s.CurDataBuffer ≠ none → (∀ c ∈ calls, 0 < c.2.ElemSize) →
      ∀ h ∈ callsOn Init stdTypes K s calls,
        RecordsInv h.1 ∧ h.1.CurDataBuffer ≠ none ∧ h.2.1.Key = K ∧ h.2 ∈ calls
  | [], _, _, _, _ => fun h hh => absurd hh (List.not_mem_nil _)
  | c :: calls, s, hi, hb, hE => by
    intro h hh
    rw [callsOn] at hh
    rcases List.mem_append.mp hh with hh | hh
    · by_cases hk : c.1.Key = K
      · rw [if_pos hk, List.mem_singleton] at hh
        subst hh
        exact ⟨hi, hb, hk, List.mem_cons_self _ _⟩
      · rw [if_neg hk] at hh
        exact absurd hh (List.not_mem_nil _)
    · have hE1 := hE c (List.mem_cons_self _ _)
      obtain ⟨r1, r2, r3, r4⟩ := callsOn_states Init stdTypes K calls
        (Marshal Init stdTypes s c.1 c.2).1 (Marshal_inv Init stdTypes s c.1 c.2 hi hE1)
        ((Marshal_general Init stdTypes s c.1 c.2).2.2.2.2.2.2.1 hb)
        (fun x hx => hE x (List.mem_cons_of_mem _ hx)) h hh
      exact ⟨r1, r2, r3, List.mem_cons_of_mem _ r4⟩

/-- Claim C12, amended: after the `Marshal` calls of a step so far, of which
`k >= 1` are on the array variable with key `K`, each with `D` dimensions, the
stored `Count` is the concatenation in call order of the `Count` arguments, the
stored `Offsets` is the concatenation of the `Offsets` arguments (absent when
every call passed none), `DataBlockLocation` has `k` entries, and entry `i` is
the location of the data of the `i`-th call whenever that call placed its data
in the data buffer; for a deferred put, which places nothing during the call,
entry `i` is 0. -/
theorem Marshal_blocks_call_order (Init : DataType → MinMaxStruct) (stdTypes : MinMaxTypes)
    (s : BP5Serializer) (calls : List (VariableBase × MarshalArgs)) (K D : Nat)
    (hinv : RecordsInv s) (hbuf : s.CurDataBuffer ≠ none) (hnew : entryOf s K = none)
    (hE : ∀ c ∈ calls, 0 < c.2.ElemSize)
    (hK : ∀ c ∈ calls, c.1.Key = K → c.1.m_SingleValue = false ∧ c.2.DimCount = D ∧
      c.2.Count.length = D ∧ ∀ O, c.2.Offsets = some O → O.length = D)
    (hk : 1 ≤ (calls.filter (fun c => decide (c.1.Key = K))).length) :
    ∃ e, entryOf (marshalCalls Init stdTypes s calls) K = some e ∧
      e.Count = some ((calls.filter (fun c => decide (c.1.Key = K))).flatMap
        (fun c => c.2.Count)) ∧
      ((∀ c ∈ calls, c.1.Key = K → c.2.Offsets ≠ none) →
        e.Offsets = some ((calls.filter (fun c => decide (c.1.Key = K))).flatMap
          (fun c => c.2.Offsets.getD []))) ∧
      ((∀ c ∈ calls, c.1.Key = K → c.2.Offsets = none) → e.Offsets = none) ∧
      e.DataBlockLocation.length = (calls.filter (fun c => decide (c.1.Key = K))).length ∧
      ∀ (i : Nat) (h : BP5Serializer × VariableBase × MarshalArgs),
        (callsOn Init stdTypes K s calls)[i]? = some h →
        (deferFlag (writerRecOf h.1 h.2.1 h.2.2) h.2.2 = false →
          ∃ loc, placedAt Init stdTypes h = some loc ∧ e.DataBlockLocation[i]? = some loc) ∧
        (deferFlag (writerRecOf h.1 h.2.1 h.2.2) h.2.2 = true →
          placedAt Init stdTypes h = none ∧ e.DataBlockLocation[i]? = some 0) := by
  obtain ⟨_, _, r⟩ := entryOf_marshalCalls Init stdTypes K calls s hinv hbuf hE
    (fun c hc hk => (hK c hc hk).1)
  have hl := callsOn_length Init stdTypes K calls s
  have hargs := callsOn_args Init stdTypes K calls s
  have hne : ([] : List (BP5Serializer × VariableBase × MarshalArgs)) ++
      callsOn Init stdTypes K s calls ≠ [] := by
    rw [List.nil_append]
    intro h0
    rw [h0] at hl
    simp only [List.length_nil] at hl
    omega
  obtain ⟨e, e1, e2, e3, e4, e5⟩ := foldl_entryStep_blocks Init stdTypes D
    (callsOn Init stdTypes K s calls) [] (entryOf s K)
    (by
      rw [List.nil_append]
      exact callsOn_forall Init stdTypes K (fun c => c.2.DimCount = D ∧ c.2.Count.length = D ∧
        ∀ O, c.2.Offsets = some O → O.length = D) calls s (fun c hc hk => (hK c hc hk).2))
    (Or.inl ⟨rfl, hnew⟩) hne
  rw [List.nil_append] at e2 e3 e4 e5
  have hflat : ∀ (f : VariableBase × MarshalArgs → List Nat),
      (callsOn Init stdTypes K s calls).flatMap (fun h => f h.2) =
        (calls.filter (fun c => decide (c.1.Key = K))).flatMap f := by
    intro f
    rw [← hargs, List.flatMap_map]
  refine ⟨e, r.trans e1, ?_, ?_, ?_, ?_, ?_⟩
  · rw [e2]
    exact congrArg some (hflat (fun c => c.2.Count))
  · intro hall
    rw [e4 (callsOn_forall Init stdTypes K (fun c => c.2.Offsets ≠ none) calls s hall)]
    exact congrArg some (hflat (fun c => c.2.Offsets.getD []))
  · intro hall
    exact e5 (callsOn_forall Init stdTypes K (fun c => c.2.Offsets = none) calls s hall)
  · rw [e3, List.length_map, hl]
  · intro i h hi
    have hmem := List.getElem?_mem hi
    obtain ⟨s1, s2, s3, s4⟩ := callsOn_states Init stdTypes K calls s hinv hbuf hE h hmem
    obtain ⟨buf, hb⟩ := Option.ne_none_iff_exists'.mp s2
    obtain ⟨p1, p2⟩ := placedAt_spec Init stdTypes h buf (hK h.2 s4 s3).1 hb
    have hloc : e.DataBlockLocation[i]? = some (DataOffsetOf h) := by
      rw [e3, List.getElem?_map, hi]
      rfl
    constructor
    · intro hd
      exact ⟨_, p1 hd, hloc⟩
    · intro hd
      obtain ⟨q1, q2⟩ := p2 hd
      exact ⟨q1, by rw [hloc, q2]⟩

/-- Witness of `Marshal_blocks_call_order`: two puts on the variable of scenario
S3, the first copied at once and the second deferred. -/
theorem Marshal_blocks_call_order_witness :
    (RecordsInv S3.writer ∧ entryOf S3.writer 1 = none) ∧
    ∃ e, entryOf (marshalCalls S3.Init (fun _ => true) S3.writer S3.deferredPuts) 1 = some e ∧
      e.Count = some ((S3.deferredPuts.filter (fun c => decide (c.1.Key = 1))).flatMap
        (fun c => c.2.Count)) ∧
      ((∀ c ∈ S3.deferredPuts, c.1.Key = 1 → c.2.Offsets ≠ none) →
        e.Offsets = some ((S3.deferredPuts.filter (fun c => decide (c.1.Key = 1))).flatMap
          (fun c => c.2.Offsets.getD []))) ∧
      ((∀ c ∈ S3.deferredPuts, c.1.Key = 1 → c.2.Offsets = none) → e.Offsets = none) ∧
      e.DataBlockLocation.length =
        (S3.deferredPuts.filter (fun c => decide (c.1.Key = 1))).length ∧
      ∀ (i : Nat) (h : BP5Serializer × VariableBase × MarshalArgs),
        (callsOn S3.Init (fun _ => true) 1 S3.writer S3.deferredPuts)[i]? = some h →
        (deferFlag (writerRecOf h.1 h.2.1 h.2.2) h.2.2 = false →
          ∃ loc, placedAt S3.Init (fun _ => true) h = some loc ∧
            e.DataBlockLocation[i]? = some loc) ∧
        (deferFlag (writerRecOf h.1 h.2.1 h.2.2) h.2.2 = true →
          placedAt S3.Init (fun _ => true) h = none ∧ e.DataBlockLocation[i]? = some 0) :=
  ⟨⟨RecordsInv_of_empty S3.writer rfl (fun _ => rfl), rfl⟩,
    Marshal_blocks_call_order S3.Init (fun _ => true) S3.writer S3.deferredPuts 1 2
      (RecordsInv_of_empty S3.writer rfl (fun _ => rfl)) (by simp [S3.writer]) rfl
      (by decide) (by decide) (by decide)⟩

/-- Claim C12 as stated fails: of two puts of one writer on the variable of
scenario S3, the second is deferred. After both `Marshal` calls the data buffer
holds only the 32 bytes of the first put, at offset 0, and the stored
`DataBlockLocation` is `[0, 0]`: entry 1 is not a location of the data of the
second call, which is nowhere in the buffer yet. `DumpDeferredBlocks` then puts
that data at offset 32 and stores 32 in entry 1. -/
theorem Marshal_deferred_location :
    S3.deferredPuts.map (fun c => c.2.Sync) = [true, false] ∧
    (marshalCalls S3.Init (fun _ => true) S3.writer S3.deferredPuts).CurDataBuffer =
      some ⟨[(0, 32)], 32⟩ ∧
    (entryOf (marshalCalls S3.Init (fun _ => true) S3.writer S3.deferredPuts) 1).map
      (fun e => e.DataBlockLocation) = some [0, 0] ∧
    (DumpDeferredBlocks
      (marshalCalls S3.Init (fun _ => true) S3.writer S3.deferredPuts)).CurDataBuffer =
      some ⟨[(0, 32), (32, 32)], 64⟩ ∧
    (entryOf (DumpDeferredBlocks
      (marshalCalls S3.Init (fun _ => true) S3.writer S3.deferredPuts)) 1).map
      (fun e => e.DataBlockLocation) = some [0, 32] := by
  decide

theorem Lookup_of_mem (s : BP5Serializer) (h : RecordsInv s) (R : BP5WriterRec)
    (hR : R ∈ s.RecList) : LookupWriterRec s R.Key = some R := by
  cases hl : LookupWriterRec s R.Key with
  | none =>
    have := List.find?_eq_none.mp hl R hR
    simp at this
  | some W =>
    have hW : W ∈ s.RecList := List.mem_of_find?_eq_some hl
    have hWK : W.Key = R.Key := by
      have := List.find?_some hl
      simpa using this
    by_cases e : W = R
    · rw [e]
    · exact absurd hWK (RecordsInv_distinct s h W R hW hR e).1

theorem Lookup_after_self (Init : DataType → MinMaxStruct) (stdTypes : MinMaxTypes)
    (s : BP5Serializer) (VB : VariableBase) (a : MarshalArgs) (hE : 0 < a.ElemSize) :
    LookupWriterRec (Marshal Init stdTypes s VB a).1 VB.Key = some (writerRecOf s VB a) := by
  obtain ⟨g1, _⟩ := Marshal_general Init stdTypes s VB a
  unfold LookupWriterRec
  rw [g1]
  rcases afterLookup_cases s VB a with ⟨W, hl, e, _, _⟩ | ⟨hl, e, _⟩
  · rw [writerRecOf, e]
    exact hl
  · obtain ⟨c1, c2, _⟩ := CreateWriterRec_rec s VB a.Name a.Type_ a.ElemSize
      (if VB.m_SingleValue then 0 else a.DimCount) hE
    unfold LookupWriterRec at hl
    rw [writerRecOf, e, c1, List.find?_append, hl]
    simp [c2]

theorem bit_after_Marshal (Init : DataType → MinMaxStruct) (stdTypes : MinMaxTypes)
    (s : BP5Serializer) (VB : VariableBase) (a : MarshalArgs) (K : Nat) (h : RecordsInv s)
    (hE : 0 < a.ElemSize) :
    ((LookupWriterRec (Marshal Init stdTypes s VB a).1 K).map
        (fun R => (Marshal Init stdTypes s VB a).1.BitField R.FieldID)).getD false =
      (decide (VB.Key = K) ||
        ((LookupWriterRec s K).map (fun R => s.BitField R.FieldID)).getD false) := by
  obtain ⟨_, _, g3, _⟩ := Marshal_general Init stdTypes s VB a
  by_cases hK : VB.Key = K
  · rw [← hK, Lookup_after_self Init stdTypes s VB a hE, g3]
    simp
  · rw [Lookup_after_other Init stdTypes s VB a K hE hK, g3]
    cases hl : LookupWriterRec s K with
    | none => simp [hK]
    | some R =>
      have hR : R ∈ s.RecList := List.mem_of_find?_eq_some hl
      have hRK : R.Key = K := by
        have := List.find?_some hl
        simpa using this
      obtain ⟨n1, _⟩ := writerRecOf_ne s VB a h hE R hR (by rw [hRK]; exact fun e => hK e.symm)
      have n1' : ¬ (R.FieldID = (writerRecOf s VB a).FieldID) := fun e => n1 e.symm
      simp [hK, n1']

theorem bit_after_marshalCalls (Init : DataType → MinMaxStruct) (stdTypes : MinMaxTypes)
    (K : Nat) :
    ∀ (calls : List (VariableBase × MarshalArgs)) (s : BP5Serializer),
      RecordsInv s → (∀ c ∈ calls, 0 < c.2.ElemSize) →
      RecordsInv (marshalCalls Init stdTypes s calls) ∧
      (((LookupWriterRec (marshalCalls Init stdTypes s calls) K).map
          (fun R => (marshalCalls Init stdTypes s calls).BitField R.FieldID)).getD false = true ↔
        (((LookupWriterRec s K).map (fun R => s.BitField R.FieldID)).getD false = true ∨
          ∃ c ∈ calls, c.1.Key = K)) ∧
      ((∃ c ∈ calls, c.1.Key = K) →
        LookupWriterRec (marshalCalls Init stdTypes s calls) K ≠ none)
  | [], s, hi, _ => ⟨hi, by simp [marshalCalls], by simp⟩
  | c :: calls, s, hi, hE => by
    have hE1 := hE c (List.mem_cons_self _ _)
    have hi1 := Marshal_inv Init stdTypes s c.1 c.2 hi hE1
    obtain ⟨r1, r2, r3⟩ := bit_after_marshalCalls Init stdTypes K calls
      (Marshal Init stdTypes s c.1 c.2).1 hi1 (fun x hx => hE x (List.mem_cons_of_mem _ hx))
    have hm : marshalCalls Init stdTypes s (c :: calls) =
        marshalCalls Init stdTypes (Marshal Init stdTypes s c.1 c.2).1 calls := rfl
    rw [hm]
    refine ⟨r1, ?_, ?_⟩
    · rw [r2, bit_after_Marshal Init stdTypes s c.1 c.2 K hi hE1]
      simp only [Bool.or_eq_true, decide_eq_true_eq, List.mem_cons, exists_eq_or_imp]
      tauto
    · rintro ⟨x, hx, hxK⟩
      rcases List.mem_cons.mp hx with hx | hx
      · by_cases hex : ∃ c ∈ calls, c.1.Key = K
        · exact r3 hex
        · have hb := (r2.mpr (Or.inl (by
            rw [bit_after_Marshal Init stdTypes s c.1 c.2 K hi hE1]
            rw [hx] at hxK
            simp [hxK])))
          intro hn
          rw [hn] at hb
          simp at hb
      · exact r3 ⟨x, hx, hxK⟩

theorem DumpDeferredBlocks_state (s : BP5Serializer) :
    (DumpDeferredBlocks s).RecList = s.RecList ∧
    (DumpDeferredBlocks s).MetaFields = s.MetaFields ∧
    (DumpDeferredBlocks s).BitField = s.BitField ∧
    (s.CurDataBuffer ≠ none → (DumpDeferredBlocks s).CurDataBuffer ≠ none) := by
  unfold DumpDeferredBlocks
  cases h : s.CurDataBuffer with
  | none => simp
  | some buf => simp

theorem CloseTimestep_state (m_BufferBlockSize : Nat) (s : BP5Serializer)
    (hbuf : s.CurDataBuffer ≠ none) :
    ∃ r, CloseTimestep m_BufferBlockSize s = Except.ok r ∧ (∀ f, r.1.BitField f = false) ∧
      r.1.RecList = s.RecList ∧ r.1.MetaFields = s.MetaFields ∧ r.1.CurDataBuffer = none := by
  obtain ⟨d1, d2, _, d4⟩ := DumpDeferredBlocks_state s
  obtain ⟨buf, hb⟩ := Option.ne_none_iff_exists'.mp hbuf
  obtain ⟨buf2, hb2⟩ := Option.ne_none_iff_exists'.mp (d4 hbuf)
  unfold CloseTimestep
  simp only [hb, hb2]
  exact ⟨_, rfl, fun _ => rfl, d1, d2, rfl⟩

theorem marshalCalls_buffer (Init : DataType → MinMaxStruct) (stdTypes : MinMaxTypes) :
    ∀ (calls : List (VariableBase × MarshalArgs)) (s : BP5Serializer),
      s.CurDataBuffer ≠ none → (marshalCalls Init stdTypes s calls).CurDataBuffer ≠ none
  | [], _, h => h
  | c :: calls, s, h =>
    marshalCalls_buffer Init stdTypes calls (Marshal Init stdTypes s c.1 c.2).1
      ((Marshal_general Init stdTypes s c.1 c.2).2.2.2.2.2.2.1 h)

/-- Claim C13: from the beginning of a step (every bit clear) and after any
`Marshal` calls of the step, every variable put has a record, for every variable
record `R` bit `R.FieldID` of the bitfield is set if and only if one of the calls
was for the variable of `R`, records of distinct variables have distinct field
ids, and `CloseTimestep` returns and leaves every bit clear, with the same
records, for the next step. -/
theorem bitfield_tracks_puts (Init : DataType → MinMaxStruct) (stdTypes : MinMaxTypes)
    (m_BufferBlockSize : Nat) (s : BP5Serializer) (calls : List (VariableBase × MarshalArgs))
    (hinv : RecordsInv s) (hclear : ∀ f, s.BitField f = false)
    (hbuf : s.CurDataBuffer ≠ none) (hE : ∀ c ∈ calls, 0 < c.2.ElemSize) :
    (∀ c ∈ calls, ∃ R ∈ (marshalCalls Init stdTypes s calls).RecList, R.Key = c.1.Key) ∧
    (∀ R ∈ (marshalCalls Init stdTypes s calls).RecList,
      ((marshalCalls Init stdTypes s calls).BitField R.FieldID = true ↔
        ∃ c ∈ calls, c.1.Key = R.Key)) ∧
    (∀ R1 ∈ (marshalCalls Init stdTypes s calls).RecList,
      ∀ R2 ∈ (marshalCalls Init stdTypes s calls).RecList,
        R1.Key ≠ R2.Key → R1.FieldID ≠ R2.FieldID) ∧
    ∃ r, CloseTimestep m_BufferBlockSize (marshalCalls Init stdTypes s calls) = Except.ok r ∧
      (∀ f, r.1.BitField f = false) ∧
      r.1.RecList = (marshalCalls Init stdTypes s calls).RecList ∧ RecordsInv r.1 := by
  have hinv' := (bit_after_marshalCalls Init stdTypes 0 calls s hinv hE).1
  have hbuf' := marshalCalls_buffer Init stdTypes calls s hbuf
  refine ⟨?_, ?_, ?_, ?_⟩
  · intro c hc
    obtain ⟨_, _, r3⟩ := bit_after_marshalCalls Init stdTypes c.1.Key calls s hinv hE
    obtain ⟨R, hR⟩ := Option.ne_none_iff_exists'.mp (r3 ⟨c, hc, rfl⟩)
    refine ⟨R, List.mem_of_find?_eq_some hR, ?_⟩
    have := List.find?_some hR
    simpa using this
  · intro R hR
    obtain ⟨_, r2, _⟩ := bit_after_marshalCalls Init stdTypes R.Key calls s hinv hE
    rw [Lookup_of_mem _ hinv' R hR] at r2
    simp only [Option.map_some', Option.getD_some] at r2
    rw [r2]
    constructor
    · rintro (h | h)
      · cases hl : LookupWriterRec s R.Key with
        | none => simp [hl] at h
        | some W => simp [hl, hclear] at h
      · exact h
    · exact Or.inr
  · intro R1 h1 R2 h2 hk
    exact (RecordsInv_distinct _ hinv' R1 R2 h1 h2 (fun e => hk (by rw [e]))).2.1
  · obtain ⟨r, c1, c2, c3, c4, c5⟩ := CloseTimestep_state m_BufferBlockSize _ hbuf'
    refine ⟨r, c1, c2, c3, ?_⟩
    obtain ⟨i1, i2, i3, _⟩ := hinv'
    refine ⟨?_, ?_, ?_, ?_⟩
    · rw [c3]
      exact i1
    · rw [c3]
      exact i2
    · rw [c3, c4]
      exact i3
    · intro f hf
      rw [c2 f] at hf
      cases hf

/-- Witness of `bitfield_tracks_puts`: a step that puts the array of scenario S3
twice and a scalar once. -/
theorem bitfield_tracks_puts_witness :
    (RecordsInv S3.writer ∧ ∀ f, S3.writer.BitField f = false) ∧
    (∀ c ∈ S3.mixedPuts,
      ∃ R ∈ (marshalCalls S3.Init (fun _ => true) S3.writer S3.mixedPuts).RecList,
        R.Key = c.1.Key) ∧
    (∀ R ∈ (marshalCalls S3.Init (fun _ => true) S3.writer S3.mixedPuts).RecList,
      ((marshalCalls S3.Init (fun _ => true) S3.writer S3.mixedPuts).BitField R.FieldID = true ↔
        ∃ c ∈ S3.mixedPuts, c.1.Key = R.Key)) ∧
    (∀ R1 ∈ (marshalCalls S3.Init (fun _ => true) S3.writer S3.mixedPuts).RecList,
      ∀ R2 ∈ (marshalCalls S3.Init (fun _ => true) S3.writer S3.mixedPuts).RecList,
        R1.Key ≠ R2.Key → R1.FieldID ≠ R2.FieldID) ∧
    ∃ r, CloseTimestep 4096 (marshalCalls S3.Init (fun _ => true) S3.writer S3.mixedPuts) =
        Except.ok r ∧
      (∀ f, r.1.BitField f = false) ∧
      r.1.RecList = (marshalCalls S3.Init (fun _ => true) S3.writer S3.mixedPuts).RecList ∧
      RecordsInv r.1 :=
  ⟨⟨RecordsInv_of_empty S3.writer rfl (fun _ => rfl), fun _ => rfl⟩,
    bitfield_tracks_puts S3.Init (fun _ => true) 4096 S3.writer S3.mixedPuts
      (RecordsInv_of_empty S3.writer rfl (fun _ => rfl)) (fun _ => rfl) (by simp [S3.writer])
      (by decide)⟩

/-! ### Reader side: `ReverseDimensions`, `InstallMetaData` -/

theorem swapDims_spec (D : List Nat) (a b : Nat) (ha : a < D.length) (hb : b < D.length)
    (hab : a ≠ b) :
    ∃ D', swapDims (some D) a b = some (some D') ∧ D'.length = D.length ∧
      ∀ p, D'[p]? = if p = a then D[b]? else if p = b then D[a]? else D[p]? := by
  have ea : D[a]? = some D[a] := List.getElem?_eq_getElem ha
  have eb : D[b]? = some D[b] := List.getElem?_eq_getElem hb
  refine ⟨(D.set a D[b]).set b D[a], ?_, by simp, ?_⟩
  · simp only [swapDims, ea, eb]
  · intro p
    by_cases hpb : p = b
    · subst hpb
      have hne : ¬ (p = a) := fun e => hab e.symm
      rw [if_neg hne, if_pos rfl, List.getElem?_set_self (by simpa using hb), ea]
    · by_cases hpa : p = a
      · subst hpa
        rw [if_pos rfl, List.getElem?_set_ne (fun e => hpb e.symm),
          List.getElem?_set_self ha, eb]
      · rw [if_neg hpa, if_neg hpb, List.getElem?_set_ne (fun e => hpb e.symm),
          List.getElem?_set_ne (fun e => hpa e.symm)]

theorem reverseTuple_spec (Offset count : Nat) (l : List Nat) (hl : Offset + count ≤ l.length) :
    ∀ (n i : Nat) (D : List Nat), i + n ≤ count / 2 → D.length = l.length →
      (∀ p, D[p]? = l[partRev Offset count i p]?) →
      ∃ D', reverseTuple Offset count n i (some D) = some (some D') ∧ D'.length = l.length ∧
        ∀ p, D'[p]? = l[partRev Offset count (i + n) p]?
  | 0, i, D, _, hD, hp => ⟨D, rfl, hD, hp⟩
  | n + 1, i, D, hin, hD, hp => by
    obtain ⟨D1, s1, s2, s3⟩ := swapDims_spec D (Offset + i) (Offset + count - i - 1)
      (by omega) (by omega) (by omega)
    have hp1 : ∀ p, D1[p]? = l[partRev Offset count (i + 1) p]? := by
      intro p
      rw [s3 p]
      by_cases hpa : p = Offset + i
      · rw [if_pos hpa, hp]
        congr 1
        unfold partRev
        rw [if_neg (by omega), if_pos (by omega)]
        omega
      · rw [if_neg hpa]
        by_cases hpb : p = Offset + count - i - 1
        · rw [if_pos hpb, hp]
          congr 1
          unfold partRev
          rw [if_neg (by omega), if_pos (by omega)]
          omega
        · rw [if_neg hpb, hp]
          congr 1
          unfold partRev
          by_cases hc : Offset ≤ p ∧ p < Offset + count ∧ (p < Offset + i ∨ Offset + count ≤ p + i)
          · rw [if_pos hc, if_pos (by omega)]
          · rw [if_neg hc, if_neg (by omega)]
    obtain ⟨D', r1, r2, r3⟩ := reverseTuple_spec Offset count l hl n (i + 1) D1 (by omega)
      (by rw [s2, hD]) hp1
    refine ⟨D', ?_, r2, ?_⟩
    · rw [reverseTuple, s1]
      exact r1
    · intro p
      rw [r3 p]
      congr 2
      omega

theorem partRev_zero (Offset count p : Nat) : partRev Offset count 0 p = p := by
  unfold partRev
  rw [if_neg (by omega)]

theorem div_mod_of_tuple (count j p : Nat) (h1 : j * count ≤ p) (h2 : p < j * count + count) :
    p / count = j ∧ p % count = p - j * count := by
  have hd : p / count = j := Nat.div_eq_of_lt_le h1 (by rw [Nat.succ_mul]; exact h2)
  refine ⟨hd, ?_⟩
  have := Nat.div_add_mod p count
  rw [hd, Nat.mul_comm] at this
  omega

theorem tupRev_succ (count j p : Nat) :
    tupRev count j (partRev (j * count) count (count / 2) p) = tupRev count (j + 1) p := by
  have hs : (j + 1) * count = j * count + count := Nat.succ_mul j count
  by_cases h1 : j * count ≤ p
  · by_cases h2 : p < j * count + count
    · obtain ⟨d1, d2⟩ := div_mod_of_tuple count j p h1 h2
      have hq : partRev (j * count) count (count / 2) p = 2 * (j * count) + count - 1 - p := by
        unfold partRev
        by_cases h3 : p < j * count + count / 2 ∨ j * count + count ≤ p + count / 2
        · rw [if_pos ⟨h1, h2, h3⟩]
        · rw [if_neg (fun h => h3 h.2.2)]
          omega
      rw [hq]
      unfold tupRev
      rw [if_neg (by omega), hs, if_pos h2, d1, d2]
      omega
    · have hq : partRev (j * count) count (count / 2) p = p := by
        unfold partRev
        rw [if_neg (fun h => h2 h.2.1)]
      rw [hq]
      unfold tupRev
      rw [if_neg (by omega), hs, if_neg h2]
  · have hq : partRev (j * count) count (count / 2) p = p := by
      unfold partRev
      rw [if_neg (fun h => h1 h.1)]
    rw [hq]
    unfold tupRev
    rw [hs, if_pos (by omega), if_pos (by omega)]

theorem reverseTuples_spec (count : Nat) (l : List Nat) :
    ∀ (n j : Nat) (D : List Nat), (j + n) * count ≤ l.length → (j + n) * count ≤ INT_MAX →
      D.length = l.length → (∀ p, D[p]? = l[tupRev count j p]?) →
      ∃ D', reverseTuples count n (j * count) (some D) = some (some D') ∧
        D'.length = l.length ∧ ∀ p, D'[p]? = l[tupRev count (j + n) p]?
  | 0, j, D, _, _, hD, hp => ⟨D, rfl, hD, hp⟩
  | n + 1, j, D, hlen, hint, hD, hp => by
    have hs : (j + 1) * count = j * count + count := Nat.succ_mul j count
    have hle : (j + 1) * count ≤ (j + (n + 1)) * count :=
      Nat.mul_le_mul_right count (by omega)
    obtain ⟨D1, s1, s2, s3⟩ := reverseTuple_spec (j * count) count D (by omega)
      (count / 2) 0 D (by omega) rfl (fun p => by rw [partRev_zero])
    have hp1 : ∀ p, D1[p]? = l[tupRev count (j + 1) p]? := by
      intro p
      rw [s3 p, Nat.zero_add, hp, tupRev_succ]
    obtain ⟨D', r1, r2, r3⟩ := reverseTuples_spec count l n (j + 1) D1
      (by rw [Nat.add_assoc, Nat.add_comm 1 n]; exact hlen)
      (by rw [Nat.add_assoc, Nat.add_comm 1 n]; exact hint) (by rw [s2, hD]) hp1
    refine ⟨D', ?_, r2, ?_⟩
    · rw [reverseTuples, if_pos (by omega), s1]
      rw [hs] at r1
      exact r1
    · intro p
      rw [r3 p, Nat.add_assoc, Nat.add_comm 1 n]

theorem tupRev_zero (count p : Nat) : tupRev count 0 p = p := by
  unfold tupRev
  rw [if_neg (by omega)]

theorem tupRev_tupRev (count j p : Nat) : tupRev count j (tupRev count j p) = p := by
  unfold tupRev
  by_cases h : p < j * count
  · have hc : 0 < count := by
      rcases Nat.eq_zero_or_pos count with h0 | h0
      · rw [h0] at h
        simp at h
      · exact h0
    have hr := Nat.mod_lt p hc
    have hq : p / count < j := Nat.div_lt_of_lt_mul (by rw [Nat.mul_comm]; exact h)
    have hdm := Nat.div_add_mod p count
    have hqc : (p / count + 1) * count ≤ j * count := Nat.mul_le_mul_right count hq
    rw [Nat.succ_mul] at hqc
    rw [if_pos h]
    have hlt : p / count * count + (count - 1 - p % count) < j * count := by omega
    rw [if_pos hlt]
    have e1 : (p / count * count + (count - 1 - p % count)) / count = p / count := by
      rw [Nat.add_comm, Nat.add_mul_div_right _ _ hc, Nat.div_eq_of_lt (by omega), Nat.zero_add]
    have e2 : (p / count * count + (count - 1 - p % count)) % count = count - 1 - p % count := by
      rw [Nat.add_comm, Nat.add_mul_mod_self_right, Nat.mod_eq_of_lt (by omega)]
    rw [e1, e2]
    rw [Nat.mul_comm] at hdm
    omega
  · rw [if_neg h, if_neg h]

theorem ReverseDimensions_spec (Dimensions : List Nat) (count times : Nat)
    (hlen : count * times ≤ Dimensions.length) (hint : count * times ≤ INT_MAX) :
    ∃ D', ReverseDimensions (some Dimensions) count times = some (some D') ∧
      D'.length = Dimensions.length ∧ ∀ p, D'[p]? = Dimensions[tupRev count times p]? := by
  have h := reverseTuples_spec count Dimensions times 0 Dimensions
    (by rw [Nat.zero_add, Nat.mul_comm]; exact hlen)
    (by rw [Nat.zero_add, Nat.mul_comm]; exact hint) rfl (fun p => by rw [tupRev_zero])
  rw [Nat.zero_mul, Nat.zero_add] at h
  exact h

/-- Claim C14: for every array that holds `times` tuples of length `count`
(indexed within the range of `int`), `ReverseDimensions(dims, count, times)`
returns with each of the `times` tuples in reverse order and the rest of the
array unchanged, and applying it a second time yields the original array. -/
theorem ReverseDimensions_twice (Dimensions : List Nat) (count times : Nat)
    (hlen : count * times ≤ Dimensions.length) (hint : count * times ≤ INT_MAX) :
    ∃ D', ReverseDimensions (some Dimensions) count times = some (some D') ∧
      (∀ j r, j < times → r < count →
        D'[j * count + r]? = Dimensions[j * count + (count - 1 - r)]?) ∧
      (∀ p, count * times ≤ p → D'[p]? = Dimensions[p]?) ∧
      ReverseDimensions (some D') count times = some (some Dimensions) := by
  obtain ⟨D1, a1, a2, a3⟩ := ReverseDimensions_spec Dimensions count times hlen hint
  obtain ⟨D2, b1, b2, b3⟩ := ReverseDimensions_spec D1 count times (by rw [a2]; exact hlen) hint
  refine ⟨D1, a1, ?_, ?_, ?_⟩
  · intro j r hj hr
    rw [a3]
    congr 1
    have hjc : (j + 1) * count ≤ times * count := Nat.mul_le_mul_right count hj
    rw [Nat.succ_mul] at hjc
    obtain ⟨d1, d2⟩ := div_mod_of_tuple count j (j * count + r) (by omega) (by omega)
    unfold tupRev
    rw [if_pos (by omega), d1, d2]
    omega
  · intro p hp
    rw [a3]
    congr 1
    unfold tupRev
    rw [if_neg (by rw [Nat.mul_comm]; omega)]
  · rw [b1]
    congr 2
    apply List.ext_getElem?
    intro p
    rw [b3, a3, tupRev_tupRev]

/-- Witness of `ReverseDimensions_twice`: two tuples of length 3 in an array of
seven elements. -/
theorem ReverseDimensions_twice_witness :
    ∃ D', ReverseDimensions (some [1, 2, 3, 4, 5, 6, 7]) 3 2 = some (some D') ∧
      (∀ j r, j < 2 → r < 3 →
        D'[j * 3 + r]? = [1, 2, 3, 4, 5, 6, 7][j * 3 + (3 - 1 - r)]?) ∧
      (∀ p, 3 * 2 ≤ p → D'[p]? = [1, 2, 3, 4, 5, 6, 7][p]?) ∧
      ReverseDimensions (some D') 3 2 = some (some [1, 2, 3, 4, 5, 6, 7]) :=
  ReverseDimensions_twice [1, 2, 3, 4, 5, 6, 7] 3 2 (by decide) (by decide)

theorem installArrayField_present (W R : Bool) (m : MetaArrayRecOperator) (S C O : List Nat)
    (hD : 1 < m.Dims) (hWR : W ≠ R) (hS : m.Shape = some S) (hC : m.Count = some C)
    (hO : m.Offsets = some O) (hSl : m.Dims ≤ S.length)
    (hCl : m.Dims * (m.DBCount / m.Dims) ≤ C.length)
    (hOl : m.Dims * (m.DBCount / m.Dims) ≤ O.length)
    (hint : m.Dims * (m.DBCount / m.Dims) ≤ INT_MAX) (hint1 : m.Dims ≤ INT_MAX) :
    ∃ S' C' O', installArrayField W R m =
        some { m with Shape := some S', Count := some C', Offsets := some O' } ∧
      (∀ p, S'[p]? = S[tupRev m.Dims 1 p]?) ∧
      (∀ p, C'[p]? = C[tupRev m.Dims (m.DBCount / m.Dims) p]?) ∧
      (∀ p, O'[p]? = O[tupRev m.Dims (m.DBCount / m.Dims) p]?) := by
  obtain ⟨S', s1, _, s3⟩ := ReverseDimensions_spec S m.Dims 1 (by omega) (by omega)
  obtain ⟨C', c1, _, c3⟩ := ReverseDimensions_spec C m.Dims (m.DBCount / m.Dims) hCl hint
  obtain ⟨O', o1, _, o3⟩ := ReverseDimensions_spec O m.Dims (m.DBCount / m.Dims) hOl hint
  refine ⟨S', C', O', ?_, s3, c3, o3⟩
  have hD0 : m.Dims ≠ 0 := by omega
  simp only [installArrayField, hD0, ne_eq, not_false_eq_true, if_true, hS, hC, hO, s1, c1, o1,
    gt_iff_lt, hD, hWR, and_self]

theorem installArrayField_same (W R : Bool) (m : MetaArrayRecOperator)
    (h : m.Dims ≤ 1 ∨ W = R) : installArrayField W R m = some m := by
  unfold installArrayField
  rw [if_neg]
  rintro ⟨h1, h2⟩
  rcases h with h | h
  · omega
  · exact h2 h

set_option maxRecDepth 100000 in
/-- Claim C15 at a local array: the metadata that `Marshal` stores for a put on
a local array has a null `Shape` and null `Offsets`. With two dimensions and a
column-major reader of a row-major writer, the first `ReverseDimensions` call of
`InstallMetaData` reads through the null `Shape`, so the installation of the
field has no result, while for readers of the same majorness it leaves the
field as written, and for a global array of the other majorness it reverses
each tuple once. -/
theorem InstallMetaData_local_array :
    (entryOf (marshalCalls S3.Init (fun _ => true) S3.writer [(S3.variable, S3.localPut)]) 1).map
      (fun e => (e.Dims, e.DBCount, e.Count)) = some (2, 2, some [1, 8]) ∧
    (entryOf (marshalCalls S3.Init (fun _ => true) S3.writer [(S3.variable, S3.localPut)]) 1).map
      (fun e => (e.Shape, e.Offsets)) = some S3.nullPair ∧
    ReverseDimensions S3.localMeta.Shape S3.localMeta.Dims 1 = none ∧
    installArrayField true false S3.localMeta = none ∧
    installArrayField true true S3.localMeta = some S3.localMeta ∧
    installArrayField true false S3.meta1 = some S3.meta1Reversed := by
  decide

/-! ### Queueing a Get: `QueueGet`, `QueueGetSingle` with the value branches -/

/-- Claim C16 at scenario S1: writer 0 put 42 and writer 1 put 7. For the
global value, `QueueGet` with block selection 0 copies 42 to the destination,
and with block selection 1 it copies 42 again, not 7: the loop of
`QueueGetSingle` starts at writer 0 and `GetSingleValueFromMetadata` reads the
value of the rank it was called with. For the local value the block selection
is not read either: the values of both writers are copied to the destination
and the element behind it, for selection 0 and for selection 1. -/
theorem QueueGet_scalar_block_selection :
    (QueueGet S1.reader 0 [] GetState.empty (S1.blockGet 0) S1.var 1000).1.Memory 1000 =
      some 42 ∧
    (QueueGet S1.reader 0 [] GetState.empty (S1.blockGet 1) S1.var 1000).1.Memory 1000 =
      some 42 ∧
    S1.reader.GetMetadataValue S1.var 0 1 = some 7 ∧
    (GetSingleValueFromMetadata S1.reader GetState.empty.Memory S1.var 1000 0 0).1 1000 =
      some 42 ∧
    ((QueueGet S1.reader 0 [] GetState.empty (S1.localBlockGet 0) S1.localVar 1000).1.Memory 1000,
      (QueueGet S1.reader 0 [] GetState.empty (S1.localBlockGet 0) S1.localVar 1000).1.Memory 1004)
      = (some 42, some 7) ∧
    ((QueueGet S1.reader 0 [] GetState.empty (S1.localBlockGet 1) S1.localVar 1000).1.Memory 1000,
      (QueueGet S1.reader 0 [] GetState.empty (S1.localBlockGet 1) S1.localVar 1000).1.Memory 1004)
      = (some 42, some 7) := by
  decide

/-! ### Statistics of scalar variables -/

theorem firstValue_head (d : Deserializer) (VarRec : BP5VarRec) (Step : Nat) :
    ∀ (ranks : List Nat),
      firstValue d VarRec Step ranks =
        (ranks.flatMap (fun WriterRank =>
          match d.GetMetadataValue VarRec Step WriterRank with
          | none => []
          | some v => [v])).head?
  | [] => rfl
  | w :: ranks => by
    rw [firstValue, List.flatMap_cons]
    cases h : d.GetMetadataValue VarRec Step w with
    | none => simpa using firstValue_head d VarRec Step ranks
    | some v => simp

theorem VariableMinMax_value_eq (d : Deserializer) (Init : DataType → MinMaxStruct)
    (VarRec : BP5VarRec) (Step : Nat) (hstep : Step ≠ DefaultSizeT) :
    (VarRec.OrigShapeID = ShapeID.LocalValue →
      VariableMinMax d Init VarRec Step =
        (valueSlots d VarRec Step).foldl (fun mm e => ApplyElementMinMax mm VarRec.Type_ e)
          (Init VarRec.Type_)) ∧
    (VarRec.OrigShapeID = ShapeID.GlobalValue →
      VariableMinMax d Init VarRec Step =
        match (valueSlots d VarRec Step).head? with
        | some v => ApplyElementMinMax (Init VarRec.Type_) VarRec.Type_ v
        | none => Init VarRec.Type_) := by
  have h1 : List.range' Step (Step + 1 - Step) = [Step] := by
    rw [Nat.add_sub_cancel_left]
    rfl
  constructor
  · intro hs
    simp only [VariableMinMax, hs, hstep, h1, List.foldl_cons, List.foldl_nil, stepMinMax,
      if_false, if_true, reduceCtorEq, or_self, false_and]
    rw [valueSlots, foldl_flatMap_eq]
    congr 1
    funext mm w
    cases d.GetMetadataValue VarRec Step w with
    | none => rfl
    | some v => rfl
  · intro hs
    simp only [VariableMinMax, hs, hstep, h1, List.foldl_cons, List.foldl_nil, stepMinMax,
      if_false, if_true, reduceCtorEq, or_self, false_and]
    rw [firstValue_head, valueSlots]

/-- Claim C17, amended: for a scalar variable of an integer type that at least
one writer put on step `s` (the sentinels of `MinMaxStruct::Init` lying at or
beyond every value), `VariableMinMax(var, s)` returns for a local value the
minimum and the maximum over the values put by all writers on that step, and
for a global value the value of the lowest-rank writer that put it, as the
minimum and as the maximum. -/
theorem VariableMinMax_scalar (d : Deserializer) (Init : DataType → MinMaxStruct)
    (VarRec : BP5VarRec) (Step : Nat) (hT : VarRec.Type_.isInteger = true)
    (hstep : Step ≠ DefaultSizeT) (hne : valueSlots d VarRec Step ≠ [])
    (hInit : ∀ v ∈ valueSlots d VarRec Step,
      v ≤ (Init VarRec.Type_).MinUnion ∧ (Init VarRec.Type_).MaxUnion ≤ v) :
    (VarRec.OrigShapeID = ShapeID.LocalValue →
      (∀ v ∈ valueSlots d VarRec Step,
        (VariableMinMax d Init VarRec Step).MinUnion ≤ v ∧
          v ≤ (VariableMinMax d Init VarRec Step).MaxUnion) ∧
      (VariableMinMax d Init VarRec Step).MinUnion ∈ valueSlots d VarRec Step ∧
      (VariableMinMax d Init VarRec Step).MaxUnion ∈ valueSlots d VarRec Step) ∧
    (VarRec.OrigShapeID = ShapeID.GlobalValue →
      ∃ v, (valueSlots d VarRec Step).head? = some v ∧
        VariableMinMax d Init VarRec Step = ⟨v, v⟩) := by
  obtain ⟨e1, e2⟩ := VariableMinMax_value_eq d Init VarRec Step hstep
  obtain ⟨v0, hv0⟩ := List.exists_mem_of_ne_nil _ hne
  constructor
  · intro hs
    rw [e1 hs]
    obtain ⟨⟨a1, a2⟩, b, c1, c2⟩ := foldl_apply_bounds VarRec.Type_ hT
      (valueSlots d VarRec Step) (Init VarRec.Type_)
    refine ⟨b, ?_, ?_⟩
    · rcases c1 with h | h
      · have hb := (b v0 hv0).1
        have hi := (hInit v0 hv0).1
        have : (List.foldl (fun mm e => ApplyElementMinMax mm VarRec.Type_ e)
            (Init VarRec.Type_) (valueSlots d VarRec Step)).MinUnion = v0 := by omega
        rw [this]
        exact hv0
      · exact h
    · rcases c2 with h | h
      · have hb := (b v0 hv0).2
        have hi := (hInit v0 hv0).2
        have : (List.foldl (fun mm e => ApplyElementMinMax mm VarRec.Type_ e)
            (Init VarRec.Type_) (valueSlots d VarRec Step)).MaxUnion = v0 := by omega
        rw [this]
        exact hv0
      · exact h
  · intro hs
    rw [e2 hs]
    cases hl : valueSlots d VarRec Step with
    | nil => exact absurd hl hne
    | cons v rest =>
      have hi := hInit v (by rw [hl]; exact List.mem_cons_self _ _)
      refine ⟨v, rfl, ?_⟩
      simp only [List.head?_cons]
      rw [ApplyElementMinMax_integer _ _ _ hT, min_eq_right hi.1, max_eq_right hi.2]

/-- Witness of `VariableMinMax_scalar`: scenario S1, where the result is
`(7, 42)` for the local value and `(42, 42)` for the global value. -/
theorem VariableMinMax_scalar_witness :
    ((∀ v ∈ valueSlots S1.reader S1.localVar 0,
        (VariableMinMax S1.reader S3.Init S1.localVar 0).MinUnion ≤ v ∧
          v ≤ (VariableMinMax S1.reader S3.Init S1.localVar 0).MaxUnion) ∧
      (VariableMinMax S1.reader S3.Init S1.localVar 0).MinUnion ∈
        valueSlots S1.reader S1.localVar 0 ∧
      (VariableMinMax S1.reader S3.Init S1.localVar 0).MaxUnion ∈
        valueSlots S1.reader S1.localVar 0) ∧
    VariableMinMax S1.reader S3.Init S1.localVar 0 = ⟨7, 42⟩ :=
  ⟨(VariableMinMax_scalar S1.reader S3.Init S1.localVar 0 rfl (by decide) (by decide)
      (by decide)).1 rfl, by decide⟩

/-- Claim C17 as stated fails for a global value: in scenario S1, where writer
0 put 42 and writer 1 put 7, `VariableMinMax` returns minimum 42 and maximum
42, not minimum 7. -/
theorem VariableMinMax_global_value_first :
    valueSlots S1.reader S1.var 0 = [42, 7] ∧
    VariableMinMax S1.reader S3.Init S1.var 0 = ⟨42, 42⟩ := by
  decide

theorem QueueGetSingle_nil (P : List BP5ArrayRequest) (v : GetVariable) (V : BP5VarRec)
    (S : Nat) : QueueGetSingle P v V S = P ++ QueueGetSingle [] v V S := by
  unfold QueueGetSingle
  split_ifs <;> simp

theorem QueueGetSingle_array (v : GetVariable) (V : BP5VarRec) (S : Nat)
    (h1 : V.OrigShapeID ≠ ShapeID.GlobalValue) (h2 : V.OrigShapeID ≠ ShapeID.LocalValue) :
    (pushes v = true →
      ∃ req, QueueGetSingle [] v V S = [req] ∧ req.Step = S ∧ req.VarRec = V) ∧
    (pushes v = false → QueueGetSingle [] v V S = []) := by
  unfold QueueGetSingle pushes
  rw [if_neg h1, if_neg h2]
  constructor
  · intro hp
    rw [decide_eq_true_eq] at hp
    by_cases hg : v.m_SelectionType = SelectionType.BoundingBox ∧ v.m_ShapeID = ShapeID.GlobalArray
    · rw [if_pos hg]
      exact ⟨_, rfl, rfl, rfl⟩
    · rw [if_neg hg]
      rcases hp with hp | hp
      · exact absurd hp hg
      · rw [if_pos hp]
        exact ⟨_, rfl, rfl, rfl⟩
  · intro hp
    rw [decide_eq_false_iff_not] at hp
    rw [if_neg (fun h => hp (Or.inl h)), if_neg (fun h => hp (Or.inr h))]

theorem QueueGetSingleData_array (d : Deserializer) (st : GetState) (v : VariableGet)
    (V : BP5VarRec) (D S : Nat)
    (h1 : V.OrigShapeID ≠ ShapeID.GlobalValue) (h2 : V.OrigShapeID ≠ ShapeID.LocalValue) :
    (QueueGetSingleData d st v V D S).1.PendingRequests =
      st.PendingRequests ++ QueueGetSingle [] v.toGetVariable V S ∧
    (QueueGetSingleData d st v V D S).1.RequestData =
      st.RequestData ++ (if pushes v.toGetVariable then [D] else []) ∧
    (QueueGetSingleData d st v V D S).1.Memory = st.Memory ∧
    (QueueGetSingleData d st v V D S).2 = true := by
  unfold QueueGetSingleData
  rw [if_neg h1, if_neg h2]
  refine ⟨QueueGetSingle_nil _ _ _ _, ?_, rfl, rfl⟩
  cases pushes v.toGetVariable <;> simp

theorem QueueGetSingleData_value (d : Deserializer) (st : GetState) (v : VariableGet)
    (V : BP5VarRec) (D S : Nat)
    (h : V.OrigShapeID = ShapeID.GlobalValue ∨ V.OrigShapeID = ShapeID.LocalValue) :
    (QueueGetSingleData d st v V D S).1.PendingRequests = st.PendingRequests ∧
    (QueueGetSingleData d st v V D S).1.RequestData = st.RequestData ∧
    (QueueGetSingleData d st v V D S).2 = false := by
  unfold QueueGetSingleData
  rcases h with h | h
  · rw [if_pos h]
    exact ⟨rfl, rfl, rfl⟩
  · have hg : ¬ (V.OrigShapeID = ShapeID.GlobalValue) := by
      rw [h]
      decide
    rw [if_neg hg, if_pos h]
    exact ⟨rfl, rfl, rfl⟩

theorem queueStep_fold_array (d : Deserializer) (A : List Nat) (v : VariableGet)
    (V : BP5VarRec)
    (h1 : V.OrigShapeID ≠ ShapeID.GlobalValue) (h2 : V.OrigShapeID ≠ ShapeID.LocalValue) :
    ∀ (L : List Nat) (st : GetState) (D : Nat) (ret : Bool),
      (L.foldl (queueStep d A v V) (st, D, ret)).1.PendingRequests =
        st.PendingRequests ++ (L.filter (fun R => wroteOn d V (A.getD R 0))).flatMap
          (fun R => QueueGetSingle [] v.toGetVariable V (A.getD R 0)) ∧
      (L.foldl (queueStep d A v V) (st, D, ret)).1.RequestData =
        st.RequestData ++ (if pushes v.toGetVariable then
          (List.range (L.filter (fun R => wroteOn d V (A.getD R 0))).length).map
            (fun k => D + k * ((v.TotalSize * v.m_ElementSize) % 2 ^ 64))
          else []) ∧
      (L.foldl (queueStep d A v V) (st, D, ret)).1.Memory = st.Memory ∧
      (L.foldl (queueStep d A v V) (st, D, ret)).2.2 =
        (if L.filter (fun R => wroteOn d V (A.getD R 0)) = [] then ret else true)
  | [], st, D, ret => by simp
  | R :: L, st, D, ret => by
    rw [List.foldl_cons, List.filter_cons]
    by_cases hw : wroteOn d V (A.getD R 0) = true
    · obtain ⟨q1, q2, q3, q4⟩ := QueueGetSingleData_array d st v V D (A.getD R 0) h1 h2
      have hs : queueStep d A v V (st, D, ret) R =
          ((QueueGetSingleData d st v V D (A.getD R 0)).1,
            D + (v.TotalSize * v.m_ElementSize) % 2 ^ 64, true) := by
        simp only [queueStep, hw, if_true, q4]
      obtain ⟨r1, r2, r3, r4⟩ := queueStep_fold_array d A v V h1 h2 L
        (QueueGetSingleData d st v V D (A.getD R 0)).1
        (D + (v.TotalSize * v.m_ElementSize) % 2 ^ 64) true
      rw [hs, if_pos hw, r1, r2, r3, r4, q1, q2, q3]
      refine ⟨by simp, ?_, rfl, by simp⟩
      cases hp : pushes v.toGetVariable with
      | false => simp
      | true =>
        simp only [if_true, List.length_cons, List.append_assoc, List.singleton_append,
          List.range_succ_eq_map, List.map_cons, List.map_map, Nat.zero_mul, Nat.add_zero]
        congr 2
        apply List.map_congr_left
        intro k _
        simp only [Function.comp, Nat.succ_mul]
        omega
    · have hs : queueStep d A v V (st, D, ret) R = (st, D, ret) := by
        simp only [queueStep, hw, Bool.false_eq_true, if_false]
      rw [hs, if_neg hw]
      exact queueStep_fold_array d A v V h1 h2 L st D ret

theorem queueStep_fold_value (d : Deserializer) (A : List Nat) (v : VariableGet)
    (V : BP5VarRec)
    (h : V.OrigShapeID = ShapeID.GlobalValue ∨ V.OrigShapeID = ShapeID.LocalValue) :
    ∀ (L : List Nat) (st : GetState) (D : Nat),
      (L.foldl (queueStep d A v V) (st, D, false)).1.PendingRequests = st.PendingRequests ∧
      (L.foldl (queueStep d A v V) (st, D, false)).1.RequestData = st.RequestData ∧
      (L.foldl (queueStep d A v V) (st, D, false)).2.2 = false
  | [], st, D => ⟨rfl, rfl, rfl⟩
  | R :: L, st, D => by
    rw [List.foldl_cons]
    by_cases hw : wroteOn d V (A.getD R 0) = true
    · obtain ⟨q1, q2, q3⟩ := QueueGetSingleData_value d st v V D (A.getD R 0) h
      have hs : queueStep d A v V (st, D, false) R =
          ((QueueGetSingleData d st v V D (A.getD R 0)).1,
            D + (v.TotalSize * v.m_ElementSize) % 2 ^ 64, false) := by
        simp only [queueStep, hw, if_true, q3]
      obtain ⟨r1, r2, r3⟩ := queueStep_fold_value d A v V h L
        (QueueGetSingleData d st v V D (A.getD R 0)).1
        (D + (v.TotalSize * v.m_ElementSize) % 2 ^ 64)
      rw [hs, r1, r2, r3, q1, q2]
      exact ⟨rfl, rfl, rfl⟩
    · have hs : queueStep d A v V (st, D, false) R = (st, D, false) := by
        simp only [queueStep, hw, Bool.false_eq_true, if_false]
      rw [hs]
      exact queueStep_fold_value d A v V h L st D

theorem flatMap_singletons {α β : Type} (f : α → List β) (P : α → β → Prop) :
    ∀ (L : List α), (∀ R ∈ L, ∃ req, f R = [req] ∧ P R req) →
      (L.flatMap f).length = L.length ∧
      ∀ (k : Nat) (R : α), L[k]? = some R → ∃ req, (L.flatMap f)[k]? = some req ∧ P R req
  | [], _ => ⟨rfl, fun k R h => by simp at h⟩
  | x :: L, h => by
    obtain ⟨req, e, p⟩ := h x (List.mem_cons_self _ _)
    obtain ⟨l1, l2⟩ := flatMap_singletons f P L (fun R hR => h R (List.mem_cons_of_mem _ hR))
    rw [List.flatMap_cons, e]
    refine ⟨by simp [l1], ?_⟩
    intro k R hk
    cases k with
    | zero =>
      simp only [List.getElem?_cons_zero, Option.some.injEq] at hk
      subst hk
      exact ⟨req, by simp, p⟩
    | succ k =>
      simp only [List.getElem?_cons_succ] at hk
      obtain ⟨r, r1, r2⟩ := l2 k R hk
      exact ⟨r, by simpa using r1, r2⟩

/-- Claim C18: in random-access mode, for an array variable whose selection
`QueueGetSingle` serves and with `StepsStart + StepsCount` not beyond the
relative steps of the variable, `QueueGet` appends exactly `StepsCount` requests
to the pending queue; the `k`-th is for the absolute step
`AbsStepFromRel[StepsStart + k]` and has the destination
`DestData + k * TotalSize * ElementSize`, and the call returns true when
`StepsCount > 0`. Every step of `AbsStepFromRel` is one on which some writer
wrote the variable. -/
theorem QueueGet_random_access (d : Deserializer) (CurTimestep : Nat)
    (AbsStepFromRel : List Nat) (st : GetState) (variable_ : VariableGet) (VarRec : BP5VarRec)
    (DestData : Nat) (hRA : d.m_RandomAccessMode = true)
    (h1 : VarRec.OrigShapeID ≠ ShapeID.GlobalValue)
    (h2 : VarRec.OrigShapeID ≠ ShapeID.LocalValue)
    (hpush : pushes variable_.toGetVariable = true)
    (hsteps : variable_.m_StepsStart + variable_.m_StepsCount ≤ AbsStepFromRel.length)
    (hsize : AbsStepFromRel.length < 2 ^ 64)
    (hinc : variable_.TotalSize * variable_.m_ElementSize < 2 ^ 64)
    (hwrote : ∀ S ∈ AbsStepFromRel, wroteOn d VarRec S = true) :
    ∃ new newData,
      (QueueGet d CurTimestep AbsStepFromRel st variable_ VarRec DestData).1.PendingRequests =
        st.PendingRequests ++ new ∧
      (QueueGet d CurTimestep AbsStepFromRel st variable_ VarRec DestData).1.RequestData =
        st.RequestData ++ newData ∧
      new.length = variable_.m_StepsCount ∧ newData.length = variable_.m_StepsCount ∧
      (∀ k, k < variable_.m_StepsCount →
        ∃ req, new[k]? = some req ∧
          AbsStepFromRel[variable_.m_StepsStart + k]? = some req.Step ∧ req.VarRec = VarRec ∧
          newData[k]? =
            some (DestData + k * (variable_.TotalSize * variable_.m_ElementSize))) ∧
      (QueueGet d CurTimestep AbsStepFromRel st variable_ VarRec DestData).2 =
        Except.ok (decide (0 < variable_.m_StepsCount)) := by
  have hmod : (variable_.m_StepsStart + variable_.m_StepsCount) % 2 ^ 64 =
      variable_.m_StepsStart + variable_.m_StepsCount := Nat.mod_eq_of_lt (by omega)
  have hq : QueueGet d CurTimestep AbsStepFromRel st variable_ VarRec DestData =
      (((List.range' variable_.m_StepsStart variable_.m_StepsCount).foldl
          (queueStep d AbsStepFromRel variable_ VarRec) (st, DestData, false)).1,
        Except.ok ((List.range' variable_.m_StepsStart variable_.m_StepsCount).foldl
          (queueStep d AbsStepFromRel variable_ VarRec) (st, DestData, false)).2.2) := by
    simp only [QueueGet, hRA, not_true_eq_false, if_false, hmod, gt_iff_lt,
      Nat.not_lt.mpr hsteps, Nat.add_sub_cancel_left]
  have hin : ∀ R ∈ List.range' variable_.m_StepsStart variable_.m_StepsCount,
      wroteOn d VarRec (AbsStepFromRel.getD R 0) = true := by
    intro R hR
    rw [List.mem_range'_1] at hR
    have hlt : R < AbsStepFromRel.length := by omega
    apply hwrote
    rw [List.getD_eq_getElem?_getD, List.getElem?_eq_getElem hlt, Option.getD_some]
    exact List.getElem_mem hlt
  have hfil : (List.range' variable_.m_StepsStart variable_.m_StepsCount).filter
      (fun R => wroteOn d VarRec (AbsStepFromRel.getD R 0)) =
      List.range' variable_.m_StepsStart variable_.m_StepsCount :=
    List.filter_eq_self.mpr hin
  obtain ⟨f1, f2, _, f4⟩ := queueStep_fold_array d AbsStepFromRel variable_ VarRec h1 h2
    (List.range' variable_.m_StepsStart variable_.m_StepsCount) st DestData false
  rw [hfil] at f1 f2 f4
  rw [hpush, if_pos rfl, List.length_range', Nat.mod_eq_of_lt hinc] at f2
  obtain ⟨l1, l2⟩ := flatMap_singletons
    (fun R => QueueGetSingle [] variable_.toGetVariable VarRec (AbsStepFromRel.getD R 0))
    (fun R req => req.Step = AbsStepFromRel.getD R 0 ∧ req.VarRec = VarRec)
    (List.range' variable_.m_StepsStart variable_.m_StepsCount)
    (fun R _ => (QueueGetSingle_array variable_.toGetVariable VarRec _ h1 h2).1 hpush)
  rw [hq]
  refine ⟨_, _, f1, f2, ?_, by simp, ?_, ?_⟩
  · rw [l1, List.length_range']
  · intro k hk
    have hk' : (List.range' variable_.m_StepsStart variable_.m_StepsCount)[k]? =
        some (variable_.m_StepsStart + k) := by
      rw [List.getElem?_range' _ _ hk]
      simp
    obtain ⟨req, r1, r2, r3⟩ := l2 k _ hk'
    refine ⟨req, r1, ?_, r3, ?_⟩
    · have hlt : variable_.m_StepsStart + k < AbsStepFromRel.length := by omega
      rw [r2, List.getD_eq_getElem?_getD, List.getElem?_eq_getElem hlt, Option.getD_some]
    · rw [List.getElem?_map, List.getElem?_range hk]
      rfl
  · simp only
    rw [f4]
    congr 1
    by_cases hc : variable_.m_StepsCount = 0
    · simp [hc]
    · have : List.range' variable_.m_StepsStart variable_.m_StepsCount ≠ [] := by
        intro h0
        have := congrArg List.length h0
        rw [List.length_range'] at this
        exact hc this
      simp [this, Nat.pos_of_ne_zero hc]

/-- Witness of `QueueGet_random_access`: scenario S6, a variable written on the
steps 0, 2 and 4, read with `StepsStart = 1` and `StepsCount = 2`. -/
theorem QueueGet_random_access_witness :
    ((QueueGet S6.reader 0 S6.AbsStepFromRel GetState.empty S6.getVariable S3.var
        1000).1.PendingRequests.map (fun req => req.Step) = [2, 4] ∧
      (QueueGet S6.reader 0 S6.AbsStepFromRel GetState.empty S6.getVariable S3.var
        1000).1.RequestData = [1000, 1032]) ∧
    ∃ new newData,
      (QueueGet S6.reader 0 S6.AbsStepFromRel GetState.empty S6.getVariable S3.var
        1000).1.PendingRequests = GetState.empty.PendingRequests ++ new ∧
      (QueueGet S6.reader 0 S6.AbsStepFromRel GetState.empty S6.getVariable S3.var
        1000).1.RequestData = GetState.empty.RequestData ++ newData ∧
      new.length = S6.getVariable.m_StepsCount ∧ newData.length = S6.getVariable.m_StepsCount ∧
      (∀ k, k < S6.getVariable.m_StepsCount →
        ∃ req, new[k]? = some req ∧
          S6.AbsStepFromRel[S6.getVariable.m_StepsStart + k]? = some req.Step ∧
          req.VarRec = S3.var ∧
          newData[k]? =
            some (1000 + k * (S6.getVariable.TotalSize * S6.getVariable.m_ElementSize))) ∧
      (QueueGet S6.reader 0 S6.AbsStepFromRel GetState.empty S6.getVariable S3.var 1000).2 =
        Except.ok (decide (0 < S6.getVariable.m_StepsCount)) :=
  ⟨by decide,
    QueueGet_random_access S6.reader 0 S6.AbsStepFromRel GetState.empty S6.getVariable S3.var
      1000 rfl (by decide) (by decide) (by decide) (by decide) (by decide) (by decide)
      (by decide)⟩

theorem globalValueLoop_spec (d : Deserializer) (V : BP5VarRec) (D S : Nat) :
    ∀ (ranks : List Nat) (M : Nat → Option Int),
      globalValueLoop d V D S ranks M =
        match firstValue d V S ranks with
        | some v => fun a => if a = D then some v else M a
        | none => M
  | [], M => rfl
  | w :: ranks, M => by
    rw [globalValueLoop, firstValue]
    cases h : d.GetMetadataValue V S w with
    | none =>
      simp only [GetSingleValueFromMetadata, h, Bool.false_eq_true, if_false]
      exact globalValueLoop_spec d V D S ranks M
    | some v => simp only [GetSingleValueFromMetadata, h, if_true]

theorem localValueLoop_frame (d : Deserializer) (V : BP5VarRec) (E S : Nat) :
    ∀ (ranks : List Nat) (D : Nat) (M : Nat → Option Int) (a : Nat), a < D →
      localValueLoop d V E S ranks D M a = M a
  | [], _, _, _, _ => rfl
  | w :: ranks, D, M, a, ha => by
    rw [localValueLoop, localValueLoop_frame d V E S ranks (D + E) _ a (by omega)]
    unfold GetSingleValueFromMetadata
    cases d.GetMetadataValue V S w with
    | none => rfl
    | some v =>
      simp only
      rw [if_neg (by omega)]

theorem localValueLoop_spec (d : Deserializer) (V : BP5VarRec) (E S : Nat) (hE : 0 < E) :
    ∀ (ranks : List Nat) (D : Nat) (M : Nat → Option Int) (k w : Nat) (v : Int),
      ranks[k]? = some w → d.GetMetadataValue V S w = some v →
      localValueLoop d V E S ranks D M (D + k * E) = some v
  | [], _, _, k, _, _, h, _ => by simp at h
  | x :: ranks, D, M, 0, w, v, h, hv => by
    simp only [List.getElem?_cons_zero, Option.some.injEq] at h
    subst h
    rw [localValueLoop, Nat.zero_mul, Nat.add_zero,
      localValueLoop_frame d V E S ranks (D + E) _ D (by omega)]
    simp only [GetSingleValueFromMetadata, hv, if_true]
  | x :: ranks, D, M, k + 1, w, v, h, hv => by
    simp only [List.getElem?_cons_succ] at h
    have := localValueLoop_spec d V E S hE ranks (D + E)
      (GetSingleValueFromMetadata d M V D S x).1 k w v h hv
    rw [localValueLoop]
    have he : D + (k + 1) * E = D + E + k * E := by
      rw [Nat.succ_mul]
      omega
    rw [he]
    exact this

theorem QueueGetSingleData_frame (d : Deserializer) (st : GetState) (v : VariableGet)
    (V : BP5VarRec) (D S a : Nat) (ha : a < D) :
    (QueueGetSingleData d st v V D S).1.Memory a = st.Memory a := by
  unfold QueueGetSingleData
  split
  · simp only
    rw [globalValueLoop_spec]
    cases firstValue d V S (List.range (d.WriterCohortSize S)) with
    | none => rfl
    | some x =>
      simp only
      rw [if_neg (by omega)]
  · split
    · exact localValueLoop_frame d V _ S _ D st.Memory a ha
    · rfl

theorem QueueGetSingleData_global (d : Deserializer) (st : GetState) (v : VariableGet)
    (V : BP5VarRec) (D S : Nat) (x : Int) (hg : V.OrigShapeID = ShapeID.GlobalValue)
    (hx : firstValue d V S (List.range (d.WriterCohortSize S)) = some x) :
    (QueueGetSingleData d st v V D S).1.Memory D = some x := by
  simp only [QueueGetSingleData, hg, if_true]
  rw [globalValueLoop_spec, hx]
  simp

theorem QueueGetSingleData_local (d : Deserializer) (st : GetState) (v : VariableGet)
    (V : BP5VarRec) (D S k : Nat) (x : Int) (hl : V.OrigShapeID = ShapeID.LocalValue)
    (hE : 0 < v.m_ElementSize) (h64 : v.m_Count.getD 0 0 + v.m_Start.getD 0 0 < 2 ^ 64)
    (hk : k < v.m_Count.getD 0 0)
    (hx : d.GetMetadataValue V S (v.m_Start.getD 0 0 + k) = some x) :
    (QueueGetSingleData d st v V D S).1.Memory (D + k * v.m_ElementSize) = some x := by
  have hg : ¬ (V.OrigShapeID = ShapeID.GlobalValue) := by
    rw [hl]
    decide
  simp only [QueueGetSingleData, hg, hl, if_true, if_false, Nat.mod_eq_of_lt h64,
    Nat.add_sub_cancel]
  apply localValueLoop_spec d V v.m_ElementSize S hE _ _ _ k (v.m_Start.getD 0 0 + k) x _ hx
  rw [List.getElem?_range' _ _ hk]
  simp

theorem queueStep_fold_frame (d : Deserializer) (A : List Nat) (v : VariableGet)
    (V : BP5VarRec) :
    ∀ (L : List Nat) (st : GetState) (D : Nat) (ret : Bool) (a : Nat), a < D →
      (L.foldl (queueStep d A v V) (st, D, ret)).1.Memory a = st.Memory a
  | [], _, _, _, _, _ => rfl
  | R :: L, st, D, ret, a, ha => by
    rw [List.foldl_cons]
    by_cases hw : wroteOn d V (A.getD R 0) = true
    · have hs : queueStep d A v V (st, D, ret) R =
          ((QueueGetSingleData d st v V D (A.getD R 0)).1,
            D + (v.TotalSize * v.m_ElementSize) % 2 ^ 64,
            (QueueGetSingleData d st v V D (A.getD R 0)).2) := by
        simp only [queueStep, hw, if_true]
      rw [hs, queueStep_fold_frame d A v V L _ _ _ a (by omega)]
      exact QueueGetSingleData_frame d st v V D _ a ha
    · have hs : queueStep d A v V (st, D, ret) R = (st, D, ret) := by
        simp only [queueStep, hw, Bool.false_eq_true, if_false]
      rw [hs]
      exact queueStep_fold_frame d A v V L st D ret a ha

theorem queueStep_fold_dest (d : Deserializer) (A : List Nat) (v : VariableGet)
    (V : BP5VarRec) :
    ∀ (L : List Nat) (st : GetState) (D : Nat) (ret : Bool),
      (∀ R ∈ L, wroteOn d V (A.getD R 0) = true) →
      (L.foldl (queueStep d A v V) (st, D, ret)).2.1 =
        D + L.length * ((v.TotalSize * v.m_ElementSize) % 2 ^ 64)
  | [], _, _, _, _ => by simp
  | R :: L, st, D, ret, hw => by
    have hR := hw R (List.mem_cons_self _ _)
    have hs : queueStep d A v V (st, D, ret) R =
        ((QueueGetSingleData d st v V D (A.getD R 0)).1,
          D + (v.TotalSize * v.m_ElementSize) % 2 ^ 64,
          (QueueGetSingleData d st v V D (A.getD R 0)).2) := by
      simp only [queueStep, hR, if_true]
    rw [List.foldl_cons, hs, queueStep_fold_dest d A v V L _ _ _
      (fun x hx => hw x (List.mem_cons_of_mem _ hx)), List.length_cons, Nat.succ_mul]
    omega

theorem queueStep_fold_step (d : Deserializer) (A : List Nat) (v : VariableGet)
    (V : BP5VarRec) (s n k : Nat) (st : GetState) (D a : Nat)
    (hw : ∀ R ∈ List.range' s n, wroteOn d V (A.getD R 0) = true) (hk : k < n)
    (ha : a < D + (k + 1) * ((v.TotalSize * v.m_ElementSize) % 2 ^ 64)) :
    ∃ st1 : GetState,
      ((List.range' s n).foldl (queueStep d A v V) (st, D, false)).1.Memory a =
        (QueueGetSingleData d st1 v V (D + k * ((v.TotalSize * v.m_ElementSize) % 2 ^ 64))
          (A.getD (s + k) 0)).1.Memory a := by
  have hsplit : List.range' s n =
      List.range' s k ++ (s + k) :: List.range' (s + k + 1) (n - k - 1) := by
    have h1 : List.range' s n = List.range' s k ++ List.range' (s + k) (n - k) := by
      rw [List.range'_append_1]
      congr 1
      omega
    have h2 : List.range' (s + k) (n - k) =
        (s + k) :: List.range' (s + k + 1) (n - k - 1) := by
      have : n - k = (n - k - 1) + 1 := by omega
      rw [this, List.range'_succ]
      simp
    rw [h1, h2]
  have hw1 : ∀ R ∈ List.range' s k, wroteOn d V (A.getD R 0) = true := by
    intro R hR
    apply hw
    rw [hsplit]
    exact List.mem_append_left _ hR
  have hwk : wroteOn d V (A.getD (s + k) 0) = true := by
    apply hw
    rw [hsplit]
    exact List.mem_append_right _ (List.mem_cons_self _ _)
  have hd := queueStep_fold_dest d A v V (List.range' s k) st D false hw1
  rw [List.length_range'] at hd
  refine ⟨((List.range' s k).foldl (queueStep d A v V) (st, D, false)).1, ?_⟩
  rw [hsplit, List.foldl_append, List.foldl_cons]
  have hs : queueStep d A v V ((List.range' s k).foldl (queueStep d A v V) (st, D, false))
      (s + k) =
      ((QueueGetSingleData d ((List.range' s k).foldl (queueStep d A v V) (st, D, false)).1 v V
          (D + k * ((v.TotalSize * v.m_ElementSize) % 2 ^ 64)) (A.getD (s + k) 0)).1,
        D + k * ((v.TotalSize * v.m_ElementSize) % 2 ^ 64) +
          (v.TotalSize * v.m_ElementSize) % 2 ^ 64,
        (QueueGetSingleData d ((List.range' s k).foldl (queueStep d A v V) (st, D, false)).1 v V
          (D + k * ((v.TotalSize * v.m_ElementSize) % 2 ^ 64)) (A.getD (s + k) 0)).2) := by
    simp only [queueStep, hwk, if_true, hd]
  rw [hs]
  apply queueStep_fold_frame
  rw [Nat.succ_mul, ← Nat.add_assoc] at ha
  exact ha

/-- Claim C20, amended: for a variable that is a value or whose selection
`QueueGetSingle` serves (a bounding box on a global array, a block selection, a
local array), `QueueGet` returns true if and only if at least one request was
appended to the pending queue, and it returns whenever the reader is not in
random-access mode. For a global or local value it appends nothing and returns
false, and it copies the values from the metadata to the destination: of a
global value the value of the first writer that has it, of a local value the
values of the writers `Start[0] + k`, `k < Count[0]`, to the `k`-th elements;
in random-access mode it does so for each selected step `j`, at the destination
advanced by `j * TotalSize * ElementSize`. -/
theorem QueueGet_returns (d : Deserializer) (CurTimestep : Nat) (AbsStepFromRel : List Nat)
    (st : GetState) (variable_ : VariableGet) (VarRec : BP5VarRec) (DestData : Nat)
    (hserved : VarRec.OrigShapeID = ShapeID.GlobalValue ∨
      VarRec.OrigShapeID = ShapeID.LocalValue ∨ pushes variable_.toGetVariable = true) :
    (∃ new,
      (QueueGet d CurTimestep AbsStepFromRel st variable_ VarRec DestData).1.PendingRequests =
        st.PendingRequests ++ new ∧
      (∀ b, (QueueGet d CurTimestep AbsStepFromRel st variable_ VarRec DestData).2 =
        Except.ok b → (b = true ↔ new ≠ [])) ∧
      (VarRec.OrigShapeID = ShapeID.GlobalValue ∨ VarRec.OrigShapeID = ShapeID.LocalValue →
        new = [])) ∧
    (d.m_RandomAccessMode = false →
      ∃ b, (QueueGet d CurTimestep AbsStepFromRel st variable_ VarRec DestData).2 =
        Except.ok b) ∧
    (d.m_RandomAccessMode = false → VarRec.OrigShapeID = ShapeID.GlobalValue →
      ∀ v, firstValue d VarRec CurTimestep (List.range (d.WriterCohortSize CurTimestep)) =
          some v →
        (QueueGet d CurTimestep AbsStepFromRel st variable_ VarRec DestData).1.Memory DestData =
          some v) ∧
    (d.m_RandomAccessMode = false → VarRec.OrigShapeID = ShapeID.LocalValue →
      0 < variable_.m_ElementSize →
      variable_.m_Count.getD 0 0 + variable_.m_Start.getD 0 0 < 2 ^ 64 →
      ∀ k v, k < variable_.m_Count.getD 0 0 →
        d.GetMetadataValue VarRec CurTimestep (variable_.m_Start.getD 0 0 + k) = some v →
        (QueueGet d CurTimestep AbsStepFromRel st variable_ VarRec DestData).1.Memory
          (DestData + k * variable_.m_ElementSize) = some v) ∧
    (d.m_RandomAccessMode = true →
      variable_.m_StepsStart + variable_.m_StepsCount ≤ AbsStepFromRel.length →
      AbsStepFromRel.length < 2 ^ 64 →
      variable_.TotalSize * variable_.m_ElementSize < 2 ^ 64 →
      (∀ S ∈ AbsStepFromRel, wroteOn d VarRec S = true) →
      ∀ j, j < variable_.m_StepsCount →
        (VarRec.OrigShapeID = ShapeID.GlobalValue →
          0 < variable_.TotalSize * variable_.m_ElementSize →
          ∀ v, firstValue d VarRec (AbsStepFromRel.getD (variable_.m_StepsStart + j) 0)
              (List.range (d.WriterCohortSize
                (AbsStepFromRel.getD (variable_.m_StepsStart + j) 0))) = some v →
            (QueueGet d CurTimestep AbsStepFromRel st variable_ VarRec DestData).1.Memory
              (DestData + j * (variable_.TotalSize * variable_.m_ElementSize)) = some v) ∧
        (VarRec.OrigShapeID = ShapeID.LocalValue →
          0 < variable_.m_ElementSize →
          variable_.m_Count.getD 0 0 + variable_.m_Start.getD 0 0 < 2 ^ 64 →
          variable_.m_Count.getD 0 0 ≤ variable_.TotalSize →
          ∀ k v, k < variable_.m_Count.getD 0 0 →
            d.GetMetadataValue VarRec (AbsStepFromRel.getD (variable_.m_StepsStart + j) 0)
              (variable_.m_Start.getD 0 0 + k) = some v →
            (QueueGet d CurTimestep AbsStepFromRel st variable_ VarRec DestData).1.Memory
              (DestData + j * (variable_.TotalSize * variable_.m_ElementSize) +
                k * variable_.m_ElementSize) = some v)) := by
  have hstream : d.m_RandomAccessMode = false →
      QueueGet d CurTimestep AbsStepFromRel st variable_ VarRec DestData =
        ((QueueGetSingleData d st variable_ VarRec DestData CurTimestep).1,
          Except.ok (QueueGetSingleData d st variable_ VarRec DestData CurTimestep).2) := by
    intro h
    simp only [QueueGet, h, Bool.false_eq_true, not_false_eq_true, if_true]
  refine ⟨?_, ?_, ?_, ?_, ?_⟩
  · by_cases hval : VarRec.OrigShapeID = ShapeID.GlobalValue ∨
        VarRec.OrigShapeID = ShapeID.LocalValue
    · refine ⟨[], ?_, ?_, fun _ => rfl⟩
      · rw [List.append_nil]
        cases hRA : d.m_RandomAccessMode with
        | false =>
          rw [hstream hRA]
          exact (QueueGetSingleData_value d st variable_ VarRec DestData CurTimestep hval).1
        | true =>
          simp only [QueueGet, hRA, not_true_eq_false, if_false]
          split
          · rfl
          · exact (queueStep_fold_value d AbsStepFromRel variable_ VarRec hval _ st DestData).1
      · intro b hb
        have hbf : b = false := by
          cases hRA : d.m_RandomAccessMode with
          | false =>
            rw [hstream hRA] at hb
            have := (QueueGetSingleData_value d st variable_ VarRec DestData CurTimestep hval).2.2
            simp only [this] at hb
            cases hb
            rfl
          | true =>
            simp only [QueueGet, hRA, not_true_eq_false, if_false] at hb
            split at hb
            · cases hb
            · have := (queueStep_fold_value d AbsStepFromRel variable_ VarRec hval
                (List.range' variable_.m_StepsStart
                  ((variable_.m_StepsStart + variable_.m_StepsCount) % 2 ^ 64 -
                    variable_.m_StepsStart)) st DestData).2.2
              simp only [this] at hb
              cases hb
              rfl
        rw [hbf]
        simp
    · have h1 : VarRec.OrigShapeID ≠ ShapeID.GlobalValue := fun h => hval (Or.inl h)
      have h2 : VarRec.OrigShapeID ≠ ShapeID.LocalValue := fun h => hval (Or.inr h)
      have hpush : pushes variable_.toGetVariable = true := by
        rcases hserved with h | h | h
        · exact absurd h h1
        · exact absurd h h2
        · exact h
      cases hRA : d.m_RandomAccessMode with
      | false =>
        obtain ⟨q1, _, _, q4⟩ :=
          QueueGetSingleData_array d st variable_ VarRec DestData CurTimestep h1 h2
        obtain ⟨req, hreq, _⟩ :=
          (QueueGetSingle_array variable_.toGetVariable VarRec CurTimestep h1 h2).1 hpush
        rw [hstream hRA]
        refine ⟨_, q1, ?_, fun h => absurd h hval⟩
        intro b hb
        simp only [q4] at hb
        cases hb
        rw [hreq]
        simp
      | true =>
        simp only [QueueGet, hRA, not_true_eq_false, if_false]
        split
        · exact ⟨[], by simp, fun b hb => (by cases hb), fun h => absurd h hval⟩
        · obtain ⟨f1, _, _, f4⟩ := queueStep_fold_array d AbsStepFromRel variable_ VarRec h1 h2
            (List.range' variable_.m_StepsStart
              ((variable_.m_StepsStart + variable_.m_StepsCount) % 2 ^ 64 -
                variable_.m_StepsStart)) st DestData false
          refine ⟨_, f1, ?_, fun h => absurd h hval⟩
          intro b hb
          simp only [f4] at hb
          cases hL : (List.range' variable_.m_StepsStart
              ((variable_.m_StepsStart + variable_.m_StepsCount) % 2 ^ 64 -
                variable_.m_StepsStart)).filter
              (fun R => wroteOn d VarRec (AbsStepFromRel.getD R 0)) with
          | nil =>
            rw [hL] at hb
            simp only [if_true, Except.ok.injEq] at hb
            rw [← hb]
            simp
          | cons R L =>
            obtain ⟨req, hreq, _⟩ := (QueueGetSingle_array variable_.toGetVariable VarRec
              (AbsStepFromRel.getD R 0) h1 h2).1 hpush
            rw [hL] at hb
            simp only [reduceCtorEq, if_false, Except.ok.injEq] at hb
            rw [← hb, List.flatMap_cons, hreq]
            simp
  · intro hRA
    rw [hstream hRA]
    exact ⟨_, rfl⟩
  · intro hRA hg v hv
    rw [hstream hRA]
    exact QueueGetSingleData_global d st variable_ VarRec DestData CurTimestep v hg hv
  · intro hRA hl hE h64 k v hk hv
    rw [hstream hRA]
    exact QueueGetSingleData_local d st variable_ VarRec DestData CurTimestep k v hl hE h64 hk hv
  · intro hRA hsteps hsize hinc hwrote j hj
    have hmod : (variable_.m_StepsStart + variable_.m_StepsCount) % 2 ^ 64 =
        variable_.m_StepsStart + variable_.m_StepsCount := Nat.mod_eq_of_lt (by omega)
    have hq : (QueueGet d CurTimestep AbsStepFromRel st variable_ VarRec DestData).1 =
        ((List.range' variable_.m_StepsStart variable_.m_StepsCount).foldl
          (queueStep d AbsStepFromRel variable_ VarRec) (st, DestData, false)).1 := by
      simp only [QueueGet, hRA, not_true_eq_false, if_false, hmod, gt_iff_lt,
        Nat.not_lt.mpr hsteps, Nat.add_sub_cancel_left]
    have hin : ∀ R ∈ List.range' variable_.m_StepsStart variable_.m_StepsCount,
        wroteOn d VarRec (AbsStepFromRel.getD R 0) = true := by
      intro R hR
      rw [List.mem_range'_1] at hR
      have hlt : R < AbsStepFromRel.length := by omega
      apply hwrote
      rw [List.getD_eq_getElem?_getD, List.getElem?_eq_getElem hlt, Option.getD_some]
      exact List.getElem_mem hlt
    have hstep := fun a ha => queueStep_fold_step d AbsStepFromRel variable_ VarRec
      variable_.m_StepsStart variable_.m_StepsCount j st DestData a hin hj ha
    rw [Nat.mod_eq_of_lt hinc] at hstep
    rw [hq]
    constructor
    · intro hg hpos v hv
      obtain ⟨st1, h1⟩ := hstep
        (DestData + j * (variable_.TotalSize * variable_.m_ElementSize))
        (by rw [Nat.succ_mul]; omega)
      rw [h1]
      exact QueueGetSingleData_global d st1 variable_ VarRec _ _ v hg hv
    · intro hl hE h64 hT k v hk hv
      have hkE : k * variable_.m_ElementSize <
          variable_.TotalSize * variable_.m_ElementSize :=
        Nat.mul_lt_mul_of_pos_right (Nat.lt_of_lt_of_le hk hT) hE
      obtain ⟨st1, h1⟩ := hstep
        (DestData + j * (variable_.TotalSize * variable_.m_ElementSize) +
          k * variable_.m_ElementSize)
        (by rw [Nat.succ_mul]; omega)
      rw [h1]
      exact QueueGetSingleData_local d st1 variable_ VarRec _ _ k v hl hE h64 hk hv

/-- Witness of `QueueGet_returns`: the Get of scenario S3 in streaming mode,
which appends one request and returns true. -/
theorem QueueGet_returns_witness :
    pushes S3.getVariable = true ∧
    ∃ new,
      (QueueGet S3.reader 0 [] GetState.empty
        { S3.getVariable with m_StepsStart := 0, m_StepsCount := 1, m_ElementSize := 4,
                              TotalSize := 6 } S3.var 1000).1.PendingRequests =
        GetState.empty.PendingRequests ++ new ∧
      (∀ b, (QueueGet S3.reader 0 [] GetState.empty
        { S3.getVariable with m_StepsStart := 0, m_StepsCount := 1, m_ElementSize := 4,
                              TotalSize := 6 } S3.var 1000).2 =
        Except.ok b → (b = true ↔ new ≠ [])) ∧
      (S3.var.OrigShapeID = ShapeID.GlobalValue ∨ S3.var.OrigShapeID = ShapeID.LocalValue →
        new = []) :=
  ⟨by decide,
    (QueueGet_returns S3.reader 0 [] GetState.empty
      { S3.getVariable with m_StepsStart := 0, m_StepsCount := 1, m_ElementSize := 4,
                            TotalSize := 6 } S3.var 1000 (Or.inr (Or.inr (by decide)))).1⟩

/-- Claim C20 as stated fails: for a bounding-box Get on a joined array in
streaming mode, `QueueGetSingle` reaches neither `push_back` (it prints
"Missed get type"), the pending queue stays empty, and `QueueGet` returns
true. -/
theorem QueueGet_missed_get_type :
    pushes S3.joinedGet.toGetVariable = false ∧
    (QueueGet S3.reader 0 [] GetState.empty S3.joinedGet S3.var 1000).1.PendingRequests = [] ∧
    returnedValue (QueueGet S3.reader 0 [] GetState.empty S3.joinedGet S3.var 1000).2 =
      some true := by
  decide

/-! ### Protocol of a step: `Marshal` without a buffer, `InitStep`, `CloseTimestep` -/

/-- Claim C25, amended: while no data buffer is attached, `Marshal` on an array
variable throws the logic error "without prior Init", and `Marshal` on a scalar
variable does not throw: it sets the bit of the variable, stores the value in
the metadata record and returns. -/
theorem Marshal_without_buffer (Init : DataType → MinMaxStruct) (stdTypes : MinMaxTypes)
    (s : BP5Serializer) (VB : VariableBase) (a : MarshalArgs)
    (hbuf : s.CurDataBuffer = none) :
    (VB.m_SingleValue = false →
      (Marshal Init stdTypes s VB a).2 = Except.error "without prior Init") ∧
    (VB.m_SingleValue = true →
      (Marshal Init stdTypes s VB a).2 = Except.ok none ∧
      (Marshal Init stdTypes s VB a).1.BitField (writerRecOf s VB a).FieldID = true ∧
      (Marshal Init stdTypes s VB a).1.ScalarSlot (writerRecOf s VB a).MetaOffset =
        some a.Data ∧
      (Marshal Init stdTypes s VB a).1.CurDataBuffer = none) := by
  obtain ⟨h1, h2, h3, h4, h5, h6⟩ := afterLookup_state s VB a
  have hn := afterLookup_norm s VB a
  constructor
  · intro hV
    simp only [Marshal, hn, hV, Bool.false_eq_true, if_false, marshalArray, h1, hbuf]
  · intro hV
    have hn0 : afterLookup s VB { a with DimCount := 0 } = afterLookup s VB a := by
      rw [hV] at hn
      exact hn
    simp only [Marshal, hV, if_true, writerRecOf, hn0, h1, hbuf]
    simp

/-- Witness of `Marshal_without_buffer`: a put on the array of scenario S3 and a
put on a scalar, on a writer that has had no `InitStep`. -/
theorem Marshal_without_buffer_witness :
    (BP5Serializer.init 1).CurDataBuffer = none ∧
    (Marshal S3.Init (fun _ => true) (BP5Serializer.init 1) S3.variable S3.put0).2 =
      Except.error "without prior Init" ∧
    (Marshal S3.Init (fun _ => true) (BP5Serializer.init 1) S3.scalar S3.scalarPut).2 =
      Except.ok none :=
  ⟨rfl,
    (Marshal_without_buffer S3.Init (fun _ => true) (BP5Serializer.init 1) S3.variable S3.put0
      rfl).1 rfl,
    ((Marshal_without_buffer S3.Init (fun _ => true) (BP5Serializer.init 1) S3.scalar
      S3.scalarPut rfl).2 rfl).1⟩

/-- Claim C25 as stated fails for a scalar variable: on a writer that has had no
`InitStep`, `Marshal` of the scalar 42 does not throw and the value is in the
metadata record. -/
theorem Marshal_scalar_without_buffer :
    (BP5Serializer.init 1).CurDataBuffer = none ∧
    S3.scalar.m_SingleValue = true ∧
    threw (Marshal S3.Init (fun _ => true) (BP5Serializer.init 1) S3.scalar S3.scalarPut).2 =
      false ∧
    (Marshal S3.Init (fun _ => true) (BP5Serializer.init 1) S3.scalar S3.scalarPut).1.ScalarSlot
      (writerRecOf (BP5Serializer.init 1) S3.scalar S3.scalarPut).MetaOffset = some [42] := by
  decide

theorem stepCall_state (bs : Nat) (s : BP5Serializer) (c : StepCall)
    (hd : s.DeferredExterns = []) :
    (stepCall bs s c).1.DeferredExterns = [] ∧
    (stepCall bs s c).1.RecList = s.RecList := by
  cases c with
  | InitStep B =>
    cases hb : s.CurDataBuffer with
    | none => simp [stepCall, InitStep, hb, hd]
    | some buf => simp [stepCall, InitStep, hb, hd]
  | CloseTimestep =>
    cases hb : s.CurDataBuffer with
    | none => simp [stepCall, CloseTimestep, hb, hd]
    | some buf => simp [stepCall, CloseTimestep, DumpDeferredBlocks, hb, hd]

theorem stepCalls_state (bs : Nat) :
    ∀ (calls : List StepCall) (s : BP5Serializer), s.DeferredExterns = [] →
      (stepCalls bs s calls).DeferredExterns = []
  | [], _, h => h
  | c :: calls, s, h => stepCalls_state bs calls _ (stepCall_state bs s c h).1

/-- Claim C26: at every point of every sequence of `InitStep` and
`CloseTimestep` calls on a fresh serializer, `InitStep` throws its logic error
if and only if a data buffer is attached, and otherwise attaches its buffer and
sets the prior-buffer size total to 0; `CloseTimestep` throws its logic error
if and only if no data buffer is attached, and otherwise returns the attached
buffer, closed by the reservation of size 0 that aligns it to the buffer block
size, and leaves no buffer attached. -/
theorem step_protocol (StatsLevel m_BufferBlockSize : Nat) (calls : List StepCall)
    (DataBuffer : BufferV) :
    (InitStep (stepCalls m_BufferBlockSize (BP5Serializer.init StatsLevel) calls) DataBuffer =
        Except.error "without prior Close" ↔
      (stepCalls m_BufferBlockSize (BP5Serializer.init StatsLevel) calls).CurDataBuffer ≠
        none) ∧
    ((stepCalls m_BufferBlockSize (BP5Serializer.init StatsLevel) calls).CurDataBuffer = none →
      ∃ s1, InitStep (stepCalls m_BufferBlockSize (BP5Serializer.init StatsLevel) calls)
          DataBuffer = Except.ok s1 ∧
        s1.CurDataBuffer = some DataBuffer ∧ s1.m_PriorDataBufferSizeTotal = 0) ∧
    (CloseTimestep m_BufferBlockSize
        (stepCalls m_BufferBlockSize (BP5Serializer.init StatsLevel) calls) =
        Except.error "without prior Init" ↔
      (stepCalls m_BufferBlockSize (BP5Serializer.init StatsLevel) calls).CurDataBuffer =
        none) ∧
    (∀ buf, (stepCalls m_BufferBlockSize (BP5Serializer.init StatsLevel) calls).CurDataBuffer =
        some buf →
      ∃ r, CloseTimestep m_BufferBlockSize
          (stepCalls m_BufferBlockSize (BP5Serializer.init StatsLevel) calls) = Except.ok r ∧
        r.2.1 = (buf.AddToVec 0 m_BufferBlockSize).1 ∧ r.1.CurDataBuffer = none) := by
  have hd := stepCalls_state m_BufferBlockSize calls (BP5Serializer.init StatsLevel) rfl
  generalize stepCalls m_BufferBlockSize (BP5Serializer.init StatsLevel) calls = s at hd
  cases hb : s.CurDataBuffer with
  | none =>
    refine ⟨?_, ?_, ?_, ?_⟩
    · simp [InitStep, hb]
    · intro _
      refine ⟨{ s with CurDataBuffer := some DataBuffer, m_PriorDataBufferSizeTotal := 0 },
        ?_, rfl, rfl⟩
      simp only [InitStep, hb]
    · simp [CloseTimestep, hb]
    · intro buf h
      cases h
  | some buf =>
    refine ⟨?_, ?_, ?_, ?_⟩
    · simp [InitStep, hb]
    · intro h
      cases h
    · simp [CloseTimestep, DumpDeferredBlocks, hb, hd]
    · intro buf' h
      cases h
      have hc : ∃ r, CloseTimestep m_BufferBlockSize s = Except.ok r ∧
          r = ({ s with
                  BitField := fun _ => false
                  MetaEntry := fun _ => zeroMetaArrayRec
                  ScalarSlot := fun _ => none
                  CurDataBuffer := none
                  DeferredExterns := [] },
            (buf.AddToVec 0 m_BufferBlockSize).1,
            (buf.AddToVec 0 m_BufferBlockSize).2 + s.m_PriorDataBufferSizeTotal) :=
        ⟨_, by simp only [CloseTimestep, DumpDeferredBlocks, hb, hd, List.foldl_nil], rfl⟩
      obtain ⟨r, hr, e⟩ := hc
      refine ⟨r, hr, ?_, ?_⟩
      · rw [e]
      · rw [e]

/-! ### Deferred blocks: `Marshal`, `DumpDeferredBlocks` -/

theorem writerRecOf_operator (s : BP5Serializer) (VB : VariableBase) (a : MarshalArgs)
    (hl : LookupWriterRec s VB.Key = none) (hD : (writerRecOf s VB a).DimCount ≠ 0) :
    ((writerRecOf s VB a).OperatorType = none ↔ VB.m_Operations = []) := by
  unfold writerRecOf afterLookup at hD ⊢
  rw [hl] at hD ⊢
  simp only at hD ⊢
  by_cases h0 : (if VB.m_SingleValue = true then 0 else a.DimCount) = 0
  · simp [CreateWriterRec, h0] at hD
  · simp only [CreateWriterRec, h0, if_false]
    cases VB.m_Operations <;> simp

/-- Claim C27 as amended: `Marshal` on an array variable (the record has a
dimension count other than 0), with a data buffer attached and the call defined
(a record with an operator belongs to a variable whose `m_Operations` is not
empty), appends exactly one `DeferredExtern` with the metadata offset of the
variable, the index of the new block as block id, the source data, size
`ElemCount * ElemSize` and alignment `ElemSize`, and leaves the data buffer as
it was, when `Sync` is false, no span is requested and the writer record of the
variable has no operator; in every other case it appends no `DeferredExtern`
and appends one reservation, at the aligned end of the buffer, to the data
buffer. So the list of deferred blocks grows if and only if the three conditions
hold. The operator of the record is the one the variable had when the record
was created: a record that the call creates has no operator exactly when the
variable has none. -/
theorem Marshal_defers_iff (Init : DataType → MinMaxStruct) (stdTypes : MinMaxTypes)
    (s : BP5Serializer) (VB : VariableBase) (a : MarshalArgs) (buf : BufferV)
    (hV : VB.m_SingleValue = false) (hbuf : s.CurDataBuffer = some buf)
    (hD : (writerRecOf s VB a).DimCount ≠ 0)
    (hdef : (writerRecOf s VB a).OperatorType ≠ none → VB.m_Operations ≠ []) :
    ((a.Sync = false ∧ a.Span = false ∧ (writerRecOf s VB a).OperatorType = none) →
      (Marshal Init stdTypes s VB a).1.DeferredExterns =
        s.DeferredExterns ++
          [{ MetaOffset := (writerRecOf s VB a).MetaOffset
             BlockID := ((Marshal Init stdTypes s VB a).1.MetaEntry
               (writerRecOf s VB a).MetaOffset).BlockCount - 1
             Data := a.Data
             DataSize := CalcSize a.DimCount a.Count * a.ElemSize
             AlignReq := a.ElemSize }] ∧
      (Marshal Init stdTypes s VB a).1.CurDataBuffer = some buf) ∧
    (¬ (a.Sync = false ∧ a.Span = false ∧ (writerRecOf s VB a).OperatorType = none) →
      (Marshal Init stdTypes s VB a).1.DeferredExterns = s.DeferredExterns ∧
      ∃ after size, (Marshal Init stdTypes s VB a).1.CurDataBuffer = some after ∧
        after.allocs = buf.allocs ++ [(buf.alignedPos a.ElemSize, size)]) ∧
    ((Marshal Init stdTypes s VB a).1.MetaEntry (writerRecOf s VB a).MetaOffset).BlockCount =
      (if s.BitField (writerRecOf s VB a).FieldID then
        (s.MetaEntry (writerRecOf s VB a).MetaOffset).BlockCount + 1 else 1) ∧
    ((a.Sync = false ∧ a.Span = false ∧ (writerRecOf s VB a).OperatorType = none) ↔
      (Marshal Init stdTypes s VB a).1.DeferredExterns.length =
        s.DeferredExterns.length + 1) ∧
    (LookupWriterRec s VB.Key = none →
      ((writerRecOf s VB a).OperatorType = none ↔ VB.m_Operations = [])) := by
  obtain ⟨hB, hDef, hM⟩ := Marshal_array Init stdTypes s VB a buf hV hbuf
  have hcount : ((Marshal Init stdTypes s VB a).1.MetaEntry
      (writerRecOf s VB a).MetaOffset).BlockCount =
      (if s.BitField (writerRecOf s VB a).FieldID then
        (s.MetaEntry (writerRecOf s VB a).MetaOffset).BlockCount + 1 else 1) := by
    rw [hM]
    cases hb : s.BitField (writerRecOf s VB a).FieldID <;> simp [firstBlockEntry, nextBlockEntry]
  have hflag : deferFlag (writerRecOf s VB a) a = true ↔
      (a.Sync = false ∧ a.Span = false ∧ (writerRecOf s VB a).OperatorType = none) := by
    unfold deferFlag
    simp only [Bool.and_eq_true, Bool.not_eq_true', decide_eq_true_eq,
      Option.isNone_iff_eq_none]
    constructor
    · rintro ⟨⟨⟨h1, _⟩, h3⟩, h4⟩
      exact ⟨h1, h3, h4⟩
    · rintro ⟨h1, h3, h4⟩
      exact ⟨⟨⟨h1, hD⟩, h3⟩, h4⟩
  have hyes : (a.Sync = false ∧ a.Span = false ∧ (writerRecOf s VB a).OperatorType = none) →
      (Marshal Init stdTypes s VB a).1.DeferredExterns =
        s.DeferredExterns ++
          [{ MetaOffset := (writerRecOf s VB a).MetaOffset
             BlockID := ((Marshal Init stdTypes s VB a).1.MetaEntry
               (writerRecOf s VB a).MetaOffset).BlockCount - 1
             Data := a.Data
             DataSize := CalcSize a.DimCount a.Count * a.ElemSize
             AlignReq := a.ElemSize }] ∧
      (Marshal Init stdTypes s VB a).1.CurDataBuffer = some buf := by
    intro hc
    have hf := hflag.mpr hc
    constructor
    · rw [hDef, hf, if_pos rfl]
      cases hb : s.BitField (writerRecOf s VB a).FieldID with
      | false =>
        rw [hcount, hb]
        simp
      | true => simp
    · rw [hB, hf]
      simp [stageBlock, hc.2.1, hc.2.2]
  have hno : ¬ (a.Sync = false ∧ a.Span = false ∧ (writerRecOf s VB a).OperatorType = none) →
      (Marshal Init stdTypes s VB a).1.DeferredExterns = s.DeferredExterns ∧
      ∃ after size, (Marshal Init stdTypes s VB a).1.CurDataBuffer = some after ∧
        after.allocs = buf.allocs ++ [(buf.alignedPos a.ElemSize, size)] := by
    intro hc
    have hf : deferFlag (writerRecOf s VB a) a = false := by
      cases h : deferFlag (writerRecOf s VB a) a with
      | false => rfl
      | true => exact absurd (hflag.mp h) hc
    constructor
    · rw [hDef, hf]
      simp
    · rw [hB, hf]
      by_cases hop : (writerRecOf s VB a).OperatorType = none
      · by_cases hsp : a.Span = true
        · refine ⟨_, CalcSize a.DimCount a.Count * a.ElemSize, rfl, ?_⟩
          simp [stageBlock, hop, hsp, BufferV.Allocate]
        · refine ⟨_, CalcSize a.DimCount a.Count * a.ElemSize, rfl, ?_⟩
          simp [stageBlock, hop, hsp, BufferV.AddToVec]
      · obtain ⟨op, rest, hops⟩ : ∃ op rest, VB.m_Operations = op :: rest := by
          cases h : VB.m_Operations with
          | nil => exact absurd h (hdef hop)
          | cons op rest => exact ⟨op, rest, rfl⟩
        refine ⟨_, op.Operate a.Data ((a.Offsets.getD []).take a.DimCount)
          (a.Count.take a.DimCount) (writerRecOf s VB a).Type_, rfl, ?_⟩
        simp [stageBlock, hop, hops, BufferV.Allocate, BufferV.DownsizeLastAlloc,
          List.getLast?_concat, List.dropLast_concat]
  refine ⟨hyes, hno, hcount, ⟨fun hc => ?_, fun hl => ?_⟩,
    fun hl => writerRecOf_operator s VB a hl hD⟩
  · rw [(hyes hc).1]
    simp
  · by_contra hc
    rw [(hno hc).1] at hl
    omega

/-- Claim C27 as stated fails: in scenario S9 the variable has an operator, added
after the put that created its writer record, and the record has none. The
deferred put of row 1 (`Sync` false, no span) then appends a `DeferredExtern`
and leaves the data buffer as it was, where the claim has the block reserved in
the data buffer and nothing deferred. -/
theorem Marshal_defers_with_operator :
    S9.variable.m_Operations.length = 1 ∧
    S3.variable.m_Operations.length = 0 ∧
    S9.variable.Key = S3.variable.Key ∧
    LookupWriterRec S3.writer S3.variable.Key = none ∧
    (writerRecOf S9.writer S9.variable S3.put1Deferred).DimCount = 2 ∧
    (writerRecOf S9.writer S9.variable S3.put1Deferred).OperatorType = none ∧
    S3.put1Deferred.Sync = false ∧ S3.put1Deferred.Span = false ∧
    (Marshal S3.Init (fun _ => true) S9.writer S9.variable
      S3.put1Deferred).1.DeferredExterns.length = S9.writer.DeferredExterns.length + 1 ∧
    (Marshal S3.Init (fun _ => true) S9.writer S9.variable S3.put1Deferred).1.CurDataBuffer =
      S9.writer.CurDataBuffer := by
  decide

/-- Witness of `Marshal_defers_iff`: the deferred put of row 1 of scenario S3 as
the first put of a step, which is deferred, and the same put on the variable of
scenario S9, whose record is created with the operator: it is not deferred and
reserves its block in the data buffer. -/
theorem Marshal_defers_iff_witness :
    (writerRecOf S3.writer S3.variable S3.put1Deferred).DimCount ≠ 0 ∧
    ((writerRecOf S3.writer S3.variable S3.put1Deferred).OperatorType ≠ none →
      S3.variable.m_Operations ≠ []) ∧
    (Marshal S3.Init (fun _ => true) S3.writer S3.variable S3.put1Deferred).1.DeferredExterns =
      S3.writer.DeferredExterns ++
        [{ MetaOffset := (writerRecOf S3.writer S3.variable S3.put1Deferred).MetaOffset
           BlockID := ((Marshal S3.Init (fun _ => true) S3.writer S3.variable
             S3.put1Deferred).1.MetaEntry
               (writerRecOf S3.writer S3.variable S3.put1Deferred).MetaOffset).BlockCount - 1
           Data := S3.put1Deferred.Data
           DataSize := CalcSize S3.put1Deferred.DimCount S3.put1Deferred.Count *
             S3.put1Deferred.ElemSize
           AlignReq := S3.put1Deferred.ElemSize }] ∧
    (Marshal S3.Init (fun _ => true) S3.writer S3.variable S3.put1Deferred).1.CurDataBuffer =
      some ⟨[], 0⟩ ∧
    (writerRecOf S3.writer S9.variable S3.put1Deferred).OperatorType = some "blosc" ∧
    S9.variable.m_Operations ≠ [] ∧
    (Marshal S3.Init (fun _ => true) S3.writer S9.variable S3.put1Deferred).1.DeferredExterns =
      S3.writer.DeferredExterns ∧
    ∃ after size,
      (Marshal S3.Init (fun _ => true) S3.writer S9.variable S3.put1Deferred).1.CurDataBuffer =
        some after ∧
      after.allocs = ([] : List (Nat × Nat)) ++
        [(BufferV.alignedPos ⟨[], 0⟩ S3.put1Deferred.ElemSize, size)] := by
  have h1 := (Marshal_defers_iff S3.Init (fun _ => true) S3.writer S3.variable S3.put1Deferred
    ⟨[], 0⟩ rfl rfl (by decide) (fun h => absurd (by decide) h)).1 ⟨rfl, rfl, by decide⟩
  have h2 := (Marshal_defers_iff S3.Init (fun _ => true) S3.writer S9.variable S3.put1Deferred
    ⟨[], 0⟩ rfl rfl (by decide) (fun _ => List.cons_ne_nil _ _)).2.1 (by decide)
  exact ⟨by decide, fun h => absurd (by decide) h, h1.1, h1.2, by decide, List.cons_ne_nil _ _,
    h2.1, h2.2⟩

theorem DumpDeferredBlocks_eq (s : BP5Serializer) (buf : BufferV)
    (h : s.CurDataBuffer = some buf) :
    DumpDeferredBlocks s =
      { s with
        CurDataBuffer :=
          some (s.DeferredExterns.foldl (dumpStep s.m_PriorDataBufferSizeTotal)
            (buf, s.MetaEntry)).1
        MetaEntry :=
          (s.DeferredExterns.foldl (dumpStep s.m_PriorDataBufferSizeTotal)
            (buf, s.MetaEntry)).2
        DeferredExterns := [] } := by
  unfold DumpDeferredBlocks
  rw [h]
  rfl

theorem dumpStep_fold (prior : Nat) :
    ∀ (defs : List DeferredExtern) (buf : BufferV) (M : Nat → MetaArrayRecOperator),
      (defs.foldl (dumpStep prior) (buf, M)).1 = bufferAfter buf defs ∧
      (∀ o, ((defs.foldl (dumpStep prior) (buf, M)).2 o).DataBlockLocation.length =
          (M o).DataBlockLocation.length ∧
        { (defs.foldl (dumpStep prior) (buf, M)).2 o with DataBlockLocation := [] } =
          { M o with DataBlockLocation := [] }) ∧
      (∀ o b, (∀ Def ∈ defs, ¬ (Def.MetaOffset = o ∧ Def.BlockID = b)) →
        ((defs.foldl (dumpStep prior) (buf, M)).2 o).DataBlockLocation[b]? =
          (M o).DataBlockLocation[b]?) ∧
      ((defs.map (fun Def => (Def.MetaOffset, Def.BlockID))).Nodup →
        ∀ (i : Nat) (Def : DeferredExtern), defs[i]? = some Def →
          Def.BlockID < (M Def.MetaOffset).DataBlockLocation.length →
          ((defs.foldl (dumpStep prior) (buf, M)).2 Def.MetaOffset).DataBlockLocation[Def.BlockID]?
            = some (prior + positionAfter buf (defs.take i) Def))
  | [], buf, M => ⟨rfl, fun _ => ⟨rfl, rfl⟩, fun _ _ _ => rfl, fun _ i Def h => by simp at h⟩
  | D0 :: defs, buf, M => by
    have hs : dumpStep prior (buf, M) D0 =
        ((buf.AddToVec D0.DataSize D0.AlignReq).1, fun o =>
          if o = D0.MetaOffset then
            { M o with
              DataBlockLocation := (M o).DataBlockLocation.set D0.BlockID
                (prior + (buf.AddToVec D0.DataSize D0.AlignReq).2) }
          else M o) := rfl
    obtain ⟨r1, r2, r3, r4⟩ := dumpStep_fold prior defs (buf.AddToVec D0.DataSize D0.AlignReq).1
      (fun o =>
        if o = D0.MetaOffset then
          { M o with
            DataBlockLocation := (M o).DataBlockLocation.set D0.BlockID
              (prior + (buf.AddToVec D0.DataSize D0.AlignReq).2) }
        else M o)
    rw [List.foldl_cons, hs]
    refine ⟨?_, ?_, ?_, ?_⟩
    · rw [r1]
      rfl
    · intro o
      obtain ⟨a1, a2⟩ := r2 o
      rw [a1, a2]
      by_cases ho : o = D0.MetaOffset
      · simp [ho]
      · simp [ho]
    · intro o b hno
      rw [r3 o b (fun Def hDef => hno Def (List.mem_cons_of_mem _ hDef))]
      by_cases ho : o = D0.MetaOffset
      · have hb : D0.BlockID ≠ b := fun e => hno D0 (List.mem_cons_self _ _) ⟨ho.symm, e⟩
        simp only [ho, if_true]
        rw [List.getElem?_set_ne hb]
      · simp only [ho, if_false]
    · intro hnd i Def hi hlt
      rw [List.map_cons, List.nodup_cons] at hnd
      cases i with
      | zero =>
        simp only [List.getElem?_cons_zero, Option.some.injEq] at hi
        subst hi
        rw [r3 D0.MetaOffset D0.BlockID]
        · simp only [if_true]
          rw [List.getElem?_set_self hlt]
          rfl
        · intro Def hDef hk
          apply hnd.1
          rw [List.mem_map]
          exact ⟨Def, hDef, by rw [hk.1, hk.2]⟩
      | succ i =>
        simp only [List.getElem?_cons_succ] at hi
        have := r4 hnd.2 i Def hi (by
          by_cases ho : Def.MetaOffset = D0.MetaOffset
          · simp only [ho, if_true, List.length_set]
            rw [← ho]
            exact hlt
          · simp only [ho, if_false]
            exact hlt)
        rw [this]
        rfl

/-- Claim C28: `DumpDeferredBlocks`, and with it `PerformPuts`, adds the
deferred blocks to the data buffer in the order in which they were registered,
each with its size and at the position `AddToVec` gives it, stores in
`DataBlockLocation[BlockID]` of the `MetaArrayRec` of each the prior-buffer size
total plus that position, changes no other entry of any `DataBlockLocation` and
no other field of a `MetaArrayRec`, and leaves the deferred list empty. The
deferred blocks name pairwise distinct blocks, each inside the
`DataBlockLocation` of its record. -/
theorem DumpDeferredBlocks_patches (s : BP5Serializer) (buf : BufferV)
    (hbuf : s.CurDataBuffer = some buf)
    (hdist : (s.DeferredExterns.map (fun Def => (Def.MetaOffset, Def.BlockID))).Nodup)
    (hin : ∀ Def ∈ s.DeferredExterns,
      Def.BlockID < (s.MetaEntry Def.MetaOffset).DataBlockLocation.length) :
    (DumpDeferredBlocks s).CurDataBuffer = some (bufferAfter buf s.DeferredExterns) ∧
    (bufferAfter buf s.DeferredExterns).allocs.take buf.allocs.length = buf.allocs ∧
    (∀ (i : Nat) (Def : DeferredExtern), s.DeferredExterns[i]? = some Def →
      (bufferAfter buf s.DeferredExterns).allocs[buf.allocs.length + i]? =
        some (positionAfter buf (s.DeferredExterns.take i) Def, Def.DataSize) ∧
      ((DumpDeferredBlocks s).MetaEntry Def.MetaOffset).DataBlockLocation[Def.BlockID]? =
        some (s.m_PriorDataBufferSizeTotal +
          positionAfter buf (s.DeferredExterns.take i) Def)) ∧
    (bufferAfter buf s.DeferredExterns).allocs.length =
      buf.allocs.length + s.DeferredExterns.length ∧
    (∀ o b, (∀ Def ∈ s.DeferredExterns, ¬ (Def.MetaOffset = o ∧ Def.BlockID = b)) →
      ((DumpDeferredBlocks s).MetaEntry o).DataBlockLocation[b]? =
        (s.MetaEntry o).DataBlockLocation[b]?) ∧
    (∀ o, { (DumpDeferredBlocks s).MetaEntry o with DataBlockLocation := [] } =
      { s.MetaEntry o with DataBlockLocation := [] }) ∧
    (DumpDeferredBlocks s).DeferredExterns = [] ∧
    PerformPuts s = DumpDeferredBlocks s ∧
    (∀ (m_BufferBlockSize : Nat) (DataBuffer : BufferV),
      ∃ r, ReinitStepData m_BufferBlockSize s DataBuffer = Except.ok r ∧
        r.1.MetaEntry = (DumpDeferredBlocks s).MetaEntry ∧ r.1.DeferredExterns = [] ∧
        r.2 = ((bufferAfter buf s.DeferredExterns).AddToVec 0 m_BufferBlockSize).1) ∧
    (∀ (m_BufferBlockSize : Nat),
      ∃ r, CloseTimestep m_BufferBlockSize s = Except.ok r ∧ r.1.DeferredExterns = [] ∧
        r.2.1 = ((bufferAfter buf s.DeferredExterns).AddToVec 0 m_BufferBlockSize).1) := by
  obtain ⟨r1, r2, r3, r4⟩ := dumpStep_fold s.m_PriorDataBufferSizeTotal s.DeferredExterns buf
    s.MetaEntry
  have hallocs : ∀ (defs : List DeferredExtern) (b : BufferV),
      (bufferAfter b defs).allocs.take b.allocs.length = b.allocs ∧
      (bufferAfter b defs).allocs.length = b.allocs.length + defs.length ∧
      ∀ (i : Nat) (Def : DeferredExtern), defs[i]? = some Def →
        (bufferAfter b defs).allocs[b.allocs.length + i]? =
          some (positionAfter b (defs.take i) Def, Def.DataSize) := by
    intro defs
    induction defs with
    | nil =>
      intro b
      exact ⟨by simp [bufferAfter], rfl, fun i Def h => by simp at h⟩
    | cons D0 defs ih =>
      intro b
      obtain ⟨i1, i2, i3⟩ := ih (b.AddToVec D0.DataSize D0.AlignReq).1
      have hb : (b.AddToVec D0.DataSize D0.AlignReq).1.allocs =
          b.allocs ++ [(b.alignedPos D0.AlignReq, D0.DataSize)] := rfl
      have hcons : bufferAfter b (D0 :: defs) =
          bufferAfter (b.AddToVec D0.DataSize D0.AlignReq).1 defs := rfl
      rw [hcons]
      rw [hb, List.length_append, List.length_singleton] at i1 i2 i3
      refine ⟨?_, ?_, ?_⟩
      · have := congrArg (List.take b.allocs.length) i1
        rw [List.take_take, Nat.min_eq_left (Nat.le_succ _), List.take_left] at this
        exact this
      · rw [i2, List.length_cons]
        omega
      · intro i Def hi
        cases i with
        | zero =>
          simp only [List.getElem?_cons_zero, Option.some.injEq] at hi
          subst hi
          have h0 : (bufferAfter (b.AddToVec D0.DataSize D0.AlignReq).1 defs).allocs[
              b.allocs.length]? =
              ((bufferAfter (b.AddToVec D0.DataSize D0.AlignReq).1 defs).allocs.take
                (b.allocs.length + 1))[b.allocs.length]? := by
            rw [List.getElem?_take_of_lt (Nat.lt_succ_self _)]
          rw [Nat.add_zero, h0, i1]
          simp [positionAfter, bufferAfter, BufferV.AddToVec]
        | succ i =>
          simp only [List.getElem?_cons_succ] at hi
          have := i3 i Def hi
          rw [show b.allocs.length + (i + 1) = b.allocs.length + 1 + i by omega, this]
          rfl
  obtain ⟨a1, a2, a3⟩ := hallocs s.DeferredExterns buf
  have hD := DumpDeferredBlocks_eq s buf hbuf
  have hB : (DumpDeferredBlocks s).CurDataBuffer = some (bufferAfter buf s.DeferredExterns) := by
    rw [hD, r1]
  refine ⟨hB, a1, ?_, a2, by rw [hD]; exact r3,
    by rw [hD]; exact fun o => (r2 o).2, by rw [hD], rfl, ?_, ?_⟩
  · intro i Def hi
    rw [hD]
    exact ⟨a3 i Def hi, r4 hdist i Def hi (hin Def (List.getElem?_mem hi))⟩
  · intro m DataBuffer
    refine ⟨({ DumpDeferredBlocks s with
        m_PriorDataBufferSizeTotal := (DumpDeferredBlocks s).m_PriorDataBufferSizeTotal +
          ((bufferAfter buf s.DeferredExterns).AddToVec 0 m).2
        CurDataBuffer := some DataBuffer },
      ((bufferAfter buf s.DeferredExterns).AddToVec 0 m).1), ?_, rfl, by rw [hD], rfl⟩
    simp only [ReinitStepData, hbuf, hB]
  · intro m
    refine ⟨({ DumpDeferredBlocks s with
        BitField := fun _ => false
        MetaEntry := fun _ => zeroMetaArrayRec
        ScalarSlot := fun _ => none
        CurDataBuffer := none },
      ((bufferAfter buf s.DeferredExterns).AddToVec 0 m).1,
      ((bufferAfter buf s.DeferredExterns).AddToVec 0 m).2 +
        (DumpDeferredBlocks s).m_PriorDataBufferSizeTotal), ?_, by rw [hD], rfl⟩
    simp only [CloseTimestep, hbuf, hB]

/-- Witness of `DumpDeferredBlocks_patches`: the step of scenario S3 with a put
that is copied at once and a deferred put of 32 bytes each; the deferred block
goes to position 32 and `DataBlockLocation` becomes `[0, 32]`. -/
theorem DumpDeferredBlocks_patches_witness :
    S3.deferredState.DeferredExterns.length = 1 ∧
    (DumpDeferredBlocks S3.deferredState).CurDataBuffer =
      some (bufferAfter ⟨[(0, 32)], 32⟩ S3.deferredState.DeferredExterns) ∧
    (DumpDeferredBlocks S3.deferredState).DeferredExterns = [] :=
  ⟨by decide,
    (DumpDeferredBlocks_patches S3.deferredState ⟨[(0, 32)], 32⟩ (by decide) (by decide)
      (by decide)).1,
    (DumpDeferredBlocks_patches S3.deferredState ⟨[(0, 32)], 32⟩ (by decide) (by decide)
      (by decide)).2.2.2.2.2.2.1⟩


/-! ### The `Shape` of a variable over the calls of a step -/

theorem getLast?_getD_append {α : Type} (l1 l2 : List α) (d : α) :
    (l1 ++ l2).getLast?.getD d = l2.getLast?.getD (l1.getLast?.getD d) := by
  rcases List.eq_nil_or_concat l2 with h | ⟨l, x, h⟩
  · subst h
    simp
  · subst h
    rw [List.concat_eq_append, ← List.append_assoc]
    simp [List.getLast?_concat]

theorem getLast?_cons_getD {α : Type} :
    ∀ (l : List α) (x : α), (x :: l).getLast? = some (l.getLast?.getD x)
  | [], _ => rfl
  | y :: l, x => by
    rw [List.getLast?_cons_cons, getLast?_cons_getD l y]
    rfl

theorem putEntry_shape_first (n : Nat) (Rec : BP5WriterRec) (a : MarshalArgs)
    (base : MetaArrayRecOperator) (DO CS : Nat)
    (MM : MinMaxStruct) (hS : ∀ S, a.Shape = some S → S.length = a.DimCount) :
    (putEntry n Rec a base none DO CS MM).Shape = a.Shape := by
  show a.Shape.map (CopyDims a.DimCount) = a.Shape
  cases hs : a.Shape with
  | none => rfl
  | some S =>
    simp only [Option.map_some', CopyDims]
    rw [List.take_of_length_le (Nat.le_of_eq (hS S hs))]

theorem putEntry_shape_next (n : Nat) (Rec : BP5WriterRec) (a : MarshalArgs)
    (base e : MetaArrayRecOperator) (DO CS : Nat)
    (MM : MinMaxStruct) (hS : ∀ S, a.Shape = some S → S.length = a.DimCount)
    (hP : ∀ S, e.Shape = some S → S.length = a.DimCount) :
    (putEntry n Rec a base (some e) DO CS MM).Shape =
      (match e.Shape with
       | none => none
       | some old => some (a.Shape.getD old)) := by
  show (match a.Shape, e.Shape with
    | some Shape, some old => some (Shape.take a.DimCount ++ old.drop a.DimCount)
    | _, old => old) = _
  cases he : e.Shape with
  | none => cases hs : a.Shape <;> rfl
  | some old =>
    cases hs : a.Shape with
    | none => rfl
    | some S =>
      simp only [Option.getD_some]
      rw [List.take_of_length_le (Nat.le_of_eq (hS S hs)),
        List.drop_of_length_le (Nat.le_of_eq (hP old he)), List.append_nil]

theorem foldl_entryStep_shape (Init : DataType → MinMaxStruct) (stdTypes : MinMaxTypes)
    (D : Nat) :
    ∀ (hist : List (BP5Serializer × VariableBase × MarshalArgs)) (e : MetaArrayRecOperator),
      (∀ h ∈ hist, h.2.2.DimCount = D ∧ ∀ S, h.2.2.Shape = some S → S.length = D) →
      (∀ S, e.Shape = some S → S.length = D) →
      ∃ e1, hist.foldl (entryStep Init stdTypes) (some e) = some e1 ∧
        e1.Shape =
          (match e.Shape with
           | none => none
           | some S => some ((shapesOf (hist.map (fun h => h.2.2))).getLast?.getD S))
  | [], e, _, _ => ⟨e, rfl, by cases e.Shape <;> rfl⟩
  | h :: hist, e, hD, he => by
    obtain ⟨hd, hs⟩ := hD h (List.mem_cons_self _ _)
    have hp := putEntry_shape_next h.1.m_StatsLevel (writerRecOf h.1 h.2.1 h.2.2) h.2.2
      (h.1.MetaEntry (writerRecOf h.1 h.2.1 h.2.2).MetaOffset) e
      (stagedOf h.1 h.2.1 h.2.2 (h.1.CurDataBuffer.getD ⟨[], 0⟩)).2.1
      (stagedOf h.1 h.2.1 h.2.2 (h.1.CurDataBuffer.getD ⟨[], 0⟩)).2.2.1
      (minMaxOf Init stdTypes h.1 h.2.1 h.2.2) (fun S hS => by rw [hd]; exact hs S hS)
      (fun S hS => by
        rw [hd]
        exact he S hS)
    obtain ⟨e1, r1, r2⟩ := foldl_entryStep_shape Init stdTypes D hist _
      (fun x hx => hD x (List.mem_cons_of_mem _ hx))
      (fun S hS => by
        rw [hp] at hS
        cases hes : e.Shape with
        | none => simp [hes] at hS
        | some old =>
          simp only [hes, Option.some.injEq] at hS
          cases hsh : h.2.2.Shape with
          | none =>
            rw [hsh] at hS
            rw [← hS]
            exact he old hes
          | some S1 =>
            rw [hsh] at hS
            rw [← hS]
            exact hs S1 hsh)
    refine ⟨e1, by rw [List.foldl_cons]; exact r1, ?_⟩
    rw [r2, hp]
    cases hes : e.Shape with
    | none => rfl
    | some old =>
      simp only [Option.some.injEq]
      have : shapesOf ((h :: hist).map (fun h => h.2.2)) =
          h.2.2.Shape.toList ++ shapesOf (hist.map (fun h => h.2.2)) := by
        cases hsh : h.2.2.Shape <;> simp [shapesOf, List.filterMap_cons, hsh]
      rw [this, getLast?_getD_append]
      cases hsh : h.2.2.Shape <;> rfl


/-- Claim C29, as the code has it: after the `Marshal` calls of a step so far,
of which at least one is on the array variable with key `K` (calls on other
variables may stand between them), the `Shape` stored in the `MetaArrayRec` of
the variable is the `Shape` argument of the last call on it that passed one
when the first call on it passed a `Shape`, and is null when the first call on
it passed none. The calls on the variable have the same dimension count `D`
and pass shapes of `D` values. -/
theorem Marshal_shape_last (Init : DataType → MinMaxStruct) (stdTypes : MinMaxTypes)
    (s : BP5Serializer) (calls : List (VariableBase × MarshalArgs)) (K D : Nat)
    (first : VariableBase × MarshalArgs)
    (hinv : RecordsInv s) (hbuf : s.CurDataBuffer ≠ none) (hnew : entryOf s K = none)
    (hE : ∀ c ∈ calls, 0 < c.2.ElemSize)
    (hK : ∀ c ∈ calls, c.1.Key = K → c.1.m_SingleValue = false ∧ c.2.DimCount = D ∧
      ∀ S, c.2.Shape = some S → S.length = D)
    (hfirst : (calls.filter (fun c => decide (c.1.Key = K))).head? = some first) :
    ∃ e, entryOf (marshalCalls Init stdTypes s calls) K = some e ∧
      e.Shape =
        (match first.2.Shape with
         | none => none
         | some _ =>
           (shapesOf ((calls.filter (fun c => decide (c.1.Key = K))).map
             (fun c => c.2))).getLast?) := by
  obtain ⟨_, _, r⟩ := entryOf_marshalCalls Init stdTypes K calls s hinv hbuf hE
    (fun c hc hk => (hK c hc hk).1)
  have hall := callsOn_forall Init stdTypes K
    (fun c => c.2.DimCount = D ∧ ∀ S, c.2.Shape = some S → S.length = D) calls s
    (fun c hc hk => (hK c hc hk).2)
  have hargs := callsOn_args Init stdTypes K calls s
  rw [r, hnew, ← hargs]
  rw [← hargs] at hfirst
  cases hh : callsOn Init stdTypes K s calls with
  | nil => simp [hh] at hfirst
  | cons h hist =>
    rw [hh] at hfirst hall
    simp only [List.map_cons, List.head?_cons, Option.some.injEq] at hfirst
    obtain ⟨hd, hs⟩ := hall h (List.mem_cons_self _ _)
    have hp := putEntry_shape_first h.1.m_StatsLevel (writerRecOf h.1 h.2.1 h.2.2) h.2.2
      (h.1.MetaEntry (writerRecOf h.1 h.2.1 h.2.2).MetaOffset)
      (stagedOf h.1 h.2.1 h.2.2 (h.1.CurDataBuffer.getD ⟨[], 0⟩)).2.1
      (stagedOf h.1 h.2.1 h.2.2 (h.1.CurDataBuffer.getD ⟨[], 0⟩)).2.2.1
      (minMaxOf Init stdTypes h.1 h.2.1 h.2.2) (fun S hS => by rw [hd]; exact hs S hS)
    obtain ⟨e1, r1, r2⟩ := foldl_entryStep_shape Init stdTypes D hist _
      (fun x hx => hall x (List.mem_cons_of_mem _ hx))
      (fun S hS => by
        rw [hp] at hS
        exact hs S hS)
    refine ⟨e1, by rw [List.foldl_cons]; exact r1, ?_⟩
    rw [r2, hp, ← hfirst]
    cases hsh : h.2.2.Shape with
    | none => rfl
    | some S0 =>
      simp only [List.map_map, List.map_cons]
      have : shapesOf (h.2.2 :: List.map ((fun c => c.2) ∘ fun h => h.2) hist) =
          [S0] ++ shapesOf (hist.map (fun h => h.2.2)) := by
        simp [shapesOf, List.filterMap_cons, hsh, Function.comp_def]
      rw [this, List.singleton_append, getLast?_cons_getD]

/-- Witness of `Marshal_shape_last`: two puts on the variable of scenario S3,
the first with the `Shape` `[2, 8]`, the second with `[4, 8]`. -/
theorem Marshal_shape_last_witness :
    (RecordsInv S3.writer ∧ entryOf S3.writer 1 = none) ∧
    ∃ e, entryOf (marshalCalls S3.Init (fun _ => true) S3.writer S3.shapePuts) 1 = some e ∧
      e.Shape =
        (match S3.put0.Shape with
         | none => none
         | some _ =>
           (shapesOf ((S3.shapePuts.filter (fun c => decide (c.1.Key = 1))).map
             (fun c => c.2))).getLast?) :=
  ⟨⟨RecordsInv_of_empty S3.writer rfl (fun _ => rfl), rfl⟩,
    Marshal_shape_last S3.Init (fun _ => true) S3.writer S3.shapePuts 1 2 (S3.variable, S3.put0)
      (RecordsInv_of_empty S3.writer rfl (fun _ => rfl)) (by simp [S3.writer]) rfl
      (by decide) (by decide) rfl⟩

/-- Claim C29, counterexample: a put on the variable of scenario S3 that passes
no `Shape`, then a put on it that passes the `Shape` `[2, 8]`: the stored
`Shape` is null, and the last `Shape` passed is `[2, 8]`. -/
theorem Marshal_shape_after_null :
    (entryOf (marshalCalls S3.Init (fun _ => true) S3.writer S3.shapeLatePuts) 1).isSome = true ∧
    (entryOf (marshalCalls S3.Init (fun _ => true) S3.writer S3.shapeLatePuts) 1).bind
      (fun e => e.Shape) = none ∧
    (shapesOf (S3.shapeLatePuts.map (fun c => c.2))).getLast? = some [2, 8] := by
  decide


/-! ### Aggregates of several ranks: the unique meta-meta blocks -/

theorem breakoutRank_of (Agg : List Nat) (r : RankInput) (s : BreakoutState) (rest : List Nat)
    (hfit : r.Fits) (h : ReadAt Agg s.Position (r.stream ++ rest)) :
    ∃ pos, breakoutRank Agg s =
        some ⟨pos, s.MetadataBlocks ++ r.MetaEncodeBuffers.map returned,
          r.NewMetaMetaBlocks.foldl addUnique s.UniqueMetaMetaBlocks,
          s.AttributeBlocks ++ r.AttributeEncodeBuffers.map returned,
          s.DataSizes ++ r.DataSizes, s.WriterDataPositions ++ r.WriterDataPositions⟩ ∧
      ReadAt Agg pos rest := by
  obtain ⟨hXlen, hX, hMlen, hM, hAlen, hA, hDSlen, hDS, hWlen, hW⟩ := hfit
  have h0 : ReadAt Agg s.Position (u64Bytes r.NewMetaMetaBlocks.length ++
      (r.NewMetaMetaBlocks.flatMap encMetaMeta ++ (u64Bytes r.MetaEncodeBuffers.length ++
      (r.MetaEncodeBuffers.flatMap encBlock ++ (u64Bytes r.AttributeEncodeBuffers.length ++
      (r.AttributeEncodeBuffers.flatMap encBlock ++ (u64Bytes r.DataSizes.length ++
      (r.DataSizes.flatMap u64Bytes ++ (u64Bytes r.WriterDataPositions.length ++
      (r.WriterDataPositions.flatMap u64Bytes ++ rest)))))))))) := by
    simpa [RankInput.stream, encoded, List.append_assoc] using h
  obtain ⟨r1, h1⟩ := CopyFromBuffer_of h0 hXlen
  obtain ⟨p2, r2, h2⟩ := breakoutMetaMeta_of Agg r.NewMetaMetaBlocks _ s.UniqueMetaMetaBlocks _
    hX h1
  obtain ⟨r3, h3⟩ := CopyFromBuffer_of h2 hMlen
  obtain ⟨p4, r4, h4⟩ := breakoutBlocks_of Agg r.MetaEncodeBuffers _ s.MetadataBlocks _ hM h3
  obtain ⟨r5, h5⟩ := CopyFromBuffer_of h4 hAlen
  obtain ⟨p6, r6, h6⟩ := breakoutBlocks_of Agg r.AttributeEncodeBuffers _ s.AttributeBlocks _
    hA h5
  obtain ⟨r7, h7⟩ := CopyFromBuffer_of h6 hDSlen
  obtain ⟨p8, r8, h8⟩ := breakoutU64s_of Agg r.DataSizes _ s.DataSizes _ hDS h7
  obtain ⟨r9, h9⟩ := CopyFromBuffer_of h8 hWlen
  obtain ⟨p10, r10, h10⟩ := breakoutU64s_of Agg r.WriterDataPositions _ s.WriterDataPositions
    rest hW h9
  refine ⟨p10, ?_, h10⟩
  simp only [breakoutRank, r1, r2, r3, r4, r5, r6, r7, r8, r9, r10]

theorem breakoutRanks_of (Agg : List Nat) :
    ∀ (ranks : List RankInput) (Counts : List Nat) (s : BreakoutState) (rest : List Nat),
      Counts.length = ranks.length → (∀ r ∈ ranks, r.Fits) →
      ReadAt Agg s.Position (ranks.flatMap RankInput.stream ++ rest) →
      ∃ pos, Counts.foldl (fun s _ => s.bind (breakoutRank Agg)) (some s) =
          some ⟨pos,
            s.MetadataBlocks ++ ranks.flatMap (fun r => r.MetaEncodeBuffers.map returned),
            (ranks.flatMap (fun r => r.NewMetaMetaBlocks)).foldl addUnique
              s.UniqueMetaMetaBlocks,
            s.AttributeBlocks ++
              ranks.flatMap (fun r => r.AttributeEncodeBuffers.map returned),
            s.DataSizes ++ ranks.flatMap (fun r => r.DataSizes),
            s.WriterDataPositions ++ ranks.flatMap (fun r => r.WriterDataPositions)⟩ ∧
        ReadAt Agg pos rest
  | [], Counts, s, rest, hl, _, h => by
    have : Counts = [] := List.length_eq_zero.mp hl
    subst this
    exact ⟨s.Position, by simp, by simpa using h⟩
  | r :: ranks, Counts, s, rest, hl, hfit, h => by
    cases Counts with
    | nil => simp at hl
    | cons c Counts =>
      obtain ⟨p1, e1, h1⟩ := breakoutRank_of Agg r s (ranks.flatMap RankInput.stream ++ rest)
        (hfit r (List.mem_cons_self _ _))
        (by simpa [List.flatMap_cons, List.append_assoc] using h)
      obtain ⟨p2, e2, h2⟩ := breakoutRanks_of Agg ranks Counts
        ⟨p1, s.MetadataBlocks ++ r.MetaEncodeBuffers.map returned,
          r.NewMetaMetaBlocks.foldl addUnique s.UniqueMetaMetaBlocks,
          s.AttributeBlocks ++ r.AttributeEncodeBuffers.map returned,
          s.DataSizes ++ r.DataSizes, s.WriterDataPositions ++ r.WriterDataPositions⟩ rest
        (by simpa using hl) (fun x hx => hfit x (List.mem_cons_of_mem _ hx)) h1
      refine ⟨p2, ?_, h2⟩
      rw [List.foldl_cons, Option.some_bind, e1, e2]
      simp [List.flatMap_cons, List.foldl_append, List.append_assoc]


theorem ExtendsUnique_refl (U : List MetaMetaInfoBlock) : ExtendsUnique U U :=
  ⟨[], by simp, by simp [idsOf], fun b hb => by cases hb⟩

theorem ExtendsUnique_trans {U U1 U2 : List MetaMetaInfoBlock} (h1 : ExtendsUnique U U1)
    (h2 : ExtendsUnique U1 U2) : ExtendsUnique U U2 := by
  obtain ⟨a1, e1, n1, d1⟩ := h1
  obtain ⟨a2, e2, n2, d2⟩ := h2
  subst e1
  refine ⟨a1 ++ a2, by rw [e2, List.append_assoc], ?_, ?_⟩
  · simp only [idsOf, List.map_append] at *
    rw [List.nodup_append]
    refine ⟨n1, n2, ?_⟩
    intro x hx1 hx2
    obtain ⟨o, ho, rfl⟩ := List.mem_map.mp hx1
    obtain ⟨b, hb, hbo⟩ := List.mem_map.mp hx2
    exact d2 b hb o (List.mem_append_right _ ho) hbo.symm
  · intro b hb o ho
    rcases List.mem_append.mp hb with hb | hb
    · exact d1 b hb o ho
    · exact d2 b hb o (List.mem_append_left _ ho)

theorem ExtendsUnique_nodup {U U1 : List MetaMetaInfoBlock} (h : ExtendsUnique U U1)
    (hU : (idsOf U).Nodup) : (idsOf U1).Nodup := by
  obtain ⟨a, e, n, d⟩ := h
  subst e
  simp only [idsOf, List.map_append] at *
  rw [List.nodup_append]
  refine ⟨hU, n, ?_⟩
  intro x hx1 hx2
  obtain ⟨o, ho, rfl⟩ := List.mem_map.mp hx1
  obtain ⟨b, hb, hbo⟩ := List.mem_map.mp hx2
  exact d b hb o ho hbo.symm

theorem viewAt_length {A : List Nat} {pos len : Nat} {v : List Nat}
    (h : viewAt A pos len = some v) : v.length = len := by
  unfold viewAt at h
  split at h
  · cases h
    rw [List.length_take, List.length_drop]
    omega
  · cases h

theorem breakoutMetaMeta_extends (A : List Nat) :
    ∀ (n pos : Nat) (U : List MetaMetaInfoBlock) (res : Nat × List MetaMetaInfoBlock),
      breakoutMetaMeta A n pos U = some res → ExtendsUnique U res.2
  | 0, pos, U, res, h => by
    simp only [breakoutMetaMeta, Option.some.injEq] at h
    subst h
    exact ExtendsUnique_refl U
  | n + 1, pos, U, res, h => by
    rw [breakoutMetaMeta] at h
    cases h1 : CopyFromBuffer A pos with
    | none => simp [h1] at h
    | some v1 =>
      simp only [h1] at h
      cases h2 : CopyFromBuffer A v1.2 with
      | none => simp [h2] at h
      | some v2 =>
        simp only [h2] at h
        cases h3 : viewAt A v2.2 v1.1 with
        | none => simp [h3] at h
        | some ID =>
          cases h4 : viewAt A (v2.2 + v1.1) v2.1 with
          | none => simp [h3, h4] at h
          | some Info =>
            simp only [h3, h4] at h
            have hl := viewAt_length h3
            by_cases hf : Found U v1.1 ID = true
            · rw [if_pos hf] at h
              exact breakoutMetaMeta_extends A n _ U res h
            · rw [if_neg hf] at h
              have ih := breakoutMetaMeta_extends A n _ _ res h
              refine ExtendsUnique_trans ⟨[⟨Info, ID⟩], rfl, by simp [idsOf], ?_⟩ ih
              intro b hb o ho e
              rw [List.mem_singleton] at hb
              subst hb
              apply hf
              rw [← hl, Found_iff]
              exact ⟨o, ho, e⟩

theorem breakoutRank_extends (A : List Nat) (s r : BreakoutState)
    (h : breakoutRank A s = some r) :
    ExtendsUnique s.UniqueMetaMetaBlocks r.UniqueMetaMetaBlocks := by
  have key : ∀ (n p q : Nat) (U1 : List MetaMetaInfoBlock),
      breakoutMetaMeta A n p s.UniqueMetaMetaBlocks = some (q, U1) →
      ExtendsUnique s.UniqueMetaMetaBlocks U1 :=
    fun n p q U1 e => breakoutMetaMeta_extends A n p _ (q, U1) e
  unfold breakoutRank at h
  repeat' split at h
  all_goals first
    | (cases h; done)
    | (cases h; apply key; assumption)


theorem nodup_filter_eq_length {α : Type} [DecidableEq α] :
    ∀ (l : List α) (a : α), l.Nodup → a ∈ l →
      (l.filter (fun x => decide (x = a))).length = 1
  | [], _, _, h => by cases h
  | x :: l, a, hn, h => by
    rw [List.nodup_cons] at hn
    by_cases hx : x = a
    · subst hx
      rw [List.filter_cons_of_pos (by simp)]
      have : l.filter (fun y => decide (y = x)) = [] := by
        rw [List.filter_eq_nil_iff]
        intro y hy
        simp only [decide_eq_true_eq]
        intro e
        subst e
        exact hn.1 hy
      rw [this]
      rfl
    · rw [List.filter_cons_of_neg (by simpa using hx)]
      rcases List.mem_cons.mp h with h | h
      · exact absurd h.symm hx
      · exact nodup_filter_eq_length l a hn.2 h

theorem breakoutFold_extends (A : List Nat) :
    ∀ (Counts : List Nat) (o : Option BreakoutState) (r : BreakoutState),
      Counts.foldl (fun s _ => s.bind (breakoutRank A)) o = some r →
      ∃ s, o = some s ∧ ExtendsUnique s.UniqueMetaMetaBlocks r.UniqueMetaMetaBlocks
  | [], o, r, h => ⟨r, h, ExtendsUnique_refl _⟩
  | _ :: Counts, o, r, h => by
    rw [List.foldl_cons] at h
    obtain ⟨s1, e1, x1⟩ := breakoutFold_extends A Counts _ r h
    cases o with
    | none => cases e1
    | some s =>
      rw [Option.some_bind] at e1
      exact ⟨s, rfl, ExtendsUnique_trans (breakoutRank_extends A s s1 e1) x1⟩

theorem addUnique_ids (U : List MetaMetaInfoBlock) (b : MetaMetaInfoBlock) :
    b.MetaMetaID ∈ idsOf (addUnique U b) ∧ ∀ x ∈ idsOf U, x ∈ idsOf (addUnique U b) := by
  unfold addUnique
  by_cases hf : Found U b.MetaMetaIDLen b.MetaMetaID = true
  · rw [if_pos hf]
    refine ⟨?_, fun x hx => hx⟩
    obtain ⟨o, ho, e⟩ := (Found_iff U b.MetaMetaID).mp hf
    rw [← e]
    exact List.mem_map_of_mem _ ho
  · rw [if_neg hf]
    simp only [idsOf, List.map_append, List.map_cons, List.map_nil, List.mem_append,
      List.mem_singleton]
    exact ⟨Or.inr trivial, fun x hx => Or.inl hx⟩

theorem foldl_addUnique_ids :
    ∀ (X U : List MetaMetaInfoBlock),
      (∀ x ∈ idsOf U, x ∈ idsOf (X.foldl addUnique U)) ∧
      ∀ b ∈ X, b.MetaMetaID ∈ idsOf (X.foldl addUnique U)
  | [], U => ⟨fun x hx => hx, fun b hb => by cases hb⟩
  | c :: X, U => by
    obtain ⟨i1, i2⟩ := foldl_addUnique_ids X (addUnique U c)
    obtain ⟨a1, a2⟩ := addUnique_ids U c
    rw [List.foldl_cons]
    refine ⟨fun x hx => i1 x (a2 x hx), ?_⟩
    intro b hb
    rcases List.mem_cons.mp hb with hb | hb
    · rw [hb]
      exact i1 _ a1
    · exact i2 b hb

/-- Claim C30: `BreakoutContiguousMetadata` appends a meta-meta block to
`UniqueMetaMetaBlocks` only when its ID differs from the ID of every block of
the list. For every aggregate on which it returns, the final list is the
initial list followed by blocks whose IDs differ from each other and from every
ID of the initial list, so the initial entries keep their positions and
pairwise distinct IDs stay pairwise distinct. For an aggregate that holds the
streams of the ranks one after the other it returns, and the ID of every
meta-meta block of every rank occurs in the final list, exactly once when the
initial IDs are pairwise distinct. -/
theorem BreakoutContiguousMetadata_unique (Aggregate Counts : List Nat)
    (UniqueMetaMetaBlocks : List MetaMetaInfoBlock) (AttributeBlocks : List iovec)
    (DataSizes WriterDataPositions : List Nat) :
    (∀ r, BreakoutContiguousMetadata Aggregate Counts UniqueMetaMetaBlocks AttributeBlocks
        DataSizes WriterDataPositions = some r →
      (∃ added, r.UniqueMetaMetaBlocks = UniqueMetaMetaBlocks ++ added ∧
        (idsOf added).Nodup ∧
        ∀ b ∈ added, ∀ o ∈ UniqueMetaMetaBlocks, o.MetaMetaID ≠ b.MetaMetaID) ∧
      (∀ i < UniqueMetaMetaBlocks.length,
        r.UniqueMetaMetaBlocks[i]? = UniqueMetaMetaBlocks[i]?) ∧
      ((idsOf UniqueMetaMetaBlocks).Nodup → (idsOf r.UniqueMetaMetaBlocks).Nodup)) ∧
    (∀ (ranks : List RankInput) (rest : List Nat),
      Counts.length = ranks.length → (∀ r ∈ ranks, r.Fits) →
      Aggregate = ranks.flatMap RankInput.stream ++ rest →
      ∃ r, BreakoutContiguousMetadata Aggregate Counts UniqueMetaMetaBlocks AttributeBlocks
          DataSizes WriterDataPositions = some r ∧
        r.UniqueMetaMetaBlocks =
          (ranks.flatMap (fun r => r.NewMetaMetaBlocks)).foldl addUnique
            UniqueMetaMetaBlocks ∧
        ∀ b ∈ ranks.flatMap (fun r => r.NewMetaMetaBlocks),
          b.MetaMetaID ∈ idsOf r.UniqueMetaMetaBlocks ∧
          ((idsOf UniqueMetaMetaBlocks).Nodup →
            ((idsOf r.UniqueMetaMetaBlocks).filter
              (fun x => decide (x = b.MetaMetaID))).length = 1)) := by
  have gen : ∀ r, BreakoutContiguousMetadata Aggregate Counts UniqueMetaMetaBlocks
      AttributeBlocks DataSizes WriterDataPositions = some r →
      ExtendsUnique UniqueMetaMetaBlocks r.UniqueMetaMetaBlocks := by
    intro r h
    obtain ⟨s, e, x⟩ := breakoutFold_extends Aggregate Counts _ r h
    cases e
    exact x
  refine ⟨?_, ?_⟩
  · intro r h
    have x := gen r h
    refine ⟨x, ?_, ExtendsUnique_nodup x⟩
    obtain ⟨added, e, _⟩ := x
    intro i hi
    rw [e, List.getElem?_append_left hi]
  · intro ranks rest hl hfit hA
    obtain ⟨pos, e, _⟩ := breakoutRanks_of Aggregate ranks Counts
      ⟨0, [], UniqueMetaMetaBlocks, AttributeBlocks, DataSizes, WriterDataPositions⟩ rest hl hfit
      ⟨Nat.zero_le _, by rw [hA]; rfl⟩
    refine ⟨_, e, rfl, ?_⟩
    intro b hb
    have hm := (foldl_addUnique_ids (ranks.flatMap (fun r => r.NewMetaMetaBlocks))
      UniqueMetaMetaBlocks).2 b hb
    refine ⟨hm, fun hU => ?_⟩
    exact nodup_filter_eq_length _ _ (ExtendsUnique_nodup (gen _ e) hU) hm

set_option maxRecDepth 100000 in
/-- Witness of `BreakoutContiguousMetadata_unique`: the aggregate of two ranks
that both bring the block with the ID `[3]`, broken out into a list that holds
a block with the ID `[4]`. -/
theorem BreakoutContiguousMetadata_unique_witness :
    Agg.aggregate = [Agg.rank0, Agg.rank1].flatMap RankInput.stream ++ [] ∧
    ∃ r, BreakoutContiguousMetadata Agg.aggregate [0, 0] Agg.known [] [] [] = some r ∧
      r.UniqueMetaMetaBlocks =
        ([Agg.rank0, Agg.rank1].flatMap (fun r => r.NewMetaMetaBlocks)).foldl addUnique
          Agg.known ∧
      ∀ b ∈ [Agg.rank0, Agg.rank1].flatMap (fun r => r.NewMetaMetaBlocks),
        b.MetaMetaID ∈ idsOf r.UniqueMetaMetaBlocks ∧
        ((idsOf Agg.known).Nodup → ((idsOf r.UniqueMetaMetaBlocks).filter
              (fun x => decide (x = b.MetaMetaID))).length = 1) :=
  ⟨by decide,
    (BreakoutContiguousMetadata_unique Agg.aggregate [0, 0] Agg.known [] [] []).2
      [Agg.rank0, Agg.rank1] [] rfl (by decide) (by decide)⟩


/-! ### Installing metadata: the field loop -/

theorem noteWriter_RA (c W S off : Nat) (R : InstalledVarRec) :
    noteWriter true c W S off R = some { R with AbsStepFromRel := pushStep R.AbsStepFromRel S } := by
  unfold noteWriter pushStep
  by_cases h : R.AbsStepFromRel.length = 0 ∨ R.AbsStepFromRel.getLast? ≠ some S
  · rw [if_pos h, if_pos h]
    simp
  · rw [if_neg h, if_neg h]
    simp

theorem noteWriter_frame (ra : Bool) (c W S off : Nat) (R R1 : InstalledVarRec)
    (h : noteWriter ra c W S off R = some R1) :
    R1.Variable = R.Variable ∧ R1.GlobalDims = R.GlobalDims ∧ R1.LastTSAdded = R.LastTSAdded ∧
    R1.Type_ = R.Type_ ∧ R1.FirstTSSeen = R.FirstTSSeen := by
  unfold noteWriter at h
  split at h
  · dsimp only at h
    split at h
    · cases h
    · rename_i P hP
      simp only [Option.some.injEq] at h
      subst h
      dsimp only
      split <;> exact ⟨rfl, rfl, rfl, rfl, rfl⟩
  · split at h
    · simp only [Option.some.injEq] at h
      subst h
      exact ⟨rfl, rfl, rfl, rfl, rfl⟩
    · simp only [Option.some.injEq] at h
      subst h
      exact ⟨rfl, rfl, rfl, rfl, rfl⟩

theorem installArray_spec (stdType : DataType → Bool) (DefineVariable : DataType → VariableHandle)
    (Wm Rm ra : Bool) (c W S : Nat) (R R2 : InstalledVarRec) (m m1 : MetaArrayRecOperator)
    (h : installArray stdType DefineVariable Wm Rm ra c W S R m = some (R2, m1)) :
    installArrayField Wm Rm m = some m1 ∧
    R2.AbsStepFromRel = R.AbsStepFromRel ∧ R2.Type_ = R.Type_ ∧
    R2.FirstTSSeen = R.FirstTSSeen ∧
    R2.GlobalDims = (if W = 0 ∨ R.GlobalDims = none then m1.Shape else R.GlobalDims) ∧
    R2.DimCount = m1.Dims ∧
    (R.Variable = none →
      ∃ hd, ArrayVarSetup stdType DefineVariable R.Type_ (toInt32 m1.Dims) m1.Shape m1.Count =
          some (some hd) ∧
        R2.Variable =
          some (if m1.Shape = none then { hd with m_ShapeID := ShapeID.LocalArray } else hd) ∧
        R2.LastTSAdded = S) ∧
    (R.Variable ≠ none → R2.Variable = R.Variable ∧ R2.LastTSAdded = R.LastTSAdded) := by
  unfold installArray at h
  try dsimp only at h
  split at h
  · cases h
  · rename_i mb hmb
    try dsimp only at h
    split at h
    · cases h
    · rename_i VR hVR
      try dsimp only at h
      have hres : m1 = mb ∧ R2.AbsStepFromRel = VR.AbsStepFromRel ∧ R2.Type_ = VR.Type_ ∧
          R2.FirstTSSeen = VR.FirstTSSeen ∧ R2.GlobalDims = VR.GlobalDims ∧
          R2.DimCount = mb.Dims ∧ R2.Variable = VR.Variable ∧
          R2.LastTSAdded = VR.LastTSAdded := by
        split at h
        · split at h
          · cases h
          · simp only [Option.some.injEq, Prod.mk.injEq] at h
            obtain ⟨h1, h2⟩ := h
            subst h1 h2
            exact ⟨rfl, rfl, rfl, rfl, rfl, rfl, rfl, rfl⟩
        · simp only [Option.some.injEq, Prod.mk.injEq] at h
          obtain ⟨h1, h2⟩ := h
          subst h1 h2
          exact ⟨rfl, rfl, rfl, rfl, rfl, rfl, rfl, rfl⟩
      obtain ⟨e1, e2, e3, e4, e5, e6, e7, e8⟩ := hres
      subst e1
      rw [e2, e3, e4, e5, e6, e7, e8]
      clear h e2 e3 e4 e5 e6 e7 e8
      have hV : (if W = 0 ∨ R.GlobalDims = none then
          ({ R with GlobalDims := m1.Shape } : InstalledVarRec) else R).Variable = R.Variable := by
        split <;> rfl
      rw [hV] at hVR
      refine ⟨hmb, ?_⟩
      by_cases hv : R.Variable = none
      · rw [if_pos hv] at hVR
        split at hVR
        · rename_i hd hA
          simp only [Option.some.injEq] at hVR
          subst hVR
          have hT : (if W = 0 ∨ R.GlobalDims = none then
              ({ R with GlobalDims := m1.Shape } : InstalledVarRec) else R).Type_ = R.Type_ := by
            split <;> rfl
          rw [hT] at hA
          refine ⟨?_, ?_, ?_, ?_, rfl, fun _ => ⟨hd, hA, rfl, rfl⟩, fun hn => absurd hv hn⟩
          all_goals (dsimp only; split <;> rfl)
        · cases hVR
      · rw [if_neg hv] at hVR
        simp only [Option.some.injEq] at hVR
        subst hVR
        refine ⟨?_, ?_, ?_, ?_, rfl, fun h0 => absurd h0 hv, fun _ => ⟨hV, ?_⟩⟩
        all_goals (split <;> rfl)

theorem installValue_spec (stdType : DataType → Bool) (DefineVariable : DataType → VariableHandle)
    (c S : Nat) (sid : ShapeID) (R R2 : InstalledVarRec)
    (h : installValue stdType DefineVariable c S sid R = some R2) :
    R2.AbsStepFromRel = R.AbsStepFromRel ∧ R2.Type_ = R.Type_ ∧
    R2.FirstTSSeen = R.FirstTSSeen ∧ R2.GlobalDims = R.GlobalDims ∧
    (R.Variable = none →
      ∃ hd, R2.Variable = some hd ∧ R2.LastTSAdded = S ∧
        (sid = ShapeID.LocalValue →
          ∃ h0, ArrayVarSetup stdType DefineVariable R.Type_ 1 (some [c]) (some [c]) =
              some (some h0) ∧ hd = { h0 with m_ShapeID := ShapeID.GlobalArray }) ∧
        (sid ≠ ShapeID.LocalValue → VarSetup stdType DefineVariable R.Type_ = some hd)) ∧
    (R.Variable ≠ none → R2 = R) := by
  unfold installValue at h
  by_cases hv : R.Variable = none
  · rw [if_pos hv] at h
    by_cases hs : sid = ShapeID.LocalValue
    · rw [if_pos hs] at h
      split at h
      · rename_i h0 hA
        simp only [Option.some.injEq] at h
        subst h
        exact ⟨rfl, rfl, rfl, rfl, fun _ => ⟨_, rfl, rfl, fun _ => ⟨h0, hA, rfl⟩,
          fun hn => absurd hs hn⟩, fun hn => absurd hv hn⟩
      · cases h
    · rw [if_neg hs] at h
      split at h
      · rename_i hd hA
        simp only [Option.some.injEq] at h
        subst h
        exact ⟨rfl, rfl, rfl, rfl, fun _ => ⟨_, rfl, rfl, fun hn => absurd hn hs,
          fun _ => hA⟩, fun hn => absurd hv hn⟩
      · cases h
  · rw [if_neg hv] at h
    simp only [Option.some.injEq] at h
    subst h
    exact ⟨rfl, rfl, rfl, rfl, fun h0 => absurd h0 hv, fun _ => rfl⟩

theorem countStep_spec (ra : Bool) (S : Nat) (R R1 : InstalledVarRec)
    (h : countStep ra S R = some R1) :
    R1.AbsStepFromRel = R.AbsStepFromRel ∧ R1.Type_ = R.Type_ ∧ R1.GlobalDims = R.GlobalDims ∧
    (¬ (ra = true ∧ R.LastTSAdded ≠ S) →
      R1.Variable = R.Variable ∧ R1.LastTSAdded = R.LastTSAdded) ∧
    (ra = true → R.LastTSAdded ≠ S →
      ∃ h0, R.Variable = some h0 ∧
        R1.Variable = some { h0 with
          m_AvailableStepsCount := (h0.m_AvailableStepsCount + 1) % 2 ^ 64 } ∧
        R1.LastTSAdded = S) := by
  unfold countStep at h
  have hF : ∀ (X : InstalledVarRec),
      (if R.FirstTSSeen = DefaultSizeT then ({ R with FirstTSSeen := S } : InstalledVarRec)
        else R) = X →
      X.AbsStepFromRel = R.AbsStepFromRel ∧ X.Type_ = R.Type_ ∧ X.GlobalDims = R.GlobalDims ∧
      X.Variable = R.Variable ∧ X.LastTSAdded = R.LastTSAdded := by
    intro X hX
    subst hX
    split <;> exact ⟨rfl, rfl, rfl, rfl, rfl⟩
  generalize hXe : (if R.FirstTSSeen = DefaultSizeT then
    ({ R with FirstTSSeen := S } : InstalledVarRec) else R) = X at h
  obtain ⟨x1, x2, x3, x4, x5⟩ := hF X hXe
  dsimp only at h
  rw [x5] at h
  by_cases hc : ra = true ∧ R.LastTSAdded ≠ S
  · rw [if_pos hc] at h
    split at h
    · cases h
    · rename_i h0 hV
      simp only [Option.some.injEq] at h
      subst h
      rw [x4] at hV
      exact ⟨x1, x2, x3, fun hn => absurd hc hn, fun _ _ => ⟨h0, hV, rfl, rfl⟩⟩
  · rw [if_neg hc] at h
    simp only [Option.some.injEq] at h
    subst h
    exact ⟨x1, x2, x3, fun _ => ⟨x4, x5⟩, fun h1 h2 => absurd ⟨h1, h2⟩ hc⟩

theorem installVarRec_spec (stdType : DataType → Bool)
    (DefineVariable : DataType → VariableHandle) (Wm Rm ra : Bool) (c W S : Nat)
    (C : ControlStruct) (R R1 : InstalledVarRec) (m m1 : MetaArrayRecOperator)
    (h : installVarRec stdType DefineVariable Wm Rm ra c W S C R m = some (R1, m1)) :
    R1.Type_ = R.Type_ ∧
    (if C.OrigShapeID = ShapeID.GlobalArray ∨ C.OrigShapeID = ShapeID.LocalArray then
      installArrayField Wm Rm m = some m1 else m1 = m) ∧
    R1.GlobalDims =
      (if (C.OrigShapeID = ShapeID.GlobalArray ∨ C.OrigShapeID = ShapeID.LocalArray) ∧
          (W = 0 ∨ R.GlobalDims = none) then m1.Shape else R.GlobalDims) ∧
    (R.Variable = none →
      ∃ hd, R1.Variable = some hd ∧ R1.LastTSAdded = S ∧
        (C.OrigShapeID = ShapeID.GlobalArray ∨ C.OrigShapeID = ShapeID.LocalArray →
          ∃ h0, ArrayVarSetup stdType DefineVariable R.Type_ (toInt32 m1.Dims) m1.Shape
              m1.Count = some (some h0) ∧
            hd = (if m1.Shape = none then { h0 with m_ShapeID := ShapeID.LocalArray }
              else h0)) ∧
        (¬ (C.OrigShapeID = ShapeID.GlobalArray ∨ C.OrigShapeID = ShapeID.LocalArray) →
          C.OrigShapeID = ShapeID.LocalValue →
          ∃ h0, ArrayVarSetup stdType DefineVariable R.Type_ 1 (some [c]) (some [c]) =
              some (some h0) ∧ hd = { h0 with m_ShapeID := ShapeID.GlobalArray }) ∧
        (¬ (C.OrigShapeID = ShapeID.GlobalArray ∨ C.OrigShapeID = ShapeID.LocalArray) →
          C.OrigShapeID ≠ ShapeID.LocalValue →
          VarSetup stdType DefineVariable R.Type_ = some hd)) ∧
    (∀ h0, R.Variable = some h0 →
      R1.Variable =
        some (if ra = true ∧ R.LastTSAdded ≠ S then
          { h0 with m_AvailableStepsCount := (h0.m_AvailableStepsCount + 1) % 2 ^ 64 }
        else h0)) ∧
    (ra = true → R1.AbsStepFromRel = pushStep R.AbsStepFromRel S ∧ R1.LastTSAdded = S) := by
  unfold installVarRec at h
  split at h
  · cases h
  · rename_i Ra hN
    obtain ⟨n1, n2, n3, n4, _⟩ := noteWriter_frame ra c W S C.FieldOffset R Ra hN
    have hAbs : ra = true → Ra.AbsStepFromRel = pushStep R.AbsStepFromRel S := by
      intro hra
      subst hra
      rw [noteWriter_RA] at hN
      simp only [Option.some.injEq] at hN
      subst hN
      rfl
    dsimp only at h
    split at h
    · cases h
    · rename_i Rb mb hB
      cases hC : countStep ra S Rb with
      | none => simp [hC] at h
      | some Rc =>
        simp only [hC, Option.map_some', Option.some.injEq, Prod.mk.injEq] at h
        obtain ⟨h1, h2⟩ := h
        subst h1 h2
        obtain ⟨c1, c2, c3, c4, c5⟩ := countStep_spec ra S Rb Rc hC
        by_cases hA : C.OrigShapeID = ShapeID.GlobalArray ∨ C.OrigShapeID = ShapeID.LocalArray
        · rw [if_pos hA] at hB
          obtain ⟨a1, a2, a3, a4, a5, a6, a7, a8⟩ := installArray_spec stdType DefineVariable
            Wm Rm ra c W S Ra Rb m mb hB
          rw [n1] at a7 a8
          rw [n2] at a5
          rw [n3] at a8
          rw [n4] at a3 a7
          refine ⟨by rw [c2, a3], by rw [if_pos hA]; exact a1, ?_, ?_, ?_, ?_⟩
          · rw [c3, a5]
            by_cases hg : W = 0 ∨ R.GlobalDims = none
            · rw [if_pos hg, if_pos ⟨hA, hg⟩]
            · rw [if_neg hg, if_neg (fun x => hg x.2)]
          · intro hv
            obtain ⟨h0, b1, b2, b3⟩ := a7 hv
            have hk := c4 (fun x => x.2 b3)
            refine ⟨_, hk.1.trans b2, hk.2.trans b3, fun _ => ⟨h0, b1, rfl⟩,
              fun hn => absurd hA hn, fun hn => absurd hA hn⟩
          · intro h0 hv
            have hne : R.Variable ≠ none := by rw [hv]; exact Option.some_ne_none _
            obtain ⟨b1, b2⟩ := a8 hne
            by_cases hc : ra = true ∧ R.LastTSAdded ≠ S
            · rw [if_pos hc]
              obtain ⟨h1, d1, d2, _⟩ := c5 hc.1 (by rw [b2]; exact hc.2)
              rw [b1, hv, Option.some.injEq] at d1
              subst d1
              exact d2
            · rw [if_neg hc]
              have hk := c4 (by rw [b2]; exact hc)
              rw [hk.1, b1, hv]
          · intro hra
            refine ⟨by rw [c1, a2, hAbs hra], ?_⟩
            by_cases hl : Rb.LastTSAdded = S
            · have hk := c4 (fun x => x.2 hl)
              rw [hk.2, hl]
            · obtain ⟨_, _, _, d3⟩ := c5 hra hl
              exact d3
        · rw [if_neg hA] at hB
          cases hI : installValue stdType DefineVariable c S C.OrigShapeID Ra with
          | none => simp [hI] at hB
          | some Rv =>
            simp only [hI, Option.map_some', Option.some.injEq, Prod.mk.injEq] at hB
            obtain ⟨h1, h2⟩ := hB
            subst h1 h2
            obtain ⟨a2, a3, _, a5, a7, a8⟩ := installValue_spec stdType DefineVariable c S
              C.OrigShapeID Ra Rv hI
            rw [n1] at a7 a8
            rw [n2] at a5
            rw [n4] at a3 a7
            refine ⟨by rw [c2, a3], by rw [if_neg hA], ?_, ?_, ?_, ?_⟩
            · rw [c3, a5, if_neg (fun x => hA x.1)]
            · intro hv
              obtain ⟨hd, b1, b2, b3, b4⟩ := a7 hv
              have hk := c4 (fun x => x.2 b2)
              exact ⟨hd, hk.1.trans b1, hk.2.trans b2, fun hn => absurd hn hA,
                fun _ hs => b3 hs, fun _ hs => b4 hs⟩
            · intro h0 hv
              have hne : R.Variable ≠ none := by rw [hv]; exact Option.some_ne_none _
              have b := a8 hne
              subst b
              rw [n1] at c4 c5
              rw [n3] at c4 c5
              by_cases hc : ra = true ∧ R.LastTSAdded ≠ S
              · rw [if_pos hc]
                obtain ⟨h1, d1, d2, _⟩ := c5 hc.1 hc.2
                rw [hv, Option.some.injEq] at d1
                subst d1
                exact d2
              · rw [if_neg hc]
                have hk := c4 hc
                rw [hk.1, hv]
            · intro hra
              refine ⟨by rw [c1, a2, hAbs hra], ?_⟩
              by_cases hl : Rv.LastTSAdded = S
              · have hk := c4 (fun x => x.2 hl)
                rw [hk.2, hl]
              · obtain ⟨_, _, _, d3⟩ := c5 hra hl
                exact d3


theorem installFields_spec (stdType : DataType → Bool)
    (DefineVariable : DataType → VariableHandle) (Wm Rm ra : Bool) (c W S : Nat) :
    ∀ (Cs : List ControlStruct) (i : Nat) (VR : Nat → InstalledVarRec) (B : MetadataBlock)
      (VR1 : Nat → InstalledVarRec) (B1 : MetadataBlock),
      (Cs.map (fun C => C.VarRec)).Nodup → (Cs.map (fun C => C.FieldOffset)).Nodup →
      installFields stdType DefineVariable Wm Rm ra c W S Cs i (VR, B) = some (VR1, B1) →
      B1.BitField = B.BitField ∧
      (∀ v, hasField B.BitField v Cs i = false → VR1 v = VR v) ∧
      (∀ o, (∀ C ∈ Cs, C.FieldOffset ≠ o) → B1.MetaArray o = B.MetaArray o) ∧
      (∀ (j : Nat) (C : ControlStruct), Cs[j]? = some C → B.BitField (i + j) = true →
        ∃ R1 m1, installVarRec stdType DefineVariable Wm Rm ra c W S C (VR C.VarRec)
            (B.MetaArray C.FieldOffset) = some (R1, m1) ∧
          VR1 C.VarRec = R1 ∧ B1.MetaArray C.FieldOffset = m1)
  | [], i, VR, B, VR1, B1, _, _, h => by
    simp only [installFields, Option.some.injEq, Prod.mk.injEq] at h
    obtain ⟨h1, h2⟩ := h
    subst h1 h2
    exact ⟨rfl, fun _ _ => rfl, fun _ _ => rfl, fun j C hj => by simp at hj⟩
  | C0 :: Cs, i, VR, B, VR1, B1, hV, hO, h => by
    rw [List.map_cons, List.nodup_cons] at hV hO
    rw [installFields] at h
    by_cases hb : B.BitField i = true
    · simp only [BP5BitfieldTest, hb, not_true_eq_false, if_false] at h
      cases hI : installVarRec stdType DefineVariable Wm Rm ra c W S C0 (VR C0.VarRec)
          (B.MetaArray C0.FieldOffset) with
      | none => simp [hI] at h
      | some p =>
        obtain ⟨R0, m0⟩ := p
        simp only [hI] at h
        obtain ⟨r1, r2, r3, r4⟩ := installFields_spec stdType DefineVariable Wm Rm ra c W S Cs
          (i + 1) _ _ VR1 B1 hV.2 hO.2 h
        have hnotV : hasField B.BitField C0.VarRec Cs (i + 1) = false := by
          have : ∀ (Cs : List ControlStruct) (k : Nat),
              C0.VarRec ∉ Cs.map (fun C => C.VarRec) →
              hasField B.BitField C0.VarRec Cs k = false := by
            intro Cs
            induction Cs with
            | nil => intro k _; rfl
            | cons D Ds ih =>
              intro k hk
              rw [List.map_cons, List.mem_cons, not_or] at hk
              rw [hasField, ih (k + 1) hk.2]
              have : D.VarRec ≠ C0.VarRec := fun e => hk.1 e.symm
              simp [this]
          exact this Cs (i + 1) hV.1
        have hnotO : ∀ C ∈ Cs, C.FieldOffset ≠ C0.FieldOffset := by
          intro C hC e
          apply hO.1
          rw [← e]
          exact List.mem_map_of_mem _ hC
        refine ⟨r1, ?_, ?_, ?_⟩
        · intro v hv
          rw [hasField] at hv
          simp only [BP5BitfieldTest, hb, Bool.true_and, Bool.or_eq_false_iff,
            decide_eq_false_iff_not] at hv
          rw [r2 v hv.2]
          exact if_neg (fun e => hv.1 e.symm)
        · intro o ho
          rw [r3 o (fun C hC => ho C (List.mem_cons_of_mem _ hC))]
          exact if_neg (fun e => ho C0 (List.mem_cons_self _ _) e.symm)
        · intro j C hj hbit
          cases j with
          | zero =>
            simp only [List.getElem?_cons_zero, Option.some.injEq] at hj
            subst hj
            refine ⟨R0, m0, hI, ?_, ?_⟩
            · rw [r2 _ hnotV]
              simp
            · rw [r3 _ hnotO]
              simp
          | succ j =>
            simp only [List.getElem?_cons_succ] at hj
            have hmem := List.getElem?_mem hj
            have hneV : C.VarRec ≠ C0.VarRec := by
              intro e
              apply hV.1
              rw [← e]
              exact List.mem_map_of_mem _ hmem
            have hneO : C.FieldOffset ≠ C0.FieldOffset := hnotO C hmem
            obtain ⟨R1, m1, q1, q2, q3⟩ := r4 j C hj
              (by rw [show i + 1 + j = i + (j + 1) by omega]; exact hbit)
            simp only [if_neg hneV, if_neg hneO] at q1
            exact ⟨R1, m1, q1, q2, q3⟩
    · simp only [BP5BitfieldTest, hb, not_false_eq_true, if_true] at h
      obtain ⟨r1, r2, r3, r4⟩ := installFields_spec stdType DefineVariable Wm Rm ra c W S Cs
        (i + 1) VR B VR1 B1 hV.2 hO.2 h
      refine ⟨r1, ?_, fun o ho => r3 o (fun C hC => ho C (List.mem_cons_of_mem _ hC)), ?_⟩
      · intro v hv
        rw [hasField] at hv
        simp only [BP5BitfieldTest, hb, Bool.false_and, Bool.false_or] at hv
        exact r2 v hv
      · intro j C hj hbit
        cases j with
        | zero =>
          rw [Nat.add_zero] at hbit
          exact absurd hbit hb
        | succ j =>
          simp only [List.getElem?_cons_succ] at hj
          exact r4 j C hj (by rw [show i + 1 + j = i + (j + 1) by omega]; exact hbit)


theorem InstallMetaData_parts (stdType : DataType → Bool)
    (DefineVariable : DataType → VariableHandle) (r r2 : BP5Deserializer)
    (Control : ControlInfo) (BaseData : MetadataBlock) (W S : Nat)
    (h : InstallMetaData stdType DefineVariable r Control BaseData W S = some r2) :
    ∃ c r1 k VR B1 vec, r.WriterCohortSize S = some c ∧
      attachControl r Control c W S = some r1 ∧ r1.m_MetadataBaseAddrs = some k ∧
      installFields stdType DefineVariable r.m_WriterIsRowMajor r.m_ReaderIsRowMajor
        r.m_RandomAccessMode c W S Control.Controls 0 (r.VarRecs, BaseData) = some (VR, B1) ∧
      assign (r1.Vectors.getD k []) W (some B1) = some vec ∧
      r2 = { r1 with Vectors := r1.Vectors.set k vec, VarRecs := VR } := by
  unfold InstallMetaData at h
  split at h
  · cases h
  · rename_i c hc
    split at h
    · cases h
    · rename_i r1 h1
      split at h
      · cases h
      · rename_i k hk
        split at h
        · cases h
        · rename_i VR B1 hF
          split at h
          · cases h
          · rename_i vec hvec
            simp only [Option.some.injEq] at h
            exact ⟨c, r1, k, VR, B1, vec, hc, h1, hk, hF, hvec, h.symm⟩

theorem hasField_true (BitField : Nat → Bool) (v : Nat) :
    ∀ (Cs : List ControlStruct) (i : Nat), hasField BitField v Cs i = true →
      ∃ j C, Cs[j]? = some C ∧ BitField (i + j) = true ∧ C.VarRec = v
  | [], _, h => by simp [hasField] at h
  | C :: Cs, i, h => by
    rw [hasField, Bool.or_eq_true, Bool.and_eq_true, decide_eq_true_iff] at h
    rcases h with ⟨h1, h2⟩ | h
    · exact ⟨0, C, by simp, h1, h2⟩
    · obtain ⟨j, D, e1, e2, e3⟩ := hasField_true BitField v Cs (i + 1) h
      exact ⟨j + 1, D, by simpa using e1, by rw [← e2]; congr 1; omega, e3⟩

theorem attachControl_frame (r r1 : BP5Deserializer) (Control : ControlInfo) (c W S : Nat)
    (h : attachControl r Control c W S = some r1) :
    r1.m_RandomAccessMode = r.m_RandomAccessMode ∧
    r1.m_WriterIsRowMajor = r.m_WriterIsRowMajor ∧
    r1.m_ReaderIsRowMajor = r.m_ReaderIsRowMajor ∧
    r1.m_WriterCohortSize = r.m_WriterCohortSize ∧
    r1.m_CurrentWriterCohortSize = r.m_CurrentWriterCohortSize ∧
    r1.VarRecs = r.VarRecs := by
  unfold attachControl at h
  split at h
  · dsimp only at h
    split at h
    · cases h
    · split at h <;>
      · simp only [Option.some.injEq] at h
        subst h
        exact ⟨rfl, rfl, rfl, rfl, rfl, rfl⟩
  · simp only [Option.some.injEq] at h
    subst h
    exact ⟨rfl, rfl, rfl, rfl, rfl, rfl⟩

theorem InstallMetaData_effect (stdType : DataType → Bool)
    (DefineVariable : DataType → VariableHandle) (r r2 : BP5Deserializer)
    (Control : ControlInfo) (BaseData : MetadataBlock) (W S : Nat)
    (hV : (Control.Controls.map (fun C => C.VarRec)).Nodup)
    (hO : (Control.Controls.map (fun C => C.FieldOffset)).Nodup)
    (h : InstallMetaData stdType DefineVariable r Control BaseData W S = some r2) :
    r2.m_RandomAccessMode = r.m_RandomAccessMode ∧
    r2.m_WriterIsRowMajor = r.m_WriterIsRowMajor ∧
    r2.m_ReaderIsRowMajor = r.m_ReaderIsRowMajor ∧
    r2.m_WriterCohortSize = r.m_WriterCohortSize ∧
    r2.m_CurrentWriterCohortSize = r.m_CurrentWriterCohortSize ∧
    (∀ v, carries (Control, BaseData) v = false → r2.VarRecs v = r.VarRecs v) ∧
    ∃ c k B1, r.WriterCohortSize S = some c ∧ r2.m_MetadataBaseAddrs = some k ∧
      (r2.Vectors[k]?).bind (fun vec => vec[W]?) = some (some B1) ∧
      B1.BitField = BaseData.BitField ∧
      ∀ v, carries (Control, BaseData) v = true →
        ∃ C ∈ Control.Controls, C.VarRec = v ∧
          ∃ R1 m1, installVarRec stdType DefineVariable r.m_WriterIsRowMajor
              r.m_ReaderIsRowMajor r.m_RandomAccessMode c W S C (r.VarRecs v)
              (BaseData.MetaArray C.FieldOffset) = some (R1, m1) ∧
            r2.VarRecs v = R1 ∧ B1.MetaArray C.FieldOffset = m1 := by
  obtain ⟨c, r1, k, VR, B1, vec, hc, h1, hk, hF, hvec, e⟩ :=
    InstallMetaData_parts stdType DefineVariable r r2 Control BaseData W S h
  obtain ⟨f1, f2, f3, f4, f5, f6⟩ := attachControl_frame r r1 Control c W S h1
  obtain ⟨s1, s2, _, s4⟩ := installFields_spec stdType DefineVariable r.m_WriterIsRowMajor
    r.m_ReaderIsRowMajor r.m_RandomAccessMode c W S Control.Controls 0 r.VarRecs BaseData VR B1
    hV hO hF
  subst e
  refine ⟨f1, f2, f3, f4, f5, fun v hv => s2 v hv, c, k, B1, hc, hk, ?_, s1, ?_⟩
  · unfold assign at hvec
    split at hvec
    · rename_i hlt
      simp only [Option.some.injEq] at hvec
      subst hvec
      have hkl : k < r1.Vectors.length := by
        by_contra hn
        rw [List.getD_eq_getElem?_getD, List.getElem?_eq_none (Nat.le_of_not_lt hn)] at hlt
        simp at hlt
      simp only [List.getElem?_set_self hkl, Option.some_bind]
      rw [List.getElem?_set_self hlt]
    · cases hvec
  · intro v hv
    obtain ⟨j, C, e1, e2, e3⟩ := hasField_true BaseData.BitField v Control.Controls 0 hv
    rw [Nat.zero_add] at e2
    obtain ⟨R1, m1, q1, q2, q3⟩ := s4 j C e1 (by rw [Nat.zero_add]; exact e2)
    subst e3
    exact ⟨C, List.getElem?_mem e1, rfl, R1, m1, q1, q2, q3⟩


/-! ### Installing metadata: the vectors of a reader in random-access mode -/

theorem resize_of_le {α : Type} (v : List α) (n : Nat) (d : α) (h : v.length ≤ n) :
    resize v n d = v ++ List.replicate (n - v.length) d := by
  rw [resize, List.take_of_length_le h]

theorem resize_length_self {α : Type} (v : List α) (d : α) : resize v v.length d = v := by
  rw [resize_of_le v v.length d (Nat.le_refl _)]
  simp

theorem resize_succ_set {α : Type} (v : List α) (n : Nat) (d x : α) (h : v.length ≤ n) :
    (resize v (n + 1) d).set n x = v ++ List.replicate (n - v.length) d ++ [x] := by
  rw [resize_of_le v (n + 1) d (Nat.le_succ_of_le h)]
  have : n + 1 - v.length = (n - v.length) + 1 := by omega
  rw [this, List.replicate_succ', ← List.append_assoc]
  have hl : (v ++ List.replicate (n - v.length) d).length = n := by
    rw [List.length_append, List.length_replicate]
    omega
  generalize v ++ List.replicate (n - v.length) d = u at hl
  subst hl
  simp

theorem resize_succ_getD {α : Type} (v : List α) (n : Nat) (d : α) (h : v.length ≤ n) :
    (resize v (n + 1) d).getD n d = d := by
  rw [resize_of_le v (n + 1) d (Nat.le_succ_of_le h), List.getD_eq_getElem?_getD,
    List.getElem?_append_right h, List.getElem?_replicate]
  split <;> rfl

theorem attachControl_first (r : BP5Deserializer) (Control : ControlInfo) (W n : Nat)
    (hra : r.m_RandomAccessMode = true) (hCA : r.m_ControlArray.length ≤ n)
    (hMBA : r.MetadataBaseArray.length ≤ n) (hW : 0 < W) :
    attachControl r Control W 0 n =
      some { r with
        m_ControlArray :=
          r.m_ControlArray ++ List.replicate (n - r.m_ControlArray.length) [] ++
            [(List.replicate W none).set 0 (some Control)]
        Vectors := r.Vectors ++ [List.replicate W none]
        MetadataBaseArray :=
          r.MetadataBaseArray ++ List.replicate (n - r.MetadataBaseArray.length) none ++
            [some r.Vectors.length]
        m_MetadataBaseAddrs := some r.Vectors.length } := by
  unfold attachControl
  rw [if_pos hra]
  have h1 : r.m_ControlArray.length < n + 1 := by omega
  simp only [h1, if_true, resize_succ_getD _ n _ hCA, List.length_nil, resize_succ_getD _ n _ hMBA]
  have hr : resize ([] : List (Option ControlInfo)) W none = List.replicate W none := by
    simp [resize]
  have hv : resize ([] : List (Option MetadataBlock)) W none = List.replicate W none := by
    simp [resize]
  rw [hr, hv]
  simp only [assign, List.length_replicate, hW, if_true, resize_succ_set _ n _ _ hCA,
    resize_succ_set _ n _ _ hMBA]

theorem attachControl_next (r : BP5Deserializer) (Control : ControlInfo) (W w n k : Nat)
    (row : List (Option ControlInfo))
    (hra : r.m_RandomAccessMode = true) (hCA : r.m_ControlArray.length = n + 1)
    (hrow : r.m_ControlArray[n]? = some row) (hlen : row.length = W) (hw : w < W)
    (hMBA : r.MetadataBaseArray.length = n + 1)
    (hk : r.MetadataBaseArray[n]? = some (some k)) :
    attachControl r Control W w n =
      some { r with m_ControlArray := r.m_ControlArray.set n (row.set w (some Control)) } := by
  unfold attachControl
  rw [if_pos hra]
  have h1 : ¬ r.m_ControlArray.length < n + 1 := by omega
  have h2 : r.m_ControlArray.getD n [] = row := by
    rw [List.getD_eq_getElem?_getD, hrow]
    rfl
  have h3 : ¬ row.length = 0 := by omega
  have h4 : resize r.MetadataBaseArray (n + 1) none = r.MetadataBaseArray := by
    rw [← hMBA]
    exact resize_length_self _ _
  have h5 : r.MetadataBaseArray.getD n none = some k := by
    rw [List.getD_eq_getElem?_getD, hk]
    rfl
  have h6 : ¬ W = 0 := by omega
  simp only [h1, if_false, h2, h3, assign, hlen, hw, if_true, h4, h5, h6]
  simp


theorem control_congr (r r2 : BP5Deserializer) (s w : Nat)
    (h : r2.m_ControlArray[s]? = r.m_ControlArray[s]?) : r2.control s w = r.control s w := by
  unfold BP5Deserializer.control
  rw [h]

theorem block_congr (r r2 : BP5Deserializer) (s w : Nat)
    (h : r2.MetadataBaseArray[s]? = r.MetadataBaseArray[s]?)
    (hv : ∀ k, r.MetadataBaseArray[s]? = some (some k) → r2.Vectors[k]? = r.Vectors[k]?) :
    r2.block s w = r.block s w := by
  unfold BP5Deserializer.block
  rw [h]
  cases hs : r.MetadataBaseArray[s]? with
  | none => rfl
  | some p =>
    cases p with
    | none => rfl
    | some k =>
      simp only [Option.some_bind]
      rw [hv k hs]

theorem control_some (r : BP5Deserializer) (s w : Nat) (x : Option ControlInfo)
    (h : r.control s w = some x) : s < r.m_ControlArray.length := by
  unfold BP5Deserializer.control at h
  by_contra hn
  rw [List.getElem?_eq_none (Nat.le_of_not_lt hn)] at h
  cases h

theorem block_some (r : BP5Deserializer) (s w : Nat) (x : Option MetadataBlock)
    (h : r.block s w = some x) :
    ∃ k, r.MetadataBaseArray[s]? = some (some k) ∧ s < r.MetadataBaseArray.length := by
  unfold BP5Deserializer.block at h
  cases hs : r.MetadataBaseArray[s]? with
  | none => rw [hs] at h; cases h
  | some p =>
    cases p with
    | none => rw [hs] at h; cases h
    | some k =>
      refine ⟨k, rfl, ?_⟩
      by_contra hn
      rw [List.getElem?_eq_none (Nat.le_of_not_lt hn)] at hs
      cases hs

theorem StepInstalling_cohort (r : BP5Deserializer)
    (done : List (List (ControlInfo × MetadataBlock))) (W : Nat)
    (pre : List (ControlInfo × MetadataBlock)) (h : StepInstalling r done W pre) :
    r.WriterCohortSize done.length = some W := by
  obtain ⟨h1, h2, _⟩ := h
  unfold BP5Deserializer.WriterCohortSize
  rw [if_pos h1, h2]
  simp

theorem StepInstalling_begin (r : BP5Deserializer)
    (done : List (List (ControlInfo × MetadataBlock))) (W : Nat) (h : StepsInstalled r done) :
    StepInstalling (SetupForStep r done.length W) done W [] := by
  obtain ⟨h1, h2, h3, h4, h5, h6⟩ := h
  have hl : r.m_WriterCohortSize.length = done.length := by rw [h2, List.length_map]
  have hS : SetupForStep r done.length W =
      { r with CurTimestep := done.length, m_WriterCohortSize := done.map List.length ++ [W] } := by
    unfold SetupForStep
    rw [if_pos h1, if_pos (by omega)]
    have := resize_succ_set r.m_WriterCohortSize done.length 0 W (by omega)
    rw [hl, Nat.sub_self, List.replicate_zero, List.append_nil, h2] at this
    dsimp only
    rw [h2, this]
  rw [hS]
  exact ⟨h1, rfl, h5, h6, fun _ => ⟨h3, h4⟩, fun hn => absurd rfl hn⟩

theorem StepInstalling_end (r : BP5Deserializer)
    (done : List (List (ControlInfo × MetadataBlock)))
    (blocks : List (ControlInfo × MetadataBlock))
    (h : StepInstalling r done blocks.length blocks) : StepsInstalled r (done ++ [blocks]) := by
  obtain ⟨h1, h2, h3, h4, h5, h6⟩ := h
  refine ⟨h1, by rw [h2]; simp, ?_, ?_, h3, ?_⟩
  · rw [List.length_append, List.length_singleton]
    by_cases hb : blocks = []
    · exact Nat.le_succ_of_le (h5 hb).1
    · exact Nat.le_of_eq (h6 hb).1
  · rw [List.length_append, List.length_singleton]
    by_cases hb : blocks = []
    · exact Nat.le_succ_of_le (h5 hb).2
    · exact Nat.le_of_eq (h6 hb).2.1
  · intro s bl w b hs hw
    by_cases hlt : s < done.length
    · rw [List.getElem?_append_left hlt] at hs
      exact h4 s bl w b hs hw
    · have hsn : s = done.length := by
        have := List.getElem?_eq_some_iff.mp hs
        obtain ⟨hl, _⟩ := this
        rw [List.length_append, List.length_singleton] at hl
        omega
      subst hsn
      rw [List.getElem?_append_right (Nat.le_refl _), Nat.sub_self] at hs
      simp only [List.getElem?_cons_zero, Option.some.injEq] at hs
      subst hs
      have hne : blocks ≠ [] := by
        intro e
        rw [e] at hw
        simp at hw
      obtain ⟨_, _, row, k, vec, e1, _, e3, _, e5, _, _, e8⟩ := h6 hne
      obtain ⟨q1, B1, q2, q3⟩ := e8 w b hw
      refine ⟨?_, B1, ?_, q3⟩
      · unfold BP5Deserializer.control
        rw [e1]
        exact q1
      · unfold BP5Deserializer.block
        rw [e3]
        simp only [Option.some_bind, e5]
        exact q2


theorem StepInstalling_writer (stdType : DataType → Bool)
    (DefineVariable : DataType → VariableHandle) (r r2 : BP5Deserializer)
    (done : List (List (ControlInfo × MetadataBlock))) (W : Nat)
    (pre : List (ControlInfo × MetadataBlock)) (b : ControlInfo × MetadataBlock)
    (hV : (b.1.Controls.map (fun C => C.VarRec)).Nodup)
    (hO : (b.1.Controls.map (fun C => C.FieldOffset)).Nodup)
    (hinv : StepInstalling r done W pre) (hW : pre.length < W)
    (h : InstallMetaData stdType DefineVariable r b.1 b.2 pre.length done.length = some r2) :
    StepInstalling r2 done W (pre ++ [b]) := by
  obtain ⟨c, r1, k, VR, B1, vec, hc, h1, hk, hF, hvec, e⟩ :=
    InstallMetaData_parts stdType DefineVariable r r2 b.1 b.2 pre.length done.length h
  rw [StepInstalling_cohort r done W pre hinv, Option.some.injEq] at hc
  subst hc
  have hbits := (installFields_spec stdType DefineVariable r.m_WriterIsRowMajor
    r.m_ReaderIsRowMajor r.m_RandomAccessMode W pre.length done.length b.1.Controls 0 r.VarRecs
    b.2 VR B1 hV hO hF).1
  obtain ⟨i1, i2, i3, i4, i5, i6⟩ := hinv
  have hne : pre ++ [b] ≠ [] := by simp
  by_cases hp : pre = []
  · subst hp
    obtain ⟨hCA, hMBA⟩ := i5 rfl
    rw [List.length_nil] at h1 hvec hW
    rw [attachControl_first r b.1 W done.length i1 hCA hMBA hW, Option.some.injEq] at h1
    subst h1
    simp only [Option.some.injEq] at hk
    subst hk
    have hget : (r.Vectors ++ [List.replicate W (none : Option MetadataBlock)]).getD
        r.Vectors.length [] = List.replicate W none := by
      rw [List.getD_eq_getElem?_getD, List.getElem?_append_right (Nat.le_refl _)]
      simp
    simp only [hget, assign, List.length_replicate, hW, if_true, Option.some.injEq] at hvec
    subst hvec
    subst e
    have hVec : (r.Vectors ++ [List.replicate W (none : Option MetadataBlock)]).set
        r.Vectors.length ((List.replicate W none).set 0 (some B1)) =
        r.Vectors ++ [(List.replicate W none).set 0 (some B1)] := by
      simp
    have hCAl : (r.m_ControlArray ++ List.replicate (done.length - r.m_ControlArray.length) []).length
        = done.length := by
      rw [List.length_append, List.length_replicate]
      omega
    have hMBAl : (r.MetadataBaseArray ++
        List.replicate (done.length - r.MetadataBaseArray.length) none).length = done.length := by
      rw [List.length_append, List.length_replicate]
      omega
    have hMBAget : ∀ s, s < done.length →
        (r.MetadataBaseArray ++ List.replicate (done.length - r.MetadataBaseArray.length) none ++
          [some r.Vectors.length])[s]? = r.MetadataBaseArray[s]? ∨
        (r.MetadataBaseArray ++ List.replicate (done.length - r.MetadataBaseArray.length) none ++
          [some r.Vectors.length])[s]? = some none := by
      intro s hs
      rw [List.getElem?_append_left (by rw [hMBAl]; exact hs)]
      by_cases hlt : s < r.MetadataBaseArray.length
      · left
        rw [List.getElem?_append_left hlt]
      · right
        rw [List.getElem?_append_right (Nat.le_of_not_lt hlt), List.getElem?_replicate,
          if_pos (by omega)]
    refine ⟨i1, i2, ?_, ?_, fun hn => absurd hn hne, fun _ => ⟨?_, ?_, ?_⟩⟩
    · intro s k hs
      simp only [hVec, List.length_append, List.length_singleton]
      by_cases hlt : s < done.length
      · rcases hMBAget s hlt with e1 | e1
        · rw [e1] at hs
          exact Nat.lt_succ_of_lt (i3 s k hs)
        · rw [e1] at hs
          cases hs
      · by_cases hsn : s = done.length
        · subst hsn
          rw [List.getElem?_append_right (by rw [hMBAl]), hMBAl, Nat.sub_self] at hs
          simp only [List.getElem?_cons_zero, Option.some.injEq] at hs
          omega
        · rw [List.getElem?_eq_none (by
            rw [List.length_append, hMBAl, List.length_singleton]; omega)] at hs
          cases hs
    · intro s bl w b0 hs hw
      obtain ⟨q1, B0, q2, q3⟩ := i4 s bl w b0 hs hw
      have hs1 := control_some r s w _ q1
      obtain ⟨k0, hk0, hs2⟩ := block_some r s w _ q2
      refine ⟨?_, B0, ?_, q3⟩
      · rw [← q1]
        apply control_congr
        show (r.m_ControlArray ++ _ ++ _)[s]? = _
        rw [List.append_assoc, List.getElem?_append_left hs1]
      · rw [← q2]
        apply block_congr
        · show (r.MetadataBaseArray ++ _ ++ _)[s]? = _
          rw [List.append_assoc, List.getElem?_append_left hs2]
        · intro k1 hk1
          show ((r.Vectors ++ _).set _ _)[k1]? = _
          rw [hVec, List.getElem?_append_left (i3 s k1 hk1)]
    · show (r.m_ControlArray ++ _ ++ _).length = _
      rw [List.length_append, hCAl, List.length_singleton]
    · show (r.MetadataBaseArray ++ _ ++ _).length = _
      rw [List.length_append, hMBAl, List.length_singleton]
    · refine ⟨(List.replicate W none).set 0 (some b.1), r.Vectors.length,
        (List.replicate W none).set 0 (some B1), ?_, by simp, ?_, rfl, ?_, by simp, ?_, ?_⟩
      · show (r.m_ControlArray ++ _ ++ _)[done.length]? = _
        rw [List.getElem?_append_right (by rw [hCAl]), hCAl, Nat.sub_self]
        rfl
      · show (r.MetadataBaseArray ++ _ ++ _)[done.length]? = _
        rw [List.getElem?_append_right (by rw [hMBAl]), hMBAl, Nat.sub_self]
        rfl
      · show ((r.Vectors ++ _).set _ _)[r.Vectors.length]? = _
        rw [hVec, List.getElem?_append_right (Nat.le_refl _), Nat.sub_self]
        rfl
      · intro s hs hcon
        rcases hMBAget s hs with e1 | e1
        · rw [e1] at hcon
          exact Nat.lt_irrefl _ (i3 s _ hcon)
        · rw [e1] at hcon
          cases hcon
      · intro w b0 hw
        rw [List.nil_append] at hw
        cases w with
        | zero =>
          simp only [List.getElem?_cons_zero, Option.some.injEq] at hw
          subst hw
          refine ⟨?_, B1, ?_, hbits⟩
          · rw [List.getElem?_set_self (by simpa using hW)]
          · rw [List.getElem?_set_self (by simpa using hW)]
        | succ w => simp at hw
  · obtain ⟨hCA, hMBA, row, k0, vec0, e1, e2, e3, e4, e5, e6, e7, e8⟩ := i6 hp
    rw [attachControl_next r b.1 W pre.length done.length k0 row i1 hCA e1 e2 hW hMBA e3,
      Option.some.injEq] at h1
    subst h1
    simp only at hk
    rw [e4, Option.some.injEq] at hk
    subst hk
    have hget : r.Vectors.getD k0 [] = vec0 := by
      rw [List.getD_eq_getElem?_getD, e5]
      rfl
    simp only [hget, assign, e6, hW, if_true, Option.some.injEq] at hvec
    subst hvec
    subst e
    have hk0 : k0 < r.Vectors.length := i3 _ _ e3
    refine ⟨i1, i2, ?_, ?_, fun hn => absurd hn hne, fun _ => ⟨?_, hMBA, ?_⟩⟩
    · intro s k hs
      simp only [List.length_set]
      exact i3 s k hs
    · intro s bl w b0 hs hw
      obtain ⟨q1, B0, q2, q3⟩ := i4 s bl w b0 hs hw
      have hsl : s < done.length := (List.getElem?_eq_some_iff.mp hs).1
      refine ⟨?_, B0, ?_, q3⟩
      · rw [← q1]
        apply control_congr
        show (r.m_ControlArray.set _ _)[s]? = _
        rw [List.getElem?_set_ne (by omega)]
      · rw [← q2]
        apply block_congr
        · rfl
        · intro k1 hk1
          show (r.Vectors.set _ _)[k1]? = _
          rw [List.getElem?_set_ne]
          intro ek
          subst ek
          exact e7 s hsl hk1
    · show (r.m_ControlArray.set _ _).length = _
      rw [List.length_set]
      exact hCA
    · refine ⟨row.set pre.length (some b.1), k0, vec0.set pre.length (some B1), ?_, by simp [e2],
        e3, e4, ?_, by simp [e6], e7, ?_⟩
      · show (r.m_ControlArray.set _ _)[done.length]? = _
        rw [List.getElem?_set_self (by omega)]
      · show (r.Vectors.set _ _)[k0]? = _
        rw [List.getElem?_set_self hk0]
      · intro w b0 hw
        by_cases hwl : w < pre.length
        · rw [List.getElem?_append_left hwl] at hw
          obtain ⟨q1, B0, q2, q3⟩ := e8 w b0 hw
          refine ⟨?_, B0, ?_, q3⟩
          · rw [List.getElem?_set_ne (by omega)]
            exact q1
          · rw [List.getElem?_set_ne (by omega)]
            exact q2
        · have hwe : w = pre.length := by
            have := (List.getElem?_eq_some_iff.mp hw).1
            rw [List.length_append, List.length_singleton] at this
            omega
          subst hwe
          rw [List.getElem?_append_right (Nat.le_refl _), Nat.sub_self] at hw
          simp only [List.getElem?_cons_zero, Option.some.injEq] at hw
          subst hw
          refine ⟨?_, B1, ?_, hbits⟩
          · rw [List.getElem?_set_self (by omega)]
          · rw [List.getElem?_set_self (by omega)]


theorem StepInstalling_writers (stdType : DataType → Bool)
    (DefineVariable : DataType → VariableHandle)
    (done : List (List (ControlInfo × MetadataBlock))) (W : Nat) :
    ∀ (rest pre : List (ControlInfo × MetadataBlock)) (r r2 : BP5Deserializer),
      (∀ b ∈ rest, b.1.WellFormed) → pre.length + rest.length = W →
      StepInstalling r done W pre →
      installWriters stdType DefineVariable done.length rest pre.length r = some r2 →
      StepInstalling r2 done W (pre ++ rest)
  | [], pre, r, r2, _, _, hinv, h => by
    simp only [installWriters, Option.some.injEq] at h
    subst h
    rw [List.append_nil]
    exact hinv
  | b :: rest, pre, r, r2, hwf, hl, hinv, h => by
    rw [installWriters] at h
    cases hI : InstallMetaData stdType DefineVariable r b.1 b.2 pre.length done.length with
    | none => simp [hI] at h
    | some r1 =>
      simp only [hI] at h
      have hb := hwf b (List.mem_cons_self _ _)
      have h1 := StepInstalling_writer stdType DefineVariable r r1 done W pre b hb.2.1 hb.2.2.1
        hinv (by rw [List.length_cons] at hl; omega) hI
      have := StepInstalling_writers stdType DefineVariable done W rest (pre ++ [b]) r1 r2
        (fun x hx => hwf x (List.mem_cons_of_mem _ hx))
        (by rw [List.length_append, List.length_singleton]; rw [List.length_cons] at hl; omega)
        h1 (by rw [List.length_append, List.length_singleton]; exact h)
      rw [List.append_assoc] at this
      exact this

theorem StepsInstalled_step (stdType : DataType → Bool)
    (DefineVariable : DataType → VariableHandle)
    (done : List (List (ControlInfo × MetadataBlock)))
    (blocks : List (ControlInfo × MetadataBlock)) (r r2 : BP5Deserializer)
    (hwf : ∀ b ∈ blocks, b.1.WellFormed) (hinv : StepsInstalled r done)
    (h : installStep stdType DefineVariable done.length blocks r = some r2) :
    StepsInstalled r2 (done ++ [blocks]) := by
  unfold installStep at h
  have := StepInstalling_writers stdType DefineVariable done blocks.length blocks [] _ r2 hwf
    (by simp) (StepInstalling_begin r done blocks.length hinv) h
  rw [List.nil_append] at this
  exact StepInstalling_end r2 done blocks this

theorem StepsInstalled_steps (stdType : DataType → Bool)
    (DefineVariable : DataType → VariableHandle) :
    ∀ (steps done : List (List (ControlInfo × MetadataBlock))) (r r2 : BP5Deserializer),
      (∀ blocks ∈ steps, ∀ b ∈ blocks, b.1.WellFormed) → StepsInstalled r done →
      installSteps stdType DefineVariable steps done.length r = some r2 →
      StepsInstalled r2 (done ++ steps)
  | [], done, r, r2, _, hinv, h => by
    simp only [installSteps, Option.some.injEq] at h
    subst h
    rw [List.append_nil]
    exact hinv
  | blocks :: steps, done, r, r2, hwf, hinv, h => by
    rw [installSteps] at h
    cases hI : installStep stdType DefineVariable done.length blocks r with
    | none => simp [hI] at h
    | some r1 =>
      simp only [hI] at h
      have h1 := StepsInstalled_step stdType DefineVariable done blocks r r1
        (hwf blocks (List.mem_cons_self _ _)) hinv hI
      have := StepsInstalled_steps stdType DefineVariable steps (done ++ [blocks]) r1 r2
        (fun x hx => hwf x (List.mem_cons_of_mem _ hx)) h1
        (by rw [List.length_append, List.length_singleton]; exact h)
      rw [List.append_assoc] at this
      exact this

theorem StepsInstalled_fresh (r : BP5Deserializer) (hra : r.m_RandomAccessMode = true)
    (h1 : r.m_WriterCohortSize = []) (h2 : r.m_ControlArray = [])
    (h3 : r.MetadataBaseArray = []) : StepsInstalled r [] := by
  refine ⟨hra, by rw [h1]; rfl, by rw [h2]; exact Nat.le_refl _, by rw [h3]; exact Nat.le_refl _,
    ?_, ?_⟩
  · intro s k hs
    rw [h3] at hs
    simp at hs
  · intro s bl w b hs
    simp at hs


/-! ### Reading the installed metadata: `GetMetadataBase`, `GetAbsoluteSteps` -/

theorem hasField_none (BitField : Nat → Bool) (v : Nat) :
    ∀ (Cs : List ControlStruct) (i : Nat), (∀ C ∈ Cs, C.VarRec ≠ v) →
      hasField BitField v Cs i = false
  | [], _, _ => rfl
  | C :: Cs, i, h => by
    rw [hasField, hasField_none BitField v Cs (i + 1)
      (fun D hD => h D (List.mem_cons_of_mem _ hD))]
    simp [h C (List.mem_cons_self _ _)]

theorem hasField_unique (BitField : Nat → Bool) (v : Nat) :
    ∀ (Cs : List ControlStruct) (i j : Nat) (C : ControlStruct),
      (Cs.map (fun C => C.VarRec)).Nodup → Cs[j]? = some C → C.VarRec = v →
      hasField BitField v Cs i = BitField (i + j)
  | [], _, j, C, _, h, _ => by simp at h
  | D :: Cs, i, j, C, hn, h, hv => by
    rw [List.map_cons, List.nodup_cons] at hn
    cases j with
    | zero =>
      simp only [List.getElem?_cons_zero, Option.some.injEq] at h
      subst h
      rw [hasField, hasField_none BitField v Cs (i + 1)]
      · simp [BP5BitfieldTest, hv]
      · intro E hE e
        apply hn.1
        rw [hv, ← e]
        exact List.mem_map_of_mem _ hE
    | succ j =>
      simp only [List.getElem?_cons_succ] at h
      have hne : D.VarRec ≠ v := by
        intro e
        apply hn.1
        rw [e, ← hv]
        exact List.mem_map_of_mem _ (List.getElem?_mem h)
      rw [hasField, hasField_unique BitField v Cs (i + 1) j C hn.2 h hv]
      simp only [hne, decide_False, Bool.and_false, Bool.false_or]
      congr 1
      omega

theorem resize_getD {α : Type} (v : List α) (n i : Nat) (d : α) (h : v.length ≤ n) :
    (resize v n d).getD i d = v.getD i d := by
  rw [resize_of_le v n d h, List.getD_eq_getElem?_getD, List.getD_eq_getElem?_getD]
  by_cases hi : i < v.length
  · rw [List.getElem?_append_left hi]
  · rw [List.getElem?_append_right (Nat.le_of_not_lt hi), List.getElem?_replicate,
      List.getElem?_eq_none (Nat.le_of_not_lt hi)]
    split <;> rfl

theorem resize_length {α : Type} (v : List α) (n : Nat) (d : α) : (resize v n d).length = n := by
  rw [resize, List.length_append, List.length_take, List.length_replicate]
  omega

theorem buildTables_spec :
    ∀ (Cs : List ControlStruct) (i : Nat) (M X : List Nat),
      M.length = X.length → (Cs.map (fun C => C.VarRec)).Nodup →
      (buildTables Cs i (M, X)).1.length = (buildTables Cs i (M, X)).2.length ∧
      M.length ≤ (buildTables Cs i (M, X)).1.length ∧
      (∀ (j : Nat) (C : ControlStruct), Cs[j]? = some C →
        (buildTables Cs i (M, X)).1[C.VarRec]? = some C.FieldOffset ∧
        (buildTables Cs i (M, X)).2[C.VarRec]? = some (i + j)) ∧
      (∀ v, (∀ C ∈ Cs, C.VarRec ≠ v) →
        (buildTables Cs i (M, X)).1.getD v 0 = M.getD v 0 ∧
        (v < M.length → (buildTables Cs i (M, X)).1[v]? = M[v]? ∧
          (buildTables Cs i (M, X)).2[v]? = X[v]?))
  | [], i, M, X, hl, _ => by
    rw [buildTables]
    exact ⟨hl, Nat.le_refl _, fun j C h => by simp at h, fun v _ => ⟨rfl, fun _ => ⟨rfl, rfl⟩⟩⟩
  | C :: Cs, i, M, X, hl, hn => by
    rw [List.map_cons, List.nodup_cons] at hn
    rw [buildTables]
    generalize ht : (if M.length ≤ C.VarRec then
      (resize M (C.VarRec + 1) 0, resize X (C.VarRec + 1) 0) else (M, X)) = t
    have ht1 : t.1.length = t.2.length ∧ C.VarRec < t.1.length ∧ M.length ≤ t.1.length ∧
        (∀ v, t.1.getD v 0 = M.getD v 0) ∧
        (∀ v, v < M.length → t.1[v]? = M[v]? ∧ t.2[v]? = X[v]?) := by
      subst ht
      by_cases hc : M.length ≤ C.VarRec
      · rw [if_pos hc]
        refine ⟨by simp [resize_length], by simp [resize_length], by
          simp only [resize_length]; omega, fun v => resize_getD M _ v 0 (by omega), ?_⟩
        intro v hv
        dsimp only
        rw [resize_of_le M _ 0 (by omega), resize_of_le X _ 0 (by omega),
          List.getElem?_append_left hv, List.getElem?_append_left (by omega)]
        exact ⟨rfl, rfl⟩
      · rw [if_neg hc]
        exact ⟨hl, by simp only; omega, Nat.le_refl _, fun _ => rfl, fun _ _ => ⟨rfl, rfl⟩⟩
    obtain ⟨t1, t2, t3, t4, t5⟩ := ht1
    obtain ⟨r1, r2, r3, r4⟩ := buildTables_spec Cs (i + 1) (t.1.set C.VarRec C.FieldOffset)
      (t.2.set C.VarRec i) (by simp [t1]) hn.2
    rw [List.length_set] at r2
    refine ⟨r1, Nat.le_trans t3 r2, ?_, ?_⟩
    · intro j D hj
      cases j with
      | zero =>
        simp only [List.getElem?_cons_zero, Option.some.injEq] at hj
        subst hj
        obtain ⟨_, q⟩ := r4 C.VarRec (fun E hE e => hn.1 (by
          rw [← e]
          exact List.mem_map_of_mem _ hE))
        obtain ⟨q1, q2⟩ := q (by rw [List.length_set]; exact t2)
        rw [q1, q2, List.getElem?_set_self t2, List.getElem?_set_self (by omega)]
        exact ⟨rfl, rfl⟩
      | succ j =>
        simp only [List.getElem?_cons_succ] at hj
        obtain ⟨q1, q2⟩ := r3 j D hj
        rw [q1, q2]
        exact ⟨rfl, by congr 1; omega⟩
    · intro v hv
      have hne : C.VarRec ≠ v := hv C (List.mem_cons_self _ _)
      obtain ⟨q0, q⟩ := r4 v (fun E hE => hv E (List.mem_cons_of_mem _ hE))
      refine ⟨?_, ?_⟩
      · rw [q0, List.getD_eq_getElem?_getD, List.getElem?_set_ne hne,
          ← List.getD_eq_getElem?_getD, t4 v]
      · intro hvl
        obtain ⟨q1, q2⟩ := q (by rw [List.length_set]; omega)
        rw [q1, q2, List.getElem?_set_ne hne, List.getElem?_set_ne hne]
        exact t5 v hvl

theorem GetMetadataBase_installed (r : BP5Deserializer) (v s w : Nat) (CI : ControlInfo)
    (B : MetadataBlock) (hra : r.m_RandomAccessMode = true) (hwf : CI.WellFormed)
    (hc : r.control s w = some (some CI)) (hb : r.block s w = some (some B)) :
    ∃ x, r.GetMetadataBase v s w = some x ∧ x.isSome = hasField B.BitField v CI.Controls 0 := by
  obtain ⟨hB, hV, _, hO⟩ := hwf
  obtain ⟨t1, _, t3, t4⟩ := buildTables_spec CI.Controls 0 [] [] rfl hV
  have eM : CI.MetaFieldOffset = (buildTables CI.Controls 0 ([], [])).1 := by
    conv_lhs => rw [hB]
    rfl
  have eX : CI.CIVarIndex = (buildTables CI.Controls 0 ([], [])).2 := by
    conv_lhs => rw [hB]
    rfl
  unfold BP5Deserializer.GetMetadataBase
  unfold BP5Deserializer.control at hc
  unfold BP5Deserializer.block at hb
  rw [if_pos hra, hc]
  dsimp only
  by_cases hin : ∃ C ∈ CI.Controls, C.VarRec = v
  · obtain ⟨C, hC, hCv⟩ := hin
    obtain ⟨j, hj, hjC⟩ := List.getElem_of_mem hC
    have hj' : CI.Controls[j]? = some C := by
      rw [List.getElem?_eq_getElem hj, hjC]
    obtain ⟨q1, q2⟩ := t3 j C hj'
    rw [hCv, ← eM] at q1
    rw [hCv, ← eX, Nat.zero_add] at q2
    have hlen : ¬ CI.MetaFieldOffset.length ≤ v := by
      intro hle
      rw [List.getElem?_eq_none hle] at q1
      cases q1
    have hget : CI.MetaFieldOffset.getD v 0 = C.FieldOffset := by
      rw [List.getD_eq_getElem?_getD, q1]
      rfl
    have hne : ¬ (CI.MetaFieldOffset.length ≤ v ∨ CI.MetaFieldOffset.getD v 0 = 0) := by
      rw [hget]
      intro h
      rcases h with h | h
      · exact hlen h
      · exact hO C hC h
    rw [if_neg hne, q2]
    dsimp only
    cases hvec : (r.MetadataBaseArray[s]?).bind (fun p => p.bind (fun k => r.Vectors[k]?)) with
    | none => rw [hvec] at hb; cases hb
    | some vec =>
      rw [hvec, Option.some_bind] at hb
      dsimp only
      rw [hb]
      dsimp only
      rw [hasField_unique B.BitField v CI.Controls 0 j C hV hj' hCv, Nat.zero_add]
      by_cases hbit : B.BitField j = true
      · simp [BP5BitfieldTest, hbit]
      · simp [BP5BitfieldTest, hbit]
  · have hno : ∀ C ∈ CI.Controls, C.VarRec ≠ v := fun C hC e => hin ⟨C, hC, e⟩
    obtain ⟨q0, _⟩ := t4 v hno
    rw [← eM] at q0
    have : CI.MetaFieldOffset.length ≤ v ∨ CI.MetaFieldOffset.getD v 0 = 0 := by
      right
      rw [q0]
      rfl
    rw [if_pos this, hasField_none B.BitField v CI.Controls 0 hno]
    exact ⟨none, rfl, rfl⟩


theorem anyWriterHas_installed (r : BP5Deserializer) (v s : Nat)
    (done : List (List (ControlInfo × MetadataBlock)))
    (blocks : List (ControlInfo × MetadataBlock)) (hinv : StepsInstalled r done)
    (hs : done[s]? = some blocks) (hwf : ∀ b ∈ blocks, b.1.WellFormed) :
    ∀ (rest : List (ControlInfo × MetadataBlock)) (w0 : Nat), blocks.drop w0 = rest →
      anyWriterHas r v s (List.range' w0 rest.length) = some (rest.any (fun b => carries b v))
  | [], _, _ => rfl
  | b :: rest, w0, hd => by
    have hb : blocks[w0]? = some b := by
      rw [← List.head?_drop, hd]
      rfl
    have hd1 : blocks.drop (w0 + 1) = rest := by
      rw [← List.drop_drop, List.drop_one, hd]
      rfl
    obtain ⟨hra, _, _, _, _, h6⟩ := hinv
    obtain ⟨q1, B1, q2, q3⟩ := h6 s blocks w0 b hs hb
    obtain ⟨x, e1, e2⟩ := GetMetadataBase_installed r v s w0 b.1 B1 hra
      (hwf b (List.getElem?_mem hb)) q1 q2
    rw [q3] at e2
    rw [List.length_cons, List.range'_succ, anyWriterHas, e1, List.any_cons]
    have ih := anyWriterHas_installed r v s done blocks ⟨hra, by assumption, by assumption,
      by assumption, by assumption, h6⟩ hs hwf rest (w0 + 1) hd1
    cases x with
    | none =>
      have : carries b v = false := by
        rw [carries, ← e2]
        rfl
      rw [this, Bool.false_or]
      exact ih
    | some m =>
      have : carries b v = true := by
        rw [carries, ← e2]
        rfl
      rw [this, Bool.true_or]

theorem absoluteStepsFrom_installed (r : BP5Deserializer) (v : Nat)
    (done : List (List (ControlInfo × MetadataBlock))) (hinv : StepsInstalled r done)
    (hwf : ∀ blocks ∈ done, ∀ b ∈ blocks, b.1.WellFormed) :
    ∀ (m s0 : Nat) (keys : List Nat), s0 + m ≤ done.length →
      absoluteStepsFrom r v (List.range' s0 m) keys =
        some (keys ++ writtenSteps v ((done.drop s0).take m) s0)
  | 0, s0, keys, _ => by
    simp [absoluteStepsFrom, writtenSteps]
  | m + 1, s0, keys, hle => by
    have hlt : s0 < done.length := by omega
    have hs : done[s0]? = some done[s0] := List.getElem?_eq_getElem hlt
    have hdrop : (done.drop s0).take (m + 1) = done[s0] :: (done.drop (s0 + 1)).take m := by
      rw [List.drop_eq_getElem_cons hlt, List.take_succ_cons]
    have hc : r.WriterCohortSize s0 = some done[s0].length := by
      obtain ⟨hra, h2, _⟩ := hinv
      unfold BP5Deserializer.WriterCohortSize
      rw [if_pos hra, h2, List.length_map, if_pos hlt, List.getElem?_map, hs]
      rfl
    have ha := anyWriterHas_installed r v s0 done done[s0] hinv hs
      (hwf _ (List.getElem?_mem hs)) done[s0] 0 rfl
    rw [← List.range_eq_range'] at ha
    have ih := absoluteStepsFrom_installed r v done hinv hwf m (s0 + 1)
    rw [List.range'_succ, absoluteStepsFrom, hc]
    dsimp only
    rw [ha, hdrop, writtenSteps]
    cases hany : done[s0].any (fun b => carries b v) with
    | true =>
      dsimp only
      rw [ih _ (by omega)]
      simp
    | false =>
      dsimp only
      rw [ih _ (by omega)]
      simp

theorem writtenSteps_append (v : Nat) :
    ∀ (l1 l2 : List (List (ControlInfo × MetadataBlock))) (first : Nat),
      writtenSteps v (l1 ++ l2) first =
        writtenSteps v l1 first ++ writtenSteps v l2 (first + l1.length)
  | [], l2, first => by simp [writtenSteps]
  | b :: l1, l2, first => by
    rw [List.cons_append, writtenSteps, writtenSteps, writtenSteps_append v l1 l2 (first + 1),
      List.length_cons, List.append_assoc]
    congr 3
    omega

theorem writtenSteps_empty (v : Nat) :
    ∀ (l : List (List (ControlInfo × MetadataBlock))) (first : Nat), (∀ b ∈ l, b = []) →
      writtenSteps v l first = []
  | [], _, _ => rfl
  | b :: l, first, h => by
    rw [writtenSteps, writtenSteps_empty v l (first + 1)
      (fun x hx => h x (List.mem_cons_of_mem _ hx)), h b (List.mem_cons_self _ _)]
    rfl

theorem GetAbsoluteSteps_installed (r : BP5Deserializer) (v : Nat)
    (done : List (List (ControlInfo × MetadataBlock))) (hinv : StepsInstalled r done)
    (hwf : ∀ blocks ∈ done, ∀ b ∈ blocks, b.1.WellFormed) :
    r.GetAbsoluteSteps v [] = some (writtenSteps v done 0) := by
  have hra := hinv.1
  have hle := hinv.2.2.1
  unfold BP5Deserializer.GetAbsoluteSteps
  rw [if_neg (by simp [hra]), List.range_eq_range',
    absoluteStepsFrom_installed r v done hinv hwf _ 0 [] (by omega), List.nil_append,
    List.drop_zero]
  have hsplit : done = done.take r.m_ControlArray.length ++ done.drop r.m_ControlArray.length :=
    (List.take_append_drop _ _).symm
  conv_rhs => rw [hsplit]
  rw [writtenSteps_append, writtenSteps_empty v (done.drop r.m_ControlArray.length),
    List.append_nil]
  intro b hb
  obtain ⟨j, hj, hjb⟩ := List.getElem_of_mem hb
  rw [List.getElem_drop] at hjb
  by_contra hne
  obtain ⟨b0, bs, hbb⟩ := List.exists_cons_of_ne_nil hne
  have h0 : b[0]? = some b0 := by rw [hbb]; simp
  have hs : done[r.m_ControlArray.length + j]? = some b := by
    rw [← hjb]
    exact List.getElem?_eq_getElem _
  obtain ⟨q1, _⟩ := hinv.2.2.2.2.2 _ b 0 b0 hs h0
  have := control_some r _ _ _ q1
  omega


/-! ### Installing metadata: the record of a variable over the steps -/

theorem ArrayVarSetup_some (stdType : DataType → Bool)
    (DefineVariable : DataType → VariableHandle) (type : DataType) (DimCount : Int)
    (Shape Count : Option (List Nat)) (hd : VariableHandle)
    (h : ArrayVarSetup stdType DefineVariable type DimCount Shape Count = some (some hd)) :
    hd.m_AvailableStepsCount = 1 ∧ hd.m_ShapeID = ShapeID.GlobalArray ∧
    hd.m_SingleValue = false ∧
    (∀ S, Shape = some S →
      hd.m_Shape = S.take DimCount.toNat ∧ hd.m_Start = List.replicate DimCount.toNat 0 ∧
      hd.m_Count = S.take DimCount.toNat) ∧
    (Shape = none →
      hd.m_Shape = [] ∧ hd.m_Start = [] ∧ hd.m_Count = (Count.getD []).take DimCount.toNat) := by
  unfold ArrayVarSetup at h
  dsimp only at h
  split at h
  · cases h
  · rename_i VecShape VecStart VecCount hvec
    split at h
    · cases h
    · split at h
      · simp only [Option.some.injEq] at h
        subst h
        refine ⟨rfl, rfl, rfl, ?_, ?_⟩
        · intro S hS
          subst hS
          dsimp only at hvec
          split at hvec
          · simp only [Option.some.injEq, Prod.mk.injEq] at hvec
            obtain ⟨e1, e2, e3⟩ := hvec
            subst e1 e2 e3
            exact ⟨rfl, rfl, rfl⟩
          · cases hvec
        · intro hS
          subst hS
          dsimp only at hvec
          split at hvec
          · rename_i h0
            simp only [Option.some.injEq, Prod.mk.injEq] at hvec
            obtain ⟨e1, e2, e3⟩ := hvec
            subst e1 e2 e3
            rw [h0]
            exact ⟨rfl, rfl, by simp⟩
          · split at hvec
            · cases hvec
            · split at hvec
              · simp only [Option.some.injEq, Prod.mk.injEq] at hvec
                obtain ⟨e1, e2, e3⟩ := hvec
                subst e1 e2 e3
                exact ⟨rfl, rfl, rfl⟩
              · cases hvec
      · cases h

theorem VarSetup_some (stdType : DataType → Bool) (DefineVariable : DataType → VariableHandle)
    (type : DataType) (hd : VariableHandle)
    (h : VarSetup stdType DefineVariable type = some hd) :
    hd = { DefineVariable type with m_AvailableStepsCount := 1 } := by
  unfold VarSetup at h
  split at h
  · cases h
  · split at h
    · simp only [Option.some.injEq] at h
      exact h.symm
    · cases h

theorem installVarRec_created_count (stdType : DataType → Bool)
    (DefineVariable : DataType → VariableHandle) (Wm Rm ra : Bool) (c W S : Nat)
    (C : ControlStruct) (R R1 : InstalledVarRec) (m m1 : MetaArrayRecOperator)
    (h : installVarRec stdType DefineVariable Wm Rm ra c W S C R m = some (R1, m1))
    (hv : R.Variable = none) :
    ∃ hd, R1.Variable = some hd ∧ hd.m_AvailableStepsCount = 1 := by
  obtain ⟨_, _, _, s4, _, _⟩ := installVarRec_spec stdType DefineVariable Wm Rm ra c W S C R R1
    m m1 h
  obtain ⟨hd, e1, _, e3, e4, e5⟩ := s4 hv
  refine ⟨hd, e1, ?_⟩
  by_cases hA : C.OrigShapeID = ShapeID.GlobalArray ∨ C.OrigShapeID = ShapeID.LocalArray
  · obtain ⟨h0, q1, q2⟩ := e3 hA
    have := (ArrayVarSetup_some stdType DefineVariable _ _ _ _ h0 q1).1
    rw [q2]
    split <;> exact this
  · by_cases hL : C.OrigShapeID = ShapeID.LocalValue
    · obtain ⟨h0, q1, q2⟩ := e4 hA hL
      have := (ArrayVarSetup_some stdType DefineVariable _ _ _ _ h0 q1).1
      rw [q2]
      exact this
    · rw [VarSetup_some stdType DefineVariable _ hd (e5 hA hL)]

theorem pushStep_cases (L : List Nat) (S : Nat) :
    (L.getLast? = some S ∧ pushStep L S = L) ∨
    (L.getLast? ≠ some S ∧ pushStep L S = L ++ [S]) := by
  unfold pushStep
  by_cases h : L.getLast? = some S
  · left
    refine ⟨h, ?_⟩
    rw [if_neg]
    intro hc
    rcases hc with hc | hc
    · rw [List.length_eq_zero] at hc
      rw [hc] at h
      cases h
    · exact hc h
  · right
    exact ⟨h, by rw [if_pos (Or.inr h)]⟩

theorem Tracks_install (stdType : DataType → Bool)
    (DefineVariable : DataType → VariableHandle) (r r2 : BP5Deserializer)
    (b : ControlInfo × MetadataBlock) (W S v : Nat) (L : List Nat)
    (hra : r.m_RandomAccessMode = true) (hwf : b.1.WellFormed)
    (ht : Tracks (r.VarRecs v) L) (hlen : (pushStep L S).length < 2 ^ 64)
    (h : InstallMetaData stdType DefineVariable r b.1 b.2 W S = some r2) :
    r2.m_RandomAccessMode = true ∧
    Tracks (r2.VarRecs v) (if carries b v then pushStep L S else L) := by
  obtain ⟨e1, _, _, _, _, e6, c, k, B1, _, _, _, _, e7⟩ := InstallMetaData_effect stdType
    DefineVariable r r2 b.1 b.2 W S hwf.2.1 hwf.2.2.1 h
  refine ⟨by rw [e1, hra], ?_⟩
  cases hc : carries b v with
  | false =>
    rw [e6 v hc]
    exact ht
  | true =>
    obtain ⟨C, _, _, R1, m1, q1, q2, _⟩ := e7 v hc
    rw [q2, hra] at *
    obtain ⟨_, _, _, s4, s5, s6⟩ := installVarRec_spec stdType DefineVariable _ _ true c W S C
      (r.VarRecs v) R1 _ m1 q1
    obtain ⟨s6a, s6b⟩ := s6 rfl
    obtain ⟨t1, t2, t3⟩ := ht
    rw [t1] at s6a
    simp only [if_true]
    refine ⟨s6a, ?_, ?_⟩
    · intro hn
      rcases pushStep_cases L S with ⟨_, p⟩ | ⟨_, p⟩
      · rw [p] at hn
        subst hn
        unfold pushStep at p
        simp at p
      · rw [p] at hn
        simp at hn
    · intro _
      by_cases hL : L = []
      · obtain ⟨hd, d1, d2⟩ := installVarRec_created_count stdType DefineVariable _ _ true c W S
          C (r.VarRecs v) R1 _ m1 q1 (t2 hL)
        subst hL
        refine ⟨hd, d1, ?_, ?_⟩
        · rw [d2]
          rfl
        · rw [s6b]
          rfl
      · obtain ⟨h0, d1, d2, d3⟩ := t3 hL
        have hV := s5 h0 d1
        rcases pushStep_cases L S with ⟨p0, p⟩ | ⟨p0, p⟩
        · rw [p0, Option.some.injEq] at d3
          rw [p]
          refine ⟨h0, ?_, d2, by rw [p0, s6b]⟩
          rw [hV, if_neg (fun x => x.2 d3.symm)]
        · have hne : (r.VarRecs v).LastTSAdded ≠ S := by
            intro e
            rw [e] at d3
            exact p0 d3
          rw [p] at hlen ⊢
          rw [List.length_append, List.length_singleton] at hlen
          refine ⟨_, hV, ?_, by rw [s6b]; simp⟩
          rw [if_pos ⟨rfl, hne⟩]
          simp only [List.length_append, List.length_singleton]
          rw [d2, Nat.mod_eq_of_lt hlen]


theorem Tracks_writers (stdType : DataType → Bool)
    (DefineVariable : DataType → VariableHandle) (S v : Nat) (L0 : List Nat)
    (hlast : L0.getLast? ≠ some S) (hlen : L0.length + 1 < 2 ^ 64) :
    ∀ (rest : List (ControlInfo × MetadataBlock)) (W0 : Nat) (r r2 : BP5Deserializer)
      (flag : Bool),
      r.m_RandomAccessMode = true → (∀ b ∈ rest, b.1.WellFormed) →
      Tracks (r.VarRecs v) (if flag then L0 ++ [S] else L0) →
      installWriters stdType DefineVariable S rest W0 r = some r2 →
      r2.m_RandomAccessMode = true ∧
      Tracks (r2.VarRecs v)
        (if flag || rest.any (fun b => carries b v) then L0 ++ [S] else L0)
  | [], _, r, r2, flag, hra, _, ht, h => by
    simp only [installWriters, Option.some.injEq] at h
    subst h
    simp only [List.any_nil, Bool.or_false]
    exact ⟨hra, ht⟩
  | b :: rest, W0, r, r2, flag, hra, hwf, ht, h => by
    rw [installWriters] at h
    cases hI : InstallMetaData stdType DefineVariable r b.1 b.2 W0 S with
    | none => simp [hI] at h
    | some r1 =>
      simp only [hI] at h
      have hpush : pushStep (if flag then L0 ++ [S] else L0) S = L0 ++ [S] := by
        cases flag with
        | true =>
          rcases pushStep_cases (L0 ++ [S]) S with ⟨_, p⟩ | ⟨p0, _⟩
          · exact p
          · exact absurd (by simp) p0
        | false =>
          rcases pushStep_cases L0 S with ⟨p0, _⟩ | ⟨_, p⟩
          · exact absurd p0 hlast
          · exact p
      obtain ⟨hra1, ht1⟩ := Tracks_install stdType DefineVariable r r1 b W0 S v _ hra
        (hwf b (List.mem_cons_self _ _)) ht
        (by rw [hpush, List.length_append, List.length_singleton]; exact hlen) hI
      rw [hpush] at ht1
      have ht2 : Tracks (r1.VarRecs v) (if (flag || carries b v) then L0 ++ [S] else L0) := by
        cases hc : carries b v with
        | true =>
          rw [hc] at ht1
          simpa using ht1
        | false =>
          rw [hc] at ht1
          simpa using ht1
      have := Tracks_writers stdType DefineVariable S v L0 hlast hlen rest (W0 + 1) r1 r2
        (flag || carries b v) hra1 (fun x hx => hwf x (List.mem_cons_of_mem _ hx)) ht2 h
      rw [List.any_cons, ← Bool.or_assoc]
      exact this

theorem SetupForStep_RA (r : BP5Deserializer) (S W : Nat) (hra : r.m_RandomAccessMode = true) :
    (SetupForStep r S W).m_RandomAccessMode = true ∧ (SetupForStep r S W).VarRecs = r.VarRecs := by
  unfold SetupForStep
  rw [if_pos hra]
  exact ⟨hra, rfl⟩

theorem writtenSteps_bounds (v : Nat) :
    ∀ (steps : List (List (ControlInfo × MetadataBlock))) (first x : Nat),
      x ∈ writtenSteps v steps first → first ≤ x ∧ x < first + steps.length
  | [], _, _, h => by simp [writtenSteps] at h
  | blocks :: steps, first, x, h => by
    rw [writtenSteps, List.mem_append] at h
    rw [List.length_cons]
    rcases h with h | h
    · split at h
      · rw [List.mem_singleton] at h
        omega
      · cases h
    · have := writtenSteps_bounds v steps (first + 1) x h
      omega

theorem writtenSteps_sorted (v : Nat) :
    ∀ (steps : List (List (ControlInfo × MetadataBlock))) (first : Nat),
      (writtenSteps v steps first).Pairwise (fun a b => a < b)
  | [], _ => List.Pairwise.nil
  | blocks :: steps, first => by
    rw [writtenSteps, List.pairwise_append]
    refine ⟨?_, writtenSteps_sorted v steps (first + 1), ?_⟩
    · split
      · exact List.pairwise_singleton _ _
      · exact List.Pairwise.nil
    · intro a ha b hb
      have := writtenSteps_bounds v steps (first + 1) b hb
      split at ha
      · rw [List.mem_singleton] at ha
        omega
      · cases ha

theorem writtenSteps_mem (v : Nat) :
    ∀ (steps : List (List (ControlInfo × MetadataBlock))) (first x : Nat),
      x ∈ writtenSteps v steps first ↔
        first ≤ x ∧ ∃ blocks, steps[x - first]? = some blocks ∧
          ∃ b ∈ blocks, carries b v = true
  | [], _, _ => by simp [writtenSteps]
  | blocks :: steps, first, x => by
    rw [writtenSteps, List.mem_append, writtenSteps_mem v steps (first + 1) x]
    constructor
    · intro h
      rcases h with h | ⟨h1, bl, h2, h3⟩
      · split at h
        · rename_i hany
          rw [List.mem_singleton] at h
          subst h
          rw [List.any_eq_true] at hany
          exact ⟨Nat.le_refl _, blocks, by simp, hany⟩
        · cases h
      · refine ⟨by omega, bl, ?_, h3⟩
        rw [show x - first = (x - (first + 1)) + 1 by omega, List.getElem?_cons_succ]
        exact h2
    · rintro ⟨h1, bl, h2, h3⟩
      by_cases hx : x = first
      · left
        subst hx
        rw [Nat.sub_self, List.getElem?_cons_zero, Option.some.injEq] at h2
        subst h2
        rw [if_pos (List.any_eq_true.mpr h3)]
        exact List.mem_singleton_self _
      · right
        refine ⟨by omega, bl, ?_, h3⟩
        rw [show x - first = (x - (first + 1)) + 1 by omega, List.getElem?_cons_succ] at h2
        exact h2

theorem Tracks_steps (stdType : DataType → Bool)
    (DefineVariable : DataType → VariableHandle) (v : Nat) :
    ∀ (steps : List (List (ControlInfo × MetadataBlock))) (first : Nat)
      (r r2 : BP5Deserializer) (L0 : List Nat),
      r.m_RandomAccessMode = true → (∀ blocks ∈ steps, ∀ b ∈ blocks, b.1.WellFormed) →
      Tracks (r.VarRecs v) L0 → (∀ x ∈ L0, x < first) → L0.length + steps.length < 2 ^ 64 →
      installSteps stdType DefineVariable steps first r = some r2 →
      r2.m_RandomAccessMode = true ∧ Tracks (r2.VarRecs v) (L0 ++ writtenSteps v steps first)
  | [], _, r, r2, L0, hra, _, ht, _, _, h => by
    simp only [installSteps, Option.some.injEq] at h
    subst h
    rw [writtenSteps, List.append_nil]
    exact ⟨hra, ht⟩
  | blocks :: steps, first, r, r2, L0, hra, hwf, ht, hlt, hlen, h => by
    rw [installSteps] at h
    cases hI : installStep stdType DefineVariable first blocks r with
    | none => simp [hI] at h
    | some r1 =>
      simp only [hI] at h
      rw [List.length_cons] at hlen
      unfold installStep at hI
      obtain ⟨s1, s2⟩ := SetupForStep_RA r first blocks.length hra
      have hlast : L0.getLast? ≠ some first := by
        intro e
        have := hlt first (List.mem_of_getLast?_eq_some e)
        omega
      obtain ⟨hra1, ht1⟩ := Tracks_writers stdType DefineVariable first v L0 hlast (by omega)
        blocks 0 _ r1 false s1 (hwf blocks (List.mem_cons_self _ _))
        (by rw [s2]; exact ht) hI
      rw [Bool.false_or] at ht1
      have ht2 : Tracks (r1.VarRecs v)
          (L0 ++ (if blocks.any (fun b => carries b v) then [first] else [])) := by
        split
        · rename_i hany
          rw [if_pos hany] at ht1
          exact ht1
        · rename_i hany
          rw [if_neg hany] at ht1
          rw [List.append_nil]
          exact ht1
      obtain ⟨hra2, ht3⟩ := Tracks_steps stdType DefineVariable v steps (first + 1) r1 r2 _ hra1
        (fun x hx => hwf x (List.mem_cons_of_mem _ hx)) ht2
        (by
          intro x hx
          rw [List.mem_append] at hx
          rcases hx with hx | hx
          · exact Nat.lt_succ_of_lt (hlt x hx)
          · split at hx
            · rw [List.mem_singleton] at hx
              omega
            · cases hx)
        (by
          rw [List.length_append]
          split
          · simp only [List.length_singleton]
            omega
          · simp only [List.length_nil]
            omega) h
      rw [writtenSteps, ← List.append_assoc]
      exact ⟨hra2, ht3⟩


theorem some_getD_of_isSome {α : Type} (o : Option α) (d : α) (h : o.isSome = true) :
    o = some (o.getD d) := by
  cases o with
  | none => cases h
  | some x => rfl

/-- Claim C21: in random-access mode, after the metadata of all writers of the
steps `0 .. N-1` has been installed on a new reader step by step in increasing
step order (`SetupForStep`, then `InstallMetaData` for the block of every writer
in rank order), `GetAbsoluteSteps` returns for a variable the list
`writtenSteps`, which is strictly increasing and holds exactly the steps on
which the block of at least one writer has the bit of the variable set, and the
vector `AbsStepFromRel` of the variable is the same list. Every format has its
fields at different offsets, none of them zero, and one field per variable. -/
theorem GetAbsoluteSteps_written (stdType : DataType → Bool)
    (DefineVariable : DataType → VariableHandle) (r r2 : BP5Deserializer)
    (steps : List (List (ControlInfo × MetadataBlock))) (v : Nat)
    (hra : r.m_RandomAccessMode = true) (h1 : r.m_WriterCohortSize = [])
    (h2 : r.m_ControlArray = []) (h3 : r.MetadataBaseArray = [])
    (hrec : (r.VarRecs v).AbsStepFromRel = [] ∧ (r.VarRecs v).Variable = none)
    (hwf : ∀ blocks ∈ steps, ∀ b ∈ blocks, b.1.WellFormed) (hlen : steps.length < 2 ^ 64)
    (hrun : installSteps stdType DefineVariable steps 0 r = some r2) :
    r2.GetAbsoluteSteps v [] = some (writtenSteps v steps 0) ∧
    (r2.VarRecs v).AbsStepFromRel = writtenSteps v steps 0 ∧
    (writtenSteps v steps 0).Pairwise (fun a b => a < b) ∧
    ∀ s, s ∈ writtenSteps v steps 0 ↔
      ∃ blocks, steps[s]? = some blocks ∧ ∃ b ∈ blocks, carries b v = true := by
  have hinv := StepsInstalled_steps stdType DefineVariable steps [] r r2 hwf
    (StepsInstalled_fresh r hra h1 h2 h3) hrun
  rw [List.nil_append] at hinv
  have ht := (Tracks_steps stdType DefineVariable v steps 0 r r2 [] hra hwf
    ⟨hrec.1, fun _ => hrec.2, fun hn => absurd rfl hn⟩ (fun x hx => by cases hx)
    (by simpa using hlen) hrun).2
  rw [List.nil_append] at ht
  refine ⟨GetAbsoluteSteps_installed r2 v steps hinv hwf, ht.1, writtenSteps_sorted v steps 0,
    ?_⟩
  intro s
  rw [writtenSteps_mem v steps 0 s, Nat.sub_zero]
  exact ⟨fun h => h.2, fun h => ⟨Nat.zero_le _, h⟩⟩

/-- Witness of `GetAbsoluteSteps_written`: scenario S6, a variable written on
the steps 0, 2 and 4 of five. -/
theorem GetAbsoluteSteps_written_witness :
    writtenSteps 0 S6.steps 0 = [0, 2, 4] ∧
    S6.installed.GetAbsoluteSteps 0 [] = some (writtenSteps 0 S6.steps 0) ∧
    (S6.installed.VarRecs 0).AbsStepFromRel = writtenSteps 0 S6.steps 0 :=
  ⟨by decide,
    (GetAbsoluteSteps_written (fun _ => true) S6.DefineVariable S6.fresh S6.installed S6.steps 0
      rfl rfl rfl rfl ⟨rfl, rfl⟩ (by decide) (by decide)
      (some_getD_of_isSome _ _ (by decide))).1,
    (GetAbsoluteSteps_written (fun _ => true) S6.DefineVariable S6.fresh S6.installed S6.steps 0
      rfl rfl rfl rfl ⟨rfl, rfl⟩ (by decide) (by decide)
      (some_getD_of_isSome _ _ (by decide))).2.1⟩

/-- Claim C22: in random-access mode, after the metadata of all writers of the
steps `0 .. N-1` has been installed on a new reader in increasing step order,
a variable that no writer wrote has no handle, and the handle of a variable that
was written has as `m_AvailableStepsCount` the number of entries of
`writtenSteps`, the list without repetition of the steps on which the block of
at least one writer has the bit of the variable set, however many writers wrote
it on a step. -/
theorem AvailableStepsCount_written (stdType : DataType → Bool)
    (DefineVariable : DataType → VariableHandle) (r r2 : BP5Deserializer)
    (steps : List (List (ControlInfo × MetadataBlock))) (v : Nat)
    (hra : r.m_RandomAccessMode = true)
    (hrec : (r.VarRecs v).AbsStepFromRel = [] ∧ (r.VarRecs v).Variable = none)
    (hwf : ∀ blocks ∈ steps, ∀ b ∈ blocks, b.1.WellFormed) (hlen : steps.length < 2 ^ 64)
    (hrun : installSteps stdType DefineVariable steps 0 r = some r2) :
    (writtenSteps v steps 0 = [] → (r2.VarRecs v).Variable = none) ∧
    (writtenSteps v steps 0 ≠ [] →
      ∃ hd, (r2.VarRecs v).Variable = some hd ∧
        hd.m_AvailableStepsCount = (writtenSteps v steps 0).length) ∧
    (writtenSteps v steps 0).Nodup ∧
    ∀ s, s ∈ writtenSteps v steps 0 ↔
      ∃ blocks, steps[s]? = some blocks ∧ ∃ b ∈ blocks, carries b v = true := by
  have ht := (Tracks_steps stdType DefineVariable v steps 0 r r2 [] hra hwf
    ⟨hrec.1, fun _ => hrec.2, fun hn => absurd rfl hn⟩ (fun x hx => by cases hx)
    (by simpa using hlen) hrun).2
  rw [List.nil_append] at ht
  obtain ⟨_, t2, t3⟩ := ht
  refine ⟨t2, ?_, ?_, ?_⟩
  · intro hne
    obtain ⟨hd, e1, e2, _⟩ := t3 hne
    exact ⟨hd, e1, e2⟩
  · exact (writtenSteps_sorted v steps 0).imp (fun h => Nat.ne_of_lt h)
  · intro s
    rw [writtenSteps_mem v steps 0 s, Nat.sub_zero]
    exact ⟨fun h => h.2, fun h => ⟨Nat.zero_le _, h⟩⟩

/-- Witness of `AvailableStepsCount_written`: three steps of two writers, the
variable written by both on step 0 and by one on step 2: two available steps. -/
theorem AvailableStepsCount_written_witness :
    writtenSteps 0 S6.pairSteps 0 = [0, 2] ∧
    ∃ hd, (S6.pairInstalled.VarRecs 0).Variable = some hd ∧
      hd.m_AvailableStepsCount = (writtenSteps 0 S6.pairSteps 0).length :=
  ⟨by decide,
    (AvailableStepsCount_written (fun _ => true) S6.DefineVariable S6.fresh S6.pairInstalled
      S6.pairSteps 0 rfl ⟨rfl, rfl⟩ (by decide) (by decide)
      (some_getD_of_isSome _ _ (by decide))).2.1 (by decide)⟩


/-! ### The handle that the first sight of a variable makes -/

theorem installArrayField_null_shape (W R : Bool) (m : MetaArrayRecOperator)
    (hS : m.Shape = none) (hD : 1 < m.Dims) (hWR : W ≠ R) : installArrayField W R m = none := by
  have h2 : m.Dims / 2 = (m.Dims / 2 - 1) + 1 := by omega
  have hR : ReverseDimensions none m.Dims 1 = none := by
    unfold ReverseDimensions
    rw [reverseTuples]
    split
    · rw [h2, reverseTuple]
      rfl
    · rfl
  unfold installArrayField
  rw [if_pos ⟨hD, hWR⟩, hS, hR]

theorem installArrayField_shape (W R : Bool) (m m1 : MetaArrayRecOperator) (S : List Nat)
    (hS : m.Shape = some S) (hSl : S.length = m.Dims) (hint : m.Dims ≤ INT_MAX)
    (h : installArrayField W R m = some m1) :
    m1.Dims = m.Dims ∧ m1.Shape = some (if 1 < m.Dims ∧ W ≠ R then S.reverse else S) := by
  by_cases hc : 1 < m.Dims ∧ W ≠ R
  · rw [if_pos hc]
    obtain ⟨S1, s1, s2, s3⟩ := ReverseDimensions_spec S m.Dims 1 (by omega) (by omega)
    have hrev : S1 = S.reverse := by
      apply List.ext_getElem?
      intro p
      rw [s3 p]
      by_cases hp : p < m.Dims
      · rw [List.getElem?_reverse (by omega), hSl]
        congr 1
        unfold tupRev
        rw [if_pos (by omega), Nat.div_eq_of_lt hp, Nat.mod_eq_of_lt hp]
        omega
      · unfold tupRev
        rw [if_neg (by omega), List.getElem?_eq_none (by omega), List.getElem?_eq_none (by
          rw [List.length_reverse]; omega)]
    subst hrev
    unfold installArrayField at h
    rw [if_pos (by simpa using hc), hS, s1] at h
    dsimp only at h
    split at h
    · cases h
    · split at h
      · cases h
      · simp only [Option.some.injEq] at h
        subst h
        exact ⟨rfl, rfl⟩
  · rw [if_neg hc]
    rw [installArrayField_same W R m (by
      by_cases h1 : 1 < m.Dims
      · right
        by_contra hn
        exact hc ⟨h1, hn⟩
      · left
        omega), Option.some.injEq] at h
    subst h
    exact ⟨rfl, hS⟩

theorem toInt32_toNat (n : Nat) (h : n ≤ INT_MAX) : (toInt32 n).toNat = n := by
  unfold INT_MAX at h
  unfold toInt32
  have h1 : n % 2 ^ 32 = n := Nat.mod_eq_of_lt (by omega)
  rw [h1, if_pos (by omega)]
  rfl

/-- Claim C23, as the code has it: when `InstallMetaData` meets in a block a
field of a variable that has no handle, it makes the handle. For an array whose
`MetaArrayRec` carries a `Shape` of `Dims` entries, the shape of the handle is
that `Shape`, with the dimensions in reverse order when `Dims > 1` and the
majorness of writer and reader differ, its start is `Dims` zeros and its count
is its shape, as a global array. For an array without `Shape` the shape and the
start are empty, the count is the `Count` of the first block, and the handle is
a local array; writer and reader have then the same majorness or `Dims <= 1`.
For a `LocalValue` field the shape and the count are the writer cohort size and
the start is `0`, as a global array of one dimension. The handle has one
available step. -/
theorem InstallMetaData_first_sight (stdType : DataType → Bool)
    (DefineVariable : DataType → VariableHandle) (r r2 : BP5Deserializer)
    (Control : ControlInfo) (BaseData : MetadataBlock) (W S v : Nat) (C : ControlStruct)
    (hV : (Control.Controls.map (fun C => C.VarRec)).Nodup)
    (hO : (Control.Controls.map (fun C => C.FieldOffset)).Nodup)
    (hC : C ∈ Control.Controls) (hCv : C.VarRec = v)
    (hbit : carries (Control, BaseData) v = true)
    (hnew : (r.VarRecs v).Variable = none)
    (hint : (BaseData.MetaArray C.FieldOffset).Dims ≤ INT_MAX)
    (hrun : InstallMetaData stdType DefineVariable r Control BaseData W S = some r2) :
    ∃ hd, (r2.VarRecs v).Variable = some hd ∧ hd.m_AvailableStepsCount = 1 ∧
      (C.OrigShapeID = ShapeID.GlobalArray ∨ C.OrigShapeID = ShapeID.LocalArray →
        (∀ Shape, (BaseData.MetaArray C.FieldOffset).Shape = some Shape →
          Shape.length = (BaseData.MetaArray C.FieldOffset).Dims →
          hd.m_Shape =
            (if 1 < (BaseData.MetaArray C.FieldOffset).Dims ∧
                r.m_WriterIsRowMajor ≠ r.m_ReaderIsRowMajor then Shape.reverse else Shape) ∧
          hd.m_Start = List.replicate (BaseData.MetaArray C.FieldOffset).Dims 0 ∧
          hd.m_Count = hd.m_Shape ∧ hd.m_ShapeID = ShapeID.GlobalArray ∧
          hd.m_SingleValue = false) ∧
        ((BaseData.MetaArray C.FieldOffset).Shape = none →
          hd.m_Shape = [] ∧ hd.m_Start = [] ∧
          hd.m_Count = ((BaseData.MetaArray C.FieldOffset).Count.getD []).take
            (BaseData.MetaArray C.FieldOffset).Dims ∧
          hd.m_ShapeID = ShapeID.LocalArray ∧ hd.m_SingleValue = false ∧
          ((BaseData.MetaArray C.FieldOffset).Dims ≤ 1 ∨
            r.m_WriterIsRowMajor = r.m_ReaderIsRowMajor))) ∧
      (C.OrigShapeID = ShapeID.LocalValue →
        ∃ c, r.WriterCohortSize S = some c ∧ hd.m_Shape = [c] ∧ hd.m_Start = [0] ∧
          hd.m_Count = [c] ∧ hd.m_ShapeID = ShapeID.GlobalArray ∧
          hd.m_SingleValue = false) := by
  obtain ⟨_, _, _, _, _, _, c, k, B1, hc, _, _, _, e7⟩ := InstallMetaData_effect stdType
    DefineVariable r r2 Control BaseData W S hV hO hrun
  obtain ⟨C1, hC1, hC1v, R1, m1, q1, q2, _⟩ := e7 v hbit
  have hCC : C1 = C := List.inj_on_of_nodup_map hV hC1 hC (by rw [hC1v, hCv])
  subst hCC
  obtain ⟨_, s2, _, s4, _, _⟩ := installVarRec_spec stdType DefineVariable _ _ _ c W S C1
    (r.VarRecs v) R1 _ m1 q1
  obtain ⟨hd, d1, _, d3, d4, _⟩ := s4 hnew
  obtain ⟨hd1, d1a, d1b⟩ := installVarRec_created_count stdType DefineVariable _ _ _ c W S C1
    (r.VarRecs v) R1 _ m1 q1 hnew
  rw [d1, Option.some.injEq] at d1a
  subst d1a
  refine ⟨hd, by rw [q2]; exact d1, d1b, ?_, ?_⟩
  · intro hA
    rw [if_pos hA] at s2
    obtain ⟨h0, a1, a2⟩ := d3 hA
    obtain ⟨_, b2, b3, b4, b5⟩ := ArrayVarSetup_some stdType DefineVariable _ _ _ _ h0 a1
    refine ⟨?_, ?_⟩
    · intro Shape hS hSl
      obtain ⟨f1, f2⟩ := installArrayField_shape _ _ _ m1 Shape hS hSl hint s2
      obtain ⟨g1, g2, g3⟩ := b4 _ f2
      rw [f1, toInt32_toNat _ hint] at g1 g2 g3
      have hl : (if 1 < (BaseData.MetaArray C1.FieldOffset).Dims ∧
          r.m_WriterIsRowMajor ≠ r.m_ReaderIsRowMajor then Shape.reverse else Shape).length =
          (BaseData.MetaArray C1.FieldOffset).Dims := by
        split
        · rw [List.length_reverse, hSl]
        · exact hSl
      rw [List.take_of_length_le (Nat.le_of_eq hl)] at g1 g3
      have hne : m1.Shape ≠ none := by rw [f2]; exact Option.some_ne_none _
      rw [if_neg hne] at a2
      subst a2
      exact ⟨g1, g2, by rw [g3, g1], b2, b3⟩
    · intro hS
      have hsame : (BaseData.MetaArray C1.FieldOffset).Dims ≤ 1 ∨
          r.m_WriterIsRowMajor = r.m_ReaderIsRowMajor := by
        by_contra hn
        rw [not_or] at hn
        rw [installArrayField_null_shape _ _ _ hS (by omega) hn.2] at s2
        cases s2
      rw [installArrayField_same _ _ _ hsame, Option.some.injEq] at s2
      subst s2
      obtain ⟨g1, g2, g3⟩ := b5 hS
      rw [toInt32_toNat _ hint] at g3
      rw [if_pos hS] at a2
      subst a2
      exact ⟨g1, g2, g3, rfl, b3, hsame⟩
  · intro hL
    have hA : ¬ (C1.OrigShapeID = ShapeID.GlobalArray ∨ C1.OrigShapeID = ShapeID.LocalArray) := by
      rw [hL]
      decide
    obtain ⟨h0, a1, a2⟩ := d4 hA hL
    obtain ⟨_, b2, b3, b4, _⟩ := ArrayVarSetup_some stdType DefineVariable _ _ _ _ h0 a1
    obtain ⟨g1, g2, g3⟩ := b4 _ rfl
    subst a2
    exact ⟨c, hc, g1, g2, g3, rfl, b3⟩


/-- Witness of `InstallMetaData_first_sight`: the first block of a row-major
writer on a column-major reader, with the array of scenario S3 of shape
`{2, 8}`: the handle has the shape `{8, 2}`. -/
theorem InstallMetaData_first_sight_witness :
    ∃ hd, (S5.installed.VarRecs 0).Variable = some hd ∧ hd.m_AvailableStepsCount = 1 ∧
      hd.m_Shape = [8, 2] ∧ hd.m_Start = [0, 0] ∧ hd.m_Count = hd.m_Shape ∧
      hd.m_ShapeID = ShapeID.GlobalArray ∧ hd.m_SingleValue = false :=
  (InstallMetaData_first_sight (fun _ => true) S6.DefineVariable S5.start S5.installed S6.control
    S6.written 0 0 0 ⟨16, ShapeID.GlobalArray, 0⟩ (by decide) (by decide) (by decide) rfl
    (by decide) rfl (by decide) (some_getD_of_isSome _ _ (by decide))).imp
    (fun _ h => ⟨h.1, h.2.1, (h.2.2.1 (Or.inl rfl)).1 [2, 8] rfl rfl⟩)

/-- Claim C23, counterexample: a row-major writer wrote an array with the
`Shape` `{2, 8}`; the handle that a column-major reader makes at the first sight
of the variable has the shape `{8, 2}`. -/
theorem InstallMetaData_shape_reversed :
    (S6.written.MetaArray 16).Shape = some [2, 8] ∧
    (S5.installed.VarRecs 0).Variable.map (fun hd => hd.m_Shape) = some [8, 2] := by
  decide


/-! ### The global shape of a variable over the installed blocks -/

theorem find?_of_nodup (v : Nat) :
    ∀ (Cs : List ControlStruct) (C : ControlStruct), (Cs.map (fun C => C.VarRec)).Nodup →
      C ∈ Cs → C.VarRec = v → Cs.find? (fun C => decide (C.VarRec = v)) = some C
  | [], _, _, h, _ => by cases h
  | D :: Cs, C, hn, h, hv => by
    rw [List.map_cons, List.nodup_cons] at hn
    rcases List.mem_cons.mp h with h | h
    · subst h
      rw [List.find?_cons_of_pos _ (by simpa using hv)]
    · have hne : D.VarRec ≠ v := by
        intro e
        apply hn.1
        rw [e, ← hv]
        exact List.mem_map_of_mem _ h
      rw [List.find?_cons_of_neg _ (by simpa using hne)]
      exact find?_of_nodup v Cs C hn.2 h hv

theorem SetupForStep_frame (r : BP5Deserializer) (S W v : Nat) :
    (SetupForStep r S W).m_WriterIsRowMajor = r.m_WriterIsRowMajor ∧
    (SetupForStep r S W).m_ReaderIsRowMajor = r.m_ReaderIsRowMajor ∧
    ((SetupForStep r S W).VarRecs v).GlobalDims = (r.VarRecs v).GlobalDims := by
  unfold SetupForStep
  split <;> exact ⟨rfl, rfl, rfl⟩

theorem InstallMetaData_GlobalDims (stdType : DataType → Bool)
    (DefineVariable : DataType → VariableHandle) (r r2 : BP5Deserializer)
    (Control : ControlInfo) (BaseData : MetadataBlock) (W S v : Nat)
    (hwf : Control.WellFormed)
    (h : InstallMetaData stdType DefineVariable r Control BaseData W S = some r2) :
    r2.m_WriterIsRowMajor = r.m_WriterIsRowMajor ∧
    r2.m_ReaderIsRowMajor = r.m_ReaderIsRowMajor ∧
    (r2.VarRecs v).GlobalDims =
      globalDims (r.VarRecs v).GlobalDims
        (shapeEvent r.m_WriterIsRowMajor r.m_ReaderIsRowMajor v
          (ReaderCall.Install Control BaseData W S)) := by
  obtain ⟨_, e2, e3, _, _, e6, c, k, B1, _, _, _, _, e7⟩ := InstallMetaData_effect stdType
    DefineVariable r r2 Control BaseData W S hwf.2.1 hwf.2.2.1 h
  refine ⟨e2, e3, ?_⟩
  cases hc : carries (Control, BaseData) v with
  | false =>
    rw [e6 v hc]
    simp only [shapeEvent, hc, Bool.false_eq_true, if_false]
    rfl
  | true =>
    obtain ⟨C, hC, hCv, R1, m1, q1, q2, _⟩ := e7 v hc
    obtain ⟨_, s2, s3, _⟩ := installVarRec_spec stdType DefineVariable _ _ _ c W S C
      (r.VarRecs v) R1 _ m1 q1
    simp only [shapeEvent, hc, if_true, find?_of_nodup v Control.Controls C hwf.2.1 hC hCv]
    rw [q2, s3]
    by_cases hA : C.OrigShapeID = ShapeID.GlobalArray ∨ C.OrigShapeID = ShapeID.LocalArray
    · rw [if_pos hA] at s2 ⊢
      rw [s2]
      unfold globalDims
      simp only [List.foldl_cons, List.foldl_nil, Option.some_bind]
      by_cases hg : W = 0 ∨ (r.VarRecs v).GlobalDims = none
      · rw [if_pos ⟨hA, hg⟩, if_pos hg]
      · rw [if_neg (fun x => hg x.2), if_neg hg]
    · rw [if_neg hA, if_neg (fun x => hA x.1)]
      rfl

theorem globalDims_append (G : Option (List Nat)) (a b : List (Nat × Option (List Nat))) :
    globalDims G (a ++ b) = globalDims (globalDims G a) b := by
  unfold globalDims
  rw [List.foldl_append]

theorem readerCalls_GlobalDims (stdType : DataType → Bool)
    (DefineVariable : DataType → VariableHandle) (v : Nat) :
    ∀ (calls : List ReaderCall) (r r2 : BP5Deserializer),
      (∀ c ∈ calls, c.WellFormed) →
      readerCalls stdType DefineVariable calls r = some r2 →
      (r2.VarRecs v).GlobalDims =
        globalDims (r.VarRecs v).GlobalDims
          (calls.flatMap (shapeEvent r.m_WriterIsRowMajor r.m_ReaderIsRowMajor v))
  | [], r, r2, _, h => by
    simp only [readerCalls, Option.some.injEq] at h
    subst h
    rfl
  | ReaderCall.Setup S W :: calls, r, r2, hwf, h => by
    rw [readerCalls] at h
    obtain ⟨f1, f2, f3⟩ := SetupForStep_frame r S W v
    have := readerCalls_GlobalDims stdType DefineVariable v calls _ r2
      (fun c hc => hwf c (List.mem_cons_of_mem _ hc)) h
    rw [f1, f2, f3] at this
    rw [this, List.flatMap_cons]
    rfl
  | ReaderCall.Install Control BaseData W S :: calls, r, r2, hwf, h => by
    rw [readerCalls] at h
    cases hI : InstallMetaData stdType DefineVariable r Control BaseData W S with
    | none => simp [hI] at h
    | some r1 =>
      simp only [hI] at h
      obtain ⟨f1, f2, f3⟩ := InstallMetaData_GlobalDims stdType DefineVariable r r1 Control
        BaseData W S v (hwf _ (List.mem_cons_self _ _)) hI
      have := readerCalls_GlobalDims stdType DefineVariable v calls r1 r2
        (fun c hc => hwf c (List.mem_cons_of_mem _ hc)) h
      rw [f1, f2, f3] at this
      rw [this, List.flatMap_cons, globalDims_append]

theorem globalDims_no_zero :
    ∀ (events : List (Nat × Option (List Nat))) (G : Option (List Nat)),
      (∀ e ∈ events, e.1 ≠ 0) →
      globalDims G events =
        (match G with
         | some g => some g
         | none => events.findSome? (fun e => e.2))
  | [], G, _ => by cases G <;> rfl
  | e :: events, G, h => by
    have he := h e (List.mem_cons_self _ _)
    have ih := globalDims_no_zero events
    unfold globalDims at ih ⊢
    rw [List.foldl_cons]
    cases G with
    | some g =>
      rw [if_neg (by simp [he]), ih (some g) (fun x hx => h x (List.mem_cons_of_mem _ hx))]
    | none =>
      rw [if_pos (Or.inr rfl), ih e.2 (fun x hx => h x (List.mem_cons_of_mem _ hx)),
        List.findSome?_cons]
      cases e.2 <;> rfl


/-- Claim C24, as the code has it: for every sequence of `SetupForStep` and
`InstallMetaData` calls that runs (any order of writer ranks, any number of
steps), `GlobalDims` of an array variable is set by each block that carries the
variable to the `Shape` of the block when the block comes from writer rank 0 or
`GlobalDims` is null, and is left as it is otherwise. So when no block of rank 0
carries the variable, `GlobalDims` is the first `Shape` that is not null, and
when one does, it is the first `Shape` that is not null counted from the last
block of rank 0 on: a later block of rank 0 replaces the global shape. -/
theorem GlobalDims_rank_zero (stdType : DataType → Bool)
    (DefineVariable : DataType → VariableHandle) (calls : List ReaderCall)
    (r r2 : BP5Deserializer) (v : Nat)
    (hwf : ∀ c ∈ calls, c.WellFormed)
    (hrun : readerCalls stdType DefineVariable calls r = some r2) :
    (r2.VarRecs v).GlobalDims =
      globalDims (r.VarRecs v).GlobalDims
        (calls.flatMap (shapeEvent r.m_WriterIsRowMajor r.m_ReaderIsRowMajor v)) ∧
    ((r.VarRecs v).GlobalDims = none →
      (∀ e ∈ calls.flatMap (shapeEvent r.m_WriterIsRowMajor r.m_ReaderIsRowMajor v), e.1 ≠ 0) →
      (r2.VarRecs v).GlobalDims =
        (calls.flatMap (shapeEvent r.m_WriterIsRowMajor r.m_ReaderIsRowMajor v)).findSome?
          (fun e => e.2)) ∧
    (∀ (pre post : List (Nat × Option (List Nat))) (Shape : Option (List Nat)),
      calls.flatMap (shapeEvent r.m_WriterIsRowMajor r.m_ReaderIsRowMajor v) =
        pre ++ (0, Shape) :: post →
      (∀ e ∈ post, e.1 ≠ 0) →
      (r2.VarRecs v).GlobalDims = ((0, Shape) :: post).findSome? (fun e => e.2)) := by
  have h := readerCalls_GlobalDims stdType DefineVariable v calls r r2 hwf hrun
  refine ⟨h, ?_, ?_⟩
  · intro hG hno
    rw [h, globalDims_no_zero _ _ hno, hG]
  · intro pre post Shape he hno
    rw [h, he, globalDims_append]
    have h1 : globalDims (globalDims (r.VarRecs v).GlobalDims pre) ((0, Shape) :: post) =
        globalDims Shape post := by
      unfold globalDims
      rw [List.foldl_cons, if_pos (Or.inl rfl)]
    rw [h1, globalDims_no_zero _ _ hno, List.findSome?_cons]
    cases Shape <;> rfl

/-- Witness of `GlobalDims_rank_zero`: the writer of rank 0 wrote the array with
the `Shape` `{2, 8}` on step 0 and with `{4, 8}` on step 1. -/
theorem GlobalDims_rank_zero_witness :
    S6.shapeCalls.flatMap (shapeEvent true true 0) = [(0, some [2, 8]), (0, some [4, 8])] ∧
    (S6.shapeInstalled.VarRecs 0).GlobalDims =
      ((0, some [4, 8]) :: ([] : List (Nat × Option (List Nat)))).findSome? (fun e => e.2) :=
  ⟨by decide,
    (GlobalDims_rank_zero (fun _ => true) S6.DefineVariable S6.shapeCalls S6.fresh
      S6.shapeInstalled 0 (by decide) (some_getD_of_isSome _ _ (by decide))).2.2
      [(0, some [2, 8])] [] (some [4, 8]) (by decide) (fun e he => by cases he)⟩

/-- Claim C24, counterexample: the block of step 0 carries the `Shape` `{2, 8}`,
the first that is not null, and the block of step 1 of the same writer of rank 0
carries `{4, 8}`; after the first block `GlobalDims` is `{2, 8}`, and after the
second it is `{4, 8}`. -/
theorem GlobalDims_changes :
    ((readerCalls (fun _ => true) S6.DefineVariable (S6.shapeCalls.take 2) S6.fresh).bind
      (fun r => (r.VarRecs 0).GlobalDims)) = some [2, 8] ∧
    (S6.shapeInstalled.VarRecs 0).GlobalDims = some [4, 8] := by
  decide

/-! ### The copy pass fills the buffer of the size pass -/

theorem CopyToBuffer_sized (N : Nat) (s : List Nat × Nat) (src : List Nat)
    (h : s.1.length = max N s.2) :
    (CopyToBuffer s.1 s.2 src).1.length = max N (CopyToBuffer s.1 s.2 src).2 := by
  simp only [CopyToBuffer, List.length_append, List.length_take, List.length_drop, h]
  omega

theorem copyMetaMeta_sized (N : Nat) (s : List Nat × Nat) (n : MetaMetaInfoBlock)
    (h : s.1.length = max N s.2) :
    (copyMetaMeta s n).1.length = max N (copyMetaMeta s n).2 := by
  unfold copyMetaMeta
  exact CopyToBuffer_sized N _ _ (CopyToBuffer_sized N _ _ (CopyToBuffer_sized N _ _
    (CopyToBuffer_sized N _ _ h)))

theorem copyMeta_sized (N : Nat) (s : List Nat × Nat) (m : iovec)
    (h : s.1.length = max N s.2) :
    (copyMeta s m).1.length = max N (copyMeta s m).2 := by
  unfold copyMeta
  dsimp only
  split
  · exact CopyToBuffer_sized N _ _ (CopyToBuffer_sized N _ _ (CopyToBuffer_sized N _ _ h))
  · exact CopyToBuffer_sized N _ _ (CopyToBuffer_sized N _ _ h)

theorem copyAttr_sized (N : Nat) (s : List Nat × Nat) (a : iovec)
    (h : s.1.length = max N s.2) :
    (copyAttr s a).1.length = max N (copyAttr s a).2 := by
  unfold copyAttr
  split
  · dsimp only
    split
    · exact CopyToBuffer_sized N _ _ (CopyToBuffer_sized N _ _ (CopyToBuffer_sized N _ _ h))
    · exact CopyToBuffer_sized N _ _ (CopyToBuffer_sized N _ _ h)
  · exact CopyToBuffer_sized N _ _ h

theorem foldl_sized {α : Type} (N : Nat) (f : List Nat × Nat → α → List Nat × Nat)
    (hf : ∀ s a, s.1.length = max N s.2 → (f s a).1.length = max N (f s a).2) :
    ∀ (l : List α) (s : List Nat × Nat), s.1.length = max N s.2 →
      (l.foldl f s).1.length = max N (l.foldl f s).2
  | [], _, h => h
  | a :: l, s, h => foldl_sized N f hf l (f s a) (hf s a h)

theorem foldl_add_sum {α : Type} (cost : α → Nat) :
    ∀ (l : List α) (r : Nat), l.foldl (fun r a => r + cost a) r = r + (l.map cost).sum
  | [], r => by simp
  | a :: l, r => by
    rw [List.foldl_cons, foldl_add_sum cost l, List.map_cons, List.sum_cons, Nat.add_assoc]

theorem length_flatMap_sum {α : Type} (enc : α → List Nat) (l : List α) :
    (l.flatMap enc).length = (l.map (fun a => (enc a).length)).sum := by
  induction l with
  | nil => rfl
  | cons a l ih => simp [List.flatMap_cons, ih]

theorem map_sum_congr {α : Type} (f g : α → Nat) (l : List α) (h : ∀ a ∈ l, f a = g a) :
    (l.map f).sum = (l.map g).sum := by
  rw [List.map_congr_left h]

theorem encoded_length (X : List MetaMetaInfoBlock) (M A : List iovec) (DS WDP : List Nat)
    (hM : ∀ m ∈ M, (m.iov_base.getD []).length = m.iov_len ∧ m.iov_len + 7 < 2 ^ 64)
    (hA : ∀ a ∈ A, (a.iov_base.getD []).length = a.iov_len ∧ a.iov_len + 7 < 2 ^ 64) :
    (encoded X M A DS WDP).length = RetSize X M A DS WDP := by
  have eX : (X.flatMap encMetaMeta).length =
      (X.map (fun n => 2 * 8 + (n.MetaMetaInfoLen + n.MetaMetaIDLen))).sum := by
    rw [length_flatMap_sum]
    apply map_sum_congr
    intro n _
    simp only [encMetaMeta, List.length_append, u64Bytes_length, MetaMetaInfoBlock.MetaMetaIDLen,
      MetaMetaInfoBlock.MetaMetaInfoLen]
    omega
  have eB : ∀ L : List iovec,
      (∀ m ∈ L, (m.iov_base.getD []).length = m.iov_len ∧ m.iov_len + 7 < 2 ^ 64) →
      (L.flatMap encBlock).length = (L.map (fun m => 8 + AlignedSize m.iov_len)).sum := by
    intro L hL
    rw [length_flatMap_sum]
    apply map_sum_congr
    intro m hm
    obtain ⟨h1, h2⟩ := hL m hm
    rw [encBlock, List.length_append, u64Bytes_length, padded_length _ (by rw [h1]; exact h2), h1]
  have eU : ∀ L : List Nat, (L.flatMap u64Bytes).length = L.length * 8 := by
    intro L
    induction L with
    | nil => rfl
    | cons a L ih => simp [List.flatMap_cons, u64Bytes_length, ih]; ring
  have fX : X.foldl (fun r n => r + 2 * 8 + (n.MetaMetaInfoLen + n.MetaMetaIDLen)) 8 =
      8 + (X.map (fun n => 2 * 8 + (n.MetaMetaInfoLen + n.MetaMetaIDLen))).sum := by
    rw [← foldl_add_sum]
    apply List.foldl_ext
    intro r n _
    omega
  have fB : ∀ (L : List iovec) (r0 : Nat),
      L.foldl (fun r m => r + 8 + AlignedSize m.iov_len) r0 =
        r0 + (L.map (fun m => 8 + AlignedSize m.iov_len)).sum := by
    intro L r0
    rw [← foldl_add_sum]
    apply List.foldl_ext
    intro r n _
    omega
  simp only [encoded, RetSize, List.length_append, u64Bytes_length, eX, eB M hM, eB A hA, eU, fX,
    fB]
  omega

theorem CopyMetadataToContiguous_eq_encoded (X : List MetaMetaInfoBlock) (M A : List iovec)
    (DS WDP : List Nat)
    (hM : ∀ m ∈ M, (m.iov_base.getD []).length = m.iov_len ∧ m.iov_len + 7 < 2 ^ 64)
    (hA : ∀ a ∈ A, (a.iov_base.getD []).length = a.iov_len ∧ a.iov_len + 7 < 2 ^ 64) :
    CopyMetadataToContiguous X M A DS WDP = encoded X M A DS WDP := by
  have hA' : ∀ a ∈ A, (∀ b, a.iov_base = some b → b.length = a.iov_len) ∧
      a.iov_len + 7 < 2 ^ 64 := by
    intro a ha
    refine ⟨fun b hb => ?_, (hA a ha).2⟩
    have := (hA a ha).1
    rwa [hb] at this
  obtain ⟨Z, hZ⟩ := CopyMetadataToContiguous_prefix X M A DS WDP hM hA'
  have hlen : (CopyMetadataToContiguous X M A DS WDP).length = RetSize X M A DS WDP := by
    have z0 : ((List.replicate (RetSize X M A DS WDP) 0, 0) : List Nat × Nat).1.length =
        max (RetSize X M A DS WDP) ((List.replicate (RetSize X M A DS WDP) 0, 0) :
          List Nat × Nat).2 := by simp
    have z1 := CopyToBuffer_sized _ _ (u64Bytes X.length) z0
    have z2 := foldl_sized _ copyMetaMeta (copyMetaMeta_sized _) X _ z1
    have z3 := CopyToBuffer_sized _ _ (u64Bytes M.length) z2
    have z4 := foldl_sized _ copyMeta (copyMeta_sized _) M _ z3
    have z5 := CopyToBuffer_sized _ _ (u64Bytes A.length) z4
    have z6 := foldl_sized _ copyAttr (copyAttr_sized _) A _ z5
    have z7 := CopyToBuffer_sized _ _ (u64Bytes DS.length) z6
    have z8 := CopyToBuffer_sized _ _ ((DS.take DS.length).flatMap u64Bytes) z7
    have z9 := CopyToBuffer_sized _ _ (u64Bytes WDP.length) z8
    have z10 := CopyToBuffer_sized _ _ ((WDP.take WDP.length).flatMap u64Bytes) z9
    have h0 : Written (List.replicate (RetSize X M A DS WDP) 0, 0) [] := ⟨rfl, List.nil_prefix⟩
    have h1 := Written_CopyToBuffer h0 (u64Bytes X.length)
    have h2 := Written_foldl copyMetaMeta encMetaMeta (fun _ => True)
      (fun s W a _ h => Written_copyMetaMeta h a) X _ _ (fun _ _ => trivial) h1
    have h3 := Written_CopyToBuffer h2 (u64Bytes M.length)
    have h4 := Written_foldl copyMeta encBlock
      (fun m => (m.iov_base.getD []).length = m.iov_len ∧ m.iov_len + 7 < 2 ^ 64)
      (fun s W a hP h => Written_copyMeta h a hP.1 hP.2) M _ _ hM h3
    have h5 := Written_CopyToBuffer h4 (u64Bytes A.length)
    have h6 := Written_foldl copyAttr encBlock
      (fun a => (∀ b, a.iov_base = some b → b.length = a.iov_len) ∧ a.iov_len + 7 < 2 ^ 64)
      (fun s W a hP h => Written_copyAttr h a hP.1 hP.2) A _ _ hA' h5
    have h7 := Written_CopyToBuffer h6 (u64Bytes DS.length)
    have h8 := Written_CopyToBuffer h7 ((DS.take DS.length).flatMap u64Bytes)
    have h9 := Written_CopyToBuffer h8 (u64Bytes WDP.length)
    have h10 := Written_CopyToBuffer h9 ((WDP.take WDP.length).flatMap u64Bytes)
    have hp := h10.1
    have e : ([] ++ u64Bytes X.length ++ X.flatMap encMetaMeta ++ u64Bytes M.length ++
        M.flatMap encBlock ++ u64Bytes A.length ++ A.flatMap encBlock ++ u64Bytes DS.length ++
        (DS.take DS.length).flatMap u64Bytes ++ u64Bytes WDP.length ++
        (WDP.take WDP.length).flatMap u64Bytes) = encoded X M A DS WDP := by
      simp [encoded, List.append_assoc]
    rw [e, encoded_length X M A DS WDP hM hA] at hp
    rw [hp, Nat.max_self] at z10
    exact z10
  have hz : Z = [] := by
    have := congrArg List.length hZ
    rw [List.length_append, hlen, encoded_length X M A DS WDP hM hA] at this
    exact List.length_eq_zero.mp (by omega)
  rw [← hZ, hz, List.append_nil]

theorem RankInput.contiguous_eq_stream (r : RankInput) (hfit : r.Fits) (hv : r.Valid) :
    r.contiguous = r.stream := by
  obtain ⟨_, _, _, hM, _, hA, _⟩ := hfit
  refine CopyMetadataToContiguous_eq_encoded _ _ _ _ _ (fun m hm => ?_) (fun a ha => ?_)
  · have e : (m.iov_base.getD []).length = m.iov_len := hv m (List.mem_append_left _ hm)
    exact ⟨e, by rw [← e]; exact hM m hm⟩
  · have e : (a.iov_base.getD []).length = a.iov_len := hv a (List.mem_append_right _ ha)
    exact ⟨e, by rw [← e]; exact hA a ha⟩

theorem encBlock_layout (v : iovec) (ha : v.Addresses) (hl : v.iov_len + 7 < 2 ^ 64) :
    encBlock v = u64Bytes ((v.iov_len + 7) / 8 * 8) ++
      (v.iov_base.getD [] ++ List.replicate ((v.iov_len + 7) / 8 * 8 - v.iov_len) 0) := by
  unfold iovec.Addresses at ha
  rw [encBlock, padded, ha, AlignedSize_eq _ hl]

theorem returned_padded (v : iovec) (ha : v.Addresses) (hl : v.iov_len + 7 < 2 ^ 64) :
    PaddedViewOf v (returned v) := by
  unfold iovec.Addresses at ha
  have hb := AlignedSize_bounds _ hl
  rw [AlignedSize_eq _ hl] at hb
  refine ⟨padded (v.iov_base.getD []), ?_, ?_, ?_, ?_⟩
  · rw [returned, ha, AlignedSize_eq _ hl]
  · rw [padded_length _ (by rw [ha]; exact hl), ha, AlignedSize_eq _ hl]
  · rw [padded, ← ha, List.take_left]
  · rw [padded, ha, AlignedSize_eq _ hl]
    nth_rewrite 1 [← ha]
    rw [List.drop_left]

theorem brokenOut_of (r : RankInput) (c : Nat) (hfit : r.Fits) (hv : r.Valid) :
    ∃ pos, BreakoutContiguousMetadata r.contiguous [c] [] [] [] [] =
      some ⟨pos, r.MetaEncodeBuffers.map returned, r.NewMetaMetaBlocks.foldl addUnique [],
        r.AttributeEncodeBuffers.map returned, r.DataSizes, r.WriterDataPositions⟩ := by
  obtain ⟨pos, e, _⟩ := breakoutRank_of r.contiguous r ⟨0, [], [], [], [], []⟩ [] hfit
    ⟨Nat.zero_le _, by rw [List.append_nil, RankInput.contiguous_eq_stream r hfit hv]; rfl⟩
  refine ⟨pos, ?_⟩
  simp only [BreakoutContiguousMetadata, List.foldl_cons, List.foldl_nil, Option.bind]
  rw [e]
  simp

theorem CopyMetadataToContiguous_eq_state (X : List MetaMetaInfoBlock) (M A : List iovec)
    (DS WDP : List Nat) :
    CopyMetadataToContiguous X M A DS WDP = (CopyMetadataToContiguous.state X M A DS WDP).1 :=
  rfl

theorem CopyMetadataToContiguous_state_written (X : List MetaMetaInfoBlock) (M A : List iovec)
    (DS WDP : List Nat)
    (hM : ∀ m ∈ M, (m.iov_base.getD []).length = m.iov_len ∧ m.iov_len + 7 < 2 ^ 64)
    (hA : ∀ a ∈ A, (∀ b, a.iov_base = some b → b.length = a.iov_len) ∧
      a.iov_len + 7 < 2 ^ 64) :
    (CopyMetadataToContiguous.state X M A DS WDP).2 = (encoded X M A DS WDP).length := by
  have h0 : Written (List.replicate (RetSize X M A DS WDP) 0, 0) [] := ⟨rfl, List.nil_prefix⟩
  have h1 := Written_CopyToBuffer h0 (u64Bytes X.length)
  have h2 := Written_foldl copyMetaMeta encMetaMeta (fun _ => True)
    (fun s W a _ h => Written_copyMetaMeta h a) X _ _ (fun _ _ => trivial) h1
  have h3 := Written_CopyToBuffer h2 (u64Bytes M.length)
  have h4 := Written_foldl copyMeta encBlock
    (fun m => (m.iov_base.getD []).length = m.iov_len ∧ m.iov_len + 7 < 2 ^ 64)
    (fun s W a hP h => Written_copyMeta h a hP.1 hP.2) M _ _ hM h3
  have h5 := Written_CopyToBuffer h4 (u64Bytes A.length)
  have h6 := Written_foldl copyAttr encBlock
    (fun a => (∀ b, a.iov_base = some b → b.length = a.iov_len) ∧ a.iov_len + 7 < 2 ^ 64)
    (fun s W a hP h => Written_copyAttr h a hP.1 hP.2) A _ _ hA h5
  have h7 := Written_CopyToBuffer h6 (u64Bytes DS.length)
  have h8 := Written_CopyToBuffer h7 ((DS.take DS.length).flatMap u64Bytes)
  have h9 := Written_CopyToBuffer h8 (u64Bytes WDP.length)
  have h10 := Written_CopyToBuffer h9 ((WDP.take WDP.length).flatMap u64Bytes)
  have hp := h10.1
  have e : ([] ++ u64Bytes X.length ++ X.flatMap encMetaMeta ++ u64Bytes M.length ++
      M.flatMap encBlock ++ u64Bytes A.length ++ A.flatMap encBlock ++ u64Bytes DS.length ++
      (DS.take DS.length).flatMap u64Bytes ++ u64Bytes WDP.length ++
      (WDP.take WDP.length).flatMap u64Bytes) = encoded X M A DS WDP := by
    simp [encoded, List.append_assoc]
  rw [e] at hp
  exact hp

theorem RankInput.written_eq (r : RankInput) (hfit : r.Fits) (hv : r.Valid) :
    r.written = r.contiguous.length := by
  have hs := RankInput.contiguous_eq_stream r hfit hv
  obtain ⟨_, _, _, hM, _, hA, _⟩ := hfit
  rw [hs]
  refine CopyMetadataToContiguous_state_written _ _ _ _ _ (fun m hm => ?_) (fun a ha => ?_)
  · have e : (m.iov_base.getD []).length = m.iov_len := hv m (List.mem_append_left _ hm)
    exact ⟨e, by rw [← e]; exact hM m hm⟩
  · have e : (a.iov_base.getD []).length = a.iov_len := hv a (List.mem_append_right _ ha)
    refine ⟨fun b hb => ?_, by rw [← e]; exact hA a ha⟩
    rw [hb] at e
    exact e

theorem RankInput.valid_layout (r : RankInput) (c : Nat) (hfit : r.Fits)
    (hv : r.Valid) :
    r.contiguous =
      u64Bytes r.NewMetaMetaBlocks.length ++ r.NewMetaMetaBlocks.flatMap encMetaMeta ++
      u64Bytes r.MetaEncodeBuffers.length ++
      r.MetaEncodeBuffers.flatMap (fun m => u64Bytes ((m.iov_len + 7) / 8 * 8) ++
        (m.iov_base.getD [] ++ List.replicate ((m.iov_len + 7) / 8 * 8 - m.iov_len) 0)) ++
      u64Bytes r.AttributeEncodeBuffers.length ++
      r.AttributeEncodeBuffers.flatMap (fun a => u64Bytes ((a.iov_len + 7) / 8 * 8) ++
        (a.iov_base.getD [] ++ List.replicate ((a.iov_len + 7) / 8 * 8 - a.iov_len) 0)) ++
      u64Bytes r.DataSizes.length ++ r.DataSizes.flatMap u64Bytes ++
      u64Bytes r.WriterDataPositions.length ++ r.WriterDataPositions.flatMap u64Bytes ∧
    (∀ a ∈ r.AttributeEncodeBuffers, a.iov_base = none →
      u64Bytes ((a.iov_len + 7) / 8 * 8) ++
        (a.iov_base.getD [] ++ List.replicate ((a.iov_len + 7) / 8 * 8 - a.iov_len) 0) =
      u64Bytes 0) ∧
    r.contiguous.length = RetSize r.NewMetaMetaBlocks r.MetaEncodeBuffers
      r.AttributeEncodeBuffers r.DataSizes r.WriterDataPositions ∧
    r.written = r.contiguous.length ∧
    ∃ out, BreakoutContiguousMetadata r.contiguous [c] [] [] [] [] = some out ∧
      out.MetadataBlocks.length = r.MetaEncodeBuffers.length ∧
      out.AttributeBlocks.length = r.AttributeEncodeBuffers.length ∧
      (∀ (i : Nat) (v : iovec), r.MetaEncodeBuffers[i]? = some v →
        ∃ o, out.MetadataBlocks[i]? = some o ∧ PaddedViewOf v o) ∧
      (∀ (i : Nat) (v : iovec), r.AttributeEncodeBuffers[i]? = some v →
        ∃ o, out.AttributeBlocks[i]? = some o ∧ PaddedViewOf v o) := by
  have hfit0 := hfit
  obtain ⟨_, _, _, hM, _, hA, _⟩ := hfit
  have hM' : ∀ m ∈ r.MetaEncodeBuffers, m.Addresses ∧ m.iov_len + 7 < 2 ^ 64 := by
    intro m hm
    have e : (m.iov_base.getD []).length = m.iov_len := hv m (List.mem_append_left _ hm)
    exact ⟨e, by rw [← e]; exact hM m hm⟩
  have hA' : ∀ a ∈ r.AttributeEncodeBuffers, a.Addresses ∧ a.iov_len + 7 < 2 ^ 64 := by
    intro a ha
    have e : (a.iov_base.getD []).length = a.iov_len := hv a (List.mem_append_right _ ha)
    exact ⟨e, by rw [← e]; exact hA a ha⟩
  have hs := RankInput.contiguous_eq_stream r hfit0 hv
  refine ⟨?_, ?_, ?_, RankInput.written_eq r hfit0 hv, ?_⟩
  · rw [hs, RankInput.stream, encoded,
      flatMap_congr_mem encBlock _ r.MetaEncodeBuffers
        (fun m hm => encBlock_layout m (hM' m hm).1 (hM' m hm).2),
      flatMap_congr_mem encBlock _ r.AttributeEncodeBuffers
        (fun a ha => encBlock_layout a (hA' a ha).1 (hA' a ha).2)]
    simp only [List.append_assoc]
  · intro a ha hn
    have e : a.iov_len = 0 := by
      have := (hA' a ha).1
      unfold iovec.Addresses at this
      rw [hn] at this
      exact this.symm
    rw [e, hn]
    rfl
  · rw [hs]
    exact encoded_length _ _ _ _ _ hM' hA'
  · obtain ⟨pos, e⟩ := brokenOut_of r c hfit0 hv
    refine ⟨_, e, by simp, by simp, ?_, ?_⟩
    · intro i v hi
      refine ⟨returned v, by simp [List.getElem?_map, hi], ?_⟩
      have hm := List.getElem?_mem hi
      exact returned_padded v (hM' v hm).1 (hM' v hm).2
    · intro i v hi
      refine ⟨returned v, by simp [List.getElem?_map, hi], ?_⟩
      have hm := List.getElem?_mem hi
      exact returned_padded v (hA' v hm).1 (hA' v hm).2

theorem attr_sizes_slack : ∀ A : List iovec,
    (∀ a ∈ A, (∀ b, a.iov_base = some b → b.length = a.iov_len) ∧ a.iov_len + 7 < 2 ^ 64) →
    (A.map (fun a => 8 + AlignedSize a.iov_len)).sum =
      (A.flatMap encBlock).length +
        ((A.filter (fun a => a.iov_base.isNone)).map (fun a => AlignedSize a.iov_len)).sum
  | [], _ => rfl
  | a :: A, h => by
    have ih := attr_sizes_slack A (fun x hx => h x (List.mem_cons_of_mem a hx))
    obtain ⟨h1, h2⟩ := h a (List.mem_cons_self a A)
    rw [List.map_cons, List.sum_cons, ih, List.flatMap_cons, List.length_append]
    cases hb : a.iov_base with
    | none =>
      have e0 : AlignedSize 0 = 0 := by decide
      have e : (encBlock a).length = 8 := by
        simp [encBlock, hb, padded, e0, u64Bytes_length]
      rw [e, List.filter_cons_of_pos (by simp [hb]), List.map_cons, List.sum_cons]
      omega
    | some b =>
      have hl := h1 b hb
      have e : (encBlock a).length = 8 + AlignedSize a.iov_len := by
        rw [encBlock, List.length_append, u64Bytes_length, hb, Option.getD_some,
          padded_length _ (by rw [hl]; exact h2), hl]
      rw [e, List.filter_cons_of_neg (by simp [hb])]
      omega

theorem RetSize_eq_encoded_slack (X : List MetaMetaInfoBlock) (M A : List iovec)
    (DS WDP : List Nat)
    (hM : ∀ m ∈ M, (m.iov_base.getD []).length = m.iov_len ∧ m.iov_len + 7 < 2 ^ 64)
    (hA : ∀ a ∈ A, (∀ b, a.iov_base = some b → b.length = a.iov_len) ∧
      a.iov_len + 7 < 2 ^ 64) :
    RetSize X M A DS WDP = (encoded X M A DS WDP).length +
      ((A.filter (fun a => a.iov_base.isNone)).map (fun a => AlignedSize a.iov_len)).sum := by
  have eX : (X.flatMap encMetaMeta).length =
      (X.map (fun n => 2 * 8 + (n.MetaMetaInfoLen + n.MetaMetaIDLen))).sum := by
    rw [length_flatMap_sum]
    apply map_sum_congr
    intro n _
    simp only [encMetaMeta, List.length_append, u64Bytes_length, MetaMetaInfoBlock.MetaMetaIDLen,
      MetaMetaInfoBlock.MetaMetaInfoLen]
    omega
  have eB : (M.flatMap encBlock).length = (M.map (fun m => 8 + AlignedSize m.iov_len)).sum := by
    rw [length_flatMap_sum]
    apply map_sum_congr
    intro m hm
    obtain ⟨h1, h2⟩ := hM m hm
    rw [encBlock, List.length_append, u64Bytes_length, padded_length _ (by rw [h1]; exact h2), h1]
  have eU : ∀ L : List Nat, (L.flatMap u64Bytes).length = L.length * 8 := by
    intro L
    induction L with
    | nil => rfl
    | cons a L ih => simp [List.flatMap_cons, u64Bytes_length, ih]; ring
  have fX : X.foldl (fun r n => r + 2 * 8 + (n.MetaMetaInfoLen + n.MetaMetaIDLen)) 8 =
      8 + (X.map (fun n => 2 * 8 + (n.MetaMetaInfoLen + n.MetaMetaIDLen))).sum := by
    rw [← foldl_add_sum]
    apply List.foldl_ext
    intro r n _
    omega
  have fB : ∀ (L : List iovec) (r0 : Nat),
      L.foldl (fun r m => r + 8 + AlignedSize m.iov_len) r0 =
        r0 + (L.map (fun m => 8 + AlignedSize m.iov_len)).sum := by
    intro L r0
    rw [← foldl_add_sum]
    apply List.foldl_ext
    intro r n _
    omega
  have eA := attr_sizes_slack A hA
  simp only [encoded, RetSize, List.length_append, u64Bytes_length, eX, eB, eU, fX, fB, eA]
  omega

theorem CopyMetadataToContiguous_length_max (X : List MetaMetaInfoBlock) (M A : List iovec)
    (DS WDP : List Nat) :
    (CopyMetadataToContiguous X M A DS WDP).length =
      max (RetSize X M A DS WDP) (CopyMetadataToContiguous.state X M A DS WDP).2 := by
  have z0 : ((List.replicate (RetSize X M A DS WDP) 0, 0) : List Nat × Nat).1.length =
      max (RetSize X M A DS WDP) ((List.replicate (RetSize X M A DS WDP) 0, 0) :
        List Nat × Nat).2 := by simp
  have z1 := CopyToBuffer_sized _ _ (u64Bytes X.length) z0
  have z2 := foldl_sized _ copyMetaMeta (copyMetaMeta_sized _) X _ z1
  have z3 := CopyToBuffer_sized _ _ (u64Bytes M.length) z2
  have z4 := foldl_sized _ copyMeta (copyMeta_sized _) M _ z3
  have z5 := CopyToBuffer_sized _ _ (u64Bytes A.length) z4
  have z6 := foldl_sized _ copyAttr (copyAttr_sized _) A _ z5
  have z7 := CopyToBuffer_sized _ _ (u64Bytes DS.length) z6
  have z8 := CopyToBuffer_sized _ _ ((DS.take DS.length).flatMap u64Bytes) z7
  have z9 := CopyToBuffer_sized _ _ (u64Bytes WDP.length) z8
  exact CopyToBuffer_sized _ _ ((WDP.take WDP.length).flatMap u64Bytes) z9

theorem RankInput.written_slack (r : RankInput) (hfit : r.Fits) (hd : r.Defined) :
    r.written = r.stream.length ∧ r.stream <+: r.contiguous ∧
    r.contiguous.length = RetSize r.NewMetaMetaBlocks r.MetaEncodeBuffers
      r.AttributeEncodeBuffers r.DataSizes r.WriterDataPositions ∧
    r.contiguous.length = r.written + r.slack ∧
    (r.written = r.contiguous.length ↔
      ∀ a ∈ r.AttributeEncodeBuffers, a.iov_base = none → a.iov_len = 0) := by
  obtain ⟨_, _, _, hM, _, _, _⟩ := hfit
  have hM' : ∀ m ∈ r.MetaEncodeBuffers,
      (m.iov_base.getD []).length = m.iov_len ∧ m.iov_len + 7 < 2 ^ 64 := by
    intro m hm
    have e : (m.iov_base.getD []).length = m.iov_len := hd.1 m hm
    exact ⟨e, by rw [← e]; exact hM m hm⟩
  have hA' : ∀ a ∈ r.AttributeEncodeBuffers,
      (∀ b, a.iov_base = some b → b.length = a.iov_len) ∧ a.iov_len + 7 < 2 ^ 64 := by
    intro a ha
    refine ⟨fun b hb => ?_, (hd.2 a ha).2⟩
    have e : (a.iov_base.getD []).length = a.iov_len := (hd.2 a ha).1 (by rw [hb]; simp)
    rw [hb] at e
    exact e
  have hw : r.written = r.stream.length :=
    CopyMetadataToContiguous_state_written _ _ _ _ _ hM' hA'
  have hp : r.stream <+: r.contiguous := CopyMetadataToContiguous_prefix _ _ _ _ _ hM' hA'
  have hR := RetSize_eq_encoded_slack r.NewMetaMetaBlocks r.MetaEncodeBuffers
    r.AttributeEncodeBuffers r.DataSizes r.WriterDataPositions hM' hA'
  have hmax := CopyMetadataToContiguous_length_max r.NewMetaMetaBlocks r.MetaEncodeBuffers
    r.AttributeEncodeBuffers r.DataSizes r.WriterDataPositions
  have hlen : r.contiguous.length = RetSize r.NewMetaMetaBlocks r.MetaEncodeBuffers
      r.AttributeEncodeBuffers r.DataSizes r.WriterDataPositions := by
    have hw' : (CopyMetadataToContiguous.state r.NewMetaMetaBlocks r.MetaEncodeBuffers
        r.AttributeEncodeBuffers r.DataSizes r.WriterDataPositions).2 =
        (encoded r.NewMetaMetaBlocks r.MetaEncodeBuffers r.AttributeEncodeBuffers r.DataSizes
          r.WriterDataPositions).length := hw
    unfold RankInput.contiguous
    rw [hmax, hw', hR]
    omega
  have hsl : r.contiguous.length = r.written + r.slack := by
    rw [hlen, hR, hw]
    rfl
  refine ⟨hw, hp, hlen, hsl, ?_⟩
  have hz : r.slack = 0 ↔ ∀ a ∈ r.AttributeEncodeBuffers, a.iov_base = none → a.iov_len = 0 := by
    unfold RankInput.slack
    rw [List.sum_eq_zero_iff]
    constructor
    · intro h a ha hn
      have := h (AlignedSize a.iov_len) (List.mem_map.mpr ⟨a, List.mem_filter.mpr
        ⟨ha, by simp [hn]⟩, rfl⟩)
      have hb := AlignedSize_bounds a.iov_len (hd.2 a ha).2
      omega
    · intro h x hx
      obtain ⟨a, ha, rfl⟩ := List.mem_map.mp hx
      obtain ⟨ha1, ha2⟩ := List.mem_filter.mp ha
      have hn : a.iov_base = none := by simpa using ha2
      rw [h a ha1 hn]
      decide
  rw [← hz]
  omega

theorem RankInput.defined_layout (r : RankInput) (c : Nat) (hfit : r.Fits) (hd : r.Defined) :
    r.contiguous.take r.written =
      u64Bytes r.NewMetaMetaBlocks.length ++ r.NewMetaMetaBlocks.flatMap encMetaMeta ++
      u64Bytes r.MetaEncodeBuffers.length ++
      r.MetaEncodeBuffers.flatMap (fun m => u64Bytes ((m.iov_len + 7) / 8 * 8) ++
        (m.iov_base.getD [] ++ List.replicate ((m.iov_len + 7) / 8 * 8 - m.iov_len) 0)) ++
      u64Bytes r.AttributeEncodeBuffers.length ++
      r.AttributeEncodeBuffers.flatMap (fun a =>
        match a.iov_base with
        | some base => u64Bytes ((a.iov_len + 7) / 8 * 8) ++
            (base ++ List.replicate ((a.iov_len + 7) / 8 * 8 - a.iov_len) 0)
        | none => u64Bytes 0) ++
      u64Bytes r.DataSizes.length ++ r.DataSizes.flatMap u64Bytes ++
      u64Bytes r.WriterDataPositions.length ++ r.WriterDataPositions.flatMap u64Bytes ∧
    r.contiguous.length = RetSize r.NewMetaMetaBlocks r.MetaEncodeBuffers
      r.AttributeEncodeBuffers r.DataSizes r.WriterDataPositions ∧
    r.contiguous.length = r.written + r.slack ∧
    (r.written = r.contiguous.length ↔
      ∀ a ∈ r.AttributeEncodeBuffers, a.iov_base = none → a.iov_len = 0) ∧
    ∃ out, BreakoutContiguousMetadata r.contiguous [c] [] [] [] [] = some out ∧
      out.MetadataBlocks.length = r.MetaEncodeBuffers.length ∧
      out.AttributeBlocks.length = r.AttributeEncodeBuffers.length ∧
      (∀ (i : Nat) (v : iovec), r.MetaEncodeBuffers[i]? = some v →
        ∃ o, out.MetadataBlocks[i]? = some o ∧ PaddedViewOf v o) ∧
      (∀ (i : Nat) (v : iovec), r.AttributeEncodeBuffers[i]? = some v →
        ∃ o, out.AttributeBlocks[i]? = some o ∧ (v.iov_base ≠ none → PaddedViewOf v o) ∧
          (v.iov_base = none → o = ⟨some [], 0⟩)) := by
  obtain ⟨hw, hp, hlen, hsl, hiff⟩ := RankInput.written_slack r hfit hd
  have hfit0 := hfit
  obtain ⟨_, _, _, hM, _, hA, _⟩ := hfit
  have hM' : ∀ m ∈ r.MetaEncodeBuffers, m.Addresses ∧ m.iov_len + 7 < 2 ^ 64 := by
    intro m hm
    have e : (m.iov_base.getD []).length = m.iov_len := hd.1 m hm
    exact ⟨e, by rw [← e]; exact hM m hm⟩
  refine ⟨?_, hlen, hsl, hiff, ?_⟩
  · obtain ⟨Z, hZ⟩ := hp
    rw [← hZ, hw, List.take_left, RankInput.stream, encoded,
      flatMap_congr_mem encBlock _ r.MetaEncodeBuffers
        (fun m hm => encBlock_layout m (hM' m hm).1 (hM' m hm).2),
      flatMap_congr_mem encBlock (fun a =>
        match a.iov_base with
        | some base => u64Bytes ((a.iov_len + 7) / 8 * 8) ++
            (base ++ List.replicate ((a.iov_len + 7) / 8 * 8 - a.iov_len) 0)
        | none => u64Bytes 0) r.AttributeEncodeBuffers (fun a ha => by
          cases hb : a.iov_base with
          | none =>
            have e0 : AlignedSize 0 = 0 := by decide
            simp [encBlock, hb, padded, e0]
          | some base =>
            have hadd : a.Addresses := (hd.2 a ha).1 (by rw [hb]; simp)
            rw [encBlock_layout a hadd (hd.2 a ha).2]
            simp only [hb, Option.getD_some])]
    simp only [List.append_assoc]
  · obtain ⟨Z, hZ⟩ := hp
    obtain ⟨pos, e, _⟩ := breakoutRank_of r.contiguous r ⟨0, [], [], [], [], []⟩ Z hfit0
      ⟨Nat.zero_le _, by rw [hZ]; rfl⟩
    have e2 : BreakoutContiguousMetadata r.contiguous [c] [] [] [] [] =
        some ⟨pos, r.MetaEncodeBuffers.map returned, r.NewMetaMetaBlocks.foldl addUnique [],
          r.AttributeEncodeBuffers.map returned, r.DataSizes, r.WriterDataPositions⟩ := by
      simp only [BreakoutContiguousMetadata, List.foldl_cons, List.foldl_nil, Option.bind]
      rw [e]
      simp
    refine ⟨_, e2, by simp, by simp, ?_, ?_⟩
    · intro i v hi
      refine ⟨returned v, by simp [List.getElem?_map, hi], ?_⟩
      have hm := List.getElem?_mem hi
      exact returned_padded v (hM' v hm).1 (hM' v hm).2
    · intro i v hi
      refine ⟨returned v, by simp [List.getElem?_map, hi], ?_, ?_⟩
      · intro hn
        have hm := List.getElem?_mem hi
        exact returned_padded v ((hd.2 v hm).1 hn) (hd.2 v hm).2
      · intro hn
        have e0 : AlignedSize 0 = 0 := by decide
        simp [returned, hn, padded, e0]

set_option maxRecDepth 100000 in
/-- Claim C35, proved for the calls in which every attribute blob with a null
base has the length 0 and evaluated at an attribute blob with a null base and
the length 8. For every call of `CopyMetadataToContiguous` whose counts and
lengths are `size_t` values and whose blobs with a non-null base address
`iov_len` bytes, the bytes written are the counts and the blocks in the order
of the copy pass: each metadata blob and each attribute blob with a non-null
base is laid down as the eight-byte length prefix `iov_len` rounded up to a
multiple of eight, the bytes of the blob and the zero bytes up to the rounded
length, and an attribute blob with a null base is the prefix 0 alone; the view
that `BreakoutContiguousMetadata` returns for a blob with a non-null base has
the rounded length, begins with the bytes of the blob and is zero behind them.
The returned vector has `RetSize` bytes, which are the bytes written and the
rounded lengths of the attribute blobs with a null base, so the bytes written
fill it exactly when every such blob has the length 0; then the vector is the
bytes written. For the attribute blob with a null base and the length 8 the
size pass counts `8 + AlignedSize(8)` bytes and the copy pass writes the prefix
0 alone: the vector has 72 bytes and the copy pass ends at `Position = 64`. -/
theorem CopyMetadataToContiguous_null_blob_slack :
    (∀ (r : RankInput) (c : Nat), r.Fits → r.Defined →
      r.contiguous.take r.written =
        u64Bytes r.NewMetaMetaBlocks.length ++ r.NewMetaMetaBlocks.flatMap encMetaMeta ++
        u64Bytes r.MetaEncodeBuffers.length ++
        r.MetaEncodeBuffers.flatMap (fun m => u64Bytes ((m.iov_len + 7) / 8 * 8) ++
          (m.iov_base.getD [] ++ List.replicate ((m.iov_len + 7) / 8 * 8 - m.iov_len) 0)) ++
        u64Bytes r.AttributeEncodeBuffers.length ++
        r.AttributeEncodeBuffers.flatMap (fun a =>
          match a.iov_base with
          | some base => u64Bytes ((a.iov_len + 7) / 8 * 8) ++
              (base ++ List.replicate ((a.iov_len + 7) / 8 * 8 - a.iov_len) 0)
          | none => u64Bytes 0) ++
        u64Bytes r.DataSizes.length ++ r.DataSizes.flatMap u64Bytes ++
        u64Bytes r.WriterDataPositions.length ++ r.WriterDataPositions.flatMap u64Bytes ∧
      r.contiguous.length = RetSize r.NewMetaMetaBlocks r.MetaEncodeBuffers
        r.AttributeEncodeBuffers r.DataSizes r.WriterDataPositions ∧
      r.contiguous.length = r.written + r.slack ∧
      (r.written = r.contiguous.length ↔
        ∀ a ∈ r.AttributeEncodeBuffers, a.iov_base = none → a.iov_len = 0) ∧
      ∃ out, BreakoutContiguousMetadata r.contiguous [c] [] [] [] [] = some out ∧
        out.MetadataBlocks.length = r.MetaEncodeBuffers.length ∧
        out.AttributeBlocks.length = r.AttributeEncodeBuffers.length ∧
        (∀ (i : Nat) (v : iovec), r.MetaEncodeBuffers[i]? = some v →
          ∃ o, out.MetadataBlocks[i]? = some o ∧ PaddedViewOf v o) ∧
        (∀ (i : Nat) (v : iovec), r.AttributeEncodeBuffers[i]? = some v →
          ∃ o, out.AttributeBlocks[i]? = some o ∧ (v.iov_base ≠ none → PaddedViewOf v o) ∧
            (v.iov_base = none → o = ⟨some [], 0⟩))) ∧
    (∀ (r : RankInput) (c : Nat), r.Fits → r.Valid →
      r.contiguous =
        u64Bytes r.NewMetaMetaBlocks.length ++ r.NewMetaMetaBlocks.flatMap encMetaMeta ++
        u64Bytes r.MetaEncodeBuffers.length ++
        r.MetaEncodeBuffers.flatMap (fun m => u64Bytes ((m.iov_len + 7) / 8 * 8) ++
          (m.iov_base.getD [] ++ List.replicate ((m.iov_len + 7) / 8 * 8 - m.iov_len) 0)) ++
        u64Bytes r.AttributeEncodeBuffers.length ++
        r.AttributeEncodeBuffers.flatMap (fun a => u64Bytes ((a.iov_len + 7) / 8 * 8) ++
          (a.iov_base.getD [] ++ List.replicate ((a.iov_len + 7) / 8 * 8 - a.iov_len) 0)) ++
        u64Bytes r.DataSizes.length ++ r.DataSizes.flatMap u64Bytes ++
        u64Bytes r.WriterDataPositions.length ++ r.WriterDataPositions.flatMap u64Bytes ∧
      (∀ a ∈ r.AttributeEncodeBuffers, a.iov_base = none →
        u64Bytes ((a.iov_len + 7) / 8 * 8) ++
          (a.iov_base.getD [] ++ List.replicate ((a.iov_len + 7) / 8 * 8 - a.iov_len) 0) =
        u64Bytes 0) ∧
      r.contiguous.length = RetSize r.NewMetaMetaBlocks r.MetaEncodeBuffers
        r.AttributeEncodeBuffers r.DataSizes r.WriterDataPositions ∧
      r.written = r.contiguous.length ∧
      ∃ out, BreakoutContiguousMetadata r.contiguous [c] [] [] [] [] = some out ∧
        out.MetadataBlocks.length = r.MetaEncodeBuffers.length ∧
        out.AttributeBlocks.length = r.AttributeEncodeBuffers.length ∧
        (∀ (i : Nat) (v : iovec), r.MetaEncodeBuffers[i]? = some v →
          ∃ o, out.MetadataBlocks[i]? = some o ∧ PaddedViewOf v o) ∧
        (∀ (i : Nat) (v : iovec), r.AttributeEncodeBuffers[i]? = some v →
          ∃ o, out.AttributeBlocks[i]? = some o ∧ PaddedViewOf v o)) ∧
    Agg.rank3.Fits ∧ Agg.rank3.Defined ∧ ¬ Agg.rank3.Valid ∧
    RetSize Agg.rank3.NewMetaMetaBlocks Agg.rank3.MetaEncodeBuffers
      Agg.rank3.AttributeEncodeBuffers Agg.rank3.DataSizes Agg.rank3.WriterDataPositions = 72 ∧
    Agg.rank3.contiguous.length = 72 ∧
    Agg.rank3.written = 64 ∧
    Agg.rank3.contiguous.drop 64 = List.replicate 8 0 ∧
    Agg.rank3.contiguous.take 64 = Agg.rank3.stream ∧
    Agg.rank2.Fits ∧ Agg.rank2.Valid ∧ Agg.rank2.written = 122 ∧
    Agg.rank2.contiguous.length = 122 := by
  refine ⟨fun r c hfit hd => RankInput.defined_layout r c hfit hd,
    fun r c hfit hv => RankInput.valid_layout r c hfit hv, ?_⟩
  decide

theorem breakout_rank_order (ranks : List RankInput) (Counts : List Nat)
    (hl : Counts.length = ranks.length) (hfit : ∀ r ∈ ranks, r.Fits)
    (hv : ∀ r ∈ ranks, r.Valid) :
    ∃ out, BreakoutContiguousMetadata (ranks.flatMap RankInput.contiguous) Counts [] [] [] [] =
        some out ∧
      (∀ r ∈ ranks, ∃ p, r.brokenOut = some p ∧
        p.MetadataBlocks = r.MetaEncodeBuffers.map returned ∧
        p.AttributeBlocks = r.AttributeEncodeBuffers.map returned ∧
        p.DataSizes = r.DataSizes ∧ p.WriterDataPositions = r.WriterDataPositions) ∧
      out.MetadataBlocks =
        ranks.flatMap (fun r => (r.brokenOut.map BreakoutState.MetadataBlocks).getD []) ∧
      out.AttributeBlocks =
        ranks.flatMap (fun r => (r.brokenOut.map BreakoutState.AttributeBlocks).getD []) ∧
      out.DataSizes =
        ranks.flatMap (fun r => (r.brokenOut.map BreakoutState.DataSizes).getD []) ∧
      out.WriterDataPositions =
        ranks.flatMap (fun r => (r.brokenOut.map BreakoutState.WriterDataPositions).getD []) ∧
      out.DataSizes = ranks.flatMap (fun r => r.DataSizes) ∧
      out.WriterDataPositions = ranks.flatMap (fun r => r.WriterDataPositions) := by
  have hs : ranks.flatMap RankInput.contiguous = ranks.flatMap RankInput.stream :=
    flatMap_congr_mem _ _ ranks (fun r hr => RankInput.contiguous_eq_stream r (hfit r hr) (hv r hr))
  obtain ⟨pos, e, _⟩ := breakoutRanks_of (ranks.flatMap RankInput.contiguous) ranks Counts
    ⟨0, [], [], [], [], []⟩ [] hl hfit ⟨Nat.zero_le _, by rw [hs, List.append_nil]; rfl⟩
  have per : ∀ r ∈ ranks, ∃ p, r.brokenOut = some p ∧
      p.MetadataBlocks = r.MetaEncodeBuffers.map returned ∧
      p.AttributeBlocks = r.AttributeEncodeBuffers.map returned ∧
      p.DataSizes = r.DataSizes ∧ p.WriterDataPositions = r.WriterDataPositions := by
    intro r hr
    obtain ⟨q, eq⟩ := brokenOut_of r 0 (hfit r hr) (hv r hr)
    exact ⟨_, eq, rfl, rfl, rfl, rfl⟩
  refine ⟨_, e, per, ?_, ?_, ?_, ?_, by simp, by simp⟩
  · simp only [List.nil_append]
    apply flatMap_congr_mem
    intro r hr
    obtain ⟨p, e1, e2, _⟩ := per r hr
    rw [e1, Option.map_some', Option.getD_some, e2]
  · simp only [List.nil_append]
    apply flatMap_congr_mem
    intro r hr
    obtain ⟨p, e1, _, e2, _⟩ := per r hr
    rw [e1, Option.map_some', Option.getD_some, e2]
  · simp only [List.nil_append]
    apply flatMap_congr_mem
    intro r hr
    obtain ⟨p, e1, _, _, e2, _⟩ := per r hr
    rw [e1, Option.map_some', Option.getD_some, e2]
  · simp only [List.nil_append]
    apply flatMap_congr_mem
    intro r hr
    obtain ⟨p, e1, _, _, _, e2⟩ := per r hr
    rw [e1, Option.map_some', Option.getD_some, e2]

set_option maxRecDepth 100000 in
/-- Claim C31, proved for the ranks in which every attribute blob with a null
base has the length 0 and evaluated at a rank with an attribute blob with a
null base and the length 8. For ranks whose counts and lengths are `size_t`
values and whose blobs address `iov_len` bytes, `BreakoutContiguousMetadata` on
the vectors that `CopyMetadataToContiguous` returns for the ranks, one after
the other, with one count per rank and empty output lists, returns; each
rank's vector alone is broken out into that rank's padded metadata blobs,
padded attribute blobs, data sizes and writer data positions in their order,
and the four output lists of the whole aggregate are the lists of rank 0, then
those of rank 1, and so on. The vector of the rank with the null blob of
length 8 ends in eight bytes that the copy pass has not written, so in the
aggregate the next rank does not start where `BreakoutContiguousMetadata` goes
on reading: each of the two vectors alone is broken out, with the data sizes
`[5]` and `[7]`, and on their concatenation the call reads outside the buffer.
The aggregate of three ranks, the second with a null blob of length 0 and a
nine-byte attribute blob, is broken out in rank order. -/
theorem BreakoutContiguousMetadata_null_blob_shift :
    (∀ (ranks : List RankInput) (Counts : List Nat), Counts.length = ranks.length →
      (∀ r ∈ ranks, r.Fits) → (∀ r ∈ ranks, r.Valid) →
      ∃ out, BreakoutContiguousMetadata (ranks.flatMap RankInput.contiguous) Counts [] [] [] [] =
          some out ∧
        (∀ r ∈ ranks, ∃ p, r.brokenOut = some p ∧
          p.MetadataBlocks = r.MetaEncodeBuffers.map returned ∧
          p.AttributeBlocks = r.AttributeEncodeBuffers.map returned ∧
          p.DataSizes = r.DataSizes ∧ p.WriterDataPositions = r.WriterDataPositions) ∧
        out.MetadataBlocks =
          ranks.flatMap (fun r => (r.brokenOut.map BreakoutState.MetadataBlocks).getD []) ∧
        out.AttributeBlocks =
          ranks.flatMap (fun r => (r.brokenOut.map BreakoutState.AttributeBlocks).getD []) ∧
        out.DataSizes =
          ranks.flatMap (fun r => (r.brokenOut.map BreakoutState.DataSizes).getD []) ∧
        out.WriterDataPositions =
          ranks.flatMap (fun r => (r.brokenOut.map BreakoutState.WriterDataPositions).getD []) ∧
        out.DataSizes = ranks.flatMap (fun r => r.DataSizes) ∧
        out.WriterDataPositions = ranks.flatMap (fun r => r.WriterDataPositions)) ∧
    Agg.rank3.Fits ∧ Agg.rank3.Defined ∧ Agg.rank1.Fits ∧ Agg.rank1.Valid ∧
    Agg.rank3.brokenOut.map BreakoutState.DataSizes = some [5] ∧
    Agg.rank1.brokenOut.map BreakoutState.DataSizes = some [7] ∧
    BreakoutContiguousMetadata ([Agg.rank3, Agg.rank1].flatMap RankInput.contiguous) [0, 0]
      [] [] [] [] = none ∧
    (BreakoutContiguousMetadata ([Agg.rank1, Agg.rank3].flatMap RankInput.contiguous) [0, 0]
      [] [] [] []).map BreakoutState.DataSizes = some [7, 5] ∧
    (∀ r ∈ [Agg.rank0, Agg.rank2, Agg.rank1], r.Fits ∧ r.Valid) ∧
    (BreakoutContiguousMetadata ([Agg.rank0, Agg.rank2, Agg.rank1].flatMap RankInput.contiguous)
      [0, 0, 0] [] [] [] []).map
        (fun out => (out.DataSizes, out.WriterDataPositions, out.MetadataBlocks,
          out.AttributeBlocks)) =
      some ([5, 300, 7], [0, 12, 5],
        [⟨some [1, 2, 3, 4, 5, 6, 7, 8], 8⟩, ⟨some [1, 2, 3, 0, 0, 0, 0, 0], 8⟩],
        [⟨some [], 0⟩, ⟨some [7, 7, 7, 7, 7, 7, 7, 7, 7, 0, 0, 0, 0, 0, 0, 0], 16⟩]) := by
  refine ⟨fun ranks Counts hl hfit hv => breakout_rank_order ranks Counts hl hfit hv, ?_⟩
  decide

/-! ### `IntersectionStartCount` in `size_t` arithmetic -/

theorem any_congr_mem {α : Type} (f g : α → Bool) (l : List α) (h : ∀ a ∈ l, f a = g a) :
    l.any f = l.any g := by
  induction l with
  | nil => rfl
  | cons a l ih =>
    rw [List.any_cons, List.any_cons, h a (List.mem_cons_self a l),
      ih (fun x hx => h x (List.mem_cons_of_mem a hx))]

theorem IntersectionStartCount64_eq (n : Nat) (s1 c1 s2 c2 : List Nat)
    (h1 : ∀ d, d < n → s1.getD d 0 + c1.getD d 0 < 2 ^ 64)
    (h2 : ∀ d, d < n → s2.getD d 0 + c2.getD d 0 < 2 ^ 64) :
    IntersectionStartCount64 n s1 c1 s2 c2 = IntersectionStartCount n s1 c1 s2 c2 := by
  have hend : ∀ s c : Nat, s + c < 2 ^ 64 → c ≠ 0 → (s + c + (2 ^ 64 - 1)) % 2 ^ 64 = s + c - 1 := by
    intro s c h hc
    omega
  have hpred : ∀ d ∈ List.range n,
      (let end1 := (s1.getD d 0 + c1.getD d 0 + (2 ^ 64 - 1)) % 2 ^ 64
       let end2 := (s2.getD d 0 + c2.getD d 0 + (2 ^ 64 - 1)) % 2 ^ 64
       (c1.getD d 0 == 0 || c2.getD d 0 == 0) ||
        (decide (s2.getD d 0 > end1) || decide (end2 < s1.getD d 0))) =
      (let end1 := s1.getD d 0 + c1.getD d 0 - 1
       let end2 := s2.getD d 0 + c2.getD d 0 - 1
       (c1.getD d 0 == 0 || c2.getD d 0 == 0) ||
        (decide (s2.getD d 0 > end1) || decide (end2 < s1.getD d 0))) := by
    intro d hd
    have hd' := List.mem_range.mp hd
    have b1 := h1 d hd'
    have b2 := h2 d hd'
    dsimp only
    generalize s1.getD d 0 = x1 at b1 ⊢
    generalize c1.getD d 0 = y1 at b1 ⊢
    generalize s2.getD d 0 = x2 at b2 ⊢
    generalize c2.getD d 0 = y2 at b2 ⊢
    by_cases z1 : y1 = 0
    · subst z1
      simp only [beq_self_eq_true, Bool.true_or]
    · by_cases z2 : y2 = 0
      · subst z2
        simp only [beq_self_eq_true, Bool.or_true, Bool.true_or]
      · rw [hend _ _ b1 z1, hend _ _ b2 z2]
  unfold IntersectionStartCount64 IntersectionStartCount
  rw [any_congr_mem _ _ _ hpred]
  by_cases hany : (List.range n).any (fun d =>
      let end1 := s1.getD d 0 + c1.getD d 0 - 1
      let end2 := s2.getD d 0 + c2.getD d 0 - 1
      (c1.getD d 0 == 0 || c2.getD d 0 == 0) ||
        (decide (s2.getD d 0 > end1) || decide (end2 < s1.getD d 0))) = true
  · rw [if_pos hany, if_pos hany]
  · rw [if_neg hany, if_neg hany]
    have hgood : ∀ d ∈ List.range n, (c1.getD d 0 ≠ 0 ∧ c2.getD d 0 ≠ 0) ∧
        s2.getD d 0 ≤ s1.getD d 0 + c1.getD d 0 - 1 ∧
        s1.getD d 0 ≤ s2.getD d 0 + c2.getD d 0 - 1 := by
      intro d hd
      have := (List.any_eq_false.mp ((Bool.not_eq_true _).mp hany)) d hd
      simp only [Bool.or_eq_true, beq_iff_eq, decide_eq_true_eq, not_or] at this
      omega
    have hmap : (List.range n).map (fun d =>
        let intersectionStart :=
          if s1.getD d 0 < s2.getD d 0 then s2.getD d 0 else s1.getD d 0
        let end1 := (s1.getD d 0 + c1.getD d 0 + (2 ^ 64 - 1)) % 2 ^ 64
        let end2 := (s2.getD d 0 + c2.getD d 0 + (2 ^ 64 - 1)) % 2 ^ 64
        let intersectionEnd := if end1 > end2 then end2 else end1
        (intersectionStart, (intersectionEnd + (2 ^ 64 - intersectionStart) + 1) % 2 ^ 64)) =
      (List.range n).map (fun d =>
        let intersectionStart :=
          if s1.getD d 0 < s2.getD d 0 then s2.getD d 0 else s1.getD d 0
        let end1 := s1.getD d 0 + c1.getD d 0 - 1
        let end2 := s2.getD d 0 + c2.getD d 0 - 1
        let intersectionEnd := if end1 > end2 then end2 else end1
        (intersectionStart, intersectionEnd - intersectionStart + 1)) := by
      apply List.map_congr_left
      intro d hd
      have hd' := List.mem_range.mp hd
      obtain ⟨⟨z1, z2⟩, o1, o2⟩ := hgood d hd
      have b1 := h1 d hd'
      have b2 := h2 d hd'
      dsimp only
      rw [hend _ _ b1 z1, hend _ _ b2 z2]
      congr 1
      split <;> split <;> omega
    dsimp only
    rw [hmap]

theorem boxesIntersect_iff_overlap (n : Nat) (s1 c1 s2 c2 : List Nat) :
    BoxesIntersect n s1 c1 s2 c2 ↔
      ∀ d, d < n → c1.getD d 0 ≠ 0 ∧ c2.getD d 0 ≠ 0 ∧
        ∃ x, (s1.getD d 0 ≤ x ∧ x < s1.getD d 0 + c1.getD d 0) ∧
          (s2.getD d 0 ≤ x ∧ x < s2.getD d 0 + c2.getD d 0) := by
  rw [boxesIntersect_iff]
  constructor
  · intro h d hd
    have := h d hd
    exact ⟨by omega, by omega, max (s1.getD d 0) (s2.getD d 0), by omega, by omega⟩
  · intro h d hd
    obtain ⟨a, b, x, hx1, hx2⟩ := h d hd
    omega

/-- Claim C33: where no `start + count` overflows `size_t`,
`IntersectionStartCount` returns true exactly when in every dimension both
counts are non-zero and the two intervals `[start, start + count)` have a point
in common; when it returns true, `outstart` and `outcount` have one entry per
dimension, `outstart` is the larger of the two starts, `outstart + outcount` is
the smaller of the two ends, and the points of the output box are the points
that lie in both input boxes. -/
theorem IntersectionStartCount_intersection (dimensionsSize : Nat)
    (start1 count1 start2 count2 : List Nat)
    (h1 : ∀ d, d < dimensionsSize → start1.getD d 0 + count1.getD d 0 < 2 ^ 64)
    (h2 : ∀ d, d < dimensionsSize → start2.getD d 0 + count2.getD d 0 < 2 ^ 64) :
    ((IntersectionStartCount64 dimensionsSize start1 count1 start2 count2).isSome = true ↔
      ∀ d, d < dimensionsSize → count1.getD d 0 ≠ 0 ∧ count2.getD d 0 ≠ 0 ∧
        ∃ x, (start1.getD d 0 ≤ x ∧ x < start1.getD d 0 + count1.getD d 0) ∧
          (start2.getD d 0 ≤ x ∧ x < start2.getD d 0 + count2.getD d 0)) ∧
    ∀ outstart outcount,
      IntersectionStartCount64 dimensionsSize start1 count1 start2 count2 =
        some (outstart, outcount) →
      outstart.length = dimensionsSize ∧ outcount.length = dimensionsSize ∧
      (∀ d, d < dimensionsSize →
        outstart.getD d 0 = max (start1.getD d 0) (start2.getD d 0) ∧
        outstart.getD d 0 + outcount.getD d 0 =
          min (start1.getD d 0 + count1.getD d 0) (start2.getD d 0 + count2.getD d 0) ∧
        outcount.getD d 0 ≠ 0) ∧
      ∀ p, InBox dimensionsSize outstart outcount p ↔
        InBox dimensionsSize start1 count1 p ∧ InBox dimensionsSize start2 count2 p := by
  rw [IntersectionStartCount64_eq dimensionsSize start1 count1 start2 count2 h1 h2,
    ← boxesIntersect_iff_overlap]
  by_cases hI : BoxesIntersect dimensionsSize start1 count1 start2 count2
  · have e := IntersectionStartCount_of_intersect dimensionsSize start1 count1 start2 count2 hI
    have hb := (boxesIntersect_iff dimensionsSize start1 count1 start2 count2).mp hI
    refine ⟨⟨fun _ => hI, fun _ => by rw [e]; rfl⟩, ?_⟩
    intro outstart outcount h
    rw [e] at h
    simp only [Option.some.injEq, Prod.mk.injEq] at h
    obtain ⟨e1, e2⟩ := h
    have key : ∀ d, d < dimensionsSize →
        outstart.getD d 0 = max (start1.getD d 0) (start2.getD d 0) ∧
        outstart.getD d 0 + outcount.getD d 0 =
          min (start1.getD d 0 + count1.getD d 0) (start2.getD d 0 + count2.getD d 0) ∧
        outcount.getD d 0 ≠ 0 := by
      intro d hd
      have := hb d hd
      rw [← e1, ← e2, getD_map_range _ _ _ hd, highCorner, lowCorner, getD_map_range _ _ _ hd,
        getD_map_range _ _ _ hd]
      omega
    refine ⟨by rw [← e1, lowCorner]; simp, by rw [← e2]; simp, key, ?_⟩
    intro p
    constructor
    · intro hp
      constructor <;> intro d hd <;> have := hp d hd <;> have := key d hd <;> omega
    · rintro ⟨p1, p2⟩ d hd
      have := p1 d hd
      have := p2 d hd
      have := key d hd
      omega
  · have e := IntersectionStartCount_of_not_intersect dimensionsSize start1 count1 start2 count2 hI
    refine ⟨⟨fun h => by (rw [e] at h; cases h), fun h => absurd h hI⟩, ?_⟩
    intro outstart outcount h
    rw [e] at h
    cases h

/-- Witness of `IntersectionStartCount_intersection`: the boxes `[2, 6) x [0, 3)`
and `[4, 9) x [1, 2)`. -/
theorem IntersectionStartCount_intersection_witness :
    IntersectionStartCount64 2 [2, 0] [4, 3] [4, 1] [5, 1] = some ([4, 1], [2, 1]) ∧
    ((IntersectionStartCount64 2 [2, 0] [4, 3] [4, 1] [5, 1]).isSome = true ↔
      ∀ d, d < 2 → [4, 3].getD d 0 ≠ 0 ∧ [5, 1].getD d 0 ≠ 0 ∧
        ∃ x, ([2, 0].getD d 0 ≤ x ∧ x < [2, 0].getD d 0 + [4, 3].getD d 0) ∧
          ([4, 1].getD d 0 ≤ x ∧ x < [4, 1].getD d 0 + [5, 1].getD d 0)) :=
  ⟨by decide,
    (IntersectionStartCount_intersection 2 [2, 0] [4, 3] [4, 1] [5, 1]
      (by decide) (by decide)).1⟩

/-! ### `LinearIndex`: the loops end, and the index is a bijection -/

theorem rowLoop_eq (n : Nat) (c p : List Nat) (hn : n < 2 ^ 64) :
    ∀ (m k off : Nat), k + m = n →
      LinearIndex64.rowLoop n c p (m + 1) k off =
        some ((List.range' k m).foldl
          (fun offset d => (offset * c.getD d 0 + p.getD d 0) % 2 ^ 64) off)
  | 0, k, off, h => by
    rw [LinearIndex64.rowLoop, if_neg (by omega)]
    rfl
  | m + 1, k, off, h => by
    rw [LinearIndex64.rowLoop, if_pos (by omega), Nat.mod_eq_of_lt (by omega),
      rowLoop_eq n c p hn m (k + 1) _ (by omega)]
    rfl

theorem columnLoop_eq (n : Nat) (c p : List Nat) (hn : n < 2 ^ 64) :
    ∀ (d off : Nat), d < n →
      LinearIndex64.columnLoop n c p (d + 2) d off =
        some ((List.range (d + 1)).reverse.foldl
          (fun offset d => (offset * c.getD d 0 + p.getD d 0) % 2 ^ 64) off)
  | 0, off, h => by
    rw [LinearIndex64.columnLoop, if_pos h, LinearIndex64.columnLoop, if_neg (by omega)]
    rfl
  | d + 1, off, h => by
    have e : (d + 1 + (2 ^ 64 - 1)) % 2 ^ 64 = d := by omega
    rw [LinearIndex64.columnLoop, if_pos h, e, columnLoop_eq n c p hn d _ (by omega),
      List.range_succ (n := d + 1), List.reverse_append]
    rfl

theorem LinearIndex64_eq_foldl (n : Nat) (c p : List Nat) (r : Bool) (hn : n < 2 ^ 64) :
    LinearIndex64 (n + 1) n c p r =
      some ((if r then List.range n else (List.range n).reverse).foldl
        (fun offset d => (offset * c.getD d 0 + p.getD d 0) % 2 ^ 64) 0) := by
  cases r with
  | true =>
    simp only [LinearIndex64, if_true]
    rw [rowLoop_eq n c p hn n 0 0 (by omega), List.range_eq_range']
  | false =>
    simp only [LinearIndex64, Bool.false_eq_true, if_false]
    cases n with
    | zero =>
      rw [LinearIndex64.columnLoop, if_neg (by omega)]
      rfl
    | succ m =>
      have e : (m + 1 + (2 ^ 64 - 1)) % 2 ^ 64 = m := by omega
      rw [e, columnLoop_eq (m + 1) c p hn m 0 (by omega)]

theorem foldl_index_ge (c p : List Nat) :
    ∀ (l : List Nat) (a : Nat), (∀ d ∈ l, 0 < c.getD d 0) →
      a ≤ l.foldl (fun offset d => offset * c.getD d 0 + p.getD d 0) a
  | [], a, _ => Nat.le_refl a
  | d :: l, a, h => by
    rw [List.foldl_cons]
    have h1 := foldl_index_ge c p l (a * c.getD d 0 + p.getD d 0)
      (fun x hx => h x (List.mem_cons_of_mem d hx))
    have h2 : a ≤ a * c.getD d 0 := Nat.le_mul_of_pos_right a (h d (List.mem_cons_self d l))
    omega

theorem foldl_index64_eq (c p : List Nat) :
    ∀ (l : List Nat) (a : Nat), (∀ d ∈ l, 0 < c.getD d 0) →
      l.foldl (fun offset d => offset * c.getD d 0 + p.getD d 0) a < 2 ^ 64 →
      l.foldl (fun offset d => (offset * c.getD d 0 + p.getD d 0) % 2 ^ 64) a =
        l.foldl (fun offset d => offset * c.getD d 0 + p.getD d 0) a
  | [], _, _, _ => rfl
  | d :: l, a, h, hlt => by
    rw [List.foldl_cons] at hlt
    have hge := foldl_index_ge c p l (a * c.getD d 0 + p.getD d 0)
      (fun x hx => h x (List.mem_cons_of_mem d hx))
    rw [List.foldl_cons, List.foldl_cons, Nat.mod_eq_of_lt (by omega)]
    exact foldl_index64_eq c p l _ (fun x hx => h x (List.mem_cons_of_mem d hx)) hlt

theorem LinearIndex64_eq (n : Nat) (c p : List Nat) (r : Bool) (hn : n < 2 ^ 64)
    (hp : ∀ d, d < n → p.getD d 0 < c.getD d 0)
    (hc : ((List.range n).map (fun d => c.getD d 0)).prod ≤ 2 ^ 64) :
    LinearIndex64 (n + 1) n c p r = some (LinearIndex n c p r) := by
  have hlt := LinearIndex_lt n c p r hp
  rw [CalcSize_eq_prod] at hlt
  rw [LinearIndex64_eq_foldl n c p r hn]
  cases r with
  | true =>
    simp only [if_true]
    rw [foldl_index64_eq c p _ 0
      (fun d hd => by have := hp d (List.mem_range.mp hd); omega)]
    · simp [LinearIndex]
    · have : LinearIndex n c p true < 2 ^ 64 := by omega
      simpa [LinearIndex] using this
  | false =>
    simp only [Bool.false_eq_true, if_false]
    rw [foldl_index64_eq c p _ 0
      (fun d hd => by have := hp d (List.mem_range.mp (List.mem_reverse.mp hd)); omega)]
    · simp [LinearIndex]
    · have : LinearIndex n c p false < 2 ^ 64 := by omega
      simpa [LinearIndex] using this

theorem prod_range_succ_getD (c : List Nat) (n : Nat) :
    ((List.range (n + 1)).map (fun d => c.getD d 0)).prod =
      ((List.range n).map (fun d => c.getD d 0)).prod * c.getD n 0 := by
  rw [List.range_succ, List.map_append, List.prod_append]
  simp

theorem LinearIndex_onto_row (c : List Nat) :
    ∀ (n k : Nat), k < ((List.range n).map (fun d => c.getD d 0)).prod →
      ∃ p : List Nat, p.length = n ∧ (∀ d, d < n → p.getD d 0 < c.getD d 0) ∧
        LinearIndex n c p true = k
  | 0, k, h => ⟨[], rfl, fun d hd => absurd hd (Nat.not_lt_zero d), by
      simp at h
      simp [LinearIndex, h]⟩
  | n + 1, k, h => by
    rw [prod_range_succ_getD] at h
    have hc : 0 < c.getD n 0 := by
      rcases Nat.eq_zero_or_pos (c.getD n 0) with z | z
      · rw [z] at h; simp at h
      · exact z
    have hk : k / c.getD n 0 < ((List.range n).map (fun d => c.getD d 0)).prod :=
      Nat.div_lt_of_lt_mul (by rwa [Nat.mul_comm] at h)
    obtain ⟨q, hq, hin, hv⟩ := LinearIndex_onto_row c n (k / c.getD n 0) hk
    have g1 : ∀ d, d < n → (q ++ [k % c.getD n 0]).getD d 0 = q.getD d 0 := by
      intro d hd
      simp [List.getD_eq_getElem?_getD, List.getElem?_append_left (hq ▸ hd)]
    have g2 : (q ++ [k % c.getD n 0]).getD n 0 = k % c.getD n 0 := by
      simp [List.getD_eq_getElem?_getD, List.getElem?_append_right (Nat.le_of_eq hq), hq]
    refine ⟨q ++ [k % c.getD n 0], by simp [hq], ?_, ?_⟩
    · intro d hd
      rcases Nat.lt_succ_iff_lt_or_eq.mp hd with hlt | he
      · rw [g1 d hlt]; exact hin d hlt
      · rw [he, g2]; exact Nat.mod_lt _ hc
    · rw [LinearIndex_succ, g2, LinearIndex_congr n c _ q true g1, hv]
      exact Nat.div_add_mod' k (c.getD n 0)

theorem prod_viewDims (r : Bool) (n : Nat) (c : List Nat) :
    ((List.range n).map (fun d => (viewDims r n c).getD d 0)).prod =
      ((List.range n).map (fun d => c.getD d 0)).prod := by
  have e : (List.range n).map (fun d => (viewDims r n c).getD d 0) = viewDims r n c := by
    apply List.ext_getElem?
    intro i
    by_cases hi : i < n
    · rw [List.getElem?_map, List.getElem?_range hi]
      have hl : (viewDims r n c).length = n := by
        unfold viewDims DimsArray
        split <;> simp
      simp [List.getD_eq_getElem?_getD, List.getElem?_eq_getElem (hl ▸ hi)]
    · have hl : (viewDims r n c).length = n := by
        unfold viewDims DimsArray
        split <;> simp
      rw [List.getElem?_eq_none (by simp; omega), List.getElem?_eq_none (by omega)]
  rw [e]
  unfold viewDims DimsArray
  split
  · rw [List.prod_reverse]
  · rfl

theorem LinearIndex_onto (n : Nat) (c : List Nat) (r : Bool) (k : Nat)
    (h : k < ((List.range n).map (fun d => c.getD d 0)).prod) :
    ∃ p : List Nat, p.length = n ∧ (∀ d, d < n → p.getD d 0 < c.getD d 0) ∧
      LinearIndex n c p r = k := by
  rw [← prod_viewDims r n c] at h
  obtain ⟨q, hq, hin, hv⟩ := LinearIndex_onto_row (viewDims r n c) n k h
  refine ⟨viewDims r n q, ?_, ?_, ?_⟩
  · unfold viewDims DimsArray
    split <;> simp
  · intro d hd
    have := hin (viewIndex r n d) (viewIndex_lt r n d hd)
    rw [getD_viewDims _ _ _ _ (viewIndex_lt r n d hd), viewIndex_viewIndex r n d hd] at this
    rw [getD_viewDims _ _ _ _ hd]
    exact this
  · rw [← LinearIndex_view n c (viewDims r n q) r,
      LinearIndex_congr n (viewDims r n c) _ q true (fun d hd => getD_view_view r n q d hd), hv]

theorem LinearIndex_row_sum (c p : List Nat) :
    ∀ (n : Nat), LinearIndex n c p true =
      ((List.range n).map (fun d => p.getD d 0 *
        (((List.range n).drop (d + 1)).map (fun e => c.getD e 0)).prod)).sum
  | 0 => by simp [LinearIndex]
  | n + 1 => by
    rw [LinearIndex_succ, LinearIndex_row_sum c p n]
    have e1 : (List.range (n + 1)).map (fun d => p.getD d 0 *
        (((List.range (n + 1)).drop (d + 1)).map (fun e => c.getD e 0)).prod) =
        (List.range n).map (fun d => p.getD d 0 *
          (((List.range n).drop (d + 1)).map (fun e => c.getD e 0)).prod * c.getD n 0) ++
        [p.getD n 0] := by
      rw [List.range_succ, List.map_append]
      congr 1
      · apply List.map_congr_left
        intro d hd
        have hd' := List.mem_range.mp hd
        rw [List.drop_append_of_le_length (by simp; omega), List.map_append, List.prod_append]
        simp [Nat.mul_assoc]
      · have e0 : (List.range n ++ [n]).drop (n + 1) = [] := List.drop_of_length_le (by simp)
        simp only [List.map_cons, List.map_nil, e0, List.prod_nil, Nat.mul_one]
    rw [e1, List.sum_append, List.sum_map_mul_right]
    simp

/-- Claim C34: `LinearIndex` ends for every dimension count, zero included (the
column-major loop through the wrap of `d--` at 0), and where the positions are
in range and the number of elements is a `size_t` value it returns the index
computed without wrap. For positions with `pos[d] < count[d]` in every
dimension the index is below the product of the counts, two position tuples
with the same index are equal, and every number below the product is the index
of an in-range tuple, in both orders. The row-major index is the sum of
`pos[d]` times the product of the counts behind `d`, and the column-major index
is the row-major index of the reversed tuples. -/
theorem LinearIndex_bijection (dimensionsSize : Nat) (count : List Nat) (IsRowMajor : Bool) :
    (∀ pos, dimensionsSize < 2 ^ 64 →
      (LinearIndex64 (dimensionsSize + 1) dimensionsSize count pos IsRowMajor).isSome = true) ∧
    (∀ pos, dimensionsSize < 2 ^ 64 →
      (∀ d, d < dimensionsSize → pos.getD d 0 < count.getD d 0) →
      ((List.range dimensionsSize).map (fun d => count.getD d 0)).prod ≤ 2 ^ 64 →
      LinearIndex64 (dimensionsSize + 1) dimensionsSize count pos IsRowMajor =
        some (LinearIndex dimensionsSize count pos IsRowMajor)) ∧
    (∀ pos, (∀ d, d < dimensionsSize → pos.getD d 0 < count.getD d 0) →
      LinearIndex dimensionsSize count pos IsRowMajor <
        ((List.range dimensionsSize).map (fun d => count.getD d 0)).prod) ∧
    (∀ pos pos2, (∀ d, d < dimensionsSize → pos.getD d 0 < count.getD d 0) →
      (∀ d, d < dimensionsSize → pos2.getD d 0 < count.getD d 0) →
      LinearIndex dimensionsSize count pos IsRowMajor =
        LinearIndex dimensionsSize count pos2 IsRowMajor →
      ∀ d, d < dimensionsSize → pos.getD d 0 = pos2.getD d 0) ∧
    (∀ k, k < ((List.range dimensionsSize).map (fun d => count.getD d 0)).prod →
      ∃ pos : List Nat, pos.length = dimensionsSize ∧
        (∀ d, d < dimensionsSize → pos.getD d 0 < count.getD d 0) ∧
        LinearIndex dimensionsSize count pos IsRowMajor = k) ∧
    (∀ pos, LinearIndex dimensionsSize count pos true =
      ((List.range dimensionsSize).map (fun d => pos.getD d 0 *
        (((List.range dimensionsSize).drop (d + 1)).map (fun e => count.getD e 0)).prod)).sum) ∧
    (∀ pos, LinearIndex dimensionsSize count pos false =
      LinearIndex dimensionsSize
        ((List.range dimensionsSize).map (fun d => count.getD d 0)).reverse
        ((List.range dimensionsSize).map (fun d => pos.getD d 0)).reverse true) := by
  refine ⟨?_, ?_, ?_, ?_, ?_, ?_, ?_⟩
  · intro pos hn
    rw [LinearIndex64_eq_foldl dimensionsSize count pos IsRowMajor hn]
    rfl
  · intro pos hn hp hc
    exact LinearIndex64_eq dimensionsSize count pos IsRowMajor hn hp hc
  · intro pos hp
    have := LinearIndex_lt dimensionsSize count pos IsRowMajor hp
    rwa [CalcSize_eq_prod] at this
  · intro pos pos2 hp hq h
    exact LinearIndex_inj_of dimensionsSize count pos pos2 IsRowMajor hp hq h
  · intro k hk
    exact LinearIndex_onto dimensionsSize count IsRowMajor k hk
  · intro pos
    exact LinearIndex_row_sum count pos dimensionsSize
  · intro pos
    have := LinearIndex_view dimensionsSize count pos false
    simp only [viewDims, DimsArray, Bool.false_eq_true, not_false_eq_true, if_true] at this
    exact this.symm

/-- An instance of `LinearIndex_bijection`: the position `(1, 2)` in a block of
`2 x 3` elements, row-major and column-major, and the empty position. -/
theorem LinearIndex_bijection_witness :
    LinearIndex64 3 2 [2, 3] [1, 2] true = some 5 ∧
    LinearIndex64 3 2 [2, 3] [1, 2] false = some 5 ∧
    LinearIndex64 3 2 [2, 3] [1, 0] false = some 1 ∧
    LinearIndex64 1 0 [] [] false = some 0 ∧
    LinearIndex 2 [2, 3] [1, 0] true = 3 ∧
    ∃ pos : List Nat, pos.length = 2 ∧ (∀ d, d < 2 → pos.getD d 0 < [2, 3].getD d 0) ∧
      LinearIndex 2 [2, 3] pos false = 4 :=
  ⟨by decide, by decide, by decide, by decide, by decide,
    (LinearIndex_bijection 2 [2, 3] false).2.2.2.2.1 4 (by decide)⟩

/-! ### Type tags -/

/-- Claim C32 as stated fails at `Char`: its tag is "integer", as for `Int8`,
and the tag "integer" with the size 1 is translated back to `Int8`. -/
theorem TranslateFFSType2ADIOS_Char :
    TranslateADIOS2Type2FFS DataType.Char = some "integer" ∧
    TranslateFFSType2ADIOS 4 8 16 "integer" 1 = DataType.Int8 ∧
    typeSeenByReader 4 8 16 DataType.Char 1 = some DataType.Int8 ∧
    typeSeenByReader 4 8 16 DataType.Char 1 ≠ some DataType.Char := by
  decide

/-- Claim C32 as amended: on a platform where the element types have their
byte sizes and `sizeof(float)` differs from `sizeof(double)`, every element
type of the list other than `Char` has a tag, and the tag with the byte size of
the type is translated back to the type; the tag of `Char` with its size 1 is
translated back to `Int8`. -/
theorem TranslateFFSType2ADIOS_round_trip (sizeofFloat sizeofDouble sizeofLongDouble : Nat)
    (size : DataType → Int) (hs : PlatformSizes sizeofFloat sizeofDouble size) :
    (∀ T ∈ taggedTypes, ∃ tag, TranslateADIOS2Type2FFS T = some tag ∧
      TranslateFFSType2ADIOS sizeofFloat sizeofDouble sizeofLongDouble tag (size T) = T ∧
      typeSeenByReader sizeofFloat sizeofDouble sizeofLongDouble T (size T) = some T) ∧
    typeSeenByReader sizeofFloat sizeofDouble sizeofLongDouble DataType.Char
      (size DataType.Char) = some DataType.Int8 := by
  obtain ⟨hc, h1, h2, h3, h4, h5, h6, h7, h8, hf, hd, hne⟩ := hs
  have hne' : ¬ ((sizeofDouble : Int) = (sizeofFloat : Int)) := by
    intro h
    exact hne (Int.ofNat.inj h).symm
  have hld : ¬ (sizeofLongDouble ≠ sizeofDouble ∧ (sizeofDouble : Int) = (sizeofLongDouble : Int)) := by
    rintro ⟨a, b⟩
    exact a (Int.ofNat.inj b).symm
  refine ⟨?_, ?_⟩
  · intro T hT
    simp only [taggedTypes, List.mem_cons, List.mem_singleton, List.not_mem_nil, or_false] at hT
    rcases hT with h | h | h | h | h | h | h | h | h | h | h | h | h <;> subst h
    all_goals simp [typeSeenByReader, TranslateADIOS2Type2FFS, TranslateFFSType2ADIOS, h1, h2, h3,
      h4, h5, h6, h7, h8, hf, hd, hne', hld]
    intro h e
    exact h e.symm
  · simp [typeSeenByReader, TranslateADIOS2Type2FFS, TranslateFFSType2ADIOS, hc]

/-- Witness of `TranslateFFSType2ADIOS_round_trip`: the sizes where `float` has
4 bytes, `double` 8 and `long double` 16. -/
theorem TranslateFFSType2ADIOS_round_trip_witness :
    PlatformSizes 4 8 LP64.size ∧
    (∀ T ∈ taggedTypes, ∃ tag, TranslateADIOS2Type2FFS T = some tag ∧
      TranslateFFSType2ADIOS 4 8 16 tag (LP64.size T) = T ∧
      typeSeenByReader 4 8 16 T (LP64.size T) = some T) ∧
    typeSeenByReader 4 8 16 DataType.Char (LP64.size DataType.Char) = some DataType.Int8 :=
  ⟨by unfold PlatformSizes; decide, TranslateFFSType2ADIOS_round_trip 4 8 16 LP64.size
    (by unfold PlatformSizes; decide)⟩

/-! ### `GetMetadataBase` in streaming mode -/

set_option maxRecDepth 100000 in
/-- Claim C37 at scenario S7: one writer wrote the array on step 0 and not on
step 1. In streaming mode both steps are installed, and after step 1, whose
block has the bit of the variable unset, `GetMetadataBase` for the writer is
not null: `PerWriterMetaFieldOffset[0]` still holds the offset 16 of step 0 and
the bit is not tested, so the result points to the zero field of the new block.
After step 0 alone the result is the record that was written. In random-access
mode the same two steps give a null result on step 1 and the written record on
step 0. -/
theorem GetMetadataBase_streaming_stale :
    (installSteps (fun _ => true) S6.DefineVariable S7.steps 0 S7.fresh).isSome = true ∧
    S7.skipped.BitField 0 = false ∧
    (S7.installed.current 0).map (fun b => b.map (fun m => m.BitField 0)) = some (some false) ∧
    (S7.installed.VarRecs 0).PerWriterMetaFieldOffset = [16] ∧
    S7.installed.GetMetadataBase 0 1 0 = some (some zeroMetaArrayRec) ∧
    S7.first.GetMetadataBase 0 0 0 = some (some S3.meta0) ∧
    (installSteps (fun _ => true) S6.DefineVariable S7.steps 0 S6.fresh).isSome = true ∧
    S7.installedRA.GetMetadataBase 0 1 0 = some none ∧
    S7.installedRA.GetMetadataBase 0 0 0 = some (some S3.meta0) := by
  decide

/-! ### `RelativeToAbsoluteStep` -/

set_option maxRecDepth 100000 in
/-- Claim C38 at scenario S6: one writer wrote the variable on the steps 0, 2
and 4 of five, so `AbsStepFromRel` is `[0, 2, 4]`. `RelativeToAbsoluteStep`
returns 0 for the relative step 0, but 1 for the relative step 1 and 3 for the
relative step 2: the loop counts the steps from `FirstTSSeen` on which the
variable appears and stops behind the step that brings the count to zero, which
is the step wanted only when the variable appears on the step that follows.
Where the variable was written on every step (scenario S8) the result is
`AbsStepFromRel[RelStep]`, if the number of the record is the index of its
field in the format: the bit tested is `VarNum`, not `CIVarIndex[VarNum]` as in
`GetMetadataBase`, and for the record 1 whose field has the index 0 the loop
finds the variable on no step and reads behind the last installed step. -/
theorem RelativeToAbsoluteStep_gaps :
    (installSteps (fun _ => true) S6.DefineVariable S6.steps 0 S6.fresh).isSome = true ∧
    (S6.installed.VarRecs 0).AbsStepFromRel = [0, 2, 4] ∧
    (S6.installed.VarRecs 0).FirstTSSeen = 0 ∧
    (∀ fuel, S6.installed.RelativeToAbsoluteStep 0 0 (fuel + 1) = some 0) ∧
    (∀ fuel, S6.installed.RelativeToAbsoluteStep 0 1 (fuel + 2) = some 1) ∧
    (∀ fuel, S6.installed.RelativeToAbsoluteStep 0 2 (fuel + 4) = some 3) ∧
    (S8.installed.VarRecs 0).AbsStepFromRel = [0, 1, 2] ∧
    (∀ fuel, S8.installed.RelativeToAbsoluteStep 0 1 (fuel + 2) = some 1) ∧
    (∀ fuel, S8.installed.RelativeToAbsoluteStep 0 2 (fuel + 3) = some 2) ∧
    (S8.installed1.VarRecs 1).AbsStepFromRel = [0, 1] ∧
    S8.installed1.GetMetadataBase 1 1 0 = some (some S3.meta0) ∧
    (∀ fuel, S8.installed1.RelativeToAbsoluteStep 1 1 fuel = none) := by
  refine ⟨by decide, by decide, by decide, ?_, ?_, ?_, by decide, ?_, ?_, by decide, by decide,
    ?_⟩
  · intro fuel
    rfl
  · intro fuel
    rfl
  · intro fuel
    rfl
  · intro fuel
    rfl
  · intro fuel
    rfl
  · intro fuel
    rcases fuel with _ | _ | _ | fuel <;> rfl

/-! ### Decimal numbers in names -/

theorem toDigitsCore_eq :
    ∀ (fuel n : Nat) (ds : List Char), n < fuel →
      Nat.toDigitsCore 10 fuel n ds = Nat.toDigits 10 n ++ ds := by
  intro fuel
  induction fuel using Nat.strong_induction_on with
  | _ fuel ih =>
    intro n ds hn
    cases fuel with
    | zero => omega
    | succ f =>
      unfold Nat.toDigits
      rw [Nat.toDigitsCore, Nat.toDigitsCore]
      by_cases h0 : n / 10 = 0
      · rw [if_pos h0, if_pos h0]
        rfl
      · rw [if_neg h0, if_neg h0]
        have hlt : n / 10 < n := by omega
        rw [ih f (Nat.lt_succ_self f) (n / 10) _ (by omega),
          ih n (by omega) (n / 10) _ hlt]
        simp

theorem toDigits_small (n : Nat) (h : n < 10) : Nat.toDigits 10 n = [Nat.digitChar n] := by
  unfold Nat.toDigits
  rw [Nat.toDigitsCore]
  rw [if_pos (by omega), Nat.mod_eq_of_lt h]

theorem toDigits_large (n : Nat) (h : 10 ≤ n) :
    Nat.toDigits 10 n = Nat.toDigits 10 (n / 10) ++ [Nat.digitChar (n % 10)] := by
  have e : Nat.toDigits 10 n = Nat.toDigitsCore 10 (n + 1) n [] := rfl
  rw [e, Nat.toDigitsCore]
  rw [if_neg (by omega), toDigitsCore_eq n (n / 10) _ (by omega)]

theorem digitChar_isdigit (k : Nat) (h : k < 10) :
    isdigit (Nat.digitChar k) = true ∧ (Nat.digitChar k).toNat - 48 = k := by
  interval_cases k <;> decide

theorem toDigits_spec :
    ∀ n : Nat, (∀ c ∈ Nat.toDigits 10 n, isdigit c = true) ∧
      (Nat.toDigits 10 n).foldl (fun a c => a * 10 + (c.toNat - 48)) 0 = n ∧
      Nat.toDigits 10 n ≠ [] := by
  intro n
  induction n using Nat.strong_induction_on with
  | _ n ih =>
    by_cases h : n < 10
    · rw [toDigits_small n h]
      have := digitChar_isdigit n h
      refine ⟨fun c hc => ?_, ?_, by simp⟩
      · rw [List.mem_singleton] at hc
        rw [hc]
        exact this.1
      · simp [this.2]
    · rw [toDigits_large n (by omega)]
      obtain ⟨i1, i2, _⟩ := ih (n / 10) (by omega)
      have := digitChar_isdigit (n % 10) (Nat.mod_lt _ (by omega))
      refine ⟨fun c hc => ?_, ?_, by simp⟩
      · rcases List.mem_append.mp hc with hc | hc
        · exact i1 c hc
        · rw [List.mem_singleton] at hc
          rw [hc]
          exact this.1
      · rw [List.foldl_append, i2]
        simp only [List.foldl_cons, List.foldl_nil, this.2]
        omega

theorem scanDigits_append :
    ∀ (L r : List Char) (acc : Nat), (∀ c ∈ L, isdigit c = true) →
      scanDigits (L ++ r) acc = scanDigits r (L.foldl (fun a c => a * 10 + (c.toNat - 48)) acc)
  | [], _, _, _ => rfl
  | c :: L, r, acc, h => by
    rw [List.cons_append, scanDigits, if_pos (h c (List.mem_cons_self c L)), List.foldl_cons]
    exact scanDigits_append L r _ (fun x hx => h x (List.mem_cons_of_mem c hx))

theorem isdigit_ne (c : Char) (h : isdigit c = true) :
    isspace c = false ∧ c ≠ '-' ∧ c ≠ '+' ∧ c ≠ '_' := by
  simp only [isdigit, Bool.and_eq_true, decide_eq_true_eq] at h
  refine ⟨?_, ?_, ?_, ?_⟩
  · simp only [isspace, Bool.or_eq_false_iff, Bool.and_eq_false_iff, decide_eq_false_iff_not]
    omega
  · rintro rfl
    revert h
    decide
  · rintro rfl
    revert h
    decide
  · rintro rfl
    revert h
    decide

/-- The conversion `%d` reads back a number that was printed with `%d`, when
the input behind the number does not go on with a digit. -/
theorem scanInt_toDigits (n : Nat) (r : List Char)
    (hr : ∀ c, r.head? = some c → isdigit c = false) :
    scanInt (Nat.toDigits 10 n ++ r) = some ((n : Int), r) := by
  obtain ⟨hd, hv, hne⟩ := toDigits_spec n
  obtain ⟨c, L, e⟩ := List.exists_cons_of_ne_nil hne
  have hc := hd c (by rw [e]; exact List.mem_cons_self c L)
  obtain ⟨s1, s2, s3, _⟩ := isdigit_ne c hc
  have hscan : scanDigits (Nat.toDigits 10 n ++ r) 0 = (n, r) := by
    rw [scanDigits_append _ _ _ hd, hv]
    cases r with
    | nil => rfl
    | cons x r =>
      rw [scanDigits, hr x rfl]
      rfl
  unfold scanInt
  rw [e, List.cons_append, List.dropWhile_cons_of_neg (by simp [s1])]
  dsimp only
  rw [if_neg s2, if_neg s3, scanUnsigned, if_pos hc, ← List.cons_append, ← e, hscan]
  rfl

theorem strchr_append (L r : List Char) (c : Char) (h : c ∉ L) :
    strchr (L ++ c :: r) c = some (c :: r) := by
  induction L with
  | nil => simp [strchr]
  | cons x L ih =>
    rw [List.cons_append, strchr, if_neg (fun e => h (by rw [e]; exact List.mem_cons_self c L))]
    exact ih (fun hm => h (List.mem_cons_of_mem x hm))

theorem underscore_not_mem_toDigits (n : Nat) : '_' ∉ Nat.toDigits 10 n := by
  intro h
  exact (isdigit_ne _ ((toDigits_spec n).1 _ h)).2.2.2 rfl

/-! ### The array name read back -/

theorem BuildLongName_toList (base_name : String) (Shape : ShapeID) (type element_size : Nat) :
    (BuildLongName base_name Shape type element_size).toList =
      (NamePrefix Shape).toList ++ ('_' :: (Nat.toDigits 10 element_size ++
        ('_' :: (Nat.toDigits 10 type ++ ('_' :: base_name.toList))))) := by
  have e1 : (toString element_size).data = Nat.toDigits 10 element_size := rfl
  have e2 : (toString type).data = Nat.toDigits 10 type := rfl
  have e3 : ("_" : String).data = ['_'] := rfl
  simp only [BuildLongName, String.toList, String.data_append, e1, e2, e3, List.append_assoc,
    List.singleton_append, List.cons_append, List.nil_append]

theorem NamePrefix_toList (Shape : ShapeID) :
    ∃ x, (NamePrefix Shape).toList = ['B', 'P', x] ∧
      some Shape = OrigShapeID ['B', 'P', x] ∧
      NameIndicatesArray ['B', 'P', x] = some (decide (Shape = ShapeID.GlobalArray ∨
        Shape = ShapeID.LocalArray ∨ Shape = ShapeID.JoinedArray)) := by
  cases Shape
  · exact ⟨'U', rfl, by decide, by decide⟩
  · exact ⟨'g', rfl, by decide, by decide⟩
  · exact ⟨'G', rfl, by decide, by decide⟩
  · exact ⟨'J', rfl, by decide, by decide⟩
  · exact ⟨'l', rfl, by decide, by decide⟩
  · exact ⟨'L', rfl, by decide, by decide⟩

theorem sscanf_d_d_printed (e t : Nat) (B : List Char) :
    sscanf_d_d (Nat.toDigits 10 e ++ ('_' :: (Nat.toDigits 10 t ++ ('_' :: B)))) =
      (some (e : Int), some (t : Int)) := by
  have hu : ∀ (R : List Char) (c : Char), ('_' :: R).head? = some c → isdigit c = false := by
    intro R c h
    simp only [List.head?_cons, Option.some.injEq] at h
    subst h
    decide
  unfold sscanf_d_d
  rw [scanInt_toDigits e _ (hu _)]
  dsimp only
  rw [if_pos rfl, scanInt_toDigits t _ (hu _)]

theorem BreakdownArrayName_printed (x : Char) (e t : Nat) (B : List Char)
    (he : e < 2 ^ 31) (ht : t < 2 ^ 31) :
    BreakdownArrayName ('B' :: 'P' :: x :: '_' ::
      (Nat.toDigits 10 e ++ ('_' :: (Nat.toDigits 10 t ++ ('_' :: B))))) =
      some (B, (t : Int), (e : Int)) := by
  have h4 : plusOffset ('B' :: 'P' :: x :: '_' ::
      (Nat.toDigits 10 e ++ ('_' :: (Nat.toDigits 10 t ++ ('_' :: B))))) 4 =
      some (Nat.toDigits 10 e ++ ('_' :: (Nat.toDigits 10 t ++ ('_' :: B)))) := by
    unfold plusOffset
    rw [if_pos (by simp only [List.length_cons]; omega)]
    rfl
  have hi : (isInt (e : Int) && isInt (t : Int)) = true := by
    simp only [isInt, Bool.and_eq_true, decide_eq_true_eq]
    omega
  unfold BreakdownArrayName
  rw [h4]
  dsimp only
  rw [strchr_append _ _ _ (underscore_not_mem_toDigits e)]
  dsimp only
  rw [List.drop_succ_cons, List.drop_zero, strchr_append _ _ _ (underscore_not_mem_toDigits t)]
  dsimp only
  rw [sscanf_d_d_printed]
  dsimp only
  rw [hi, if_pos rfl, List.drop_succ_cons, List.drop_zero]

theorem toDigits_length_le : ∀ (k n : Nat), n < 10 ^ (k + 1) →
    (Nat.toDigits 10 n).length ≤ k + 1
  | 0, n, h => by
    rw [toDigits_small n (by simpa using h)]
    exact Nat.le_refl _
  | k + 1, n, h => by
    by_cases hn : n < 10
    · rw [toDigits_small n hn]
      simp
    · rw [toDigits_large n (by omega), List.length_append, List.length_singleton]
      have := toDigits_length_le k (n / 10) (by
        rw [Nat.div_lt_iff_lt_mul (by decide)]
        rw [Nat.pow_succ] at h
        exact h)
      omega

theorem DataType.toNat_le (T : DataType) : T.toNat < 10 ^ 2 := by
  cases T <;> decide

/-- Claim C36: for every base name, every shape kind, every type code that
`CreateWriterRec` passes (the code of a `DataType`) and every element size that
is a non-negative `int` value, `BuildLongName` stays inside its buffer, and the
name it returns is decoded by `BreakdownArrayName` into the same base name, type
code (which is the code of the same `DataType`) and element size, the shape
kind that `BuildControl` reads from its third character is the original one,
and `NameIndicatesArray` is true exactly for `GlobalArray`, `LocalArray` and
`JoinedArray`. For every type code that is a non-negative `int` value the name
fits the buffer exactly when the two numbers have at most 15 decimal digits
together, and a name that fits is decoded in the same way. -/
theorem BreakdownArrayName_BuildLongName (base_name : String) (Shape : ShapeID)
    (type element_size : Nat) (ht : type < 2 ^ 31) (he : element_size < 2 ^ 31) :
    (∀ T : DataType, type = T.toNat →
      BuildLongName.result base_name Shape type element_size =
        some (BuildLongName base_name Shape type element_size) ∧
      BreakdownArrayName (BuildLongName base_name Shape type element_size).toList =
        some (base_name.toList, (T.toNat : Int), (element_size : Int)) ∧
      DataType.ofCode (T.toNat : Int) = some T ∧
      OrigShapeID (BuildLongName base_name Shape type element_size).toList = some Shape ∧
      NameIndicatesArray (BuildLongName base_name Shape type element_size).toList =
        some (decide (Shape = ShapeID.GlobalArray ∨
          Shape = ShapeID.LocalArray ∨ Shape = ShapeID.JoinedArray))) ∧
    ((BuildLongName.result base_name Shape type element_size).isSome = true ↔
      (toString element_size).length + (toString type).length ≤ 15) ∧
    ∀ Name, BuildLongName.result base_name Shape type element_size = some Name →
      BreakdownArrayName Name.toList =
        some (base_name.toList, (type : Int), (element_size : Int)) ∧
      OrigShapeID Name.toList = some Shape ∧
      NameIndicatesArray Name.toList = some (decide (Shape = ShapeID.GlobalArray ∨
        Shape = ShapeID.LocalArray ∨ Shape = ShapeID.JoinedArray)) := by
  obtain ⟨x, hx, hs, hn⟩ := NamePrefix_toList Shape
  have hl := BuildLongName_toList base_name Shape type element_size
  rw [hx] at hl
  have hlen : (BuildLongName base_name Shape type element_size).length =
      base_name.length + 6 + ((toString element_size).length + (toString type).length) := by
    have : (BuildLongName base_name Shape type element_size).length =
        (BuildLongName base_name Shape type element_size).toList.length := rfl
    rw [this, hl]
    have e1 : (toString element_size).length = (Nat.toDigits 10 element_size).length := rfl
    have e2 : (toString type).length = (Nat.toDigits 10 type).length := rfl
    have e3 : base_name.length = base_name.toList.length := rfl
    rw [e1, e2, e3]
    simp only [List.cons_append, List.nil_append, List.length_cons, List.length_append]
    omega
  have hP : (NamePrefix Shape).length = 3 := by
    have : (NamePrefix Shape).length = (NamePrefix Shape).toList.length := rfl
    rw [this, hx]
    rfl
  have hround : BreakdownArrayName (BuildLongName base_name Shape type element_size).toList =
        some (base_name.toList, (type : Int), (element_size : Int)) ∧
      OrigShapeID (BuildLongName base_name Shape type element_size).toList = some Shape ∧
      NameIndicatesArray (BuildLongName base_name Shape type element_size).toList =
        some (decide (Shape = ShapeID.GlobalArray ∨
          Shape = ShapeID.LocalArray ∨ Shape = ShapeID.JoinedArray)) := by
    rw [hl]
    refine ⟨BreakdownArrayName_printed x element_size type _ he ht, ?_, ?_⟩
    · rw [hs]
      rfl
    · rw [← hn]
      rfl
  refine ⟨?_, ?_, ?_⟩
  · intro T hT
    have d1 : (toString element_size).length ≤ 10 :=
      toDigits_length_le 9 element_size (by omega)
    have d2 : (toString type).length ≤ 2 := by
      rw [hT]
      exact toDigits_length_le 1 T.toNat (DataType.toNat_le T)
    refine ⟨?_, hT ▸ hround.1, by cases T <;> decide, hround.2.1, hround.2.2⟩
    unfold BuildLongName.result BuildLongName.Len
    rw [hlen, hP, if_pos (by omega)]
  · unfold BuildLongName.result BuildLongName.Len
    rw [hlen, hP]
    constructor
    · intro h
      by_contra hc
      rw [if_neg (by omega)] at h
      cases h
    · intro h
      rw [if_pos (by omega)]
      rfl
  · intro Name h
    unfold BuildLongName.result at h
    split at h
    · simp only [Option.some.injEq] at h
      subst h
      exact hround
    · cases h

/-- Witness of `BreakdownArrayName_BuildLongName`: the base name `a_1b` with an
underscore and a digit, a local array, the type code 5 of `Int64` and the
element size 4. -/
theorem BreakdownArrayName_BuildLongName_witness :
    BuildLongName.result "a_1b" ShapeID.LocalArray 5 4 = some "BPL_4_5_a_1b" ∧
    BreakdownArrayName "BPL_4_5_a_1b".toList = some ("a_1b".toList, 5, 4) ∧
    OrigShapeID "BPL_4_5_a_1b".toList = some ShapeID.LocalArray ∧
    NameIndicatesArray "BPL_4_5_a_1b".toList = some (decide (ShapeID.LocalArray =
      ShapeID.GlobalArray ∨ ShapeID.LocalArray = ShapeID.LocalArray ∨
      ShapeID.LocalArray = ShapeID.JoinedArray)) :=
  ⟨((BreakdownArrayName_BuildLongName "a_1b" ShapeID.LocalArray 5 4 (by decide)
      (by decide)).1 DataType.Int64 rfl).1,
    (BreakdownArrayName_BuildLongName "a_1b" ShapeID.LocalArray 5 4 (by decide) (by decide)).2.2
      "BPL_4_5_a_1b" (by decide)⟩

/-! ### Attribute fields read back -/

theorem BuildVarName_toList (base_name : String) (Shape : ShapeID) (type element_size : Nat)
    (he : element_size ≠ 0) :
    (BuildVarName base_name Shape type element_size).toList =
      (NamePrefix Shape).toList ++ ('_' :: (Nat.toDigits 10 element_size ++
        ('_' :: (Nat.toDigits 10 type ++ ('_' :: base_name.toList))))) := by
  have e : BuildVarName base_name Shape type element_size =
      BuildLongName base_name Shape type element_size := by
    rw [BuildVarName, if_neg he, BuildLongName]
  rw [e, BuildLongName_toList]

theorem BuildVarName_zero_toList (base_name : String) (Shape : ShapeID) (type : Nat) :
    (BuildVarName base_name Shape type 0).toList =
      (NamePrefix Shape).toList ++ ('_' :: base_name.toList) := by
  have e3 : ("_" : String).data = ['_'] := rfl
  rw [BuildVarName, if_pos rfl]
  simp only [String.toList, String.data_append, e3, List.append_assoc, List.singleton_append]

theorem suffix_append_cons (E X N : List Char) (c : Char) (h : E <:+ X ++ c :: N) :
    E <:+ N ∨ c ∈ E := by
  obtain ⟨t, ht⟩ := h
  rcases List.append_eq_append_iff.mp ht with ⟨a, _, h2⟩ | ⟨b, _, h2⟩
  · right
    rw [h2]
    simp
  · cases b with
    | nil =>
      right
      simp only [List.nil_append] at h2
      rw [← h2]
      exact List.mem_cons_self c N
    | cons x b =>
      left
      simp only [List.cons_append, List.cons.injEq] at h2
      exact ⟨b, h2.2.symm⟩

theorem NameIndicatesAttrArray_eq (Name : List Char) (h : 9 ≤ Name.length) :
    NameIndicatesAttrArray Name = some (decide ("ElemCount".toList <:+ Name)) := by
  unfold NameIndicatesAttrArray
  rw [if_pos h]
  congr 1
  apply decide_eq_decide.mpr
  constructor
  · intro e
    rw [← e]
    exact List.drop_suffix _ _
  · intro hs
    obtain ⟨t, ht⟩ := hs
    subst ht
    have hl : (t ++ "ElemCount".toList).length - 9 = t.length := by
      have e9 : "ElemCount".toList.length = 9 := rfl
      rw [List.length_append, e9]
      omega
    rw [hl, List.drop_left]

theorem NameIndicatesAttrArray_simple (Name : String) (type ElemSize : Nat)
    (hn : Name.toList ≠ []) (he : ElemSize ≠ 0) :
    NameIndicatesAttrArray (BuildVarName Name ShapeID.GlobalValue type ElemSize).toList =
      some (decide ("ElemCount".toList <:+ Name.toList)) := by
  have hl := BuildVarName_toList Name ShapeID.GlobalValue type ElemSize he
  have h1 := (toDigits_spec ElemSize).2.2
  have h2 := (toDigits_spec type).2.2
  have hlen : 9 ≤ (BuildVarName Name ShapeID.GlobalValue type ElemSize).toList.length := by
    rw [hl]
    have a1 := List.length_pos.mpr h1
    have a2 := List.length_pos.mpr h2
    have a3 := List.length_pos.mpr hn
    have a0 : (NamePrefix ShapeID.GlobalValue).toList.length = 3 := rfl
    simp only [List.length_append, List.length_cons, a0]
    omega
  rw [NameIndicatesAttrArray_eq _ hlen]
  congr 1
  apply decide_eq_decide.mpr
  have hX : (BuildVarName Name ShapeID.GlobalValue type ElemSize).toList =
      ((NamePrefix ShapeID.GlobalValue).toList ++ ('_' :: (Nat.toDigits 10 ElemSize ++
        ('_' :: Nat.toDigits 10 type)))) ++ '_' :: Name.toList := by
    rw [hl]
    simp only [List.append_assoc, List.cons_append]
  constructor
  · intro h
    rw [hX] at h
    rcases suffix_append_cons _ _ _ _ h with h | h
    · exact h
    · exact absurd h (by decide)
  · intro h
    rw [hX]
    exact h.trans ((List.suffix_cons _ _).trans (List.suffix_append _ _))

theorem NameIndicatesAttrArray_count (Name : String) :
    NameIndicatesAttrArray
        (ConcatName (BuildVarName Name ShapeID.GlobalArray 0 0) "ElemCount").toList = some true ∧
      plusOffset (BuildVarName Name ShapeID.GlobalArray 0 0).toList 4 = some Name.toList := by
  have hl := BuildVarName_zero_toList Name ShapeID.GlobalArray 0
  have hc : (ConcatName (BuildVarName Name ShapeID.GlobalArray 0 0) "ElemCount").toList =
      ((BuildVarName Name ShapeID.GlobalArray 0 0).toList ++ ['_']) ++ "ElemCount".toList := by
    have e3 : ("_" : String).data = ['_'] := rfl
    simp only [ConcatName, String.toList, String.data_append, e3]
  constructor
  · rw [NameIndicatesAttrArray_eq]
    · congr 1
      apply decide_eq_true
      rw [hc]
      exact List.suffix_append _ _
    · rw [hc]
      have e9 : "ElemCount".toList.length = 9 := rfl
      rw [List.length_append, e9]
      omega
  · rw [hl]
    unfold plusOffset
    have a0 : (NamePrefix ShapeID.GlobalArray).toList = ['B', 'P', 'G'] := rfl
    rw [a0, if_pos (by simp only [List.cons_append, List.nil_append, List.length_cons]; omega)]
    rfl

theorem DataType.toNat_lt (T : DataType) : T.toNat < 2 ^ 31 := by
  cases T <;> decide

theorem BreakdownVarName_simple (Name : String) (type ElemSize : Nat) (he : ElemSize ≠ 0)
    (hs : ElemSize < 2 ^ 31) (ht : type < 2 ^ 31) :
    BreakdownVarName (BuildVarName Name ShapeID.GlobalValue type ElemSize).toList =
      some (Name.toList, (type : Int), (ElemSize : Int)) := by
  rw [BuildVarName_toList Name ShapeID.GlobalValue type ElemSize he]
  exact BreakdownArrayName_printed 'g' ElemSize type Name.toList hs ht

set_option maxRecDepth 100000 in
/-- Claim C39, evaluated at the attribute name `ElemCount` and proved for
the other names. For every simple attribute with a name that is not empty
`NameIndicatesAttrArray` on the field name that `MarshalAttribute` builds is
true exactly when the name ends in `ElemCount`, and `BreakdownVarName` recovers
the name, the type code and the element size; on the count field of every array
attribute `NameIndicatesAttrArray` is true, and the array field behind its
first four characters is the name. For the simple `Int32` attribute `ElemCount`
`MarshalAttribute` adds the one field `BPg_4_4_ElemCount`, on which
`NameIndicatesAttrArray` is true, so `InstallAttributeData` takes the branch of
an array attribute and reads the field behind the last one; when the simple
attribute `y` follows, the field of `y` is taken for the array. The simple
attribute `x` and the array attribute `v` are read back as written. -/
theorem InstallAttributeData_ElemCount :
    (∀ (Name : String) (Type_ : DataType) (ElemSize : Nat),
      Name.toList ≠ [] → ElemSize ≠ 0 → ElemSize < 2 ^ 31 →
      NameIndicatesAttrArray
          (BuildVarName Name ShapeID.GlobalValue Type_.toNat ElemSize).toList =
        some (decide ("ElemCount".toList <:+ Name.toList)) ∧
      BreakdownVarName (BuildVarName Name ShapeID.GlobalValue Type_.toNat ElemSize).toList =
        some (Name.toList, (Type_.toNat : Int), (ElemSize : Int))) ∧
    (∀ Name : String,
      NameIndicatesAttrArray
          (ConcatName (BuildVarName Name ShapeID.GlobalArray 0 0) "ElemCount").toList =
        some true ∧
      plusOffset (BuildVarName Name ShapeID.GlobalArray 0 0).toList 4 = some Name.toList) ∧
    MarshalAttribute [] "ElemCount" DataType.Int32 4 (2 ^ 64 - 1) =
      [⟨"BPg_4_4_ElemCount", "integer", 4, 0⟩] ∧
    NameIndicatesAttrArray "BPg_4_4_ElemCount".toList = some true ∧
    InstallAttributeData (fun _ => true) 4 8 16
      (MarshalAttribute [] "ElemCount" DataType.Int32 4 (2 ^ 64 - 1)) = none ∧
    InstallAttributeData (fun _ => true) 4 8 16
      (MarshalAttribute (MarshalAttribute [] "ElemCount" DataType.Int32 4 (2 ^ 64 - 1))
        "y" DataType.Int32 4 (2 ^ 64 - 1)) = none ∧
    MarshalAttribute [] "x" DataType.Int32 4 (2 ^ 64 - 1) = [⟨"BPg_4_4_x", "integer", 4, 0⟩] ∧
    NameIndicatesAttrArray "BPg_4_4_x".toList = some false ∧
    InstallAttributeData (fun _ => true) 4 8 16
      (MarshalAttribute [] "x" DataType.Int32 4 (2 ^ 64 - 1)) =
      some [⟨"x".toList, DataType.Int32, false⟩] ∧
    MarshalAttribute [] "v" DataType.Float 4 3 =
      [⟨"BPG_v_ElemCount", "integer", 8, 0⟩, ⟨"BPG_v", "float[BPG_v_ElemCount]", 4, 8⟩] ∧
    NameIndicatesAttrArray "BPG_v_ElemCount".toList = some true ∧
    InstallAttributeData (fun _ => true) 4 8 16 (MarshalAttribute [] "v" DataType.Float 4 3) =
      some [⟨"v".toList, DataType.Float, true⟩] ∧
    InstallAttributeData (fun _ => true) 4 8 16
      (MarshalAttribute (MarshalAttribute [] "x" DataType.Int32 4 (2 ^ 64 - 1))
        "v" DataType.Float 4 3) =
      some [⟨"x".toList, DataType.Int32, false⟩, ⟨"v".toList, DataType.Float, true⟩] := by
  refine ⟨fun Name Type_ ElemSize hn he hs =>
      ⟨NameIndicatesAttrArray_simple Name Type_.toNat ElemSize hn he,
        BreakdownVarName_simple Name Type_.toNat ElemSize he hs (DataType.toNat_lt Type_)⟩,
    NameIndicatesAttrArray_count, ?_⟩
  decide

/-! ### The loop over the `+` suffixes -/

theorem BreakdownV1ArrayName_loop_stuck (Name : List Char) (s : PlusState)
    (hc : BreakdownV1ArrayName.condition Name s = true)
    (hb : BreakdownV1ArrayName.body Name s = some s) :
    ∀ fuel, BreakdownV1ArrayName.loop Name fuel s = Run.outOfFuel
  | 0 => rfl
  | fuel + 1 => by
    rw [BreakdownV1ArrayName.loop, if_pos hc, hb]
    exact BreakdownV1ArrayName_loop_stuck Name s hc hb fuel

set_option maxRecDepth 100000 in
/-- Claim C40 at the name `BPG_4_5_temp+Z_Dims`, whose `+` suffix is neither an
operator spec nor `+MM`: at the `+`, index 12, the loop condition holds and the
body leaves `Plus` and the flags as they are, so the loop runs out of every
fuel and `BreakdownV1ArrayName` does not return. The same holds for `+-4O`,
where the body sets `Plus` to `index(Plus, 'O') + 1 - 4`, the `+` again. With the
suffix `+MM`, with an operator spec, and without a suffix the call returns. -/
theorem BreakdownV1ArrayName_unrecognized_suffix :
    BreakdownV1ArrayName.condition "BPG_4_5_temp+Z_Dims".toList ⟨some 12, false, false⟩ = true ∧
    BreakdownV1ArrayName.body "BPG_4_5_temp+Z_Dims".toList ⟨some 12, false, false⟩ =
      some ⟨some 12, false, false⟩ ∧
    (∀ fuel, BreakdownV1ArrayName fuel "BPG_4_5_temp+Z_Dims".toList false = Run.outOfFuel) ∧
    (∀ fuel, BreakdownV1ArrayName fuel "BPG_4_5_temp+-4O_Dims".toList false = Run.outOfFuel) ∧
    BreakdownV1ArrayName 2 "BPG_4_5_temp+MM_Dims".toList false =
      Run.done ("temp+MM".toList, 5, 4, false, true) ∧
    BreakdownV1ArrayName 3 "BPG_4_5_temp+3Oabc+MM_Dims".toList false =
      Run.done ("temp+3Oabc+MM".toList, 5, 4, true, true) ∧
    BreakdownV1ArrayName 1 "BPG_4_5_temp_Dims".toList false =
      Run.done ("temp".toList, 5, 4, false, false) := by
  refine ⟨by decide, by decide, ?_, ?_, by decide, by decide, by decide⟩
  · intro fuel
    have h := BreakdownV1ArrayName_loop_stuck "BPG_4_5_temp+Z_Dims".toList ⟨some 12, false, false⟩
      (by decide) (by decide) fuel
    have e : (strchr "BPG_4_5_temp+Z_Dims".toList '+').map
        (fun rest => "BPG_4_5_temp+Z_Dims".toList.length - rest.length) = some 12 := by decide
    have e4 : plusOffset "BPG_4_5_temp+Z_Dims".toList 4 = some "4_5_temp+Z_Dims".toList := by
      decide
    have e5 : strchr "4_5_temp+Z_Dims".toList '_' = some "_5_temp+Z_Dims".toList := by decide
    have e6 : strchr ("_5_temp+Z_Dims".toList.drop 1) '_' = some "_temp+Z_Dims".toList := by
      decide
    unfold BreakdownV1ArrayName
    rw [e4]
    dsimp only
    rw [e5]
    dsimp only
    rw [e6]
    dsimp only
    rw [e, h]
  · intro fuel
    have h : BreakdownV1ArrayName.loop "BPG_4_5_temp+-4O_Dims".toList fuel
        ⟨some 12, false, false⟩ = Run.outOfFuel := by
      cases fuel with
      | zero => rfl
      | succ fuel =>
        have hb : BreakdownV1ArrayName.body "BPG_4_5_temp+-4O_Dims".toList
            ⟨some 12, false, false⟩ = some ⟨some 12, true, false⟩ := by decide
        rw [BreakdownV1ArrayName.loop, if_pos (by decide), hb]
        exact BreakdownV1ArrayName_loop_stuck "BPG_4_5_temp+-4O_Dims".toList
          ⟨some 12, true, false⟩ (by decide) (by decide) fuel
    have e : (strchr "BPG_4_5_temp+-4O_Dims".toList '+').map
        (fun rest => "BPG_4_5_temp+-4O_Dims".toList.length - rest.length) = some 12 := by decide
    have e4 : plusOffset "BPG_4_5_temp+-4O_Dims".toList 4 = some "4_5_temp+-4O_Dims".toList := by
      decide
    have e5 : strchr "4_5_temp+-4O_Dims".toList '_' = some "_5_temp+-4O_Dims".toList := by
      decide
    have e6 : strchr ("_5_temp+-4O_Dims".toList.drop 1) '_' = some "_temp+-4O_Dims".toList := by
      decide
    unfold BreakdownV1ArrayName
    rw [e4]
    dsimp only
    rw [e5]
    dsimp only
    rw [e6]
    dsimp only
    rw [e, h]

end BP5
